import Mathlib

/-!
# tsMuxer `tsPacket.cpp`: PAT / PMT sections, CLPI clip information

A shallow embedding of the section and clip-information codecs of
`tsMuxer/tsPacket.cpp`, and theorems about them.

Conventions of the embedding

* a byte buffer is a `List Nat` (one entry per byte); a bit string is a
  `List Bool`, most significant bit first;
* machine integers are `Nat`, reduced `% 2 ^ w` where the source narrows them;
* `std::map<K, V>` is an association list kept in ascending key order
  (`StdMap.insert` is `operator[]` followed by assignment);
* output buffers are taken large enough for everything that is written, so the
  end-of-buffer signal of the bit writer never fires; the bit reader does
  signal the end of its input (`Exc.BitStreamException`).
-/

set_option autoImplicit false

namespace TsMuxer

/-! ## Bits and bytes -/

/-- The `n` low bits of `v`, most significant first. -/
def natBits : Nat → Nat → List Bool
  | 0, _ => []
  | n + 1, v => decide (v / 2 ^ n % 2 = 1) :: natBits n v

/-- Value of a bit string read most significant bit first. -/
def bitsToNat (bs : List Bool) : Nat :=
  bs.foldl (fun acc b => 2 * acc + (if b then 1 else 0)) 0

/-- The bits of a byte buffer, each byte most significant bit first. -/
def bytesToBits : List Nat → List Bool
  | [] => []
  | b :: bs => natBits 8 b ++ bytesToBits bs

/-- Packs a bit string into bytes; a trailing partial byte is completed with
zero bits. -/
def bitsToBytes : List Bool → List Nat
  | [] => []
  | b0 :: b1 :: b2 :: b3 :: b4 :: b5 :: b6 :: b7 :: rest =>
      bitsToNat [b0, b1, b2, b3, b4, b5, b6, b7] :: bitsToBytes rest
  | bs => [bitsToNat (bs ++ List.replicate (8 - bs.length) false)]

/-- The four bytes stored by `*p = my_htonl(v)` (big-endian, `v` taken as a
32-bit value). -/
def be32 (v : Nat) : List Nat :=
  [v / 2 ^ 24 % 256, v / 2 ^ 16 % 256, v / 2 ^ 8 % 256, v % 256]

/-- Overwrites `mem` from byte offset `pos` on with `bs`. -/
def storeAt (mem : List Nat) (pos : Nat) (bs : List Nat) : List Nat :=
  mem.take pos ++ bs ++ mem.drop (pos + bs.length)

/-! ## Exceptions -/

/-- Messages of the `THROW(ERR_COMMON, ...)` sites of `tsPacket.cpp`. -/
inductive ErrMsg
  /-- "CLPI is_ATC_delta is not implemented yet." -/
  | atcDeltaNotImplemented
  /-- "CLPI application_type==6 is not implemented yet." -/
  | applicationType6NotImplemented
  /-- "Can't create EP map. One audio or video stream is needed." -/
  | cantCreateEPMap
  /-- "Can't parse clip info file: unexpected end of data" -/
  | cantParseClipInfo
  /-- "Can't find stream index. One audio or video stream is needed." -/
  | cantFindStreamIndex
  /-- "Unsupported media type for AVCHD/Blu-ray muxing" -/
  | unsupportedMediaType
  /-- The empty message of `THROW(ERR_COMMON, "")` in `composeSTN_table`. -/
  | emptyMessage
  deriving DecidableEq, Repr

/-- The two exception types the file throws or lets through. -/
inductive Exc
  /-- `BitStreamException`: the bit reader ran past the end of its buffer. -/
  | BitStreamException
  /-- `VodCoreException` raised by `THROW(ERR_COMMON, msg)`. -/
  | VodCoreException (msg : ErrMsg)
  deriving DecidableEq, Repr

/-! ## Bit cursor (`bitStream.h`) -/

/-- Modelled from the spec: `BitStreamWriter` (`bitStream.h` is not part of the
sources at hand). The spec gives a sequential big-endian bit writer over a
buffer that tracks its absolute bit position. The state is the string of bits
written so far from the start of the buffer: byte `i` of the buffer holds bits
`8 i .. 8 i + 7`. -/
abbrev BitStreamWriter := List Bool

namespace BitStreamWriter

/-- `setBuffer(buffer, end)`: nothing written yet. -/
def setBuffer : BitStreamWriter := []

/-- `getBitsCount()`: number of bits written. -/
def getBitsCount (w : BitStreamWriter) : Nat := w.length

/-- `putBits(num, value)`: appends the `num` low bits of `value`. -/
def putBits (w : BitStreamWriter) (num value : Nat) : BitStreamWriter :=
  w ++ natBits num value

/-- `putBit(value)`. -/
def putBit (w : BitStreamWriter) (value : Nat) : BitStreamWriter :=
  putBits w 1 value

/-- `flushBits()`: commits pending bits to the buffer. Bits are committed as
they are written here, so nothing changes. -/
def flushBits (w : BitStreamWriter) : BitStreamWriter := w

/-- A big-endian store of `nbytes` bytes straight into the buffer at byte
offset `pos`, as in `*lengthPos = my_htonl(v)` with
`lengthPos = getBuffer() + pos`. -/
def store (w : BitStreamWriter) (pos nbytes v : Nat) : BitStreamWriter :=
  w.take (8 * pos) ++ natBits (8 * nbytes) v ++ w.drop (8 * pos + 8 * nbytes)

/-- The buffer contents, as bytes. -/
def bytes (w : BitStreamWriter) : List Nat := bitsToBytes w

end BitStreamWriter

/-- Modelled from the spec: `BitStreamReader` (`bitStream.h` is not part of the
sources at hand): a sequential big-endian bit reader; reading past the end of
the buffer fails. `bits` are the bits not yet consumed, `count` the number of
bits consumed. -/
structure BitStreamReader where
  bits : List Bool
  count : Nat
  deriving DecidableEq, Repr

namespace BitStreamReader

/-- `setBuffer(buffer, end)` over the bytes `buffer .. end`. -/
def setBuffer (buf : List Nat) : BitStreamReader := ⟨bytesToBits buf, 0⟩

/-- `getBitsCount()`: number of bits consumed. -/
def getBitsCount (r : BitStreamReader) : Nat := r.count

/-- `getBits(num)`. -/
def getBits (r : BitStreamReader) (num : Nat) : Except Exc (Nat × BitStreamReader) :=
  if num ≤ r.bits.length then
    .ok (bitsToNat (r.bits.take num), ⟨r.bits.drop num, r.count + num⟩)
  else .error Exc.BitStreamException

/-- `getBit()`. -/
def getBit (r : BitStreamReader) : Except Exc (Nat × BitStreamReader) := getBits r 1

/-- `skipBits(num)`. -/
def skipBits (r : BitStreamReader) (num : Nat) : Except Exc BitStreamReader :=
  if num ≤ r.bits.length then .ok ⟨r.bits.drop num, r.count + num⟩
  else .error Exc.BitStreamException

/-- `skipBit()`. -/
def skipBit (r : BitStreamReader) : Except Exc BitStreamReader := skipBits r 1

end BitStreamReader

/-! ## `std::map` -/

/-- `m[k] = v` on a `std::map` with integer keys, kept in ascending key
order. -/
def StdMap.insert {β : Type} (k : Nat) (v : β) : List (Nat × β) → List (Nat × β)
  | [] => [(k, v)]
  | (k', v') :: t =>
      if k < k' then (k, v) :: (k', v') :: t
      else if k = k' then (k, v) :: t
      else (k', v') :: StdMap.insert k v t

/-- The invariant of a `std::map`: keys strictly ascending. -/
def StdMap.Ordered {β : Type} (m : List (Nat × β)) : Prop :=
  (m.map Prod.fst).Pairwise (· < ·)

/-! ## PAT -/

/-- State of `TS_program_association_section`: `pmtPids` maps a PID to its
program number. -/
structure TS_program_association_section where
  transport_stream_id : Nat
  m_nitPID : Int
  pmtPids : List (Nat × Nat)
  deriving DecidableEq, Repr

namespace TS_program_association_section

open BitStreamWriter

/-- `TS_program_association_section::serialize`: the bits handed to the bit
writer (everything between the pointer field and the CRC). -/
def serializeBits (self : TS_program_association_section) : BitStreamWriter :=
  let w := BitStreamWriter.setBuffer
  let w := putBits w 8 0
  let w := putBits w 2 2  -- indicator
  let w := putBits w 2 3  -- reserved
  let section_length := (9 + self.pmtPids.length * 4) % 2 ^ 32
  let w := putBits w 12 section_length
  let w := putBits w 16 self.transport_stream_id
  let w := putBits w 2 3  -- reserved
  let w := putBits w 5 0  -- version
  let w := putBits w 1 1  -- current next indicator
  let w := putBits w 16 0  -- section and last section number
  let w := self.pmtPids.foldl
    (fun w e =>
      let w := putBits w 16 e.2  -- program number
      let w := putBits w 3 7
      putBits w 13 e.1)  -- pid
    w
  flushBits w

/-- `TS_program_association_section::serialize(buffer, buf_size)`: the buffer
contents from `buffer[0]` on and the returned length. `calculateCRC32` is the
CRC routine of `crc32.h`, taken as given. -/
def serialize (calculateCRC32 : List Nat → Nat) (self : TS_program_association_section) :
    List Nat × Nat :=
  let w := serializeBits self
  let crc := calculateCRC32 (w.bytes.take (w.getBitsCount / 8))
  (0 :: storeAt w.bytes (w.getBitsCount / 8) (be32 crc), w.getBitsCount / 8 + 5)

/-- The `while (bitReader.getBitsCount() < crcBit)` loop of `deserialize`.
Every round consumes 32 bits, so `fuel` bounds the rounds when it is at least
the number of bits left. -/
def deserializeLoop (crcBit : Int) :
    Nat → BitStreamReader → TS_program_association_section →
      Except Exc (BitStreamReader × TS_program_association_section)
  | 0, r, self => .ok (r, self)
  | fuel + 1, r, self =>
      if (r.getBitsCount : Int) < crcBit then do
        let (program_number, r) ← r.getBits 16
        let r ← r.skipBits 3  -- reserved
        let (program_pid, r) ← r.getBits 13
        let self :=
          if program_number ≠ 0 then  -- not a network pid
            { self with pmtPids := StdMap.insert program_pid program_number self.pmtPids }
          else { self with m_nitPID := program_pid }
        deserializeLoop crcBit fuel r self
      else .ok (r, self)

/-- `TS_program_association_section::deserialize(buffer, buf_size)`; `buffer`
is the memory from the pointer on. The `catch (BitStreamReader&)` clause of the
source does not match the reader's `BitStreamException`, which therefore
leaves the function. -/
def deserialize (self : TS_program_association_section) (buffer : List Nat) (buf_size : Nat) :
    Except Exc (Bool × TS_program_association_section) := do
  let self := { self with m_nitPID := -1 }
  let buffer := buffer.drop 1
  let bitReader := BitStreamReader.setBuffer (buffer.take buf_size)
  let (table_id, bitReader) ← bitReader.getBits 8
  if table_id ≠ 0 then return (false, self)
  let (indicator, bitReader) ← bitReader.getBits 2
  if indicator ≠ 2 then return (false, self)
  let bitReader ← bitReader.skipBits 2  -- reserved
  let (section_length, bitReader) ← bitReader.getBits 12
  let crcBit : Int := (bitReader.getBitsCount : Int) + ((section_length : Int) - 4) * 8
  let (tsid, bitReader) ← bitReader.getBits 16
  let self := { self with transport_stream_id := tsid }
  let bitReader ← bitReader.skipBits 2  -- reserved
  let bitReader ← bitReader.skipBits 5  -- version_number
  let bitReader ← bitReader.skipBit  -- current_next_indicator
  let bitReader ← bitReader.skipBits 8  -- section_number
  let bitReader ← bitReader.skipBits 8  -- last_section_number
  let self := { self with pmtPids := [] }
  let (bitReader, self) ← deserializeLoop crcBit (bitReader.bits.length + 1) bitReader self
  return (decide ((bitReader.getBitsCount : Int) = crcBit), self)

end TS_program_association_section

/-! ## PMT -/

/-- The enumerators of `TSDescriptorTag` used by `tsPacket.cpp`. The enumeration
is declared in a header that is not part of the sources at hand, so the
numeric values are parameters of the embedding. -/
structure TSDescriptorTagCodes where
  HDMV : Nat
  COPY_CONTROL : Nat
  CAS : Nat
  LANG : Nat
  deriving DecidableEq, Repr

/-- The enumerators of `StreamType` used by `tsPacket.cpp`; a `StreamType`
value is its underlying integer. The enumeration is declared in a header that
is not part of the sources at hand, so the numeric values are parameters of
the embedding. -/
structure StreamTypeCodes where
  VIDEO_MPEG1 : Nat
  VIDEO_MPEG2 : Nat
  VIDEO_MPEG4 : Nat
  VIDEO_H264 : Nat
  VIDEO_MVC : Nat
  VIDEO_H265 : Nat
  VIDEO_H266 : Nat
  VIDEO_VC1 : Nat
  AUDIO_MPEG1 : Nat
  AUDIO_MPEG2 : Nat
  AUDIO_AAC : Nat
  AUDIO_AAC_RAW : Nat
  AUDIO_LPCM : Nat
  AUDIO_AC3 : Nat
  AUDIO_EAC3 : Nat
  AUDIO_EAC3_ATSC : Nat
  AUDIO_EAC3_SECONDARY : Nat
  AUDIO_DTS : Nat
  AUDIO_DTS_HD : Nat
  AUDIO_DTS_HD_MA : Nat
  AUDIO_DTS_HD_SECONDARY : Nat
  AUDIO_TRUE_HD : Nat
  SUB_PGS : Nat
  SUB_IGS : Nat
  SUB_TGS : Nat
  SUB_DVB : Nat
  deriving DecidableEq, Repr

/-- `isVideoStreamType`. -/
def isVideoStreamType (E : StreamTypeCodes) (stream_coding_type : Nat) : Bool :=
  stream_coding_type = E.VIDEO_MPEG2 || stream_coding_type = E.VIDEO_H264 ||
  stream_coding_type = E.VIDEO_VC1 || stream_coding_type = E.VIDEO_MVC ||
  stream_coding_type = E.VIDEO_H265 || stream_coding_type = E.VIDEO_H266

/-- `isAudioStreamType`. -/
def isAudioStreamType (E : StreamTypeCodes) (stream_coding_type : Nat) : Bool :=
  stream_coding_type = E.AUDIO_LPCM || stream_coding_type = E.AUDIO_AC3 ||
  stream_coding_type = E.AUDIO_DTS || stream_coding_type = E.AUDIO_TRUE_HD ||
  stream_coding_type = E.AUDIO_EAC3 || stream_coding_type = E.AUDIO_EAC3_ATSC ||
  stream_coding_type = E.AUDIO_DTS_HD || stream_coding_type = E.AUDIO_DTS_HD_MA ||
  stream_coding_type = E.AUDIO_EAC3_SECONDARY || stream_coding_type = E.AUDIO_DTS_HD_SECONDARY ||
  stream_coding_type = E.AUDIO_AAC || stream_coding_type = E.AUDIO_AAC_RAW ||
  stream_coding_type = E.AUDIO_MPEG1 || stream_coding_type = E.AUDIO_MPEG2

/-- `get16(&p)` of the anonymous namespace: the big-endian 16-bit value at
`p` and the advanced pointer. Memory outside the list reads as 0. -/
def get16 (mem : List Nat) (p : Nat) : Nat × Nat :=
  ((mem.getD p 0 <<< 8) ||| mem.getD (p + 1) 0, p + 2)

/-- The fields of `PMTStreamInfo` that `tsPacket.cpp` touches. `m_lang` is the
`char[4]` language buffer. -/
structure PMTStreamInfo where
  m_streamType : Nat
  m_pid : Nat
  m_esInfoData : List Nat
  m_esInfoLen : Nat
  m_lang : List Nat
  deriving DecidableEq, Repr

/-- Modelled from the spec: the constructor call
`PMTStreamInfo(stream_type, elementary_pid, nullptr, 0, nullptr, "", false)`
(the class is declared in a header that is not part of the sources at hand):
no descriptor bytes and an empty language code. -/
def PMTStreamInfo.create (stream_type elementary_pid : Nat) : PMTStreamInfo :=
  ⟨stream_type, elementary_pid, [], 0, [0, 0, 0, 0]⟩

/-- State of `TS_program_map_section`; `pidList` maps a PID to its stream. -/
structure TS_program_map_section where
  video_pid : Nat
  audio_pid : Nat
  sub_pid : Nat
  pcr_pid : Nat
  casPID : Nat
  casID : Nat
  program_number : Nat
  video_type : Int
  audio_type : Int
  pidList : List (Nat × PMTStreamInfo)
  deriving DecidableEq, Repr

namespace TS_program_map_section

open BitStreamWriter

/-- The constructor `TS_program_map_section::TS_program_map_section()`. -/
def create : TS_program_map_section :=
  { video_pid := 0, audio_pid := 0, sub_pid := 0, pcr_pid := 0, casPID := 0, casID := 0,
    program_number := 0, video_type := -1, audio_type := -1, pidList := [] }

/-- The loop of `extractPMTDescriptors`; every round advances `curPos` by at
least 2, so `fuel` rounds suffice when `fuel` is the length of the area. -/
def extractPMTDescriptorsLoop (T : TSDescriptorTagCodes) (mem : List Nat) (end_ : Nat) :
    Nat → Nat → TS_program_map_section → TS_program_map_section
  | 0, _, self => self
  | fuel + 1, curPos, self =>
      if curPos < end_ then
        let tag := mem.getD curPos 0
        let len := mem.getD (curPos + 1) 0
        let curPos := curPos + 2
        let self :=
          if tag = T.CAS ∧ len ≥ 4 then
            { self with
              casID := (mem.getD curPos 0 <<< 8) + mem.getD (curPos + 1) 0
              casPID := ((mem.getD (curPos + 2) 0 &&& 0x0f) <<< 8) + mem.getD (curPos + 3) 0 }
          else self
        extractPMTDescriptorsLoop T mem end_ fuel (curPos + len) self
      else self

/-- `TS_program_map_section::extractPMTDescriptors(curPos, es_info_len)`. -/
def extractPMTDescriptors (T : TSDescriptorTagCodes) (self : TS_program_map_section)
    (mem : List Nat) (curPos es_info_len : Nat) : TS_program_map_section :=
  extractPMTDescriptorsLoop T mem (curPos + es_info_len) es_info_len curPos self

/-- The loop of `extractDescriptors`. -/
def extractDescriptorsLoop (T : TSDescriptorTagCodes) (mem : List Nat) (end_ : Nat) :
    Nat → Nat → PMTStreamInfo → PMTStreamInfo
  | 0, _, pmtInfo => pmtInfo
  | fuel + 1, curPos, pmtInfo =>
      if curPos < end_ then
        let tag := mem.getD curPos 0
        let len := mem.getD (curPos + 1) 0
        let curPos := curPos + 2
        let descrBuf := curPos
        let pmtInfo :=
          if tag = T.LANG then
            { pmtInfo with
              m_lang := (List.range 3).foldl
                (fun l i => l.set i (mem.getD (descrBuf + i) 0)) pmtInfo.m_lang }
          else pmtInfo
        extractDescriptorsLoop T mem end_ fuel (curPos + len) pmtInfo
      else pmtInfo

/-- `TS_program_map_section::extractDescriptors(curPos, es_info_len, pmtInfo)`. -/
def extractDescriptors (T : TSDescriptorTagCodes) (mem : List Nat) (curPos es_info_len : Nat)
    (pmtInfo : PMTStreamInfo) : PMTStreamInfo :=
  extractDescriptorsLoop T mem (curPos + es_info_len) es_info_len curPos pmtInfo

/-- The `switch (stream_type)` in the stream loop of `deserialize`. -/
def deserializeSwitch (E : StreamTypeCodes) (self : TS_program_map_section)
    (stream_type elementary_pid : Nat) : TS_program_map_section :=
  if stream_type = E.VIDEO_MPEG1 ∨ stream_type = E.VIDEO_MPEG2 ∨
      stream_type = E.VIDEO_MPEG4 ∨ stream_type = E.VIDEO_H264 ∨
      stream_type = E.VIDEO_H265 ∨ stream_type = E.VIDEO_MVC ∨
      stream_type = E.VIDEO_VC1 then
    { self with video_pid := elementary_pid, video_type := stream_type }
  else if stream_type = E.AUDIO_MPEG1 ∨ stream_type = E.AUDIO_MPEG2 ∨
      stream_type = E.AUDIO_AAC ∨ stream_type = E.AUDIO_AC3 ∨
      stream_type = E.AUDIO_EAC3 ∨ stream_type = E.AUDIO_EAC3_ATSC ∨
      stream_type = E.AUDIO_DTS then
    { self with audio_pid := elementary_pid, audio_type := stream_type }
  else if stream_type = E.SUB_DVB then
    { self with sub_pid := elementary_pid }
  else self

/-- The `while (curPos < crcPos)` loop of `deserialize`: `(false, _, _)` is the
`return false` inside the loop, `(true, curPos, self)` is the state at loop
exit. Every round advances `curPos` by at least 5. -/
def deserializeLoop (E : StreamTypeCodes) (T : TSDescriptorTagCodes) (mem : List Nat)
    (crcPos : Nat) : Nat → Nat → TS_program_map_section → Bool × Nat × TS_program_map_section
  | 0, curPos, self => (true, curPos, self)
  | fuel + 1, curPos, self =>
      if curPos < crcPos then
        let stream_type := mem.getD curPos 0
        let curPos := curPos + 1
        let elementary_pid := (get16 mem curPos).1 &&& 0x1fff
        let curPos := (get16 mem curPos).2
        let self := deserializeSwitch E self stream_type elementary_pid
        let pmtStreamInfo := PMTStreamInfo.create stream_type elementary_pid
        let es_info_len := (get16 mem curPos).1 &&& 0xfff
        let curPos := (get16 mem curPos).2
        if curPos + es_info_len > crcPos then (false, curPos, self)
        else
          let pmtStreamInfo := extractDescriptors T mem curPos es_info_len pmtStreamInfo
          let self := { self with pidList := StdMap.insert elementary_pid pmtStreamInfo self.pidList }
          deserializeLoop E T mem crcPos fuel (curPos + es_info_len) self
      else (true, curPos, self)

/-- `TS_program_map_section::deserialize(buffer, buf_size)`: the returned flag
and the state of the object afterwards. `buffer` is the memory from the
pointer on (bytes outside the list read as 0). A `BitStreamException` of the
reader is caught and turned into `false`. -/
def deserialize (E : StreamTypeCodes) (T : TSDescriptorTagCodes) (self : TS_program_map_section)
    (buffer : List Nat) (buf_size : Nat) : Bool × TS_program_map_section :=
  if buf_size < 1 then (false, self)
  else
    let pointerField := buffer.getD 0 0
    let bufferEnd := buf_size
    let start := 1 + pointerField
    let bitReader := BitStreamReader.setBuffer ((buffer.take buf_size).drop start)
    match bitReader.getBits 8 with
    | .error _ => (false, self)
    | .ok (table_id, bitReader) =>
    if table_id ≠ 0x02 then (false, self)
    else
    match bitReader.getBits 2 with
    | .error _ => (false, self)
    | .ok (indicator, bitReader) =>
    if indicator ≠ 2 then (false, self)
    else
    match bitReader.skipBits 2 with
    | .error _ => (false, self)
    | .ok bitReader =>
    match bitReader.getBits 12 with
    | .error _ => (false, self)
    | .ok (section_length, bitReader) =>
    -- `crcPos` as an offset into `buffer`
    let crcPos := start + bitReader.getBitsCount / 8 + section_length - 4
    if crcPos > bufferEnd then (false, self)
    else
    match bitReader.getBits 16 with
    | .error _ => (false, self)
    | .ok (program_number, bitReader) =>
    let self := { self with program_number := program_number }
    match bitReader.skipBits 27 with
    | .error _ => (false, self)
    | .ok bitReader =>
    match bitReader.getBits 13 with
    | .error _ => (false, self)
    | .ok (pcr_pid, bitReader) =>
    let self := { self with pcr_pid := pcr_pid }
    let self := { self with video_pid := self.pcr_pid }
    match bitReader.skipBits 4 with
    | .error _ => (false, self)
    | .ok bitReader =>
    match bitReader.getBits 12 with
    | .error _ => (false, self)
    | .ok (program_info_len, bitReader) =>
    let curPos := start + bitReader.getBitsCount / 8
    if curPos + program_info_len + 4 > bufferEnd then (false, self)
    else
    let self := extractPMTDescriptors T self buffer curPos program_info_len
    let curPos := curPos + program_info_len
    let r := deserializeLoop E T buffer crcPos (crcPos - curPos) curPos self
    if r.1 = false then (false, r.2.2)
    else if r.2.1 ≠ crcPos then (false, r.2.2)
    else (true, r.2.2)

/-- The body of the `for (const auto& [pid, si] : pidList)` loop of
`serialize`. -/
def serializeStream (T : TSDescriptorTagCodes) (blurayMode : Bool) (w : BitStreamWriter)
    (si : PMTStreamInfo) : BitStreamWriter :=
  let w := putBits w 8 si.m_streamType
  let w := putBits w 3 7  -- reserved
  let w := putBits w 13 si.m_pid
  let esInfoLen := getBitsCount w / 8
  let w := putBits w 4 15  -- reserved
  let w := putBits w 12 0  -- es_info_len
  let beforeCount := getBitsCount w / 8
  let w := (List.range si.m_esInfoLen).foldl (fun w j => putBits w 8 (si.m_esInfoData.getD j 0)) w
  let w :=
    if si.m_lang.getD 0 0 ≠ 0 ∧ ¬ blurayMode then
      let w := putBits w 8 T.LANG  -- lang descriptor ID
      let w := putBits w 8 4  -- lang descriptor len
      let w := (List.range 3).foldl (fun w k => putBits w 8 (si.m_lang.getD k 0)) w
      putBits w 8 0
    else w
  store w esInfoLen 2 ((0xf000 + getBitsCount w / 8 - beforeCount) % 2 ^ 16)

/-- `TS_program_map_section::serialize`: the contents of the bit writer's
buffer (everything between the pointer field and the CRC). -/
def serializeBits (E : StreamTypeCodes) (T : TSDescriptorTagCodes) (self : TS_program_map_section)
    (blurayMode hdmvDescriptors : Bool) : BitStreamWriter :=
  let w := BitStreamWriter.setBuffer
  let w := putBits w 8 2  -- table id
  let LengthPos1 := getBitsCount w / 8
  let w := putBits w 2 2  -- indicator
  let w := putBits w 2 3  -- reserved
  let w := putBits w 12 0  -- length
  let beforeCount1 := getBitsCount w / 8
  let w := putBits w 16 self.program_number
  let w := putBits w 2 3  -- reserved
  let w := putBits w 5 0  -- version_number
  let w := putBits w 1 1  -- current next indicator
  let w := putBits w 16 0  -- section_number and last_section_number
  let w := putBits w 3 7  -- reserved
  let w := putBits w 13 self.pcr_pid
  let LengthPos2 := getBitsCount w / 8
  let w := putBits w 4 15  -- reserved
  let w := putBits w 12 0  -- program info len
  let beforeCount2 := getBitsCount w / 8
  let w :=
    if hdmvDescriptors then
      -- 'HDMV' registration descriptor
      let w := putBits w 8 (T.HDMV % 256)
      let w := putBits w 8 0x04
      let w := putBits w 32 0x48444d56
      -- DTCP descriptor
      let w := putBits w 8 (T.COPY_CONTROL % 256)
      let w := putBits w 8 0x04
      putBits w 32 0x0ffffcfc
    else w
  let w :=
    if self.casPID ≠ 0 then
      -- CAS descriptor
      let w := putBits w 8 (T.CAS % 256)
      let w := putBits w 8 0x04
      let w := putBits w 16 self.casID
      putBits w 16 self.casPID
    else w
  let w := store w LengthPos2 2 ((0xf000 + getBitsCount w / 8 - beforeCount2) % 2 ^ 16)
  let w :=
    if self.video_pid ≠ 0 then
      let w := putBits w 8 (self.video_type % 2 ^ 32).toNat
      let w := putBits w 3 7  -- reserved
      let w := putBits w 13 self.video_pid
      let w := putBits w 4 15  -- reserved
      putBits w 12 0  -- es_info_len
    else w
  let w :=
    if self.audio_pid ≠ 0 then
      let w := putBits w 8 (self.audio_type % 2 ^ 32).toNat
      let w := putBits w 3 7  -- reserved
      let w := putBits w 13 self.audio_pid
      let w := putBits w 4 15  -- reserved
      putBits w 12 0  -- es_info_len
    else w
  let w :=
    if self.sub_pid ≠ 0 then
      let w := putBits w 8 (E.SUB_DVB % 256)
      let w := putBits w 3 7  -- reserved
      let w := putBits w 13 self.sub_pid
      let w := putBits w 4 15  -- reserved
      putBits w 12 0  -- es_info_len
    else w
  let w := self.pidList.foldl (fun w e => serializeStream T blurayMode w e.2) w
  let w := store w LengthPos1 2 ((0xb000 + getBitsCount w / 8 - beforeCount1 + 4) % 2 ^ 16)
  flushBits w

/-- `TS_program_map_section::serialize(buffer, max_buf_size, blurayMode,
hdmvDescriptors)`: the buffer contents from `buffer[0]` on and the returned
length. `calculateCRC32` is the CRC routine of `crc32.h`, taken as given. -/
def serialize (calculateCRC32 : List Nat → Nat) (E : StreamTypeCodes) (T : TSDescriptorTagCodes)
    (self : TS_program_map_section) (blurayMode hdmvDescriptors : Bool) : List Nat × Nat :=
  let w := serializeBits E T self blurayMode hdmvDescriptors
  let crc := calculateCRC32 (w.bytes.take (w.getBitsCount / 8))
  (0 :: storeAt w.bytes (w.getBitsCount / 8) (be32 crc), w.getBitsCount / 8 + 5)

end TS_program_map_section

/-! ## CLPI: stream coding info -/

/-- Constants of the muxer that `tsPacket.cpp` uses and that are defined
elsewhere in the repository; their values are parameters of the embedding. -/
structure MuxConstants where
  DEFAULT_PMT_PID : Nat
  DEFAULT_PCR_PID : Nat
  deriving DecidableEq, Repr

/-- One entry of a `PMTIndex`: `m_pktCnt` is a 32-bit packet count, `m_frameLen`
a signed frame length. -/
structure PMTIndexData where
  m_pktCnt : Nat
  m_frameLen : Int
  deriving DecidableEq, Repr

/-- A `PMTIndex` (`std::map` from presentation time stamp to `PMTIndexData`),
in ascending order of time stamp. -/
abbrev PMTIndex := List (Nat × PMTIndexData)

/-- The fields of `CLPIStreamInfo` (with its base `M2TSStreamInfo`) that
`tsPacket.cpp` touches. Character buffers are lists of character codes. -/
structure CLPIStreamInfo where
  streamPID : Nat
  stream_coding_type : Nat
  video_format : Nat
  frame_rate_index : Nat
  aspect_ratio_index : Nat
  HDR : Nat
  audio_presentation_type : Nat
  sampling_frequency_index : Nat
  character_code : Nat
  language_code : List Nat
  country_code : List Nat
  copyright_holder : List Nat
  recording_year : List Nat
  recording_number : List Nat
  isSecondary : Bool
  m_index : List PMTIndex
  deriving DecidableEq, Repr

namespace CLPIStreamInfo

open BitStreamWriter

/-- Modelled from the spec: `CLPIStreamInfo::readString(dest, reader, size)`
(its body is not part of the sources at hand): reads `size` characters of 8
bits each; the result is the string read. -/
def readString : Nat → BitStreamReader → Except Exc (List Nat × BitStreamReader)
  | 0, reader => .ok ([], reader)
  | size + 1, reader => do
      let (c, reader) ← reader.getBits 8
      let (cs, reader) ← readString size reader
      pure (c :: cs, reader)

/-- Modelled from the spec: `CLPIStreamInfo::writeString(str, writer, size)`
(its body is not part of the sources at hand): writes the first `size`
characters of `str`, 8 bits each (characters past the end of the list read
as 0). -/
def writeString (str : List Nat) (writer : BitStreamWriter) (size : Nat) : BitStreamWriter :=
  (List.range size).foldl (fun w i => putBits w 8 (str.getD i 0)) writer

/-- `CLPIStreamInfo::ISRC(reader)`. -/
def ISRC (self : CLPIStreamInfo) (reader : BitStreamReader) :
    Except Exc (CLPIStreamInfo × BitStreamReader) := do
  let (country_code, reader) ← readString 2 reader
  let (copyright_holder, reader) ← readString 3 reader
  let (recording_year, reader) ← readString 2 reader
  let (recording_number, reader) ← readString 5 reader
  pure ({ self with
    country_code := country_code, copyright_holder := copyright_holder,
    recording_year := recording_year, recording_number := recording_number }, reader)

/-- `CLPIStreamInfo::composeISRC(writer)`; `0x30` is the character `'0'`. -/
def composeISRC (writer : BitStreamWriter) : BitStreamWriter :=
  let writer := writeString [0x30, 0x30] writer 2  -- country_code
  let writer := writeString [0x30, 0x30, 0x30] writer 3  -- copyright_holder
  let writer := writeString [0x30, 0x30] writer 2  -- recording_year
  writeString [0x30, 0x30, 0x30, 0x30, 0x30] writer 5  -- recording_number

/-- `CLPIStreamInfo::parseStreamCodingInfo(reader)`. -/
def parseStreamCodingInfo (E : StreamTypeCodes) (self : CLPIStreamInfo)
    (reader : BitStreamReader) : Except Exc (CLPIStreamInfo × BitStreamReader) := do
  let reader ← reader.skipBits 8  -- length
  let (stream_coding_type, reader) ← reader.getBits 8
  let self := { self with stream_coding_type := stream_coding_type }
  if isVideoStreamType E self.stream_coding_type then
    let (video_format, reader) ← reader.getBits 4
    let (frame_rate_index, reader) ← reader.getBits 4
    let (aspect_ratio_index, reader) ← reader.getBits 4
    let self := { self with
      video_format := video_format, frame_rate_index := frame_rate_index,
      aspect_ratio_index := aspect_ratio_index }
    let reader ← reader.skipBits 20  -- reserved_for_future_use, cc_flag
    let (self, reader) ← ISRC self reader
    let reader ← reader.skipBits 32  -- reserved_for_future_use
    pure (self, reader)
  else if isAudioStreamType E self.stream_coding_type then
    let (audio_presentation_type, reader) ← reader.getBits 4
    let (sampling_frequency_index, reader) ← reader.getBits 4
    let (language_code, reader) ← readString 3 reader
    let self := { self with
      audio_presentation_type := audio_presentation_type,
      sampling_frequency_index := sampling_frequency_index, language_code := language_code }
    let (self, reader) ← ISRC self reader
    let reader ← reader.skipBits 32
    pure (self, reader)
  else if self.stream_coding_type = E.SUB_PGS ∨ self.stream_coding_type = E.SUB_IGS then
    let (language_code, reader) ← readString 3 reader
    let self := { self with language_code := language_code }
    let reader ← reader.skipBits 8  -- reserved_for_future_use
    let (self, reader) ← ISRC self reader
    let reader ← reader.skipBits 32  -- reserved_for_future_use
    pure (self, reader)
  else if self.stream_coding_type = E.SUB_TGS then
    -- Text subtitle stream
    let (character_code, reader) ← reader.getBits 8
    let (language_code, reader) ← readString 3 reader
    let self := { self with character_code := character_code, language_code := language_code }
    let (self, reader) ← ISRC self reader
    let reader ← reader.skipBits 32  -- reserved_for_future_use
    pure (self, reader)
  else pure (self, reader)

/-- `CLPIStreamInfo::composeStreamCodingInfo(writer)`. -/
def composeStreamCodingInfo (E : StreamTypeCodes) (self : CLPIStreamInfo)
    (writer : BitStreamWriter) : BitStreamWriter :=
  let lengthPos := getBitsCount writer / 8
  let writer := putBits writer 8 0  -- length
  let beforeCount := getBitsCount writer / 8
  let writer := putBits writer 8 self.stream_coding_type
  let writer :=
    if isVideoStreamType E self.stream_coding_type then
      let writer := putBits writer 4 self.video_format
      let writer := putBits writer 4 self.frame_rate_index
      let writer := putBits writer 4 self.aspect_ratio_index
      let writer := putBits writer 2 0  -- reserved_for_future_use
      let writer := putBit writer 0  -- cc_flag
      let writer := putBit writer 0  -- reserved
      let writer :=
        if self.HDR &&& 18 ≠ 0 then putBits writer 8 0x12  -- HDR10 or HDR10plus
        else if self.HDR = 4 then putBits writer 8 0x22  -- DV
        else putBits writer 8 0
      let writer :=
        if self.HDR = 16 then putBits writer 8 0x80  -- HDR10plus
        else putBits writer 8 0
      let writer := composeISRC writer
      putBits writer 32 0  -- reserved_for_future_use
    else if isAudioStreamType E self.stream_coding_type then
      let writer := putBits writer 4 self.audio_presentation_type
      let writer := putBits writer 4 self.sampling_frequency_index
      let writer := writeString self.language_code writer 3
      let writer := composeISRC writer
      putBits writer 32 0  -- reserved_for_future_use
    else if self.stream_coding_type = E.SUB_PGS ∨ self.stream_coding_type = E.SUB_IGS then
      let writer := writeString self.language_code writer 3
      let writer := putBits writer 8 0  -- reserved_for_future_use
      let writer := composeISRC writer
      putBits writer 32 0  -- reserved_for_future_use
    else if self.stream_coding_type = E.SUB_TGS then
      -- Text subtitle stream
      let writer := putBits writer 8 self.character_code
      let writer := writeString self.language_code writer 3
      let writer := composeISRC writer
      putBits writer 32 0  -- reserved_for_future_use
    else writer
  store writer lengthPos 1 ((getBitsCount writer / 8 - beforeCount) % 2 ^ 8)

end CLPIStreamInfo

/-! ## CLPI: the clip information file -/

/-- One element of `m_programInfo`. -/
structure CLPIProgramInfo where
  SPN_program_sequence_start : Nat
  program_map_PID : Nat
  number_of_streams_in_ps : Nat
  deriving DecidableEq, Repr

/-- One coarse entry of the EP map. -/
structure BluRayCoarseInfo where
  m_coarsePts : Nat
  m_fineRefID : Nat
  m_pktCnt : Nat
  deriving DecidableEq, Repr

/-- State of `CLPIParser`. `is4K` is the value of `is4K()`, which is defined
outside `tsPacket.cpp`. -/
structure CLPIParser where
  type_indicator : List Nat
  version_number : List Nat
  clip_stream_type : Nat
  application_type : Nat
  is_ATC_delta : Bool
  TS_recording_rate : Nat
  number_of_source_packets : Nat
  format_identifier : List Nat
  presentation_start_time : Nat
  presentation_end_time : Nat
  m_programInfo : List CLPIProgramInfo
  m_programInfoMVC : List CLPIProgramInfo
  m_streamInfo : List (Nat × CLPIStreamInfo)
  m_streamInfoMVC : List (Nat × CLPIStreamInfo)
  SPN_extent_start : List Nat
  interleaveInfo : List Nat
  m_clpiNum : Nat
  isDependStream : Bool
  is4K : Bool
  deriving DecidableEq, Repr

namespace CLPIParser

open BitStreamWriter

/-- The inner loop of `parseProgramInfo`, over the streams of one program
sequence. `fresh` is a default-constructed `CLPIStreamInfo` (its constructor
is not part of the sources at hand). -/
def parseProgramInfoStreams (E : StreamTypeCodes) (fresh : CLPIStreamInfo) :
    Nat → BitStreamReader → List (Nat × CLPIStreamInfo) →
      Except Exc (BitStreamReader × List (Nat × CLPIStreamInfo))
  | 0, reader, streamInfoMap => .ok (reader, streamInfoMap)
  | n + 1, reader, streamInfoMap => do
      let (pid, reader) ← reader.getBits 16
      let streamInfo := fresh
      let (streamInfo, reader) ← streamInfo.parseStreamCodingInfo E reader
      let streamInfoMap := StdMap.insert pid streamInfo streamInfoMap
      parseProgramInfoStreams E fresh n reader streamInfoMap

/-- The outer loop of `parseProgramInfo`, over the program sequences `i`,
`i + 1`, ... -/
def parseProgramInfoSequences (E : StreamTypeCodes) (fresh : CLPIStreamInfo) :
    Nat → Nat → BitStreamReader → List CLPIProgramInfo → List (Nat × CLPIStreamInfo) →
      Except Exc (List CLPIProgramInfo × List (Nat × CLPIStreamInfo))
  | 0, _, _, programInfoMap, streamInfoMap => .ok (programInfoMap, streamInfoMap)
  | n + 1, i, reader, programInfoMap, streamInfoMap => do
      let programInfoMap := programInfoMap ++ [⟨0, 0, 0⟩]
      let (v, reader) ← reader.getBits 32
      let programInfoMap :=
        programInfoMap.modify (fun p => { p with SPN_program_sequence_start := v }) i
      let (v, reader) ← reader.getBits 16
      let programInfoMap := programInfoMap.modify (fun p => { p with program_map_PID := v }) i
      let (v, reader) ← reader.getBits 8
      let programInfoMap :=
        programInfoMap.modify (fun p => { p with number_of_streams_in_ps := v }) i
      let reader ← reader.skipBits 8
      let (reader, streamInfoMap) ← parseProgramInfoStreams E fresh
        ((programInfoMap.getD i ⟨0, 0, 0⟩).number_of_streams_in_ps) reader streamInfoMap
      parseProgramInfoSequences E fresh n (i + 1) reader programInfoMap streamInfoMap

/-- `CLPIParser::parseProgramInfo(buffer, end, programInfoMap, streamInfoMap)`;
`buffer` holds the bytes `buffer .. end`. -/
def parseProgramInfo (E : StreamTypeCodes) (fresh : CLPIStreamInfo) (buffer : List Nat)
    (programInfoMap : List CLPIProgramInfo) (streamInfoMap : List (Nat × CLPIStreamInfo)) :
    Except Exc (List CLPIProgramInfo × List (Nat × CLPIStreamInfo)) := do
  let reader := BitStreamReader.setBuffer buffer
  let reader ← reader.skipBits 32  -- length
  let reader ← reader.skipBits 8  -- reserved_for_word_align
  let (number_of_program_sequences, reader) ← reader.getBits 8
  parseProgramInfoSequences E fresh number_of_program_sequences 0 reader programInfoMap
    streamInfoMap

/-- The test `streamOK` of `composeProgramInfo`. -/
def streamOK (E : StreamTypeCodes) (isSsExt : Bool) (si : CLPIStreamInfo) : Bool :=
  (isSsExt && si.stream_coding_type = E.VIDEO_MVC) ||
    (!isSsExt && si.stream_coding_type ≠ E.VIDEO_MVC)

/-- `CLPIParser::composeProgramInfo(writer, isSsExt)`. -/
def composeProgramInfo (E : StreamTypeCodes) (K : MuxConstants) (self : CLPIParser)
    (writer : BitStreamWriter) (isSsExt : Bool) : BitStreamWriter :=
  let lengthPos := getBitsCount writer / 8
  let writer := putBits writer 32 0  -- length
  let beforeCount := getBitsCount writer / 8
  let writer := putBits writer 8 0  -- reserved
  let writer := putBits writer 8 1  -- number_of_program_sequences = 1
  let writer := putBits writer 32 0  -- SPN_program_sequence_start
  let writer := putBits writer 16 K.DEFAULT_PMT_PID  -- program_map_PID
  let streams := self.m_streamInfo.foldl
    (fun streams e => if streamOK E isSsExt e.2 then streams + 1 else streams) 0
  let writer := putBits writer 8 streams  -- number_of_streams_in_ps
  let writer := putBits writer 8 0  -- reserved_for_future_use
  let writer := self.m_streamInfo.foldl
    (fun writer e =>
      if !streamOK E isSsExt e.2 then writer
      else
        let writer := putBits writer 16 e.1  -- pid
        e.2.composeStreamCodingInfo E writer)
    writer
  let writer :=
    if isSsExt ∧ getBitsCount writer % 32 ≠ 0 then putBits writer 16 0 else writer
  store writer lengthPos 4 ((getBitsCount writer / 8 - beforeCount) % 2 ^ 32)

/-- `CLPIParser::TS_type_info_block(reader)`. -/
def TS_type_info_block (self : CLPIParser) (reader : BitStreamReader) :
    Except Exc (CLPIParser × BitStreamReader) := do
  let reader ← reader.skipBits 24  -- length, Validity_flags
  let (format_identifier, reader) ← CLPIStreamInfo.readString 4 reader  -- HDMV
  let self := { self with format_identifier := format_identifier }
  -- Network_information 8*9
  let reader ← (List.range 9).foldlM (fun reader _ => reader.skipBits 8) reader
  -- Stream_format_name 8*16
  let reader ← (List.range 4).foldlM (fun reader _ => reader.skipBits 32) reader
  pure (self, reader)

/-- `CLPIParser::composeTS_type_info_block(writer)`; `[0x48, 0x44, 0x4d, 0x56]`
is the string "HDMV". -/
def composeTS_type_info_block (writer : BitStreamWriter) : BitStreamWriter :=
  let lengthPos := getBitsCount writer / 8
  let writer := putBits writer 16 0  -- length
  let beforeCount := getBitsCount writer / 8
  let writer := putBits writer 8 0x80  -- Validity_flags
  let writer := CLPIStreamInfo.writeString [0x48, 0x44, 0x4d, 0x56] writer 4
  -- Network_information 8*9
  let writer := (List.range 9).foldl (fun writer _ => putBits writer 8 0) writer
  -- Stream_format_name 8*16
  let writer := (List.range 4).foldl (fun writer _ => putBits writer 32 0) writer
  store writer lengthPos 2 ((getBitsCount writer / 8 - beforeCount) % 2 ^ 16)

/-- `CLPIParser::parseClipInfo(reader)`. -/
def parseClipInfo (self : CLPIParser) (reader : BitStreamReader) :
    Except Exc (CLPIParser × BitStreamReader) := do
  let reader ← reader.skipBits 32  -- length
  let reader ← reader.skipBits 16  -- reserved_for_future_use
  let (clip_stream_type, reader) ← reader.getBits 8  -- 1 - AV stream
  let self := { self with clip_stream_type := clip_stream_type }
  let (application_type, reader) ← reader.getBits 8  -- 1 - Main TS for a main-path of Movie
  let self := { self with application_type := application_type }
  let reader ← reader.skipBits 31  -- reserved_for_future_use
  let (is_ATC_delta, reader) ← reader.getBit
  let self := { self with is_ATC_delta := decide (is_ATC_delta ≠ 0) }
  let (TS_recording_rate, reader) ← reader.getBits 32  -- kbps in bytes/sec
  let self := { self with TS_recording_rate := TS_recording_rate }
  let (number_of_source_packets, reader) ← reader.getBits 32  -- number of TS packets?
  let self := { self with number_of_source_packets := number_of_source_packets }
  let reader ← (List.range 32).foldlM (fun reader _ => reader.skipBits 32) reader
  TS_type_info_block self reader

/-- `CLPIParser::composeClipInfo(writer)`. -/
def composeClipInfo (self : CLPIParser) (writer : BitStreamWriter) :
    Except Exc BitStreamWriter :=
  let lengthPos := getBitsCount writer / 8
  let writer := putBits writer 32 0  -- length
  let beforeCount := getBitsCount writer / 8
  let writer := putBits writer 16 0  -- reserved_for_future_use
  let writer := putBits writer 8 self.clip_stream_type  -- 1 - AV stream
  let writer := putBits writer 8 self.application_type  -- 1 - Main TS for a main-path of Movie
  let writer := putBits writer 31 0  -- reserved_for_future_use
  let writer := putBit writer (if self.is_ATC_delta then 1 else 0)
  let writer := putBits writer 32 self.TS_recording_rate  -- kbps in bytes/sec
  let writer := putBits writer 32 self.number_of_source_packets  -- number of TS packets?
  let writer := (List.range 32).foldl (fun writer _ => putBits writer 32 0) writer  -- reserved
  let writer := composeTS_type_info_block writer
  if self.is_ATC_delta then .error (Exc.VodCoreException ErrMsg.atcDeltaNotImplemented)
  else if self.application_type = 6 then
    .error (Exc.VodCoreException ErrMsg.applicationType6NotImplemented)
  else .ok (store writer lengthPos 4 ((getBitsCount writer / 8 - beforeCount) % 2 ^ 32))

/-- The inner loop of `parseSequenceInfo`, over `stc_id`; `n` is the number of
rounds left. -/
def parseSequenceInfoSTC : Nat → CLPIParser → BitStreamReader →
    Except Exc (CLPIParser × BitStreamReader)
  | 0, self, reader => .ok (self, reader)
  | n + 1, self, reader => do
      let reader ← reader.skipBits 16  -- PCR_PID
      let reader ← reader.skipBits 32  -- SPN_STC_start
      let (presentation_start_time, reader) ← reader.getBits 32
      let self := { self with presentation_start_time := presentation_start_time }
      let (presentation_end_time, reader) ← reader.getBits 32
      let self := { self with presentation_end_time := presentation_end_time }
      parseSequenceInfoSTC n self reader

/-- The number of rounds of `for (uint8_t stc_id = offset_STC_id; stc_id <
number_of_STC_sequences + offset_STC_id; stc_id++)`: the bound is an `int`, the
counter a `uint8_t`, so with a bound above 255 the loop does not end by its
test. -/
def stcRounds (number_of_STC_sequences offset_STC_id : Nat) : Option Nat :=
  if number_of_STC_sequences = 0 then some 0
  else if number_of_STC_sequences + offset_STC_id ≤ 255 then some number_of_STC_sequences
  else none

/-- The outer loop of `parseSequenceInfo`, over `atc_id`. When the inner loop
cannot end by its test it reads until the reader runs out of data. -/
def parseSequenceInfoATC : Nat → CLPIParser → BitStreamReader →
    Except Exc (CLPIParser × BitStreamReader)
  | 0, self, reader => .ok (self, reader)
  | n + 1, self, reader => do
      let reader ← reader.skipBits 32  -- SPN_ATC_start
      let (number_of_STC_sequences, reader) ← reader.getBits 8
      let (offset_STC_id, reader) ← reader.getBits 8
      match stcRounds number_of_STC_sequences offset_STC_id with
      | some k => do
          let (self, reader) ← parseSequenceInfoSTC k self reader
          parseSequenceInfoATC n self reader
      | none => do
          let _ ← parseSequenceInfoSTC (reader.bits.length + 1) self reader
          .error Exc.BitStreamException

/-- `CLPIParser::parseSequenceInfo(buffer, end)`. -/
def parseSequenceInfo (self : CLPIParser) (buffer : List Nat) : Except Exc CLPIParser := do
  let reader := BitStreamReader.setBuffer buffer
  let reader ← reader.skipBits 32  -- length
  let reader ← reader.skipBits 8  -- reserved_for_word_align
  let (number_of_ATC_sequences, reader) ← reader.getBits 8
  let (self, _) ← parseSequenceInfoATC number_of_ATC_sequences self reader
  pure self

/-- `CLPIParser::composeSequenceInfo(writer)`. -/
def composeSequenceInfo (K : MuxConstants) (self : CLPIParser) (writer : BitStreamWriter) :
    BitStreamWriter :=
  let lengthPos := getBitsCount writer / 8
  let writer := putBits writer 32 0  -- length
  let beforeCount := getBitsCount writer / 8
  let writer := putBits writer 8 0  -- reserved_for_word_align
  let writer := putBits writer 8 1  -- number_of_ATC_sequences
  let writer := putBits writer 32 0  -- SPN_ATC_start
  let writer := putBits writer 8 1  -- number_of_STC_sequences
  let writer := putBits writer 8 0  -- offset_STC_id
  let writer := putBits writer 16 K.DEFAULT_PCR_PID
  let writer := putBits writer 32 0  -- SPN_STC_start
  let writer := putBits writer 32 self.presentation_start_time
  let writer := putBits writer 32 self.presentation_end_time
  store writer lengthPos 4 ((getBitsCount writer / 8 - beforeCount) % 2 ^ 32)

/-- `CLPIParser::parseCPI(buffer, end)`. -/
def parseCPI (buffer : List Nat) : Except Exc Unit := do
  let reader := BitStreamReader.setBuffer buffer
  let (length, reader) ← reader.getBits 32
  if length ≠ 0 then
    let _ ← reader.skipBits 16  -- reserved_for_word_align, CPI_type
    pure ()
  else pure ()

/-- `CLPIParser::buildCoarseInfo(streamInfo)`. An index `m_clpiNum` outside
`m_index` (undefined in the source) reads as an empty index. -/
def buildCoarseInfo (self : CLPIParser) (streamInfo : CLPIStreamInfo) : List BluRayCoarseInfo :=
  if streamInfo.m_index.isEmpty then []
  else
    let curIndex := streamInfo.m_index.getD self.m_clpiNum []
    (curIndex.foldl
      (fun (st : List BluRayCoarseInfo × Nat × Nat × Nat) e =>
        let (rez, cnt, lastPktCnt, lastCoarsePts) := st
        let indexData := e.2
        let newCoarsePts := (e.1 >>> 19) % 2 ^ 32
        let lastCoarseSPN := lastPktCnt &&& 0xfffe0000
        let newCoarseSPN := indexData.m_pktCnt &&& 0xfffe0000
        let rez :=
          if rez.isEmpty ∨ newCoarsePts ≠ lastCoarsePts ∨ lastCoarseSPN ≠ newCoarseSPN then
            rez ++ [⟨newCoarsePts, cnt, indexData.m_pktCnt⟩]
          else rez
        (rez, (cnt + 1) % 2 ^ 32, indexData.m_pktCnt, newCoarsePts))
      ([], 0, 0, 0)).1

/-- The `endCode` computed in the fine-entry loop of
`composeEP_map_for_one_stream_PID`. -/
def endCode (is4K : Bool) (m_frameLen : Int) : Nat :=
  if m_frameLen > 0 then
    if is4K then
      if m_frameLen < 786432 then 1
      else if m_frameLen < 1572864 then 2
      else if m_frameLen < 2359296 then 3
      else if m_frameLen < 3145728 then 4
      else if m_frameLen < 3932160 then 5
      else if m_frameLen < 4718592 then 6
      else 7
    else
      if m_frameLen < 131072 then 1
      else if m_frameLen < 262144 then 2
      else if m_frameLen < 393216 then 3
      else if m_frameLen < 589824 then 4
      else if m_frameLen < 917504 then 5
      else if m_frameLen < 1310720 then 6
      else 7
  else 0

/-- `CLPIParser::composeEP_map_for_one_stream_PID(writer, streamInfo)`. -/
def composeEP_map_for_one_stream_PID (self : CLPIParser) (writer : BitStreamWriter)
    (streamInfo : CLPIStreamInfo) : BitStreamWriter :=
  let epFineStartAddr := getBitsCount writer / 8
  let beforePos := getBitsCount writer / 8
  let writer := putBits writer 32 0  -- EP_fine_table_start_address
  let coarseInfo := buildCoarseInfo self streamInfo
  let writer := coarseInfo.foldl
    (fun writer i =>
      let writer := putBits writer 18 i.m_fineRefID  -- ref_to_EP_fine_id[i]
      let writer := putBits writer 14 i.m_coarsePts  -- PTS_EP_coarse[i]
      putBits writer 32 i.m_pktCnt)  -- SPN_EP_coarse[i]
    writer
  let writer := if getBitsCount writer % 16 ≠ 0 then putBits writer 8 0 else writer  -- padding_word
  let writer := store writer epFineStartAddr 4 ((getBitsCount writer / 8 - beforePos) % 2 ^ 32)
  if !streamInfo.m_index.isEmpty then
    let curIndex := streamInfo.m_index.getD self.m_clpiNum []
    curIndex.foldl
      (fun writer e =>
        let indexData := e.2
        let writer := putBit writer 0  -- is_angle_change_point[EP_fine_id]
        let endCode := endCode self.is4K indexData.m_frameLen
        let writer := putBits writer 3 endCode  -- I_end_position_offset[EP_fine_id]
        let writer := putBits writer 11 ((e.1 >>> 9) % (1 <<< 11))  -- PTS_EP_fine[EP_fine_id]
        putBits writer 17 (indexData.m_pktCnt % (1 <<< 17)))  -- SPN_EP_fine[EP_fine_id]
      writer
  else writer

/-- The streams `composeEP_map` selects and the `EP_stream_type` it writes;
`none` when no stream qualifies. -/
def selectEPStreams (E : StreamTypeCodes) (self : CLPIParser) (isSSExt : Bool) :
    Option (List CLPIStreamInfo × Nat) :=
  let processStream := self.m_streamInfo.foldl
    (fun processStream e =>
      let coding_type := e.2.stream_coding_type
      if isSSExt then
        if coding_type = E.VIDEO_MVC then processStream ++ [e.2] else processStream
      else
        if coding_type ≠ E.VIDEO_MVC ∧ isVideoStreamType E coding_type then processStream ++ [e.2]
        else processStream)
    ([] : List CLPIStreamInfo)
  let r : List CLPIStreamInfo × Nat :=
    if processStream.isEmpty then
      match self.m_streamInfo.find? (fun e => isAudioStreamType E e.2.stream_coding_type) with
      | some e => (processStream ++ [e.2], if e.2.isSecondary then 4 else 3)
      | none => (processStream, 1)
    else (processStream, 1)
  if r.1.isEmpty then none else some r

/-- `CLPIParser::composeEP_map(writer, isSSExt)`. The second loop runs over
`processStream[i]` and `epStartAddrPos[i]` together. -/
def composeEP_map (E : StreamTypeCodes) (self : CLPIParser) (writer : BitStreamWriter)
    (isSSExt : Bool) : Except Exc BitStreamWriter :=
  let beforeCount := getBitsCount writer / 8
  match selectEPStreams E self isSSExt with
  | none => .error (Exc.VodCoreException ErrMsg.cantCreateEPMap)
  | some (processStream, EP_stream_type) =>
    let writer := putBits writer 8 0  -- reserved_for_word_align
    let writer := putBits writer 8 processStream.length  -- number_of_stream_PID_entries
    let st := processStream.foldl
      (fun (st : BitStreamWriter × List Nat) i =>
        let (writer, epStartAddrPos) := st
        let writer := putBits writer 16 i.streamPID  -- stream_PID[k]
        let writer := putBits writer 10 0  -- reserved_for_word_align
        let writer := putBits writer 4 EP_stream_type
        let coarseInfo := buildCoarseInfo self i
        let writer := putBits writer 16 coarseInfo.length  -- number_of_EP_coarse_entries[k]
        let writer :=
          if !i.m_index.isEmpty then
            putBits writer 18 (i.m_index.getD self.m_clpiNum []).length  -- number_of_EP_fine_entries[k]
          else putBits writer 18 0
        let epStartAddrPos := epStartAddrPos ++ [getBitsCount writer / 8]
        let writer := putBits writer 32 0  -- EP_map_for_one_stream_PID_start_address[k]
        (writer, epStartAddrPos))
      (writer, [])
    let writer := st.1
    let epStartAddrPos := st.2
    let writer := if getBitsCount writer % 16 ≠ 0 then putBits writer 8 0 else writer  -- padding_word
    .ok ((processStream.zip epStartAddrPos).foldl
      (fun writer (i : CLPIStreamInfo × Nat) =>
        let writer := store writer i.2 4 ((getBitsCount writer / 8 - beforeCount) % 2 ^ 32)
        let writer := composeEP_map_for_one_stream_PID self writer i.1
        if getBitsCount writer % 16 ≠ 0 then putBits writer 8 0 else writer)  -- padding_word
      writer)

/-- `CLPIParser::composeCPI(writer, isCPIExt)`. -/
def composeCPI (E : StreamTypeCodes) (self : CLPIParser) (writer : BitStreamWriter)
    (isCPIExt : Bool) : Except Exc BitStreamWriter :=
  let lengthPos := getBitsCount writer / 8
  let writer := putBits writer 32 0  -- length
  if (self.isDependStream ∧ ¬ isCPIExt) ∨ (¬ self.isDependStream ∧ isCPIExt) then
    .ok writer  -- CPI_SS for MVC depend stream only and vice versa
  else do
    let beforeCount := getBitsCount writer / 8
    let writer := putBits writer 12 0  -- reserved_for_word_align
    let writer := putBits writer 4 1  -- CPI_type
    let writer ← composeEP_map E self writer isCPIExt
    let writer :=
      if isCPIExt ∧ getBitsCount writer % 32 ≠ 0 then putBits writer 16 0 else writer
    pure (store writer lengthPos 4 ((getBitsCount writer / 8 - beforeCount) % 2 ^ 32))

/-- `CLPIParser::parseClipMark(buffer, end)`. -/
def parseClipMark (buffer : List Nat) : Except Exc Unit := do
  let reader := BitStreamReader.setBuffer buffer
  let _ ← reader.skipBits 32  -- length
  pure ()

/-- `CLPIParser::composeClipMark(writer)`. -/
def composeClipMark (writer : BitStreamWriter) : BitStreamWriter := putBits writer 32 0

/-- `CLPIParser::Extent_Start_Point(buffer, dataLength)`; `buffer` holds the
`dataLength` bytes the reader is set on. -/
def Extent_Start_Point (self : CLPIParser) (buffer : List Nat) : Except Exc CLPIParser := do
  let reader := BitStreamReader.setBuffer buffer
  let reader ← reader.skipBits 32  -- length
  let reader ← reader.skipBits 16  -- reserved_for_future_use
  let (number_of_extent_start_points, reader) ← reader.getBits 16
  let (vals, _) ← (List.range number_of_extent_start_points).foldlM
    (fun (st : List Nat × BitStreamReader) _ => do
      let (v, reader) ← st.2.getBits 32
      pure (st.1 ++ [v], reader))
    ([], reader)
  pure { self with SPN_extent_start := vals }

/-- `CLPIParser::ProgramInfo_SS(buffer, dataLength)`. -/
def ProgramInfo_SS (E : StreamTypeCodes) (fresh : CLPIStreamInfo) (self : CLPIParser)
    (buffer : List Nat) : Except Exc CLPIParser := do
  let (programInfoMVC, streamInfoMVC) ←
    parseProgramInfo E fresh buffer self.m_programInfoMVC self.m_streamInfoMVC
  pure { self with m_programInfoMVC := programInfoMVC, m_streamInfoMVC := streamInfoMVC }

/-- `CLPIParser::CPI_SS(buffer, dataLength)`. -/
def CPI_SS (buffer : List Nat) : Except Exc Unit := parseCPI buffer

/-- `CLPIParser::composeExtentStartPoint(writer)`. -/
def composeExtentStartPoint (self : CLPIParser) (writer : BitStreamWriter) : BitStreamWriter :=
  let lengthPos := getBitsCount writer / 8
  let writer := putBits writer 32 0  -- length
  let beforeCount := getBitsCount writer / 8
  let writer := putBits writer 16 0  -- reserved
  let writer := putBits writer 16 (self.interleaveInfo.length % 2 ^ 32)
  let st := self.interleaveInfo.foldl
    (fun (st : BitStreamWriter × Nat) i =>
      let sum := (st.2 + i) % 2 ^ 32
      (putBits st.1 32 sum, sum))
    (writer, 0)
  let writer := st.1
  store writer lengthPos 4 ((getBitsCount writer / 8 - beforeCount) % 2 ^ 32)

/-- `CLPIParser::composeExtentInfo(writer)`. `lengthPos[1]` and
`extentStartPos[1]` are the 32-bit words behind `*lengthPos` and
`*extentStartPos`. -/
def composeExtentInfo (E : StreamTypeCodes) (K : MuxConstants) (self : CLPIParser)
    (writer : BitStreamWriter) : Except Exc BitStreamWriter :=
  let lengthPos := getBitsCount writer / 8
  let beforeCount := getBitsCount writer / 8
  let writer := putBits writer 32 0  -- length
  if self.interleaveInfo.isEmpty then .ok writer
  else do
    let writer := putBits writer 32 0  -- skip data block start address
    let writer := putBits writer 24 0  -- reserved for world align
    let entries := if self.isDependStream then 3 else 1
    let writer := putBits writer 8 entries
    -- write Extent_Start_Point header
    let writer := putBits writer 32 0x00020004  -- extent start point
    let extentStartPos := getBitsCount writer / 8
    let writer := putBits writer 32 0  -- skip extent start address
    let writer := putBits writer 32 0  -- skip extent dataLen
    let hdr : BitStreamWriter × Nat × Nat :=
      if self.isDependStream then
        -- write ProgramInfo_SS header
        let writer := putBits writer 32 0x00020005  -- extent start point
        let ProgramInfo_StartPos := getBitsCount writer / 8
        let writer := putBits writer 32 0  -- skip extent start address
        let writer := putBits writer 32 0  -- skip extent dataLen
        -- write CPI_SS header
        let writer := putBits writer 32 0x00020006  -- extent start point
        let CPI_SS_StartPos := getBitsCount writer / 8
        let writer := putBits writer 32 0  -- skip extent start address
        let writer := putBits writer 32 0  -- skip extent dataLen
        (writer, ProgramInfo_StartPos, CPI_SS_StartPos)
      else (writer, 0, 0)
    let writer := hdr.1
    let ProgramInfo_StartPos := hdr.2.1
    let CPI_SS_StartPos := hdr.2.2
    let writer := if getBitsCount writer % 32 ≠ 0 then putBits writer 16 0 else writer
    -- data_block_start_address, same as extentStart point start
    let writer := store writer (lengthPos + 4) 4 ((getBitsCount writer / 8 - beforeCount) % 2 ^ 32)
    -- write Extent_Start_Point body
    let writer := store writer extentStartPos 4 ((getBitsCount writer / 8 - beforeCount) % 2 ^ 32)
    let beforeExtentCount := getBitsCount writer / 8
    let writer := composeExtentStartPoint self writer
    let writer := store writer (extentStartPos + 4) 4
      ((getBitsCount writer / 8 - beforeExtentCount) % 2 ^ 32)
    let writer ←
      if self.isDependStream then do
        -- write ProgramInfo_SS body
        let writer := store writer ProgramInfo_StartPos 4
          ((getBitsCount writer / 8 - beforeCount) % 2 ^ 32)
        let beforeExtentCount := getBitsCount writer / 8
        let writer := composeProgramInfo E K self writer true
        let writer := store writer (ProgramInfo_StartPos + 4) 4
          ((getBitsCount writer / 8 - beforeExtentCount) % 2 ^ 32)
        -- write CPI_SS body
        let writer := store writer CPI_SS_StartPos 4
          ((getBitsCount writer / 8 - beforeCount) % 2 ^ 32)
        let beforeExtentCount := getBitsCount writer / 8
        let writer ← composeCPI E self writer true
        pure (store writer (CPI_SS_StartPos + 4) 4
          ((getBitsCount writer / 8 - beforeExtentCount) % 2 ^ 32))
      else pure writer
    pure (store writer lengthPos 4 ((getBitsCount writer / 8 - beforeCount - 4) % 2 ^ 32))

/-- The entry loop of `parseExtensionData`; `buffer` is the memory from the
start of the extension block on, `size` is `end - buffer`. An entry with
`dataAddress + dataLength` (32-bit sum) above `size` is skipped. -/
def parseExtensionDataEntries (E : StreamTypeCodes) (fresh : CLPIStreamInfo) (buffer : List Nat)
    (size : Nat) : Nat → CLPIParser → BitStreamReader → Except Exc CLPIParser
  | 0, self, _ => .ok self
  | n + 1, self, reader => do
      let (dataID, reader) ← reader.getBits 32
      let (dataAddress, reader) ← reader.getBits 32
      let (dataLength, reader) ← reader.getBits 32
      if (dataAddress + dataLength) % 2 ^ 32 > size % 2 ^ 32 then
        parseExtensionDataEntries E fresh buffer size n self reader
      else
        let sub := (buffer.drop dataAddress).take dataLength
        let self ←
          if dataID = 0x00010002 then pure self  -- HDMV_LPCM_down_mix_coefficient
          else if dataID = 0x00020004 then Extent_Start_Point self sub
          else if dataID = 0x00020005 then ProgramInfo_SS E fresh self sub
          else if dataID = 0x00020006 then do
            CPI_SS sub
            pure self
          else pure self
        parseExtensionDataEntries E fresh buffer size n self reader

/-- `CLPIParser::parseExtensionData(buffer, end)`; `buffer` is the memory from
the start of the extension block on, `size` is `end - buffer` (with `end`
before `buffer` the reader is empty and the first read fails). -/
def parseExtensionData (E : StreamTypeCodes) (fresh : CLPIStreamInfo) (self : CLPIParser)
    (buffer : List Nat) (size : Nat) : Except Exc CLPIParser := do
  let reader := BitStreamReader.setBuffer (buffer.take size)
  let (length, reader) ← reader.getBits 32
  if length = 0 then pure self
  else
    let reader ← reader.skipBits 32  -- data_block_start_address
    let reader ← reader.skipBits 24
    let (entries, reader) ← reader.getBits 8
    parseExtensionDataEntries E fresh buffer size entries self reader

/-- The body of the `try` block of `CLPIParser::parse(buffer, len)`. -/
def parseBody (E : StreamTypeCodes) (fresh : CLPIStreamInfo) (self : CLPIParser)
    (buffer : List Nat) (len : Nat) : Except Exc CLPIParser := do
  let reader := BitStreamReader.setBuffer (buffer.take len)
  let (type_indicator, reader) ← CLPIStreamInfo.readString 4 reader
  let self := { self with type_indicator := type_indicator }
  let (version_number, reader) ← CLPIStreamInfo.readString 4 reader
  let self := { self with version_number := version_number }
  let (sequenceInfo_start_address, reader) ← reader.getBits 32
  let (programInfo_start_address, reader) ← reader.getBits 32
  let (CPI_start_address, reader) ← reader.getBits 32
  let (clipMark_start_address, reader) ← reader.getBits 32
  let (extensionData_start_address, reader) ← reader.getBits 32
  let reader ← (List.range 3).foldlM (fun reader _ => reader.skipBits 32) reader
  let (self, _) ← parseClipInfo self reader
  let self ← parseSequenceInfo self ((buffer.take len).drop sequenceInfo_start_address)
  let (programInfo, streamInfo) ← parseProgramInfo E fresh
    ((buffer.take len).drop programInfo_start_address) self.m_programInfo self.m_streamInfo
  let self := { self with m_programInfo := programInfo, m_streamInfo := streamInfo }
  parseCPI ((buffer.take len).drop CPI_start_address)
  parseClipMark ((buffer.take len).drop clipMark_start_address)
  if extensionData_start_address ≠ 0 then
    parseExtensionData E fresh self (buffer.drop extensionData_start_address)
      (len - extensionData_start_address)
  else pure self

/-- `CLPIParser::parse(buffer, len)`: a `BitStreamException` is turned into
the fatal error "Can't parse clip info file: unexpected end of data". -/
def parse (E : StreamTypeCodes) (fresh : CLPIStreamInfo) (self : CLPIParser)
    (buffer : List Nat) (len : Nat) : Except Exc CLPIParser :=
  match parseBody E fresh self buffer len with
  | .ok self => .ok self
  | .error Exc.BitStreamException => .error (Exc.VodCoreException ErrMsg.cantParseClipInfo)
  | .error e => .error e

/-- The loop `while (writer.getBitsCount() % 32 != 0) writer.putBits(8, 0)` of
`compose`. From a byte boundary it ends within three rounds; from any other
position the test never fails and the loop ends with the end-of-buffer
exception of the writer. -/
def alignLoop : Nat → BitStreamWriter → Except Exc BitStreamWriter
  | 0, writer =>
      if getBitsCount writer % 32 ≠ 0 then .error Exc.BitStreamException else .ok writer
  | fuel + 1, writer =>
      if getBitsCount writer % 32 ≠ 0 then alignLoop fuel (putBits writer 8 0) else .ok writer

/-- `CLPIParser::compose(buffer, bufferSize)`: the contents of the writer's
buffer at the end. -/
def composeBits (E : StreamTypeCodes) (K : MuxConstants) (self : CLPIParser) :
    Except Exc BitStreamWriter := do
  let writer := BitStreamWriter.setBuffer
  let writer := CLPIStreamInfo.writeString [0x48, 0x44, 0x4d, 0x56] writer 4  -- "HDMV"
  let writer := CLPIStreamInfo.writeString self.version_number writer 4
  let sequenceInfo_pos := getBitsCount writer / 8
  let writer := putBits writer 32 0  -- sequenceInfo_start_address
  let programInfo_pos := getBitsCount writer / 8
  let writer := putBits writer 32 0  -- programInfo_start_address
  let CPI_pos := getBitsCount writer / 8
  let writer := putBits writer 32 0  -- CPI start address
  let clipMark_pos := getBitsCount writer / 8
  let writer := putBits writer 32 0  -- clipMark
  let extentInfo_pos := getBitsCount writer / 8
  let writer := putBits writer 32 0  -- extent info
  let writer := (List.range 3).foldl (fun writer _ => putBits writer 32 0) writer  -- reserved
  let writer ← composeClipInfo self writer
  let writer ← alignLoop 3 writer
  let writer := store writer sequenceInfo_pos 4 ((getBitsCount writer / 8) % 2 ^ 32)
  let writer := composeSequenceInfo K self writer
  let writer ← alignLoop 3 writer
  let writer := store writer programInfo_pos 4 ((getBitsCount writer / 8) % 2 ^ 32)
  let writer := composeProgramInfo E K self writer false
  let writer ← alignLoop 3 writer
  let writer := store writer CPI_pos 4 ((getBitsCount writer / 8) % 2 ^ 32)
  let writer ← composeCPI E self writer false
  let writer ← alignLoop 3 writer
  let writer := store writer clipMark_pos 4 ((getBitsCount writer / 8) % 2 ^ 32)
  let writer := composeClipMark writer
  let writer ← alignLoop 3 writer
  let writer := store writer extentInfo_pos 4 ((getBitsCount writer / 8) % 2 ^ 32)
  let writer ← composeExtentInfo E K self writer
  let writer ← alignLoop 3 writer
  pure (flushBits writer)

/-- `CLPIParser::compose(buffer, bufferSize)`: the buffer contents and the
returned length. -/
def compose (E : StreamTypeCodes) (K : MuxConstants) (self : CLPIParser) :
    Except Exc (List Nat × Nat) := do
  let writer ← composeBits E K self
  pure (writer.bytes, getBitsCount writer / 8)

end CLPIParser

/-! ## MPLS: the movie playlist file -/

/-- A chapter mark of `m_marks`: `m_playItemID` is an `int` (negative when the
play item is to be computed), `m_markTime` a 32-bit time stamp. -/
structure PlayListMark where
  m_playItemID : Int
  m_markTime : Nat
  deriving DecidableEq, Repr

/-- The enumerators of `PIPParams::PipCorner` that `tsPacket.cpp` names, and
the remaining corner. -/
inductive PipCorner
  | TopLeft
  | TopRight
  | BottomRight
  | BottomLeft
  deriving DecidableEq, Repr

/-- The fields of `PIPParams` that `tsPacket.cpp` reads. -/
structure PIPParams where
  scaleIndex : Nat
  corner : PipCorner
  hOffset : Int
  vOffset : Int
  lumma : Int
  deriving DecidableEq, Repr

/-- The member functions of `PIPParams` that `tsPacket.cpp` calls and that are
defined elsewhere in the repository; they are parameters of the embedding.
The scale coefficient is a `float` in the source; here it is the rational
value of that `float`. -/
structure PIPMethods where
  isFullScreen : PIPParams → Bool
  getScaleCoeff : PIPParams → ℚ

/-- The number of binary digits of `n`, for `n ≤ fuel`. -/
def bitLength : Nat → Nat → Nat
  | 0, _ => 0
  | fuel + 1, n => if n = 0 then 0 else bitLength fuel (n / 2) + 1

/-- `floor (log2 (n / d))` for positive `n` and `d`. -/
def floatExponent (n d : Nat) : Int :=
  let e0 : Int := (bitLength n n : Int) - (bitLength d d : Int)
  -- `n / d` lies between `2 ^ (e0 - 1)` and `2 ^ (e0 + 1)`
  if 0 ≤ e0 then
    if d * 2 ^ e0.toNat ≤ n then e0 else e0 - 1
  else
    if d ≤ n * 2 ^ (-e0).toNat then e0 else e0 - 1

/-- The integer nearest to `n / d`, a tie going to the even one. -/
def roundHalfEven (n d : Nat) : Nat :=
  if 2 * (n % d) < d then n / d
  else if d < 2 * (n % d) then n / d + 1
  else if n / d % 2 = 0 then n / d else n / d + 1

/-- The `float` (IEEE 754 binary32: 24 significant bits, least exponent -126,
round to nearest, ties to even) nearest to `n / d`, as a significand `m` and
an exponent `q` of the value `m * 2 ^ q`. Values beyond the largest `float`,
which round to infinity, are rounded to 24 significant bits all the same. -/
def floatOfRatio (n d : Nat) : Nat × Int :=
  -- the exponent of the last place of the significand
  let q : Int := max (floatExponent n d) (-126) - 23
  (if 0 ≤ q then roundHalfEven n (d * 2 ^ q.toNat) else roundHalfEven (n * 2 ^ (-q).toNat) d, q)

/-- The product of two non-negative `float` values, rounded to `float`. -/
def floatMul (a b : Nat × Int) : Nat × Int :=
  if 0 ≤ a.2 + b.2 then floatOfRatio (a.1 * b.1 * 2 ^ (a.2 + b.2).toNat) 1
  else floatOfRatio (a.1 * b.1) (2 ^ (-(a.2 + b.2)).toNat)

/-- The integer part of a non-negative `float` value. -/
def floatToNat (a : Nat × Int) : Nat :=
  if 0 ≤ a.2 then a.1 * 2 ^ a.2.toNat else a.1 / 2 ^ (-a.2).toNat

/-- `static_cast<int>(static_cast<float>(size) * coeff)`: `size` is converted
to `float`, the product of the two `float` values is rounded to `float`, and
the conversion to `int` truncates towards zero. The coefficient is the value
of a `float`; a rational that is not one stands for the `float` nearest to
it. A product whose integer part does not fit an `int` has no defined
conversion in the source; its integer part is kept here. -/
def scaledSize (size : Nat) (coeff : ℚ) : Int :=
  let magnitude :=
    floatToNat (floatMul (floatOfRatio size 1) (floatOfRatio coeff.num.natAbs coeff.den))
  if coeff < 0 then -(magnitude : Int) else magnitude

/-- The fields of `*leftEye` and `*rightEye` that `composeStreamEntry` reads. -/
structure MPLSEye where
  type : Nat
  streamPID : Nat
  deriving DecidableEq, Repr

/-- The fields of `MPLSStreamInfo` (with its base `M2TSStreamInfo`) that
`tsPacket.cpp` touches in the functions embedded here. `leftEye` and
`rightEye` stand for the objects the two pointers refer to; they are read
only when `isSSPG` is set. -/
structure MPLSStreamInfo where
  streamPID : Nat
  stream_coding_type : Nat
  video_format : Nat
  frame_rate_index : Nat
  width : Nat
  height : Nat
  HDR : Nat
  audio_presentation_type : Nat
  sampling_frequency_index : Nat
  character_code : Nat
  language_code : List Nat
  isSecondary : Bool
  number_of_offset_sequences : Int
  m_index : List PMTIndex
  type : Nat
  offsetId : Nat
  pipParams : PIPParams
  isSSPG : Bool
  SS_PG_offset_sequence_id : Nat
  leftEye : MPLSEye
  rightEye : MPLSEye
  deriving DecidableEq, Repr

/-- The result of a composing function that may throw after it has written:
the exception comes with the writer as it is at the `THROW`. -/
abbrev Composed (α : Type) := Except (Exc × BitStreamWriter) α

namespace MPLSStreamInfo

open BitStreamWriter

/-- `MPLSStreamInfo::composeStreamEntry(writer, entryNum, subPathID)` for an
object with the given `type` and `streamPID`. -/
def composeStreamEntryOf (type streamPID : Nat) (writer : BitStreamWriter) (subPathID : Nat) :
    Composed BitStreamWriter :=
  let lengthPos := getBitsCount writer / 8
  let writer := putBits writer 8 0  -- length
  let initPos := getBitsCount writer / 8
  let writer := putBits writer 8 type
  let r : Composed BitStreamWriter :=
    if type = 1 then
      let writer := putBits writer 16 streamPID
      let writer := putBits writer 32 0
      .ok (putBits writer 16 0)
    else if type = 2 then
      let writer := putBits writer 8 0  -- ref_to_SubPath_id
      let writer := putBits writer 8 0  -- entryNum - ref_to_subClip_entry_id
      let writer := putBits writer 16 streamPID
      .ok (putBits writer 32 0)
    else if type = 3 then
      let writer := putBits writer 8 subPathID  -- ref_to_SubPath_id. constant subPathID == 0
      let writer := putBits writer 16 streamPID
      let writer := putBits writer 32 0
      .ok (putBits writer 8 0)
    else if type = 4 then
      let writer := putBits writer 8 0
      let writer := putBits writer 16 streamPID
      let writer := putBits writer 32 0
      .ok (putBits writer 8 0)
    else .error (Exc.VodCoreException ErrMsg.unsupportedMediaType, writer)
  r.map (fun writer => store writer lengthPos 1 ((getBitsCount writer / 8 - initPos) % 2 ^ 8))

/-- `MPLSStreamInfo::composeStreamEntry(writer, entryNum, subPathID)`;
`entryNum` is not used by the body. -/
def composeStreamEntry (self : MPLSStreamInfo) (writer : BitStreamWriter) (subPathID : Nat) :
    Composed BitStreamWriter :=
  composeStreamEntryOf self.type self.streamPID writer subPathID

/-- `MPLSStreamInfo::composePGS_SS_StreamEntry(writer, entryNum)`; the calls
`leftEye->composeStreamEntry(writer, entryNum)` use the default `subPathID`
of the declaration, 0. -/
def composePGS_SS_StreamEntry (self : MPLSStreamInfo) (writer : BitStreamWriter) :
    Composed BitStreamWriter :=
  let writer := putBits writer 8 self.offsetId
  let writer := putBits writer 4 0  -- reserved
  let writer := putBit writer 0  -- dialog region offset valid
  let writer := putBit writer (if self.isSSPG then 1 else 0)  -- is SS PG
  let writer := putBit writer 0  -- top AS PG
  let writer := putBit writer 0  -- bottom AS PG
  if self.isSSPG then do
    let writer ← composeStreamEntryOf self.leftEye.type self.leftEye.streamPID writer 0
    let writer ← composeStreamEntryOf self.rightEye.type self.rightEye.streamPID writer 0
    let writer := putBits writer 8 0  -- reserved
    pure (putBits writer 8 self.SS_PG_offset_sequence_id)
  else pure writer

/-- `MPLSStreamInfo::composeStreamAttributes(writer)`. -/
def composeStreamAttributes (E : StreamTypeCodes) (self : MPLSStreamInfo)
    (writer : BitStreamWriter) : Composed BitStreamWriter :=
  let lengthPos := getBitsCount writer / 8
  let writer := putBits writer 8 0  -- length
  let initPos := getBitsCount writer / 8
  let writer := putBits writer 8 self.stream_coding_type
  let r : Composed BitStreamWriter :=
    if isVideoStreamType E self.stream_coding_type then
      let writer := putBits writer 4 self.video_format
      let writer := putBits writer 4 self.frame_rate_index
      let writer :=
        if self.HDR &&& 18 ≠ 0 then putBits writer 8 0x12  -- HDR10 or HDR10plus
        else if self.HDR = 4 then putBits writer 8 0x22  -- DV
        else putBits writer 8 0
      let writer :=
        if self.HDR = 16 then putBits writer 8 0x40  -- HDR10plus
        else putBits writer 8 0
      .ok (putBits writer 8 0)  -- reserved_for_future_use
    else if isAudioStreamType E self.stream_coding_type then
      let writer := putBits writer 4 self.audio_presentation_type
      let writer := putBits writer 4 self.sampling_frequency_index
      .ok (CLPIStreamInfo.writeString self.language_code writer 3)
    else if self.stream_coding_type = E.SUB_PGS then
      -- Presentation Graphics stream
      let writer := CLPIStreamInfo.writeString self.language_code writer 3
      .ok (putBits writer 8 0)  -- reserved_for_future_use
    else .error (Exc.VodCoreException ErrMsg.unsupportedMediaType, writer)
  r.map (fun writer => store writer lengthPos 1 ((getBitsCount writer / 8 - initPos) % 2 ^ 8))

end MPLSStreamInfo

/-- An element of the `extDataBlockInfo` vector of `composeExtensionData`;
`data` is a vector of bytes. -/
structure ExtDataBlockInfo where
  data : List Nat
  id1 : Nat
  id2 : Nat
  deriving DecidableEq, Repr

/-- State of `MPLSParser`: the members its constructor initialises and the
containers the functions embedded here use. -/
structure MPLSParser where
  PlayList_playback_type : Nat
  playback_count : Nat
  number_of_SubPaths : Nat
  is_multi_angle : Bool
  ref_to_STC_id : Nat
  PlayItem_random_access_flag : Bool
  number_of_angles : Nat
  is_different_audios : Bool
  is_seamless_angle_change : Bool
  m_chapterLen : Int
  IN_time : Nat
  OUT_time : Nat
  m_m2tsOffset : Nat
  isDependStreamExist : Bool
  mvc_base_view_r : Bool
  subPath_type : Nat
  number_of_primary_video_stream_entries : Nat
  number_of_primary_audio_stream_entries : Nat
  number_of_PG_textST_stream_entries : Nat
  number_of_IG_stream_entries : Nat
  number_of_secondary_audio_stream_entries : Nat
  number_of_secondary_video_stream_entries : Nat
  number_of_PiP_PG_textST_stream_entries_plus : Nat
  number_of_DolbyVision_video_stream_entries : Nat
  m_streamInfo : List MPLSStreamInfo
  m_streamInfoMVC : List MPLSStreamInfo
  m_marks : List PlayListMark

namespace MPLSParser

open BitStreamWriter

/-- The constructor `MPLSParser::MPLSParser()`. -/
def create : MPLSParser :=
  { PlayList_playback_type := 0, playback_count := 0, number_of_SubPaths := 0,
    is_multi_angle := false, ref_to_STC_id := 0, PlayItem_random_access_flag := false,
    number_of_angles := 0, is_different_audios := false, is_seamless_angle_change := false,
    m_chapterLen := 0, IN_time := 0, OUT_time := 0, m_m2tsOffset := 0,
    isDependStreamExist := false, mvc_base_view_r := false, subPath_type := 0,
    number_of_primary_video_stream_entries := 0, number_of_primary_audio_stream_entries := 0,
    number_of_PG_textST_stream_entries := 0, number_of_IG_stream_entries := 0,
    number_of_secondary_audio_stream_entries := 0,
    number_of_secondary_video_stream_entries := 0,
    number_of_PiP_PG_textST_stream_entries_plus := 0,
    number_of_DolbyVision_video_stream_entries := 0,
    m_streamInfo := [], m_streamInfoMVC := [], m_marks := [] }

/-- `MPLSParser::getMainStream()`: the first video stream of `m_streamInfo`,
else the first audio stream, else the fatal error. -/
def getMainStream (E : StreamTypeCodes) (self : MPLSParser) : Except Exc MPLSStreamInfo :=
  match self.m_streamInfo.find? (fun i => isVideoStreamType E i.stream_coding_type) with
  | some i => .ok i
  | none =>
    match self.m_streamInfo.find? (fun i => isAudioStreamType E i.stream_coding_type) with
    | some i => .ok i
    | none => .error (Exc.VodCoreException ErrMsg.cantFindStreamIndex)

/-- The loop of `calcPlayItemID` from the play item `i` on; `rest` holds
`m_index[i]`, `m_index[i + 1]`, ... and `size` is `m_index.size()`. The first
key of an index is its `begin()->first`. -/
def calcPlayItemIDLoop (pts size : Nat) : List PMTIndex → Nat → Int
  | [], _ => (size : Int) - 1
  | index :: rest, i =>
      if !index.isEmpty ∧ (index.head?.map Prod.fst).getD 0 > pts then max (i : Int) 1 - 1
      else calcPlayItemIDLoop pts size rest (i + 1)

/-- `MPLSParser::calcPlayItemID(streamInfo, pts)`. -/
def calcPlayItemID (streamInfo : MPLSStreamInfo) (pts : Nat) : Int :=
  calcPlayItemIDLoop pts streamInfo.m_index.length streamInfo.m_index 0

/-- The loop `for (uint32_t i = IN_time; i < OUT_time; i += m_chapterLen * 45000)
m_marks.emplace_back(-1, i)` of `composePlayListMark`, from the value `i` on:
the marks it appends, or `none` when `fuel` rounds do not end it. The counter
is 32 bits wide, the step an `int`. -/
def synthesizeMarks (m_chapterLen : Int) (OUT_time : Nat) : Nat → Nat → Option (List PlayListMark)
  | 0, _ => none
  | fuel + 1, i =>
      if i < OUT_time then
        (synthesizeMarks m_chapterLen OUT_time fuel
          (((i : Int) + m_chapterLen * 45000) % 2 ^ 32).toNat).map
          (fun marks => ⟨-1, i⟩ :: marks)
      else some []

/-- `MPLSParser::composePlayListMark(writer)`: `none` when the loop that
synthesizes the marks does not end. The counter of that loop takes at most
`2 ^ 32` values, so a run of more than `2 ^ 32` rounds never ends. -/
def composePlayListMark (E : StreamTypeCodes) (self : MPLSParser) (writer : BitStreamWriter) :
    Option (Composed (MPLSParser × BitStreamWriter)) :=
  let lengthPos := getBitsCount writer / 8
  let writer := putBits writer 32 0  -- length
  let beforeCount := getBitsCount writer / 8
  match getMainStream E self with
  | .error e => some (.error (e, writer))
  | .ok streamInfo =>
    let marks : Option (List PlayListMark) :=
      if self.m_marks.isEmpty then
        if self.m_chapterLen = 0 then some (self.m_marks ++ [⟨-1, self.IN_time⟩])
        else
          (synthesizeMarks self.m_chapterLen self.OUT_time (2 ^ 32 + 1) self.IN_time).map
            (fun marks => self.m_marks ++ marks)
      else some self.m_marks
    marks.map fun m_marks =>
      let self := { self with m_marks := m_marks }
      let writer := putBits writer 16 (self.m_marks.length % 2 ^ 32)
      let writer := self.m_marks.foldl
        (fun writer i =>
          let writer := putBits writer 8 0  -- reserved_for_future_use
          let writer := putBits writer 8 1  -- mark_type 0x01 = Chapter search
          let writer :=
            if i.m_playItemID ≥ 0 then putBits writer 16 i.m_playItemID.toNat  -- play item ID
            else
              putBits writer 16
                ((calcPlayItemID streamInfo (i.m_markTime * 2 % 2 ^ 32)) % 2 ^ 32).toNat
          let writer := putBits writer 32 i.m_markTime
          let writer := putBits writer 16 0xffff  -- entry_ES_PID always 0xffff for mark_type 1
          putBits writer 32 0)  -- duration always 0 for mark_type 1
        writer
      .ok (self, store writer lengthPos 4 ((getBitsCount writer / 8 - beforeCount) % 2 ^ 32))

/-- The counting loop of `composeSTN_table`: the counters after the streams
of the list, or the fatal error at the first stream that is neither video nor
audio nor PGS. -/
def countStreams (E : StreamTypeCodes) (streamInfo : List MPLSStreamInfo) (self : MPLSParser) :
    Except Exc MPLSParser :=
  streamInfo.foldlM
    (fun (self : MPLSParser) i =>
      let stream_coding_type := i.stream_coding_type
      if isVideoStreamType E stream_coding_type then
        if i.isSecondary then
          pure { self with
            number_of_secondary_video_stream_entries :=
              self.number_of_secondary_video_stream_entries + 1 }
        else if i.HDR = 4 then
          pure { self with
            number_of_DolbyVision_video_stream_entries :=
              self.number_of_DolbyVision_video_stream_entries + 1 }
        else
          pure { self with
            number_of_primary_video_stream_entries :=
              self.number_of_primary_video_stream_entries + 1 }
      else if isAudioStreamType E stream_coding_type then
        if !i.isSecondary then
          pure { self with
            number_of_primary_audio_stream_entries :=
              self.number_of_primary_audio_stream_entries + 1 }
        else
          pure { self with
            number_of_secondary_audio_stream_entries :=
              self.number_of_secondary_audio_stream_entries + 1 }
      else if stream_coding_type = E.SUB_PGS then
        pure { self with
          number_of_PG_textST_stream_entries := self.number_of_PG_textST_stream_entries + 1 }
      else .error (Exc.VodCoreException ErrMsg.emptyMessage))
    self

/-- The eight count bytes and the reserved word `composeSTN_table` writes when
`isSSEx` is not set. -/
def composeSTN_counts (self : MPLSParser) (writer : BitStreamWriter) : BitStreamWriter :=
  let writer := putBits writer 8 self.number_of_primary_video_stream_entries  -- test subpath
  let writer := putBits writer 8 self.number_of_primary_audio_stream_entries
  let writer := putBits writer 8 self.number_of_PG_textST_stream_entries
  let writer := putBits writer 8 0  -- int number_of_IG_stream_entries = reader.getBits(8);
  let writer := putBits writer 8 self.number_of_secondary_audio_stream_entries
  let writer := putBits writer 8 self.number_of_secondary_video_stream_entries
  let writer := putBits writer 8 0  -- number_of_PiP_PG_textST_stream_entries_plus
  let writer := putBits writer 8 self.number_of_DolbyVision_video_stream_entries
  putBits writer 32 0  -- reserved_for_future_use

/-- The `// video` loop of `composeSTN_table`. -/
def composeSTN_video (E : StreamTypeCodes) (streamInfo : List MPLSStreamInfo)
    (writer : BitStreamWriter) : Composed BitStreamWriter :=
  streamInfo.foldlM
    (fun writer (i : MPLSStreamInfo) =>
      let stream_coding_type := i.stream_coding_type
      if isVideoStreamType E stream_coding_type ∧ ¬ i.isSecondary ∧ i.HDR ≠ 4 then do
        let writer ← i.composeStreamEntry writer 0
        let writer ← i.composeStreamAttributes E writer
        if stream_coding_type = E.VIDEO_MVC then
          let writer := putBits writer 10 0  -- reserved_for_future_use
          pure (putBits writer 6 ((max 1 i.number_of_offset_sequences) % 2 ^ 32).toNat)
        else pure writer
      else pure writer)
    writer

/-- The `// primary audio` loop of `composeSTN_table`. -/
def composeSTN_primaryAudio (E : StreamTypeCodes) (streamInfo : List MPLSStreamInfo)
    (writer : BitStreamWriter) : Composed BitStreamWriter :=
  streamInfo.foldlM
    (fun writer (i : MPLSStreamInfo) =>
      let stream_coding_type := i.stream_coding_type
      if isAudioStreamType E stream_coding_type ∧ ¬ i.isSecondary then do
        let writer ← i.composeStreamEntry writer 0
        i.composeStreamAttributes E writer
      else pure writer)
    writer

/-- The `// PG` loop of `composeSTN_table`; it runs over `m_streamInfo` also
when `isSSEx` is set. -/
def composeSTN_PG (E : StreamTypeCodes) (m_streamInfo : List MPLSStreamInfo)
    (writer : BitStreamWriter) (isSSEx : Bool) : Composed BitStreamWriter :=
  m_streamInfo.foldlM
    (fun writer (i : MPLSStreamInfo) =>
      let stream_coding_type := i.stream_coding_type
      if stream_coding_type = E.SUB_PGS then
        if isSSEx then i.composePGS_SS_StreamEntry writer
        else do
          let writer ← i.composeStreamEntry writer 0
          i.composeStreamAttributes E writer
      else pure writer)
    writer

/-- The `// secondary audio` loop of `composeSTN_table`; `primaryAudioNum` is
a `uint8_t`. -/
def composeSTN_secondaryAudio (E : StreamTypeCodes) (self : MPLSParser)
    (streamInfo : List MPLSStreamInfo) (writer : BitStreamWriter) : Composed BitStreamWriter :=
  streamInfo.foldlM
    (fun writer (i : MPLSStreamInfo) =>
      if isAudioStreamType E i.stream_coding_type ∧ i.isSecondary then do
        let writer ← i.composeStreamEntry writer 0
        let writer ← i.composeStreamAttributes E writer
        if self.number_of_secondary_video_stream_entries = 0 then
          -- number_of_primary_audio_ref_entries allowed to join with this stream
          let writer := putBits writer 8 self.number_of_primary_audio_stream_entries
          let writer := putBits writer 8 0  -- word align
          let st := streamInfo.foldl
            (fun (st : BitStreamWriter × Nat) (j : MPLSStreamInfo) =>
              if isAudioStreamType E j.stream_coding_type ∧ ¬ j.isSecondary then
                (putBits st.1 8 st.2, (st.2 + 1) % 2 ^ 8)
              else st)
            (writer, 0)
          let writer := st.1
          if self.number_of_primary_audio_stream_entries % 2 = 1 then
            pure (putBits writer 8 0)  -- word align
          else pure writer
        else pure (putBits writer 16 0)
      else pure writer)
    writer

/-- The `// secondary video` loop of `composeSTN_table`: the stream list with
the `type` fields the loop has set, the writer and `secondaryVNum`. -/
def composeSTN_secondaryVideo (E : StreamTypeCodes) (self : MPLSParser)
    (streamInfo : List MPLSStreamInfo) (writer : BitStreamWriter) :
    Composed (List MPLSStreamInfo × BitStreamWriter × Nat) :=
  streamInfo.foldlM
    (fun (st : List MPLSStreamInfo × BitStreamWriter × Nat) (i : MPLSStreamInfo) =>
      let (done, writer, secondaryVNum) := st
      let stream_coding_type := i.stream_coding_type
      if i.isSecondary ∧ isVideoStreamType E stream_coding_type then do
        let i := { i with type := 3 }
        let writer ← i.composeStreamEntry writer secondaryVNum
        let writer ← i.composeStreamAttributes E writer
        let useSecondaryAudio :=
          if self.number_of_secondary_audio_stream_entries > secondaryVNum then 1 else 0
        let writer := putBits writer 8 useSecondaryAudio
        let writer := putBits writer 8 0  -- reserved_for_word_align
        let writer :=
          if useSecondaryAudio ≠ 0 then
            let writer := putBits writer 8 secondaryVNum
            putBits writer 8 0  -- word align
          else writer
        let writer := putBits writer 8 0  -- number_of_PiP_PG_textST_ref_entries
        let writer := putBits writer 8 0  -- reserved_for_word_align
        pure (done ++ [i], writer, secondaryVNum + 1)
      else pure (done ++ [i], writer, secondaryVNum))
    (([] : List MPLSStreamInfo), writer, 0)

/-- The `// DV video` loop of `composeSTN_table`: the stream list with the
`type` fields the loop has set, and the writer. -/
def composeSTN_DV (E : StreamTypeCodes) (streamInfo : List MPLSStreamInfo)
    (writer : BitStreamWriter) : Composed (List MPLSStreamInfo × BitStreamWriter) :=
  streamInfo.foldlM
    (fun (st : List MPLSStreamInfo × BitStreamWriter) (i : MPLSStreamInfo) =>
      let (done, writer) := st
      let stream_coding_type := i.stream_coding_type
      if isVideoStreamType E stream_coding_type ∧ i.HDR = 4 then do
        let i := { i with type := 4 }
        let writer ← i.composeStreamEntry writer 0
        let writer ← i.composeStreamAttributes E writer
        pure (done ++ [i], writer)
      else pure (done ++ [i], writer))
    (([] : List MPLSStreamInfo), writer)

/-- The loops of `composeSTN_table` that write the stream entries, in the
order of the source: the stream list as the last two loops leave it, and the
writer. -/
def composeSTN_entries (E : StreamTypeCodes) (self : MPLSParser)
    (streamInfo : List MPLSStreamInfo) (writer : BitStreamWriter) (isSSEx : Bool) :
    Composed (List MPLSStreamInfo × BitStreamWriter) := do
  let writer ← composeSTN_video E streamInfo writer
  let writer ← composeSTN_primaryAudio E streamInfo writer
  let writer ← composeSTN_PG E self.m_streamInfo writer isSSEx
  let writer ← composeSTN_secondaryAudio E self streamInfo writer
  let st ← composeSTN_secondaryVideo E self streamInfo writer
  composeSTN_DV E st.1 st.2.1

/-- `MPLSParser::composeSTN_table(writer, PlayItem_id, isSSEx)`; `PlayItem_id`
is only passed on as the `entryNum` that `composeStreamEntry` does not use.
With `isSSEx` set the `// PG` loop still runs over `m_streamInfo`, as in the
source. -/
def composeSTN_table (E : StreamTypeCodes) (self : MPLSParser) (writer : BitStreamWriter)
    (isSSEx : Bool) : Composed (MPLSParser × BitStreamWriter) :=
  let lengthPos := getBitsCount writer / 8
  let writer := putBits writer 16 0  -- length
  let beforeCount := getBitsCount writer / 8
  let writer := putBit writer 0  -- Fixed_offset_during_PopUp_flag for ext mode
  let writer := putBits writer 15 0  -- reserved_for_future_use
  let self := { self with
    number_of_primary_video_stream_entries := 0,
    number_of_secondary_video_stream_entries := 0,
    number_of_primary_audio_stream_entries := 0,
    number_of_secondary_audio_stream_entries := 0,
    number_of_PG_textST_stream_entries := 0,
    number_of_DolbyVision_video_stream_entries := 0 }
  let streamInfo := if isSSEx then self.m_streamInfoMVC else self.m_streamInfo
  match countStreams E streamInfo self with
  | .error e => .error (e, writer)
  | .ok self =>
    let writer := if !isSSEx then composeSTN_counts self writer else writer
    match composeSTN_entries E self streamInfo writer isSSEx with
    | .error e => .error e
    | .ok (streamInfo, writer) =>
      let self :=
        if isSSEx then { self with m_streamInfoMVC := streamInfo }
        else { self with m_streamInfo := streamInfo }
      let writer :=
        if isSSEx ∧ getBitsCount writer % 32 ≠ 0 then putBits writer 16 0 else writer
      .ok (self, store writer lengthPos 2 ((getBitsCount writer / 8 - beforeCount) % 2 ^ 16))

/-- The loop `while (writer.getBitsCount() % 16 != 0) writer.putBit(0)`; it
ends within 15 rounds. -/
def padTo16 (writer : BitStreamWriter) : BitStreamWriter :=
  (List.range 15).foldl
    (fun writer _ => if getBitsCount writer % 16 ≠ 0 then putBit writer 0 else writer) writer

/-- The position `(hPos, vPos)` that `composePip_metadata` computes for the
PIP stream `pipStream` on a main video of `mainHSize` by `mainVSize` pixels;
both are `unsigned`, 32 bits wide. -/
def pipPosition (M : PIPMethods) (mainHSize mainVSize : Nat) (pipStream : MPLSStreamInfo) :
    Nat × Nat :=
  let pipParams := pipStream.pipParams
  if !M.isFullScreen pipParams then
    let hPos : Nat := (pipParams.hOffset % 2 ^ 32).toNat
    let vPos : Nat := (pipParams.vOffset % 2 ^ 32).toNat
    let pipWidth := scaledSize pipStream.width (M.getScaleCoeff pipParams)
    let pipHeight := scaledSize pipStream.height (M.getScaleCoeff pipParams)
    let hPos :=
      if pipParams.corner = PipCorner.TopRight ∨ pipParams.corner = PipCorner.BottomRight then
        (((mainHSize : Int) - pipWidth - pipParams.hOffset) % 2 ^ 32).toNat
      else hPos
    let vPos :=
      if pipParams.corner = PipCorner.BottomRight ∨ pipParams.corner = PipCorner.BottomLeft then
        (((mainVSize : Int) - pipHeight - pipParams.vOffset) % 2 ^ 32).toNat
      else vPos
    (hPos, vPos)
  else (0, 0)

/-- The body of the second loop nest of `composePip_metadata` for the play
item `i` and the PIP stream `pipStream`, whose block address is patched at
`addressPos`. -/
def composePip_entry (M : PIPMethods) (self : MPLSParser) (pmtIndexList : List PMTIndex)
    (mainHSize mainVSize : Nat) (writer : BitStreamWriter) (i : Nat) (pipStream : MPLSStreamInfo)
    (addressPos : Nat) : BitStreamWriter :=
  let pipParams := pipStream.pipParams
  let writer := store writer addressPos 4 ((getBitsCount writer / 8) % 2 ^ 32)
  let writer := putBits writer 16 1  -- number_of_pip_metadata_entries
  let writer :=
    if i ≠ 0 ∧ ¬ (pmtIndexList.getD (i - 1) []).isEmpty then
      putBits writer 32
        ((((pmtIndexList.getD i []).head?.map Prod.fst).getD 0 / 2) % 2 ^ 32)
    else putBits writer 32 self.IN_time
  let pos := pipPosition M mainHSize mainVSize pipStream
  let hPos := pos.1
  let vPos := pos.2
  let writer := putBits writer 12 hPos
  let writer := putBits writer 12 vPos
  let writer := putBits writer 4 pipParams.scaleIndex  -- pip_scale[i]. 1 == no_scale
  let writer := putBits writer 4 0  -- reserved_for_future_use
  padTo16 writer

/-- `MPLSParser::composePip_metadata(buffer, bufferSize, pmtIndexList)`: the
buffer contents and the returned length. -/
def composePip_metadata (E : StreamTypeCodes) (M : PIPMethods) (self : MPLSParser)
    (pmtIndexList : List PMTIndex) : List Nat × Nat :=
  let writer := BitStreamWriter.setBuffer
  let lengthPos := 0
  let writer := putBits writer 32 0  -- length
  let st := self.m_streamInfo.foldl
    (fun (st : List MPLSStreamInfo × Nat × Nat) si =>
      let (pipStreams, mainVSize, mainHSize) := st
      let stream_coding_type := si.stream_coding_type
      if isVideoStreamType E stream_coding_type then
        if si.isSecondary then (pipStreams ++ [si], mainVSize, mainHSize)
        else (pipStreams, si.height, si.width)
      else st)
    (([] : List MPLSStreamInfo), 0, 0)
  let pipStreams := st.1
  let mainVSize := st.2.1
  let mainHSize := st.2.2
  let pipStreamsSize := pipStreams.length % 2 ^ 32
  let pmtIndexListSize := pmtIndexList.length % 2 ^ 32
  let writer := putBits writer 16 ((pipStreamsSize * pmtIndexListSize) % 2 ^ 32)
  let hd := (List.range pmtIndexListSize).foldl
    (fun (hd : BitStreamWriter × List Nat) i =>
      (pipStreams.take pipStreamsSize).enum.foldl
        (fun (hd : BitStreamWriter × List Nat) (e : Nat × MPLSStreamInfo) =>
          let (writer, blockDataAddressPos) := hd
          let k := e.1
          let pipParams := e.2.pipParams
          -- metadata_block_header[k]() {
          let writer := putBits writer 16 i  -- ref_to_PlayItem_id
          let writer := putBits writer 8 k  -- ref_to_secondary_video_stream_id
          let writer := putBits writer 8 0  -- reserved_for_future_use
          -- pip_timeline_type == 1. Synchronous type of Picture-in-Picture
          let writer := putBits writer 4 (if pipParams.lumma ≥ 0 then 1 else 0)
          let writer := putBit writer 1  -- is_luma_key = 0
          let writer := putBit writer 1  -- trick_playing_flag. keep PIP windows when tricking
          let writer := putBits writer 10 0  -- reserved_for_word_align
          let writer := putBits writer 8 0  -- reserved_for_future_use
          let writer :=
            if pipParams.lumma ≥ 0 then
              putBits writer 8 pipParams.lumma.toNat  -- transparent Y pixels
            else putBits writer 8 0  -- reserved_for_future_use
          let writer := putBits writer 16 0  -- reserved_for_future_use
          let blockDataAddressPos := blockDataAddressPos ++ [getBitsCount writer / 8]
          let writer := putBits writer 32 0  -- metadata_block_data_start_address
          (writer, blockDataAddressPos))
        hd)
    (writer, ([] : List Nat))
  let writer := padTo16 hd.1
  let blockDataAddressPos := hd.2
  let writer := (List.range pmtIndexList.length).foldl
    (fun writer i =>
      pipStreams.enum.foldl
        (fun writer (e : Nat × MPLSStreamInfo) =>
          composePip_entry M self pmtIndexList mainHSize mainVSize writer i e.2
            (blockDataAddressPos.getD (i * pipStreams.length + e.1) 0))
        writer)
    writer
  let writer := flushBits writer
  let writer := store writer lengthPos 4 ((getBitsCount writer / 8 - 4) % 2 ^ 32)
  (writer.bytes, getBitsCount writer / 8)

/-- The loop `while ((writer.getBitsCount() / 8 - initPos) % 4 != 0)
writer.putBits(16, 0)` of `composeExtensionData`: `none` when `fuel` rounds do
not end it. From an even distance it ends within one round; from an odd
distance the test never fails. -/
def alignExtLoop (initPos : Nat) : Nat → BitStreamWriter → Option BitStreamWriter
  | 0, _ => none
  | fuel + 1, writer =>
      if (getBitsCount writer / 8 - initPos) % 4 ≠ 0 then
        alignExtLoop initPos fuel (putBits writer 16 0)
      else some writer

/-- `MPLSParser::composeExtensionData(writer, extDataBlockInfo)`: `none` when
the aligning loop does not end. `extDataStartAddrPos[i]` is the `i`-th element
of the list of positions the first loop records; `lengthPos + 1` is the 32-bit
word behind `*lengthPos`. -/
def composeExtensionData (writer : BitStreamWriter) (extDataBlockInfo : List ExtDataBlockInfo) :
    Option BitStreamWriter :=
  let lengthPos := getBitsCount writer / 8
  let writer := putBits writer 32 0  -- length
  let initPos := getBitsCount writer / 8
  if !extDataBlockInfo.isEmpty then do
    let writer := putBits writer 32 0  -- data_block_start_address
    let writer := putBits writer 24 0  -- reserved_for_word_align
    let extDataBlockInfoSize := extDataBlockInfo.length % 2 ^ 32
    let writer := putBits writer 8 extDataBlockInfoSize
    let st := (extDataBlockInfo.take extDataBlockInfoSize).foldl
      (fun (st : BitStreamWriter × List Nat) (b : ExtDataBlockInfo) =>
        let (writer, extDataStartAddrPos) := st
        let writer := putBits writer 16 b.id1
        let writer := putBits writer 16 b.id2
        let extDataStartAddrPos := extDataStartAddrPos ++ [getBitsCount writer / 8]
        let writer := putBits writer 32 0  -- ext_data_start_address
        let writer := putBits writer 32 (b.data.length % 2 ^ 32)  -- ext_data_length
        (writer, extDataStartAddrPos))
      (writer, ([] : List Nat))
    let writer := st.1
    let extDataStartAddrPos := st.2
    let writer ← alignExtLoop initPos 3 writer
    -- data_block_start_address
    let writer := store writer (lengthPos + 4) 4 ((getBitsCount writer / 8 - initPos + 4) % 2 ^ 32)
    let writer := ((extDataBlockInfo.take extDataBlockInfoSize).zip extDataStartAddrPos).foldl
      (fun writer (e : ExtDataBlockInfo × Nat) =>
        let writer := store writer e.2 4 ((getBitsCount writer / 8 - initPos + 4) % 2 ^ 32)
        e.1.data.foldl (fun writer j => putBits writer 8 j) writer)
      writer
    pure (store writer lengthPos 4 ((getBitsCount writer / 8 - initPos) % 2 ^ 32))
  else pure (store writer lengthPos 4 ((getBitsCount writer / 8 - initPos) % 2 ^ 32))

end MPLSParser

/-! ## MPLS: composing the playlist file -/

/-- What the composing functions of `MPLSParser` use of other source files of
the repository; parameters of the embedding. `isV3` is the value of `isV3()`,
`HDR10_metadata` holds the words of the array `HDR10_metadata`, and
`clipName n` holds the characters of `strPadLeft(int32ToStr(n), 5, '0')`. -/
structure MPLSEnv where
  isV3 : Bool
  HDR10_metadata : List Nat
  clipName : Nat → List Nat

namespace MPLSParser

open BitStreamWriter

/-- `MPLSParser::getMVCDependStream()`: the first VIDEO_MVC stream of
`m_streamInfoMVC`, else the fatal error. -/
def getMVCDependStream (E : StreamTypeCodes) (self : MPLSParser) : Except Exc MPLSStreamInfo :=
  match self.m_streamInfoMVC.find? (fun i => i.stream_coding_type = E.VIDEO_MVC) with
  | some i => .ok i
  | none => .error (Exc.VodCoreException ErrMsg.cantFindStreamIndex)

/-- `pmtIndexList[i].begin()->first`, the least key of the index of play item
`i` (0 when there is none). -/
def firstKey (pmtIndexList : List PMTIndex) (i : Nat) : Nat :=
  ((pmtIndexList.getD i []).head?.map Prod.fst).getD 0

/-- `MPLSParser::composeAppInfoPlayList(writer)`. -/
def composeAppInfoPlayList (X : MPLSEnv) (self : MPLSParser) (writer : BitStreamWriter) :
    BitStreamWriter :=
  let lengthPos := getBitsCount writer / 8
  let writer := putBits writer 32 0  -- length
  let beforeCount := getBitsCount writer / 8
  let writer := putBits writer 8 0  -- reserved_for_future_use
  let writer := putBits writer 8 self.PlayList_playback_type
  let writer :=
    if self.PlayList_playback_type = 2 ∨ self.PlayList_playback_type = 3 then
      putBits writer 16 self.playback_count  -- 1 == Sequential playback of PlayItems
    else putBits writer 16 0  -- reserved_for_future_use
  let writer := putBits writer 28 0  -- UO_mask_table;
  let writer := putBits writer 4 (if X.isV3 then 15 else 0)  -- UO_mask_table;
  let writer := putBit writer 0  -- reserved
  let writer := putBit writer (if X.isV3 then 1 else 0)  -- SecondaryPGStreamNumberChange
  let writer := putBits writer 30 0  -- UO_mask_table cont;
  let writer := putBit writer 0  -- PlayList_random_access_flag
  let writer := putBit writer 1  -- audio_mix_app_flag
  let writer := putBit writer 0  -- lossless_may_bypass_mixer_flag
  let writer := putBit writer (if self.mvc_base_view_r then 1 else 0)
  let writer := putBits writer 12 0  -- reserved_for_future_use
  store writer lengthPos 4 ((getBitsCount writer / 8 - beforeCount) % 2 ^ 32)

/-- `MPLSParser::composeSubPlayItem(writer, playItemNum, subPathNum,
pmtIndexList)`. -/
def composeSubPlayItem (X : MPLSEnv) (self : MPLSParser) (writer : BitStreamWriter)
    (playItemNum : Nat) (pmtIndexList : List PMTIndex) : BitStreamWriter :=
  let lengthPos := getBitsCount writer / 8
  let writer := putBits writer 16 0  -- length
  let beforeCount := getBitsCount writer / 8
  let fileNum := playItemNum
  let fileNum := if self.isDependStreamExist then fileNum * 2 + 1 else fileNum
  let clip_Information_file_name := X.clipName (fileNum + self.m_m2tsOffset)
  let writer := CLPIStreamInfo.writeString clip_Information_file_name writer 5
  let writer := CLPIStreamInfo.writeString [0x4d, 0x32, 0x54, 0x53] writer 4  -- "M2TS"
  let connection_condition := if playItemNum = 0 then 1 else 6
  let writer := putBits writer 27 0  -- reserved_for_future_use
  let writer := putBits writer 4 connection_condition
  let writer := putBit writer 0  -- is_multi_Clip_entries
  let writer := putBits writer 8 self.ref_to_STC_id
  let writer :=
    if playItemNum > 0 ∧ !(pmtIndexList.getD (playItemNum - 1) []).isEmpty then
      putBits writer 32 (firstKey pmtIndexList playItemNum / 2)
    else putBits writer 32 self.IN_time
  let writer :=
    if playItemNum ≠ pmtIndexList.length - 1 ∧ !(pmtIndexList.getD (playItemNum + 1) []).isEmpty then
      putBits writer 32 (firstKey pmtIndexList (playItemNum + 1) / 2)
    else putBits writer 32 self.OUT_time
  let writer := putBits writer 16 playItemNum  -- sync_PlayItem_id
  -- sync_start_PTS_of_PlayItem
  let writer :=
    if playItemNum > 0 ∧ !(pmtIndexList.getD (playItemNum - 1) []).isEmpty then
      putBits writer 32 (firstKey pmtIndexList playItemNum % 2 ^ 32 / 2)
    else putBits writer 32 self.IN_time
  store writer lengthPos 2 ((getBitsCount writer / 8 - beforeCount) % 2 ^ 16)

/-- `MPLSParser::composeSubPath(writer, subPathNum, pmtIndexList, type)`;
`subPathNum` is only passed on to `composeSubPlayItem`, which does not use
it. -/
def composeSubPath (X : MPLSEnv) (self : MPLSParser) (writer : BitStreamWriter)
    (pmtIndexList : List PMTIndex) (type : Nat) : BitStreamWriter :=
  let lengthPos := getBitsCount writer / 8
  let writer := putBits writer 32 0  -- length
  let beforeCount := getBitsCount writer / 8
  let writer := putBits writer 8 0  -- reserved_for_future_use
  let writer := putBits writer 8 type  -- SubPath_type
  let writer := putBits writer 15 0  -- reserved_for_future_use
  let writer := putBits writer 1 0  -- is_repeat_SubPath = false
  let writer := putBits writer 8 0  -- reserved_for_future_use
  let writer := putBits writer 8 (pmtIndexList.length % 2 ^ 32)  -- number_of_SubPlayItems
  let writer := (List.range pmtIndexList.length).foldl
    (fun writer i => composeSubPlayItem X self writer i pmtIndexList) writer
  store writer lengthPos 4 ((getBitsCount writer / 8 - beforeCount) % 2 ^ 32)

/-- `MPLSParser::SubPath_extension(writer)`. -/
def SubPath_extension (E : StreamTypeCodes) (X : MPLSEnv) (self : MPLSParser)
    (writer : BitStreamWriter) : Composed BitStreamWriter :=
  let lengthPos := getBitsCount writer / 8
  let writer := putBits writer 32 0  -- length
  let beforeCount := getBitsCount writer / 8
  let writer := putBits writer 8 0  -- reserved
  let writer := putBits writer 8 8  -- SubPath_type = 8
  let writer := putBits writer 15 0  -- reserved
  let writer := putBit writer 0  -- is_repeat_SubPath
  let writer := putBits writer 8 0  -- reserved
  match getMVCDependStream E self with
  | .error e => .error (e, writer)
  | .ok streamInfoMVC =>
    let pmtIndexList := streamInfoMVC.m_index
    let writer := putBits writer 8 (pmtIndexList.length % 2 ^ 32)  -- number_of_SubPlayItems
    let writer := (List.range pmtIndexList.length).foldl
      (fun writer i => composeSubPlayItem X self writer i pmtIndexList) writer
    .ok (store writer lengthPos 4 ((getBitsCount writer / 8 - beforeCount) % 2 ^ 32))

/-- `MPLSParser::composeSubPathEntryExtension(buffer, bufferSize)`: the buffer
contents and the returned length. The `catch (...)` clause turns every
exception of the body into the return value 0. -/
def composeSubPathEntryExtension (E : StreamTypeCodes) (X : MPLSEnv) (self : MPLSParser) :
    List Nat × Nat :=
  let writer := BitStreamWriter.setBuffer
  let lengthPos := getBitsCount writer / 8
  let writer := putBits writer 32 0  -- length
  let beforeCount := getBitsCount writer / 8
  let writer := putBits writer 16 1  -- one subpath
  match SubPath_extension E X self writer with
  | .error e => (e.2.bytes, 0)
  | .ok writer =>
    let writer := if getBitsCount writer % 32 ≠ 0 then putBits writer 16 0 else writer
    let writer := flushBits writer
    let writer := store writer lengthPos 4 ((getBitsCount writer / 8 - beforeCount) % 2 ^ 32)
    (writer.bytes, getBitsCount writer / 8)

/-- The loop of `composeSTN_tableSS`: one `composeSTN_table(writer,
PlayItem_id, true)` for each of `n` play items. -/
def composeSTN_tableSSLoop (E : StreamTypeCodes) :
    Nat → MPLSParser → BitStreamWriter → Composed (MPLSParser × BitStreamWriter)
  | 0, self, writer => .ok (self, writer)
  | n + 1, self, writer =>
      match composeSTN_table E self writer true with
      | .error e => .error e
      | .ok (self, writer) => composeSTN_tableSSLoop E n self writer

/-- `MPLSParser::composeSTN_tableSS(buffer, bufferSize)`: the object, the
buffer contents and the returned length. The `catch (...)` clause turns every
exception of the body into the return value 0; the object is then given as it
was at the call (what `composeSTN_table` had changed before the exception, the
stream counters and `type` members of the MVC streams, is not read by the
caller). -/
def composeSTN_tableSS (E : StreamTypeCodes) (self : MPLSParser) :
    MPLSParser × List Nat × Nat :=
  let writer := BitStreamWriter.setBuffer
  match getMVCDependStream E self with
  | .error _ => (self, writer.bytes, 0)
  | .ok streamInfoMVC =>
    match composeSTN_tableSSLoop E streamInfoMVC.m_index.length self writer with
    | .error e => (self, e.2.bytes, 0)
    | .ok (self, writer) =>
      let writer := flushBits writer
      (self, writer.bytes, getBitsCount writer / 8)

/-- `MPLSParser::composeUHD_metadata(buffer, bufferSize)`: the buffer contents
and the returned length. -/
def composeUHD_metadata (X : MPLSEnv) : List Nat × Nat :=
  let writer := BitStreamWriter.setBuffer
  let writer := putBits writer 32 0x20
  let writer := putBits writer 32 (1 <<< 24)
  let writer := putBits writer 32 (1 <<< 28)
  let writer := X.HDR10_metadata.foldl (fun writer i => putBits writer 32 i) writer
  let writer := flushBits writer
  (writer.bytes, getBitsCount writer / 8)

/-- `MPLSParser::composePlayItem(writer, playItemNum, pmtIndexList)`. -/
def composePlayItem (E : StreamTypeCodes) (X : MPLSEnv) (self : MPLSParser)
    (writer : BitStreamWriter) (playItemNum : Nat) (pmtIndexList : List PMTIndex) :
    Composed (MPLSParser × BitStreamWriter) :=
  let lengthPos := getBitsCount writer / 8
  let writer := putBits writer 16 0  -- length
  let beforeCount := getBitsCount writer / 8
  let fileNum := playItemNum
  let fileNum := if self.isDependStreamExist then fileNum * 2 else fileNum
  let clip_Information_file_name := X.clipName (fileNum + self.m_m2tsOffset)
  let writer := CLPIStreamInfo.writeString clip_Information_file_name writer 5
  let writer := CLPIStreamInfo.writeString [0x4d, 0x32, 0x54, 0x53] writer 4  -- "M2TS"
  let writer := putBits writer 11 0  -- reserved_for_future_use
  let writer := putBit writer 0  -- is_multi_angle
  let connection_condition := if playItemNum = 0 then 1 else 6
  let writer := putBits writer 4 connection_condition
  let writer := putBits writer 8 self.ref_to_STC_id
  let writer :=
    if playItemNum ≠ 0 ∧ !(pmtIndexList.getD (playItemNum - 1) []).isEmpty then
      putBits writer 32 (firstKey pmtIndexList playItemNum % 2 ^ 32 / 2)
    else putBits writer 32 self.IN_time
  let writer :=
    if playItemNum ≠ pmtIndexList.length - 1 ∧ !(pmtIndexList.getD (playItemNum + 1) []).isEmpty then
      putBits writer 32 (firstKey pmtIndexList (playItemNum + 1) / 2)
    else putBits writer 32 self.OUT_time
  let writer := putBits writer 28 0  -- UO_mask_table;
  let writer := putBits writer 4 (if X.isV3 then 15 else 0)  -- UO_mask_table;
  let writer := putBit writer 0  -- reserved
  let writer := putBit writer (if X.isV3 then 1 else 0)  -- SecondaryPGStreamNumberChange
  let writer := putBits writer 30 0  -- UO_mask_table cont;
  let writer := putBit writer (if self.PlayItem_random_access_flag then 1 else 0)
  let writer := putBits writer 7 0  -- reserved_for_future_use
  let writer := putBits writer 8 0  -- still_mode
  let writer := putBits writer 16 0  -- reserved after stillMode != 0x01
  match composeSTN_table E self writer false with
  | .error e => .error e
  | .ok (self, writer) =>
    .ok (self, store writer lengthPos 2 ((getBitsCount writer / 8 - beforeCount) % 2 ^ 16))

/-- The loop `for (PlayItem_id = 0; PlayItem_id < size; PlayItem_id++)
composePlayItem(writer, PlayItem_id, pmtIndexList)` of `composePlayList`, over
the play items in `ids`. -/
def composePlayItems (E : StreamTypeCodes) (X : MPLSEnv) (pmtIndexList : List PMTIndex) :
    List Nat → MPLSParser → BitStreamWriter → Composed (MPLSParser × BitStreamWriter)
  | [], self, writer => .ok (self, writer)
  | PlayItem_id :: ids, self, writer =>
      match composePlayItem E X self writer PlayItem_id pmtIndexList with
      | .error e => .error e
      | .ok (self, writer) => composePlayItems E X pmtIndexList ids self writer

/-- `MPLSParser::composePlayList(writer)`. -/
def composePlayList (E : StreamTypeCodes) (X : MPLSEnv) (self : MPLSParser)
    (writer : BitStreamWriter) : Composed (MPLSParser × BitStreamWriter) :=
  let lengthPos := getBitsCount writer / 8
  let writer := putBits writer 32 0  -- length
  let beforeCount := getBitsCount writer / 8
  let writer := putBits writer 16 0  -- reserved_for_future_use
  match getMainStream E self with
  | .error e => .error (e, writer)
  | .ok mainStreamInfo =>
    let writer := putBits writer 16 (mainStreamInfo.m_index.length % 2 ^ 32)  -- number_of_PlayItems
    let writer := putBits writer 16 self.number_of_SubPaths  -- number_of_SubPaths
    match composePlayItems E X mainStreamInfo.m_index (List.range mainStreamInfo.m_index.length)
        self writer with
    | .error e => .error e
    | .ok (self, writer) =>
      let dependStreamInfo := mainStreamInfo
      let writer := (List.range (self.number_of_SubPaths * dependStreamInfo.m_index.length)).foldl
        (fun writer _ => composeSubPath X self writer dependStreamInfo.m_index self.subPath_type)
        writer
      .ok (self, store writer lengthPos 4 ((getBitsCount writer / 8 - beforeCount) % 2 ^ 32))

/-- The first loop of `MPLSParser::compose`: every secondary video stream and
every video stream with `HDR & 4` adds one to `number_of_SubPaths` and sets
`subPath_type`. -/
def countSubPaths (E : StreamTypeCodes) (self : MPLSParser) : MPLSParser :=
  self.m_streamInfo.foldl
    (fun (self : MPLSParser) si =>
      let stream_coding_type := si.stream_coding_type
      if isVideoStreamType E stream_coding_type then
        if si.isSecondary then
          { self with
            number_of_SubPaths := self.number_of_SubPaths + 1
            subPath_type := 7 }  -- PIP not fully implemented yet
        else if si.HDR &&& 4 ≠ 0 then
          { self with
            number_of_SubPaths := self.number_of_SubPaths + 1
            subPath_type := 10 }
        else self
      else self)
    self

/-- The block of `MPLSParser::compose` that writes the extension data, entered
when `number_of_SubPaths > 0 || isDependStreamExist || isV3()`; `writer` is
the writer with `*extDataStartAddr` stored. The result is `none` when the
aligning loop of `composeExtensionData` does not end. -/
def composeExtension (E : StreamTypeCodes) (M : PIPMethods) (X : MPLSEnv) (self : MPLSParser)
    (writer : BitStreamWriter) : Option (Composed (MPLSParser × BitStreamWriter)) :=
  match getMainStream E self with
  | .error e => some (.error (e, writer))
  | .ok mainStreamInfo =>
    let blockVector : List ExtDataBlockInfo := []
    let blockVector :=
      if self.number_of_SubPaths > 0 ∧ self.subPath_type = 7 then
        let r := composePip_metadata E M self mainStreamInfo.m_index
        blockVector ++ [⟨r.1.take r.2, 1, 1⟩]
      else blockVector
    let st : MPLSParser × List ExtDataBlockInfo :=
      if self.isDependStreamExist then
        let r := composeSTN_tableSS E self
        let blockVector := blockVector ++ [⟨r.2.1.take r.2.2, 2, 1⟩]
        let r2 := composeSubPathEntryExtension E X r.1
        (r.1, blockVector ++ [⟨r2.1.take r2.2, 2, 2⟩])
      else (self, blockVector)
    let self := st.1
    let blockVector := st.2
    let blockVector :=
      if X.isV3 then
        let r := composeUHD_metadata X
        blockVector ++ [⟨r.1.take r.2, 3, 5⟩]
      else blockVector
    match composeExtensionData writer blockVector with
    | none => none
    | some writer =>
      let writer := if getBitsCount writer % 16 ≠ 0 then putBits writer 8 0 else writer
      some (.ok (self, writer))

/-- `MPLSParser::compose(buffer, bufferSize, dt)`: the object afterwards, the
buffer contents and the returned length; `dtIsBluray` is the value of
`dt == DiskType::BLURAY`. The result is `none` when a loop of
`composePlayListMark` or `composeExtensionData` does not end. -/
def compose (E : StreamTypeCodes) (M : PIPMethods) (X : MPLSEnv) (self : MPLSParser)
    (dtIsBluray : Bool) : Option (Composed (MPLSParser × List Nat × Nat)) :=
  let self := countSubPaths E self
  let writer := BitStreamWriter.setBuffer
  let type_indicator := [0x4d, 0x50, 0x4c, 0x53]  -- "MPLS"
  let version_number :=
    if dtIsBluray then (if X.isV3 then [0x30, 0x33, 0x30, 0x30] else [0x30, 0x32, 0x30, 0x30])
    else [0x30, 0x31, 0x30, 0x30]
  let writer := CLPIStreamInfo.writeString type_indicator writer 4
  let writer := CLPIStreamInfo.writeString version_number writer 4
  let playList_bit_pos := getBitsCount writer / 8
  let writer := putBits writer 32 0
  let playListMark_bit_pos := getBitsCount writer / 8
  let writer := putBits writer 32 0
  let extDataStartAddr := getBitsCount writer / 8
  let writer := putBits writer 32 0  -- extension data start address
  let writer := (List.range 5).foldl (fun writer _ => putBits writer 32 0) writer  -- reserved
  let writer := composeAppInfoPlayList X self writer
  let writer := if getBitsCount writer % 16 ≠ 0 then putBits writer 8 0 else writer
  let writer := store writer playList_bit_pos 4 ((getBitsCount writer / 8) % 2 ^ 32)
  match composePlayList E X self writer with
  | .error e => some (.error e)
  | .ok (self, writer) =>
    let writer := if getBitsCount writer % 16 ≠ 0 then putBits writer 8 0 else writer
    let writer := store writer playListMark_bit_pos 4 ((getBitsCount writer / 8) % 2 ^ 32)
    match composePlayListMark E self writer with
    | none => none
    | some (.error e) => some (.error e)
    | some (.ok (self, writer)) =>
      let writer := if getBitsCount writer % 16 ≠ 0 then putBits writer 8 0 else writer
      if self.number_of_SubPaths > 0 ∨ self.isDependStreamExist ∨ X.isV3 then
        let writer := store writer extDataStartAddr 4 ((getBitsCount writer / 8) % 2 ^ 32)
        match composeExtension E M X self writer with
        | none => none
        | some (.error e) => some (.error e)
        | some (.ok (self, writer)) =>
          let writer := flushBits writer
          some (.ok (self, writer.bytes, getBitsCount writer / 8))
      else
        let writer := flushBits writer
        some (.ok (self, writer.bytes, getBitsCount writer / 8))

end MPLSParser

/-! ## MPLS: parsing the stream table and the extension data -/

namespace MPLSStreamInfo

/-- The constructor `MPLSStreamInfo::MPLSStreamInfo()`; `base` holds what the
constructor of the base class `M2TSStreamInfo`, which is defined outside
`tsPacket.cpp`, sets. -/
def create (base : MPLSStreamInfo) : MPLSStreamInfo :=
  { base with type := 0, offsetId := 0xff, isSSPG := false, SS_PG_offset_sequence_id := 0xff }

/-- `MPLSStreamInfo::parseStreamEntry(reader)`. -/
def parseStreamEntry (self : MPLSStreamInfo) (reader : BitStreamReader) :
    Except Exc (MPLSStreamInfo × BitStreamReader) := do
  let reader ← reader.skipBits 8  -- length
  let (type, reader) ← reader.getBits 8
  let self := { self with type := type }
  if type = 1 then
    let (streamPID, reader) ← reader.getBits 16
    let self := { self with streamPID := streamPID }
    let reader ← reader.skipBits 32
    let reader ← reader.skipBits 16
    pure (self, reader)
  else if type = 2 then
    let reader ← reader.skipBits 16  -- ref_to_SubPath_id, ref_to_subClip_entry_id
    let (streamPID, reader) ← reader.getBits 16
    let self := { self with streamPID := streamPID }
    let reader ← reader.skipBits 32
    pure (self, reader)
  else if type = 3 ∨ type = 4 then
    let reader ← reader.skipBits 8  -- ref_to_SubPath_id
    let (streamPID, reader) ← reader.getBits 16
    let self := { self with streamPID := streamPID }
    let reader ← reader.skipBits 32
    let reader ← reader.skipBits 8
    pure (self, reader)
  else pure (self, reader)

/-- `MPLSStreamInfo::parseStreamAttributes(reader)`. -/
def parseStreamAttributes (E : StreamTypeCodes) (self : MPLSStreamInfo)
    (reader : BitStreamReader) : Except Exc (MPLSStreamInfo × BitStreamReader) := do
  let reader ← reader.skipBits 8  -- length
  let (stream_coding_type, reader) ← reader.getBits 8
  let self := { self with stream_coding_type := stream_coding_type }
  if isVideoStreamType E stream_coding_type then
    let (video_format, reader) ← reader.getBits 4
    let (frame_rate_index, reader) ← reader.getBits 4
    let reader ← reader.skipBits 24  -- reserved_for_future_use
    pure ({ self with video_format := video_format, frame_rate_index := frame_rate_index },
      reader)
  else if isAudioStreamType E stream_coding_type then
    let (audio_presentation_type, reader) ← reader.getBits 4
    let reader ← reader.skipBits 4  -- sampling_frequency_index
    let (language_code, reader) ← CLPIStreamInfo.readString 3 reader
    pure ({ self with
      audio_presentation_type := audio_presentation_type, language_code := language_code },
      reader)
  else if stream_coding_type = E.SUB_PGS ∨ stream_coding_type = E.SUB_IGS then
    let (language_code, reader) ← CLPIStreamInfo.readString 3 reader
    let reader ← reader.skipBits 8  -- reserved_for_future_use
    pure ({ self with language_code := language_code }, reader)
  else if stream_coding_type = E.SUB_TGS then
    -- Text subtitle stream
    let (character_code, reader) ← reader.getBits 8
    let (language_code, reader) ← CLPIStreamInfo.readString 3 reader
    pure ({ self with character_code := character_code, language_code := language_code },
      reader)
  else pure (self, reader)

end MPLSStreamInfo

namespace MPLSParser

/-- The statements every loop of `STN_table` starts with: a stream object is
constructed (and marked secondary in the two loops for secondary streams), its
stream entry and its attributes are read, and for play item 0 it is appended
to `m_streamInfo`. `fresh` is a default-constructed `MPLSStreamInfo`. -/
def parseStream (E : StreamTypeCodes) (fresh : MPLSStreamInfo) (markSecondary : Bool)
    (PlayItem_id : Nat) (self : MPLSParser) (reader : BitStreamReader) :
    Except Exc (MPLSParser × BitStreamReader) := do
  let streamInfo := fresh
  let streamInfo := if markSecondary then { streamInfo with isSecondary := true } else streamInfo
  let (streamInfo, reader) ← streamInfo.parseStreamEntry reader
  let (streamInfo, reader) ← streamInfo.parseStreamAttributes E reader
  let self :=
    if PlayItem_id = 0 then { self with m_streamInfo := self.m_streamInfo ++ [streamInfo] }
    else self
  pure (self, reader)

/-- A list of stream id references in `STN_table`: the number of entries, a
reserved byte, one byte per entry and a byte of padding when the number is
odd. -/
def skipRefEntries (reader : BitStreamReader) : Except Exc BitStreamReader := do
  let (number_of_ref_entries, reader) ← reader.getBits 8
  let reader ← reader.skipBits 8  -- reserved_for_word_align
  let reader ← (List.range number_of_ref_entries).foldlM
    (fun reader _ => reader.skipBits 8) reader
  if number_of_ref_entries &&& 1 ≠ 0 then reader.skipBits 8  -- reserved_for_word_align
  else pure reader

/-- The body of the loop of `STN_table` over the secondary audio streams. -/
def parseSecondaryAudio (E : StreamTypeCodes) (fresh : MPLSStreamInfo) (PlayItem_id : Nat)
    (self : MPLSParser) (reader : BitStreamReader) :
    Except Exc (MPLSParser × BitStreamReader) := do
  let (self, reader) ← parseStream E fresh true PlayItem_id self reader
  let reader ← skipRefEntries reader  -- primary_audio_stream_id_ref
  pure (self, reader)

/-- The body of the loop of `STN_table` over the secondary video streams. -/
def parseSecondaryVideo (E : StreamTypeCodes) (fresh : MPLSStreamInfo) (PlayItem_id : Nat)
    (self : MPLSParser) (reader : BitStreamReader) :
    Except Exc (MPLSParser × BitStreamReader) := do
  let (self, reader) ← parseStream E fresh true PlayItem_id self reader
  let reader ← skipRefEntries reader  -- secondary_audio_stream_id_ref
  let reader ← skipRefEntries reader  -- PiP_PG_textST_stream_id_ref
  pure (self, reader)

/-- A loop `for (id = 0; id < n; id++) body` of `STN_table`. -/
def STN_tableLoop
    (body : MPLSParser → BitStreamReader → Except Exc (MPLSParser × BitStreamReader)) :
    Nat → MPLSParser → BitStreamReader → Except Exc (MPLSParser × BitStreamReader)
  | 0, self, reader => pure (self, reader)
  | n + 1, self, reader => do
      let (self, reader) ← body self reader
      STN_tableLoop body n self reader

/-- `MPLSParser::STN_table(reader, PlayItem_id)`. -/
def STN_table (E : StreamTypeCodes) (fresh : MPLSStreamInfo) (self : MPLSParser)
    (reader : BitStreamReader) (PlayItem_id : Nat) :
    Except Exc (MPLSParser × BitStreamReader) := do
  let reader ← reader.skipBits 32  -- length, reserved_for_future_use
  let (number_of_primary_video_stream_entries, reader) ← reader.getBits 8
  let (number_of_primary_audio_stream_entries, reader) ← reader.getBits 8
  let (number_of_PG_textST_stream_entries, reader) ← reader.getBits 8
  let (number_of_IG_stream_entries, reader) ← reader.getBits 8
  let (number_of_secondary_audio_stream_entries, reader) ← reader.getBits 8
  let (number_of_secondary_video_stream_entries, reader) ← reader.getBits 8
  let (number_of_PiP_PG_textST_stream_entries_plus, reader) ← reader.getBits 8
  let (number_of_DolbyVision_video_stream_entries, reader) ← reader.getBits 8
  let self := { self with
    number_of_primary_video_stream_entries := number_of_primary_video_stream_entries,
    number_of_primary_audio_stream_entries := number_of_primary_audio_stream_entries,
    number_of_PG_textST_stream_entries := number_of_PG_textST_stream_entries,
    number_of_IG_stream_entries := number_of_IG_stream_entries,
    number_of_secondary_audio_stream_entries := number_of_secondary_audio_stream_entries,
    number_of_secondary_video_stream_entries := number_of_secondary_video_stream_entries,
    number_of_PiP_PG_textST_stream_entries_plus := number_of_PiP_PG_textST_stream_entries_plus,
    number_of_DolbyVision_video_stream_entries := number_of_DolbyVision_video_stream_entries }
  let reader ← reader.skipBits 32  -- reserved_for_future_use
  let (self, reader) ← STN_tableLoop (parseStream E fresh false PlayItem_id)
    number_of_primary_video_stream_entries self reader
  let (self, reader) ← STN_tableLoop (parseStream E fresh false PlayItem_id)
    number_of_primary_audio_stream_entries self reader
  let (self, reader) ← STN_tableLoop (parseStream E fresh false PlayItem_id)
    (number_of_PG_textST_stream_entries + number_of_PiP_PG_textST_stream_entries_plus)
    self reader
  let (self, reader) ← STN_tableLoop (parseStream E fresh false PlayItem_id)
    number_of_IG_stream_entries self reader
  let (self, reader) ← STN_tableLoop (parseSecondaryAudio E fresh PlayItem_id)
    number_of_secondary_audio_stream_entries self reader
  let (self, reader) ← STN_tableLoop (parseSecondaryVideo E fresh PlayItem_id)
    number_of_secondary_video_stream_entries self reader
  STN_tableLoop (parseStream E fresh false PlayItem_id)
    number_of_DolbyVision_video_stream_entries self reader

/-- The entry loop of `MPLSParser::parseExtensionData`; `data` is the memory
from the start of the extension block on, `size` is `dataEnd - data`. An entry
with `dataAddress + dataLength` (32-bit sum) above `size` is skipped. The
sub-parsers `parseStnTableSS` and `parseSubPathEntryExtension` catch every
exception, so each is a function from the object and the bytes it is given to
the object it leaves; the two are parameters here. An exception of the reader
ends the loop (`catch (...)`), the object staying as it is. -/
def parseExtensionDataEntries
    (parseStnTableSS parseSubPathEntryExtension : MPLSParser → List Nat → MPLSParser)
    (data : List Nat) (size : Nat) : Nat → MPLSParser → BitStreamReader → MPLSParser
  | 0, self, _ => self
  | n + 1, self, reader =>
      match reader.getBits 32 with
      | .error _ => self
      | .ok (dataID, reader) =>
      match reader.getBits 32 with
      | .error _ => self
      | .ok (dataAddress, reader) =>
      match reader.getBits 32 with
      | .error _ => self
      | .ok (dataLength, reader) =>
      if (dataAddress + dataLength) % 2 ^ 32 > size % 2 ^ 32 then
        parseExtensionDataEntries parseStnTableSS parseSubPathEntryExtension data size n self
          reader
      else
        let sub := (data.drop dataAddress).take dataLength
        let self :=
          if dataID = 0x00020001 then
            -- stn table ss
            parseStnTableSS { self with isDependStreamExist := true } sub
          else if dataID = 0x00020002 then
            parseSubPathEntryExtension { self with isDependStreamExist := true } sub
          else self
        parseExtensionDataEntries parseStnTableSS parseSubPathEntryExtension data size n self
          reader

/-- `MPLSParser::parseExtensionData(data, dataEnd)`; `data` is the memory from
the start of the extension block on, `size` is `dataEnd - data`. -/
def parseExtensionData
    (parseStnTableSS parseSubPathEntryExtension : MPLSParser → List Nat → MPLSParser)
    (self : MPLSParser) (data : List Nat) (size : Nat) : MPLSParser :=
  let reader := BitStreamReader.setBuffer (data.take size)
  match reader.getBits 32 with
  | .error _ => self
  | .ok (length, reader) =>
  if length = 0 then self
  else
    match reader.skipBits 32 with  -- data_block_start_address
    | .error _ => self
    | .ok reader =>
    match reader.skipBits 24 with
    | .error _ => self
    | .ok reader =>
    match reader.getBits 8 with
    | .error _ => self
    | .ok (entries, reader) =>
      parseExtensionDataEntries parseStnTableSS parseSubPathEntryExtension data size entries
        self reader

end MPLSParser

namespace TS_program_association_section

/-- the bits of the program loop -/
def entriesBits : List (Nat × Nat) → List Bool
  | [] => []
  | e :: t => natBits 16 e.2 ++ (natBits 3 7 ++ (natBits 13 e.1 ++ entriesBits t))

/-- A table of `n` programs: PID `i` carries program number 1, for `i < n`. -/
def manyPrograms (n : Nat) : TS_program_association_section :=
  ⟨0, -1, (List.range n).map (fun i => (i, 1))⟩

end TS_program_association_section

namespace BitStreamWriter

/-- bit-level form of `store` -/
def storeB (w : List Bool) (bitpos nbits v : Nat) : List Bool :=
  w.take bitpos ++ natBits nbits v ++ w.drop (bitpos + nbits)

end BitStreamWriter

namespace TS_program_map_section

open BitStreamWriter

/-- bits of the raw descriptor bytes of a stream -/
def dataBits (si : PMTStreamInfo) : List Bool :=
  (List.range si.m_esInfoLen).flatMap (fun j => natBits 8 (si.m_esInfoData.getD j 0))

/-- bits of the language descriptor of a stream -/
def langBits (T : TSDescriptorTagCodes) (blurayMode : Bool) (si : PMTStreamInfo) : List Bool :=
  if si.m_lang.getD 0 0 ≠ 0 ∧ ¬ blurayMode then
    natBits 8 T.LANG ++ (natBits 8 4 ++ (natBits 8 (si.m_lang.getD 0 0) ++
      (natBits 8 (si.m_lang.getD 1 0) ++ (natBits 8 (si.m_lang.getD 2 0) ++ natBits 8 0))))
  else []

/-- descriptor area of a stream -/
def descBits (T : TSDescriptorTagCodes) (blurayMode : Bool) (si : PMTStreamInfo) : List Bool :=
  dataBits si ++ langBits T blurayMode si

/-- the entry of one stream -/
def streamBits (T : TSDescriptorTagCodes) (blurayMode : Bool) (si : PMTStreamInfo) : List Bool :=
  natBits 8 si.m_streamType ++ (natBits 3 7 ++ (natBits 13 si.m_pid ++
    (natBits 16 ((0xf000 + (descBits T blurayMode si).length / 8) % 2 ^ 16) ++
      descBits T blurayMode si)))

open BitStreamWriter

/-- program-level descriptors written by `serialize` -/
def progInfoBits (T : TSDescriptorTagCodes) (self : TS_program_map_section)
    (hdmvDescriptors : Bool) : List Bool :=
  (if hdmvDescriptors then
      natBits 8 (T.HDMV % 256) ++ (natBits 8 0x04 ++ (natBits 32 0x48444d56 ++
        (natBits 8 (T.COPY_CONTROL % 256) ++ (natBits 8 0x04 ++ natBits 32 0x0ffffcfc))))
    else []) ++
  (if self.casPID ≠ 0 then
      natBits 8 (T.CAS % 256) ++ (natBits 8 0x04 ++ (natBits 16 self.casID ++
        natBits 16 self.casPID))
    else [])

/-- the entries written for `video_pid`, `audio_pid` and `sub_pid` -/
def shortcutBits (E : StreamTypeCodes) (self : TS_program_map_section) : List Bool :=
  (if self.video_pid ≠ 0 then
      natBits 8 (self.video_type % 2 ^ 32).toNat ++ (natBits 3 7 ++ (natBits 13 self.video_pid ++
        (natBits 4 15 ++ natBits 12 0)))
    else []) ++
  ((if self.audio_pid ≠ 0 then
      natBits 8 (self.audio_type % 2 ^ 32).toNat ++ (natBits 3 7 ++ (natBits 13 self.audio_pid ++
        (natBits 4 15 ++ natBits 12 0)))
    else []) ++
  (if self.sub_pid ≠ 0 then
      natBits 8 (E.SUB_DVB % 256) ++ (natBits 3 7 ++ (natBits 13 self.sub_pid ++
        (natBits 4 15 ++ natBits 12 0)))
    else []))

/-- everything `serialize` writes after the program_info_length field -/
def bodyBits (E : StreamTypeCodes) (T : TSDescriptorTagCodes) (self : TS_program_map_section)
    (blurayMode hdmvDescriptors : Bool) : List Bool :=
  progInfoBits T self hdmvDescriptors ++ (shortcutBits E self ++
    self.pidList.flatMap (fun e => streamBits T blurayMode e.2))

end TS_program_map_section

/-- The stream_type codes of ISO/IEC 13818-1 and of the Blu-ray format, as a
sample assignment at which theorems are instantiated. -/
def StreamTypeCodes.standard : StreamTypeCodes :=
  { VIDEO_MPEG1 := 0x01, VIDEO_MPEG2 := 0x02, VIDEO_MPEG4 := 0x10, VIDEO_H264 := 0x1b,
    VIDEO_MVC := 0x20, VIDEO_H265 := 0x24, VIDEO_H266 := 0x33, VIDEO_VC1 := 0xea,
    AUDIO_MPEG1 := 0x03, AUDIO_MPEG2 := 0x04, AUDIO_AAC := 0x0f, AUDIO_AAC_RAW := 0x11,
    AUDIO_LPCM := 0x80, AUDIO_AC3 := 0x81, AUDIO_EAC3 := 0x84, AUDIO_EAC3_ATSC := 0x87,
    AUDIO_EAC3_SECONDARY := 0xa1, AUDIO_DTS := 0x82, AUDIO_DTS_HD := 0x85,
    AUDIO_DTS_HD_MA := 0x86, AUDIO_DTS_HD_SECONDARY := 0xa2, AUDIO_TRUE_HD := 0x83,
    SUB_PGS := 0x90, SUB_IGS := 0x91, SUB_TGS := 0x92, SUB_DVB := 0x06 }

/-- The descriptor tags of ISO/IEC 13818-1 and of the Blu-ray format, as a
sample assignment at which theorems are instantiated. -/
def TSDescriptorTagCodes.standard : TSDescriptorTagCodes :=
  { HDMV := 0x05, COPY_CONTROL := 0x88, CAS := 0x09, LANG := 0x0a }

namespace TS_program_map_section

/-- A table with one audio stream in `pidList` and the video PID set. -/
def withVideoPid : TS_program_map_section :=
  { create with
    program_number := 1, pcr_pid := 0x1011, video_pid := 0x1011, video_type := 0x1b,
    pidList := [(0x1100, ⟨0x81, 0x1100, [], 0, [101, 110, 103, 0]⟩)] }

end TS_program_map_section

/-- The 12-bit `section_length` field of a section stored behind a one-byte
pointer field: the low four bits of byte 2 and byte 3 of the buffer. -/
def sectionLengthField (buf : List Nat) : Nat :=
  buf.getD 2 0 % 16 * 256 + buf.getD 3 0

/-- One elementary-stream entry of a PMT: stream type, reserved bits, PID,
reserved bits, an `es_info_length` that counts the bytes of `D`, then `D`. -/
def esEntryBits (e : Nat × Nat × List Bool) : List Bool :=
  natBits 8 e.1 ++ (natBits 3 7 ++ (natBits 13 e.2.1 ++
    (natBits 4 15 ++ (natBits 12 (e.2.2.length / 8) ++ e.2.2))))

namespace TS_program_map_section

/-- The stream entries `serialize` writes: the `video_pid`, `audio_pid` and
`sub_pid` entries (no descriptors), then one entry per element of `pidList`
with its raw descriptor bytes and language descriptor. -/
def esEntries (E : StreamTypeCodes) (T : TSDescriptorTagCodes) (self : TS_program_map_section)
    (blurayMode : Bool) : List (Nat × Nat × List Bool) :=
  (if self.video_pid ≠ 0 then [((self.video_type % 2 ^ 32).toNat, self.video_pid, [])] else []) ++
  ((if self.audio_pid ≠ 0 then [((self.audio_type % 2 ^ 32).toNat, self.audio_pid, [])] else []) ++
  ((if self.sub_pid ≠ 0 then [(E.SUB_DVB % 256, self.sub_pid, [])] else []) ++
  self.pidList.map (fun e => (e.2.m_streamType, e.2.m_pid, descBits T blurayMode e.2))))

end TS_program_map_section

namespace CLPIStreamInfo

open BitStreamWriter

/-- the three characters `writeString str writer 3` writes -/
def str3Bits (str : List Nat) : List Bool :=
  natBits 8 (str.getD 0 0) ++ (natBits 8 (str.getD 1 0) ++ natBits 8 (str.getD 2 0))

/-- the twelve `'0'` characters `composeISRC` writes -/
def isrcBits : List Bool :=
  (List.replicate 12 0x30).flatMap (natBits 8)

/-- what `composeStreamCodingInfo` writes behind the length byte -/
def sciBody (E : StreamTypeCodes) (si : CLPIStreamInfo) : List Bool :=
  natBits 8 si.stream_coding_type ++
  (if isVideoStreamType E si.stream_coding_type then
    natBits 4 si.video_format ++ (natBits 4 si.frame_rate_index ++
      (natBits 4 si.aspect_ratio_index ++ (natBits 2 0 ++ (natBits 1 0 ++ (natBits 1 0 ++
      (natBits 8 (if si.HDR &&& 18 ≠ 0 then 0x12 else if si.HDR = 4 then 0x22 else 0) ++
      (natBits 8 (if si.HDR = 16 then 0x80 else 0) ++ (isrcBits ++ natBits 32 0))))))))
  else if isAudioStreamType E si.stream_coding_type then
    natBits 4 si.audio_presentation_type ++ (natBits 4 si.sampling_frequency_index ++
      (str3Bits si.language_code ++ (isrcBits ++ natBits 32 0)))
  else if si.stream_coding_type = E.SUB_PGS ∨ si.stream_coding_type = E.SUB_IGS then
    str3Bits si.language_code ++ (natBits 8 0 ++ (isrcBits ++ natBits 32 0))
  else if si.stream_coding_type = E.SUB_TGS then
    natBits 8 si.character_code ++ (str3Bits si.language_code ++ (isrcBits ++ natBits 32 0))
  else [])

/-- The object `parseStreamCodingInfo` leaves when it starts from `self0` and
reads what `composeStreamCodingInfo` wrote for `si`. -/
def parsedInfo (E : StreamTypeCodes) (self0 si : CLPIStreamInfo) : CLPIStreamInfo :=
  let isrc (s : CLPIStreamInfo) : CLPIStreamInfo :=
    { s with
      country_code := [0x30, 0x30], copyright_holder := [0x30, 0x30, 0x30],
      recording_year := [0x30, 0x30], recording_number := [0x30, 0x30, 0x30, 0x30, 0x30] }
  let lang : List Nat :=
    [si.language_code.getD 0 0 % 256, si.language_code.getD 1 0 % 256,
      si.language_code.getD 2 0 % 256]
  let s := { self0 with stream_coding_type := si.stream_coding_type }
  if isVideoStreamType E si.stream_coding_type then
    isrc { s with
      video_format := si.video_format % 16, frame_rate_index := si.frame_rate_index % 16,
      aspect_ratio_index := si.aspect_ratio_index % 16 }
  else if isAudioStreamType E si.stream_coding_type then
    isrc { s with
      audio_presentation_type := si.audio_presentation_type % 16,
      sampling_frequency_index := si.sampling_frequency_index % 16, language_code := lang }
  else if si.stream_coding_type = E.SUB_PGS ∨ si.stream_coding_type = E.SUB_IGS then
    isrc { s with language_code := lang }
  else if si.stream_coding_type = E.SUB_TGS then
    isrc { s with character_code := si.character_code % 256, language_code := lang }
  else s

end CLPIStreamInfo

namespace CLPIParser

open BitStreamWriter CLPIStreamInfo

/-- the bits of one `(PID, StreamCodingInfo)` entry of a program info block -/
def streamEntryBits (E : StreamTypeCodes) (e : Nat × CLPIStreamInfo) : List Bool :=
  natBits 16 e.1 ++ (natBits 8 ((sciBody E e.2).length / 8) ++ sciBody E e.2)

/-- the streams `composeProgramInfo` writes -/
def selectedStreams (E : StreamTypeCodes) (isSsExt : Bool) (l : List (Nat × CLPIStreamInfo)) :
    List (Nat × CLPIStreamInfo) :=
  l.filter (fun e => streamOK E isSsExt e.2)

/-- what `composeProgramInfo` writes behind the length field, up to the padding -/
def programInfoBits (E : StreamTypeCodes) (K : MuxConstants) (self : CLPIParser)
    (isSsExt : Bool) : List Bool :=
  natBits 8 0 ++ (natBits 8 1 ++ (natBits 32 0 ++ (natBits 16 K.DEFAULT_PMT_PID ++
    (natBits 8 (selectedStreams E isSsExt self.m_streamInfo).length ++ (natBits 8 0 ++
      (selectedStreams E isSsExt self.m_streamInfo).flatMap (streamEntryBits E))))))

/-- the padding `composeProgramInfo` writes at the end, for a writer that held `n` bits -/
def programInfoPad (E : StreamTypeCodes) (K : MuxConstants) (self : CLPIParser)
    (isSsExt : Bool) (n : Nat) : List Bool :=
  if isSsExt = true ∧ (n + (32 + (programInfoBits E K self isSsExt).length)) % 32 ≠ 0 then
    natBits 16 0
  else []

end CLPIParser

namespace CLPIStreamInfo

/-- A sample audio stream: AC3, language "eng". -/
def sampleAudio : CLPIStreamInfo :=
  { streamPID := 0x1100, stream_coding_type := 0x81, video_format := 0, frame_rate_index := 0,
    aspect_ratio_index := 0, HDR := 0, audio_presentation_type := 6,
    sampling_frequency_index := 1, character_code := 0, language_code := [101, 110, 103],
    country_code := [], copyright_holder := [], recording_year := [], recording_number := [],
    isSecondary := false, m_index := [] }

end CLPIStreamInfo

/-- The PIDs tsMuxer uses for the PMT and the PCR, as a sample assignment at
which theorems are instantiated. -/
def MuxConstants.standard : MuxConstants :=
  { DEFAULT_PMT_PID := 0x100, DEFAULT_PCR_PID := 0x1001 }

namespace CLPIStreamInfo

/-- The values of `si` fit the fields `composeStreamCodingInfo` writes them to:
a one-byte stream type and character code, 4-bit attributes and a language
code of three one-byte characters. -/
def FieldsInRange (si : CLPIStreamInfo) : Prop :=
  si.stream_coding_type < 256 ∧ si.video_format < 16 ∧ si.frame_rate_index < 16 ∧
  si.aspect_ratio_index < 16 ∧ si.audio_presentation_type < 16 ∧
  si.sampling_frequency_index < 16 ∧ si.character_code < 256 ∧
  si.language_code.length = 3 ∧ ∀ c ∈ si.language_code, c < 256

instance (si : CLPIStreamInfo) : Decidable (FieldsInRange si) := by
  unfold FieldsInRange; infer_instance

/-- The stream info `out` has the coding type of `si` and the attributes that
go with that type, the type being classified in the order of the source
(video, audio, PGS/IGS, TGS). -/
def SameCoding (E : StreamTypeCodes) (si out : CLPIStreamInfo) : Prop :=
  out.stream_coding_type = si.stream_coding_type ∧
  (isVideoStreamType E si.stream_coding_type = true →
    out.video_format = si.video_format ∧ out.frame_rate_index = si.frame_rate_index ∧
    out.aspect_ratio_index = si.aspect_ratio_index) ∧
  (isVideoStreamType E si.stream_coding_type = false →
    isAudioStreamType E si.stream_coding_type = true →
    out.audio_presentation_type = si.audio_presentation_type ∧
    out.sampling_frequency_index = si.sampling_frequency_index ∧
    out.language_code = si.language_code) ∧
  (isVideoStreamType E si.stream_coding_type = false →
    isAudioStreamType E si.stream_coding_type = false →
    si.stream_coding_type = E.SUB_PGS ∨ si.stream_coding_type = E.SUB_IGS →
    out.language_code = si.language_code) ∧
  (isVideoStreamType E si.stream_coding_type = false →
    isAudioStreamType E si.stream_coding_type = false →
    si.stream_coding_type ≠ E.SUB_PGS → si.stream_coding_type ≠ E.SUB_IGS →
    si.stream_coding_type = E.SUB_TGS →
    out.character_code = si.character_code ∧ out.language_code = si.language_code)

set_option synthInstance.maxSize 1024 in
set_option synthInstance.maxHeartbeats 200000 in
instance (E : StreamTypeCodes) (si out : CLPIStreamInfo) : Decidable (SameCoding E si out) := by
  unfold SameCoding; infer_instance

/-- A sample video stream: H.264, 1080p, 23.976 fps, 16:9. -/
def sampleVideo : CLPIStreamInfo :=
  { streamPID := 0x1011, stream_coding_type := 0x1b, video_format := 6, frame_rate_index := 1,
    aspect_ratio_index := 3, HDR := 0, audio_presentation_type := 0,
    sampling_frequency_index := 0, character_code := 0, language_code := [0, 0, 0],
    country_code := [], copyright_holder := [], recording_year := [], recording_number := [],
    isSecondary := false, m_index := [] }

/-- A default-constructed `CLPIStreamInfo`, with all fields zero or empty. -/
def blank : CLPIStreamInfo :=
  { streamPID := 0, stream_coding_type := 0, video_format := 0, frame_rate_index := 0,
    aspect_ratio_index := 0, HDR := 0, audio_presentation_type := 0,
    sampling_frequency_index := 0, character_code := 0, language_code := [],
    country_code := [], copyright_holder := [], recording_year := [], recording_number := [],
    isSecondary := false, m_index := [] }

end CLPIStreamInfo

namespace CLPIParser

/-- A clip with the given stream table and all other fields at sample
values. -/
def withStreams (streams : List (Nat × CLPIStreamInfo)) : CLPIParser :=
  { type_indicator := [0x48, 0x44, 0x4d, 0x56], version_number := [0x30, 0x32, 0x30, 0x30],
    clip_stream_type := 1, application_type := 1, is_ATC_delta := false,
    TS_recording_rate := 6000000, number_of_source_packets := 1000,
    format_identifier := [0x48, 0x44, 0x4d, 0x56], presentation_start_time := 27000000,
    presentation_end_time := 54000000, m_programInfo := [], m_programInfoMVC := [],
    m_streamInfo := streams, m_streamInfoMVC := [], SPN_extent_start := [],
    interleaveInfo := [], m_clpiNum := 0, isDependStream := false, is4K := false }

/-- A stream table of `n` audio streams, on the PIDs `0 .. n - 1`. -/
def manyStreams (n : Nat) : CLPIParser :=
  withStreams ((List.range n).map (fun i => (i, CLPIStreamInfo.sampleAudio)))

end CLPIParser

namespace CLPIParser

/-- one round of the loop of `buildCoarseInfo` -/
def coarseStep (st : List BluRayCoarseInfo × Nat × Nat × Nat) (e : Nat × PMTIndexData) :
    List BluRayCoarseInfo × Nat × Nat × Nat :=
  ((if st.1.isEmpty ∨ (e.1 >>> 19) % 2 ^ 32 ≠ st.2.2.2 ∨
        st.2.2.1 &&& 0xfffe0000 ≠ e.2.m_pktCnt &&& 0xfffe0000 then
      st.1 ++ [⟨(e.1 >>> 19) % 2 ^ 32, st.2.1, e.2.m_pktCnt⟩]
    else st.1),
    (st.2.1 + 1) % 2 ^ 32, e.2.m_pktCnt, (e.1 >>> 19) % 2 ^ 32)

end CLPIParser

namespace CLPIStreamInfo

/-- The sample video stream with an EP index of three entries for clip 0. -/
def indexedVideo : CLPIStreamInfo :=
  { sampleVideo with
    m_index := [[(0, ⟨0, 100000⟩), (90000, ⟨600, 5000⟩), (1080000, ⟨140000, 200000⟩)]] }

end CLPIStreamInfo

/-- `n` fields of `k` zero bits each -/
def zeroFields (n k : Nat) : List Bool := (List.range n).flatMap (fun _ => natBits k 0)

namespace CLPIStreamInfo

/-- the four characters `writeString str writer 4` writes -/
def str4Bits (str : List Nat) : List Bool :=
  natBits 8 (str.getD 0 0) ++ (natBits 8 (str.getD 1 0) ++ (natBits 8 (str.getD 2 0) ++
    natBits 8 (str.getD 3 0)))

end CLPIStreamInfo

namespace CLPIParser

open CLPIStreamInfo

/-- what `composeTS_type_info_block` writes -/
def tsTypeInfoBits : List Bool :=
  natBits 16 30 ++ (natBits 8 0x80 ++ (str4Bits [0x48, 0x44, 0x4d, 0x56] ++
    (zeroFields 9 8 ++ zeroFields 4 32)))

/-- what `composeClipInfo` writes -/
def clipInfoBits (self : CLPIParser) : List Bool :=
  natBits 32 176 ++ (natBits 16 0 ++ (natBits 8 self.clip_stream_type ++
    (natBits 8 self.application_type ++ (natBits 31 0 ++
    (natBits 1 (if self.is_ATC_delta then 1 else 0) ++ (natBits 32 self.TS_recording_rate ++
    (natBits 32 self.number_of_source_packets ++ (zeroFields 32 32 ++ tsTypeInfoBits))))))))

/-- what `composeSequenceInfo` writes -/
def sequenceInfoBits (K : MuxConstants) (self : CLPIParser) : List Bool :=
  natBits 32 22 ++ (natBits 8 0 ++ (natBits 8 1 ++ (natBits 32 0 ++ (natBits 8 1 ++
    (natBits 8 0 ++ (natBits 16 K.DEFAULT_PCR_PID ++ (natBits 32 0 ++
    (natBits 32 self.presentation_start_time ++ natBits 32 self.presentation_end_time))))))))

/-- the zero bits the alignment loop of `compose` writes behind `n` bits -/
def alignPad (n : Nat) : List Bool := List.replicate ((32 - n % 32) % 32) false

end CLPIParser

/-- The writer contents `w'` are the contents `w` followed by whole bytes. -/
def Extends (w w' : List Bool) : Prop := ∃ X : List Bool, w' = w ++ X ∧ X.length % 8 = 0

namespace CLPIParser

open BitStreamWriter

open BitStreamWriter

open BitStreamWriter

/-- the running sums `composeExtentStartPoint` writes, starting from the sum `s` -/
def extentSumBits : Nat → List Nat → List Bool
  | _, [] => []
  | s, i :: t => natBits 32 ((s + i) % 2 ^ 32) ++ extentSumBits ((s + i) % 2 ^ 32) t

/-- what `composeExtentStartPoint` writes -/
def extentStartPointBits (self : CLPIParser) : List Bool :=
  natBits 32 (4 + 4 * self.interleaveInfo.length) ++ (natBits 16 0 ++
    (natBits 16 (self.interleaveInfo.length % 2 ^ 32) ++ extentSumBits 0 self.interleaveInfo))

end CLPIParser

namespace TS_program_map_section

/-- The part of `deserialize` in front of the stream loop: the state of the object, `crcPos`
and `curPos` when the loop starts, or `none` when `deserialize` has returned `false` before. -/
def streamLoopStart (T : TSDescriptorTagCodes) (self : TS_program_map_section)
    (buffer : List Nat) (buf_size : Nat) : Option (TS_program_map_section × Nat × Nat) :=
  if buf_size < 1 then none
  else
    let pointerField := buffer.getD 0 0
    let bufferEnd := buf_size
    let start := 1 + pointerField
    let bitReader := BitStreamReader.setBuffer ((buffer.take buf_size).drop start)
    match bitReader.getBits 8 with
    | .error _ => none
    | .ok (table_id, bitReader) =>
    if table_id ≠ 0x02 then none
    else
    match bitReader.getBits 2 with
    | .error _ => none
    | .ok (indicator, bitReader) =>
    if indicator ≠ 2 then none
    else
    match bitReader.skipBits 2 with
    | .error _ => none
    | .ok bitReader =>
    match bitReader.getBits 12 with
    | .error _ => none
    | .ok (section_length, bitReader) =>
    -- `crcPos` as an offset into `buffer`
    let crcPos := start + bitReader.getBitsCount / 8 + section_length - 4
    if crcPos > bufferEnd then none
    else
    match bitReader.getBits 16 with
    | .error _ => none
    | .ok (program_number, bitReader) =>
    let self := { self with program_number := program_number }
    match bitReader.skipBits 27 with
    | .error _ => none
    | .ok bitReader =>
    match bitReader.getBits 13 with
    | .error _ => none
    | .ok (pcr_pid, bitReader) =>
    let self := { self with pcr_pid := pcr_pid }
    let self := { self with video_pid := self.pcr_pid }
    match bitReader.skipBits 4 with
    | .error _ => none
    | .ok bitReader =>
    match bitReader.getBits 12 with
    | .error _ => none
    | .ok (program_info_len, bitReader) =>
    let curPos := start + bitReader.getBitsCount / 8
    if curPos + program_info_len + 4 > bufferEnd then none
    else
    let self := extractPMTDescriptors T self buffer curPos program_info_len
    let curPos := curPos + program_info_len
    some (self, crcPos, curPos)

/-- The stream types the `case` labels of `deserialize` treat as video. -/
def isVideoCase (E : StreamTypeCodes) (stream_type : Nat) : Prop :=
  stream_type = E.VIDEO_MPEG1 ∨ stream_type = E.VIDEO_MPEG2 ∨
    stream_type = E.VIDEO_MPEG4 ∨ stream_type = E.VIDEO_H264 ∨
    stream_type = E.VIDEO_H265 ∨ stream_type = E.VIDEO_MVC ∨
    stream_type = E.VIDEO_VC1

instance (E : StreamTypeCodes) (stream_type : Nat) : Decidable (isVideoCase E stream_type) := by
  unfold isVideoCase; infer_instance

/-- The `stream_type` bytes of the entries the stream loop of `deserialize` visits, from
`curPos` on. -/
def visitedStreamTypes (mem : List Nat) (crcPos : Nat) : Nat → Nat → List Nat
  | 0, _ => []
  | fuel + 1, curPos =>
      if curPos < crcPos then
        let stream_type := mem.getD curPos 0
        let es_info_len := (get16 mem (curPos + 3)).1 &&& 0xfff
        if curPos + 5 + es_info_len > crcPos then [stream_type]
        else stream_type :: visitedStreamTypes mem crcPos fuel (curPos + 5 + es_info_len)
      else []

/-- The `stream_type` bytes of the stream list of the PMT section in `buffer`, as
`deserialize` reads it. -/
def sectionStreamTypes (T : TSDescriptorTagCodes) (self : TS_program_map_section)
    (buffer : List Nat) (buf_size : Nat) : List Nat :=
  match streamLoopStart T self buffer buf_size with
  | none => []
  | some (_, crcPos, curPos) => visitedStreamTypes buffer crcPos (crcPos - curPos) curPos

end TS_program_map_section

namespace TS_program_map_section

/-- A table whose PCR PID is not in the stream list: a video stream on PID `0x1011`, an audio
stream on PID `0x1100`, PCR on PID `0x1001`. -/
def separatePcr : TS_program_map_section :=
  { create with
    program_number := 1, pcr_pid := 0x1001,
    pidList := [(0x1011, ⟨0x1b, 0x1011, [], 0, [0, 0, 0, 0]⟩),
      (0x1100, ⟨0x81, 0x1100, [], 0, [101, 110, 103, 0]⟩)] }

end TS_program_map_section

namespace MPLSParser

/-- The starting timestamp of a play item: the first key of its index, if the
index is not empty. -/
def startOf (index : PMTIndex) : Option Nat := index.head?.map Prod.fst

/-- The play item `i` is the last one of `m_index` whose starting timestamp
does not exceed `pts`: it has a starting timestamp, that is at most `pts`, and
every later play item that has a starting timestamp starts after `pts`. -/
def IsLastStarted (m_index : List PMTIndex) (pts i : Nat) : Prop :=
  (∃ s, (m_index.get? i).bind startOf = some s ∧ s ≤ pts) ∧
    ∀ j s, i < j → (m_index.get? j).bind startOf = some s → pts < s

/-- A stream whose only field of interest is the per-play-item index. -/
def streamWithIndex (m_index : List PMTIndex) : MPLSStreamInfo :=
  { streamPID := 0, stream_coding_type := 0, video_format := 0, frame_rate_index := 0,
    width := 0, height := 0, HDR := 0, audio_presentation_type := 0,
    sampling_frequency_index := 0, character_code := 0, language_code := [],
    isSecondary := false, number_of_offset_sequences := 0, m_index := m_index, type := 0,
    offsetId := 0, pipParams := ⟨0, PipCorner.TopLeft, 0, 0, 0⟩, isSSPG := false,
    SS_PG_offset_sequence_id := 0, leftEye := ⟨0, 0⟩, rightEye := ⟨0, 0⟩ }

end MPLSParser

namespace MPLSParser

open BitStreamWriter

/-- The bits of one entry of the mark list that `composePlayListMark` writes
for the mark `i`. -/
def markBits (streamInfo : MPLSStreamInfo) (i : PlayListMark) : List Bool :=
  natBits 8 0 ++ natBits 8 1 ++
    natBits 16
      (if i.m_playItemID ≥ 0 then i.m_playItemID.toNat
        else ((calcPlayItemID streamInfo (i.m_markTime * 2 % 2 ^ 32)) % 2 ^ 32).toNat) ++
    natBits 32 i.m_markTime ++ natBits 16 0xffff ++ natBits 32 0

/-- The PlayListMark block for the marks `marks`: the length field, the
number of marks and one entry of 14 bytes for each mark. -/
def playListMarkBits (streamInfo : MPLSStreamInfo) (marks : List PlayListMark) : List Bool :=
  natBits 32 (2 + 14 * marks.length) ++ natBits 16 marks.length ++
    marks.flatMap (markBits streamInfo)

/-- The value of `m_marks` after the `if (m_marks.empty())` statement of
`composePlayListMark`, or `none` when the loop of that statement does not
end. -/
def marksToWrite (self : MPLSParser) : Option (List PlayListMark) :=
  if self.m_marks.isEmpty then
    if self.m_chapterLen = 0 then some (self.m_marks ++ [⟨-1, self.IN_time⟩])
    else
      (synthesizeMarks self.m_chapterLen self.OUT_time (2 ^ 32 + 1) self.IN_time).map
        (fun marks => self.m_marks ++ marks)
  else some self.m_marks

end MPLSParser

/-- A video stream of the given size, primary, with PID 0x1011. -/
def MPLSStreamInfo.sampleVideo (width height : Nat) : MPLSStreamInfo :=
  { streamPID := 0x1011, stream_coding_type := StreamTypeCodes.standard.VIDEO_H264,
    video_format := 6, frame_rate_index := 1, width := width, height := height, HDR := 0,
    audio_presentation_type := 0, sampling_frequency_index := 0, character_code := 0,
    language_code := [], isSecondary := false, number_of_offset_sequences := 0, m_index := [],
    type := 1, offsetId := 0, pipParams := ⟨1, PipCorner.TopLeft, 0, 0, 0⟩, isSSPG := false,
    SS_PG_offset_sequence_id := 0, leftEye := ⟨0, 0⟩, rightEye := ⟨0, 0⟩ }

namespace MPLSParser

open BitStreamWriter

/-- A playlist with one video stream, the play item from `IN_time` to
`OUT_time` and the chapter length `m_chapterLen`, and no marks. -/
def chapterSample (IN_time OUT_time : Nat) (m_chapterLen : Int) : MPLSParser :=
  { create with
    IN_time := IN_time, OUT_time := OUT_time, m_chapterLen := m_chapterLen,
    m_streamInfo := [MPLSStreamInfo.sampleVideo 1920 1080] }

/-- The ten chapter marks of a play item of 100 seconds with chapters of 10
seconds. -/
def tenMarks : List PlayListMark :=
  [⟨-1, 0⟩, ⟨-1, 450000⟩, ⟨-1, 900000⟩, ⟨-1, 1350000⟩, ⟨-1, 1800000⟩, ⟨-1, 2250000⟩,
    ⟨-1, 2700000⟩, ⟨-1, 3150000⟩, ⟨-1, 3600000⟩, ⟨-1, 4050000⟩]

end MPLSParser

namespace MPLSStreamInfo

open BitStreamWriter

/-- The bytes `composeStreamEntry` writes for a stream entry of a supported
`type`: the length byte 9, the type and 8 bytes that depend on it. -/
def entryBits (type streamPID subPathID : Nat) : List Bool :=
  natBits 8 9 ++ natBits 8 type ++
    (if type = 1 then natBits 16 streamPID ++ natBits 32 0 ++ natBits 16 0
     else if type = 2 then natBits 8 0 ++ natBits 8 0 ++ natBits 16 streamPID ++ natBits 32 0
     else if type = 3 then natBits 8 subPathID ++ natBits 16 streamPID ++ natBits 32 0 ++ natBits 8 0
     else natBits 8 0 ++ natBits 16 streamPID ++ natBits 32 0 ++ natBits 8 0)

/-- The bytes `composeStreamAttributes` writes for a video, audio or PGS
stream: the length byte 5, the coding type and 4 bytes that depend on it. -/
def attrBits (E : StreamTypeCodes) (self : MPLSStreamInfo) : List Bool :=
  natBits 8 5 ++ natBits 8 self.stream_coding_type ++
    (if isVideoStreamType E self.stream_coding_type then
      natBits 4 self.video_format ++ natBits 4 self.frame_rate_index ++
        (if self.HDR &&& 18 ≠ 0 then natBits 8 0x12
         else if self.HDR = 4 then natBits 8 0x22 else natBits 8 0) ++
        (if self.HDR = 16 then natBits 8 0x40 else natBits 8 0) ++ natBits 8 0
     else if isAudioStreamType E self.stream_coding_type then
      natBits 4 self.audio_presentation_type ++ natBits 4 self.sampling_frequency_index ++
        CLPIStreamInfo.str3Bits self.language_code
     else CLPIStreamInfo.str3Bits self.language_code ++ natBits 8 0)

end MPLSStreamInfo

namespace MPLSParser

open BitStreamWriter MPLSStreamInfo

open BitStreamWriter MPLSStreamInfo

/-- The stream is of one of the kinds `composeSTN_table` counts: video, audio
or PGS. -/
def Supported (E : StreamTypeCodes) (i : MPLSStreamInfo) : Prop :=
  isVideoStreamType E i.stream_coding_type = true ∨
    isAudioStreamType E i.stream_coding_type = true ∨ i.stream_coding_type = E.SUB_PGS

instance (E : StreamTypeCodes) (i : MPLSStreamInfo) : Decidable (Supported E i) := by
  unfold Supported; infer_instance

/-- The primary video streams of the list: video, not secondary, not Dolby
Vision. -/
def primaryVideoCount (E : StreamTypeCodes) (l : List MPLSStreamInfo) : Nat :=
  l.countP fun i => isVideoStreamType E i.stream_coding_type && !i.isSecondary && i.HDR != 4

/-- The primary audio streams of the list. A stream type is looked up as
video first, then as audio, then as PGS. -/
def primaryAudioCount (E : StreamTypeCodes) (l : List MPLSStreamInfo) : Nat :=
  l.countP fun i =>
    !isVideoStreamType E i.stream_coding_type && isAudioStreamType E i.stream_coding_type &&
      !i.isSecondary

/-- The PG streams of the list. -/
def pgCount (E : StreamTypeCodes) (l : List MPLSStreamInfo) : Nat :=
  l.countP fun i =>
    !isVideoStreamType E i.stream_coding_type && !isAudioStreamType E i.stream_coding_type &&
      i.stream_coding_type == E.SUB_PGS

/-- The secondary audio streams of the list. -/
def secondaryAudioCount (E : StreamTypeCodes) (l : List MPLSStreamInfo) : Nat :=
  l.countP fun i =>
    !isVideoStreamType E i.stream_coding_type && isAudioStreamType E i.stream_coding_type &&
      i.isSecondary

/-- The secondary video streams of the list. -/
def secondaryVideoCount (E : StreamTypeCodes) (l : List MPLSStreamInfo) : Nat :=
  l.countP fun i => isVideoStreamType E i.stream_coding_type && i.isSecondary

/-- The Dolby Vision video streams of the list: video, not secondary, with
`HDR = 4`. -/
def dolbyVisionCount (E : StreamTypeCodes) (l : List MPLSStreamInfo) : Nat :=
  l.countP fun i => isVideoStreamType E i.stream_coding_type && !i.isSecondary && i.HDR == 4

/-- The six counters of `composeSTN_table` hold the numbers `c` more than those
of `self`. -/
def CountersAdvanced (E : StreamTypeCodes) (l : List MPLSStreamInfo) (self s : MPLSParser) :
    Prop :=
  s.number_of_primary_video_stream_entries
      = self.number_of_primary_video_stream_entries + primaryVideoCount E l ∧
    s.number_of_primary_audio_stream_entries
      = self.number_of_primary_audio_stream_entries + primaryAudioCount E l ∧
    s.number_of_PG_textST_stream_entries
      = self.number_of_PG_textST_stream_entries + pgCount E l ∧
    s.number_of_secondary_audio_stream_entries
      = self.number_of_secondary_audio_stream_entries + secondaryAudioCount E l ∧
    s.number_of_secondary_video_stream_entries
      = self.number_of_secondary_video_stream_entries + secondaryVideoCount E l ∧
    s.number_of_DolbyVision_video_stream_entries
      = self.number_of_DolbyVision_video_stream_entries + dolbyVisionCount E l ∧
    s.m_streamInfo = self.m_streamInfo

open BitStreamWriter MPLSStreamInfo

/-- The eight count bytes of the STN table for the stream list `l`. -/
def countBits (E : StreamTypeCodes) (l : List MPLSStreamInfo) : List Bool :=
  natBits 8 (primaryVideoCount E l) ++ natBits 8 (primaryAudioCount E l) ++
    natBits 8 (pgCount E l) ++ natBits 8 0 ++ natBits 8 (secondaryAudioCount E l) ++
    natBits 8 (secondaryVideoCount E l) ++ natBits 8 0 ++ natBits 8 (dolbyVisionCount E l)

/-- The `type` of the stream entry is one `composeStreamEntry` writes. -/
def EntryType (i : MPLSStreamInfo) : Prop := i.type = 1 ∨ i.type = 2 ∨ i.type = 3 ∨ i.type = 4

instance (i : MPLSStreamInfo) : Decidable (EntryType i) := by
  unfold EntryType; infer_instance

end MPLSParser

/-- A primary stream of the given coding type and PID, with stream entry type
1 and the language `eng`. -/
def MPLSStreamInfo.sample (stream_coding_type streamPID : Nat) : MPLSStreamInfo :=
  { streamPID := streamPID, stream_coding_type := stream_coding_type,
    video_format := 6, frame_rate_index := 1, width := 1920, height := 1080, HDR := 0,
    audio_presentation_type := 3, sampling_frequency_index := 1, character_code := 0,
    language_code := [101, 110, 103], isSecondary := false, number_of_offset_sequences := 0,
    m_index := [], type := 1, offsetId := 0, pipParams := ⟨1, PipCorner.TopLeft, 0, 0, 0⟩,
    isSSPG := false, SS_PG_offset_sequence_id := 0, leftEye := ⟨0, 0⟩, rightEye := ⟨0, 0⟩ }

namespace MPLSParser

/-- A playlist with the given streams. -/
def withStreams (m_streamInfo : List MPLSStreamInfo) : MPLSParser :=
  { create with m_streamInfo := m_streamInfo }

/-- The stream list of the example: one primary video stream (H.264), two
primary audio streams (AC-3) and one PG stream. -/
def stnSample : MPLSParser :=
  withStreams [MPLSStreamInfo.sample 0x1b 0x1011, MPLSStreamInfo.sample 0x81 0x1100,
    MPLSStreamInfo.sample 0x81 0x1101, MPLSStreamInfo.sample 0x90 0x1200]

/-- A stream list that holds one IG stream only. -/
def igOnly : MPLSParser := withStreams [MPLSStreamInfo.sample 0x91 0x1400]

/-- A stream list of `n` primary audio streams (AC-3). -/
def manyAudio (n : Nat) : MPLSParser :=
  withStreams (List.replicate n (MPLSStreamInfo.sample 0x81 0x1100))

end MPLSParser

namespace MPLSParser

open BitStreamWriter

/-- A PIP that is never full screen and is not scaled. -/
def PIPMethods.unscaled : PIPMethods := ⟨fun _ => false, fun _ => 1⟩

/-- A secondary video stream of the given size with the given PIP placement. -/
def pipSample (width height : Nat) (corner : PipCorner) (hOffset vOffset : Int) :
    MPLSStreamInfo :=
  { MPLSStreamInfo.sample 0x1b 0x1b00 with
    width := width, height := height, isSecondary := true,
    pipParams := ⟨1, corner, hOffset, vOffset, -1⟩ }

/-- The position of a PIP stream as the format describes it: (0, 0) for a
full-screen PIP; otherwise, with the scaled size
(w, h) = (floor(width * scale), floor(height * scale)), horizontally `hOffset`
for the left corners and `W - w - hOffset` for the right corners, vertically
`vOffset` for the top corners and `H - h - vOffset` for the bottom corners. -/
def specPipPosition (M : PIPMethods) (mainHSize mainVSize : Nat) (pipStream : MPLSStreamInfo) :
    Int × Int :=
  let p := pipStream.pipParams
  if M.isFullScreen p then (0, 0)
  else
    let w : Int := ⌊(pipStream.width : ℚ) * M.getScaleCoeff p⌋
    let h : Int := ⌊(pipStream.height : ℚ) * M.getScaleCoeff p⌋
    (if p.corner = PipCorner.TopLeft ∨ p.corner = PipCorner.BottomLeft then p.hOffset
      else (mainHSize : Int) - w - p.hOffset,
     if p.corner = PipCorner.TopLeft ∨ p.corner = PipCorner.TopRight then p.vOffset
      else (mainVSize : Int) - h - p.vOffset)

/-- The presentation time `composePip_metadata` writes for the play item `i`. -/
def pipEntryTime (self : MPLSParser) (pmtIndexList : List PMTIndex) (i : Nat) : Nat :=
  if i ≠ 0 ∧ ¬ (pmtIndexList.getD (i - 1) []).isEmpty then
    (((pmtIndexList.getD i []).head?.map Prod.fst).getD 0 / 2) % 2 ^ 32
  else self.IN_time

end MPLSParser

namespace MPLSParser

open BitStreamWriter

/-- The start addresses of the data of the blocks, the first of which starts
at `start`: each block starts where the block before it ends. -/
def extStarts : Nat → List ExtDataBlockInfo → List Nat
  | _, [] => []
  | start, b :: bs => start :: extStarts (start + b.data.length) bs

/-- The entry of a block in the table of the extension data: the two IDs, the
start address and the length of its data. -/
def extEntryBits (b : ExtDataBlockInfo) (start : Nat) : List Bool :=
  natBits 16 b.id1 ++ natBits 16 b.id2 ++ natBits 32 start ++ natBits 32 b.data.length

/-- The table of the extension data: one entry for each block, in list order. -/
def extTableBits (start : Nat) (blocks : List ExtDataBlockInfo) : List Bool :=
  (blocks.zip (extStarts start blocks)).flatMap fun e => extEntryBits e.1 e.2

/-- The data of the blocks, one after the other. -/
def extDataBits (blocks : List ExtDataBlockInfo) : List Bool :=
  blocks.flatMap fun b => bytesToBits b.data

/-- The number of data bytes of the blocks. -/
def extDataSize (blocks : List ExtDataBlockInfo) : Nat :=
  (blocks.map fun b => b.data.length).sum

/-- The extension data block as the format describes it: for an empty list
the zero length only; otherwise the length (the bytes that follow it),
`data_block_start_address = 12 * (n + 1)`, three reserved bytes, the number of
blocks, the table and the data, the first block starting at
`data_block_start_address`. Addresses count from the first byte of the length
field. -/
def extensionDataBits (blocks : List ExtDataBlockInfo) : List Bool :=
  if blocks.isEmpty then natBits 32 0
  else
    natBits 32 (8 + 12 * blocks.length + extDataSize blocks) ++
      natBits 32 (12 * (blocks.length + 1)) ++ natBits 24 0 ++ natBits 8 blocks.length ++
      extTableBits (12 * (blocks.length + 1)) blocks ++ extDataBits blocks

/-- The table as the first loop of `composeExtensionData` writes it, with
zero start addresses. -/
def extTableBits0 (blocks : List ExtDataBlockInfo) : List Bool :=
  blocks.flatMap fun b => extEntryBits b 0

/-- The byte positions of the start address fields of a table that begins at
byte `q`. -/
def extPositions : Nat → List ExtDataBlockInfo → List Nat
  | _, [] => []
  | q, _ :: bs => (q + 4) :: extPositions (q + 12) bs

end MPLSParser

namespace CLPIParser

open BitStreamWriter

/-- The video streams that qualify for the EP map of the pass, in PID order:
the VIDEO_MVC streams in the 3D-extension pass, the video streams other than
VIDEO_MVC in the normal pass. -/
def epVideoStreams (E : StreamTypeCodes) (self : CLPIParser) (isSSExt : Bool) :
    List CLPIStreamInfo :=
  (self.m_streamInfo.filter fun e =>
    if isSSExt then e.2.stream_coding_type = E.VIDEO_MVC
    else e.2.stream_coding_type ≠ E.VIDEO_MVC ∧ isVideoStreamType E e.2.stream_coding_type).map
    Prod.snd

/-- The entry of a stream in the list of the EP map: the PID, the
`EP_stream_type`, the numbers of coarse and fine entries and the start
address of the stream's EP map. -/
def epEntryBits (self : CLPIParser) (EP_stream_type : Nat) (i : CLPIStreamInfo) (addr : Nat) :
    List Bool :=
  natBits 16 i.streamPID ++ natBits 10 0 ++ natBits 4 EP_stream_type ++
    natBits 16 (buildCoarseInfo self i).length ++
    natBits 18 (if !i.m_index.isEmpty then (i.m_index.getD self.m_clpiNum []).length else 0) ++
    natBits 32 addr

/-- The list of the EP map for the streams `l`, each with its start address. -/
def epListBits (self : CLPIParser) (EP_stream_type : Nat) (l : List (CLPIStreamInfo × Nat)) :
    List Bool :=
  l.flatMap fun e => epEntryBits self EP_stream_type e.1 e.2

/-- The byte positions of the start address fields of a list that begins at
byte `q`. -/
def epPositions : Nat → List CLPIStreamInfo → List Nat
  | _, [] => []
  | q, _ :: bs => (q + 8) :: epPositions (q + 12) bs

end CLPIParser

namespace CLPIParser

open BitStreamWriter CLPIStreamInfo

/-- The 40-byte header of a clip information file: the type indicator, the
version number, the start addresses of SequenceInfo, ProgramInfo, CPI,
ClipMark and ExtensionData, and three reserved words. -/
def headerBits (version_number : List Nat) (a1 a2 a3 a4 a5 : Nat) : List Bool :=
  (str4Bits [0x48, 0x44, 0x4d, 0x56] ++ str4Bits version_number) ++
    (natBits 32 a1 ++ (natBits 32 a2 ++ (natBits 32 a3 ++ (natBits 32 a4 ++
      (natBits 32 a5 ++ zeroFields 3 32)))))

open BitStreamWriter CLPIStreamInfo

/-- A clip with a video stream on PID 0x1011 and an audio stream on PID
0x1100. -/
def clipSample : CLPIParser :=
  withStreams [(0x1011, CLPIStreamInfo.sampleVideo), (0x1100, CLPIStreamInfo.sampleAudio)]

/-- The writer holds the 40-byte header and whole bytes. -/
def BehindHeader (w : BitStreamWriter) : Prop := w.length % 8 = 0 ∧ 320 ≤ w.length

/-- The bits `B` lie in `out` at the byte offset `a`. -/
def BlockAt (out : List Bool) (a : Nat) (B : List Bool) : Prop :=
  ∃ P S : List Bool, out = P ++ (B ++ S) ∧ P.length = 8 * a

end CLPIParser

namespace CLPIParser

open BitStreamWriter CLPIStreamInfo

/-- The object `parseClipInfo` leaves when it starts from `p` and reads what
`composeClipInfo` wrote for `self`. -/
def parsedClipInfo (p self : CLPIParser) : CLPIParser :=
  { p with
    clip_stream_type := self.clip_stream_type % 2 ^ 8
    application_type := self.application_type % 2 ^ 8
    is_ATC_delta := self.is_ATC_delta
    TS_recording_rate := self.TS_recording_rate % 2 ^ 32
    number_of_source_packets := self.number_of_source_packets % 2 ^ 32
    format_identifier := [0x48, 0x44, 0x4d, 0x56] }

/-- The object `parseSequenceInfo` leaves when it starts from `p` and reads
what `composeSequenceInfo` wrote for `self`. -/
def parsedSequenceInfo (p self : CLPIParser) : CLPIParser :=
  { p with
    presentation_start_time := self.presentation_start_time % 2 ^ 32
    presentation_end_time := self.presentation_end_time % 2 ^ 32 }

open BitStreamWriter CLPIStreamInfo

open BitStreamWriter CLPIStreamInfo

/-- The fields of the clip information that `a` and `b` share: the version
number, the stream and application type, the recording rate, the number of
source packets and the presentation times. -/
def SameClipFields (a b : CLPIParser) : Prop :=
  a.version_number = b.version_number ∧ a.clip_stream_type = b.clip_stream_type ∧
  a.application_type = b.application_type ∧ a.TS_recording_rate = b.TS_recording_rate ∧
  a.number_of_source_packets = b.number_of_source_packets ∧
  a.presentation_start_time = b.presentation_start_time ∧
  a.presentation_end_time = b.presentation_end_time

open BitStreamWriter CLPIStreamInfo

open BitStreamWriter CLPIStreamInfo

open BitStreamWriter CLPIStreamInfo

open BitStreamWriter CLPIStreamInfo

open BitStreamWriter CLPIStreamInfo

/-- The values of `self` fit their C++ types: a version number of four
one-byte characters, a one-byte stream type and application type, a 32-bit
recording rate, packet count and presentation times, and one-byte stream
coding types. -/
def ClipValuesInRange (self : CLPIParser) : Prop :=
  (self.version_number.length = 4 ∧ ∀ c ∈ self.version_number, c < 256) ∧
  self.clip_stream_type < 2 ^ 8 ∧ self.application_type < 2 ^ 8 ∧
  self.TS_recording_rate < 2 ^ 32 ∧ self.number_of_source_packets < 2 ^ 32 ∧
  self.presentation_start_time < 2 ^ 32 ∧ self.presentation_end_time < 2 ^ 32 ∧
  ∀ e ∈ self.m_streamInfo, e.2.stream_coding_type < 256

instance (self : CLPIParser) : Decidable (ClipValuesInRange self) := by
  unfold ClipValuesInRange; infer_instance

open BitStreamWriter CLPIStreamInfo

open BitStreamWriter CLPIStreamInfo

/-- The stream table holds a stream that `composeEP_map` can build the EP map
of the pass from: an audio stream, or a video stream of the pass (a VIDEO_MVC
stream in the 3D-extension pass, a video stream other than VIDEO_MVC in the
normal pass). -/
def HasEPStream (E : StreamTypeCodes) (self : CLPIParser) (isSSExt : Bool) : Prop :=
  ∃ e ∈ self.m_streamInfo, isAudioStreamType E e.2.stream_coding_type = true ∨
    (if isSSExt then e.2.stream_coding_type = E.VIDEO_MVC
     else e.2.stream_coding_type ≠ E.VIDEO_MVC ∧ isVideoStreamType E e.2.stream_coding_type = true)

instance (E : StreamTypeCodes) (self : CLPIParser) (isSSExt : Bool) :
    Decidable (HasEPStream E self isSSExt) := by
  unfold HasEPStream; infer_instance

/-- A clip whose only stream is a VIDEO_MVC stream, not marked as a dependent
view. -/
def mvcOnly : CLPIParser :=
  withStreams [(0x1012, { CLPIStreamInfo.sampleVideo with
    streamPID := 0x1012, stream_coding_type := 0x20 })]

end CLPIParser

namespace TS_program_map_section

/-- A table whose section lists an AC-3 audio stream on PID 0x1100 with the
language "eng" and a DVB subtitle stream on PID 0x1200. -/
def audioAndSubtitle : TS_program_map_section :=
  { create with
    program_number := 1, pcr_pid := 0x1100,
    pidList := [(0x1100, ⟨0x81, 0x1100, [], 0, [101, 110, 103, 0]⟩),
                (0x1200, ⟨0x06, 0x1200, [], 0, [0, 0, 0, 0]⟩)] }

/-- A table whose section lists one H.264 video stream on PID 0x1011. -/
def videoOnly : TS_program_map_section :=
  { create with
    program_number := 1, pcr_pid := 0x1011,
    pidList := [(0x1011, ⟨0x1b, 0x1011, [], 0, [0, 0, 0, 0]⟩)] }

/-- `deserialize`, called on the object `self`, of the section that `serialize`
writes for `pmt`. -/
def readSection (self pmt : TS_program_map_section) : Bool × TS_program_map_section :=
  deserialize StreamTypeCodes.standard TSDescriptorTagCodes.standard self
    (serialize (fun _ => 0) StreamTypeCodes.standard TSDescriptorTagCodes.standard pmt
      false false).1
    (serialize (fun _ => 0) StreamTypeCodes.standard TSDescriptorTagCodes.standard pmt
      false false).2

/-- A table without streams that carries a CAS descriptor: CA system id
`casID`, CA PID `casPID`. -/
def withCas (casID casPID : Nat) : TS_program_map_section :=
  { create with program_number := 1, pcr_pid := 0x1011, casID := casID, casPID := casPID }

end TS_program_map_section

namespace TS_program_map_section

open BitStreamWriter

/-- The bytes of a sequence of descriptors, each a tag byte, a length byte and
the payload. -/
def descrBytes (ds : List (Nat × List Nat)) : List Nat :=
  ds.flatMap (fun d => d.1 :: d.2.length :: d.2)

/-- Every descriptor has a one-byte tag, a payload whose length fits the length
byte, and payload bytes. -/
def WellFormedDescriptors (ds : List (Nat × List Nat)) : Prop :=
  ∀ d ∈ ds, d.1 < 256 ∧ d.2.length < 256 ∧ ∀ b ∈ d.2, b < 256

/-- A stream entry that carries the descriptors `ds` as its raw descriptor
bytes and has no language code of its own. -/
def streamWith (stream_type pid : Nat) (ds : List (Nat × List Nat)) : PMTStreamInfo :=
  ⟨stream_type, pid, descrBytes ds, (descrBytes ds).length, [0, 0, 0, 0]⟩

/-- The language buffer after the descriptors `ds`: every descriptor with the
language tag stores its first three payload bytes. -/
def langAfter (T : TSDescriptorTagCodes) (ds : List (Nat × List Nat)) (lang : List Nat) :
    List Nat :=
  ds.foldl (fun l d => if d.1 = T.LANG then [d.2.getD 0 0, d.2.getD 1 0, d.2.getD 2 0] ++ l.drop 3
    else l) lang

/-- What `deserialize` records for the section entry `e` (PID, stream type,
descriptors) as the `pidList` element `o`: the entry is stored under its PID
with its stream type and PID and no raw descriptor bytes; the language buffer
stays empty when no descriptor has the language tag, and holds the first three
payload bytes of the last language descriptor when every language descriptor
has at least three payload bytes. -/
def ReadAs (T : TSDescriptorTagCodes) (e : Nat × Nat × List (Nat × List Nat))
    (o : Nat × PMTStreamInfo) : Prop :=
  o.1 = e.1 ∧ o.2.m_streamType = e.2.1 ∧ o.2.m_pid = e.1 ∧ o.2.m_esInfoData = [] ∧
  o.2.m_esInfoLen = 0 ∧ o.2.m_lang.length = 4 ∧
  ((∀ d ∈ e.2.2, d.1 ≠ T.LANG) → o.2.m_lang = [0, 0, 0, 0]) ∧
  ((∀ d ∈ e.2.2, d.1 = T.LANG → 3 ≤ d.2.length) →
    o.2.m_lang = langAfter T (e.2.2.filter (fun d => decide (d.1 = T.LANG))) [0, 0, 0, 0])

instance (T : TSDescriptorTagCodes) (e : Nat × Nat × List (Nat × List Nat))
    (o : Nat × PMTStreamInfo) : Decidable (ReadAs T e o) := by
  unfold ReadAs; infer_instance

/-- The `pidList` of a table whose streams carry the descriptors of `entries`
(PID, stream type, descriptors) as raw descriptor bytes. -/
def pidListOf (entries : List (Nat × Nat × List (Nat × List Nat))) :
    List (Nat × PMTStreamInfo) :=
  entries.map (fun e => (e.1, streamWith e.2.1 e.1 e.2.2))

end TS_program_map_section

namespace TS_program_map_section

open BitStreamWriter

instance (ds : List (Nat × List Nat)) : Decidable (WellFormedDescriptors ds) := by
  unfold WellFormedDescriptors; infer_instance

/-- The entries of a section with an H.264 video stream that carries an AVC
video descriptor (tag 0x28) and an AC-3 audio stream that carries a
registration descriptor (tag 0x05), the language descriptor "eng" (tag 0x0A)
and an AC-3 descriptor (tag 0x81). -/
def describedEntries : List (Nat × Nat × List (Nat × List Nat)) :=
  [(0x1011, 0x1b, [(0x28, [0x64, 0x00, 0x28, 0x3f])]),
   (0x1100, 0x81, [(0x05, [0x41, 0x43, 0x2d, 0x33]), (0x0a, [101, 110, 103, 0]),
     (0x81, [0x08, 0x28])])]

/-- The table whose streams carry the descriptors of `describedEntries`. -/
def describedTable : TS_program_map_section :=
  { create with program_number := 1, pcr_pid := 0x1011, pidList := pidListOf describedEntries }

end TS_program_map_section

/-- A sample assignment of the parameters: not version 3, the HDR10 metadata
all zero, and clip names written as five decimal digits. -/
def MPLSEnv.standard : MPLSEnv :=
  { isV3 := false, HDR10_metadata := [0, 0, 0, 0, 0, 0],
    clipName := fun n => [48 + n / 10000 % 10, 48 + n / 1000 % 10, 48 + n / 100 % 10,
      48 + n / 10 % 10, 48 + n % 10] }

namespace MPLSParser

/-- A playlist of one play item with an HEVC base stream (HDR10) and a Dolby
Vision enhancement stream (`HDR = 4`). -/
def dolbyVisionSample : MPLSParser :=
  { create with
    IN_time := 0, OUT_time := 45000,
    m_streamInfo :=
      [{ MPLSStreamInfo.sampleVideo 3840 2160 with
          streamPID := 0x1011, stream_coding_type := 0x24, HDR := 2, m_index := [[]] },
       { MPLSStreamInfo.sampleVideo 1920 1080 with
          streamPID := 0x1015, stream_coding_type := 0x24, HDR := 4, m_index := [[]] }] }

/-- The bytes and the length `compose` returns, when it returns. -/
def composeOutput (r : Option (Composed (MPLSParser × List Nat × Nat))) : Option (List Nat × Nat) :=
  match r with
  | some (.ok x) => some x.2
  | _ => none

/-- The object after `compose`, when it returns. -/
def composeState (r : Option (Composed (MPLSParser × List Nat × Nat))) : Option MPLSParser :=
  match r with
  | some (.ok x) => some x.1
  | _ => none

/-- The result of a second `compose` on the object the first one leaves. -/
def composeAgain (E : StreamTypeCodes) (M : PIPMethods) (X : MPLSEnv) (self : MPLSParser)
    (dtIsBluray : Bool) : Option (Composed (MPLSParser × List Nat × Nat)) :=
  match composeState (compose E M X self dtIsBluray) with
  | some self => compose E M X self dtIsBluray
  | none => none

end MPLSParser

namespace MPLSParser

open BitStreamWriter

/-- A stereoscopic playlist of one play item whose MVC stream list is empty. -/
def noMvcSample : MPLSParser :=
  { create with
    IN_time := 0, OUT_time := 45000, isDependStreamExist := true,
    m_streamInfo :=
      [{ MPLSStreamInfo.sampleVideo 1920 1080 with m_index := [[]] }] }

/-- The number of streams for which the first loop of `compose` adds a sub
path: the secondary video streams and the video streams with `HDR & 4`. -/
def subPathStreams (E : StreamTypeCodes) (l : List MPLSStreamInfo) : Nat :=
  l.countP fun si =>
    isVideoStreamType E si.stream_coding_type && (si.isSecondary || decide (si.HDR &&& 4 ≠ 0))

end MPLSParser

namespace MPLSParser

open BitStreamWriter

/-- The bytes `composePlayItem` writes for the play item `playItemNum` into an
empty writer (no bytes when it throws). -/
def playItemBytes (E : StreamTypeCodes) (X : MPLSEnv) (self : MPLSParser) (playItemNum : Nat)
    (pmtIndexList : List PMTIndex) : List Nat :=
  match composePlayItem E X self [] playItemNum pmtIndexList with
  | .ok r => bytes r.2
  | .error _ => []

/-- The four bytes of a 32-bit field at the byte offset `pos`. -/
def field32 (mem : List Nat) (pos : Nat) : List Nat := (mem.drop pos).take 4

/-- The index list of a stream of two play items; the second one starts at the
time stamp `t`. -/
def twoItems (t : Nat) : List PMTIndex := [[(0, ⟨0, 0⟩)], [(t, ⟨0, 0⟩)]]

/-- A playlist with one video stream of two play items, the second of which
starts at the time stamp `t`. -/
def twoItemSample (t : Nat) : MPLSParser :=
  { create with
    IN_time := 0, OUT_time := 45000,
    m_streamInfo := [{ MPLSStreamInfo.sampleVideo 1920 1080 with m_index := twoItems t }] }

end MPLSParser

namespace CLPIParser

/-- The coarse entry a fine entry `j` belongs to: the last coarse entry whose
`m_fineRefID` is at most `j`. -/
def ownerOf (coarseInfo : List BluRayCoarseInfo) (j : Nat) : Option BluRayCoarseInfo :=
  (coarseInfo.filter (fun c => c.m_fineRefID ≤ j)).getLast?

/-- The last coarse entry of a state of the loop of `buildCoarseInfo` has the
coarse time stamp and the coarse packet count of the last index entry. -/
def CoarseInv (st : List BluRayCoarseInfo × Nat × Nat × Nat) : Prop :=
  ∀ c, st.1.getLast? = some c →
    c.m_coarsePts = st.2.2.2 ∧ c.m_pktCnt &&& 0xfffe0000 = st.2.2.1 &&& 0xfffe0000

end CLPIParser

namespace TS_program_map_section

/-- A PMT section of 18 bytes (pointer field, header, a program-info area of
one byte, CRC) whose program-info area holds only the tag byte of a CA
descriptor; the four bytes after it are the CRC. -/
def truncatedCas : List Nat :=
  [0x00, 0x02, 0xb0, 0x0e, 0x00, 0x01, 0xc1, 0x00, 0x00, 0xe1, 0x00, 0xf0, 0x01,
    0x09, 0x04, 0x12, 0x34, 0x56]

end TS_program_map_section

/-- An extension block of 24 bytes with one entry: the identifier `dataID`, the
address 24 (the end of the block) and the length 0xFFFFFFFF. -/
def wrappingEntry (dataID : Nat) : List Nat :=
  be32 20 ++ be32 24 ++ [0, 0, 0, 1] ++ be32 dataID ++ be32 24 ++ be32 0xffffffff

/-- Twelve bytes in the layout of an `Extent_Start_Point` block with the one
extent start 7. -/
def extentBytes : List Nat := [0, 0, 0, 8, 0, 0, 0, 1, 0, 0, 0, 7]

namespace MPLSStreamInfo

open BitStreamWriter

/-- The object `parseStreamAttributes` leaves when it starts from `self0` and
reads what `composeStreamAttributes` wrote for the video, audio or PGS stream
`si`. -/
def parsedAttributes (E : StreamTypeCodes) (self0 si : MPLSStreamInfo) : MPLSStreamInfo :=
  let lang : List Nat :=
    [si.language_code.getD 0 0 % 256, si.language_code.getD 1 0 % 256,
      si.language_code.getD 2 0 % 256]
  let s := { self0 with stream_coding_type := si.stream_coding_type }
  if isVideoStreamType E si.stream_coding_type then
    { s with video_format := si.video_format % 16, frame_rate_index := si.frame_rate_index % 16 }
  else if isAudioStreamType E si.stream_coding_type then
    { s with audio_presentation_type := si.audio_presentation_type % 16, language_code := lang }
  else { s with language_code := lang }

/-- The object `parseStreamEntry` leaves when it starts from `self0` and reads
a stream entry of the given `type` and `streamPID`. -/
def parsedEntry (self0 : MPLSStreamInfo) (type streamPID : Nat) : MPLSStreamInfo :=
  { self0 with type := type, streamPID := streamPID % 2 ^ 16 }

/-- A blank stream object into which the examples parse. -/
def blank : MPLSStreamInfo :=
  { sample 0 0 with
    video_format := 0, frame_rate_index := 0, audio_presentation_type := 0,
    sampling_frequency_index := 0, language_code := [0, 0, 0] }

/-- What `parseStreamAttributes` returns for the bytes `composeStreamAttributes`
writes for `si`, read into the object `self0`; nothing when either fails. -/
def reparsed (E : StreamTypeCodes) (self0 si : MPLSStreamInfo) : Option MPLSStreamInfo :=
  match composeStreamAttributes E si [] with
  | .error _ => none
  | .ok w =>
    match parseStreamAttributes E self0 (BitStreamReader.setBuffer (bytes w)) with
    | .error _ => none
    | .ok r => some r.1

end MPLSStreamInfo

namespace MPLSParser

open BitStreamWriter

/-- A playlist with a primary H.264 video stream and a secondary HEVC video
stream that carries Dolby Vision (`HDR = 4`). -/
def secondaryDolbyVision : MPLSParser :=
  { create with
    m_streamInfo :=
      [MPLSStreamInfo.sampleVideo 1920 1080,
       { MPLSStreamInfo.sampleVideo 1920 1080 with
          streamPID := 0x1015, stream_coding_type := 0x24, HDR := 4, isSecondary := true }] }

/-- The bytes `composeSTN_table` writes into an empty writer (`isSSEx` not
set); nothing when it throws. -/
def stnBytes (E : StreamTypeCodes) (self : MPLSParser) : Option (List Nat) :=
  match composeSTN_table E self [] false with
  | .ok r => some (bytes r.2)
  | .error _ => none

/-- The PIDs and coding types of the streams `STN_table` appends for play item
0 when it reads `mem` into a new playlist object, and the number of bytes it
consumes; nothing when the reader runs out of data. -/
def stnParsed (E : StreamTypeCodes) (fresh : MPLSStreamInfo) (mem : List Nat) :
    Option (List (Nat × Nat) × Nat) :=
  match STN_table E fresh create (BitStreamReader.setBuffer mem) 0 with
  | .ok r => some (r.1.m_streamInfo.map (fun i => (i.streamPID, i.stream_coding_type)),
      r.2.count / 8)
  | .error _ => none

end MPLSParser

namespace MPLSParser

open BitStreamWriter MPLSStreamInfo

/-- The 16 bytes of a stream of the STN table: the stream entry and the stream
attributes. -/
def streamBits (E : StreamTypeCodes) (i : MPLSStreamInfo) (subPathID : Nat) : List Bool :=
  entryBits i.type i.streamPID subPathID ++ attrBits E i

/-- The stream object one of the loops of `STN_table` appends when it reads the
stream entry and the attributes written for the stream `i`. -/
def readBack (E : StreamTypeCodes) (fresh : MPLSStreamInfo) (markSecondary : Bool)
    (i : MPLSStreamInfo) : MPLSStreamInfo :=
  parsedAttributes E
    (parsedEntry (if markSecondary then { fresh with isSecondary := true } else fresh)
      i.type i.streamPID) i

/-- A list of stream id references as `composeSTN_table` writes it: the number
`n` of entries, a reserved byte, the `n` bytes `refs` and a byte of padding
when `n` is odd. -/
def refListBits (n : Nat) (refs : List Bool) : List Bool :=
  natBits 8 n ++ (natBits 8 0 ++ (refs ++ (if n % 2 = 1 then natBits 8 0 else [])))

/-- The streams the `// video` loop of `composeSTN_table` emits. -/
def primaryVideoStreams (E : StreamTypeCodes) (l : List MPLSStreamInfo) : List MPLSStreamInfo :=
  l.filter fun i =>
    decide (isVideoStreamType E i.stream_coding_type = true ∧ ¬ i.isSecondary = true ∧ i.HDR ≠ 4)

/-- The streams the `// primary audio` loop of `composeSTN_table` emits. -/
def primaryAudioStreams (E : StreamTypeCodes) (l : List MPLSStreamInfo) : List MPLSStreamInfo :=
  l.filter fun i =>
    decide (isAudioStreamType E i.stream_coding_type = true ∧ ¬ i.isSecondary = true)

/-- The streams the `// PG` loop of `composeSTN_table` emits. -/
def pgStreams (E : StreamTypeCodes) (l : List MPLSStreamInfo) : List MPLSStreamInfo :=
  l.filter fun i => decide (i.stream_coding_type = E.SUB_PGS)

/-- The streams the `// secondary audio` loop of `composeSTN_table` emits. -/
def secondaryAudioStreams (E : StreamTypeCodes) (l : List MPLSStreamInfo) :
    List MPLSStreamInfo :=
  l.filter fun i =>
    decide (isAudioStreamType E i.stream_coding_type = true ∧ i.isSecondary = true)

/-- The streams the `// secondary video` loop of `composeSTN_table` emits,
each with the value of `secondaryVNum` at its turn, from the value `n` on. -/
def secondaryVideoItems (E : StreamTypeCodes) :
    List MPLSStreamInfo → Nat → List (MPLSStreamInfo × Nat)
  | [], _ => []
  | i :: t, n =>
      if i.isSecondary = true ∧ isVideoStreamType E i.stream_coding_type = true then
        (i, n) :: secondaryVideoItems E t (n + 1)
      else secondaryVideoItems E t n

/-- The stream as the `// secondary video` loop leaves it in the list: with
the entry type 3 when it is a secondary video stream. -/
def withSecondaryType (E : StreamTypeCodes) (i : MPLSStreamInfo) : MPLSStreamInfo :=
  if i.isSecondary = true ∧ isVideoStreamType E i.stream_coding_type = true then
    { i with type := 3 }
  else i

/-- The bytes the `// secondary audio` loop writes for the references to the
primary audio streams, behind the number of entries and the reserved byte. -/
def audioRefs (E : StreamTypeCodes) (l : List MPLSStreamInfo) (n : Nat) : List Bool :=
  (l.foldl
    (fun (st : BitStreamWriter × Nat) (j : MPLSStreamInfo) =>
      if isAudioStreamType E j.stream_coding_type ∧ ¬ j.isSecondary then
        (putBits st.1 8 st.2, (st.2 + 1) % 2 ^ 8)
      else st)
    ([], n)).1

/-- What the `// secondary audio` loop writes behind the attributes of a
stream; `pa` and `sv` are the numbers of primary audio and of secondary video
streams. -/
def secondaryAudioRefs (E : StreamTypeCodes) (l : List MPLSStreamInfo) (pa sv : Nat) :
    List Bool :=
  if sv = 0 then refListBits pa (audioRefs E l 0) else refListBits 0 []

/-- What the `// secondary video` loop writes for a stream and the value `n`
of `secondaryVNum`; `sa` is the number of secondary audio streams. -/
def secondaryVideoBits (E : StreamTypeCodes) (sa : Nat) (a : MPLSStreamInfo × Nat) : List Bool :=
  streamBits E { a.1 with type := 3 } a.2 ++
    (refListBits (if sa > a.2 then 1 else 0) (if sa > a.2 then natBits 8 a.2 else []) ++
      refListBits 0 [])

/-- The stream entries `composeSTN_table` writes for the stream list `l`
(`isSSEx` not set), when the list holds no Dolby Vision stream and no primary
MVC stream. -/
def stnEntriesBits (E : StreamTypeCodes) (l : List MPLSStreamInfo) : List Bool :=
  (primaryVideoStreams E l).flatMap (fun i => streamBits E i 0) ++
  ((primaryAudioStreams E l).flatMap (fun i => streamBits E i 0) ++
  ((pgStreams E l).flatMap (fun i => streamBits E i 0) ++
  ((secondaryAudioStreams E l).flatMap
      (fun i => streamBits E i 0 ++
        secondaryAudioRefs E l (primaryAudioCount E l) (secondaryVideoCount E l)) ++
    (secondaryVideoItems E l 0).flatMap (secondaryVideoBits E (secondaryAudioCount E l)))))

/-- The STN table `composeSTN_table` writes for the stream list `l`: the
length, the reserved word, the counts and the stream entries. -/
def stnTableBits (E : StreamTypeCodes) (l : List MPLSStreamInfo) : List Bool :=
  natBits 16 (14 + (stnEntriesBits E l).length / 8) ++
    (natBits 16 0 ++ (countBits E l ++ (natBits 32 0 ++ stnEntriesBits E l)))

/-- The coding types of the streams are of one class each: no audio type
and not SUB_PGS is also a video type, and SUB_PGS is no audio type (as with
the values of the enumeration `StreamType`). -/
def DisjointClasses (E : StreamTypeCodes) (l : List MPLSStreamInfo) : Prop :=
  ∀ i ∈ l,
    (isAudioStreamType E i.stream_coding_type = true →
      isVideoStreamType E i.stream_coding_type = false) ∧
    (i.stream_coding_type = E.SUB_PGS →
      isVideoStreamType E i.stream_coding_type = false ∧
      isAudioStreamType E i.stream_coding_type = false)

instance (E : StreamTypeCodes) (l : List MPLSStreamInfo) : Decidable (DisjointClasses E l) := by
  unfold DisjointClasses; infer_instance

/-- The streams `composeSTN_table` emits for the list `l` (no Dolby Vision
stream in it), in the order of emission: primary video, primary audio, PG,
secondary audio, secondary video (these with the entry type 3). -/
def emittedStreams (E : StreamTypeCodes) (l : List MPLSStreamInfo) : List MPLSStreamInfo :=
  primaryVideoStreams E l ++ primaryAudioStreams E l ++ pgStreams E l ++
    secondaryAudioStreams E l ++
    (secondaryVideoItems E l 0).map (fun a => { a.1 with type := 3 })

/-- The streams `STN_table` appends for play item 0 when it reads the table
written for the list `l`. -/
def parsedStreams (E : StreamTypeCodes) (fresh : MPLSStreamInfo) (l : List MPLSStreamInfo) :
    List MPLSStreamInfo :=
  (primaryVideoStreams E l).map (readBack E fresh false) ++
    (primaryAudioStreams E l).map (readBack E fresh false) ++
    (pgStreams E l).map (readBack E fresh false) ++
    (secondaryAudioStreams E l).map (readBack E fresh true) ++
    (secondaryVideoItems E l 0).map (fun a => readBack E fresh true { a.1 with type := 3 })

/-- The object `STN_table` leaves when it reads, for play item 0, the table
written for the list `l` into the object `self0`. -/
def parsedTable (E : StreamTypeCodes) (fresh : MPLSStreamInfo) (self0 : MPLSParser)
    (l : List MPLSStreamInfo) : MPLSParser :=
  { self0 with
    number_of_primary_video_stream_entries := primaryVideoCount E l,
    number_of_primary_audio_stream_entries := primaryAudioCount E l,
    number_of_PG_textST_stream_entries := pgCount E l,
    number_of_IG_stream_entries := 0,
    number_of_secondary_audio_stream_entries := secondaryAudioCount E l,
    number_of_secondary_video_stream_entries := secondaryVideoCount E l,
    number_of_PiP_PG_textST_stream_entries_plus := 0,
    number_of_DolbyVision_video_stream_entries := 0,
    m_streamInfo := self0.m_streamInfo ++ parsedStreams E fresh l }

/-- The result of `composeSTN_table` on an empty writer (`isSSEx` not set); the
object itself and no bits when it throws. -/
def stnResult (E : StreamTypeCodes) (self : MPLSParser) : MPLSParser × BitStreamWriter :=
  match composeSTN_table E self [] false with
  | .ok r => r
  | .error _ => (self, [])

/-- A playlist with a stream of each category that `composeSTN_table` emits
without Dolby Vision: primary video, two primary audio streams, PG, secondary
audio and secondary video. -/
def allCategories : MPLSParser :=
  { create with
    m_streamInfo :=
      [MPLSStreamInfo.sample 0x1b 0x1011, MPLSStreamInfo.sample 0x81 0x1100,
       MPLSStreamInfo.sample 0x82 0x1101, MPLSStreamInfo.sample 0x90 0x1200,
       { MPLSStreamInfo.sample 0xa1 0x1a00 with isSecondary := true },
       { MPLSStreamInfo.sample 0x1b 0x1b00 with isSecondary := true }] }

/-- A playlist whose primary video stream is of the type VIDEO_MVC. -/
def primaryMvc : MPLSParser :=
  { create with m_streamInfo := [MPLSStreamInfo.sample 0x20 0x1012] }

end MPLSParser

namespace TS_program_map_section

/-- A stream of a table that `deserialize` reads back from the bytes of
`serialize`: stored under its own PID (at most `0x1FFF`), a one-byte stream
type, raw descriptor bytes that are a sequence of well-formed descriptors, and
a four-byte language buffer that holds a code of three bytes or is all zero; a
stream without language code has no descriptor with the language tag among
its raw descriptors. -/
def RoundTripStream (T : TSDescriptorTagCodes) (pid : Nat) (si : PMTStreamInfo) : Prop :=
  si.m_pid = pid ∧ pid ≤ 0x1FFF ∧ si.m_streamType < 256 ∧
    si.m_esInfoLen = si.m_esInfoData.length ∧
    (∃ ds, WellFormedDescriptors ds ∧ si.m_esInfoData = descrBytes ds ∧
      (si.m_lang.getD 0 0 = 0 → ∀ d ∈ ds, d.1 ≠ T.LANG)) ∧
    ∃ a b c, si.m_lang = [a, b, c, 0] ∧ a < 256 ∧ b < 256 ∧ c < 256 ∧ (a = 0 → b = 0 ∧ c = 0)

/-- What `deserialize` keeps of a stream: stream type, PID and language, no
raw descriptor bytes. -/
def readBack (si : PMTStreamInfo) : PMTStreamInfo :=
  { si with m_esInfoData := [], m_esInfoLen := 0 }

/-- The stream entries `serialize` writes for `video_pid`, `audio_pid` and
`sub_pid`, as streams without descriptors. -/
def shortcutStreams (E : StreamTypeCodes) (self : TS_program_map_section) :
    List (Nat × PMTStreamInfo) :=
  (if self.video_pid ≠ 0 then
      [(self.video_pid, PMTStreamInfo.create ((self.video_type % 2 ^ 32).toNat % 256)
        self.video_pid)]
    else []) ++
  ((if self.audio_pid ≠ 0 then
      [(self.audio_pid, PMTStreamInfo.create ((self.audio_type % 2 ^ 32).toNat % 256)
        self.audio_pid)]
    else []) ++
  (if self.sub_pid ≠ 0 then
      [(self.sub_pid, PMTStreamInfo.create (E.SUB_DVB % 256) self.sub_pid)]
    else []))

end TS_program_map_section

namespace TS_program_map_section

open BitStreamWriter

/-- A table whose `video_pid` and `audio_pid` are the PIDs of its two streams;
the video stream carries an AVC video descriptor (tag 0x28) as raw descriptor
bytes and no language, the audio stream a registration descriptor (tag 0x05)
and the language "eng". -/
def withStreamPids : TS_program_map_section :=
  { create with
    program_number := 1, pcr_pid := 0x1011, video_pid := 0x1011, video_type := 0x1b,
    audio_pid := 0x1100, audio_type := 0x81,
    pidList := [(0x1011, ⟨0x1b, 0x1011, [0x28, 4, 0x64, 0x00, 0x28, 0x3f], 6, [0, 0, 0, 0]⟩),
      (0x1100, ⟨0x81, 0x1100, [0x05, 4, 0x41, 0x43, 0x2d, 0x33], 6, [101, 110, 103, 0]⟩)] }

/-- A table with one audio stream with language "eng" whose raw descriptor
bytes are the two bytes of a descriptor header that announces 255 payload
bytes. -/
def withTruncatedDescriptor : TS_program_map_section :=
  { create with
    program_number := 1, pcr_pid := 0x1011,
    pidList := [(0x1100, ⟨0x81, 0x1100, [0x05, 0xff], 2, [101, 110, 103, 0]⟩)] }

/-- A table with one audio stream without language code whose raw descriptor
bytes are a language descriptor "eng". -/
def withRawLanguage : TS_program_map_section :=
  { create with
    program_number := 1, pcr_pid := 0x1011,
    pidList := [(0x1100, ⟨0x81, 0x1100, [0x0a, 4, 101, 110, 103, 0], 6, [0, 0, 0, 0]⟩)] }

end TS_program_map_section

namespace MPLSParser

open BitStreamWriter

/-- The PIP streams `composePip_metadata` collects: the secondary video
streams of `m_streamInfo`, in order. -/
def pipStreamsOf (E : StreamTypeCodes) (self : MPLSParser) : List MPLSStreamInfo :=
  self.m_streamInfo.filter (fun si => isVideoStreamType E si.stream_coding_type && si.isSecondary)

/-- The `(mainHSize, mainVSize)` of `composePip_metadata`: width and height of
the last video stream of `m_streamInfo` that is not secondary, `(0, 0)` when
there is none. -/
def mainSizeOf (E : StreamTypeCodes) (self : MPLSParser) : Nat × Nat :=
  match (self.m_streamInfo.filter
      (fun si => isVideoStreamType E si.stream_coding_type && !si.isSecondary)).getLast? with
  | some si => (si.width, si.height)
  | none => (0, 0)

/-- The two 12-bit position fields of entry `j` of a PIP metadata block with
`count` block headers: the block starts with a 32-bit length and a 16-bit
count, a block header takes 112 bits, an entry 80 bits, and the horizontal
and the vertical position follow the first 48 bits of the entry. -/
def pipEntryFields (buf : List Nat) (count j : Nat) : Nat × Nat :=
  (bitsToNat (((bytesToBits buf).drop (48 + 112 * count + 80 * j + 48)).take 12),
   bitsToNat (((bytesToBits buf).drop (48 + 112 * count + 80 * j + 60)).take 12))

/-- The bits of the entry `composePip_metadata` writes for the play item `i`
and a PIP stream. -/
def pipEntryBits (M : PIPMethods) (self : MPLSParser) (pmtIndexList : List PMTIndex)
    (mainHSize mainVSize : Nat) (i : Nat) (pipStream : MPLSStreamInfo) : List Bool :=
  natBits 16 1 ++ (natBits 32 (pipEntryTime self pmtIndexList i) ++
    (natBits 12 (pipPosition M mainHSize mainVSize pipStream).1 ++
      (natBits 12 (pipPosition M mainHSize mainVSize pipStream).2 ++
        (natBits 4 pipStream.pipParams.scaleIndex ++ natBits 4 0))))

end MPLSParser

namespace MPLSParser

open BitStreamWriter

/-- A PIP that is never full screen and is scaled by the coefficient `c`. -/
def PIPMethods.scaledBy (c : ℚ) : PIPMethods := ⟨fun _ => false, fun _ => c⟩

end MPLSParser

@[simp] theorem natBits_length (n v : Nat) : (natBits n v).length = n := by
  induction n with
  | zero => rfl
  | succ n ih => simp [natBits, ih]

theorem bitsToNat_foldl (bs : List Bool) (acc : Nat) :
    bs.foldl (fun acc b => 2 * acc + (if b then 1 else 0)) acc
      = acc * 2 ^ bs.length + bitsToNat bs := by
  induction bs generalizing acc with
  | nil => simp [bitsToNat]
  | cons b bs ih =>
      have h1 := ih (2 * acc + (if b then 1 else 0))
      have h2 := ih (2 * 0 + (if b then 1 else 0))
      simp only [List.foldl_cons, bitsToNat, List.length_cons, pow_succ] at h1 h2 ⊢
      rw [h1, h2]
      ring

@[simp] theorem bitsToNat_nil : bitsToNat [] = 0 := rfl

theorem bitsToNat_cons (b : Bool) (bs : List Bool) :
    bitsToNat (b :: bs) = (if b then 1 else 0) * 2 ^ bs.length + bitsToNat bs := by
  rw [bitsToNat, List.foldl_cons, bitsToNat_foldl]; simp

theorem bitsToNat_append (a b : List Bool) :
    bitsToNat (a ++ b) = bitsToNat a * 2 ^ b.length + bitsToNat b := by
  rw [bitsToNat, List.foldl_append, bitsToNat_foldl]; rfl

theorem bitsToNat_lt (bs : List Bool) : bitsToNat bs < 2 ^ bs.length := by
  induction bs with
  | nil => simp
  | cons b bs ih =>
      rw [bitsToNat_cons, List.length_cons, pow_succ]
      cases b <;> simp <;> omega

@[simp] theorem bitsToNat_natBits (n v : Nat) : bitsToNat (natBits n v) = v % 2 ^ n := by
  induction n with
  | zero => simp [natBits, Nat.mod_one]
  | succ n ih =>
      rw [natBits, bitsToNat_cons, ih, natBits_length]
      have h := Nat.mod_pow_succ (x := v) (b := 2) (k := n)
      rw [h]
      rcases Nat.mod_two_eq_zero_or_one (v / 2 ^ n) with h0 | h1
      · simp [h0]
      · simp [h1]; ring

theorem natBits_congr (n v v' : Nat) (h : v % 2 ^ n = v' % 2 ^ n) : natBits n v = natBits n v' := by
  induction n with
  | zero => rfl
  | succ n ih =>
      have hb : ∀ x : Nat, x / 2 ^ n % 2 = x % 2 ^ (n + 1) / 2 ^ n := by
        intro x
        have hp : 0 < 2 ^ n := by positivity
        rw [Nat.mod_pow_succ, Nat.add_mul_div_left _ _ hp, Nat.div_eq_of_lt (Nat.mod_lt _ hp)]
        simp
      have hm : ∀ x : Nat, x % 2 ^ n = x % 2 ^ (n + 1) % 2 ^ n := by
        intro x
        rw [Nat.mod_mod_of_dvd]
        exact pow_dvd_pow 2 (Nat.le_succ n)
      simp only [natBits]
      rw [hb v, hb v', h, ih (by rw [hm v, hm v', h])]

@[simp] theorem natBits_mod (n v : Nat) : natBits n (v % 2 ^ n) = natBits n v :=
  natBits_congr _ _ _ (Nat.mod_mod _ _)

theorem natBits_bitsToNat (bs : List Bool) : natBits bs.length (bitsToNat bs) = bs := by
  induction bs with
  | nil => rfl
  | cons b bs ih =>
      have hlt := bitsToNat_lt bs
      have hp : 0 < 2 ^ bs.length := by positivity
      rw [List.length_cons, natBits, bitsToNat_cons]
      have hd : ((if b then 1 else 0) * 2 ^ bs.length + bitsToNat bs) / 2 ^ bs.length
          = (if b then 1 else 0) := by
        rw [Nat.add_comm, Nat.add_mul_div_right _ _ hp, Nat.div_eq_of_lt hlt]; simp
      have ht : natBits bs.length ((if b then 1 else 0) * 2 ^ bs.length + bitsToNat bs)
          = natBits bs.length (bitsToNat bs) := by
        apply natBits_congr
        rw [Nat.add_comm, Nat.add_mul_mod_self_right]
      rw [hd, ht, ih]
      cases b <;> simp

theorem natBits_eq_of_length (bs : List Bool) (n : Nat) (h : bs.length = n) :
    natBits n (bitsToNat bs) = bs := by
  subst h; exact natBits_bitsToNat bs

@[simp] theorem bytesToBits_length (l : List Nat) : (bytesToBits l).length = 8 * l.length := by
  induction l with
  | nil => rfl
  | cons b bs ih => simp [bytesToBits, ih]; omega

theorem bytesToBits_append (a b : List Nat) :
    bytesToBits (a ++ b) = bytesToBits a ++ bytesToBits b := by
  induction a with
  | nil => rfl
  | cons x xs ih => simp [bytesToBits, ih]

theorem bitsToBytes_eight (a rest : List Bool) (h : a.length = 8) :
    bitsToBytes (a ++ rest) = bitsToNat a :: bitsToBytes rest := by
  match a, h with
  | [b0, b1, b2, b3, b4, b5, b6, b7], _ => rfl

theorem bitsToBytes_append (a b : List Bool) (h : a.length % 8 = 0) :
    bitsToBytes (a ++ b) = bitsToBytes a ++ bitsToBytes b := by
  obtain ⟨n, hn⟩ : ∃ n, a.length = 8 * n := ⟨a.length / 8, by omega⟩
  clear h
  induction n generalizing a with
  | zero =>
      have : a = [] := List.length_eq_zero.mp (by omega)
      subst this; rfl
  | succ n ih =>
      rw [← List.take_append_drop 8 a, List.append_assoc]
      have h8 : (a.take 8).length = 8 := by simp; omega
      rw [bitsToBytes_eight _ _ h8, bitsToBytes_eight _ _ h8, ih _ (by simp; omega)]
      rfl

theorem bitsToBytes_length (a : List Bool) (h : a.length % 8 = 0) :
    (bitsToBytes a).length = a.length / 8 := by
  obtain ⟨n, hn⟩ : ∃ n, a.length = 8 * n := ⟨a.length / 8, by omega⟩
  clear h
  induction n generalizing a with
  | zero =>
      have : a = [] := List.length_eq_zero.mp (by omega)
      subst this; rfl
  | succ n ih =>
      rw [← List.take_append_drop 8 a]
      have h8 : (a.take 8).length = 8 := by simp; omega
      rw [bitsToBytes_eight _ _ h8, List.length_cons, ih _ (by simp; omega)]
      simp
      omega

theorem bytesToBits_bitsToBytes (a : List Bool) (h : a.length % 8 = 0) :
    bytesToBits (bitsToBytes a) = a := by
  obtain ⟨n, hn⟩ : ∃ n, a.length = 8 * n := ⟨a.length / 8, by omega⟩
  clear h
  induction n generalizing a with
  | zero =>
      have : a = [] := List.length_eq_zero.mp (by omega)
      subst this; rfl
  | succ n ih =>
      have h8 : (a.take 8).length = 8 := by simp; omega
      conv_lhs => rw [← List.take_append_drop 8 a]
      rw [bitsToBytes_eight _ _ h8, bytesToBits, ih _ (by simp; omega),
        natBits_eq_of_length _ _ h8, List.take_append_drop]

theorem bitsToBytes_bytesToBits (l : List Nat) : bitsToBytes (bytesToBits l) = l.map (· % 256) := by
  induction l with
  | nil => rfl
  | cons b bs ih =>
      rw [bytesToBits, bitsToBytes_eight _ _ (natBits_length 8 b), ih]
      simp

namespace BitStreamReader

theorem getBits_append (a rest : List Bool) (c n : Nat) (h : a.length = n) :
    getBits ⟨a ++ rest, c⟩ n = .ok (bitsToNat a, ⟨rest, c + n⟩) := by
  subst h
  simp [getBits]

@[simp] theorem getBits_natBits (n v : Nat) (rest : List Bool) (c : Nat) :
    getBits ⟨natBits n v ++ rest, c⟩ n = .ok (v % 2 ^ n, ⟨rest, c + n⟩) := by
  rw [getBits_append _ _ _ _ (natBits_length n v), bitsToNat_natBits]

@[simp] theorem getBit_natBits (v : Nat) (rest : List Bool) (c : Nat) :
    getBit ⟨natBits 1 v ++ rest, c⟩ = .ok (v % 2, ⟨rest, c + 1⟩) := by
  simp [getBit]

@[simp] theorem skipBits_zero (r : BitStreamReader) : skipBits r 0 = .ok r := by
  simp [skipBits]

theorem skipBits_append (a rest : List Bool) (c n : Nat) (h : a.length ≤ n) :
    skipBits ⟨a ++ rest, c⟩ n = skipBits ⟨rest, c + a.length⟩ (n - a.length) := by
  simp only [skipBits, List.length_append]
  by_cases h2 : n ≤ a.length + rest.length
  · have h3 : n - a.length ≤ rest.length := by omega
    rw [if_pos h2, if_pos h3]
    have : n = a.length + (n - a.length) := by omega
    conv_lhs => rw [this, ← List.drop_drop, List.drop_left]
    congr 2
    omega
  · have h3 : ¬ n - a.length ≤ rest.length := by omega
    rw [if_neg h2, if_neg h3]

@[simp] theorem skipBits_natBits (k v : Nat) (rest : List Bool) (c n : Nat) (h : k ≤ n) :
    skipBits ⟨natBits k v ++ rest, c⟩ n = skipBits ⟨rest, c + k⟩ (n - k) := by
  rw [skipBits_append _ _ _ _ (by simpa using h), natBits_length]

@[simp] theorem skipBit_natBits (v : Nat) (rest : List Bool) (c : Nat) :
    skipBit ⟨natBits 1 v ++ rest, c⟩ = .ok ⟨rest, c + 1⟩ := by
  simp [skipBit]

end BitStreamReader

@[simp] theorem Except.ok_bind' {ε α β : Type} (a : α) (f : α → Except ε β) :
    (Except.ok a >>= f) = f a := rfl

@[simp] theorem Except.error_bind' {ε α β : Type} (e : ε) (f : α → Except ε β) :
    ((Except.error e : Except ε α) >>= f) = Except.error e := rfl

namespace TS_program_association_section

theorem foldl_entries (l : List (Nat × Nat)) (w : BitStreamWriter) :
    l.foldl (fun w e => w ++ (natBits 16 e.2 ++ (natBits 3 7 ++ natBits 13 e.1))) w
      = w ++ entriesBits l := by
  induction l generalizing w with
  | nil => simp [entriesBits]
  | cons e t ih => simp [ih, entriesBits]

@[simp] theorem entriesBits_length (l : List (Nat × Nat)) : (entriesBits l).length = 32 * l.length := by
  induction l with
  | nil => rfl
  | cons e t ih => simp [entriesBits, ih]; omega

theorem pat_serializeBits_eq (self : TS_program_association_section) :
    serializeBits self = natBits 8 0 ++ (natBits 2 2 ++ (natBits 2 3 ++
      (natBits 12 ((9 + self.pmtPids.length * 4) % 2 ^ 32) ++ (natBits 16 self.transport_stream_id ++
      (natBits 2 3 ++ (natBits 5 0 ++ (natBits 1 1 ++ (natBits 16 0 ++ entriesBits self.pmtPids)))))))) := by
  simp [serializeBits, foldl_entries, BitStreamWriter.putBits, BitStreamWriter.flushBits,
    BitStreamWriter.setBuffer]

theorem serializeBits_length (self : TS_program_association_section) :
    (serializeBits self).length = 64 + 32 * self.pmtPids.length := by
  rw [pat_serializeBits_eq]; simp; omega

theorem serialize_buffer (crc : List Nat → Nat) (self : TS_program_association_section) :
    (serialize crc self).1 = 0 :: (bitsToBytes (serializeBits self) ++
      be32 (crc (bitsToBytes (serializeBits self)))) := by
  have hl := serializeBits_length self
  have hb := bitsToBytes_length (serializeBits self) (by omega)
  simp only [serialize, BitStreamWriter.bytes, BitStreamWriter.getBitsCount, storeAt]
  rw [← hb]
  simp

theorem serialize_len (crc : List Nat → Nat) (self : TS_program_association_section) :
    (serialize crc self).2 = 13 + 4 * self.pmtPids.length := by
  simp only [serialize, BitStreamWriter.getBitsCount, serializeBits_length]
  omega

theorem reader_of_serialize (crc : List Nat → Nat) (self : TS_program_association_section) :
    BitStreamReader.setBuffer (((serialize crc self).1.drop 1).take (serialize crc self).2)
      = ⟨serializeBits self ++ bytesToBits (be32 (crc (bitsToBytes (serializeBits self)))), 0⟩ := by
  have hl := serializeBits_length self
  have hb := bitsToBytes_length (serializeBits self) (by omega)
  rw [serialize_buffer, serialize_len]
  simp only [List.drop_succ_cons, List.drop_zero, BitStreamReader.setBuffer]
  rw [List.take_of_length_le (by simp [hb, hl, be32]; omega), bytesToBits_append,
    bytesToBits_bitsToBytes _ (by omega)]

end TS_program_association_section

theorem natBits_add (a b v : Nat) : natBits (a + b) v = natBits a (v / 2 ^ b) ++ natBits b v := by
  induction a with
  | zero => simp [natBits]
  | succ a ih =>
      have : a + 1 + b = (a + b) + 1 := by omega
      rw [this, natBits, natBits, ih, Nat.div_div_eq_div_mul, ← pow_add, Nat.add_comm b a]
      rfl

@[simp] theorem be32_length (v : Nat) : (be32 v).length = 4 := rfl

namespace BitStreamReader

@[simp] theorem skipBits_natBits_lt (k v : Nat) (rest : List Bool) (c n : Nat) (h : n < k) :
    skipBits ⟨natBits k v ++ rest, c⟩ n = .ok ⟨natBits (k - n) v ++ rest, c + n⟩ := by
  have hk : k = n + (k - n) := by omega
  conv_lhs => rw [hk, natBits_add, List.append_assoc]
  rw [skipBits_append _ _ _ _ (by simp)]
  simp

@[simp] theorem getBits_natBits_lt (k v : Nat) (rest : List Bool) (c n : Nat) (h : n < k) :
    getBits ⟨natBits k v ++ rest, c⟩ n
      = .ok (v / 2 ^ (k - n) % 2 ^ n, ⟨natBits (k - n) v ++ rest, c + n⟩) := by
  have hk : k = n + (k - n) := by omega
  conv_lhs => rw [hk, natBits_add, List.append_assoc]
  rw [getBits_append _ _ _ _ (natBits_length _ _), bitsToNat_natBits]

end BitStreamReader

theorem StdMap.insert_last {β : Type} (k : Nat) (v : β) (m : List (Nat × β))
    (h : ∀ e ∈ m, e.1 < k) : StdMap.insert k v m = m ++ [(k, v)] := by
  induction m with
  | nil => rfl
  | cons e t ih =>
      obtain ⟨k', v'⟩ := e
      have h1 : k' < k := h (k', v') (List.mem_cons_self _ _)
      have h2 : ¬ k < k' := by omega
      have h3 : ¬ k = k' := by omega
      simp only [StdMap.insert, if_neg h2, if_neg h3, List.cons_append]
      rw [ih (fun e he => h e (List.mem_cons_of_mem _ he))]

namespace TS_program_association_section

theorem deserializeLoop_entries (l : List (Nat × Nat)) :
    ∀ (acc : List (Nat × Nat)) (rest : List Bool) (c fuel : Nat) (tsid : Nat) (nit : Int),
      StdMap.Ordered (acc ++ l) →
      (∀ e ∈ l, e.1 < 2 ^ 13 ∧ e.2 ≠ 0 ∧ e.2 < 2 ^ 16) →
      l.length < fuel →
      deserializeLoop ((c : Int) + 32 * l.length) fuel ⟨entriesBits l ++ rest, c⟩ ⟨tsid, nit, acc⟩
        = .ok (⟨rest, c + 32 * l.length⟩, ⟨tsid, nit, acc ++ l⟩) := by
  induction l with
  | nil =>
      intro acc rest c fuel tsid nit _ _ hf
      obtain ⟨f, rfl⟩ : ∃ f, fuel = f + 1 := ⟨fuel - 1, by simp at hf; omega⟩
      simp [deserializeLoop, entriesBits, BitStreamReader.getBitsCount]
  | cons e t ih =>
      intro acc rest c fuel tsid nit hord hr hf
      obtain ⟨f, rfl⟩ : ∃ f, fuel = f + 1 := ⟨fuel - 1, by simp at hf; omega⟩
      obtain ⟨h13, h0, h16⟩ := hr e (List.mem_cons_self _ _)
      have hlt : (c : Int) < (c : Int) + 32 * ((e :: t).length : Nat) := by
        simp only [List.length_cons]; push_cast; omega
      have hk : ∀ x ∈ acc, x.1 < e.1 := by
        intro x hx
        have := hord
        simp only [StdMap.Ordered, List.map_append, List.map_cons, List.pairwise_append] at this
        exact this.2.2 x.1 (List.mem_map_of_mem _ hx) e.1 (List.mem_cons_self _ _)
      have hord' : StdMap.Ordered ((acc ++ [e]) ++ t) := by simpa using hord
      have ih' := ih (acc ++ [e]) rest (c + 32) f tsid nit hord'
        (fun x hx => hr x (List.mem_cons_of_mem _ hx)) (by simp at hf; omega)
      have e1 : (c : Int) + 32 * ((e :: t).length : Nat) = ((c + 32 : Nat) : Int) + 32 * (t.length : Nat) := by
        simp only [List.length_cons]; push_cast; omega
      have e2 : c + 32 * (e :: t).length = c + 32 + 32 * t.length := by
        simp only [List.length_cons]; omega
      rw [deserializeLoop, BitStreamReader.getBitsCount, if_pos hlt]
      simp only [entriesBits, List.append_assoc, BitStreamReader.getBits_natBits,
        Except.ok_bind', bind_pure_comp, BitStreamReader.skipBits_natBits, le_refl, Nat.sub_self,
        BitStreamReader.skipBits_zero, Nat.mod_eq_of_lt h13, Nat.mod_eq_of_lt h16]
      simp only [ne_eq, h0, not_false_eq_true, if_true]
      rw [StdMap.insert_last _ _ _ hk, e1, e2]
      have : c + 16 + 3 + 13 = c + 32 := by omega
      rw [this]
      simpa using ih'

theorem deserialize_serialize_header (crc : List Nat → Nat)
    (pat self0 : TS_program_association_section) :
    self0.deserialize (serialize crc pat).1 (serialize crc pat).2 =
      (do
        let rest := entriesBits pat.pmtPids ++ bytesToBits (be32 (crc (bitsToBytes (serializeBits pat))))
        let crcBit : Int := 24 + ((((9 + pat.pmtPids.length * 4) % 2 ^ 32 % 2 ^ 12 : Nat) : Int) - 4) * 8
        let (r, s) ← deserializeLoop crcBit (rest.length + 1) ⟨rest, 64⟩
          ⟨pat.transport_stream_id % 2 ^ 16, -1, []⟩
        pure (decide ((r.getBitsCount : Int) = crcBit), s)) := by
  unfold deserialize
  dsimp only
  rw [reader_of_serialize]
  generalize bytesToBits (be32 (crc (bitsToBytes (serializeBits pat)))) = crcBits
  rw [pat_serializeBits_eq]
  simp [BitStreamReader.getBitsCount]

theorem manyPrograms_length (n : Nat) : (manyPrograms n).pmtPids.length = n := by
  simp [manyPrograms]

theorem manyPrograms_ordered (n : Nat) : StdMap.Ordered (manyPrograms n).pmtPids := by
  simp only [StdMap.Ordered, manyPrograms, List.map_map]
  have : (Prod.fst ∘ fun i => (i, 1)) = (id : Nat → Nat) := rfl
  rw [this, List.map_id]
  exact List.pairwise_lt_range n

theorem manyPrograms_mem (n : Nat) (e : Nat × Nat) (he : e ∈ (manyPrograms n).pmtPids) :
    e.1 < n ∧ e.2 = 1 := by
  simp only [manyPrograms, List.mem_map, List.mem_range] at he
  obtain ⟨i, hi, rfl⟩ := he
  exact ⟨hi, rfl⟩

theorem deserialize_manyPrograms (crc : List Nat → Nat) (self0 : TS_program_association_section)
    (n : Nat) (hn : n = 1022) :
    self0.deserialize (serialize crc (manyPrograms n)).1 (serialize crc (manyPrograms n)).2
      = .ok (false, ⟨0, -1, []⟩) := by
  rw [deserialize_serialize_header]
  have hts : (manyPrograms n).transport_stream_id = 0 := rfl
  dsimp only
  rw [manyPrograms_length, hts, hn]
  simp [deserializeLoop, BitStreamReader.getBitsCount]

end TS_program_association_section

theorem natBits_append_natBits (a b x y : Nat) :
    natBits a x ++ natBits b y = natBits (a + b) (x % 2 ^ a * 2 ^ b + y % 2 ^ b) := by
  have hb : 0 < 2 ^ b := by positivity
  rw [natBits_add]
  congr 1
  · rw [Nat.add_comm, Nat.add_mul_div_right _ _ hb, Nat.div_eq_of_lt (Nat.mod_lt _ hb), Nat.zero_add,
      natBits_mod]
  · apply natBits_congr
    rw [Nat.add_comm, Nat.add_mul_mod_self_right, Nat.mod_mod]

theorem bitsToBytes_natBits8 (v : Nat) (rest : List Bool) :
    bitsToBytes (natBits 8 v ++ rest) = v % 256 :: bitsToBytes rest := by
  rw [bitsToBytes_eight _ _ (natBits_length 8 v), bitsToNat_natBits]
  rfl

theorem bitsToBytes_natBits16 (v : Nat) (rest : List Bool) :
    bitsToBytes (natBits 16 v ++ rest) = v / 256 % 256 :: v % 256 :: bitsToBytes rest := by
  rw [show (16 : Nat) = 8 + 8 from rfl, natBits_add, List.append_assoc, bitsToBytes_natBits8,
    bitsToBytes_natBits8]
  rfl

theorem bitsToBytes_natBits32 (v : Nat) (rest : List Bool) :
    bitsToBytes (natBits 32 v ++ rest) = be32 v ++ bitsToBytes rest := by
  rw [show (32 : Nat) = 8 + (8 + (8 + 8)) from rfl, natBits_add, natBits_add, natBits_add]
  simp only [List.append_assoc, bitsToBytes_natBits8, be32, Nat.div_div_eq_div_mul]
  rfl

theorem be32_eq (v : Nat) : be32 v = bitsToBytes (natBits 32 v) := by
  have := bitsToBytes_natBits32 v []
  simpa [bitsToBytes] using this.symm

theorem or_shift8 (x y : Nat) (hy : y < 256) : (x <<< 8) ||| y = x * 256 + y := by
  have h := Nat.mul_add_lt_is_or (i := 8) (b := y) (by simpa using hy) x
  rw [Nat.shiftLeft_eq, Nat.mul_comm, ← h]

namespace BitStreamWriter

theorem store_eq (w a px b : List Bool) (pos k v : Nat) (hw : w = a ++ (px ++ b))
    (ha : a.length = 8 * pos) (hpx : px.length = 8 * k) :
    store w pos k v = a ++ (natBits (8 * k) v ++ b) := by
  subst hw
  simp only [store, List.append_assoc]
  rw [← ha, List.take_left, ← hpx, ← List.length_append, ← List.append_assoc a px b,
    List.drop_left]

theorem store_eq_storeB (w : List Bool) (pos k v : Nat) :
    store w pos k v = storeB w (8 * pos) (8 * k) v := rfl

theorem storeB_peel (n x : Nat) (b : List Bool) (p m v : Nat) (h : n ≤ p) :
    storeB (natBits n x ++ b) p m v = natBits n x ++ storeB b (p - n) m v := by
  simp only [storeB, List.append_assoc]
  rw [List.take_append_eq_append_take, List.drop_append_eq_append_drop]
  simp only [natBits_length]
  rw [List.take_of_length_le (by simp; omega), List.drop_of_length_le (by simp; omega)]
  simp only [List.append_assoc, List.nil_append]
  have : p + m - n = p - n + m := by omega
  rw [this]

theorem storeB_peel_list (a b : List Bool) (p m v : Nat) (h : a.length ≤ p) :
    storeB (a ++ b) p m v = a ++ storeB b (p - a.length) m v := by
  simp only [storeB, List.append_assoc]
  rw [List.take_append_eq_append_take, List.drop_append_eq_append_drop]
  rw [List.take_of_length_le (by omega), List.drop_of_length_le (by omega)]
  simp only [List.append_assoc, List.nil_append]
  have : p + m - a.length = p - a.length + m := by omega
  rw [this]

theorem storeB_zero (b : List Bool) (m v : Nat) :
    storeB b 0 m v = natBits m v ++ b.drop m := by
  simp [storeB]

theorem drop_natBits_append (n x : Nat) (b : List Bool) (m : Nat) (h : n ≤ m) :
    (natBits n x ++ b).drop m = b.drop (m - n) := by
  rw [List.drop_append_eq_append_drop, List.drop_of_length_le (by simp; omega)]
  simp

end BitStreamWriter

theorem foldl_append_flatMap {α : Type} (f : α → List Bool) (l : List α) (w : List Bool) :
    l.foldl (fun w x => w ++ f x) w = w ++ l.flatMap f := by
  induction l generalizing w with
  | nil => simp
  | cons x t ih => simp [ih]

theorem length_flatMap_natBits8 {α : Type} (g : α → Nat) (l : List α) :
    (l.flatMap (fun j => natBits 8 (g j))).length = 8 * l.length := by
  induction l with
  | nil => rfl
  | cons x t ih => simp [ih]; omega

namespace BitStreamWriter

theorem store_length (w : List Bool) (pos k v : Nat) (h : 8 * pos + 8 * k ≤ w.length) :
    (store w pos k v).length = w.length := by
  simp [store]; omega

end BitStreamWriter

namespace TS_program_map_section

open BitStreamWriter

theorem dataBits_length (si : PMTStreamInfo) : (dataBits si).length = 8 * si.m_esInfoLen := by
  rw [dataBits, length_flatMap_natBits8, List.length_range]

theorem langBits_length (T : TSDescriptorTagCodes) (bm : Bool) (si : PMTStreamInfo) :
    (langBits T bm si).length = if si.m_lang.getD 0 0 ≠ 0 ∧ ¬ bm then 48 else 0 := by
  unfold langBits; split <;> simp

theorem descBits_length_mod (T : TSDescriptorTagCodes) (bm : Bool) (si : PMTStreamInfo) :
    (descBits T bm si).length % 8 = 0 := by
  simp only [descBits, List.length_append, dataBits_length, langBits_length]
  split <;> omega

theorem streamBits_length (T : TSDescriptorTagCodes) (bm : Bool) (si : PMTStreamInfo) :
    (streamBits T bm si).length = 40 + (descBits T bm si).length := by
  simp [streamBits]; omega

theorem serializeStream_eq (T : TSDescriptorTagCodes) (bm : Bool) (w : BitStreamWriter)
    (si : PMTStreamInfo) (hw : w.length % 8 = 0) :
    serializeStream T bm w si = w ++ streamBits T bm si := by
  have hd := descBits_length_mod T bm si
  have key : ∀ D : List Bool, D.length % 8 = 0 →
      store (w ++ (natBits 8 si.m_streamType ++ (natBits 3 7 ++ (natBits 13 si.m_pid ++
        (natBits 4 15 ++ (natBits 12 0 ++ D))))))
        ((w ++ (natBits 8 si.m_streamType ++ (natBits 3 7 ++ natBits 13 si.m_pid))).length / 8) 2
        ((0xf000 + (w ++ (natBits 8 si.m_streamType ++ (natBits 3 7 ++ (natBits 13 si.m_pid ++
          (natBits 4 15 ++ (natBits 12 0 ++ D)))))).length / 8
          - (w ++ (natBits 8 si.m_streamType ++ (natBits 3 7 ++ (natBits 13 si.m_pid ++
          (natBits 4 15 ++ natBits 12 0))))).length / 8) % 2 ^ 16)
      = w ++ (natBits 8 si.m_streamType ++ (natBits 3 7 ++ (natBits 13 si.m_pid ++
        (natBits 16 ((0xf000 + D.length / 8) % 2 ^ 16) ++ D)))) := by
    intro D hD
    rw [store_eq _ (w ++ (natBits 8 si.m_streamType ++ (natBits 3 7 ++ natBits 13 si.m_pid)))
      (natBits 4 15 ++ natBits 12 0) D _ 2 _ (by simp) (by simp; omega) (by simp)]
    simp only [List.append_assoc, List.length_append, natBits_length]
    have : 0xf000 + (w.length + (8 + (3 + (13 + (4 + (12 + D.length)))))) / 8
        - (w.length + (8 + (3 + (13 + (4 + 12))))) / 8 = 0xf000 + D.length / 8 := by omega
    rw [this]
  have h := key (descBits T bm si) hd
  rw [streamBits, ← h]
  unfold serializeStream descBits langBits dataBits
  simp only [putBits, getBitsCount, List.append_assoc, foldl_append_flatMap]
  split <;> simp [List.range_succ, List.append_assoc]

theorem foldl_serializeStream (T : TSDescriptorTagCodes) (bm : Bool)
    (l : List (Nat × PMTStreamInfo)) (w : BitStreamWriter) (hw : w.length % 8 = 0) :
    l.foldl (fun w e => serializeStream T bm w e.2) w
      = w ++ l.flatMap (fun e => streamBits T bm e.2) := by
  induction l generalizing w with
  | nil => simp
  | cons e t ih =>
      have hl := streamBits_length T bm e.2
      have hd := descBits_length_mod T bm e.2
      rw [List.foldl_cons, serializeStream_eq _ _ _ _ hw, ih _ (by simp; omega)]
      simp

open BitStreamWriter

theorem progInfoBits_length (T : TSDescriptorTagCodes) (self : TS_program_map_section) (h : Bool) :
    (progInfoBits T self h).length
      = (if h then 96 else 0) + (if self.casPID ≠ 0 then 48 else 0) := by
  unfold progInfoBits
  split <;> split <;> simp

theorem shortcutBits_length (E : StreamTypeCodes) (self : TS_program_map_section) :
    (shortcutBits E self).length
      = (if self.video_pid ≠ 0 then 40 else 0) + ((if self.audio_pid ≠ 0 then 40 else 0) +
        (if self.sub_pid ≠ 0 then 40 else 0)) := by
  unfold shortcutBits
  split <;> split <;> split <;> simp

theorem streamsBits_length_mod (T : TSDescriptorTagCodes) (bm : Bool)
    (l : List (Nat × PMTStreamInfo)) :
    (l.flatMap (fun e => streamBits T bm e.2)).length % 8 = 0 := by
  induction l with
  | nil => rfl
  | cons e t ih =>
      have hl := streamBits_length T bm e.2
      have hd := descBits_length_mod T bm e.2
      simp only [List.flatMap_cons, List.length_append]
      omega

theorem bodyBits_length_mod (E : StreamTypeCodes) (T : TSDescriptorTagCodes)
    (self : TS_program_map_section) (bm h : Bool) :
    (bodyBits E T self bm h).length % 8 = 0 := by
  have h1 := progInfoBits_length T self h
  have h2 := shortcutBits_length E self
  have h3 := streamsBits_length_mod T bm self.pidList
  simp only [bodyBits, List.length_append, h1, h2]
  split <;> split <;> split <;> split <;> split <;> omega

theorem pmt_serializeBits_eq (E : StreamTypeCodes) (T : TSDescriptorTagCodes)
    (self : TS_program_map_section) (bm h : Bool) :
    serializeBits E T self bm h =
      natBits 8 2 ++ (natBits 16 ((0xb000 + (9 + (bodyBits E T self bm h).length / 8) + 4) % 2 ^ 16) ++
        (natBits 16 self.program_number ++ (natBits 2 3 ++ (natBits 5 0 ++ (natBits 1 1 ++
        (natBits 16 0 ++ (natBits 3 7 ++ (natBits 13 self.pcr_pid ++
        (natBits 16 ((0xf000 + (progInfoBits T self h).length / 8) % 2 ^ 16) ++
          bodyBits E T self bm h))))))))) := by
  have hpi := progInfoBits_length T self h
  have hsc := shortcutBits_length E self
  have hst := streamsBits_length_mod T bm self.pidList
  -- the state of the writer just before program_info_length is patched
  have e1 : ∀ w : BitStreamWriter,
      (if self.casPID ≠ 0 then
        putBits (putBits (putBits (putBits
          (if h = true then
            putBits (putBits (putBits (putBits (putBits (putBits w 8 (T.HDMV % 256)) 8 0x04) 32
              0x48444d56) 8 (T.COPY_CONTROL % 256)) 8 0x04) 32 0x0ffffcfc
          else w) 8 (T.CAS % 256)) 8 0x04) 16 self.casID) 16 self.casPID
      else
        (if h = true then
            putBits (putBits (putBits (putBits (putBits (putBits w 8 (T.HDMV % 256)) 8 0x04) 32
              0x48444d56) 8 (T.COPY_CONTROL % 256)) 8 0x04) 32 0x0ffffcfc
          else w)) = w ++ progInfoBits T self h := by
    intro w
    unfold progInfoBits
    split <;> split <;> simp [putBits]
  have e2 : ∀ w : BitStreamWriter,
      (if self.sub_pid ≠ 0 then
        putBits (putBits (putBits (putBits (putBits
          (if self.audio_pid ≠ 0 then
            putBits (putBits (putBits (putBits (putBits
              (if self.video_pid ≠ 0 then
                putBits (putBits (putBits (putBits (putBits w 8 (self.video_type % 2 ^ 32).toNat)
                  3 7) 13 self.video_pid) 4 15) 12 0
              else w) 8 (self.audio_type % 2 ^ 32).toNat) 3 7) 13 self.audio_pid) 4 15) 12 0
          else
            (if self.video_pid ≠ 0 then
                putBits (putBits (putBits (putBits (putBits w 8 (self.video_type % 2 ^ 32).toNat)
                  3 7) 13 self.video_pid) 4 15) 12 0
              else w)) 8 (E.SUB_DVB % 256)) 3 7) 13 self.sub_pid) 4 15) 12 0
      else
        (if self.audio_pid ≠ 0 then
            putBits (putBits (putBits (putBits (putBits
              (if self.video_pid ≠ 0 then
                putBits (putBits (putBits (putBits (putBits w 8 (self.video_type % 2 ^ 32).toNat)
                  3 7) 13 self.video_pid) 4 15) 12 0
              else w) 8 (self.audio_type % 2 ^ 32).toNat) 3 7) 13 self.audio_pid) 4 15) 12 0
          else
            (if self.video_pid ≠ 0 then
                putBits (putBits (putBits (putBits (putBits w 8 (self.video_type % 2 ^ 32).toNat)
                  3 7) 13 self.video_pid) 4 15) 12 0
              else w))) = w ++ shortcutBits E self := by
    intro w
    unfold shortcutBits
    split <;> split <;> split <;> simp [putBits]
  unfold serializeBits
  dsimp only
  rw [e1, e2]
  simp only [putBits, setBuffer, getBitsCount, flushBits, List.nil_append, List.append_assoc,
    List.length_append, natBits_length, Nat.reduceAdd, Nat.reduceDiv, Nat.reduceMul,
    store_eq_storeB, storeB_peel, storeB_zero, drop_natBits_append, Nat.reduceLeDiff, Nat.reduceSub,
    List.drop_zero]
  rw [foldl_serializeStream]
  · simp only [List.append_assoc, List.length_append, natBits_length, Nat.reduceAdd, Nat.reduceDiv,
      Nat.reduceMul, storeB_peel, storeB_zero, drop_natBits_append, Nat.reduceLeDiff, Nat.reduceSub,
      List.drop_zero]
    clear e1 e2
    have h8 : (progInfoBits T self h).length % 8 = 0 := by
      rw [hpi]; split <;> split <;> rfl
    have hs8 : (shortcutBits E self).length % 8 = 0 := by
      rw [hsc]; split <;> split <;> split <;> rfl
    simp only [bodyBits, List.length_append, List.append_assoc]
    congr 2
    · congr 1; omega
    · congr 7
      congr 2
      omega
  · simp only [List.length_append, natBits_length, hpi, hsc]
    split <;> split <;> split <;> split <;> split <;> omega

end TS_program_map_section

theorem getD_bitsToBytes_pre (pre X : List Bool) (p i : Nat) (h : pre.length = 8 * p) :
    (bitsToBytes (pre ++ X)).getD (p + i) 0 = (bitsToBytes X).getD i 0 := by
  have hl := bitsToBytes_length pre (by omega)
  rw [bitsToBytes_append _ _ (by omega), List.getD_append_right _ _ _ _ (by omega)]
  congr 1
  omega

theorem and_mask13 (x : Nat) : x &&& 0x1fff = x % 2 ^ 13 :=
  Nat.and_pow_two_sub_one_eq_mod x 13

theorem and_mask12 (x : Nat) : x &&& 0xfff = x % 2 ^ 12 :=
  Nat.and_pow_two_sub_one_eq_mod x 12

namespace TS_program_map_section

end TS_program_map_section

theorem natBits16_split (hi lo : Nat) (_hhi : hi < 16) (hlo : lo < 4096) :
    natBits 16 ((hi * 4096 + lo) % 2 ^ 16) = natBits 4 hi ++ natBits 12 lo := by
  rw [natBits_append_natBits]
  exact natBits_congr 16 _ _ (by omega)

namespace TS_program_map_section

open BitStreamWriter

theorem deserializeSwitch_pidList (E : StreamTypeCodes) (self : TS_program_map_section)
    (t pid : Nat) : (deserializeSwitch E self t pid).pidList = self.pidList := by
  unfold deserializeSwitch; split_ifs <;> rfl

theorem deserializeSwitch_program_number (E : StreamTypeCodes) (self : TS_program_map_section)
    (t pid : Nat) : (deserializeSwitch E self t pid).program_number = self.program_number := by
  unfold deserializeSwitch; split_ifs <;> rfl

theorem deserializeSwitch_pcr_pid (E : StreamTypeCodes) (self : TS_program_map_section)
    (t pid : Nat) : (deserializeSwitch E self t pid).pcr_pid = self.pcr_pid := by
  unfold deserializeSwitch; split_ifs <;> rfl

theorem extractPMTDescriptorsLoop_keeps (T : TSDescriptorTagCodes) (mem : List Nat) (end_ : Nat)
    (fuel : Nat) : ∀ (curPos : Nat) (self : TS_program_map_section),
      (extractPMTDescriptorsLoop T mem end_ fuel curPos self).pidList = self.pidList ∧
      (extractPMTDescriptorsLoop T mem end_ fuel curPos self).program_number = self.program_number ∧
      (extractPMTDescriptorsLoop T mem end_ fuel curPos self).pcr_pid = self.pcr_pid := by
  induction fuel with
  | zero => intro curPos self; simp [extractPMTDescriptorsLoop]
  | succ f ih =>
      intro curPos self
      rw [extractPMTDescriptorsLoop]
      split
      · dsimp only
        split
        · obtain ⟨h1, h2, h3⟩ := ih (curPos + 2 + mem.getD (curPos + 1) 0)
            { self with
              casID := (mem.getD (curPos + 2) 0 <<< 8) + mem.getD (curPos + 2 + 1) 0
              casPID := ((mem.getD (curPos + 2 + 2) 0 &&& 0x0f) <<< 8) + mem.getD (curPos + 2 + 3) 0 }
          exact ⟨h1, h2, h3⟩
        · exact ih _ _
      · exact ⟨rfl, rfl, rfl⟩

theorem serializeBits_length_mod (E : StreamTypeCodes) (T : TSDescriptorTagCodes)
    (self : TS_program_map_section) (bm h : Bool) :
    (serializeBits E T self bm h).length = 96 + (bodyBits E T self bm h).length := by
  rw [pmt_serializeBits_eq]
  simp only [List.length_append, natBits_length]
  omega

theorem serialize_buffer_bits (crc : List Nat → Nat) (E : StreamTypeCodes) (T : TSDescriptorTagCodes)
    (self : TS_program_map_section) (bm h : Bool) :
    (serialize crc E T self bm h).1 = bitsToBytes (natBits 8 0 ++ (serializeBits E T self bm h ++
        natBits 32 (crc (bitsToBytes (serializeBits E T self bm h))))) ∧
    (serialize crc E T self bm h).2 = (serializeBits E T self bm h).length / 8 + 5 := by
  have hl := serializeBits_length_mod E T self bm h
  have hb8 := bodyBits_length_mod E T self bm h
  have hb := bitsToBytes_length (serializeBits E T self bm h) (by omega)
  refine ⟨?_, rfl⟩
  simp only [serialize, BitStreamWriter.bytes, BitStreamWriter.getBitsCount, storeAt]
  rw [bitsToBytes_natBits8, bitsToBytes_append _ _ (by omega), ← be32_eq, ← hb]
  simp

theorem streamsBits_length_ge (T : TSDescriptorTagCodes) (bm : Bool)
    (l : List (Nat × PMTStreamInfo)) :
    40 * l.length ≤ (l.flatMap (fun e => streamBits T bm e.2)).length := by
  induction l with
  | nil => simp
  | cons e t ih =>
      have hl := streamBits_length T bm e.2
      simp only [List.flatMap_cons, List.length_append, List.length_cons]
      omega

end TS_program_map_section

theorem natBits_4_12_bytes (hi lo : Nat) (rest : List Bool) (hlo : lo < 4096) (hhi : hi < 16) :
    bitsToBytes (natBits 4 hi ++ (natBits 12 lo ++ rest))
      = (hi * 16 + lo / 256) :: (lo % 256) :: bitsToBytes rest := by
  rw [← List.append_assoc, natBits_append_natBits, bitsToBytes_natBits16]
  congr 1
  · omega
  · congr 1
    omega

namespace TS_program_association_section

theorem pat_sectionLengthField (crc : List Nat → Nat) (pat : TS_program_association_section) :
    sectionLengthField (serialize crc pat).1 = (9 + pat.pmtPids.length * 4) % 2 ^ 32 % 2 ^ 12 := by
  rw [serialize_buffer]
  generalize crc (bitsToBytes (serializeBits pat)) = c
  rw [pat_serializeBits_eq, bitsToBytes_natBits8, ← List.append_assoc (natBits 2 2),
    natBits_append_natBits]
  have h := natBits_4_12_bytes (2 % 2 ^ 2 * 2 ^ 2 + 3 % 2 ^ 2)
    ((9 + pat.pmtPids.length * 4) % 2 ^ 32 % 2 ^ 12)
    (natBits 16 pat.transport_stream_id ++ (natBits 2 3 ++ (natBits 5 0 ++ (natBits 1 1 ++
      (natBits 16 0 ++ entriesBits pat.pmtPids))))) (Nat.mod_lt _ (by norm_num)) (by norm_num)
  rw [natBits_mod] at h
  rw [show (2 + 2 : Nat) = 4 from rfl, h]
  simp only [sectionLengthField, List.cons_append, List.getD_cons_succ, List.getD_cons_zero]
  omega

end TS_program_association_section

namespace TS_program_map_section

theorem pmt_sectionLengthField (crc : List Nat → Nat) (E : StreamTypeCodes)
    (T : TSDescriptorTagCodes) (pmt : TS_program_map_section) (bm hd : Bool) :
    sectionLengthField (serialize crc E T pmt bm hd).1
      = ((serialize crc E T pmt bm hd).2 - 4) % 2 ^ 12 := by
  obtain ⟨hbuf, hn⟩ := serialize_buffer_bits crc E T pmt bm hd
  have hWl := serializeBits_length_mod E T pmt bm hd
  have hb8 := bodyBits_length_mod E T pmt bm hd
  rw [hn, hWl, hbuf]
  generalize crc (bitsToBytes (serializeBits E T pmt bm hd)) = c
  rw [pmt_serializeBits_eq]
  rw [bitsToBytes_natBits8, List.append_assoc, bitsToBytes_natBits8, List.append_assoc,
    bitsToBytes_natBits16]
  simp only [sectionLengthField, List.getD_cons_succ, List.getD_cons_zero]
  omega

theorem shortcutBits_eq_entries (E : StreamTypeCodes) (self : TS_program_map_section) :
    shortcutBits E self =
      ((if self.video_pid ≠ 0 then [((self.video_type % 2 ^ 32).toNat, self.video_pid, [])] else []) ++
      ((if self.audio_pid ≠ 0 then [((self.audio_type % 2 ^ 32).toNat, self.audio_pid, [])] else []) ++
      (if self.sub_pid ≠ 0 then [(E.SUB_DVB % 256, self.sub_pid, ([] : List Bool))] else []))).flatMap
        esEntryBits := by
  unfold shortcutBits
  split <;> split <;> split <;> simp [esEntryBits]

theorem streamBits_eq_entry (T : TSDescriptorTagCodes) (bm : Bool) (si : PMTStreamInfo)
    (h : si.m_esInfoLen + 6 < 4096) :
    streamBits T bm si = esEntryBits (si.m_streamType, si.m_pid, descBits T bm si) := by
  have hl : (descBits T bm si).length / 8 < 4096 := by
    simp only [descBits, List.length_append, dataBits_length, langBits_length]
    split <;> omega
  have := natBits16_split 15 ((descBits T bm si).length / 8) (by norm_num) hl
  simp only [streamBits, esEntryBits]
  rw [show (0xf000 : Nat) = 15 * 4096 from rfl, this]
  simp only [List.append_assoc]

theorem streamsBits_eq_entries (T : TSDescriptorTagCodes) (bm : Bool)
    (l : List (Nat × PMTStreamInfo)) (h : ∀ e ∈ l, e.2.m_esInfoLen + 6 < 4096) :
    l.flatMap (fun e => streamBits T bm e.2)
      = (l.map (fun e => (e.2.m_streamType, e.2.m_pid, descBits T bm e.2))).flatMap esEntryBits := by
  induction l with
  | nil => rfl
  | cons e t ih =>
      simp only [List.flatMap_cons, List.map_cons]
      rw [ih (fun x hx => h x (List.mem_cons_of_mem _ hx)),
        streamBits_eq_entry _ _ _ (h e (List.mem_cons_self _ _))]

end TS_program_map_section

namespace CLPIStreamInfo

open BitStreamWriter

theorem writeString3 (str : List Nat) (w : BitStreamWriter) :
    writeString str w 3 = w ++ str3Bits str := by
  simp [writeString, List.range_succ, putBits, str3Bits]

theorem composeISRC_eq (w : BitStreamWriter) : composeISRC w = w ++ isrcBits := by
  simp [composeISRC, writeString, List.range_succ, putBits, isrcBits, List.replicate]

theorem isrcBits_length : isrcBits.length = 96 := by decide

theorem str3Bits_length (str : List Nat) : (str3Bits str).length = 24 := by
  simp [str3Bits]

theorem sciBody_length (E : StreamTypeCodes) (si : CLPIStreamInfo) :
    (sciBody E si).length =
      if isVideoStreamType E si.stream_coding_type = true ∨
          isAudioStreamType E si.stream_coding_type = true ∨
          si.stream_coding_type = E.SUB_PGS ∨ si.stream_coding_type = E.SUB_IGS ∨
          si.stream_coding_type = E.SUB_TGS then 168 else 8 := by
  unfold sciBody
  split_ifs <;> simp_all [isrcBits_length, str3Bits_length]

theorem composeStreamCodingInfo_eq (E : StreamTypeCodes) (si : CLPIStreamInfo)
    (w : BitStreamWriter) (hw : w.length % 8 = 0) :
    composeStreamCodingInfo E si w
      = w ++ (natBits 8 ((sciBody E si).length / 8) ++ sciBody E si) := by
  have key : ∀ B : List Bool,
      store (w ++ (natBits 8 0 ++ B)) (w.length / 8) 1
        (((w ++ (natBits 8 0 ++ B)).length / 8 - (w ++ natBits 8 0).length / 8) % 2 ^ 8)
      = w ++ (natBits 8 (B.length / 8) ++ B) := by
    intro B
    rw [store_eq _ w (natBits 8 0) B _ 1 _ rfl (by omega) (by simp)]
    simp only [List.length_append, natBits_length, Nat.mul_one]
    have : (w.length + (8 + B.length)) / 8 - (w.length + 8) / 8 = B.length / 8 := by omega
    rw [this, natBits_mod]
  rw [← key]
  unfold composeStreamCodingInfo sciBody
  simp only [getBitsCount, putBits, putBit, List.append_assoc, composeISRC_eq, writeString3]
  split_ifs <;> simp only [List.append_assoc, List.append_nil]

theorem readString_str3Bits (str : List Nat) (rest : List Bool) (c : Nat) :
    readString 3 ⟨str3Bits str ++ rest, c⟩
      = .ok ([str.getD 0 0 % 256, str.getD 1 0 % 256, str.getD 2 0 % 256], ⟨rest, c + 24⟩) := by
  simp only [readString, str3Bits, List.append_assoc, BitStreamReader.getBits_natBits,
    Except.ok_bind', bind_pure_comp, Functor.map, Except.map, Nat.add_assoc]
  rfl

theorem ISRC_isrcBits (self : CLPIStreamInfo) (rest : List Bool) (c : Nat) :
    ISRC self ⟨isrcBits ++ rest, c⟩
      = .ok ({ self with
          country_code := [0x30, 0x30], copyright_holder := [0x30, 0x30, 0x30],
          recording_year := [0x30, 0x30],
          recording_number := [0x30, 0x30, 0x30, 0x30, 0x30] }, ⟨rest, c + 96⟩) := by
  simp only [ISRC, readString, isrcBits, List.replicate, List.flatMap_cons, List.flatMap_nil,
    List.append_assoc, List.nil_append, List.append_nil, BitStreamReader.getBits_natBits,
    Except.ok_bind', bind_pure_comp, Functor.map, Except.map, Nat.add_assoc]
  rfl

theorem parseStreamCodingInfo_sciBody (E : StreamTypeCodes) (self0 si : CLPIStreamInfo)
    (L : Nat) (rest : List Bool) (c : Nat) (ht : si.stream_coding_type < 256) :
    parseStreamCodingInfo E self0 ⟨natBits 8 L ++ (sciBody E si ++ rest), c⟩
      = .ok (parsedInfo E self0 si, ⟨rest, c + (8 + (sciBody E si).length)⟩) := by
  by_cases h1 : isVideoStreamType E si.stream_coding_type = true
  · simp only [parseStreamCodingInfo, sciBody, parsedInfo, h1, if_true, List.append_assoc,
      BitStreamReader.getBits_natBits, BitStreamReader.skipBits_natBits,
      BitStreamReader.skipBits_zero, Except.ok_bind', ISRC_isrcBits, le_refl, Nat.sub_self,
      Nat.reduceLeDiff, Nat.reduceSub, Nat.reducePow, pure, Except.pure, List.length_append,
      natBits_length, isrcBits_length, Nat.mod_eq_of_lt ht]
  by_cases h2 : isAudioStreamType E si.stream_coding_type = true
  · simp only [parseStreamCodingInfo, sciBody, parsedInfo, h1, h2, if_true, if_false,
      Bool.false_eq_true,
      List.append_assoc, BitStreamReader.getBits_natBits, BitStreamReader.skipBits_natBits,
      BitStreamReader.skipBits_zero, Except.ok_bind', ISRC_isrcBits, readString_str3Bits,
      le_refl, Nat.sub_self,
      Nat.reduceLeDiff, Nat.reduceSub, Nat.reducePow, pure, Except.pure, List.length_append,
      natBits_length, isrcBits_length, str3Bits_length, Nat.mod_eq_of_lt ht]
  by_cases h3 : si.stream_coding_type = E.SUB_PGS ∨ si.stream_coding_type = E.SUB_IGS
  · simp only [parseStreamCodingInfo, sciBody, parsedInfo, h1, h2, h3, if_true, if_false,
      Bool.false_eq_true,
      List.append_assoc, BitStreamReader.getBits_natBits, BitStreamReader.skipBits_natBits,
      BitStreamReader.skipBits_zero, Except.ok_bind', ISRC_isrcBits, readString_str3Bits,
      le_refl, Nat.sub_self,
      Nat.reduceLeDiff, Nat.reduceSub, Nat.reducePow, pure, Except.pure, List.length_append,
      natBits_length, isrcBits_length, str3Bits_length, Nat.mod_eq_of_lt ht]
  by_cases h4 : si.stream_coding_type = E.SUB_TGS
  · rw [h4] at h1 h2 h3 ht
    simp only [parseStreamCodingInfo, sciBody, parsedInfo, h1, h2, h3, h4, if_true, if_false,
      Bool.false_eq_true,
      List.append_assoc, BitStreamReader.getBits_natBits, BitStreamReader.skipBits_natBits,
      BitStreamReader.skipBits_zero, Except.ok_bind', ISRC_isrcBits, readString_str3Bits,
      le_refl, Nat.sub_self,
      Nat.reduceLeDiff, Nat.reduceSub, Nat.reducePow, pure, Except.pure, List.length_append,
      natBits_length, isrcBits_length, str3Bits_length, Nat.mod_eq_of_lt ht]
  · simp only [parseStreamCodingInfo, sciBody, parsedInfo, h1, h2, h3, h4, if_true, if_false,
      Bool.false_eq_true,
      List.append_assoc, BitStreamReader.getBits_natBits, BitStreamReader.skipBits_natBits,
      BitStreamReader.skipBits_zero, Except.ok_bind', le_refl, Nat.sub_self,
      pure, Except.pure, List.length_append, List.nil_append, List.append_nil,
      natBits_length, Nat.reducePow, Nat.mod_eq_of_lt ht, List.length_nil, Nat.add_zero]

end CLPIStreamInfo

set_option autoImplicit false

namespace CLPIParser

open BitStreamWriter CLPIStreamInfo

theorem sciBody_length_mod (E : StreamTypeCodes) (si : CLPIStreamInfo) :
    (sciBody E si).length % 8 = 0 := by
  rw [sciBody_length]; split <;> rfl

theorem streamEntryBits_length_mod (E : StreamTypeCodes) (e : Nat × CLPIStreamInfo) :
    (streamEntryBits E e).length % 8 = 0 := by
  have := sciBody_length_mod E e.2
  simp only [streamEntryBits, List.length_append, natBits_length]
  omega

theorem flatMap_streamEntryBits_length_mod (E : StreamTypeCodes) (l : List (Nat × CLPIStreamInfo)) :
    (l.flatMap (streamEntryBits E)).length % 8 = 0 := by
  induction l with
  | nil => rfl
  | cons e t ih =>
      have := streamEntryBits_length_mod E e
      simp only [List.flatMap_cons, List.length_append]
      omega

theorem foldl_count (E : StreamTypeCodes) (b : Bool) (l : List (Nat × CLPIStreamInfo)) (n : Nat) :
    l.foldl (fun streams e => if streamOK E b e.2 = true then streams + 1 else streams) n
      = n + (selectedStreams E b l).length := by
  induction l generalizing n with
  | nil => rfl
  | cons e t ih =>
      simp only [List.foldl_cons, selectedStreams, List.filter_cons]
      by_cases h : streamOK E b e.2 = true
      · simp only [h, if_true, List.length_cons]
        rw [ih]; simp only [selectedStreams]; omega
      · simp only [h, if_false]
        rw [ih]; simp only [selectedStreams]
        simp

theorem foldl_streams (E : StreamTypeCodes) (b : Bool) (l : List (Nat × CLPIStreamInfo))
    (w : BitStreamWriter) (hw : w.length % 8 = 0) :
    l.foldl (fun writer e => if (!streamOK E b e.2) = true then writer
        else composeStreamCodingInfo E e.2 (putBits writer 16 e.1)) w
      = w ++ (selectedStreams E b l).flatMap (streamEntryBits E) := by
  induction l generalizing w with
  | nil => simp [selectedStreams]
  | cons e t ih =>
      simp only [List.foldl_cons, selectedStreams, List.filter_cons]
      by_cases h : streamOK E b e.2 = true
      · simp only [h, Bool.not_true, Bool.false_eq_true, if_false, if_true, List.flatMap_cons]
        have h16 : (putBits w 16 e.1).length % 8 = 0 := by
          simp only [putBits, List.length_append, natBits_length]; omega
        rw [composeStreamCodingInfo_eq E e.2 _ h16]
        have hl : (w ++ (natBits 16 e.1 ++ (natBits 8 ((sciBody E e.2).length / 8)
            ++ sciBody E e.2))).length % 8 = 0 := by
          have := sciBody_length_mod E e.2
          simp only [List.length_append, natBits_length]; omega
        have := ih (w ++ (natBits 16 e.1 ++ (natBits 8 ((sciBody E e.2).length / 8)
            ++ sciBody E e.2))) hl
        simp only [putBits, List.append_assoc, selectedStreams] at this ⊢
        rw [this]
        simp only [streamEntryBits, List.append_assoc]
      · have h' : streamOK E b e.2 = false := by simpa using h
        simp only [h', Bool.not_false, if_true, Bool.false_eq_true, if_false]
        exact ih w hw

theorem programInfoBits_length_mod (E : StreamTypeCodes) (K : MuxConstants) (self : CLPIParser)
    (b : Bool) : (programInfoBits E K self b).length % 8 = 0 := by
  have := flatMap_streamEntryBits_length_mod E (selectedStreams E b self.m_streamInfo)
  simp only [programInfoBits, List.length_append, natBits_length]
  omega

theorem programInfoPad_length_mod (E : StreamTypeCodes) (K : MuxConstants) (self : CLPIParser)
    (b : Bool) (n : Nat) : (programInfoPad E K self b n).length % 8 = 0 := by
  unfold programInfoPad; split <;> simp [natBits_length]

theorem composeProgramInfo_eq (E : StreamTypeCodes) (K : MuxConstants) (self : CLPIParser)
    (w : BitStreamWriter) (b : Bool) (hw : w.length % 8 = 0) :
    composeProgramInfo E K self w b
      = w ++ (natBits 32 (((programInfoBits E K self b).length
            + (programInfoPad E K self b w.length).length) / 8)
          ++ (programInfoBits E K self b ++ programInfoPad E K self b w.length)) := by
  unfold composeProgramInfo
  dsimp only
  rw [foldl_count, Nat.zero_add]
  have hw2 : (putBits (putBits (putBits (putBits (putBits (putBits (putBits w 32 0) 8 0) 8 1) 32 0) 16
      K.DEFAULT_PMT_PID) 8 (selectedStreams E b self.m_streamInfo).length) 8 0).length % 8 = 0 := by
    simp only [putBits, List.length_append, natBits_length]; omega
  rw [foldl_streams E b _ _ hw2]
  have hbody : putBits (putBits (putBits (putBits (putBits (putBits (putBits w 32 0) 8 0) 8 1) 32 0) 16
      K.DEFAULT_PMT_PID) 8 (selectedStreams E b self.m_streamInfo).length) 8 0
      ++ (selectedStreams E b self.m_streamInfo).flatMap (streamEntryBits E)
      = w ++ (natBits 32 0 ++ programInfoBits E K self b) := by
    simp only [putBits, programInfoBits, List.append_assoc]
  rw [hbody]
  have hlen : getBitsCount (w ++ (natBits 32 0 ++ programInfoBits E K self b))
      = w.length + (32 + (programInfoBits E K self b).length) := by
    simp only [getBitsCount, List.length_append, natBits_length]
  have hfin : (if b = true ∧ getBitsCount (w ++ (natBits 32 0 ++ programInfoBits E K self b)) % 32 ≠ 0
      then putBits (w ++ (natBits 32 0 ++ programInfoBits E K self b)) 16 0
      else w ++ (natBits 32 0 ++ programInfoBits E K self b))
      = w ++ (natBits 32 0 ++ (programInfoBits E K self b ++ programInfoPad E K self b w.length)) := by
    rw [hlen]
    unfold programInfoPad
    split
    · simp only [putBits, List.append_assoc]
    · simp only [List.append_nil]
  rw [hfin]
  have hp := programInfoBits_length_mod E K self b
  have hq := programInfoPad_length_mod E K self b w.length
  have hpl : (programInfoPad E K self b w.length).length ≤ 16 := by
    unfold programInfoPad; split <;> simp [natBits_length]
  simp only [getBitsCount]
  rw [store_eq _ w (natBits 32 0) _ (w.length / 8) 4 _ rfl (by omega) (by simp [natBits_length])]
  congr 2
  apply natBits_congr
  simp only [putBits, List.length_append, natBits_length]
  rw [Nat.mod_mod]
  congr 1
  omega

open BitStreamWriter CLPIStreamInfo

theorem selectedStreams_ordered (E : StreamTypeCodes) (b : Bool) (l : List (Nat × CLPIStreamInfo))
    (h : StdMap.Ordered l) : StdMap.Ordered (selectedStreams E b l) := by
  unfold StdMap.Ordered at h ⊢
  rw [List.pairwise_map] at h ⊢
  exact h.sublist (List.filter_sublist _)

theorem parseProgramInfoStreams_entries (E : StreamTypeCodes) (fresh : CLPIStreamInfo)
    (l : List (Nat × CLPIStreamInfo)) :
    ∀ (m : List (Nat × CLPIStreamInfo)) (rest : List Bool) (c : Nat),
      StdMap.Ordered (m ++ l) →
      (∀ e ∈ l, e.1 < 2 ^ 16 ∧ e.2.stream_coding_type < 256) →
      parseProgramInfoStreams E fresh l.length ⟨l.flatMap (streamEntryBits E) ++ rest, c⟩ m
        = .ok (⟨rest, c + (l.flatMap (streamEntryBits E)).length⟩,
            m ++ l.map (fun e => (e.1, parsedInfo E fresh e.2))) := by
  induction l with
  | nil =>
      intro m rest c _ _
      simp [parseProgramInfoStreams]
  | cons e t ih =>
      intro m rest c hord hr
      obtain ⟨h16, ht⟩ := hr e (List.mem_cons_self _ _)
      have hk : ∀ x ∈ m, x.1 < e.1 := by
        intro x hx
        have := hord
        simp only [StdMap.Ordered, List.map_append, List.map_cons, List.pairwise_append] at this
        exact this.2.2 x.1 (List.mem_map_of_mem _ hx) e.1 (List.mem_cons_self _ _)
      have hord' : StdMap.Ordered ((m ++ [(e.1, parsedInfo E fresh e.2)]) ++ t) := by
        simpa [StdMap.Ordered] using hord
      have ih' := ih (m ++ [(e.1, parsedInfo E fresh e.2)]) rest
        (c + (streamEntryBits E e).length) hord'
        (fun x hx => hr x (List.mem_cons_of_mem _ hx))
      simp only [List.length_cons, parseProgramInfoStreams, List.flatMap_cons, streamEntryBits,
        List.append_assoc, BitStreamReader.getBits_natBits, Except.ok_bind', bind_pure_comp,
        Nat.mod_eq_of_lt h16]
      rw [parseStreamCodingInfo_sciBody E fresh e.2 _ _ _ ht]
      simp only [Except.ok_bind']
      rw [StdMap.insert_last _ _ _ hk]
      simp only [streamEntryBits, List.length_append, natBits_length, List.append_assoc] at ih'
      rw [show c + 16 + (8 + (sciBody E e.2).length) = c + (16 + (8 + (sciBody E e.2).length))
        by omega, ih']
      simp only [List.map_cons, List.append_assoc, List.singleton_append, List.length_append,
        natBits_length, Nat.add_assoc]

open BitStreamWriter CLPIStreamInfo

theorem parseProgramInfo_header (E : StreamTypeCodes) (K : MuxConstants) (fresh : CLPIStreamInfo)
    (self : CLPIParser) (b : Bool) (L : Nat) (pad : List Bool) (rest : List Nat)
    (hpad : pad.length % 8 = 0) :
    parseProgramInfo E fresh
        (bitsToBytes (natBits 32 L ++ (programInfoBits E K self b ++ pad)) ++ rest) [] []
      = (parseProgramInfoStreams E fresh ((selectedStreams E b self.m_streamInfo).length % 2 ^ 8)
          ⟨(selectedStreams E b self.m_streamInfo).flatMap (streamEntryBits E)
            ++ (pad ++ bytesToBits rest), 112⟩ []).map
          (fun r => ([⟨0, K.DEFAULT_PMT_PID % 2 ^ 16,
            (selectedStreams E b self.m_streamInfo).length % 2 ^ 8⟩], r.2)) := by
  have hp := programInfoBits_length_mod E K self b
  have hl : (natBits 32 L ++ (programInfoBits E K self b ++ pad)).length % 8 = 0 := by
    simp only [List.length_append, natBits_length]; omega
  unfold parseProgramInfo
  simp only [BitStreamReader.setBuffer]
  rw [bytesToBits_append, bytesToBits_bitsToBytes _ hl]
  simp only [programInfoBits, List.append_assoc, BitStreamReader.skipBits_natBits, le_refl,
    Nat.sub_self, BitStreamReader.skipBits_zero, BitStreamReader.getBits_natBits,
    Except.ok_bind', bind_pure_comp, parseProgramInfoSequences, List.nil_append, Nat.zero_add]
  simp only [List.modify, List.modifyTailIdx, List.modifyHead, List.getD,
    List.getElem?_cons_zero, Option.getD_some, Nat.zero_mod]
  simp only [List.get?, Option.getD_some, Nat.reduceAdd]
  generalize parseProgramInfoStreams E fresh _ _ _ = r
  cases r with
  | error e => rfl
  | ok a => rfl

end CLPIParser

namespace CLPIStreamInfo

theorem parsedInfo_sameCoding (E : StreamTypeCodes) (self0 si : CLPIStreamInfo)
    (h : FieldsInRange si) : SameCoding E si (parsedInfo E self0 si) := by
  obtain ⟨_, hvf, hfr, har, hap, hsf, hcc, hll, hlc⟩ := h
  have hlang' : [si.language_code.getD 0 0 % 256, si.language_code.getD 1 0 % 256,
      si.language_code.getD 2 0 % 256] = si.language_code := by
    match hl : si.language_code, hll, hlc with
    | [a, b, c], _, hlc =>
      have ha := hlc a (by simp)
      have hb := hlc b (by simp)
      have hc := hlc c (by simp)
      simp [Nat.mod_eq_of_lt ha, Nat.mod_eq_of_lt hb, Nat.mod_eq_of_lt hc]
  refine ⟨?_, ?_, ?_, ?_, ?_⟩
  · unfold parsedInfo; split_ifs <;> rfl
  · intro h1
    simp only [parsedInfo, h1, if_true, Nat.mod_eq_of_lt hvf, Nat.mod_eq_of_lt hfr,
      Nat.mod_eq_of_lt har, and_self]
  · intro h1 h2
    simp only [parsedInfo, h1, h2, if_true, if_false, Bool.false_eq_true, Nat.mod_eq_of_lt hap,
      Nat.mod_eq_of_lt hsf, hlang', and_self]
  · intro h1 h2 h3
    simp only [parsedInfo, h1, h2, h3, if_true, if_false, Bool.false_eq_true, hlang']
  · intro h1 h2 h3 h4 h5
    have h34 : ¬ (si.stream_coding_type = E.SUB_PGS ∨ si.stream_coding_type = E.SUB_IGS) := by
      rintro (h | h)
      · exact h3 h
      · exact h4 h
    simp only [parsedInfo, h1, h2, h34, if_true, if_false, Bool.false_eq_true, hlang',
      Nat.mod_eq_of_lt hcc, and_self]
    simp only [← h5, if_true, and_self]

end CLPIStreamInfo

namespace CLPIParser
open BitStreamWriter CLPIStreamInfo

theorem streamEntryBits_eq (E : StreamTypeCodes) (e : Nat × CLPIStreamInfo) :
    streamEntryBits E e = natBits 16 e.1 ++ composeStreamCodingInfo E e.2 [] := by
  rw [composeStreamCodingInfo_eq E e.2 [] rfl]
  rfl

theorem streamOK_iff (E : StreamTypeCodes) (b : Bool) (si : CLPIStreamInfo) :
    streamOK E b si = true ↔ (si.stream_coding_type = E.VIDEO_MVC ↔ b = true) := by
  cases b <;> simp [streamOK]

theorem parseProgramInfo_composeProgramInfo (E : StreamTypeCodes) (K : MuxConstants)
    (self : CLPIParser) (fresh : CLPIStreamInfo) (w : BitStreamWriter) (b : Bool)
    (rest : List Nat) (hw : w.length % 8 = 0) (hord : StdMap.Ordered self.m_streamInfo)
    (hr : ∀ e ∈ self.m_streamInfo, e.1 < 2 ^ 16 ∧ e.2.stream_coding_type < 256)
    (hn : (selectedStreams E b self.m_streamInfo).length ≤ 255) :
    parseProgramInfo E fresh
        (bitsToBytes ((composeProgramInfo E K self w b).drop w.length) ++ rest) [] []
      = .ok ([⟨0, K.DEFAULT_PMT_PID % 2 ^ 16, (selectedStreams E b self.m_streamInfo).length⟩],
          (selectedStreams E b self.m_streamInfo).map
            (fun e => (e.1, parsedInfo E fresh e.2))) := by
  have h1 : StdMap.Ordered ([] ++ selectedStreams E b self.m_streamInfo) := by
    simpa using selectedStreams_ordered E b _ hord
  have h2 : ∀ e ∈ selectedStreams E b self.m_streamInfo,
      e.1 < 2 ^ 16 ∧ e.2.stream_coding_type < 256 :=
    fun e he => hr e (List.mem_of_mem_filter he)
  rw [composeProgramInfo_eq E K self w b hw, List.drop_left,
    parseProgramInfo_header E K fresh self b _ _ rest (programInfoPad_length_mod E K self b _),
    Nat.mod_eq_of_lt (by omega : (selectedStreams E b self.m_streamInfo).length < 2 ^ 8),
    parseProgramInfoStreams_entries E fresh (selectedStreams E b self.m_streamInfo) [] _ _ h1 h2]
  rfl

end CLPIParser

set_option autoImplicit false

namespace CLPIParser

open BitStreamWriter CLPIStreamInfo

theorem manyStreams_selected (n : Nat) :
    selectedStreams StreamTypeCodes.standard false (manyStreams n).m_streamInfo
      = (manyStreams n).m_streamInfo := by
  simp only [selectedStreams, manyStreams, withStreams, List.filter_eq_self, List.mem_map,
    List.mem_range]
  rintro e ⟨i, _, rfl⟩
  have : streamOK StreamTypeCodes.standard false sampleAudio = true := by decide
  exact this

theorem manyStreams_length (n : Nat) : (manyStreams n).m_streamInfo.length = n := by
  simp [manyStreams, withStreams]

theorem manyStreams_ordered (n : Nat) : StdMap.Ordered (manyStreams n).m_streamInfo := by
  simp only [StdMap.Ordered, manyStreams, withStreams, List.map_map]
  have : (Prod.fst ∘ fun i => (i, sampleAudio)) = (id : Nat → Nat) := rfl
  rw [this, List.map_id]
  exact List.pairwise_lt_range n

theorem manyStreams_mem (n : Nat) (e : Nat × CLPIStreamInfo)
    (he : e ∈ (manyStreams n).m_streamInfo) : e.1 < n ∧ e.2 = sampleAudio := by
  simp only [manyStreams, withStreams, List.mem_map, List.mem_range] at he
  obtain ⟨i, hi, rfl⟩ := he
  exact ⟨hi, rfl⟩

theorem parseProgramInfo_manyStreams (K : MuxConstants) (fresh : CLPIStreamInfo) (n : Nat)
    (hn : n = 256) :
    parseProgramInfo StreamTypeCodes.standard fresh
        (bitsToBytes ((composeProgramInfo StreamTypeCodes.standard K (manyStreams n) [] false).drop
          0) ++ []) [] []
      = .ok ([⟨0, K.DEFAULT_PMT_PID % 2 ^ 16, 0⟩], []) := by
  rw [composeProgramInfo_eq _ K _ [] false rfl, List.nil_append, List.drop_zero,
    parseProgramInfo_header _ K fresh _ false _ _ [] (programInfoPad_length_mod _ K _ false _),
    manyStreams_selected, manyStreams_length, hn]
  rfl

end CLPIParser

set_option autoImplicit false

namespace CLPIParser

theorem buildCoarseInfo_eq (self : CLPIParser) (si : CLPIStreamInfo) :
    buildCoarseInfo self si
      = if si.m_index.isEmpty then []
        else ((si.m_index.getD self.m_clpiNum []).foldl coarseStep ([], 0, 0, 0)).1 := rfl

theorem buildCoarseInfo_eq_foldl (self : CLPIParser) (si : CLPIStreamInfo) :
    buildCoarseInfo self si
      = ((si.m_index.getD self.m_clpiNum []).foldl coarseStep ([], 0, 0, 0)).1 := by
  rw [buildCoarseInfo_eq]
  split
  · rename_i h
    have : si.m_index = [] := by simpa using h
    rw [this]
    rfl
  · rfl

theorem foldl_coarseStep (l : PMTIndex) :
    ∀ st : List BluRayCoarseInfo × Nat × Nat × Nat,
      ∃ extra : List BluRayCoarseInfo,
        (l.foldl coarseStep st).1 = st.1 ++ extra ∧
        (extra.map (fun c => c.m_pktCnt)).Sublist (l.map (fun e => e.2.m_pktCnt)) ∧
        (l ≠ [] → st.1 = [] → extra ≠ []) := by
  induction l with
  | nil =>
      intro st
      exact ⟨[], by simp, by simp, by simp⟩
  | cons e t ih =>
      intro st
      obtain ⟨extra, h1, h2, _⟩ := ih (coarseStep st e)
      rw [List.foldl_cons, h1]
      by_cases hc : st.1.isEmpty ∨ (e.1 >>> 19) % 2 ^ 32 ≠ st.2.2.2 ∨
          st.2.2.1 &&& 0xfffe0000 ≠ e.2.m_pktCnt &&& 0xfffe0000
      · refine ⟨⟨(e.1 >>> 19) % 2 ^ 32, st.2.1, e.2.m_pktCnt⟩ :: extra, ?_, ?_, ?_⟩
        · simp only [coarseStep, if_pos hc, List.append_assoc, List.singleton_append]
        · simpa using h2
        · simp
      · refine ⟨extra, ?_, ?_, ?_⟩
        · simp only [coarseStep, if_neg hc]
        · simpa using h2.trans (List.sublist_cons_self _ _)
        · intro _ hst
          exact absurd (Or.inl (by simp [hst])) hc

end CLPIParser

set_option autoImplicit false

theorem natBits_zero_eq (n : Nat) : natBits n 0 = List.replicate n false := by
  induction n with
  | zero => rfl
  | succ n ih =>
      rw [natBits, ih, List.replicate_succ]
      simp

theorem zeroFields_length (n k : Nat) : (zeroFields n k).length = n * k := by
  unfold zeroFields
  induction n with
  | zero => simp
  | succ n ih =>
      rw [List.range_succ, List.flatMap_append, List.length_append, ih]
      simp [Nat.succ_mul]

theorem foldl_append_zero (n k : Nat) (w : List Bool) :
    (List.range n).foldl (fun writer _ => writer ++ natBits k 0) w = w ++ zeroFields n k :=
  foldl_append_flatMap (fun _ => natBits k 0) (List.range n) w

namespace CLPIStreamInfo

open BitStreamWriter

theorem writeString4 (str : List Nat) (w : BitStreamWriter) :
    writeString str w 4 = w ++ str4Bits str := by
  simp [writeString, List.range_succ, putBits, str4Bits]

theorem str4Bits_length (str : List Nat) : (str4Bits str).length = 32 := by
  simp [str4Bits]

end CLPIStreamInfo

namespace CLPIParser

open BitStreamWriter CLPIStreamInfo

theorem tsTypeInfoBits_length : tsTypeInfoBits.length = 256 := by
  simp [tsTypeInfoBits, str4Bits_length, zeroFields_length]

theorem clipInfoBits_length (self : CLPIParser) : (clipInfoBits self).length = 1440 := by
  simp [clipInfoBits, tsTypeInfoBits_length, zeroFields_length]

theorem sequenceInfoBits_length (K : MuxConstants) (self : CLPIParser) :
    (sequenceInfoBits K self).length = 208 := by
  simp [sequenceInfoBits]

theorem composeTS_type_info_block_eq (w : BitStreamWriter) (hw : w.length % 8 = 0) :
    composeTS_type_info_block w = w ++ tsTypeInfoBits := by
  unfold composeTS_type_info_block
  simp only [getBitsCount, putBits, writeString4, foldl_append_zero, List.append_assoc]
  rw [store_eq _ w (natBits 16 0) _ (w.length / 8) 2 _ rfl (by omega) (by simp)]
  simp only [tsTypeInfoBits, List.length_append, natBits_length, str4Bits_length,
    zeroFields_length]
  congr 2
  apply natBits_congr
  rw [Nat.mod_mod]
  congr 1
  omega

theorem composeClipInfo_eq (self : CLPIParser) (w : BitStreamWriter) (hw : w.length % 8 = 0) :
    composeClipInfo self w
      = if self.is_ATC_delta then .error (Exc.VodCoreException ErrMsg.atcDeltaNotImplemented)
        else if self.application_type = 6 then
          .error (Exc.VodCoreException ErrMsg.applicationType6NotImplemented)
        else .ok (w ++ clipInfoBits self) := by
  unfold composeClipInfo
  simp only [getBitsCount, putBits, putBit, foldl_append_zero, List.append_assoc]
  have h1 : (w ++ (natBits 32 0 ++ (natBits 16 0 ++ (natBits 8 self.clip_stream_type ++
      (natBits 8 self.application_type ++ (natBits 31 0 ++
      (natBits 1 (if self.is_ATC_delta then 1 else 0) ++ (natBits 32 self.TS_recording_rate ++
      (natBits 32 self.number_of_source_packets ++ zeroFields 32 32))))))))).length % 8 = 0 := by
    simp only [List.length_append, natBits_length, zeroFields_length]; omega
  rw [composeTS_type_info_block_eq _ h1]
  split
  · rfl
  split
  · rfl
  simp only [List.append_assoc]
  rw [store_eq _ w (natBits 32 0) _ (w.length / 8) 4 _ rfl (by omega) (by simp)]
  simp only [clipInfoBits, List.length_append, natBits_length, tsTypeInfoBits_length,
    zeroFields_length]
  congr 3
  · apply natBits_congr
    rw [Nat.mod_mod]
    congr 1
    omega
  · simp [*]

theorem composeSequenceInfo_eq (K : MuxConstants) (self : CLPIParser) (w : BitStreamWriter)
    (hw : w.length % 8 = 0) :
    composeSequenceInfo K self w = w ++ sequenceInfoBits K self := by
  unfold composeSequenceInfo
  simp only [getBitsCount, putBits, List.append_assoc]
  rw [store_eq _ w (natBits 32 0) _ (w.length / 8) 4 _ rfl (by omega) (by simp)]
  simp only [sequenceInfoBits, List.length_append, natBits_length]
  congr 2
  apply natBits_congr
  rw [Nat.mod_mod]
  congr 1
  omega

theorem alignPad_length (n : Nat) : (alignPad n).length = (32 - n % 32) % 32 := by
  simp [alignPad]

theorem alignLoop_eq (w : BitStreamWriter) (hw : w.length % 8 = 0) :
    alignLoop 3 w = .ok (w ++ alignPad w.length) := by
  have h8 : ∀ v : BitStreamWriter, getBitsCount (putBits v 8 0) = v.length + 8 := by
    intro v; simp [getBitsCount, putBits]
  have hp : ∀ v : BitStreamWriter, putBits v 8 0 = v ++ List.replicate 8 false := by
    intro v; rw [putBits, natBits_zero_eq]
  have hc : w.length % 32 = 0 ∨ w.length % 32 = 24 ∨ w.length % 32 = 16 ∨ w.length % 32 = 8 := by
    omega
  rcases hc with h | h | h | h
  · simp [alignLoop, getBitsCount, alignPad, h]
  · have h1 : (w.length + 8) % 32 = 0 := by omega
    simp [alignLoop, getBitsCount, alignPad, h, h8, h1, hp]
  · have h1 : ¬ (w.length + 8) % 32 = 0 := by omega
    have h2 : (w.length + 8 + 8) % 32 = 0 := by omega
    simp [alignLoop, getBitsCount, alignPad, h, h8, h1, h2, hp, ← List.replicate_add]
  · have h1 : ¬ (w.length + 8) % 32 = 0 := by omega
    have h2 : ¬ (w.length + 8 + 8) % 32 = 0 := by omega
    have h3 : (w.length + 8 + 8 + 8) % 32 = 0 := by omega
    simp [alignLoop, getBitsCount, alignPad, h, h8, h1, h2, h3, hp, ← List.replicate_add]

theorem alignPad_aligned (n : Nat) : (n + (alignPad n).length) % 32 = 0 := by
  rw [alignPad_length]; omega

theorem alignPad_of_aligned (n : Nat) (h : n % 32 = 0) : alignPad n = [] := by
  simp [alignPad, h]

end CLPIParser

set_option autoImplicit false

open BitStreamWriter

theorem Extends.refl (w : List Bool) : Extends w w := ⟨[], by simp, rfl⟩

theorem Extends.trans {a b c : List Bool} (h1 : Extends a b) (h2 : Extends b c) :
    Extends a c := by
  obtain ⟨X, rfl, hX⟩ := h1
  obtain ⟨Y, rfl, hY⟩ := h2
  exact ⟨X ++ Y, by simp, by simp only [List.length_append]; omega⟩

theorem Extends.append {w w' : List Bool} (h : Extends w w') (X : List Bool)
    (hX : X.length % 8 = 0) : Extends w (w' ++ X) :=
  h.trans ⟨X, rfl, hX⟩

theorem Extends.put {w w' : List Bool} (h : Extends w w') (n v : Nat) (hn : n % 8 = 0) :
    Extends w (BitStreamWriter.putBits w' n v) :=
  h.append _ (by simpa using hn)

theorem Extends.of_eq {w w' w'' : List Bool} (h : Extends w w') (X : List Bool)
    (e : w'' = w' ++ X) (hX : X.length % 8 = 0) :
    Extends w w'' ∧ w''.length = w'.length + X.length := by
  subst e
  exact ⟨h.append X hX, by simp⟩

theorem Extends.length_le {w w' : List Bool} (h : Extends w w') : w.length ≤ w'.length := by
  obtain ⟨X, rfl, _⟩ := h
  simp

theorem Extends.length_mod {w w' : List Bool} (h : Extends w w') (hw : w.length % 8 = 0) :
    w'.length % 8 = 0 := by
  obtain ⟨X, rfl, hX⟩ := h
  simp only [List.length_append]; omega

theorem Extends.backpatch {w w' : List Bool} (h : Extends w w') (pos k v : Nat)
    (h1 : w.length ≤ 8 * pos) (h2 : 8 * pos + 8 * k ≤ w'.length) :
    Extends w (BitStreamWriter.store w' pos k v) := by
  obtain ⟨X, rfl, hX⟩ := h
  rw [store_eq_storeB, storeB_peel_list _ _ _ _ _ h1]
  refine ⟨_, rfl, ?_⟩
  have hl : (storeB X (8 * pos - w.length) (8 * k) v).length = X.length := by
    simp only [List.length_append] at h2
    simp only [storeB, List.length_append, List.length_take, List.length_drop, natBits_length]
    omega
  rw [hl]; exact hX

theorem Extends.pad16 {w w' : List Bool} (h : Extends w w') :
    Extends w (if BitStreamWriter.getBitsCount w' % 16 ≠ 0 then BitStreamWriter.putBits w' 8 0
      else w') := by
  split
  · exact h.put 8 0 rfl
  · exact h

theorem foldl_inv {α β : Type} (P : β → Prop) (f : β → α → β) (l : List α) (b : β)
    (h0 : P b) (hstep : ∀ b a, a ∈ l → P b → P (f b a)) : P (l.foldl f b) := by
  induction l generalizing b with
  | nil => exact h0
  | cons x t ih =>
      exact ih (f b x) (hstep b x (List.mem_cons_self _ _) h0)
        (fun b a ha hb => hstep b a (List.mem_cons_of_mem _ ha) hb)

namespace CLPIParser

theorem composeEP_map_for_one_stream_PID_extends (self : CLPIParser) (w : BitStreamWriter)
    (si : CLPIStreamInfo) (hw : w.length % 8 = 0) :
    Extends w (composeEP_map_for_one_stream_PID self w si) ∧
      w.length + 32 ≤ (composeEP_map_for_one_stream_PID self w si).length := by
  unfold composeEP_map_for_one_stream_PID
  dsimp only
  have e1 : Extends w (putBits w 32 0) ∧ w.length + 32 ≤ (putBits w 32 0).length :=
    ⟨(Extends.refl w).put 32 0 rfl, by simp [putBits]⟩
  have e2 := foldl_inv (fun w' : BitStreamWriter => Extends w w' ∧ w.length + 32 ≤ w'.length)
    (fun writer (i : BluRayCoarseInfo) =>
      putBits (putBits (putBits writer 18 i.m_fineRefID) 14 i.m_coarsePts) 32 i.m_pktCnt)
    (buildCoarseInfo self si) (putBits w 32 0) e1
    (by
      intro b a _ hb
      dsimp only
      have := @Extends.of_eq w b
        (putBits (putBits (putBits b 18 a.m_fineRefID) 14 a.m_coarsePts) 32 a.m_pktCnt) hb.1
        (natBits 18 a.m_fineRefID ++ (natBits 14 a.m_coarsePts ++ natBits 32 a.m_pktCnt))
        (by simp [putBits]) (by simp)
      exact ⟨this.1, by have h1 := hb.2; have h2 := this.2; omega⟩)
  generalize List.foldl _ (putBits w 32 0) (buildCoarseInfo self si) = W2 at e2
  have e3 : Extends w (if getBitsCount W2 % 16 ≠ 0 then putBits W2 8 0 else W2) ∧
      w.length + 32 ≤ (if getBitsCount W2 % 16 ≠ 0 then putBits W2 8 0 else W2).length := by
    refine ⟨e2.1.pad16, ?_⟩
    have := e2.2
    split
    · simp only [putBits, List.length_append, natBits_length]; omega
    · exact this
  generalize (if getBitsCount W2 % 16 ≠ 0 then putBits W2 8 0 else W2) = W3 at e3
  have hpos : 8 * (getBitsCount w / 8) = w.length := by
    simp only [getBitsCount]; omega
  have e4 : Extends w (store W3 (getBitsCount w / 8) 4
        ((getBitsCount W3 / 8 - getBitsCount w / 8) % 2 ^ 32)) ∧
      w.length + 32 ≤ (store W3 (getBitsCount w / 8) 4
        ((getBitsCount W3 / 8 - getBitsCount w / 8) % 2 ^ 32)).length := by
    have hr : 8 * (getBitsCount w / 8) + 8 * 4 ≤ W3.length := by have := e3.2; omega
    refine ⟨e3.1.backpatch _ _ _ (by omega) hr, ?_⟩
    rw [store_length _ _ _ _ hr]
    exact e3.2
  generalize store W3 (getBitsCount w / 8) 4 _ = W4 at e4
  split
  · exact foldl_inv (fun w' : BitStreamWriter => Extends w w' ∧ w.length + 32 ≤ w'.length) _ _ _ e4
      (by
        intro b a _ hb
        have := @Extends.of_eq w b
          (putBits (putBits (putBits (putBit b 0) 3 (endCode self.is4K a.2.m_frameLen)) 11
            ((a.1 >>> 9) % (1 <<< 11))) 17 (a.2.m_pktCnt % (1 <<< 17))) hb.1
          (natBits 1 0 ++ (natBits 3 (endCode self.is4K a.2.m_frameLen) ++
            (natBits 11 ((a.1 >>> 9) % (1 <<< 11)) ++
              natBits 17 (a.2.m_pktCnt % (1 <<< 17)))))
          (by simp only [putBits, putBit, List.append_assoc]) (by simp)
        exact ⟨this.1, by have h1 := hb.2; have h2 := this.2; omega⟩)
  · exact e4

open BitStreamWriter

theorem composeEP_map_extends (E : StreamTypeCodes) (self : CLPIParser) (w w' : BitStreamWriter)
    (b : Bool) (hw : w.length % 8 = 0) (h : composeEP_map E self w b = .ok w') :
    Extends w w' ∧ w.length + 16 ≤ w'.length := by
  unfold composeEP_map at h
  dsimp only at h
  cases hs : selectEPStreams E self b with
  | none => rw [hs] at h; cases h
  | some r =>
    obtain ⟨processStream, EP_stream_type⟩ := r
    rw [hs] at h
    dsimp only at h
    injection h with h
    subst h
    have e1 := foldl_inv
      (fun st : BitStreamWriter × List Nat => Extends w st.1 ∧ w.length + 16 ≤ st.1.length ∧
        ∀ p ∈ st.2, w.length ≤ 8 * p ∧ 8 * p + 32 ≤ st.1.length)
      (fun (st : BitStreamWriter × List Nat) (i : CLPIStreamInfo) =>
        (putBits (if (!i.m_index.isEmpty) = true then
              putBits (putBits (putBits (putBits (putBits st.1 16 i.streamPID) 10 0) 4
                EP_stream_type) 16 (buildCoarseInfo self i).length) 18
                (i.m_index.getD self.m_clpiNum []).length
            else putBits (putBits (putBits (putBits (putBits st.1 16 i.streamPID) 10 0) 4
                EP_stream_type) 16 (buildCoarseInfo self i).length) 18 0) 32 0,
          st.2 ++ [getBitsCount (if (!i.m_index.isEmpty) = true then
              putBits (putBits (putBits (putBits (putBits st.1 16 i.streamPID) 10 0) 4
                EP_stream_type) 16 (buildCoarseInfo self i).length) 18
                (i.m_index.getD self.m_clpiNum []).length
            else putBits (putBits (putBits (putBits (putBits st.1 16 i.streamPID) 10 0) 4
                EP_stream_type) 16 (buildCoarseInfo self i).length) 18 0) / 8]))
      processStream (putBits (putBits w 8 0) 8 processStream.length, [])
      ⟨((Extends.refl w).put 8 0 rfl).put 8 _ rfl, by simp [putBits], by simp⟩
      (by
        intro st i _ hst
        obtain ⟨h1, h2, h3⟩ := hst
        have hm := h1.length_mod hw
        have key : ∀ x : Nat, ∃ W5 : List Bool,
            putBits (putBits (putBits (putBits (putBits st.1 16 i.streamPID) 10 0) 4
              EP_stream_type) 16 (buildCoarseInfo self i).length) 18 x = W5 ∧
            W5.length = st.1.length + 64 ∧ Extends w W5 := by
          intro x
          refine ⟨_, rfl, by simp [putBits], ?_⟩
          exact (h1.of_eq (natBits 16 i.streamPID ++ (natBits 10 0 ++ (natBits 4 EP_stream_type ++
            (natBits 16 (buildCoarseInfo self i).length ++ natBits 18 x))))
            (by simp only [putBits, List.append_assoc]) (by simp)).1
        have key2 : ∃ W5 : List Bool,
            (if (!i.m_index.isEmpty) = true then
              putBits (putBits (putBits (putBits (putBits st.1 16 i.streamPID) 10 0) 4
                EP_stream_type) 16 (buildCoarseInfo self i).length) 18
                (i.m_index.getD self.m_clpiNum []).length
            else putBits (putBits (putBits (putBits (putBits st.1 16 i.streamPID) 10 0) 4
                EP_stream_type) 16 (buildCoarseInfo self i).length) 18 0) = W5 ∧
            W5.length = st.1.length + 64 ∧ Extends w W5 := by
          split
          · exact key _
          · exact key _
        obtain ⟨W5, hW5, hl, hx⟩ := key2
        dsimp only
        rw [hW5]
        refine ⟨hx.put 32 0 rfl, by simp only [putBits, List.length_append, natBits_length]; omega,
          ?_⟩
        intro p hp
        simp only [putBits, List.length_append, natBits_length, getBitsCount]
        rcases List.mem_append.mp hp with hp | hp
        · have := h3 p hp
          omega
        · simp only [List.mem_singleton, getBitsCount] at hp
          subst hp
          have := h1.length_le
          omega)
    generalize List.foldl _ (putBits (putBits w 8 0) 8 processStream.length, []) processStream
      = st at e1 ⊢
    obtain ⟨h1, h2, h3⟩ := e1
    have e2 : Extends w (if getBitsCount st.1 % 16 ≠ 0 then putBits st.1 8 0 else st.1) ∧
        st.1.length ≤ (if getBitsCount st.1 % 16 ≠ 0 then putBits st.1 8 0 else st.1).length := by
      refine ⟨h1.pad16, ?_⟩
      split
      · simp [putBits]
      · exact le_refl _
    generalize (if getBitsCount st.1 % 16 ≠ 0 then putBits st.1 8 0 else st.1) = W2 at e2 ⊢
    have e3 := foldl_inv (fun W : BitStreamWriter => Extends w W ∧ W2.length ≤ W.length)
      (fun writer (i : CLPIStreamInfo × Nat) =>
        if getBitsCount (composeEP_map_for_one_stream_PID self
            (store writer i.2 4 ((getBitsCount writer / 8 - getBitsCount w / 8) % 2 ^ 32)) i.1)
            % 16 ≠ 0 then
          putBits (composeEP_map_for_one_stream_PID self
            (store writer i.2 4 ((getBitsCount writer / 8 - getBitsCount w / 8) % 2 ^ 32)) i.1) 8 0
        else composeEP_map_for_one_stream_PID self
            (store writer i.2 4 ((getBitsCount writer / 8 - getBitsCount w / 8) % 2 ^ 32)) i.1)
      (processStream.zip st.2) W2 ⟨e2.1, le_refl _⟩
      (by
        intro W i hi hW
        dsimp only
        have hp := h3 i.2 (List.of_mem_zip hi).2
        have hr : 8 * i.2 + 8 * 4 ≤ W.length := by have := hW.2; have := e2.2; omega
        have hS := hW.1.backpatch i.2 4 ((getBitsCount W / 8 - getBitsCount w / 8) % 2 ^ 32)
          hp.1 hr
        have hSl := store_length W i.2 4 ((getBitsCount W / 8 - getBitsCount w / 8) % 2 ^ 32) hr
        generalize store W i.2 4 _ = S at hS hSl ⊢
        have hO := composeEP_map_for_one_stream_PID_extends self S i.1 (hS.length_mod hw)
        generalize composeEP_map_for_one_stream_PID self S i.1 = O at hO ⊢
        refine ⟨(hS.trans hO.1).pad16, ?_⟩
        have := hW.2
        have := hO.2
        split
        · simp only [putBits, List.length_append, natBits_length]; omega
        · omega)
    refine ⟨e3.1, ?_⟩
    have := e3.2
    have := e2.2
    omega

open BitStreamWriter

theorem composeCPI_frame (E : StreamTypeCodes) (self : CLPIParser) (w w' : BitStreamWriter)
    (b : Bool) (hw : w.length % 8 = 0) (h : composeCPI E self w b = .ok w') :
    ∃ (v : Nat) (X : List Bool), w' = w ++ (natBits 32 v ++ X) ∧ X.length % 8 = 0 ∧
      (v % 2 ^ 32 = 0 ∨ 16 ≤ X.length) := by
  unfold composeCPI at h
  dsimp only at h
  split at h
  · injection h with h
    subst h
    exact ⟨0, [], by simp [putBits], rfl, Or.inl rfl⟩
  · cases hm : composeEP_map E self (putBits (putBits (putBits w 32 0) 12 0) 4 1) b with
    | error e => rw [hm] at h; cases h
    | ok W2 =>
      rw [hm] at h
      simp only [Except.ok_bind', bind_pure_comp, pure, Except.pure] at h
      injection h with h
      have hW1 : putBits (putBits (putBits w 32 0) 12 0) 4 1
          = w ++ (natBits 32 0 ++ (natBits 12 0 ++ natBits 4 1)) := by
        simp only [putBits, List.append_assoc]
      have hW1l : (putBits (putBits (putBits w 32 0) 12 0) 4 1).length % 8 = 0 := by
        rw [hW1]; simp only [List.length_append, natBits_length]; omega
      obtain ⟨⟨Y, hY, hYl⟩, hlen⟩ := composeEP_map_extends E self _ W2 b hW1l hm
      rw [hW1] at hY
      have hpad : ∃ P : List Bool, (if b = true ∧ getBitsCount W2 % 32 ≠ 0 then putBits W2 16 0
          else W2) = W2 ++ P ∧ P.length % 8 = 0 := by
        split
        · exact ⟨natBits 16 0, rfl, rfl⟩
        · exact ⟨[], by simp, rfl⟩
      obtain ⟨P, hP, hPl⟩ := hpad
      rw [hP, hY] at h
      simp only [List.append_assoc] at h
      rw [store_eq _ w (natBits 32 0) _ (getBitsCount w / 8) 4 _ rfl
        (by simp only [getBitsCount]; omega) (by simp)] at h
      subst h
      refine ⟨_, _, rfl, ?_, Or.inr ?_⟩
      · simp only [List.length_append, natBits_length]; omega
      · simp only [List.length_append, natBits_length]; omega

end CLPIParser

set_option autoImplicit false

namespace CLPIParser

open BitStreamWriter

open BitStreamWriter

theorem extentSumBits_length (s : Nat) (l : List Nat) :
    (extentSumBits s l).length = 32 * l.length := by
  induction l generalizing s with
  | nil => rfl
  | cons i t ih => simp only [extentSumBits, List.length_append, natBits_length, ih,
      List.length_cons]; omega

theorem foldl_extentSums (l : List Nat) (w : BitStreamWriter) (s : Nat) :
    (l.foldl (fun (st : BitStreamWriter × Nat) i =>
        (putBits st.1 32 ((st.2 + i) % 2 ^ 32), (st.2 + i) % 2 ^ 32)) (w, s)).1
      = w ++ extentSumBits s l := by
  induction l generalizing w s with
  | nil => simp [extentSumBits]
  | cons i t ih =>
      rw [List.foldl_cons, ih]
      simp only [putBits, extentSumBits, List.append_assoc]

theorem extentStartPointBits_length (self : CLPIParser) :
    (extentStartPointBits self).length = 64 + 32 * self.interleaveInfo.length := by
  simp only [extentStartPointBits, List.length_append, natBits_length, extentSumBits_length]
  omega

theorem composeExtentStartPoint_eq (self : CLPIParser) (w : BitStreamWriter)
    (hw : w.length % 8 = 0) :
    composeExtentStartPoint self w = w ++ extentStartPointBits self := by
  unfold composeExtentStartPoint
  dsimp only
  rw [foldl_extentSums]
  simp only [getBitsCount, putBits, List.append_assoc]
  rw [store_eq _ w (natBits 32 0) _ (w.length / 8) 4 _ rfl (by omega) (by simp)]
  simp only [extentStartPointBits, List.length_append, natBits_length, extentSumBits_length]
  congr 2
  apply natBits_congr
  rw [Nat.mod_mod]
  congr 1
  omega

theorem store_shift (w R : List Bool) (m k n v : Nat) (hm : w.length = 8 * m) :
    store (w ++ R) (m + k) n v = w ++ storeB R (8 * k) (8 * n) v := by
  rw [store_eq_storeB, storeB_peel_list _ _ _ _ _ (by omega)]
  congr 2
  omega

theorem store_shift0 (w R : List Bool) (m n v : Nat) (hm : w.length = 8 * m) :
    store (w ++ R) m n v = w ++ storeB R 0 (8 * n) v := by
  have := store_shift w R m 0 n v hm
  simpa using this

end CLPIParser

set_option autoImplicit false

namespace CLPIParser

open BitStreamWriter

theorem composeExtentInfo_empty (E : StreamTypeCodes) (K : MuxConstants) (self : CLPIParser)
    (w : BitStreamWriter) (hi : self.interleaveInfo = []) :
    composeExtentInfo E K self w = .ok (w ++ natBits 32 0) := by
  unfold composeExtentInfo
  simp [hi, putBits]

theorem composeExtentInfo_main (E : StreamTypeCodes) (K : MuxConstants) (self : CLPIParser)
    (w : BitStreamWriter) (hw : w.length % 32 = 0) (hi : self.interleaveInfo ≠ [])
    (hd : self.isDependStream = false) :
    composeExtentInfo E K self w
      = .ok (w ++ (natBits 32 (28 + 4 * self.interleaveInfo.length) ++ (natBits 32 24 ++
          (natBits 24 0 ++ (natBits 8 1 ++ (natBits 32 0x00020004 ++ (natBits 32 24 ++
          (natBits 32 (8 + 4 * self.interleaveInfo.length) ++
            extentStartPointBits self)))))))) := by
  obtain ⟨m, hm⟩ : ∃ m, w.length = 8 * m := ⟨w.length / 8, by omega⟩
  have hdiv : ∀ k, (8 * m + k) / 8 = m + k / 8 := fun k => Nat.mul_add_div (by norm_num) m k
  have hdiv0 : 8 * m / 8 = m := Nat.mul_div_cancel_left m (by norm_num)
  have hmod : ∀ k, (8 * m + k) % 32 = k % 32 := by intro k; omega
  have hie : self.interleaveInfo.isEmpty = false := by
    cases h : self.interleaveInfo with
    | nil => exact absurd h hi
    | cons _ _ => rfl
  unfold composeExtentInfo
  simp only [hie, hd, Bool.false_eq_true, if_false, getBitsCount, putBits, List.append_assoc,
    List.length_append, natBits_length, hm, hdiv, hdiv0, Nat.reduceAdd, Nat.reduceDiv,
    hmod, Nat.reduceMod, ne_eq, not_true_eq_false, Except.ok_bind', bind_pure_comp, pure,
    Except.pure]
  have hmod8 : ∀ k, (8 * m + k) % 8 = k % 8 := by intro k; omega
  simp only [store_shift _ _ m _ _ _ hm, store_shift0 _ _ m _ _ hm, Nat.add_assoc, Nat.reduceAdd,
    Nat.reduceMul, storeB_peel, storeB_zero, drop_natBits_append, Nat.reduceLeDiff, Nat.reduceSub,
    List.drop_zero, le_refl, Nat.sub_self, composeExtentStartPoint_eq, List.length_append,
    natBits_length, hm, hmod8, Nat.reduceMod, hdiv, Nat.reduceDiv, Nat.add_sub_cancel_left,
    List.append_assoc, extentStartPointBits_length, natBits_mod]
  congr <;> omega

open BitStreamWriter

theorem composeExtentInfo_depend (E : StreamTypeCodes) (K : MuxConstants) (self : CLPIParser)
    (w w' : BitStreamWriter) (hw : w.length % 32 = 0) (hi : self.interleaveInfo ≠ [])
    (hd : self.isDependStream = true) (h : composeExtentInfo E K self w = .ok w') :
    ∃ (lp : Nat) (pad : List Bool) (v : Nat) (X : List Bool),
      pad.length % 8 = 0 ∧ X.length % 8 = 0 ∧ (v % 2 ^ 32 = 0 ∨ 16 ≤ X.length) ∧
      w' = w ++ (natBits 32 (60 + 4 * self.interleaveInfo.length
              + (programInfoBits E K self true ++ pad).length / 8 + X.length / 8) ++
          (natBits 32 48 ++ (natBits 24 0 ++ (natBits 8 3 ++
          (natBits 32 0x00020004 ++ (natBits 32 48 ++
          (natBits 32 (8 + 4 * self.interleaveInfo.length) ++
          (natBits 32 0x00020005 ++ (natBits 32 (56 + 4 * self.interleaveInfo.length) ++
          (natBits 32 (4 + (programInfoBits E K self true ++ pad).length / 8) ++
          (natBits 32 0x00020006 ++
          (natBits 32 (60 + 4 * self.interleaveInfo.length
              + (programInfoBits E K self true ++ pad).length / 8) ++
          (natBits 32 (4 + X.length / 8) ++
          (extentStartPointBits self ++
          ((natBits 32 lp ++ (programInfoBits E K self true ++ pad)) ++
          (natBits 32 v ++ X)))))))))))))))) := by
  obtain ⟨m, hm⟩ : ∃ m, w.length = 8 * m := ⟨w.length / 8, by omega⟩
  have hdiv : ∀ k, (8 * m + k) / 8 = m + k / 8 := fun k => Nat.mul_add_div (by norm_num) m k
  have hdiv0 : 8 * m / 8 = m := Nat.mul_div_cancel_left m (by norm_num)
  have hmod : ∀ k, (8 * m + k) % 32 = k % 32 := by intro k; omega
  have hmod8 : ∀ k, (8 * m + k) % 8 = k % 8 := by intro k; omega
  have hie : self.interleaveInfo.isEmpty = false := by
    cases h : self.interleaveInfo with
    | nil => exact absurd h hi
    | cons _ _ => rfl
  unfold composeExtentInfo at h
  simp only [hie, hd, Bool.false_eq_true, if_false, if_true, getBitsCount, putBits,
    List.append_assoc,
    List.length_append, natBits_length, hm, hdiv, hdiv0, Nat.reduceAdd, Nat.reduceDiv,
    hmod, Nat.reduceMod, ne_eq, not_true_eq_false, Except.ok_bind', bind_pure_comp, pure,
    Except.pure] at h
  have hpl := programInfoBits_length_mod E K self true
  simp (disch := first | omega | (simp only [List.length_append, natBits_length, hm,
      extentStartPointBits_length]; omega)) only
    [store_shift _ _ m _ _ _ hm, store_shift0 _ _ m _ _ hm, Nat.add_assoc, Nat.reduceAdd,
    Nat.reduceMul, storeB_peel, storeB_zero, drop_natBits_append, Nat.reduceLeDiff, Nat.reduceSub,
    List.drop_zero, le_refl, Nat.sub_self, composeExtentStartPoint_eq, List.length_append,
    natBits_length, hm, hmod8, Nat.reduceMod, hdiv, Nat.reduceDiv, Nat.add_sub_cancel_left,
    List.append_assoc, extentStartPointBits_length, natBits_mod, composeProgramInfo_eq] at h
  generalize hWp : composeCPI E self _ true = r at h
  cases r with
  | error e => cases h
  | ok Wc =>
    obtain ⟨v, X, hWc, hX, hv⟩ := composeCPI_frame E self _ Wc true
      (by simp only [List.length_append, natBits_length, hm, extentStartPointBits_length]
          have := programInfoPad_length_mod E K self true
            (8 * m + (32 + (32 + (24 + (8 + (32 + (32 + (32 + (32 + (32 + (32 + (32 + (32 + (32 +
              (64 + 32 * self.interleaveInfo.length)))))))))))))))
          omega) hWp
    subst hWc
    have hpad := programInfoPad_length_mod E K self true
      (8 * m + (32 + (32 + (24 + (8 + (32 + (32 + (32 + (32 + (32 + (32 + (32 + (32 + (32 +
        (64 + 32 * self.interleaveInfo.length)))))))))))))))
    generalize programInfoPad E K self true _ = pad at h hpad
    simp (disch := first | omega | (simp only [List.length_append, natBits_length, hm,
        extentStartPointBits_length]; omega)) only
      [store_shift _ _ m _ _ _ hm, store_shift0 _ _ m _ _ hm, Nat.add_assoc, Nat.reduceAdd,
      Nat.reduceMul, storeB_peel, storeB_zero, drop_natBits_append, Nat.reduceLeDiff,
      Nat.reduceSub, List.drop_zero, le_refl, Nat.sub_self, List.length_append,
      natBits_length, hm, hmod8, Nat.reduceMod, hdiv, Nat.reduceDiv, Nat.add_sub_cancel_left,
      List.append_assoc, extentStartPointBits_length, natBits_mod, Except.ok_bind',
      Except.map, Functor.map] at h
    clear hWp
    injection h with h
    subst h
    refine ⟨((programInfoBits E K self true).length + pad.length) / 8, pad, v, X, hpad, hX, hv, ?_⟩
    simp only [List.append_assoc, List.length_append]
    congr <;> omega

end CLPIParser

set_option autoImplicit false

namespace CLPIParser

theorem endCode_le_seven (is4K : Bool) (m_frameLen : Int) : endCode is4K m_frameLen ≤ 7 := by
  unfold endCode
  split_ifs <;> omega

theorem endCode_eq_zero_iff (is4K : Bool) (m_frameLen : Int) :
    endCode is4K m_frameLen = 0 ↔ m_frameLen ≤ 0 := by
  unfold endCode
  split_ifs <;> simp <;> omega

theorem endCode_cases (is4K : Bool) :
    ∃ t1 t2 t3 t4 t5 t6 : Int, 0 < t1 ∧ t1 < t2 ∧ t2 < t3 ∧ t3 < t4 ∧ t4 < t5 ∧ t5 < t6 ∧
      ∀ x : Int, (x ≤ 0 ∧ endCode is4K x = 0) ∨ (0 < x ∧ x < t1 ∧ endCode is4K x = 1) ∨
        (t1 ≤ x ∧ x < t2 ∧ endCode is4K x = 2) ∨ (t2 ≤ x ∧ x < t3 ∧ endCode is4K x = 3) ∨
        (t3 ≤ x ∧ x < t4 ∧ endCode is4K x = 4) ∨ (t4 ≤ x ∧ x < t5 ∧ endCode is4K x = 5) ∨
        (t5 ≤ x ∧ x < t6 ∧ endCode is4K x = 6) ∨ (t6 ≤ x ∧ endCode is4K x = 7) := by
  cases is4K
  · refine ⟨131072, 262144, 393216, 589824, 917504, 1310720, by omega, by omega, by omega,
      by omega, by omega, by omega, ?_⟩
    intro x
    simp only [endCode, Bool.false_eq_true, if_false]
    split_ifs <;> omega
  · refine ⟨786432, 1572864, 2359296, 3145728, 3932160, 4718592, by omega, by omega, by omega,
      by omega, by omega, by omega, ?_⟩
    intro x
    simp only [endCode, if_true]
    split_ifs <;> omega

theorem endCode_mono (is4K : Bool) (a b : Int) (h : a ≤ b) :
    endCode is4K a ≤ endCode is4K b := by
  obtain ⟨t1, t2, t3, t4, t5, t6, h1, h2, h3, h4, h5, h6, hx⟩ := endCode_cases is4K
  have ha := hx a
  have hb := hx b
  omega

/-- state of the loop of `buildCoarseInfo` after the entries `l`, from the state `st` -/
theorem foldl_coarseStep_refs (l : PMTIndex) :
    ∀ st : List BluRayCoarseInfo × Nat × Nat × Nat,
      st.2.1 + l.length ≤ 2 ^ 32 →
      ∃ extra : List BluRayCoarseInfo,
        (l.foldl coarseStep st).1 = st.1 ++ extra ∧
        (extra.map (fun c => c.m_fineRefID)).Sublist
          ((List.range l.length).map (fun i => st.2.1 + i)) ∧
        (l ≠ [] → st.1 = [] → (extra.map (fun c => c.m_fineRefID)).head? = some st.2.1) := by
  induction l with
  | nil =>
      intro st _
      exact ⟨[], by simp, by simp, by simp⟩
  | cons e t ih =>
      intro st hst
      have hlt : st.2.1 + 1 < 2 ^ 32 ∨ t = [] := by
        simp only [List.length_cons] at hst
        by_cases ht : t = []
        · exact Or.inr ht
        · left
          have : 0 < t.length := List.length_pos.mpr ht
          omega
      have hcnt : (coarseStep st e).2.1 = (st.2.1 + 1) % 2 ^ 32 := rfl
      have hrange : (List.range (e :: t).length).map (fun i => st.2.1 + i)
          = st.2.1 :: (List.range t.length).map (fun i => st.2.1 + 1 + i) := by
        simp only [List.length_cons, List.range_succ_eq_map, List.map_cons, List.map_map,
          Nat.add_zero, List.cons.injEq, true_and]
        apply List.map_congr_left
        intro i _
        simp only [Function.comp]
        omega
      rcases hlt with hlt | ht
      · obtain ⟨extra, h1, h2, _⟩ := ih (coarseStep st e) (by
          rw [hcnt, Nat.mod_eq_of_lt hlt]; simp only [List.length_cons] at hst; omega)
        rw [hcnt, Nat.mod_eq_of_lt hlt] at h2
        rw [List.foldl_cons, h1, hrange]
        by_cases hc : st.1.isEmpty ∨ (e.1 >>> 19) % 2 ^ 32 ≠ st.2.2.2 ∨
            st.2.2.1 &&& 0xfffe0000 ≠ e.2.m_pktCnt &&& 0xfffe0000
        · refine ⟨⟨(e.1 >>> 19) % 2 ^ 32, st.2.1, e.2.m_pktCnt⟩ :: extra, ?_, ?_, ?_⟩
          · simp only [coarseStep, if_pos hc, List.append_assoc, List.singleton_append]
          · simpa using h2
          · simp
        · refine ⟨extra, ?_, ?_, ?_⟩
          · simp only [coarseStep, if_neg hc]
          · exact h2.trans (List.sublist_cons_self _ _)
          · intro _ hs
            exact absurd (Or.inl (by simp [hs])) hc
      · subst ht
        rw [List.foldl_cons, List.foldl_nil, hrange]
        by_cases hc : st.1.isEmpty ∨ (e.1 >>> 19) % 2 ^ 32 ≠ st.2.2.2 ∨
            st.2.2.1 &&& 0xfffe0000 ≠ e.2.m_pktCnt &&& 0xfffe0000
        · refine ⟨[⟨(e.1 >>> 19) % 2 ^ 32, st.2.1, e.2.m_pktCnt⟩], ?_, ?_, ?_⟩
          · simp only [coarseStep, if_pos hc]
          · simp
          · simp
        · refine ⟨[], ?_, ?_, ?_⟩
          · simp only [coarseStep, if_neg hc, List.append_nil]
          · simp
          · intro _ hs
            exact absurd (Or.inl (by simp [hs])) hc

end CLPIParser

/-- In a strictly increasing list that starts with 0, every `j` lies in exactly one of the
intervals between successive elements (the last interval being open-ended). -/
theorem interval_unique (refs : List Nat) (h0 : refs.head? = some 0)
    (hs : refs.Pairwise (· < ·)) (j : Nat) :
    ∃! i, i < refs.length ∧ refs.getD i 0 ≤ j ∧ (i + 1 < refs.length → j < refs.getD (i + 1) 0) := by
  have hmono : ∀ a b, a < b → b < refs.length → refs.getD a 0 < refs.getD b 0 := by
    intro a b hab hb
    rw [List.getD_eq_getElem _ _ (by omega), List.getD_eq_getElem _ _ hb]
    exact List.pairwise_iff_getElem.mp hs a b (by omega) hb hab
  have hlen : 0 < refs.length := by
    cases refs with
    | nil => simp at h0
    | cons _ _ => simp
  have hz : refs.getD 0 0 = 0 := by
    cases refs with
    | nil => simp at h0
    | cons x t => simpa using h0
  have hex : ∃ i, i < refs.length ∧ refs.getD i 0 ≤ j ∧
      (i + 1 < refs.length → j < refs.getD (i + 1) 0) := by
    induction j with
    | zero =>
        refine ⟨0, hlen, by omega, ?_⟩
        intro h1
        have := hmono 0 (0 + 1) (by omega) h1
        omega
    | succ j ih =>
        obtain ⟨i, hi, h1, h2⟩ := ih
        by_cases hn : i + 1 < refs.length ∧ refs.getD (i + 1) 0 = j + 1
        · refine ⟨i + 1, hn.1, by omega, ?_⟩
          intro h3
          have := hmono (i + 1) (i + 1 + 1) (by omega) h3
          omega
        · refine ⟨i, hi, by omega, ?_⟩
          intro h3
          have := h2 h3
          by_contra hc
          exact hn ⟨h3, by omega⟩
  obtain ⟨i, hi, h1, h2⟩ := hex
  refine ⟨i, ⟨hi, h1, h2⟩, ?_⟩
  rintro k ⟨hk, hk1, hk2⟩
  by_contra hne
  rcases Nat.lt_or_gt_of_ne hne with hlt | hgt
  · have := hk2 (by omega)
    by_cases he : k + 1 = i
    · subst he; omega
    · have := hmono (k + 1) i (by omega) hi
      omega
  · have := h2 (by omega)
    by_cases he : i + 1 = k
    · subst he; omega
    · have := hmono (i + 1) k (by omega) hk
      omega

set_option autoImplicit false

namespace TS_program_map_section

theorem extractPMTDescriptorsLoop_video_pid (T : TSDescriptorTagCodes) (mem : List Nat)
    (end_ : Nat) (fuel : Nat) : ∀ (curPos : Nat) (self : TS_program_map_section),
      (extractPMTDescriptorsLoop T mem end_ fuel curPos self).video_pid = self.video_pid := by
  induction fuel with
  | zero => intro curPos self; simp [extractPMTDescriptorsLoop]
  | succ f ih =>
      intro curPos self
      rw [extractPMTDescriptorsLoop]
      split
      · dsimp only
        split
        · exact ih _ _
        · exact ih _ _
      · rfl

theorem deserializeSwitch_video_pid (E : StreamTypeCodes) (self : TS_program_map_section)
    (t pid : Nat) (h : ¬ isVideoCase E t) :
    (deserializeSwitch E self t pid).video_pid = self.video_pid := by
  unfold isVideoCase at h
  unfold deserializeSwitch
  rw [if_neg h]
  split_ifs <;> rfl

theorem deserializeLoop_video_pid (E : StreamTypeCodes) (T : TSDescriptorTagCodes)
    (mem : List Nat) (crcPos : Nat) (fuel : Nat) :
    ∀ (curPos : Nat) (self : TS_program_map_section),
      (deserializeLoop E T mem crcPos fuel curPos self).1 = true →
      (∀ t ∈ visitedStreamTypes mem crcPos fuel curPos, ¬ isVideoCase E t) →
      (deserializeLoop E T mem crcPos fuel curPos self).2.2.video_pid = self.video_pid ∧
      (deserializeLoop E T mem crcPos fuel curPos self).2.2.pcr_pid = self.pcr_pid := by
  induction fuel with
  | zero => intro curPos self _ _; exact ⟨rfl, rfl⟩
  | succ f ih =>
      intro curPos self h hv
      rw [deserializeLoop] at h ⊢
      rw [visitedStreamTypes] at hv
      by_cases hc : curPos < crcPos
      · rw [if_pos hc] at h hv ⊢
        dsimp only [get16] at h hv ⊢
        by_cases he : curPos + 1 + 2 + 2 + ((mem.getD (curPos + 1 + 2) 0 <<< 8 |||
            mem.getD (curPos + 1 + 2 + 1) 0) &&& 0xfff) > crcPos
        · rw [if_pos he] at h
          exact absurd h (by simp)
        · rw [if_neg he] at h ⊢
          have he' : ¬ curPos + 5 + ((mem.getD (curPos + 3) 0 <<< 8 |||
              mem.getD (curPos + 3 + 1) 0) &&& 0xfff) > crcPos := by
            simpa [Nat.add_assoc] using he
          rw [if_neg he'] at hv
          have hnv : ¬ isVideoCase E (mem.getD curPos 0) := hv _ (List.mem_cons_self _ _)
          have hp : curPos + 1 + 2 + 2 + ((mem.getD (curPos + 1 + 2) 0 <<< 8 |||
              mem.getD (curPos + 1 + 2 + 1) 0) &&& 0xfff)
              = curPos + 5 + ((mem.getD (curPos + 3) 0 <<< 8 |||
              mem.getD (curPos + 3 + 1) 0) &&& 0xfff) := by
            simp [Nat.add_assoc]
          rw [hp] at h ⊢
          obtain ⟨h1, h2⟩ := ih _ _ h (fun t ht => hv t (List.mem_cons_of_mem _ ht))
          rw [h1, h2]
          exact ⟨deserializeSwitch_video_pid E self _ _ hnv,
            deserializeSwitch_pcr_pid E self _ _⟩
      · rw [if_neg hc]
        exact ⟨rfl, rfl⟩

theorem extractPMTDescriptors_pids (T : TSDescriptorTagCodes) (self : TS_program_map_section)
    (mem : List Nat) (curPos len : Nat) :
    (extractPMTDescriptors T self mem curPos len).video_pid = self.video_pid ∧
    (extractPMTDescriptors T self mem curPos len).pcr_pid = self.pcr_pid :=
  ⟨extractPMTDescriptorsLoop_video_pid T mem _ _ _ _,
    (extractPMTDescriptorsLoop_keeps T mem _ _ _ _).2.2⟩

theorem deserialize_true (E : StreamTypeCodes) (T : TSDescriptorTagCodes)
    (self out : TS_program_map_section) (buffer : List Nat) (buf_size : Nat)
    (h : deserialize E T self buffer buf_size = (true, out)) :
    ∃ s crcPos curPos, streamLoopStart T self buffer buf_size = some (s, crcPos, curPos) ∧
      s.video_pid = s.pcr_pid ∧
      (deserializeLoop E T buffer crcPos (crcPos - curPos) curPos s).1 = true ∧
      out = (deserializeLoop E T buffer crcPos (crcPos - curPos) curPos s).2.2 := by
  unfold deserialize at h
  unfold streamLoopStart
  split at h
  · simp at h
  dsimp only at h ⊢
  rw [if_neg (by assumption)]
  repeat' (split at h)
  all_goals try (simp at h; done)
  all_goals simp only [*, ne_eq, not_true_eq_false, not_false_eq_true, if_false, if_true]
  rename_i hl _
  refine ⟨_, _, _, rfl, ?_, by simpa using hl, ?_⟩
  · rw [(extractPMTDescriptors_pids T _ buffer _ _).1, (extractPMTDescriptors_pids T _ buffer _ _).2]
  · simp only [Prod.mk.injEq, true_and] at h
    exact h.symm

end TS_program_map_section

set_option autoImplicit false

namespace MPLSParser

theorem calcPlayItemIDLoop_range (pts size : Nat) (rest : List PMTIndex) (i : Nat)
    (h : i + rest.length = size) (hs : 0 < size) :
    0 ≤ calcPlayItemIDLoop pts size rest i ∧ calcPlayItemIDLoop pts size rest i ≤ (size : Int) - 1 := by
  induction rest generalizing i with
  | nil => simp only [calcPlayItemIDLoop]; omega
  | cons index rest ih =>
    simp only [calcPlayItemIDLoop]
    simp only [List.length_cons] at h
    split_ifs
    · omega
    · exact ih (i + 1) (by omega)

theorem startOf_of_ne (index : PMTIndex) (h : index ≠ []) :
    startOf index = some ((startOf index).getD 0) := by
  cases index with
  | nil => exact absurd rfl h
  | cons a t => rfl

theorem get?_bind_startOf (l : List PMTIndex) (j s : Nat)
    (h : (l.get? j).bind startOf = some s) :
    ∃ index, l.get? j = some index ∧ index ∈ l ∧ (startOf index).getD 0 = s := by
  cases hj : l.get? j with
  | none => rw [hj] at h; cases h
  | some index =>
    rw [hj] at h
    refine ⟨index, rfl, List.get?_mem hj, ?_⟩
    simp only [Option.some_bind] at h
    rw [h]; rfl

theorem isLastStarted_of_prefix (pts : Nat) (pre tail : List PMTIndex) (hp : pre ≠ [])
    (hpre : ∀ index ∈ pre, (startOf index).getD 0 ≤ pts)
    (hlater : ∀ j s, pre.length ≤ j → ((pre ++ tail).get? j).bind startOf = some s → pts < s)
    (hne1 : ∀ index ∈ pre, index ≠ []) :
    IsLastStarted (pre ++ tail) pts (pre.length - 1) := by
  have hpos : 0 < pre.length := List.length_pos.2 hp
  refine ⟨?_, fun j s hj h => hlater j s (by omega) h⟩
  have hlt : pre.length - 1 < pre.length := by omega
  have hget : (pre ++ tail).get? (pre.length - 1) = some (pre.get ⟨pre.length - 1, hlt⟩) := by
    rw [List.get?_eq_getElem?, List.getElem?_append_left hlt, ← List.get?_eq_getElem?,
      List.get?_eq_get hlt]
  have hm : pre.get ⟨pre.length - 1, hlt⟩ ∈ pre := List.get_mem _ _ _
  refine ⟨_, ?_, hpre _ hm⟩
  rw [hget, Option.some_bind]
  exact startOf_of_ne _ (hne1 _ hm)

/-- The loop on a list of non-empty indexes with nondecreasing starting
timestamps, entered behind the play items `pre`, all of which start at or
before `pts`. -/
theorem calcPlayItemIDLoop_last (pts : Nat) (pre rest : List PMTIndex)
    (hne : ∀ index ∈ pre ++ rest, index ≠ [])
    (hsorted : ((pre ++ rest).map (fun index => (startOf index).getD 0)).Pairwise (· ≤ ·))
    (hpre : ∀ index ∈ pre, (startOf index).getD 0 ≤ pts)
    (hsome : ∃ index ∈ pre ++ rest, (startOf index).getD 0 ≤ pts) :
    ∃ r : Nat, calcPlayItemIDLoop pts (pre ++ rest).length rest pre.length = (r : Int) ∧
      IsLastStarted (pre ++ rest) pts r := by
  induction rest generalizing pre with
  | nil =>
    obtain ⟨index, hmem, hle⟩ := hsome
    rw [List.append_nil] at hmem
    have hp : pre ≠ [] := List.ne_nil_of_mem hmem
    have hpos : 0 < pre.length := List.length_pos.2 hp
    refine ⟨pre.length - 1, by simp only [calcPlayItemIDLoop, List.append_nil]; omega, ?_⟩
    refine isLastStarted_of_prefix pts pre [] hp hpre ?_ (fun index h => hne index (by simpa using h))
    intro j s hj h
    rw [List.get?_eq_none.2 (by simpa using hj)] at h
    cases h
  | cons index rest ih =>
    have hidx : index ≠ [] := hne index (by simp)
    have hs2 := hsorted
    rw [List.map_append, List.pairwise_append] at hs2
    obtain ⟨_, hs3, hs4⟩ := hs2
    rw [List.map_cons, List.pairwise_cons] at hs3
    by_cases hgt : pts < (startOf index).getD 0
    · have hp : pre ≠ [] := by
        intro hnil
        obtain ⟨index1, hmem, hle⟩ := hsome
        rw [hnil, List.nil_append, List.mem_cons] at hmem
        rcases hmem with rfl | hmem
        · omega
        · have := hs3.1 _ (List.mem_map_of_mem _ hmem)
          omega
      have hpos : 0 < pre.length := List.length_pos.2 hp
      refine ⟨pre.length - 1, ?_, ?_⟩
      · have hemp : index.isEmpty = false := by
          cases index with
          | nil => exact absurd rfl hidx
          | cons a t => rfl
        have hgt1 : (Option.map Prod.fst index.head?).getD 0 > pts := hgt
        simp only [calcPlayItemIDLoop, hemp, hgt1, Bool.not_false, true_and, if_true]
        omega
      · refine isLastStarted_of_prefix pts pre _ hp hpre ?_ (fun index1 h => hne index1 (by simp [h]))
        intro j s hj h
        obtain ⟨index1, hg, _, hst⟩ := get?_bind_startOf _ _ _ h
        rw [List.get?_eq_getElem?, List.getElem?_append_right hj, ← List.get?_eq_getElem?] at hg
        have hmem := List.get?_mem hg
        rw [List.mem_cons] at hmem
        rcases hmem with rfl | hmem
        · omega
        · have := hs3.1 _ (List.mem_map_of_mem _ hmem)
          omega
    · have hle : (Option.map Prod.fst index.head?).getD 0 ≤ pts := not_lt.1 hgt
      have heq : pre ++ index :: rest = (pre ++ [index]) ++ rest := by simp
      have hlen : pre.length + 1 = (pre ++ [index]).length := by simp
      simp only [calcPlayItemIDLoop, gt_iff_lt, not_lt.2 hle, and_false, if_false]
      rw [heq, hlen]
      refine ih (pre ++ [index]) (by rwa [← heq]) (by rwa [← heq]) ?_ ?_
      · intro index1 h
        rw [List.mem_append, List.mem_singleton] at h
        rcases h with h | rfl
        · exact hpre _ h
        · exact not_lt.1 hgt
      · rwa [← heq]

end MPLSParser

namespace MPLSParser

open BitStreamWriter

theorem markBits_length (streamInfo : MPLSStreamInfo) (i : PlayListMark) :
    (markBits streamInfo i).length = 112 := by
  simp [markBits]

theorem flatMap_markBits_length (streamInfo : MPLSStreamInfo) (marks : List PlayListMark) :
    (marks.flatMap (markBits streamInfo)).length = 112 * marks.length := by
  induction marks with
  | nil => rfl
  | cons a t ih =>
    simp only [List.flatMap_cons, List.length_append, ih, markBits_length, List.length_cons]
    omega

theorem foldl_marks (streamInfo : MPLSStreamInfo) (marks : List PlayListMark)
    (w : BitStreamWriter) :
    marks.foldl
        (fun writer i =>
          let writer := putBits writer 8 0
          let writer := putBits writer 8 1
          let writer :=
            if i.m_playItemID ≥ 0 then putBits writer 16 i.m_playItemID.toNat
            else
              putBits writer 16
                ((calcPlayItemID streamInfo (i.m_markTime * 2 % 2 ^ 32)) % 2 ^ 32).toNat
          let writer := putBits writer 32 i.m_markTime
          let writer := putBits writer 16 0xffff
          putBits writer 32 0)
        w
      = w ++ marks.flatMap (markBits streamInfo) := by
  induction marks generalizing w with
  | nil => simp
  | cons a t ih =>
    rw [List.foldl_cons, ih, List.flatMap_cons]
    simp only [putBits, markBits, List.append_assoc]
    split_ifs <;> simp only [List.append_assoc]

/-- The block `composePlayListMark` writes, at a byte boundary of the writer
and with a main stream. -/
theorem composePlayListMark_eq (E : StreamTypeCodes) (self : MPLSParser) (w : BitStreamWriter)
    (streamInfo : MPLSStreamInfo) (hmain : getMainStream E self = .ok streamInfo)
    (hw : w.length % 8 = 0) :
    composePlayListMark E self w =
      (marksToWrite self).map fun m_marks =>
        .ok ({ self with m_marks := m_marks }, w ++ playListMarkBits streamInfo m_marks) := by
  obtain ⟨m, hm⟩ : ∃ m, w.length = 8 * m := ⟨w.length / 8, by omega⟩
  unfold composePlayListMark
  simp only [hmain]
  change Option.map _ (marksToWrite self) = _
  congr 1
  funext m_marks
  simp only [foldl_marks]
  congr 2
  simp only [getBitsCount, putBits, List.length_append, natBits_length, playListMarkBits,
    flatMap_markBits_length, List.append_assoc]
  have hdiv : w.length / 8 = m := by omega
  rw [hdiv, CLPIParser.store_shift0 _ _ m _ _ hm, storeB_zero, drop_natBits_append _ _ _ _ (by omega)]
  simp only [Nat.reduceMul, Nat.sub_self, List.drop_zero]
  congr 2
  · apply natBits_congr
    have : (w.length + (32 + (16 + 112 * m_marks.length))) / 8 - (w.length + 32) / 8
        = 2 + 14 * m_marks.length := by omega
    rw [this, Nat.mod_mod]
  · congr 1
    apply natBits_congr
    rw [Nat.mod_mod_of_dvd _ (by decide : 2 ^ 16 ∣ 2 ^ 32)]

theorem synthesizeMarks_eq (c : Int) (OUT_time step : Nat) (hc : c * 45000 = (step : Int))
    (fuel : Nat) :
    ∀ i n : Nat, (∀ k, k < n ↔ i + k * step < OUT_time) →
      (∀ k, k < n → i + (k + 1) * step < 2 ^ 32) → n < fuel →
      synthesizeMarks c OUT_time fuel i
        = some ((List.range n).map fun k => (⟨-1, i + k * step⟩ : PlayListMark)) := by
  induction fuel with
  | zero => intro i n _ _ h; omega
  | succ fuel ih =>
    intro i n hn hov hf
    rw [synthesizeMarks]
    by_cases hi : i < OUT_time
    · have hpos : 0 < n := (hn 0).2 (by simpa using hi)
      have h1 := hov 0 hpos
      simp only [Nat.zero_add, Nat.one_mul] at h1
      have hnext : (((i : Int) + c * 45000) % 2 ^ 32).toNat = i + step := by
        rw [hc]
        omega
      rw [if_pos hi, hnext, ih (i + step) (n - 1) ?_ ?_ (by omega)]
      · obtain ⟨n, rfl⟩ : ∃ n', n = n' + 1 := ⟨n - 1, by omega⟩
        simp only [Nat.add_sub_cancel, Option.map_some', List.range_succ_eq_map, List.map_cons,
          List.map_map, Nat.zero_mul, Nat.add_zero]
        congr 2
        apply List.map_congr_left
        intro k _
        simp only [Function.comp, PlayListMark.mk.injEq, true_and, Nat.succ_eq_add_one]
        rw [Nat.add_mul]; omega
      · intro k
        have := hn (k + 1)
        rw [Nat.add_mul] at this
        omega
      · intro k hk
        have h2 := hov (k + 1) (by omega)
        have e : (k + 1 + 1) * step = (k + 1) * step + step := by
          rw [Nat.add_mul (k + 1) 1 step, Nat.one_mul]
        rw [e] at h2
        clear ih hn hov hc hnext e
        omega
    · have h0 : n = 0 := by
        by_contra hne
        exact hi (by simpa using (hn 0).1 (by omega))
      subst h0
      rw [if_neg hi]
      rfl

theorem chapter_count (IN_time OUT_time step : Nat) (hstep : 0 < step) (k : Nat) :
    k < (OUT_time - IN_time + step - 1) / step ↔ IN_time + k * step < OUT_time := by
  rw [Nat.lt_iff_add_one_le, Nat.le_div_iff_mul_le hstep, Nat.add_mul]
  omega

theorem marksToWrite_chapters (self : MPLSParser) (step : Nat) (hm : self.m_marks = [])
    (hstep : 0 < step) (hc : self.m_chapterLen * 45000 = (step : Int))
    (hov : ∀ k, self.IN_time + k * step < self.OUT_time →
      self.IN_time + (k + 1) * step < 2 ^ 32) :
    marksToWrite self
      = some ((List.range ((self.OUT_time - self.IN_time + step - 1) / step)).map
          fun k => (⟨-1, self.IN_time + k * step⟩ : PlayListMark)) := by
  have hc0 : self.m_chapterLen ≠ 0 := by
    intro h0
    rw [h0] at hc
    omega
  have hcnt := chapter_count self.IN_time self.OUT_time step hstep
  have hlt : (self.OUT_time - self.IN_time + step - 1) / step < 2 ^ 32 + 1 := by
    by_contra hge
    have h1 := (hcnt (2 ^ 32 - 1)).1 (by omega)
    have h2 := hov _ h1
    have h3 : (2 ^ 32 - 1 + 1) * step = 2 ^ 32 * step := by norm_num
    rw [h3] at h2
    have h4 : 2 ^ 32 * 1 ≤ 2 ^ 32 * step := Nat.mul_le_mul_left _ hstep
    omega
  simp only [marksToWrite, hm, List.isEmpty_nil, if_true, if_neg hc0, List.nil_append]
  rw [synthesizeMarks_eq _ _ step hc _ _ _ hcnt (fun k hk => hov k ((hcnt k).1 hk)) hlt]
  simp

end MPLSParser

theorem bind_eq_ok {ε α β : Type} (x : Except ε α) (f : α → Except ε β) (b : β)
    (h : (x >>= f) = .ok b) : ∃ a, x = .ok a ∧ f a = .ok b := by
  cases x with
  | error e => exact Except.noConfusion h
  | ok a => exact ⟨a, rfl, h⟩

theorem foldlM_inv {σ α ε : Type} (P : σ → Prop) (f : σ → α → Except ε σ) (l : List α)
    (s s' : σ) (h0 : P s) (hstep : ∀ s a s', a ∈ l → P s → f s a = .ok s' → P s')
    (h : l.foldlM f s = .ok s') : P s' := by
  induction l generalizing s with
  | nil =>
    rw [List.foldlM_nil] at h
    injection h with h
    exact h ▸ h0
  | cons x t ih =>
    rw [List.foldlM_cons] at h
    obtain ⟨s1, h1, h2⟩ := bind_eq_ok _ _ _ h
    exact ih s1 (hstep s x s1 (List.mem_cons_self _ _) h0 h1)
      (fun s a s' ha hs hf => hstep s a s' (List.mem_cons_of_mem _ ha) hs hf) h2

theorem foldlM_total {σ α ε : Type} (P : σ → Prop) (f : σ → α → Except ε σ) (l : List α)
    (s : σ) (h0 : P s) (hstep : ∀ s a, a ∈ l → P s → ∃ s', f s a = .ok s' ∧ P s') :
    ∃ s', l.foldlM f s = .ok s' ∧ P s' := by
  induction l generalizing s with
  | nil => exact ⟨s, rfl, h0⟩
  | cons x t ih =>
    obtain ⟨s1, h1, hp⟩ := hstep s x (List.mem_cons_self _ _) h0
    obtain ⟨s2, h2, hp2⟩ := ih s1 hp (fun s a ha hs => hstep s a (List.mem_cons_of_mem _ ha) hs)
    refine ⟨s2, ?_, hp2⟩
    rw [List.foldlM_cons, h1]
    exact h2

namespace MPLSStreamInfo

open BitStreamWriter

theorem entryBits_length (type streamPID subPathID : Nat) :
    (entryBits type streamPID subPathID).length = 80 := by
  unfold entryBits
  split_ifs <;> simp

theorem attrBits_length (E : StreamTypeCodes) (self : MPLSStreamInfo) :
    (attrBits E self).length = 48 := by
  unfold attrBits
  split_ifs <;> simp [CLPIStreamInfo.str3Bits_length]

theorem store_byte (w R : List Bool) (x v : Nat) (hw : w.length % 8 = 0) :
    store (w ++ (natBits 8 x ++ R)) (w.length / 8) 1 v = w ++ (natBits 8 v ++ R) := by
  obtain ⟨m, hm⟩ : ∃ m, w.length = 8 * m := ⟨w.length / 8, by omega⟩
  have hdiv : w.length / 8 = m := by omega
  rw [hdiv, CLPIParser.store_shift0 _ _ m _ _ hm, storeB_zero,
    drop_natBits_append _ _ _ _ (Nat.le_refl _)]
  simp

theorem composeStreamEntryOf_eq (type streamPID subPathID : Nat) (w : BitStreamWriter)
    (hw : w.length % 8 = 0) :
    composeStreamEntryOf type streamPID w subPathID =
      if type = 1 ∨ type = 2 ∨ type = 3 ∨ type = 4 then
        .ok (w ++ entryBits type streamPID subPathID)
      else .error (Exc.VodCoreException ErrMsg.unsupportedMediaType,
        w ++ natBits 8 0 ++ natBits 8 type) := by
  unfold composeStreamEntryOf
  simp only [getBitsCount, putBits, List.append_assoc]
  have hlen : ∀ R : List Bool, R.length = 72 →
      ((w ++ (natBits 8 0 ++ R)).length / 8 - (w ++ natBits 8 0).length / 8) % 2 ^ 8 = 9 := by
    intro R hR
    simp only [List.length_append, natBits_length, hR]
    omega
  by_cases h1 : type = 1
  · subst h1
    simp only [if_true, true_or, Except.map, entryBits]
    rw [hlen _ (by simp), store_byte _ _ _ _ hw]
    simp only [List.append_assoc]
  by_cases h2 : type = 2
  · subst h2
    simp only [if_true, true_or, or_true, Except.map, entryBits, if_neg (by decide : ¬ (2 = 1))]
    rw [hlen _ (by simp), store_byte _ _ _ _ hw]
    simp only [List.append_assoc]
  by_cases h3 : type = 3
  · subst h3
    simp only [if_true, true_or, or_true, Except.map, entryBits, if_neg (by decide : ¬ (3 = 1)),
      if_neg (by decide : ¬ (3 = 2))]
    rw [hlen _ (by simp), store_byte _ _ _ _ hw]
    simp only [List.append_assoc]
  by_cases h4 : type = 4
  · subst h4
    simp only [if_true, true_or, or_true, Except.map, entryBits, if_neg (by decide : ¬ (4 = 1)),
      if_neg (by decide : ¬ (4 = 2)), if_neg (by decide : ¬ (4 = 3))]
    rw [hlen _ (by simp), store_byte _ _ _ _ hw]
    simp only [List.append_assoc]
  simp only [h1, h2, h3, h4, if_false, or_self, Except.map]

theorem composeStreamAttributes_eq (E : StreamTypeCodes) (self : MPLSStreamInfo)
    (w : BitStreamWriter) (hw : w.length % 8 = 0) :
    composeStreamAttributes E self w =
      if isVideoStreamType E self.stream_coding_type = true ∨
          isAudioStreamType E self.stream_coding_type = true ∨
          self.stream_coding_type = E.SUB_PGS then
        .ok (w ++ attrBits E self)
      else .error (Exc.VodCoreException ErrMsg.unsupportedMediaType,
        w ++ natBits 8 0 ++ natBits 8 self.stream_coding_type) := by
  unfold composeStreamAttributes
  simp only [getBitsCount, putBits, List.append_assoc, CLPIStreamInfo.writeString3]
  have hlen : ∀ R : List Bool, R.length = 40 →
      ((w ++ (natBits 8 0 ++ R)).length / 8 - (w ++ natBits 8 0).length / 8) % 2 ^ 8 = 5 := by
    intro R hR
    simp only [List.length_append, natBits_length, hR]
    omega
  by_cases hv : isVideoStreamType E self.stream_coding_type = true
  · simp only [hv, if_true, true_or, Except.map, attrBits]
    split_ifs <;>
      (simp only [List.append_assoc]
       rw [hlen _ (by simp), store_byte _ _ _ _ hw])
  have hv0 : isVideoStreamType E self.stream_coding_type = false := by simpa using hv
  by_cases ha : isAudioStreamType E self.stream_coding_type = true
  · simp only [hv0, ha, if_true, true_or, or_true, Except.map, attrBits, Bool.false_eq_true,
      if_false, false_or]
    rw [hlen _ (by simp [CLPIStreamInfo.str3Bits_length]), store_byte _ _ _ _ hw]
    simp only [List.append_assoc]
  have ha0 : isAudioStreamType E self.stream_coding_type = false := by simpa using ha
  by_cases hp : self.stream_coding_type = E.SUB_PGS
  · simp only [hv0, ha0, if_true, or_true, Except.map, attrBits, Bool.false_eq_true,
      if_false, false_or, if_pos hp]
    rw [hlen _ (by simp [CLPIStreamInfo.str3Bits_length]), store_byte _ _ _ _ hw]
    simp only [List.append_assoc]
  simp only [hv0, ha0, hp, if_false, or_self, Except.map, Bool.false_eq_true]

theorem composeStreamEntryOf_ok (type streamPID subPathID : Nat) (w w' : BitStreamWriter)
    (hw : w.length % 8 = 0) (h : composeStreamEntryOf type streamPID w subPathID = .ok w') :
    w' = w ++ entryBits type streamPID subPathID := by
  rw [composeStreamEntryOf_eq _ _ _ _ hw] at h
  split_ifs at h
  injection h with h
  exact h.symm

theorem composeStreamAttributes_ok (E : StreamTypeCodes) (self : MPLSStreamInfo)
    (w w' : BitStreamWriter) (hw : w.length % 8 = 0)
    (h : composeStreamAttributes E self w = .ok w') : w' = w ++ attrBits E self := by
  rw [composeStreamAttributes_eq _ _ _ hw] at h
  split_ifs at h
  injection h with h
  exact h.symm

/-- A stream entry followed by the stream attributes: 16 bytes behind the
writer. -/
theorem entry_attributes_ok (E : StreamTypeCodes) (self : MPLSStreamInfo) (subPathID : Nat)
    (w w' : BitStreamWriter) (hw : w.length % 8 = 0)
    (h : (composeStreamEntry self w subPathID >>= fun writer =>
      composeStreamAttributes E self writer) = .ok w') :
    w' = w ++ (entryBits self.type self.streamPID subPathID ++ attrBits E self) := by
  obtain ⟨w1, h1, h2⟩ := bind_eq_ok _ _ _ h
  have e1 := composeStreamEntryOf_ok _ _ _ _ _ hw h1
  subst e1
  have e2 := composeStreamAttributes_ok _ _ _ _
    (by simp only [List.length_append, entryBits_length]; omega) h2
  rw [e2, List.append_assoc]

end MPLSStreamInfo

namespace MPLSParser

open BitStreamWriter MPLSStreamInfo

theorem pure_eq_ok {ε α : Type} (a b : α) (h : (pure a : Except ε α) = .ok b) : a = b := by
  injection h

theorem composeSTN_video_extends (E : StreamTypeCodes) (streamInfo : List MPLSStreamInfo)
    (w w' : BitStreamWriter) (hw : w.length % 8 = 0)
    (h : composeSTN_video E streamInfo w = .ok w') : Extends w w' := by
  unfold composeSTN_video at h
  refine foldlM_inv (fun s => Extends w s) _ streamInfo w w' (Extends.refl w) ?_ h
  intro s i s' _ hs hf
  have hsa := hs.length_mod hw
  dsimp only at hf
  by_cases hc : isVideoStreamType E i.stream_coding_type = true ∧ ¬i.isSecondary = true ∧ i.HDR ≠ 4
  · rw [if_pos hc] at hf
    obtain ⟨w1, h1, h2⟩ := bind_eq_ok _ _ _ hf
    have e1 := composeStreamEntryOf_ok _ _ _ _ _ hsa h1
    obtain ⟨w2, h3, h4⟩ := bind_eq_ok _ _ _ h2
    have hw1 : w1.length % 8 = 0 := by
      rw [e1]; simp only [List.length_append, entryBits_length]; omega
    have e2 := composeStreamAttributes_ok _ _ _ _ hw1 h3
    have x2 : Extends w w2 := by
      rw [e2, e1]
      exact (hs.append _ (by rw [entryBits_length])).append _ (by rw [attrBits_length])
    split_ifs at h4
    · rw [← pure_eq_ok _ _ h4]
      simp only [putBits, List.append_assoc]
      exact x2.append _ (by simp)
    · rw [← pure_eq_ok _ _ h4]
      exact x2
  · rw [if_neg hc] at hf
    rw [← pure_eq_ok _ _ hf]
    exact hs

theorem entry_attr_bind {β : Type} (E : StreamTypeCodes) (i : MPLSStreamInfo) (subPathID : Nat)
    (w : BitStreamWriter) (k : BitStreamWriter → Composed β) (b : β) (hw : w.length % 8 = 0)
    (h : (i.composeStreamEntry w subPathID >>= fun w1 =>
      MPLSStreamInfo.composeStreamAttributes E i w1 >>= k) = .ok b) :
    k (w ++ (entryBits i.type i.streamPID subPathID ++ attrBits E i)) = .ok b := by
  obtain ⟨w1, h1, h2⟩ := bind_eq_ok _ _ _ h
  have e1 := composeStreamEntryOf_ok _ _ _ _ _ hw h1
  subst e1
  obtain ⟨w2, h3, h4⟩ := bind_eq_ok _ _ _ h2
  have e2 := composeStreamAttributes_ok _ _ _ _
    (by simp only [List.length_append, entryBits_length]; omega) h3
  subst e2
  rw [← List.append_assoc]
  exact h4

theorem entry_attr_length (E : StreamTypeCodes) (i : MPLSStreamInfo) (subPathID : Nat) :
    (entryBits i.type i.streamPID subPathID ++ attrBits E i).length % 8 = 0 := by
  simp only [List.length_append, entryBits_length, attrBits_length]

theorem composeSTN_primaryAudio_extends (E : StreamTypeCodes) (streamInfo : List MPLSStreamInfo)
    (w w' : BitStreamWriter) (hw : w.length % 8 = 0)
    (h : composeSTN_primaryAudio E streamInfo w = .ok w') : Extends w w' := by
  unfold composeSTN_primaryAudio at h
  refine foldlM_inv (fun s => Extends w s) _ streamInfo w w' (Extends.refl w) ?_ h
  intro s i s' _ hs hf
  have hsa := hs.length_mod hw
  dsimp only at hf
  by_cases hc : isAudioStreamType E i.stream_coding_type = true ∧ ¬i.isSecondary = true
  · rw [if_pos hc] at hf
    rw [entry_attributes_ok E i 0 s s' hsa hf]
    exact hs.append _ (entry_attr_length E i 0)
  · rw [if_neg hc] at hf
    rw [← pure_eq_ok _ _ hf]
    exact hs

theorem composeSTN_PG_extends (E : StreamTypeCodes) (m_streamInfo : List MPLSStreamInfo)
    (w w' : BitStreamWriter) (hw : w.length % 8 = 0)
    (h : composeSTN_PG E m_streamInfo w false = .ok w') : Extends w w' := by
  unfold composeSTN_PG at h
  refine foldlM_inv (fun s => Extends w s) _ m_streamInfo w w' (Extends.refl w) ?_ h
  intro s i s' _ hs hf
  have hsa := hs.length_mod hw
  dsimp only at hf
  by_cases hc : i.stream_coding_type = E.SUB_PGS
  · rw [if_pos hc] at hf
    simp only [Bool.false_eq_true, if_false] at hf
    rw [entry_attributes_ok E i 0 s s' hsa hf]
    exact hs.append _ (entry_attr_length E i 0)
  · rw [if_neg hc] at hf
    rw [← pure_eq_ok _ _ hf]
    exact hs

theorem composeSTN_secondaryAudio_extends (E : StreamTypeCodes) (self : MPLSParser)
    (streamInfo : List MPLSStreamInfo) (w w' : BitStreamWriter) (hw : w.length % 8 = 0)
    (h : composeSTN_secondaryAudio E self streamInfo w = .ok w') : Extends w w' := by
  unfold composeSTN_secondaryAudio at h
  refine foldlM_inv (fun s => Extends w s) _ streamInfo w w' (Extends.refl w) ?_ h
  intro s i s' _ hs hf
  have hsa := hs.length_mod hw
  dsimp only at hf
  by_cases hc : isAudioStreamType E i.stream_coding_type = true ∧ i.isSecondary = true
  · rw [if_pos hc] at hf
    have h2 := entry_attr_bind E i 0 s _ s' hsa hf
    have x2 := hs.append _ (entry_attr_length E i 0)
    split_ifs at h2
    · rw [← pure_eq_ok _ _ h2]
      refine Extends.put ?_ 8 0 rfl
      refine foldl_inv (fun st : BitStreamWriter × Nat => Extends w st.1) _ streamInfo _ ?_ ?_
      · exact (x2.put 8 _ rfl).put 8 0 rfl
      · intro st j _ hst
        dsimp only
        split_ifs
        · exact hst.put 8 _ rfl
        · exact hst
    · rw [← pure_eq_ok _ _ h2]
      refine foldl_inv (fun st : BitStreamWriter × Nat => Extends w st.1) _ streamInfo _ ?_ ?_
      · exact (x2.put 8 _ rfl).put 8 0 rfl
      · intro st j _ hst
        dsimp only
        split_ifs
        · exact hst.put 8 _ rfl
        · exact hst
    · rw [← pure_eq_ok _ _ h2]
      exact x2.put 16 0 rfl
  · rw [if_neg hc] at hf
    rw [← pure_eq_ok _ _ hf]
    exact hs

theorem composeSTN_secondaryVideo_extends (E : StreamTypeCodes) (self : MPLSParser)
    (streamInfo : List MPLSStreamInfo) (w : BitStreamWriter)
    (st : List MPLSStreamInfo × BitStreamWriter × Nat) (hw : w.length % 8 = 0)
    (h : composeSTN_secondaryVideo E self streamInfo w = .ok st) : Extends w st.2.1 := by
  unfold composeSTN_secondaryVideo at h
  refine foldlM_inv (fun s : List MPLSStreamInfo × BitStreamWriter × Nat => Extends w s.2.1) _
    streamInfo _ st (Extends.refl w) ?_ h
  rintro ⟨done, s, n⟩ i s' _ hs hf
  have hs : Extends w s := hs
  have hsa := hs.length_mod hw
  dsimp only at hf
  by_cases hc : i.isSecondary = true ∧ isVideoStreamType E i.stream_coding_type = true
  · rw [if_pos hc] at hf
    have h2 := entry_attr_bind E { i with type := 3 } n s _ s' hsa hf
    have x2 := hs.append _ (entry_attr_length E { i with type := 3 } n)
    rw [← pure_eq_ok _ _ h2]
    dsimp only
    split_ifs <;>
      first
        | exact (((((x2.put 8 _ rfl).put 8 0 rfl).put 8 _ rfl).put 8 0 rfl).put 8 0 rfl).put 8 0 rfl
        | exact (((x2.put 8 _ rfl).put 8 0 rfl).put 8 0 rfl).put 8 0 rfl
  · rw [if_neg hc] at hf
    rw [← pure_eq_ok _ _ hf]
    exact hs

theorem composeSTN_DV_extends (E : StreamTypeCodes) (streamInfo : List MPLSStreamInfo)
    (w : BitStreamWriter) (st : List MPLSStreamInfo × BitStreamWriter) (hw : w.length % 8 = 0)
    (h : composeSTN_DV E streamInfo w = .ok st) : Extends w st.2 := by
  unfold composeSTN_DV at h
  refine foldlM_inv (fun s : List MPLSStreamInfo × BitStreamWriter => Extends w s.2) _
    streamInfo _ st (Extends.refl w) ?_ h
  rintro ⟨done, s⟩ i s' _ hs hf
  have hs : Extends w s := hs
  have hsa := hs.length_mod hw
  dsimp only at hf
  by_cases hc : isVideoStreamType E i.stream_coding_type = true ∧ i.HDR = 4
  · rw [if_pos hc] at hf
    have h2 := entry_attr_bind E { i with type := 4 } 0 s _ s' hsa hf
    rw [← pure_eq_ok _ _ h2]
    exact hs.append _ (entry_attr_length E { i with type := 4 } 0)
  · rw [if_neg hc] at hf
    rw [← pure_eq_ok _ _ hf]
    exact hs

theorem composeSTN_entries_extends (E : StreamTypeCodes) (self : MPLSParser)
    (streamInfo : List MPLSStreamInfo) (w : BitStreamWriter)
    (st : List MPLSStreamInfo × BitStreamWriter) (hw : w.length % 8 = 0)
    (h : composeSTN_entries E self streamInfo w false = .ok st) : Extends w st.2 := by
  unfold composeSTN_entries at h
  obtain ⟨w1, h1, h⟩ := bind_eq_ok _ _ _ h
  have x1 := composeSTN_video_extends E _ _ _ hw h1
  obtain ⟨w2, h2, h⟩ := bind_eq_ok _ _ _ h
  have x2 := composeSTN_primaryAudio_extends E _ _ _ (x1.length_mod hw) h2
  obtain ⟨w3, h3, h⟩ := bind_eq_ok _ _ _ h
  have x3 := composeSTN_PG_extends E _ _ _ (x2.length_mod (x1.length_mod hw)) h3
  have a3 := x3.length_mod (x2.length_mod (x1.length_mod hw))
  obtain ⟨w4, h4, h⟩ := bind_eq_ok _ _ _ h
  have x4 := composeSTN_secondaryAudio_extends E _ _ _ _ a3 h4
  have a4 := x4.length_mod a3
  obtain ⟨st5, h5, h⟩ := bind_eq_ok _ _ _ h
  have x5 := composeSTN_secondaryVideo_extends E _ _ _ _ a4 h5
  have a5 := x5.length_mod a4
  have x6 := composeSTN_DV_extends E _ _ _ a5 h
  exact x1.trans (x2.trans (x3.trans (x4.trans (x5.trans x6))))

open BitStreamWriter MPLSStreamInfo

theorem countStreams_cons (E : StreamTypeCodes) (x : MPLSStreamInfo) (t : List MPLSStreamInfo)
    (self : MPLSParser) :
    countStreams E (x :: t) self = (countStreams E [x] self >>= fun s => countStreams E t s) := by
  unfold countStreams
  rw [List.foldlM_cons, List.foldlM_cons]
  simp only [List.foldlM_nil, bind_pure]

theorem countStreams_single_error (E : StreamTypeCodes) (x : MPLSStreamInfo) (self : MPLSParser)
    (hx : ¬ Supported E x) :
    countStreams E [x] self = .error (Exc.VodCoreException ErrMsg.emptyMessage) := by
  simp only [Supported, not_or, Bool.not_eq_true] at hx
  simp only [countStreams, List.foldlM_cons, List.foldlM_nil, bind_pure, hx.1, hx.2.1,
    hx.2.2, if_false, Bool.false_eq_true]

theorem countStreams_single_ok (E : StreamTypeCodes) (x : MPLSStreamInfo) (self : MPLSParser)
    (hx : Supported E x) : ∃ s, countStreams E [x] self = .ok s := by
  simp only [countStreams, List.foldlM_cons, List.foldlM_nil, bind_pure]
  split_ifs with h1 h2 h3 h4 h5 h6
  all_goals first
    | exact ⟨_, rfl⟩
    | exact absurd hx (by simp only [Supported, not_or]; exact ⟨h1, h4, h6⟩)

theorem countStreams_error (E : StreamTypeCodes) (l : List MPLSStreamInfo) :
    ∀ self : MPLSParser, (∃ i ∈ l, ¬ Supported E i) →
      countStreams E l self = .error (Exc.VodCoreException ErrMsg.emptyMessage) := by
  induction l with
  | nil => rintro self ⟨i, hi, _⟩; cases hi
  | cons x t ih =>
    rintro self ⟨i, hi, hbad⟩
    rw [countStreams_cons]
    by_cases hx : Supported E x
    · have ht : ∃ i ∈ t, ¬ Supported E i := by
        rcases List.mem_cons.1 hi with rfl | h
        · exact absurd hx hbad
        · exact ⟨i, h, hbad⟩
      obtain ⟨s, hs⟩ := countStreams_single_ok E x self hx
      rw [hs]
      exact ih s ht
    · rw [countStreams_single_error E x self hx]
      rfl

theorem countStreams_single_counts (E : StreamTypeCodes) (x : MPLSStreamInfo)
    (self s : MPLSParser) (h : countStreams E [x] self = .ok s) :
    CountersAdvanced E [x] self s := by
  simp only [countStreams, List.foldlM_cons, List.foldlM_nil, bind_pure] at h
  unfold CountersAdvanced primaryVideoCount primaryAudioCount pgCount secondaryAudioCount
    secondaryVideoCount dolbyVisionCount
  simp only [List.countP_cons, List.countP_nil, Nat.zero_add]
  generalize isVideoStreamType E x.stream_coding_type = v at h ⊢
  generalize isAudioStreamType E x.stream_coding_type = a at h ⊢
  generalize x.isSecondary = sec at h ⊢
  by_cases hd : x.HDR = 4 <;> by_cases hp : x.stream_coding_type = E.SUB_PGS <;>
    cases v <;> cases a <;> cases sec <;>
    simp only [hd, hp, Bool.false_eq_true, if_false, if_true, Bool.not_true, Bool.not_false] at h <;>
    cases h <;> simp [hd, hp]

theorem counts_cons (E : StreamTypeCodes) (x : MPLSStreamInfo) (t : List MPLSStreamInfo) :
    primaryVideoCount E (x :: t) = primaryVideoCount E [x] + primaryVideoCount E t ∧
    primaryAudioCount E (x :: t) = primaryAudioCount E [x] + primaryAudioCount E t ∧
    pgCount E (x :: t) = pgCount E [x] + pgCount E t ∧
    secondaryAudioCount E (x :: t) = secondaryAudioCount E [x] + secondaryAudioCount E t ∧
    secondaryVideoCount E (x :: t) = secondaryVideoCount E [x] + secondaryVideoCount E t ∧
    dolbyVisionCount E (x :: t) = dolbyVisionCount E [x] + dolbyVisionCount E t := by
  unfold primaryVideoCount primaryAudioCount pgCount secondaryAudioCount
    secondaryVideoCount dolbyVisionCount
  simp only [List.countP_cons, List.countP_nil, Nat.zero_add]
  omega

theorem countStreams_counts (E : StreamTypeCodes) (l : List MPLSStreamInfo) :
    ∀ self s : MPLSParser, countStreams E l self = .ok s → CountersAdvanced E l self s := by
  induction l with
  | nil =>
    intro self s h
    have e : self = s := pure_eq_ok _ _ h
    subst e
    simp [CountersAdvanced, primaryVideoCount, primaryAudioCount, pgCount, secondaryAudioCount,
      secondaryVideoCount, dolbyVisionCount]
  | cons x t ih =>
    intro self s h
    rw [countStreams_cons] at h
    obtain ⟨s1, h1, h2⟩ := bind_eq_ok _ _ _ h
    have a := countStreams_single_counts E x self s1 h1
    have b := ih s1 s h2
    have c := counts_cons E x t
    unfold CountersAdvanced at a b ⊢
    refine ⟨?_, ?_, ?_, ?_, ?_, ?_, ?_⟩
    · omega
    · omega
    · omega
    · omega
    · omega
    · omega
    · rw [b.2.2.2.2.2.2, a.2.2.2.2.2.2]

theorem countStreams_supported (E : StreamTypeCodes) (l : List MPLSStreamInfo)
    (self s : MPLSParser) (h : countStreams E l self = .ok s) : ∀ i ∈ l, Supported E i := by
  intro i hi
  by_contra hbad
  rw [countStreams_error E l self ⟨i, hi, hbad⟩] at h
  cases h

theorem counts_sum (E : StreamTypeCodes) (l : List MPLSStreamInfo)
    (h : ∀ i ∈ l, Supported E i) :
    primaryVideoCount E l + primaryAudioCount E l + pgCount E l + secondaryAudioCount E l +
      secondaryVideoCount E l + dolbyVisionCount E l = l.length := by
  induction l with
  | nil => rfl
  | cons x t ih =>
    have c := counts_cons E x t
    have iht := ih (fun i hi => h i (List.mem_cons_of_mem _ hi))
    have hx := h x (List.mem_cons_self _ _)
    have one : primaryVideoCount E [x] + primaryAudioCount E [x] + pgCount E [x] +
        secondaryAudioCount E [x] + secondaryVideoCount E [x] + dolbyVisionCount E [x] = 1 := by
      unfold Supported at hx
      unfold primaryVideoCount primaryAudioCount pgCount secondaryAudioCount
        secondaryVideoCount dolbyVisionCount
      simp only [List.countP_cons, List.countP_nil, Nat.zero_add]
      generalize isVideoStreamType E x.stream_coding_type = v at hx ⊢
      generalize isAudioStreamType E x.stream_coding_type = a at hx ⊢
      generalize x.isSecondary = sec at hx ⊢
      by_cases hd : x.HDR = 4 <;> by_cases hp : x.stream_coding_type = E.SUB_PGS <;>
        cases v <;> cases a <;> cases sec <;> simp [hd, hp] at hx ⊢
    rw [List.length_cons]
    omega

open BitStreamWriter MPLSStreamInfo

theorem composeSTN_table_error (E : StreamTypeCodes) (self : MPLSParser) (w : BitStreamWriter)
    (isSSEx : Bool)
    (h : ∃ i ∈ (if isSSEx then self.m_streamInfoMVC else self.m_streamInfo), ¬ Supported E i) :
    composeSTN_table E self w isSSEx
      = .error (Exc.VodCoreException ErrMsg.emptyMessage, w ++ natBits 32 0) := by
  unfold composeSTN_table
  dsimp only
  rw [countStreams_error E _ _ h]
  simp only [putBits, putBit, List.append_assoc]
  rfl

theorem composeSTN_counts_eq (E : StreamTypeCodes) (l : List MPLSStreamInfo)
    (self s : MPLSParser) (w : BitStreamWriter)
    (hc : CountersAdvanced E l self s)
    (h0 : self.number_of_primary_video_stream_entries = 0 ∧
      self.number_of_primary_audio_stream_entries = 0 ∧
      self.number_of_PG_textST_stream_entries = 0 ∧
      self.number_of_secondary_audio_stream_entries = 0 ∧
      self.number_of_secondary_video_stream_entries = 0 ∧
      self.number_of_DolbyVision_video_stream_entries = 0) :
    composeSTN_counts s w = w ++ (countBits E l ++ natBits 32 0) := by
  obtain ⟨c1, c2, c3, c4, c5, c6, _⟩ := hc
  obtain ⟨z1, z2, z3, z4, z5, z6⟩ := h0
  rw [z1, Nat.zero_add] at c1
  rw [z2, Nat.zero_add] at c2
  rw [z3, Nat.zero_add] at c3
  rw [z4, Nat.zero_add] at c4
  rw [z5, Nat.zero_add] at c5
  rw [z6, Nat.zero_add] at c6
  simp only [composeSTN_counts, putBits, countBits, c1, c2, c3, c4, c5, c6, List.append_assoc]

theorem composeSTN_table_layout (E : StreamTypeCodes) (self self' : MPLSParser)
    (w out : BitStreamWriter) (hw : w.length % 8 = 0)
    (h : composeSTN_table E self w false = .ok (self', out)) :
    (∀ i ∈ self.m_streamInfo, Supported E i) ∧
    (self'.number_of_primary_video_stream_entries = primaryVideoCount E self.m_streamInfo ∧
      self'.number_of_primary_audio_stream_entries = primaryAudioCount E self.m_streamInfo ∧
      self'.number_of_PG_textST_stream_entries = pgCount E self.m_streamInfo ∧
      self'.number_of_secondary_audio_stream_entries = secondaryAudioCount E self.m_streamInfo ∧
      self'.number_of_secondary_video_stream_entries = secondaryVideoCount E self.m_streamInfo ∧
      self'.number_of_DolbyVision_video_stream_entries
        = dolbyVisionCount E self.m_streamInfo) ∧
    ∃ (len : Nat) (rest : List Bool),
      out = w ++ natBits 16 len ++ natBits 16 0 ++ countBits E self.m_streamInfo ++
        natBits 32 0 ++ rest := by
  unfold composeSTN_table at h
  dsimp only at h
  simp only [Bool.false_eq_true, if_false] at h
  split at h
  · cases h
  · rename_i s hs
    have hc := countStreams_counts E _ _ _ hs
    have hsup := countStreams_supported E _ _ _ hs
    refine ⟨hsup, ?_⟩
    split at h
    · cases h
    · rename_i si wr he
      simp only [Bool.not_false, if_true] at he
      rw [composeSTN_counts_eq E _ _ s _ hc ⟨rfl, rfl, rfl, rfl, rfl, rfl⟩] at he
      have hpre : (putBits (putBit (putBits w 16 0) 0) 15 0) = w ++ natBits 32 0 := by
        simp only [putBits, putBit, List.append_assoc]
        rfl
      rw [hpre] at he
      have x := composeSTN_entries_extends E s _ _ (si, wr)
        (by simp [countBits]; omega) he
      obtain ⟨X, hX, _⟩ := x
      have hX : wr = w ++ natBits 32 0 ++ (countBits E self.m_streamInfo ++ natBits 32 0) ++ X := hX
      injection h with h
      injection h with h1 h2
      subst h1
      obtain ⟨c1, c2, c3, c4, c5, c6, _⟩ := hc
      refine ⟨⟨by simpa using c1, by simpa using c2, by simpa using c3, by simpa using c4,
        by simpa using c5, by simpa using c6⟩, ?_⟩
      simp only [false_and, if_false] at h2
      obtain ⟨m, hm⟩ : ∃ m, w.length = 8 * m := ⟨w.length / 8, by omega⟩
      have hdiv : getBitsCount w / 8 = m := by simp only [getBitsCount]; omega
      have h32 : natBits 32 0 = natBits 16 0 ++ natBits 16 0 := rfl
      rw [hdiv, hX, h32] at h2
      simp only [List.append_assoc] at h2
      rw [CLPIParser.store_shift0 _ _ m _ _ hm, storeB_zero,
        drop_natBits_append _ _ _ _ (by omega)] at h2
      simp only [Nat.reduceMul, Nat.sub_self, List.drop_zero] at h2
      generalize (_ % 2 ^ 16) = len at h2
      refine ⟨len, X, ?_⟩
      rw [← h2, h32]
      simp only [List.append_assoc]

theorem entry_attr_total {β : Type} (E : StreamTypeCodes) (i : MPLSStreamInfo) (subPathID : Nat)
    (w : BitStreamWriter) (k : BitStreamWriter → Composed β) (hw : w.length % 8 = 0)
    (ht : EntryType i) (hs : Supported E i) :
    (i.composeStreamEntry w subPathID >>= fun w1 =>
      MPLSStreamInfo.composeStreamAttributes E i w1 >>= k)
      = k (w ++ (entryBits i.type i.streamPID subPathID ++ attrBits E i)) := by
  have ht1 : i.type = 1 ∨ i.type = 2 ∨ i.type = 3 ∨ i.type = 4 := ht
  have hs1 : isVideoStreamType E i.stream_coding_type = true ∨
      isAudioStreamType E i.stream_coding_type = true ∨ i.stream_coding_type = E.SUB_PGS := hs
  unfold MPLSStreamInfo.composeStreamEntry
  rw [composeStreamEntryOf_eq _ _ _ _ hw, if_pos ht1]
  show (MPLSStreamInfo.composeStreamAttributes E i _ >>= k) = _
  rw [composeStreamAttributes_eq _ _ _
    (by simp only [List.length_append, entryBits_length]; omega), if_pos hs1, List.append_assoc]
  rfl

theorem entry_attr_total_pure (E : StreamTypeCodes) (i : MPLSStreamInfo) (subPathID : Nat)
    (w : BitStreamWriter) (hw : w.length % 8 = 0) (ht : EntryType i) (hs : Supported E i) :
    (i.composeStreamEntry w subPathID >>= fun w1 =>
      MPLSStreamInfo.composeStreamAttributes E i w1)
      = .ok (w ++ (entryBits i.type i.streamPID subPathID ++ attrBits E i)) := by
  have ht1 : i.type = 1 ∨ i.type = 2 ∨ i.type = 3 ∨ i.type = 4 := ht
  have hs1 : isVideoStreamType E i.stream_coding_type = true ∨
      isAudioStreamType E i.stream_coding_type = true ∨ i.stream_coding_type = E.SUB_PGS := hs
  unfold MPLSStreamInfo.composeStreamEntry
  rw [composeStreamEntryOf_eq _ _ _ _ hw, if_pos ht1]
  show MPLSStreamInfo.composeStreamAttributes E i _ = _
  rw [composeStreamAttributes_eq _ _ _
    (by simp only [List.length_append, entryBits_length]; omega), if_pos hs1, List.append_assoc]

theorem aligned_entry_attr (E : StreamTypeCodes) (i : MPLSStreamInfo) (subPathID : Nat)
    (w : BitStreamWriter) (hw : w.length % 8 = 0) :
    (w ++ (entryBits i.type i.streamPID subPathID ++ attrBits E i)).length % 8 = 0 := by
  simp only [List.length_append, entryBits_length, attrBits_length]; omega

theorem composeSTN_video_total (E : StreamTypeCodes) (streamInfo : List MPLSStreamInfo)
    (w : BitStreamWriter) (hw : w.length % 8 = 0)
    (ht : ∀ i ∈ streamInfo, EntryType i) :
    ∃ w', composeSTN_video E streamInfo w = .ok w' ∧ w'.length % 8 = 0 := by
  unfold composeSTN_video
  refine foldlM_total (fun s : BitStreamWriter => s.length % 8 = 0) _ streamInfo w hw ?_
  intro s i hi hs
  dsimp only
  by_cases hc : isVideoStreamType E i.stream_coding_type = true ∧ ¬i.isSecondary = true ∧ i.HDR ≠ 4
  · rw [if_pos hc, entry_attr_total E i 0 s _ hs (ht i hi) (Or.inl hc.1)]
    have ha := aligned_entry_attr E i 0 s hs
    split_ifs
    · refine ⟨_, rfl, ?_⟩
      simp only [putBits, List.length_append, natBits_length] at ha ⊢
      omega
    · exact ⟨_, rfl, ha⟩
  · rw [if_neg hc]
    exact ⟨s, rfl, hs⟩

theorem composeSTN_primaryAudio_total (E : StreamTypeCodes) (streamInfo : List MPLSStreamInfo)
    (w : BitStreamWriter) (hw : w.length % 8 = 0)
    (ht : ∀ i ∈ streamInfo, EntryType i) :
    ∃ w', composeSTN_primaryAudio E streamInfo w = .ok w' ∧ w'.length % 8 = 0 := by
  unfold composeSTN_primaryAudio
  refine foldlM_total (fun s : BitStreamWriter => s.length % 8 = 0) _ streamInfo w hw ?_
  intro s i hi hs
  dsimp only
  by_cases hc : isAudioStreamType E i.stream_coding_type = true ∧ ¬i.isSecondary = true
  · rw [if_pos hc, entry_attr_total_pure E i 0 s hs (ht i hi) (Or.inr (Or.inl hc.1))]
    exact ⟨_, rfl, aligned_entry_attr E i 0 s hs⟩
  · rw [if_neg hc]
    exact ⟨s, rfl, hs⟩

theorem composeSTN_PG_total (E : StreamTypeCodes) (m_streamInfo : List MPLSStreamInfo)
    (w : BitStreamWriter) (hw : w.length % 8 = 0)
    (ht : ∀ i ∈ m_streamInfo, EntryType i) :
    ∃ w', composeSTN_PG E m_streamInfo w false = .ok w' ∧ w'.length % 8 = 0 := by
  unfold composeSTN_PG
  refine foldlM_total (fun s : BitStreamWriter => s.length % 8 = 0) _ m_streamInfo w hw ?_
  intro s i hi hs
  dsimp only
  by_cases hc : i.stream_coding_type = E.SUB_PGS
  · rw [if_pos hc]
    simp only [Bool.false_eq_true, if_false]
    rw [entry_attr_total_pure E i 0 s hs (ht i hi) (Or.inr (Or.inr hc))]
    exact ⟨_, rfl, aligned_entry_attr E i 0 s hs⟩
  · rw [if_neg hc]
    exact ⟨s, rfl, hs⟩

theorem composeSTN_secondaryAudio_total (E : StreamTypeCodes) (self : MPLSParser)
    (streamInfo : List MPLSStreamInfo) (w : BitStreamWriter) (hw : w.length % 8 = 0)
    (ht : ∀ i ∈ streamInfo, EntryType i) :
    ∃ w', composeSTN_secondaryAudio E self streamInfo w = .ok w' ∧ w'.length % 8 = 0 := by
  unfold composeSTN_secondaryAudio
  refine foldlM_total (fun s : BitStreamWriter => s.length % 8 = 0) _ streamInfo w hw ?_
  intro s i hi hs
  dsimp only
  by_cases hc : isAudioStreamType E i.stream_coding_type = true ∧ i.isSecondary = true
  · rw [if_pos hc, entry_attr_total E i 0 s _ hs (ht i hi) (Or.inr (Or.inl hc.1))]
    have ha := aligned_entry_attr E i 0 s hs
    have hin : ∀ w0 : BitStreamWriter, w0.length % 8 = 0 →
        (streamInfo.foldl
          (fun (st : BitStreamWriter × Nat) (j : MPLSStreamInfo) =>
            if isAudioStreamType E j.stream_coding_type ∧ ¬ j.isSecondary then
              (putBits st.1 8 st.2, (st.2 + 1) % 2 ^ 8)
            else st)
          (w0, 0)).1.length % 8 = 0 := by
      intro w0 h0
      refine foldl_inv (fun st : BitStreamWriter × Nat => st.1.length % 8 = 0) _ streamInfo _ h0 ?_
      intro st j _ hst
      dsimp only
      split_ifs
      · simp only [putBits, List.length_append, natBits_length]; omega
      · exact hst
    have hin2 := hin (putBits (putBits (s ++ (entryBits i.type i.streamPID 0 ++ attrBits E i)) 8
      self.number_of_primary_audio_stream_entries) 8 0)
      (by simp only [putBits, List.length_append, natBits_length] at ha ⊢; omega)
    split_ifs
    · refine ⟨_, rfl, ?_⟩
      simp only [putBits, List.length_append, natBits_length] at hin2 ⊢
      omega
    · exact ⟨_, rfl, hin2⟩
    · refine ⟨_, rfl, ?_⟩
      simp only [putBits, List.length_append, natBits_length] at ha ⊢
      omega
  · rw [if_neg hc]
    exact ⟨s, rfl, hs⟩

theorem composeSTN_secondaryVideo_total (E : StreamTypeCodes) (self : MPLSParser)
    (streamInfo : List MPLSStreamInfo) (w : BitStreamWriter) (hw : w.length % 8 = 0) :
    ∃ st, composeSTN_secondaryVideo E self streamInfo w = .ok st ∧ st.2.1.length % 8 = 0 := by
  unfold composeSTN_secondaryVideo
  refine foldlM_total
    (fun s : List MPLSStreamInfo × BitStreamWriter × Nat => s.2.1.length % 8 = 0) _ streamInfo _
    hw ?_
  rintro ⟨done, s, n⟩ i hi hs
  have hs : s.length % 8 = 0 := hs
  dsimp only
  by_cases hc : i.isSecondary = true ∧ isVideoStreamType E i.stream_coding_type = true
  · rw [if_pos hc, entry_attr_total E { i with type := 3 } n s _ hs
      (Or.inr (Or.inr (Or.inl rfl))) (Or.inl hc.2)]
    have ha := aligned_entry_attr E { i with type := 3 } n s hs
    refine ⟨_, rfl, ?_⟩
    dsimp only
    split_ifs <;>
      (simp only [putBits, List.length_append, natBits_length] at ha ⊢
       omega)
  · rw [if_neg hc]
    exact ⟨_, rfl, hs⟩

theorem composeSTN_DV_total (E : StreamTypeCodes) (streamInfo : List MPLSStreamInfo)
    (w : BitStreamWriter) (hw : w.length % 8 = 0) :
    ∃ st, composeSTN_DV E streamInfo w = .ok st ∧ st.2.length % 8 = 0 := by
  unfold composeSTN_DV
  refine foldlM_total
    (fun s : List MPLSStreamInfo × BitStreamWriter => s.2.length % 8 = 0) _ streamInfo _ hw ?_
  rintro ⟨done, s⟩ i hi hs
  have hs : s.length % 8 = 0 := hs
  dsimp only
  by_cases hc : isVideoStreamType E i.stream_coding_type = true ∧ i.HDR = 4
  · rw [if_pos hc, entry_attr_total E { i with type := 4 } 0 s _ hs
      (Or.inr (Or.inr (Or.inr rfl))) (Or.inl hc.1)]
    exact ⟨_, rfl, aligned_entry_attr E { i with type := 4 } 0 s hs⟩
  · rw [if_neg hc]
    exact ⟨_, rfl, hs⟩

theorem composeSTN_entries_total (E : StreamTypeCodes) (self : MPLSParser)
    (streamInfo : List MPLSStreamInfo) (w : BitStreamWriter) (hw : w.length % 8 = 0)
    (ht : ∀ i ∈ streamInfo, EntryType i) (ht2 : ∀ i ∈ self.m_streamInfo, EntryType i) :
    ∃ st, composeSTN_entries E self streamInfo w false = .ok st := by
  unfold composeSTN_entries
  obtain ⟨w1, h1, a1⟩ := composeSTN_video_total E streamInfo w hw ht
  obtain ⟨w2, h2, a2⟩ := composeSTN_primaryAudio_total E streamInfo w1 a1 ht
  obtain ⟨w3, h3, a3⟩ := composeSTN_PG_total E self.m_streamInfo w2 a2 ht2
  obtain ⟨w4, h4, a4⟩ := composeSTN_secondaryAudio_total E self streamInfo w3 a3 ht
  obtain ⟨st5, h5, a5⟩ := composeSTN_secondaryVideo_total E self streamInfo w4 a4
  obtain ⟨st6, h6, _⟩ := composeSTN_DV_total E st5.1 st5.2.1 a5
  refine ⟨st6, ?_⟩
  rw [h1]
  show (composeSTN_primaryAudio E streamInfo w1 >>= _) = _
  rw [h2]
  show (composeSTN_PG E self.m_streamInfo w2 false >>= _) = _
  rw [h3]
  show (composeSTN_secondaryAudio E self streamInfo w3 >>= _) = _
  rw [h4]
  show (composeSTN_secondaryVideo E self streamInfo w4 >>= _) = _
  rw [h5]
  exact h6

theorem countStreams_total (E : StreamTypeCodes) (l : List MPLSStreamInfo) :
    ∀ self : MPLSParser, (∀ i ∈ l, Supported E i) → ∃ s, countStreams E l self = .ok s := by
  induction l with
  | nil => intro self _; exact ⟨self, rfl⟩
  | cons x t ih =>
    intro self h
    obtain ⟨s1, h1⟩ := countStreams_single_ok E x self (h x (List.mem_cons_self _ _))
    obtain ⟨s2, h2⟩ := ih s1 (fun i hi => h i (List.mem_cons_of_mem _ hi))
    refine ⟨s2, ?_⟩
    rw [countStreams_cons, h1]
    exact h2

/-- A stream list of supported streams with entry types 1 to 4 is accepted. -/
theorem composeSTN_table_accepts (E : StreamTypeCodes) (self : MPLSParser)
    (w : BitStreamWriter) (hw : w.length % 8 = 0)
    (hs : ∀ i ∈ self.m_streamInfo, Supported E i)
    (ht : ∀ i ∈ self.m_streamInfo, EntryType i) :
    ∃ r, composeSTN_table E self w false = .ok r := by
  unfold composeSTN_table
  dsimp only
  simp only [Bool.false_eq_true, if_false]
  obtain ⟨s, h1⟩ := countStreams_total E self.m_streamInfo
    { self with
      number_of_primary_video_stream_entries := 0,
      number_of_secondary_video_stream_entries := 0,
      number_of_primary_audio_stream_entries := 0,
      number_of_secondary_audio_stream_entries := 0,
      number_of_PG_textST_stream_entries := 0,
      number_of_DolbyVision_video_stream_entries := 0 } hs
  have hc := countStreams_counts E _ _ _ h1
  rw [h1]
  dsimp only
  simp only [Bool.not_false, if_true]
  obtain ⟨st, h2⟩ := composeSTN_entries_total E s self.m_streamInfo
    (composeSTN_counts s (putBits (putBit (putBits w 16 0) 0) 15 0))
    (by simp only [composeSTN_counts, putBits, putBit, List.length_append, natBits_length]; omega)
    ht (by rw [hc.2.2.2.2.2.2]; exact ht)
  rw [h2]
  exact ⟨_, rfl⟩

/-- The twelve bytes behind the 4-byte prefix of the STN table. -/
theorem composeSTN_table_bytes (E : StreamTypeCodes) (self : MPLSParser)
    (w : BitStreamWriter) (r : MPLSParser × BitStreamWriter) (hw : w.length % 8 = 0)
    (h : composeSTN_table E self w false = .ok r) :
    ((bitsToBytes r.2).drop (w.length / 8 + 4)).take 12
      = [primaryVideoCount E self.m_streamInfo % 256, primaryAudioCount E self.m_streamInfo % 256,
          pgCount E self.m_streamInfo % 256, 0, secondaryAudioCount E self.m_streamInfo % 256,
          secondaryVideoCount E self.m_streamInfo % 256, 0,
          dolbyVisionCount E self.m_streamInfo % 256, 0, 0, 0, 0] := by
  obtain ⟨self', out⟩ := r
  obtain ⟨_, _, len, rest, hout⟩ := composeSTN_table_layout E self self' w out hw h
  have hlen : (bitsToBytes w).length = w.length / 8 := bitsToBytes_length w hw
  have e : bitsToBytes out = bitsToBytes w ++
      ([len / 256 % 256, len % 256, 0, 0] ++
        ([primaryVideoCount E self.m_streamInfo % 256,
          primaryAudioCount E self.m_streamInfo % 256,
          pgCount E self.m_streamInfo % 256, 0, secondaryAudioCount E self.m_streamInfo % 256,
          secondaryVideoCount E self.m_streamInfo % 256, 0,
          dolbyVisionCount E self.m_streamInfo % 256, 0, 0, 0, 0] ++ bitsToBytes rest)) := by
    rw [hout]
    simp only [List.append_assoc, countBits]
    rw [bitsToBytes_append _ _ hw]
    simp only [bitsToBytes_natBits16, bitsToBytes_natBits8, bitsToBytes_natBits32, be32]
    simp
  show ((bitsToBytes out).drop (w.length / 8 + 4)).take 12 = _
  rw [e, ← hlen, ← List.drop_drop, List.drop_left]
  rfl

theorem manyAudio_supported (n : Nat) :
    ∀ i ∈ (manyAudio n).m_streamInfo, Supported StreamTypeCodes.standard i := by
  intro i hi
  have e : i = MPLSStreamInfo.sample 0x81 0x1100 := List.eq_of_mem_replicate hi
  rw [e]
  decide

theorem manyAudio_entryType (n : Nat) : ∀ i ∈ (manyAudio n).m_streamInfo, EntryType i := by
  intro i hi
  have e : i = MPLSStreamInfo.sample 0x81 0x1100 := List.eq_of_mem_replicate hi
  rw [e]
  decide

theorem manyAudio_counts (n : Nat) :
    primaryVideoCount StreamTypeCodes.standard (manyAudio n).m_streamInfo = 0 ∧
    primaryAudioCount StreamTypeCodes.standard (manyAudio n).m_streamInfo = n ∧
    pgCount StreamTypeCodes.standard (manyAudio n).m_streamInfo = 0 ∧
    secondaryAudioCount StreamTypeCodes.standard (manyAudio n).m_streamInfo = 0 ∧
    secondaryVideoCount StreamTypeCodes.standard (manyAudio n).m_streamInfo = 0 ∧
    dolbyVisionCount StreamTypeCodes.standard (manyAudio n).m_streamInfo = 0 := by
  simp only [manyAudio, withStreams, primaryVideoCount, primaryAudioCount, pgCount,
    secondaryAudioCount, secondaryVideoCount, dolbyVisionCount, List.countP_replicate]
  refine ⟨?_, ?_, ?_, ?_, ?_, ?_⟩ <;> rfl

end MPLSParser

namespace MPLSParser

open BitStreamWriter

theorem padTo16_of_aligned (w : BitStreamWriter) (h : w.length % 16 = 0) : padTo16 w = w := by
  unfold padTo16
  refine foldl_inv (fun s => s = w) _ _ _ rfl ?_
  intro b a _ hb
  subst hb
  simp only [getBitsCount, h, ne_eq, not_true_eq_false, if_false]

/-- The entry `composePip_entry` writes at a 16-bit boundary of the writer,
for an address position inside the writer. -/
theorem composePip_entry_eq (M : PIPMethods) (self : MPLSParser) (pmtIndexList : List PMTIndex)
    (mainHSize mainVSize : Nat) (w : BitStreamWriter) (i : Nat) (pipStream : MPLSStreamInfo)
    (addressPos : Nat) (hw : w.length % 16 = 0) (hpos : 8 * addressPos + 8 * 4 ≤ w.length) :
    composePip_entry M self pmtIndexList mainHSize mainVSize w i pipStream addressPos
      = store w addressPos 4 ((getBitsCount w / 8) % 2 ^ 32) ++
          (natBits 16 1 ++ natBits 32 (pipEntryTime self pmtIndexList i)) ++
          (natBits 12 (pipPosition M mainHSize mainVSize pipStream).1 ++
            natBits 12 (pipPosition M mainHSize mainVSize pipStream).2 ++
            natBits 4 pipStream.pipParams.scaleIndex ++ natBits 4 0) := by
  have hl := store_length w addressPos 4 ((getBitsCount w / 8) % 2 ^ 32) hpos
  unfold composePip_entry
  dsimp only
  rw [padTo16_of_aligned]
  · simp only [putBits, pipEntryTime, List.append_assoc]
    split_ifs <;> simp only [List.append_assoc]
  · split_ifs <;>
      (simp only [putBits, List.length_append, natBits_length, hl]
       omega)

end MPLSParser

namespace MPLSParser

open BitStreamWriter

theorem store_word (A R : List Bool) (x v q : Nat) (hA : A.length = 8 * q) :
    store (A ++ (natBits 32 x ++ R)) q 4 v = A ++ (natBits 32 v ++ R) := by
  rw [CLPIParser.store_shift0 _ _ q _ _ hA, storeB_zero,
    drop_natBits_append _ _ _ _ (Nat.le_refl _)]
  simp

theorem extEntryBits_length (b : ExtDataBlockInfo) (start : Nat) :
    (extEntryBits b start).length = 96 := by
  simp [extEntryBits]

theorem extTableBits0_length (blocks : List ExtDataBlockInfo) :
    (extTableBits0 blocks).length = 96 * blocks.length := by
  induction blocks with
  | nil => rfl
  | cons b bs ih =>
    simp only [extTableBits0, List.flatMap_cons, List.length_append, extEntryBits_length,
      List.length_cons] at ih ⊢
    omega

theorem extTableBits_length (start : Nat) (blocks : List ExtDataBlockInfo) :
    (extTableBits start blocks).length = 96 * blocks.length := by
  induction blocks generalizing start with
  | nil => rfl
  | cons b bs ih =>
    have := ih (start + b.data.length)
    simp only [extTableBits, extStarts, List.zip_cons_cons, List.flatMap_cons,
      List.length_append, extEntryBits_length, List.length_cons] at this ⊢
    omega

theorem extDataBits_length (blocks : List ExtDataBlockInfo) :
    (extDataBits blocks).length = 8 * extDataSize blocks := by
  induction blocks with
  | nil => rfl
  | cons b bs ih =>
    simp only [extDataBits, extDataSize, List.flatMap_cons, List.length_append,
      bytesToBits_length, List.map_cons, List.sum_cons] at ih ⊢
    omega

/-- The first loop of `composeExtensionData`. -/
theorem extTable_phase1 (blocks : List ExtDataBlockInfo) :
    ∀ (W : BitStreamWriter) (acc : List Nat) (q : Nat), W.length = 8 * q →
      blocks.foldl
          (fun (st : BitStreamWriter × List Nat) (b : ExtDataBlockInfo) =>
            let (writer, extDataStartAddrPos) := st
            let writer := putBits writer 16 b.id1
            let writer := putBits writer 16 b.id2
            let extDataStartAddrPos := extDataStartAddrPos ++ [getBitsCount writer / 8]
            let writer := putBits writer 32 0
            let writer := putBits writer 32 (b.data.length % 2 ^ 32)
            (writer, extDataStartAddrPos))
          (W, acc)
        = (W ++ extTableBits0 blocks, acc ++ extPositions q blocks) := by
  induction blocks with
  | nil => intro W acc q _; simp [extTableBits0, extPositions]
  | cons b bs ih =>
    intro W acc q hW
    rw [List.foldl_cons]
    dsimp only
    rw [ih _ _ (q + 12) (by simp only [putBits, List.length_append, natBits_length]; omega)]
    have hp : getBitsCount (putBits (putBits W 16 b.id1) 16 b.id2) / 8 = q + 4 := by
      simp only [getBitsCount, putBits, List.length_append, natBits_length]; omega
    rw [hp]
    simp only [putBits, extTableBits0, List.flatMap_cons, extEntryBits, extPositions,
      List.append_assoc, natBits_mod, List.singleton_append]

/-- The second loop of `composeExtensionData`, on a writer that holds `A`,
the table entries still to be patched and the data `B` written so far. -/
theorem extTable_phase2 (initPos : Nat) (blocks : List ExtDataBlockInfo) :
    ∀ (A B : List Bool) (q : Nat), A.length = 8 * q → B.length % 8 = 0 → initPos ≤ q →
      (blocks.zip (extPositions q blocks)).foldl
          (fun writer (e : ExtDataBlockInfo × Nat) =>
            let writer := store writer e.2 4 ((getBitsCount writer / 8 - initPos + 4) % 2 ^ 32)
            e.1.data.foldl (fun writer j => putBits writer 8 j) writer)
          (A ++ (extTableBits0 blocks ++ B))
        = A ++ (extTableBits (q + 12 * blocks.length + B.length / 8 - initPos + 4) blocks ++
            (B ++ extDataBits blocks)) := by
  induction blocks with
  | nil => intro A B q _ _ _; simp [extTableBits0, extTableBits, extDataBits, extPositions]
  | cons b bs ih =>
    intro A B q hA hB hq
    simp only [extPositions, List.zip_cons_cons, List.foldl_cons]
    have hdata : ∀ (W : List Bool) (d : List Nat),
        d.foldl (fun writer j => putBits writer 8 j) W = W ++ bytesToBits d := by
      intro W d
      induction d generalizing W with
      | nil => simp [bytesToBits]
      | cons x t iht => rw [List.foldl_cons, iht]; simp [putBits, bytesToBits]
    rw [hdata]
    have hlen : getBitsCount (A ++ (extTableBits0 (b :: bs) ++ B)) / 8
        = q + 12 * (bs.length + 1) + B.length / 8 := by
      simp only [getBitsCount, List.length_append, extTableBits0_length, List.length_cons, hA]
      omega
    rw [hlen]
    have hsplit : A ++ (extTableBits0 (b :: bs) ++ B)
        = (A ++ (natBits 16 b.id1 ++ natBits 16 b.id2)) ++
            (natBits 32 0 ++ (natBits 32 b.data.length ++ (extTableBits0 bs ++ B))) := by
      simp only [extTableBits0, List.flatMap_cons, extEntryBits, List.append_assoc]
    rw [hsplit, store_word _ _ _ _ (q + 4)
      (by simp only [List.length_append, natBits_length, hA]; omega)]
    have hre : A ++ (natBits 16 b.id1 ++ natBits 16 b.id2) ++
          (natBits 32 ((q + 12 * (bs.length + 1) + B.length / 8 - initPos + 4) % 2 ^ 32) ++
            (natBits 32 b.data.length ++ (extTableBits0 bs ++ B))) ++ bytesToBits b.data
        = (A ++ extEntryBits b (q + 12 * (bs.length + 1) + B.length / 8 - initPos + 4)) ++
            (extTableBits0 bs ++ (B ++ bytesToBits b.data)) := by
      simp only [extEntryBits, List.append_assoc, natBits_mod]
    rw [hre, ih _ _ (q + 12)
      (by simp only [List.length_append, extEntryBits_length, hA]; omega)
      (by simp only [List.length_append, bytesToBits_length]; omega) (by omega)]
    have hs : q + 12 + 12 * bs.length + (B ++ bytesToBits b.data).length / 8 - initPos + 4
        = q + 12 * (bs.length + 1) + B.length / 8 - initPos + 4 + b.data.length := by
      simp only [List.length_append, bytesToBits_length]
      omega
    rw [hs]
    simp only [extTableBits, extStarts, List.zip_cons_cons, List.flatMap_cons, extDataBits,
      List.length_cons, List.append_assoc]

theorem alignExtLoop_aligned (initPos : Nat) (W : BitStreamWriter)
    (h : (getBitsCount W / 8 - initPos) % 4 = 0) : alignExtLoop initPos 3 W = some W := by
  rw [alignExtLoop, if_neg (by simpa using h)]

/-- The block `composeExtensionData` writes at a byte boundary of the writer. -/
theorem composeExtensionData_eq (w : BitStreamWriter) (blocks : List ExtDataBlockInfo)
    (hw : w.length % 8 = 0) (hn : blocks.length < 2 ^ 32) :
    composeExtensionData w blocks = some (w ++ extensionDataBits blocks) := by
  obtain ⟨m, hm⟩ : ∃ m, w.length = 8 * m := ⟨w.length / 8, by omega⟩
  have hdiv : getBitsCount w / 8 = m := by simp only [getBitsCount]; omega
  unfold composeExtensionData extensionDataBits
  dsimp only
  cases hb : blocks.isEmpty
  · simp only [Bool.not_false, if_true, Bool.false_eq_true, if_false]
    rw [Nat.mod_eq_of_lt hn, List.take_length]
    have hW : (putBits (putBits (putBits (putBits w 32 0) 32 0) 24 0) 8 blocks.length).length
        = 8 * (m + 12) := by
      simp only [putBits, List.length_append, natBits_length, hm]
      omega
    rw [extTable_phase1 blocks _ [] (m + 12) hW]
    dsimp only
    have hinit : getBitsCount (putBits w 32 0) / 8 = m + 4 := by
      simp only [getBitsCount, putBits, List.length_append, natBits_length]; omega
    rw [hinit, hdiv]
    have hlen1 : getBitsCount
        (putBits (putBits (putBits (putBits w 32 0) 32 0) 24 0) 8 blocks.length ++
          extTableBits0 blocks) / 8 = m + 12 + 12 * blocks.length := by
      simp only [getBitsCount, List.length_append, hW, extTableBits0_length]; omega
    rw [alignExtLoop_aligned _ _ (by rw [hlen1]; omega)]
    simp only [Option.bind_eq_bind, Option.some_bind, Option.pure_def, hlen1, List.nil_append]
    have hsplit : putBits (putBits (putBits (putBits w 32 0) 32 0) 24 0) 8 blocks.length ++
          extTableBits0 blocks
        = (w ++ natBits 32 0) ++ (natBits 32 0 ++
            ((natBits 24 0 ++ natBits 8 blocks.length) ++ extTableBits0 blocks)) := by
      simp only [putBits, List.append_assoc]
    rw [hsplit, store_word _ _ _ _ (m + 4)
      (by simp only [List.length_append, natBits_length, hm]; omega)]
    have hre : w ++ natBits 32 0 ++
          (natBits 32 ((m + 12 + 12 * blocks.length - (m + 4) + 4) % 2 ^ 32) ++
            (natBits 24 0 ++ natBits 8 blocks.length ++ extTableBits0 blocks))
        = (w ++ natBits 32 0 ++ natBits 32 (12 * (blocks.length + 1)) ++ natBits 24 0 ++
            natBits 8 blocks.length) ++ (extTableBits0 blocks ++ []) := by
      simp only [List.append_assoc, List.append_nil, natBits_mod]
      congr 3
      · congr 1
        omega
    rw [hre, extTable_phase2 (m + 4) blocks _ [] (m + 12)
      (by simp only [List.length_append, natBits_length, hm]; omega) rfl (by omega)]
    simp only [List.length_nil, Nat.zero_div, Nat.add_zero, List.nil_append]
    have hst : m + 12 + 12 * blocks.length - (m + 4) + 4 = 12 * (blocks.length + 1) := by omega
    rw [hst]
    have hfin : getBitsCount
        (w ++ natBits 32 0 ++ natBits 32 (12 * (blocks.length + 1)) ++ natBits 24 0 ++
          natBits 8 blocks.length ++
            (extTableBits (12 * (blocks.length + 1)) blocks ++ extDataBits blocks)) / 8
        = m + 12 + 12 * blocks.length + extDataSize blocks := by
      simp only [getBitsCount, List.length_append, natBits_length, extTableBits_length,
        extDataBits_length, hm]
      omega
    rw [hfin]
    simp only [List.append_assoc]
    rw [store_word _ _ _ _ m hm, natBits_mod]
    congr 3
    congr 1
    omega
  · simp only [Bool.not_true, Bool.false_eq_true, if_false, if_true, Option.pure_def]
    rw [hdiv]
    simp only [putBits]
    rw [← List.append_nil (natBits 32 0), store_word _ _ _ _ m hm, natBits_mod]
    congr 3
    simp only [getBitsCount, List.length_append, natBits_length, List.append_nil]
    congr 1
    omega

theorem extStarts_append (start : Nat) (pre post : List ExtDataBlockInfo) :
    extStarts start (pre ++ post) = extStarts start pre ++ extStarts (start + extDataSize pre) post := by
  induction pre generalizing start with
  | nil => simp [extStarts, extDataSize]
  | cons b bs ih =>
    have e : extDataSize (b :: bs) = b.data.length + extDataSize bs := by
      simp [extDataSize]
    rw [List.cons_append, extStarts, ih, e, extStarts, Nat.add_assoc, List.cons_append]

theorem extStarts_length (start : Nat) (blocks : List ExtDataBlockInfo) :
    (extStarts start blocks).length = blocks.length := by
  induction blocks generalizing start with
  | nil => rfl
  | cons b bs ih => simp only [extStarts, List.length_cons, ih]

/-- The start address of the block behind the blocks `pre`. -/
theorem extStarts_getD (start : Nat) (pre post : List ExtDataBlockInfo) (b : ExtDataBlockInfo) :
    (extStarts start (pre ++ b :: post)).getD pre.length 0 = start + extDataSize pre := by
  rw [extStarts_append, List.getD_eq_getElem?_getD,
    List.getElem?_append_right (by rw [extStarts_length]), extStarts_length, Nat.sub_self,
    extStarts]
  simp

/-- The data of the block behind the blocks `pre` lies at its start address. -/
theorem extensionDataBits_data (pre post : List ExtDataBlockInfo) (b : ExtDataBlockInfo) :
    ∃ H T : List Bool,
      extensionDataBits (pre ++ b :: post) = H ++ bytesToBits b.data ++ T ∧
      H.length = 8 * (12 * ((pre ++ b :: post).length + 1) + extDataSize pre) := by
  refine ⟨natBits 32 (8 + 12 * (pre ++ b :: post).length + extDataSize (pre ++ b :: post)) ++
      natBits 32 (12 * ((pre ++ b :: post).length + 1)) ++ natBits 24 0 ++
      natBits 8 (pre ++ b :: post).length ++
      extTableBits (12 * ((pre ++ b :: post).length + 1)) (pre ++ b :: post) ++ extDataBits pre,
    extDataBits post, ?_, ?_⟩
  · have hne : (pre ++ b :: post).isEmpty = false := by
      cases pre <;> rfl
    simp only [extensionDataBits, hne, Bool.false_eq_true, if_false, extDataBits,
      List.flatMap_append, List.flatMap_cons, List.append_assoc]
  · simp only [List.length_append, natBits_length, extTableBits_length, extDataBits_length,
      List.length_cons]
    omega

theorem extensionDataBits_length (blocks : List ExtDataBlockInfo) (h : blocks ≠ []) :
    (extensionDataBits blocks).length
      = 8 * (4 + (8 + 12 * blocks.length + extDataSize blocks)) := by
  have hne : blocks.isEmpty = false := by
    cases blocks with
    | nil => exact absurd rfl h
    | cons => rfl
  simp only [extensionDataBits, hne, Bool.false_eq_true, if_false, List.length_append,
    natBits_length, extTableBits_length, extDataBits_length]
  omega

end MPLSParser

namespace CLPIParser

open BitStreamWriter

theorem foldl_filter_append {α β : Type} (p : α → Prop) [DecidablePred p] (f : α → β)
    (l : List α) (init : List β) :
    l.foldl (fun acc e => if p e then acc ++ [f e] else acc) init
      = init ++ (l.filter fun e => decide (p e)).map f := by
  induction l generalizing init with
  | nil => simp
  | cons x t ih =>
    rw [List.foldl_cons, ih]
    by_cases h : p x <;> simp [h, List.filter_cons]

theorem selectEPStreams_eq (E : StreamTypeCodes) (self : CLPIParser) (isSSExt : Bool) :
    selectEPStreams E self isSSExt =
      if epVideoStreams E self isSSExt ≠ [] then some (epVideoStreams E self isSSExt, 1)
      else
        match self.m_streamInfo.find? (fun e => isAudioStreamType E e.2.stream_coding_type) with
        | some e => some ([e.2], if e.2.isSecondary then 4 else 3)
        | none => none := by
  have hfold : self.m_streamInfo.foldl
      (fun processStream e =>
        let coding_type := e.2.stream_coding_type
        if isSSExt then
          if coding_type = E.VIDEO_MVC then processStream ++ [e.2] else processStream
        else
          if coding_type ≠ E.VIDEO_MVC ∧ isVideoStreamType E coding_type then processStream ++ [e.2]
          else processStream)
      ([] : List CLPIStreamInfo) = epVideoStreams E self isSSExt := by
    unfold epVideoStreams
    cases isSSExt
    · simp only [Bool.false_eq_true, if_false]
      rw [foldl_filter_append (fun e : Nat × CLPIStreamInfo =>
        e.2.stream_coding_type ≠ E.VIDEO_MVC ∧ isVideoStreamType E e.2.stream_coding_type = true)
        Prod.snd, List.nil_append]
    · simp only [if_true]
      rw [foldl_filter_append (fun e : Nat × CLPIStreamInfo =>
        e.2.stream_coding_type = E.VIDEO_MVC) Prod.snd, List.nil_append]
  unfold selectEPStreams
  simp only [hfold]
  by_cases hv : epVideoStreams E self isSSExt = []
  · simp only [hv, List.isEmpty_nil, if_true, ne_eq, not_true_eq_false, if_false,
      List.nil_append]
    cases self.m_streamInfo.find? (fun e => isAudioStreamType E e.2.stream_coding_type) with
    | none => rfl
    | some e => rfl
  · have hne : (epVideoStreams E self isSSExt).isEmpty = false := by
      cases h : epVideoStreams E self isSSExt with
      | nil => exact absurd h hv
      | cons => rfl
    simp only [hne, Bool.false_eq_true, if_false, ne_eq, hv, not_false_eq_true, if_true]

theorem epEntryBits_length (self : CLPIParser) (EP_stream_type : Nat) (i : CLPIStreamInfo)
    (addr : Nat) : (epEntryBits self EP_stream_type i addr).length = 96 := by
  simp [epEntryBits]

theorem epListBits_length (self : CLPIParser) (EP_stream_type : Nat)
    (l : List (CLPIStreamInfo × Nat)) :
    (epListBits self EP_stream_type l).length = 96 * l.length := by
  induction l with
  | nil => rfl
  | cons b bs ih =>
    simp only [epListBits, List.flatMap_cons, List.length_append, epEntryBits_length,
      List.length_cons] at ih ⊢
    omega

/-- The first loop of `composeEP_map`: the list with zero start addresses. -/
theorem epList_phase1 (self : CLPIParser) (EP_stream_type : Nat) (l : List CLPIStreamInfo) :
    ∀ (W : BitStreamWriter) (acc : List Nat) (q : Nat), W.length = 8 * q →
      l.foldl
          (fun (st : BitStreamWriter × List Nat) i =>
            let (writer, epStartAddrPos) := st
            let writer := putBits writer 16 i.streamPID
            let writer := putBits writer 10 0
            let writer := putBits writer 4 EP_stream_type
            let coarseInfo := buildCoarseInfo self i
            let writer := putBits writer 16 coarseInfo.length
            let writer :=
              if !i.m_index.isEmpty then
                putBits writer 18 (i.m_index.getD self.m_clpiNum []).length
              else putBits writer 18 0
            let epStartAddrPos := epStartAddrPos ++ [getBitsCount writer / 8]
            let writer := putBits writer 32 0
            (writer, epStartAddrPos))
          (W, acc)
        = (W ++ epListBits self EP_stream_type (l.map fun i => (i, 0)),
            acc ++ epPositions q l) := by
  induction l with
  | nil => intro W acc q _; simp [epListBits, epPositions]
  | cons b bs ih =>
    intro W acc q hW
    rw [List.foldl_cons]
    dsimp only
    have hif : (if (!b.m_index.isEmpty) = true then
          putBits (putBits (putBits (putBits (putBits W 16 b.streamPID) 10 0) 4 EP_stream_type) 16
            (buildCoarseInfo self b).length) 18 (b.m_index.getD self.m_clpiNum []).length
        else putBits (putBits (putBits (putBits (putBits W 16 b.streamPID) 10 0) 4
          EP_stream_type) 16 (buildCoarseInfo self b).length) 18 0)
        = W ++ (natBits 16 b.streamPID ++ natBits 10 0 ++ natBits 4 EP_stream_type ++
            natBits 16 (buildCoarseInfo self b).length ++
            natBits 18 (if !b.m_index.isEmpty then (b.m_index.getD self.m_clpiNum []).length
              else 0)) := by
      split_ifs <;> simp only [putBits, List.append_assoc]
    rw [hif]
    have hp : getBitsCount (W ++ (natBits 16 b.streamPID ++ natBits 10 0 ++
        natBits 4 EP_stream_type ++ natBits 16 (buildCoarseInfo self b).length ++
        natBits 18 (if !b.m_index.isEmpty then (b.m_index.getD self.m_clpiNum []).length
          else 0))) / 8 = q + 8 := by
      simp only [getBitsCount, List.length_append, natBits_length]; omega
    rw [hp, ih _ _ (q + 12) (by simp only [putBits, List.length_append, natBits_length]; omega)]
    simp only [putBits, epListBits, List.map_cons, List.flatMap_cons, epEntryBits, epPositions,
      List.append_assoc, List.singleton_append]

theorem epEntry_patch (self : CLPIParser) (EP_stream_type : Nat) (b : CLPIStreamInfo)
    (A R : List Bool) (q v : Nat) (hA : A.length = 8 * q) :
    store (A ++ (epEntryBits self EP_stream_type b 0 ++ R)) (q + 8) 4 v
      = A ++ (epEntryBits self EP_stream_type b v ++ R) := by
  have hsplit : ∀ a : Nat, A ++ (epEntryBits self EP_stream_type b a ++ R)
      = (A ++ (natBits 16 b.streamPID ++ natBits 10 0 ++ natBits 4 EP_stream_type ++
          natBits 16 (buildCoarseInfo self b).length ++
          natBits 18 (if !b.m_index.isEmpty then (b.m_index.getD self.m_clpiNum []).length
            else 0))) ++ (natBits 32 a ++ R) := by
    intro a
    simp only [epEntryBits, List.append_assoc]
  rw [hsplit 0, hsplit v]
  exact MPLSParser.store_word _ _ _ _ (q + 8)
    (by simp only [List.length_append, natBits_length, hA]; omega)

/-- The second loop of `composeEP_map`, on a writer that holds `A`, the list
entries still to be patched and the EP maps `B` written so far. -/
theorem epList_phase2 (self : CLPIParser) (EP_stream_type beforeCount : Nat)
    (l : List CLPIStreamInfo) :
    ∀ (A B : List Bool) (q : Nat), A.length = 8 * q → B.length % 8 = 0 →
      ∃ (addrs : List Nat) (B' : List Bool), addrs.length = l.length ∧
        (l.zip (epPositions q l)).foldl
            (fun writer (i : CLPIStreamInfo × Nat) =>
              let writer := store writer i.2 4 ((getBitsCount writer / 8 - beforeCount) % 2 ^ 32)
              let writer := composeEP_map_for_one_stream_PID self writer i.1
              if getBitsCount writer % 16 ≠ 0 then putBits writer 8 0 else writer)
            (A ++ (epListBits self EP_stream_type (l.map fun i => (i, 0)) ++ B))
          = A ++ (epListBits self EP_stream_type (l.zip addrs) ++ B') := by
  induction l with
  | nil =>
    intro A B q _ _
    exact ⟨[], B, rfl, by simp [epListBits, epPositions]⟩
  | cons b bs ih =>
    intro A B q hA hB
    simp only [epPositions, List.zip_cons_cons, List.foldl_cons, List.map_cons]
    have hsplit : A ++ (epListBits self EP_stream_type ((b, 0) :: bs.map fun i => (i, 0)) ++ B)
        = A ++ (epEntryBits self EP_stream_type b 0 ++
            (epListBits self EP_stream_type (bs.map fun i => (i, 0)) ++ B)) := by
      simp only [epListBits, List.flatMap_cons, List.append_assoc]
    rw [hsplit]
    generalize hv : ((getBitsCount (A ++ (epEntryBits self EP_stream_type b 0 ++
      (epListBits self EP_stream_type (bs.map fun i => (i, 0)) ++ B))) / 8 - beforeCount)
        % 2 ^ 32) = v
    rw [epEntry_patch self EP_stream_type b A _ q v hA]
    have hW1 : (A ++ (epEntryBits self EP_stream_type b v ++
        (epListBits self EP_stream_type (bs.map fun i => (i, 0)) ++ B))).length % 8 = 0 := by
      simp only [List.length_append, epEntryBits_length, epListBits_length, hA]
      omega
    obtain ⟨⟨X, hX, hXl⟩, _⟩ := composeEP_map_for_one_stream_PID_extends self _ b hW1
    rw [hX]
    have hpad : ∃ P : List Bool, P.length % 8 = 0 ∧
        (if getBitsCount (A ++ (epEntryBits self EP_stream_type b v ++
            (epListBits self EP_stream_type (bs.map fun i => (i, 0)) ++ B)) ++ X) % 16 ≠ 0 then
          putBits (A ++ (epEntryBits self EP_stream_type b v ++
            (epListBits self EP_stream_type (bs.map fun i => (i, 0)) ++ B)) ++ X) 8 0
        else A ++ (epEntryBits self EP_stream_type b v ++
            (epListBits self EP_stream_type (bs.map fun i => (i, 0)) ++ B)) ++ X)
          = (A ++ epEntryBits self EP_stream_type b v) ++
            (epListBits self EP_stream_type (bs.map fun i => (i, 0)) ++ (B ++ X ++ P)) := by
      split_ifs
      · exact ⟨natBits 8 0, rfl, by simp only [putBits, List.append_assoc]⟩
      · exact ⟨[], rfl, by simp only [List.append_assoc, List.append_nil]⟩
    obtain ⟨P, hP, hpadeq⟩ := hpad
    rw [hpadeq]
    obtain ⟨addrs, B', hlen, heq⟩ := ih (A ++ epEntryBits self EP_stream_type b v)
      (B ++ X ++ P) (q + 12)
      (by simp only [List.length_append, epEntryBits_length, hA]; omega)
      (by simp only [List.length_append]; omega)
    refine ⟨v :: addrs, B', by simp only [List.length_cons, hlen], ?_⟩
    rw [heq]
    simp only [epListBits, List.zip_cons_cons, List.flatMap_cons, List.append_assoc]

/-- The output of `composeEP_map` at a byte boundary of the writer: the
header, the list of the selected streams with the `EP_stream_type`, and the
EP maps of the streams behind it. -/
theorem composeEP_map_layout (E : StreamTypeCodes) (self : CLPIParser) (w : BitStreamWriter)
    (isSSExt : Bool) (sel : List CLPIStreamInfo) (EP_stream_type : Nat)
    (hw : w.length % 8 = 0) (hsel : selectEPStreams E self isSSExt = some (sel, EP_stream_type)) :
    ∃ (addrs : List Nat) (rest : List Bool), addrs.length = sel.length ∧
      composeEP_map E self w isSSExt
        = .ok (w ++ natBits 8 0 ++ natBits 8 sel.length ++
            epListBits self EP_stream_type (sel.zip addrs) ++ rest) := by
  obtain ⟨m, hm⟩ : ∃ m, w.length = 8 * m := ⟨w.length / 8, by omega⟩
  unfold composeEP_map
  simp only [hsel]
  rw [epList_phase1 self EP_stream_type sel _ [] (m + 2)
    (by simp only [putBits, List.length_append, natBits_length, hm]; omega)]
  dsimp only
  have hpad : ∃ P : List Bool, P.length % 8 = 0 ∧
      (if getBitsCount (putBits (putBits w 8 0) 8 sel.length ++
          epListBits self EP_stream_type (sel.map fun i => (i, 0))) % 16 ≠ 0 then
        putBits (putBits (putBits w 8 0) 8 sel.length ++
          epListBits self EP_stream_type (sel.map fun i => (i, 0))) 8 0
      else putBits (putBits w 8 0) 8 sel.length ++
          epListBits self EP_stream_type (sel.map fun i => (i, 0)))
        = (w ++ natBits 8 0 ++ natBits 8 sel.length) ++
          (epListBits self EP_stream_type (sel.map fun i => (i, 0)) ++ P) := by
    split_ifs
    · exact ⟨natBits 8 0, rfl, by simp only [putBits, List.append_assoc]⟩
    · exact ⟨[], rfl, by simp only [putBits, List.append_assoc, List.append_nil]⟩
  obtain ⟨P, hP, hpadeq⟩ := hpad
  rw [List.nil_append, hpadeq]
  obtain ⟨addrs, B', hlen, heq⟩ := epList_phase2 self EP_stream_type (getBitsCount w / 8) sel
    (w ++ natBits 8 0 ++ natBits 8 sel.length) P (m + 2)
    (by simp only [List.length_append, natBits_length, hm]; omega) hP
  refine ⟨addrs, B', hlen, ?_⟩
  rw [heq]
  simp only [List.append_assoc]

theorem composeEP_map_error (E : StreamTypeCodes) (self : CLPIParser) (w : BitStreamWriter)
    (isSSExt : Bool) :
    (∃ e, composeEP_map E self w isSSExt = .error e) ↔ selectEPStreams E self isSSExt = none := by
  unfold composeEP_map
  cases h : selectEPStreams E self isSSExt with
  | none => simp
  | some r => simp

/-- In a map, the first element in iteration order that satisfies `p` is the
one with the least key. -/
theorem find?_least {β : Type} (p : Nat × β → Bool) (l : List (Nat × β))
    (hord : StdMap.Ordered l) (e : Nat × β) (he : e ∈ l) (hp : p e = true)
    (hmin : ∀ e' ∈ l, p e' = true → e.1 ≤ e'.1) : l.find? p = some e := by
  induction l with
  | nil => cases he
  | cons x t ih =>
    unfold StdMap.Ordered at hord
    rw [List.map_cons, List.pairwise_cons] at hord
    by_cases hx : p x = true
    · rw [List.find?_cons, hx]
      rcases List.mem_cons.1 he with rfl | het
      · rfl
      · have h1 := hord.1 _ (List.mem_map_of_mem Prod.fst het)
        have h2 := hmin x (List.mem_cons_self _ _) hx
        omega
    · have hne : e ≠ x := by
        rintro rfl
        exact hx hp
      have het : e ∈ t := by
        rcases List.mem_cons.1 he with h | h
        · exact absurd h hne
        · exact h
      rw [List.find?_cons]
      simp only [Bool.not_eq_true] at hx
      rw [hx]
      exact ih hord.2 het (fun e' he' => hmin e' (List.mem_cons_of_mem _ he'))

theorem selectEPStreams_none (E : StreamTypeCodes) (self : CLPIParser) (isSSExt : Bool) :
    selectEPStreams E self isSSExt = none ↔
      epVideoStreams E self isSSExt = [] ∧
        ∀ e ∈ self.m_streamInfo, isAudioStreamType E e.2.stream_coding_type = false := by
  rw [selectEPStreams_eq]
  by_cases hv : epVideoStreams E self isSSExt = []
  · simp only [hv, ne_eq, not_true_eq_false, if_false, true_and]
    cases hf : self.m_streamInfo.find? (fun e => isAudioStreamType E e.2.stream_coding_type) with
    | none =>
      simp only [true_iff]
      intro e he
      have := List.find?_eq_none.1 hf e he
      simpa using this
    | some e =>
      simp only [reduceCtorEq, false_iff]
      intro hall
      have h1 := List.find?_some hf
      have h2 := hall e (List.mem_of_find?_eq_some hf)
      rw [h2] at h1
      cases h1
  · simp [hv]

end CLPIParser

namespace CLPIParser

open BitStreamWriter CLPIStreamInfo

theorem headerBits_length (v : List Nat) (a1 a2 a3 a4 a5 : Nat) :
    (headerBits v a1 a2 a3 a4 a5).length = 320 := by
  simp [headerBits, str4Bits_length, zeroFields_length]

theorem store_header1 (v : List Nat) (a1 a2 a3 a4 a5 x : Nat) (B : List Bool) :
    store (headerBits v a1 a2 a3 a4 a5 ++ B) 8 4 x = headerBits v x a2 a3 a4 a5 ++ B := by
  simp only [headerBits, List.append_assoc]
  rw [← List.append_assoc (str4Bits _), MPLSParser.store_word _ _ _ _ 8
    (by simp [str4Bits_length])]
  simp only [List.append_assoc]

theorem store_header2 (v : List Nat) (a1 a2 a3 a4 a5 x : Nat) (B : List Bool) :
    store (headerBits v a1 a2 a3 a4 a5 ++ B) 12 4 x = headerBits v a1 x a3 a4 a5 ++ B := by
  simp only [headerBits, List.append_assoc]
  rw [← List.append_assoc (str4Bits _), ← List.append_assoc (_ ++ _) (natBits 32 a1),
    MPLSParser.store_word _ _ _ _ 12 (by simp [str4Bits_length])]
  simp only [List.append_assoc]

theorem store_header3 (v : List Nat) (a1 a2 a3 a4 a5 x : Nat) (B : List Bool) :
    store (headerBits v a1 a2 a3 a4 a5 ++ B) 16 4 x = headerBits v a1 a2 x a4 a5 ++ B := by
  simp only [headerBits, List.append_assoc]
  rw [← List.append_assoc (str4Bits _), ← List.append_assoc (_ ++ _) (natBits 32 a1),
    ← List.append_assoc (_ ++ _) (natBits 32 a2),
    MPLSParser.store_word _ _ _ _ 16 (by simp [str4Bits_length])]
  simp only [List.append_assoc]

theorem store_header4 (v : List Nat) (a1 a2 a3 a4 a5 x : Nat) (B : List Bool) :
    store (headerBits v a1 a2 a3 a4 a5 ++ B) 20 4 x = headerBits v a1 a2 a3 x a5 ++ B := by
  simp only [headerBits, List.append_assoc]
  rw [← List.append_assoc (str4Bits _), ← List.append_assoc (_ ++ _) (natBits 32 a1),
    ← List.append_assoc (_ ++ _) (natBits 32 a2), ← List.append_assoc (_ ++ _) (natBits 32 a3),
    MPLSParser.store_word _ _ _ _ 20 (by simp [str4Bits_length])]
  simp only [List.append_assoc]

theorem store_header5 (v : List Nat) (a1 a2 a3 a4 a5 x : Nat) (B : List Bool) :
    store (headerBits v a1 a2 a3 a4 a5 ++ B) 24 4 x = headerBits v a1 a2 a3 a4 x ++ B := by
  simp only [headerBits, List.append_assoc]
  rw [← List.append_assoc (str4Bits _), ← List.append_assoc (_ ++ _) (natBits 32 a1),
    ← List.append_assoc (_ ++ _) (natBits 32 a2), ← List.append_assoc (_ ++ _) (natBits 32 a3),
    ← List.append_assoc (_ ++ _) (natBits 32 a4),
    MPLSParser.store_word _ _ _ _ 24 (by simp [str4Bits_length])]
  simp only [List.append_assoc]

/-- The part of `compose` in front of `composeClipInfo`: the header with zero
start addresses; the five address fields lie at the bytes 8, 12, 16, 20 and
24. -/
theorem composeBits_unfold (E : StreamTypeCodes) (K : MuxConstants) (self : CLPIParser) :
    composeBits E K self = (do
      let writer ← composeClipInfo self (headerBits self.version_number 0 0 0 0 0)
      let writer ← alignLoop 3 writer
      let writer := store writer 8 4 ((getBitsCount writer / 8) % 2 ^ 32)
      let writer := composeSequenceInfo K self writer
      let writer ← alignLoop 3 writer
      let writer := store writer 12 4 ((getBitsCount writer / 8) % 2 ^ 32)
      let writer := composeProgramInfo E K self writer false
      let writer ← alignLoop 3 writer
      let writer := store writer 16 4 ((getBitsCount writer / 8) % 2 ^ 32)
      let writer ← composeCPI E self writer false
      let writer ← alignLoop 3 writer
      let writer := store writer 20 4 ((getBitsCount writer / 8) % 2 ^ 32)
      let writer := composeClipMark writer
      let writer ← alignLoop 3 writer
      let writer := store writer 24 4 ((getBitsCount writer / 8) % 2 ^ 32)
      let writer ← composeExtentInfo E K self writer
      let writer ← alignLoop 3 writer
      pure (flushBits writer)) := by
  have hh : (List.range 3).foldl (fun writer _ => putBits writer 32 0)
      (putBits (putBits (putBits (putBits (putBits
        (writeString self.version_number
          (writeString [0x48, 0x44, 0x4d, 0x56] setBuffer 4) 4) 32 0) 32 0) 32 0) 32 0) 32 0)
      = headerBits self.version_number 0 0 0 0 0 := by
    simp only [writeString4, setBuffer, putBits, foldl_append_zero, List.nil_append,
      List.append_assoc, headerBits]
  have p1 : getBitsCount (writeString self.version_number
      (writeString [0x48, 0x44, 0x4d, 0x56] setBuffer 4) 4) / 8 = 8 := by
    simp [writeString4, setBuffer, getBitsCount, str4Bits_length]
  have p2 : getBitsCount (putBits (writeString self.version_number
      (writeString [0x48, 0x44, 0x4d, 0x56] setBuffer 4) 4) 32 0) / 8 = 12 := by
    simp [writeString4, setBuffer, getBitsCount, str4Bits_length, putBits]
  have p3 : getBitsCount (putBits (putBits (writeString self.version_number
      (writeString [0x48, 0x44, 0x4d, 0x56] setBuffer 4) 4) 32 0) 32 0) / 8 = 16 := by
    simp [writeString4, setBuffer, getBitsCount, str4Bits_length, putBits]
  have p4 : getBitsCount (putBits (putBits (putBits (writeString self.version_number
      (writeString [0x48, 0x44, 0x4d, 0x56] setBuffer 4) 4) 32 0) 32 0) 32 0) / 8 = 20 := by
    simp [writeString4, setBuffer, getBitsCount, str4Bits_length, putBits]
  have p5 : getBitsCount (putBits (putBits (putBits (putBits (writeString self.version_number
      (writeString [0x48, 0x44, 0x4d, 0x56] setBuffer 4) 4) 32 0) 32 0) 32 0) 32 0) / 8
        = 24 := by
    simp [writeString4, setBuffer, getBitsCount, str4Bits_length, putBits]
  unfold composeBits
  dsimp only
  rw [hh, p1, p2, p3, p4, p5]

theorem programInfoPad_false (E : StreamTypeCodes) (K : MuxConstants) (self : CLPIParser)
    (n : Nat) : programInfoPad E K self false n = [] := by
  simp [programInfoPad]

theorem streamEntryBits_length_mod32 (E : StreamTypeCodes) (e : Nat × CLPIStreamInfo) :
    (streamEntryBits E e).length % 32 = 0 := by
  simp only [streamEntryBits, List.length_append, natBits_length, sciBody_length]
  split <;> rfl

theorem programInfoBits_length_mod32 (E : StreamTypeCodes) (K : MuxConstants)
    (self : CLPIParser) (b : Bool) : (programInfoBits E K self b).length % 32 = 16 := by
  have : ∀ l : List (Nat × CLPIStreamInfo), (l.flatMap (streamEntryBits E)).length % 32 = 0 := by
    intro l
    induction l with
    | nil => rfl
    | cons e t ih =>
        have := streamEntryBits_length_mod32 E e
        simp only [List.flatMap_cons, List.length_append]
        omega
  have := this (selectedStreams E b self.m_streamInfo)
  simp only [programInfoBits, List.length_append, natBits_length]
  omega

theorem alignPad_of_half (n : Nat) (h : n % 32 = 16) : alignPad n = natBits 16 0 := by
  simp [alignPad, h, natBits_zero_eq]

/-- The extension data block `composeExtentInfo` writes at a 32-bit boundary
begins with its 32-bit length field. -/
theorem composeExtentInfo_frame (E : StreamTypeCodes) (K : MuxConstants) (self : CLPIParser)
    (w w' : BitStreamWriter) (hw : w.length % 32 = 0)
    (h : composeExtentInfo E K self w = .ok w') :
    ∃ (v : Nat) (X : List Bool), w' = w ++ (natBits 32 v ++ X) ∧ X.length % 8 = 0 := by
  by_cases hi : self.interleaveInfo = []
  · rw [composeExtentInfo_empty E K self w hi] at h
    injection h with h
    exact ⟨0, [], by rw [← h, List.append_nil], rfl⟩
  · cases hd : self.isDependStream with
    | false =>
      rw [composeExtentInfo_main E K self w hw hi hd] at h
      injection h with h
      refine ⟨_, _, h.symm, ?_⟩
      simp only [List.length_append, natBits_length, extentStartPointBits_length]; omega
    | true =>
      obtain ⟨lp, pad, v, X, hpad, hX, _, hw'⟩ := composeExtentInfo_depend E K self w w' hw hi hd h
      have := programInfoBits_length_mod E K self true
      refine ⟨_, _, hw', ?_⟩
      simp only [List.length_append, natBits_length, extentStartPointBits_length]; omega

theorem alignLoop_ok (w w' : BitStreamWriter) (hw : w.length % 8 = 0)
    (h : alignLoop 3 w = .ok w') : w' = w ++ alignPad w.length := by
  rw [alignLoop_eq w hw] at h
  injection h with h
  exact h.symm

/-- The layout of the file `compose` writes when it succeeds. -/
theorem composeBits_layout (E : StreamTypeCodes) (K : MuxConstants) (self : CLPIParser)
    (out : BitStreamWriter) (h : composeBits E K self = .ok out) :
    ∃ (a3 a4 a5 vC vE : Nat) (XC padC XE padE : List Bool),
      out = headerBits self.version_number 220 248 a3 a4 a5 ++
          (clipInfoBits self ++ (sequenceInfoBits K self ++ (natBits 16 0 ++
          ((natBits 32 ((programInfoBits E K self false).length / 8) ++
            programInfoBits E K self false) ++ (natBits 16 0 ++
          ((natBits 32 vC ++ XC) ++ (padC ++
          (natBits 32 0 ++ ((natBits 32 vE ++ XE) ++ padE))))))))) ∧
      8 * a3 = 2032 + (programInfoBits E K self false).length ∧
      8 * a4 = 8 * a3 + 32 + XC.length + padC.length ∧
      a5 = a4 + 4 ∧ a3 % 4 = 0 ∧ a4 % 4 = 0 ∧ out.length % 32 = 0 ∧
      8 * a5 + 32 + XE.length + padE.length = out.length ∧
      (∃ P3 : List Bool, P3.length = 8 * a3 ∧
        composeCPI E self P3 false = .ok (P3 ++ (natBits 32 vC ++ XC))) ∧
      (∃ P5 : List Bool, P5.length = 8 * a5 ∧
        composeExtentInfo E K self P5 = .ok (P5 ++ (natBits 32 vE ++ XE))) ∧
      padC.length < 32 ∧ padE.length < 32 := by
  rw [composeBits_unfold] at h
  have hpl := programInfoBits_length_mod32 E K self false
  -- ClipInfo
  have hb := bind_eq_ok _ _ _ h
  clear h
  obtain ⟨w1, h1, h⟩ := hb
  rw [composeClipInfo_eq self _ (by rw [headerBits_length])] at h1
  split_ifs at h1
  have e1 : w1 = headerBits self.version_number 0 0 0 0 0 ++ clipInfoBits self := by
    injection h1 with h1; exact h1.symm
  clear h1
  have l1 : w1.length = 1760 := by
    rw [e1, List.length_append, headerBits_length, clipInfoBits_length]
  have hb := bind_eq_ok _ _ _ h
  clear h
  obtain ⟨w2, h2, h⟩ := hb
  have e2 := alignLoop_ok w1 w2 (by omega) h2
  rw [l1, alignPad_of_aligned 1760 rfl, List.append_nil] at e2
  clear h2
  rw [e2] at h
  clear e2 w2
  -- SequenceInfo
  have hv1 : getBitsCount w1 / 8 % 2 ^ 32 = 220 := by
    simp only [getBitsCount, l1]
    rfl
  have s1 : store w1 8 4 220
      = headerBits self.version_number 220 0 0 0 0 ++ clipInfoBits self := by
    rw [e1, store_header1]
  have q1 : composeSequenceInfo K self (store w1 8 4 (getBitsCount w1 / 8 % 2 ^ 32))
      = headerBits self.version_number 220 0 0 0 0 ++
          (clipInfoBits self ++ sequenceInfoBits K self) := by
    rw [hv1, s1, composeSequenceInfo_eq K self _
      (by simp only [List.length_append, headerBits_length, clipInfoBits_length]),
      List.append_assoc]
  dsimp only at h
  rw [q1] at h
  clear q1 s1 hv1 l1 e1 w1
  have hb := bind_eq_ok _ _ _ h
  clear h
  obtain ⟨w3, h3, h⟩ := hb
  have e3 := alignLoop_ok _ w3
    (by simp only [List.length_append, headerBits_length, clipInfoBits_length,
      sequenceInfoBits_length]) h3
  clear h3
  have hp1 : alignPad (headerBits self.version_number 220 0 0 0 0 ++
      (clipInfoBits self ++ sequenceInfoBits K self)).length = natBits 16 0 :=
    alignPad_of_half _ (by simp only [List.length_append, headerBits_length,
      clipInfoBits_length, sequenceInfoBits_length])
  rw [hp1] at e3
  clear hp1
  have l3 : w3.length = 1984 := by
    rw [e3]
    simp only [List.length_append, headerBits_length, clipInfoBits_length,
      sequenceInfoBits_length, natBits_length]
  -- ProgramInfo
  have hv3 : getBitsCount w3 / 8 % 2 ^ 32 = 248 := by
    simp only [getBitsCount, l3]
    rfl
  have s3 : store w3 12 4 248 = headerBits self.version_number 220 248 0 0 0 ++
      (clipInfoBits self ++ (sequenceInfoBits K self ++ natBits 16 0)) := by
    rw [e3, List.append_assoc, store_header2]
    simp only [List.append_assoc]
  have q3 : composeProgramInfo E K self (store w3 12 4 (getBitsCount w3 / 8 % 2 ^ 32)) false
      = headerBits self.version_number 220 248 0 0 0 ++
          (clipInfoBits self ++ (sequenceInfoBits K self ++ (natBits 16 0 ++
          (natBits 32 ((programInfoBits E K self false).length / 8) ++
            programInfoBits E K self false)))) := by
    rw [hv3, s3, composeProgramInfo_eq E K self _ false
      (by simp only [List.length_append, headerBits_length, clipInfoBits_length,
        sequenceInfoBits_length, natBits_length]), programInfoPad_false]
    simp only [List.append_assoc, List.append_nil, List.length_nil, Nat.add_zero]
  rw [q3] at h
  clear q3 s3 hv3 l3 e3 w3
  have hb := bind_eq_ok _ _ _ h
  clear h
  obtain ⟨w4, h4, h⟩ := hb
  have e4 := alignLoop_ok _ w4
    (by
      have := programInfoBits_length_mod E K self false
      simp only [List.length_append, headerBits_length, clipInfoBits_length,
        sequenceInfoBits_length, natBits_length]
      omega) h4
  clear h4
  have hp4 : alignPad (headerBits self.version_number 220 248 0 0 0 ++
      (clipInfoBits self ++ (sequenceInfoBits K self ++ (natBits 16 0 ++
      (natBits 32 ((programInfoBits E K self false).length / 8) ++
        programInfoBits E K self false))))).length = natBits 16 0 :=
    alignPad_of_half _ (by
      simp only [List.length_append, headerBits_length, clipInfoBits_length,
        sequenceInfoBits_length, natBits_length]
      omega)
  rw [hp4] at e4
  clear hp4
  have l4 : w4.length = 2032 + (programInfoBits E K self false).length := by
    rw [e4]
    simp only [List.length_append, headerBits_length, clipInfoBits_length,
      sequenceInfoBits_length, natBits_length]
    omega
  -- CPI
  obtain ⟨a3, ha3⟩ : ∃ a3, 8 * a3 = 2032 + (programInfoBits E K self false).length :=
    ⟨(2032 + (programInfoBits E K self false).length) / 8, by omega⟩
  have hv4 : getBitsCount w4 / 8 = a3 := by
    simp only [getBitsCount, l4]
    omega
  rw [hv4] at h
  have s4 : store w4 16 4 (a3 % 2 ^ 32)
      = headerBits self.version_number 220 248 a3 0 0 ++
        (clipInfoBits self ++ (sequenceInfoBits K self ++ (natBits 16 0 ++
        ((natBits 32 ((programInfoBits E K self false).length / 8) ++
          programInfoBits E K self false) ++ natBits 16 0)))) := by
    rw [e4, List.append_assoc, store_header3]
    simp only [headerBits, natBits_mod, List.append_assoc]
  have hb := bind_eq_ok _ _ _ h
  clear h
  obtain ⟨w5, h5, h⟩ := hb
  rw [s4] at h5
  have a4l : (headerBits self.version_number 220 248 a3 0 0 ++
      (clipInfoBits self ++ (sequenceInfoBits K self ++ (natBits 16 0 ++
      ((natBits 32 ((programInfoBits E K self false).length / 8) ++
        programInfoBits E K self false) ++ natBits 16 0))))).length = 8 * a3 := by
    simp only [List.length_append, headerBits_length, clipInfoBits_length,
      sequenceInfoBits_length, natBits_length]
    omega
  obtain ⟨vC, XC, e5, hXC, _⟩ := composeCPI_frame E self _ w5 false (by rw [a4l]; omega) h5
  have hcpi : ∃ P3 : List Bool, P3.length = 8 * a3 ∧
      composeCPI E self P3 false = .ok (P3 ++ (natBits 32 vC ++ XC)) :=
    ⟨_, a4l, h5.trans (congrArg Except.ok e5)⟩
  clear h5 s4 hv4 l4 e4 w4
  have l5 : w5.length = 8 * a3 + 32 + XC.length := by
    rw [e5, List.length_append, a4l]
    simp only [List.length_append, natBits_length]
    omega
  have hb := bind_eq_ok _ _ _ h
  clear h
  obtain ⟨w6, h6, h⟩ := hb
  have e6 := alignLoop_ok w5 w6 (by omega) h6
  clear h6
  have hpadC : (w5.length + (alignPad w5.length).length) % 32 = 0 := alignPad_aligned _
  generalize hpC : alignPad w5.length = padC at e6 hpadC
  have l6 : w6.length = 8 * a3 + 32 + XC.length + padC.length := by
    rw [e6, List.length_append, l5]
  -- ClipMark
  obtain ⟨a4, ha4⟩ : ∃ a4, 8 * a4 = 8 * a3 + 32 + XC.length + padC.length :=
    ⟨(8 * a3 + 32 + XC.length + padC.length) / 8, by omega⟩
  have hv6 : getBitsCount w6 / 8 = a4 := by
    simp only [getBitsCount, l6]
    omega
  rw [hv6] at h
  have s6 : composeClipMark (store w6 20 4 (a4 % 2 ^ 32))
      = headerBits self.version_number 220 248 a3 a4 0 ++
        (clipInfoBits self ++ (sequenceInfoBits K self ++ (natBits 16 0 ++
        ((natBits 32 ((programInfoBits E K self false).length / 8) ++
          programInfoBits E K self false) ++ (natBits 16 0 ++
        ((natBits 32 vC ++ XC) ++ (padC ++ natBits 32 0))))))) := by
    rw [e6, e5, List.append_assoc, List.append_assoc, store_header4]
    simp only [headerBits, natBits_mod, List.append_assoc, composeClipMark, putBits]
  rw [s6] at h
  have l7 : (headerBits self.version_number 220 248 a3 a4 0 ++
        (clipInfoBits self ++ (sequenceInfoBits K self ++ (natBits 16 0 ++
        ((natBits 32 ((programInfoBits E K self false).length / 8) ++
          programInfoBits E K self false) ++ (natBits 16 0 ++
        ((natBits 32 vC ++ XC) ++ (padC ++ natBits 32 0)))))))).length = 8 * (a4 + 4) := by
    simp only [List.length_append, headerBits_length, clipInfoBits_length,
      sequenceInfoBits_length, natBits_length]
    omega
  clear s6 hv6
  have hb := bind_eq_ok _ _ _ h
  clear h
  obtain ⟨w8, h8, h⟩ := hb
  have e8 := alignLoop_ok _ w8 (by rw [l7]; omega) h8
  clear h8
  rw [l7, alignPad_of_aligned _ (by omega), List.append_nil] at e8
  -- ExtensionData
  have hv8 : getBitsCount w8 / 8 = a4 + 4 := by
    simp only [getBitsCount, e8, l7]
    omega
  rw [hv8] at h
  have s8 : store w8 24 4 ((a4 + 4) % 2 ^ 32)
      = headerBits self.version_number 220 248 a3 a4 (a4 + 4) ++
        (clipInfoBits self ++ (sequenceInfoBits K self ++ (natBits 16 0 ++
        ((natBits 32 ((programInfoBits E K self false).length / 8) ++
          programInfoBits E K self false) ++ (natBits 16 0 ++
        ((natBits 32 vC ++ XC) ++ (padC ++ natBits 32 0))))))) := by
    rw [e8, store_header5]
    simp only [headerBits, natBits_mod, List.append_assoc]
  have l9 : (headerBits self.version_number 220 248 a3 a4 (a4 + 4) ++
        (clipInfoBits self ++ (sequenceInfoBits K self ++ (natBits 16 0 ++
        ((natBits 32 ((programInfoBits E K self false).length / 8) ++
          programInfoBits E K self false) ++ (natBits 16 0 ++
        ((natBits 32 vC ++ XC) ++ (padC ++ natBits 32 0)))))))).length = 8 * (a4 + 4) := by
    simp only [List.length_append, headerBits_length, clipInfoBits_length,
      sequenceInfoBits_length, natBits_length]
    omega
  have hb := bind_eq_ok _ _ _ h
  clear h
  obtain ⟨w9, h9, h⟩ := hb
  rw [s8] at h9
  obtain ⟨vE, XE, e9, hXE⟩ := composeExtentInfo_frame E K self _ w9 (by rw [l9]; omega) h9
  have hext : ∃ P5 : List Bool, P5.length = 8 * (a4 + 4) ∧
      composeExtentInfo E K self P5 = .ok (P5 ++ (natBits 32 vE ++ XE)) :=
    ⟨_, l9, h9.trans (congrArg Except.ok e9)⟩
  clear h9 s8 hv8 e8 w8 l7
  have l10 : w9.length = 8 * (a4 + 4) + 32 + XE.length := by
    rw [e9, List.length_append, l9]
    simp only [List.length_append, natBits_length]
    omega
  have hb := bind_eq_ok _ _ _ h
  clear h
  obtain ⟨w10, h10, h⟩ := hb
  have e10 := alignLoop_ok w9 w10 (by omega) h10
  clear h10
  have hpadE : (w9.length + (alignPad w9.length).length) % 32 = 0 := alignPad_aligned _
  generalize hpE : alignPad w9.length = padE at e10 hpadE
  have hout : out = w10 := by
    have := MPLSParser.pure_eq_ok _ _ h
    exact this.symm
  have hpC32 : padC.length < 32 := by
    rw [← hpC, alignPad_length]; omega
  have hpE32 : padE.length < 32 := by
    rw [← hpE, alignPad_length]; omega
  refine ⟨a3, a4, a4 + 4, vC, vE, XC, padC, XE, padE, ?_, ha3, ha4, rfl, by omega, by omega,
    ?_, ?_, hcpi, hext, hpC32, hpE32⟩
  · rw [hout, e10, e9]
    simp only [List.append_assoc]
  · rw [hout, e10, List.length_append]
    exact hpadE
  · rw [hout, e10, List.length_append, l10]

open BitStreamWriter CLPIStreamInfo

theorem BehindHeader.behind_store {w : BitStreamWriter} (h : BehindHeader w) (pos v : Nat)
    (hp : pos ≤ 24) : BehindHeader (BitStreamWriter.store w pos 4 v) := by
  unfold BehindHeader at *
  rw [store_length w pos 4 v (by omega)]
  exact h

theorem BehindHeader.behind_append {w : BitStreamWriter} (h : BehindHeader w) (X : List Bool)
    (hX : X.length % 8 = 0) : BehindHeader (w ++ X) := by
  unfold BehindHeader at *
  rw [List.length_append]
  omega

theorem BehindHeader.behind_align {w : BitStreamWriter} (h : BehindHeader w) :
    BehindHeader (w ++ alignPad w.length) ∧ (w ++ alignPad w.length).length % 32 = 0 := by
  have := alignPad_aligned w.length
  unfold BehindHeader at *
  rw [List.length_append]
  omega

/-- `compose` succeeds when the clip info flags are supported and the CPI and
the extension data can be written. -/
theorem composeBits_total (E : StreamTypeCodes) (K : MuxConstants) (self : CLPIParser)
    (hA : self.is_ATC_delta = false) (h6 : self.application_type ≠ 6)
    (hC : ∀ w : BitStreamWriter, w.length % 8 = 0 → ∃ w', composeCPI E self w false = .ok w')
    (hX : ∀ w : BitStreamWriter, w.length % 32 = 0 →
      ∃ w', composeExtentInfo E K self w = .ok w') :
    ∃ out, composeBits E K self = .ok out := by
  rw [composeBits_unfold, composeClipInfo_eq self _ (by rw [headerBits_length]), hA,
    if_neg (by decide), if_neg h6]
  have P1 : BehindHeader (headerBits self.version_number 0 0 0 0 0 ++ clipInfoBits self) :=
    ⟨by simp only [List.length_append, headerBits_length, clipInfoBits_length],
     by simp only [List.length_append, headerBits_length, clipInfoBits_length]; omega⟩
  generalize headerBits self.version_number 0 0 0 0 0 ++ clipInfoBits self = w1 at P1 ⊢
  rw [Except.ok_bind', alignLoop_eq w1 P1.1, Except.ok_bind']
  have P2 := P1.behind_align.1
  generalize w1 ++ alignPad w1.length = w2 at P2 ⊢
  try dsimp only
  have P3 : BehindHeader (composeSequenceInfo K self (store w2 8 4
      (getBitsCount w2 / 8 % 2 ^ 32))) := by
    rw [composeSequenceInfo_eq K self _ (P2.behind_store 8 _ (by omega)).1]
    exact (P2.behind_store 8 _ (by omega)).behind_append _ (by rw [sequenceInfoBits_length])
  generalize composeSequenceInfo K self (store w2 8 4 (getBitsCount w2 / 8 % 2 ^ 32)) = w3
    at P3 ⊢
  rw [alignLoop_eq w3 P3.1, Except.ok_bind']
  have P4 := P3.behind_align.1
  generalize w3 ++ alignPad w3.length = w4 at P4 ⊢
  try dsimp only
  have P5 : BehindHeader (composeProgramInfo E K self (store w4 12 4
      (getBitsCount w4 / 8 % 2 ^ 32)) false) := by
    rw [composeProgramInfo_eq E K self _ false (P4.behind_store 12 _ (by omega)).1]
    refine (P4.behind_store 12 _ (by omega)).behind_append _ ?_
    have h1 := programInfoBits_length_mod E K self false
    have h2 := programInfoPad_length_mod E K self false
      (store w4 12 4 (getBitsCount w4 / 8 % 2 ^ 32)).length
    simp only [List.length_append, natBits_length]
    omega
  generalize composeProgramInfo E K self (store w4 12 4 (getBitsCount w4 / 8 % 2 ^ 32)) false
    = w5 at P5 ⊢
  rw [alignLoop_eq w5 P5.1, Except.ok_bind']
  have P6 := P5.behind_align.1
  generalize w5 ++ alignPad w5.length = w6 at P6 ⊢
  try dsimp only
  obtain ⟨w7, h7⟩ := hC (store w6 16 4 (getBitsCount w6 / 8 % 2 ^ 32))
    (P6.behind_store 16 _ (by omega)).1
  obtain ⟨vC, XC, e7, hXC, _⟩ := composeCPI_frame E self _ w7 false
    (P6.behind_store 16 _ (by omega)).1 h7
  have P7 : BehindHeader w7 := by
    rw [e7]
    exact (P6.behind_store 16 _ (by omega)).behind_append _
      (by simp only [List.length_append, natBits_length]; omega)
  rw [h7, Except.ok_bind', alignLoop_eq w7 P7.1, Except.ok_bind']
  clear h7 e7
  have P8 := P7.behind_align.1
  generalize w7 ++ alignPad w7.length = w8 at P8 ⊢
  try dsimp only
  have P9 : BehindHeader (composeClipMark (store w8 20 4 (getBitsCount w8 / 8 % 2 ^ 32))) := by
    unfold composeClipMark
    exact (P8.behind_store 20 _ (by omega)).behind_append _ (by simp)
  generalize composeClipMark (store w8 20 4 (getBitsCount w8 / 8 % 2 ^ 32)) = w9 at P9 ⊢
  rw [alignLoop_eq w9 P9.1, Except.ok_bind']
  have P10 := P9.behind_align
  generalize w9 ++ alignPad w9.length = w10 at P10 ⊢
  try dsimp only
  have hl10 : (store w10 24 4 (getBitsCount w10 / 8 % 2 ^ 32)).length % 32 = 0 := by
    rw [store_length _ _ _ _ (by have := P10.1.2; omega)]
    exact P10.2
  obtain ⟨w11, h11⟩ := hX _ hl10
  obtain ⟨vE, XE, e11, hXE⟩ := composeExtentInfo_frame E K self _ w11 hl10 h11
  have P11 : BehindHeader w11 := by
    rw [e11]
    exact (P10.1.behind_store 24 _ (by omega)).behind_append _
      (by simp only [List.length_append, natBits_length]; omega)
  rw [h11, Except.ok_bind', alignLoop_eq w11 P11.1, Except.ok_bind']
  exact ⟨_, rfl⟩

theorem composeCPI_total (E : StreamTypeCodes) (self : CLPIParser) (w : BitStreamWriter)
    (hw : w.length % 8 = 0)
    (hsel : self.isDependStream = false → selectEPStreams E self false ≠ none) :
    ∃ w', composeCPI E self w false = .ok w' := by
  unfold composeCPI
  cases hd : self.isDependStream
  · simp only [Bool.false_eq_true, false_and, not_false_eq_true, and_false, or_self, if_false]
    cases hs : selectEPStreams E self false with
    | none => exact absurd hs (hsel hd)
    | some r =>
      obtain ⟨addrs, rest, _, heq⟩ := composeEP_map_layout E self
        (putBits (putBits (putBits w 32 0) 12 0) 4 1) false r.1 r.2
        (by simp only [putBits, List.length_append, natBits_length]; omega) hs
      rw [heq]
      exact ⟨_, rfl⟩
  · simp only [Bool.false_eq_true, not_false_eq_true, and_self, true_or, if_true]
    exact ⟨_, rfl⟩

theorem composeBits_clipSample :
    ∃ out, composeBits StreamTypeCodes.standard MuxConstants.standard clipSample = .ok out :=
  composeBits_total StreamTypeCodes.standard MuxConstants.standard clipSample rfl (by decide)
    (fun w hw => composeCPI_total StreamTypeCodes.standard clipSample w hw (fun _ => by decide))
    (fun w _ => ⟨_, composeExtentInfo_empty StreamTypeCodes.standard MuxConstants.standard
      clipSample w rfl⟩)

theorem compose_eq (E : StreamTypeCodes) (K : MuxConstants) (self : CLPIParser)
    (r : List Nat × Nat) (h : compose E K self = .ok r) :
    ∃ out, composeBits E K self = .ok out ∧ r = (bitsToBytes out, out.length / 8) := by
  unfold compose at h
  obtain ⟨out, h1, h2⟩ := bind_eq_ok _ _ _ h
  exact ⟨out, h1, (MPLSParser.pure_eq_ok _ _ h2).symm⟩

theorem programInfoBits_length_ge (E : StreamTypeCodes) (K : MuxConstants) (self : CLPIParser) :
    80 ≤ (programInfoBits E K self false).length := by
  simp only [programInfoBits, List.length_append, natBits_length]
  omega

end CLPIParser

namespace BitStreamReader

theorem skipBits_ok (r : BitStreamReader) (n : Nat) (h : n ≤ r.bits.length) :
    skipBits r n = .ok ⟨r.bits.drop n, r.count + n⟩ := by
  unfold skipBits
  rw [if_pos h]

theorem skipBits_fold (n k : Nat) :
    ∀ (bits : List Bool) (c : Nat), n * k ≤ bits.length →
      (List.range n).foldlM (fun reader _ => skipBits reader k) (⟨bits, c⟩ : BitStreamReader)
        = .ok ⟨bits.drop (n * k), c + n * k⟩ := by
  induction n with
  | zero => intro bits c _; simp; rfl
  | succ n ih =>
    intro bits c h
    rw [List.range_succ, List.foldlM_append, ih bits c (by rw [Nat.succ_mul] at h; omega)]
    simp only [Except.ok_bind', List.foldlM_cons, List.foldlM_nil]
    rw [skipBits_ok _ _ (by simp only [List.length_drop]; rw [Nat.succ_mul] at h; omega)]
    simp only [List.drop_drop, Nat.succ_mul, Nat.add_assoc]
    rfl

theorem skipBits_zeroFields (n k : Nat) (rest : List Bool) (c : Nat) :
    (List.range n).foldlM (fun reader _ => skipBits reader k)
        (⟨zeroFields n k ++ rest, c⟩ : BitStreamReader)
      = .ok ⟨rest, c + n * k⟩ := by
  have hl := zeroFields_length n k
  rw [skipBits_fold n k _ c (by rw [List.length_append, hl]; omega), ← hl, List.drop_left]

end BitStreamReader

namespace CLPIStreamInfo

theorem readString_str4Bits (str : List Nat) (rest : List Bool) (c : Nat) :
    readString 4 ⟨str4Bits str ++ rest, c⟩
      = .ok ([str.getD 0 0 % 256, str.getD 1 0 % 256, str.getD 2 0 % 256, str.getD 3 0 % 256],
          ⟨rest, c + 32⟩) := by
  simp only [readString, str4Bits, List.append_assoc, BitStreamReader.getBits_natBits,
    Except.ok_bind', bind_pure_comp, Functor.map, Except.map, Nat.add_assoc]
  rfl

end CLPIStreamInfo

namespace CLPIParser

open BitStreamWriter CLPIStreamInfo

theorem TS_type_info_block_bits (p : CLPIParser) (rest : List Bool) (c : Nat) :
    TS_type_info_block p ⟨tsTypeInfoBits ++ rest, c⟩
      = .ok ({ p with format_identifier := [0x48, 0x44, 0x4d, 0x56] }, ⟨rest, c + 256⟩) := by
  unfold TS_type_info_block tsTypeInfoBits
  simp only [List.append_assoc]
  rw [BitStreamReader.skipBits_natBits 16 _ _ _ 24 (by decide),
    BitStreamReader.skipBits_natBits 8 _ _ _ 8 (by decide), BitStreamReader.skipBits_zero]
  simp only [Except.ok_bind', readString_str4Bits, BitStreamReader.skipBits_zeroFields]
  rfl

theorem parseClipInfo_clipInfoBits (p self : CLPIParser) (rest : List Bool) (c : Nat) :
    parseClipInfo p ⟨clipInfoBits self ++ rest, c⟩
      = .ok (parsedClipInfo p self, ⟨rest, c + 1440⟩) := by
  unfold parseClipInfo clipInfoBits
  simp only [List.append_assoc]
  rw [BitStreamReader.skipBits_natBits 32 _ _ _ 32 (by decide), BitStreamReader.skipBits_zero]
  simp only [Except.ok_bind']
  rw [BitStreamReader.skipBits_natBits 16 _ _ _ 16 (by decide), BitStreamReader.skipBits_zero]
  simp only [Except.ok_bind', BitStreamReader.getBits_natBits]
  rw [BitStreamReader.skipBits_natBits 31 _ _ _ 31 (by decide), BitStreamReader.skipBits_zero]
  simp only [Except.ok_bind', BitStreamReader.getBits_natBits, BitStreamReader.getBit_natBits,
    BitStreamReader.skipBits_zeroFields, TS_type_info_block_bits, parsedClipInfo]
  cases self.is_ATC_delta <;> rfl

theorem parseSequenceInfoSTC_one (p : CLPIParser) (a b s e : Nat) (rest : List Bool) (c : Nat) :
    parseSequenceInfoSTC 1 p
        ⟨natBits 16 a ++ (natBits 32 b ++ (natBits 32 s ++ (natBits 32 e ++ rest))), c⟩
      = .ok ({ p with presentation_start_time := s % 2 ^ 32, presentation_end_time := e % 2 ^ 32 },
          ⟨rest, c + 112⟩) := by
  show parseSequenceInfoSTC (0 + 1) p _ = _
  rw [parseSequenceInfoSTC]
  rw [BitStreamReader.skipBits_natBits 16 _ _ _ 16 (by decide), BitStreamReader.skipBits_zero]
  simp only [Except.ok_bind']
  rw [BitStreamReader.skipBits_natBits 32 _ _ _ 32 (by decide), BitStreamReader.skipBits_zero]
  simp only [Except.ok_bind', BitStreamReader.getBits_natBits]
  rw [parseSequenceInfoSTC]

theorem parseSequenceInfoATC_one (p : CLPIParser) (x a b s e : Nat) (rest : List Bool) (c : Nat) :
    parseSequenceInfoATC 1 p
        ⟨natBits 32 x ++ (natBits 8 1 ++ (natBits 8 0 ++ (natBits 16 a ++ (natBits 32 b ++
          (natBits 32 s ++ (natBits 32 e ++ rest)))))), c⟩
      = .ok ({ p with presentation_start_time := s % 2 ^ 32, presentation_end_time := e % 2 ^ 32 },
          ⟨rest, c + 160⟩) := by
  show parseSequenceInfoATC (0 + 1) p _ = _
  rw [parseSequenceInfoATC]
  rw [BitStreamReader.skipBits_natBits 32 _ _ _ 32 (by decide), BitStreamReader.skipBits_zero]
  simp only [Except.ok_bind', BitStreamReader.getBits_natBits]
  have h1 : stcRounds (1 % 2 ^ 8) (0 % 2 ^ 8) = some 1 := by decide
  rw [h1]
  simp only [parseSequenceInfoSTC_one, Except.ok_bind']
  rw [parseSequenceInfoATC]

theorem parseSequenceInfo_sequenceInfoBits (K : MuxConstants) (p self : CLPIParser)
    (rest : List Bool) (hr : rest.length % 8 = 0) :
    parseSequenceInfo p (bitsToBytes (sequenceInfoBits K self ++ rest))
      = .ok (parsedSequenceInfo p self) := by
  unfold parseSequenceInfo
  simp only [BitStreamReader.setBuffer]
  rw [bytesToBits_bitsToBytes _ (by
    simp only [List.length_append, sequenceInfoBits_length]; omega)]
  unfold sequenceInfoBits
  simp only [List.append_assoc]
  rw [BitStreamReader.skipBits_natBits 32 _ _ _ 32 (by decide), BitStreamReader.skipBits_zero]
  simp only [Except.ok_bind']
  rw [BitStreamReader.skipBits_natBits 8 _ _ _ 8 (by decide), BitStreamReader.skipBits_zero]
  simp only [Except.ok_bind', BitStreamReader.getBits_natBits]
  have h1 : 1 % 2 ^ 8 = 1 := by decide
  rw [h1, parseSequenceInfoATC_one]
  rfl

open BitStreamWriter CLPIStreamInfo

/-- The stream loop of `parseProgramInfo` reads any number of entries that
`composeProgramInfo` wrote, whatever follows them. -/
theorem parseProgramInfoStreams_ok (E : StreamTypeCodes) (fresh : CLPIStreamInfo)
    (l : List (Nat × CLPIStreamInfo)) :
    ∀ (k : Nat) (m : List (Nat × CLPIStreamInfo)) (rest : List Bool) (c : Nat),
      k ≤ l.length → (∀ e ∈ l, e.2.stream_coding_type < 256) →
      ∃ r, parseProgramInfoStreams E fresh k ⟨l.flatMap (streamEntryBits E) ++ rest, c⟩ m
        = .ok r := by
  induction l with
  | nil =>
    intro k m rest c hk _
    have : k = 0 := by simpa using hk
    subst this
    exact ⟨_, rfl⟩
  | cons e t ih =>
    intro k m rest c hk hr
    cases k with
    | zero => exact ⟨_, rfl⟩
    | succ k =>
      have ht := hr e (List.mem_cons_self _ _)
      simp only [parseProgramInfoStreams, List.flatMap_cons, streamEntryBits,
        List.append_assoc, BitStreamReader.getBits_natBits, Except.ok_bind']
      rw [parseStreamCodingInfo_sciBody E fresh e.2 _ _ _ ht]
      simp only [Except.ok_bind']
      exact ih k _ rest _ (by simpa using hk) (fun x hx => hr x (List.mem_cons_of_mem _ hx))

/-- `parseProgramInfo` reads a block that `composeProgramInfo` wrote,
whatever follows the block and whatever the maps hold. -/
theorem parseProgramInfo_ok (E : StreamTypeCodes) (K : MuxConstants) (fresh : CLPIStreamInfo)
    (self : CLPIParser) (b : Bool) (L : Nat) (tail : List Bool)
    (pm : List CLPIProgramInfo) (sm : List (Nat × CLPIStreamInfo))
    (ht : tail.length % 8 = 0) (hr : ∀ e ∈ self.m_streamInfo, e.2.stream_coding_type < 256) :
    ∃ r, parseProgramInfo E fresh
        (bitsToBytes (natBits 32 L ++ (programInfoBits E K self b ++ tail))) pm sm = .ok r := by
  have hp := programInfoBits_length_mod E K self b
  have hl : (natBits 32 L ++ (programInfoBits E K self b ++ tail)).length % 8 = 0 := by
    simp only [List.length_append, natBits_length]; omega
  unfold parseProgramInfo
  simp only [BitStreamReader.setBuffer]
  rw [bytesToBits_bitsToBytes _ hl]
  simp only [programInfoBits, List.append_assoc]
  rw [BitStreamReader.skipBits_natBits 32 _ _ _ 32 (by decide), BitStreamReader.skipBits_zero]
  simp only [Except.ok_bind']
  rw [BitStreamReader.skipBits_natBits 8 _ _ _ 8 (by decide), BitStreamReader.skipBits_zero]
  simp only [Except.ok_bind', BitStreamReader.getBits_natBits]
  have h1 : 1 % 2 ^ 8 = 1 := by decide
  rw [h1]
  show ∃ r, parseProgramInfoSequences E fresh (0 + 1) 0 _ pm sm = .ok r
  rw [parseProgramInfoSequences]
  simp only [Except.ok_bind', BitStreamReader.getBits_natBits]
  rw [BitStreamReader.skipBits_natBits 8 _ _ _ 8 (by decide), BitStreamReader.skipBits_zero]
  simp only [Except.ok_bind']
  have hcount : ∀ (x y z : Nat),
      (((((pm ++ [(⟨0, 0, 0⟩ : CLPIProgramInfo)]).modify
        (fun p : CLPIProgramInfo => { p with SPN_program_sequence_start := x }) 0).modify
        (fun p : CLPIProgramInfo => { p with program_map_PID := y }) 0).modify
        (fun p : CLPIProgramInfo => { p with number_of_streams_in_ps := z }) 0).getD 0
          ⟨0, 0, 0⟩).number_of_streams_in_ps
        = z := by
    intro x y z
    cases pm <;> rfl
  rw [hcount]
  obtain ⟨r, hr⟩ := parseProgramInfoStreams_ok E fresh (selectedStreams E b self.m_streamInfo)
    ((selectedStreams E b self.m_streamInfo).length % 2 ^ 8) sm tail
    (0 + 32 + 8 + 8 + 32 + 16 + 8 + 8)
    (Nat.mod_le _ _) (fun e he => hr e (List.mem_of_mem_filter he))
  rw [hr]
  simp only [Except.ok_bind']
  rw [parseProgramInfoSequences]
  exact ⟨_, rfl⟩

end CLPIParser

namespace BitStreamReader

theorem getBits_ok (r : BitStreamReader) (n : Nat) (h : n ≤ r.bits.length) :
    getBits r n = .ok (bitsToNat (r.bits.take n), ⟨r.bits.drop n, r.count + n⟩) := by
  unfold getBits
  rw [if_pos h]

end BitStreamReader

/-- The bytes of a part of a bit string that lies at a byte offset. -/
theorem drop_take_bitsToBytes (A S B : List Bool) (a d : Nat) (hA : A.length = 8 * a)
    (hS : S.length = 8 * d) :
    ((bitsToBytes (A ++ (S ++ B))).drop a).take d = bitsToBytes S := by
  rw [bitsToBytes_append A _ (by omega), bitsToBytes_append S _ (by omega)]
  have h1 : (bitsToBytes A).length = a := by rw [bitsToBytes_length A (by omega)]; omega
  have h2 : (bitsToBytes S).length = d := by rw [bitsToBytes_length S (by omega)]; omega
  rw [← h1, List.drop_left, ← h2, List.take_left]

theorem drop_bitsToBytes (A S : List Bool) (a : Nat) (hA : A.length = 8 * a) :
    (bitsToBytes (A ++ S)).drop a = bitsToBytes S := by
  rw [bitsToBytes_append A _ (by omega)]
  have h1 : (bitsToBytes A).length = a := by rw [bitsToBytes_length A (by omega)]; omega
  rw [← h1, List.drop_left]

namespace CLPIParser

open BitStreamWriter CLPIStreamInfo

theorem SameClipFields.rfl_of (a : CLPIParser) : SameClipFields a a :=
  ⟨rfl, rfl, rfl, rfl, rfl, rfl, rfl⟩

theorem SameClipFields.trans_of {a b c : CLPIParser} (h1 : SameClipFields a b)
    (h2 : SameClipFields b c) : SameClipFields a c := by
  unfold SameClipFields at *
  obtain ⟨a1, a2, a3, a4, a5, a6, a7⟩ := h1
  obtain ⟨b1, b2, b3, b4, b5, b6, b7⟩ := h2
  exact ⟨a1.trans b1, a2.trans b2, a3.trans b3, a4.trans b4, a5.trans b5, a6.trans b6,
    a7.trans b7⟩

theorem extentLoop_ok (l : List Nat) :
    ∀ (acc : List Nat) (bits : List Bool) (c : Nat), 32 * l.length ≤ bits.length →
      ∃ r, l.foldlM
        (fun (st : List Nat × BitStreamReader) _ => do
          let (v, reader) ← st.2.getBits 32
          pure (st.1 ++ [v], reader))
        (acc, (⟨bits, c⟩ : BitStreamReader)) = Except.ok (ε := Exc) r := by
  induction l with
  | nil => intro acc bits c _; exact ⟨_, rfl⟩
  | cons x t ih =>
    intro acc bits c h
    simp only [List.length_cons] at h
    rw [List.foldlM_cons, BitStreamReader.getBits_ok _ _ (by show 32 ≤ bits.length; omega)]
    simp only [Except.ok_bind']
    exact ih _ _ _ (by simp only [List.length_drop]; omega)

/-- `Extent_Start_Point` reads the block `composeExtentStartPoint` wrote and
sets `SPN_extent_start` only. -/
theorem Extent_Start_Point_ok (p self : CLPIParser) :
    ∃ vals, Extent_Start_Point p (bitsToBytes (extentStartPointBits self))
      = .ok { p with SPN_extent_start := vals } := by
  unfold Extent_Start_Point
  simp only [BitStreamReader.setBuffer]
  rw [bytesToBits_bitsToBytes _ (by
    simp only [extentStartPointBits, List.length_append, natBits_length,
      extentSumBits_length]; omega)]
  unfold extentStartPointBits
  rw [BitStreamReader.skipBits_natBits 32 _ _ _ 32 (by decide), BitStreamReader.skipBits_zero]
  simp only [Except.ok_bind']
  rw [BitStreamReader.skipBits_natBits 16 _ _ _ 16 (by decide), BitStreamReader.skipBits_zero]
  simp only [Except.ok_bind', BitStreamReader.getBits_natBits]
  obtain ⟨r, hr⟩ := extentLoop_ok (List.range (self.interleaveInfo.length % 2 ^ 32 % 2 ^ 16)) []
    (extentSumBits 0 self.interleaveInfo) (0 + 32 + 16 + 16) (by
      rw [extentSumBits_length, List.length_range]
      have := Nat.mod_le (self.interleaveInfo.length % 2 ^ 32) (2 ^ 16)
      have := Nat.mod_le self.interleaveInfo.length (2 ^ 32)
      omega)
  rw [hr]
  exact ⟨r.1, rfl⟩

/-- `parseCPI` reads a block that begins with its length field and, unless
the length is 0, holds two bytes more. -/
theorem parseCPI_ok (v : Nat) (X : List Bool) (hX : X.length % 8 = 0)
    (h : v % 2 ^ 32 = 0 ∨ 16 ≤ X.length) :
    parseCPI (bitsToBytes (natBits 32 v ++ X)) = .ok () := by
  unfold parseCPI
  simp only [BitStreamReader.setBuffer]
  rw [bytesToBits_bitsToBytes _ (by simp only [List.length_append, natBits_length]; omega)]
  simp only [BitStreamReader.getBits_natBits, Except.ok_bind']
  by_cases h0 : v % 2 ^ 32 = 0
  · simp only [h0, ne_eq, not_true_eq_false, if_false]
    rfl
  · rcases h with h | h
    · exact absurd h h0
    · simp only [ne_eq, h0, not_false_eq_true, if_true]
      rw [BitStreamReader.skipBits_ok _ _ (by exact h)]
      rfl

theorem parseClipMark_ok (v : Nat) (X : List Bool) (hX : X.length % 8 = 0) :
    parseClipMark (bitsToBytes (natBits 32 v ++ X)) = .ok () := by
  unfold parseClipMark
  simp only [BitStreamReader.setBuffer]
  rw [bytesToBits_bitsToBytes _ (by simp only [List.length_append, natBits_length]; omega)]
  rw [BitStreamReader.skipBits_natBits 32 _ _ _ 32 (by decide), BitStreamReader.skipBits_zero]
  rfl

/-- `ProgramInfo_SS` reads the block `composeProgramInfo` wrote and sets the
maps of the MVC streams only. -/
theorem ProgramInfo_SS_ok (E : StreamTypeCodes) (K : MuxConstants) (fresh : CLPIStreamInfo)
    (p self : CLPIParser) (L : Nat) (tail : List Bool) (ht : tail.length % 8 = 0)
    (hr : ∀ e ∈ self.m_streamInfo, e.2.stream_coding_type < 256) :
    ∃ pm sm, ProgramInfo_SS E fresh p
        (bitsToBytes (natBits 32 L ++ (programInfoBits E K self true ++ tail)))
      = .ok { p with m_programInfoMVC := pm, m_streamInfoMVC := sm } := by
  unfold ProgramInfo_SS
  obtain ⟨r, hr⟩ := parseProgramInfo_ok E K fresh self true L tail p.m_programInfoMVC
    p.m_streamInfoMVC ht hr
  rw [hr]
  exact ⟨r.1, r.2, rfl⟩

open BitStreamWriter CLPIStreamInfo

/-- One round of the entry loop of `parseExtensionData`: when the block of
the entry, unless the entry is skipped, is read without an error and the
fields of the clip information stay as they are, and the rounds behind do
the same, so does the loop. -/
theorem parseExtensionDataEntries_step (E : StreamTypeCodes) (fresh : CLPIStreamInfo)
    (buffer : List Nat) (size n : Nat) (p : CLPIParser) (id addr dl : Nat) (rest : List Bool)
    (c : Nat)
    (hblock : ¬ ((addr % 2 ^ 32 + dl % 2 ^ 32) % 2 ^ 32 > size % 2 ^ 32) →
      ∃ p', (if id % 2 ^ 32 = 0x00010002 then pure p
          else if id % 2 ^ 32 = 0x00020004 then
            Extent_Start_Point p ((buffer.drop (addr % 2 ^ 32)).take (dl % 2 ^ 32))
          else if id % 2 ^ 32 = 0x00020005 then
            ProgramInfo_SS E fresh p ((buffer.drop (addr % 2 ^ 32)).take (dl % 2 ^ 32))
          else if id % 2 ^ 32 = 0x00020006 then do
            CPI_SS ((buffer.drop (addr % 2 ^ 32)).take (dl % 2 ^ 32))
            pure p
          else pure p) = Except.ok (ε := Exc) p' ∧ SameClipFields p' p)
    (hrest : ∀ p', SameClipFields p' p →
      ∃ q, parseExtensionDataEntries E fresh buffer size n p' ⟨rest, c + 32 + 32 + 32⟩ = .ok q ∧
        SameClipFields q p') :
    ∃ q, parseExtensionDataEntries E fresh buffer size (n + 1) p
        ⟨natBits 32 id ++ (natBits 32 addr ++ (natBits 32 dl ++ rest)), c⟩ = .ok q ∧
      SameClipFields q p := by
  rw [parseExtensionDataEntries]
  simp only [BitStreamReader.getBits_natBits, Except.ok_bind']
  by_cases hc : (addr % 2 ^ 32 + dl % 2 ^ 32) % 2 ^ 32 > size % 2 ^ 32
  · rw [if_pos hc]
    exact hrest p (SameClipFields.rfl_of p)
  · rw [if_neg hc]
    obtain ⟨p', h1, h2⟩ := hblock hc
    obtain ⟨q, h3, h4⟩ := hrest p' h2
    refine ⟨q, ?_, h4.trans_of h2⟩
    split_ifs at h1 ⊢
    · cases h1; exact h3
    · rw [h1]; exact h3
    · rw [h1]; exact h3
    · obtain ⟨u, h5, h6⟩ := bind_eq_ok _ _ _ h1
      rw [h5]
      cases h6
      exact h3
    · cases h1; exact h3

theorem parseExtensionData_zero (E : StreamTypeCodes) (fresh : CLPIStreamInfo) (p : CLPIParser)
    (v : Nat) (X : List Bool) (buffer : List Nat) (size : Nat)
    (hb : bytesToBits (buffer.take size) = natBits 32 v ++ X) (hv : v % 2 ^ 32 = 0) :
    parseExtensionData E fresh p buffer size = .ok p := by
  unfold parseExtensionData
  simp only [BitStreamReader.setBuffer, hb, BitStreamReader.getBits_natBits, Except.ok_bind', hv,
    if_true]
  rfl

open BitStreamWriter CLPIStreamInfo

theorem take_bitsToBytes_all (B : List Bool) (hB : B.length % 8 = 0) :
    (bitsToBytes B).take (B.length / 8) = bitsToBytes B := by
  rw [← bitsToBytes_length B hB, List.take_length]

theorem parseExtensionData_header (E : StreamTypeCodes) (fresh : CLPIStreamInfo)
    (p : CLPIParser) (L a z k : Nat) (R : List Bool)
    (hR : R.length % 8 = 0) (hL : L % 2 ^ 32 ≠ 0) :
    parseExtensionData E fresh p
        (bitsToBytes (natBits 32 L ++ (natBits 32 a ++ (natBits 24 z ++ (natBits 8 k ++ R)))))
        ((natBits 32 L ++ (natBits 32 a ++ (natBits 24 z ++ (natBits 8 k ++ R)))).length / 8)
      = parseExtensionDataEntries E fresh
          (bitsToBytes (natBits 32 L ++ (natBits 32 a ++ (natBits 24 z ++ (natBits 8 k ++ R)))))
          ((natBits 32 L ++ (natBits 32 a ++ (natBits 24 z ++ (natBits 8 k ++ R)))).length / 8)
          (k % 2 ^ 8) p ⟨R, 0 + 32 + 32 + 24 + 8⟩ := by
  have hB : (natBits 32 L ++ (natBits 32 a ++ (natBits 24 z ++ (natBits 8 k ++ R)))).length % 8
      = 0 := by
    simp only [List.length_append, natBits_length]; omega
  unfold parseExtensionData
  simp only [BitStreamReader.setBuffer]
  rw [take_bitsToBytes_all _ hB, bytesToBits_bitsToBytes _ hB]
  simp only [BitStreamReader.getBits_natBits, Except.ok_bind', if_neg hL]
  rw [BitStreamReader.skipBits_natBits 32 _ _ _ 32 (by decide), BitStreamReader.skipBits_zero]
  simp only [Except.ok_bind']
  rw [BitStreamReader.skipBits_natBits 24 _ _ _ 24 (by decide), BitStreamReader.skipBits_zero]
  simp only [Except.ok_bind', BitStreamReader.getBits_natBits]

/-- `parseExtensionData` reads the extension data that `composeExtentInfo`
wrote for a clip without a dependent view, whatever alignment bytes follow,
and leaves the fields of the clip information as they are. -/
theorem parseExtensionData_main (E : StreamTypeCodes) (fresh : CLPIStreamInfo)
    (p self : CLPIParser) (L : Nat) (pad : List Bool) (hpad : pad.length % 8 = 0)
    (hsize : 8 + 4 * self.interleaveInfo.length < 2 ^ 32) :
    ∃ q, parseExtensionData E fresh p
        (bitsToBytes ((natBits 32 L ++ (natBits 32 24 ++
          (natBits 24 0 ++ (natBits 8 1 ++ (natBits 32 0x00020004 ++ (natBits 32 24 ++
          (natBits 32 (8 + 4 * self.interleaveInfo.length) ++
            extentStartPointBits self))))))) ++ pad))
        (((natBits 32 L ++ (natBits 32 24 ++
          (natBits 24 0 ++ (natBits 8 1 ++ (natBits 32 0x00020004 ++ (natBits 32 24 ++
          (natBits 32 (8 + 4 * self.interleaveInfo.length) ++
            extentStartPointBits self))))))) ++ pad).length / 8) = .ok q ∧
      SameClipFields q p := by
  have hesp : (extentStartPointBits self).length = 8 * (8 + 4 * self.interleaveInfo.length) := by
    simp only [extentStartPointBits, List.length_append, natBits_length, extentSumBits_length]
    omega
  simp only [List.append_assoc]
  by_cases hL : L % 2 ^ 32 = 0
  · refine ⟨p, ?_, SameClipFields.rfl_of p⟩
    exact parseExtensionData_zero E fresh p L _ _ _ (by
      rw [take_bitsToBytes_all _ (by
        simp only [List.length_append, natBits_length, hesp]; omega),
        bytesToBits_bitsToBytes _ (by
        simp only [List.length_append, natBits_length, hesp]; omega)]) hL
  · rw [parseExtensionData_header E fresh p L 24 0 1 _ (by
      simp only [List.length_append, natBits_length, hesp]; omega) hL]
    have h1 : 1 % 2 ^ 8 = 0 + 1 := by decide
    rw [h1]
    refine parseExtensionDataEntries_step E fresh _ _ 0 p _ _ _ _ _ ?_ ?_
    · intro _
      rw [if_neg (by decide), if_pos (by decide)]
      have e1 : 24 % 2 ^ 32 = 24 := by decide
      rw [e1, Nat.mod_eq_of_lt hsize]
      have hsplit : natBits 32 L ++ (natBits 32 24 ++ (natBits 24 0 ++ (natBits 8 1 ++
          (natBits 32 131076 ++ (natBits 32 24 ++
          (natBits 32 (8 + 4 * self.interleaveInfo.length) ++
            (extentStartPointBits self ++ pad)))))))
          = (natBits 32 L ++ (natBits 32 24 ++ (natBits 24 0 ++ (natBits 8 1 ++
            (natBits 32 131076 ++ (natBits 32 24 ++
            natBits 32 (8 + 4 * self.interleaveInfo.length))))))) ++
            (extentStartPointBits self ++ pad) := by
        simp only [List.append_assoc]
      rw [hsplit, drop_take_bitsToBytes _ _ _ 24 _ (by
        simp only [List.length_append, natBits_length]) hesp]
      obtain ⟨vals, hv⟩ := Extent_Start_Point_ok p self
      exact ⟨_, hv, ⟨rfl, rfl, rfl, rfl, rfl, rfl, rfl⟩⟩
    · intro p' _
      exact ⟨p', rfl, SameClipFields.rfl_of p'⟩

open BitStreamWriter CLPIStreamInfo

/-- `parseExtensionData` reads the extension data that `composeExtentInfo`
wrote for a clip with a dependent view (the extent start points, the program
info and the CPI of the dependent view), whatever alignment bytes follow, and
leaves the fields of the clip information as they are. -/
theorem parseExtensionData_depend (E : StreamTypeCodes) (K : MuxConstants)
    (fresh : CLPIStreamInfo) (p self : CLPIParser) (L lp v : Nat) (padp X pad : List Bool)
    (hpadp : padp.length % 8 = 0) (hX : X.length % 8 = 0)
    (hv : v % 2 ^ 32 = 0 ∨ 16 ≤ X.length) (hpad : pad.length % 8 = 0)
    (hr : ∀ e ∈ self.m_streamInfo, e.2.stream_coding_type < 256)
    (hsize : 64 + 4 * self.interleaveInfo.length
      + (programInfoBits E K self true ++ padp).length / 8 + X.length / 8 < 2 ^ 32) :
    ∃ q, parseExtensionData E fresh p
        (bitsToBytes ((natBits 32 L ++
          (natBits 32 48 ++ (natBits 24 0 ++ (natBits 8 3 ++
          (natBits 32 0x00020004 ++ (natBits 32 48 ++
          (natBits 32 (8 + 4 * self.interleaveInfo.length) ++
          (natBits 32 0x00020005 ++ (natBits 32 (56 + 4 * self.interleaveInfo.length) ++
          (natBits 32 (4 + (programInfoBits E K self true ++ padp).length / 8) ++
          (natBits 32 0x00020006 ++
          (natBits 32 (60 + 4 * self.interleaveInfo.length
              + (programInfoBits E K self true ++ padp).length / 8) ++
          (natBits 32 (4 + X.length / 8) ++
          (extentStartPointBits self ++
          ((natBits 32 lp ++ (programInfoBits E K self true ++ padp)) ++
          (natBits 32 v ++ X)))))))))))))))) ++ pad))
        (((natBits 32 L ++
          (natBits 32 48 ++ (natBits 24 0 ++ (natBits 8 3 ++
          (natBits 32 0x00020004 ++ (natBits 32 48 ++
          (natBits 32 (8 + 4 * self.interleaveInfo.length) ++
          (natBits 32 0x00020005 ++ (natBits 32 (56 + 4 * self.interleaveInfo.length) ++
          (natBits 32 (4 + (programInfoBits E K self true ++ padp).length / 8) ++
          (natBits 32 0x00020006 ++
          (natBits 32 (60 + 4 * self.interleaveInfo.length
              + (programInfoBits E K self true ++ padp).length / 8) ++
          (natBits 32 (4 + X.length / 8) ++
          (extentStartPointBits self ++
          ((natBits 32 lp ++ (programInfoBits E K self true ++ padp)) ++
          (natBits 32 v ++ X)))))))))))))))) ++ pad).length / 8) = .ok q ∧
      SameClipFields q p := by
  have hesp : (extentStartPointBits self).length = 8 * (8 + 4 * self.interleaveInfo.length) := by
    simp only [extentStartPointBits, List.length_append, natBits_length, extentSumBits_length]
    omega
  have hpm := programInfoBits_length_mod E K self true
  have hpi : (programInfoBits E K self true ++ padp).length % 8 = 0 := by
    rw [List.length_append]; omega
  generalize hPI : programInfoBits E K self true ++ padp = PI at hsize hpi ⊢
  generalize hn : self.interleaveInfo.length = n at hsize hesp ⊢
  generalize hESP : extentStartPointBits self = ESP at hesp ⊢
  have hR : (natBits 32 0x00020004 ++ (natBits 32 48 ++
          (natBits 32 (8 + 4 * n) ++
          (natBits 32 0x00020005 ++ (natBits 32 (56 + 4 * n) ++
          (natBits 32 (4 + PI.length / 8) ++
          (natBits 32 0x00020006 ++
          (natBits 32 (60 + 4 * n + PI.length / 8) ++
          (natBits 32 (4 + X.length / 8) ++
          (ESP ++ (natBits 32 lp ++ (PI ++ (natBits 32 v ++ (X ++ pad)))))))))))))).length % 8
      = 0 := by
    simp only [List.length_append, natBits_length, hesp]; omega
  simp only [List.append_assoc]
  by_cases hL : L % 2 ^ 32 = 0
  · refine ⟨p, ?_, SameClipFields.rfl_of p⟩
    exact parseExtensionData_zero E fresh p L _ _ _ (by
      rw [take_bitsToBytes_all _ (by
        simp only [List.length_append, natBits_length, hesp]; omega),
        bytesToBits_bitsToBytes _ (by
        simp only [List.length_append, natBits_length, hesp]; omega)]) hL
  · rw [parseExtensionData_header E fresh p L 48 0 3 _ hR hL]
    have h3 : 3 % 2 ^ 8 = 2 + 1 := by decide
    rw [h3]
    have e48 : 48 % 2 ^ 32 = 48 := by decide
    refine parseExtensionDataEntries_step E fresh _ _ 2 p _ _ _ _ _ ?_ ?_
    · intro _
      rw [if_neg (by decide), if_pos (by decide), e48, Nat.mod_eq_of_lt (by omega)]
      have hsplit : natBits 32 L ++ (natBits 32 48 ++ (natBits 24 0 ++ (natBits 8 3 ++
          (natBits 32 131076 ++ (natBits 32 48 ++
          (natBits 32 (8 + 4 * n) ++
          (natBits 32 131077 ++ (natBits 32 (56 + 4 * n) ++
          (natBits 32 (4 + PI.length / 8) ++
          (natBits 32 131078 ++
          (natBits 32 (60 + 4 * n + PI.length / 8) ++
          (natBits 32 (4 + X.length / 8) ++
          (ESP ++ (natBits 32 lp ++ (PI ++ (natBits 32 v ++ (X ++ pad)))))))))))))))))
          = (natBits 32 L ++ (natBits 32 48 ++ (natBits 24 0 ++ (natBits 8 3 ++
          (natBits 32 131076 ++ (natBits 32 48 ++
          (natBits 32 (8 + 4 * n) ++
          (natBits 32 131077 ++ (natBits 32 (56 + 4 * n) ++
          (natBits 32 (4 + PI.length / 8) ++
          (natBits 32 131078 ++
          (natBits 32 (60 + 4 * n + PI.length / 8) ++
          natBits 32 (4 + X.length / 8))))))))))))) ++
          (ESP ++ (natBits 32 lp ++ (PI ++ (natBits 32 v ++ (X ++ pad))))) := by
        simp only [List.append_assoc]
      rw [hsplit, drop_take_bitsToBytes _ _ _ 48 _ (by
        simp only [List.length_append, natBits_length]) hesp, ← hESP]
      obtain ⟨vals, hv⟩ := Extent_Start_Point_ok p self
      exact ⟨_, hv, ⟨rfl, rfl, rfl, rfl, rfl, rfl, rfl⟩⟩
    intro p1 _
    refine parseExtensionDataEntries_step E fresh _ _ 1 p1 _ _ _ _ _ ?_ ?_
    · intro _
      rw [if_neg (by decide), if_neg (by decide), if_pos (by decide),
        Nat.mod_eq_of_lt (by omega : 56 + 4 * n < 2 ^ 32),
        Nat.mod_eq_of_lt (by omega : 4 + PI.length / 8 < 2 ^ 32)]
      have hsplit : natBits 32 L ++ (natBits 32 48 ++ (natBits 24 0 ++ (natBits 8 3 ++
          (natBits 32 131076 ++ (natBits 32 48 ++
          (natBits 32 (8 + 4 * n) ++
          (natBits 32 131077 ++ (natBits 32 (56 + 4 * n) ++
          (natBits 32 (4 + PI.length / 8) ++
          (natBits 32 131078 ++
          (natBits 32 (60 + 4 * n + PI.length / 8) ++
          (natBits 32 (4 + X.length / 8) ++
          (ESP ++ (natBits 32 lp ++ (PI ++ (natBits 32 v ++ (X ++ pad)))))))))))))))))
          = (natBits 32 L ++ (natBits 32 48 ++ (natBits 24 0 ++ (natBits 8 3 ++
          (natBits 32 131076 ++ (natBits 32 48 ++
          (natBits 32 (8 + 4 * n) ++
          (natBits 32 131077 ++ (natBits 32 (56 + 4 * n) ++
          (natBits 32 (4 + PI.length / 8) ++
          (natBits 32 131078 ++
          (natBits 32 (60 + 4 * n + PI.length / 8) ++
          (natBits 32 (4 + X.length / 8) ++ ESP))))))))))))) ++
          ((natBits 32 lp ++ PI) ++ (natBits 32 v ++ (X ++ pad))) := by
        simp only [List.append_assoc]
      rw [hsplit, drop_take_bitsToBytes _ _ _ (56 + 4 * n) _ (by
        simp only [List.length_append, natBits_length, hesp]; omega) (by
        simp only [List.length_append, natBits_length]; omega), ← hPI]
      obtain ⟨pm, sm, hps⟩ := ProgramInfo_SS_ok E K fresh p1 self lp padp hpadp hr
      exact ⟨_, hps, ⟨rfl, rfl, rfl, rfl, rfl, rfl, rfl⟩⟩
    intro p2 _
    refine parseExtensionDataEntries_step E fresh _ _ 0 p2 _ _ _ _ _ ?_ ?_
    · intro _
      rw [if_neg (by decide), if_neg (by decide), if_neg (by decide), if_pos (by decide),
        Nat.mod_eq_of_lt (by omega : 60 + 4 * n + PI.length / 8 < 2 ^ 32),
        Nat.mod_eq_of_lt (by omega : 4 + X.length / 8 < 2 ^ 32)]
      have hsplit : natBits 32 L ++ (natBits 32 48 ++ (natBits 24 0 ++ (natBits 8 3 ++
          (natBits 32 131076 ++ (natBits 32 48 ++
          (natBits 32 (8 + 4 * n) ++
          (natBits 32 131077 ++ (natBits 32 (56 + 4 * n) ++
          (natBits 32 (4 + PI.length / 8) ++
          (natBits 32 131078 ++
          (natBits 32 (60 + 4 * n + PI.length / 8) ++
          (natBits 32 (4 + X.length / 8) ++
          (ESP ++ (natBits 32 lp ++ (PI ++ (natBits 32 v ++ (X ++ pad)))))))))))))))))
          = (natBits 32 L ++ (natBits 32 48 ++ (natBits 24 0 ++ (natBits 8 3 ++
          (natBits 32 131076 ++ (natBits 32 48 ++
          (natBits 32 (8 + 4 * n) ++
          (natBits 32 131077 ++ (natBits 32 (56 + 4 * n) ++
          (natBits 32 (4 + PI.length / 8) ++
          (natBits 32 131078 ++
          (natBits 32 (60 + 4 * n + PI.length / 8) ++
          (natBits 32 (4 + X.length / 8) ++ (ESP ++ (natBits 32 lp ++ PI))))))))))))))) ++
          ((natBits 32 v ++ X) ++ pad) := by
        simp only [List.append_assoc]
      rw [hsplit, drop_take_bitsToBytes _ _ _ (60 + 4 * n + PI.length / 8) _ (by
        simp only [List.length_append, natBits_length, hesp]; omega) (by
        simp only [List.length_append, natBits_length]; omega)]
      unfold CPI_SS
      rw [parseCPI_ok v X hX hv]
      exact ⟨_, rfl, SameClipFields.rfl_of p2⟩
    · intro p3 _
      exact ⟨p3, rfl, SameClipFields.rfl_of p3⟩

open BitStreamWriter CLPIStreamInfo

/-- `parseExtensionData` reads the extension data `composeExtentInfo` wrote at
a 4-byte boundary, followed by alignment bytes, when the data is shorter than
2^32 bytes, and leaves the fields of the clip information as they are. -/
theorem parseExtensionData_composeExtentInfo (E : StreamTypeCodes) (K : MuxConstants)
    (fresh : CLPIStreamInfo) (p self : CLPIParser) (w EXT pad : List Bool)
    (hw : w.length % 32 = 0) (h : composeExtentInfo E K self w = .ok (w ++ EXT))
    (hpad : pad.length % 8 = 0) (hsize : (EXT ++ pad).length < 8 * 2 ^ 32)
    (hr : ∀ e ∈ self.m_streamInfo, e.2.stream_coding_type < 256) :
    ∃ q, parseExtensionData E fresh p (bitsToBytes (EXT ++ pad)) ((EXT ++ pad).length / 8)
        = .ok q ∧ SameClipFields q p := by
  by_cases hi : self.interleaveInfo = []
  · rw [composeExtentInfo_empty E K self w hi] at h
    injection h with h
    have hE := List.append_cancel_left h
    subst hE
    refine ⟨p, ?_, SameClipFields.rfl_of p⟩
    exact parseExtensionData_zero E fresh p 0 pad _ _ (by
      rw [take_bitsToBytes_all _ (by simp only [List.length_append, natBits_length]; omega),
        bytesToBits_bitsToBytes _ (by simp only [List.length_append, natBits_length]; omega)])
      (by decide)
  · cases hd : self.isDependStream
    · rw [composeExtentInfo_main E K self w hw hi hd] at h
      injection h with h
      have hE := List.append_cancel_left h
      subst hE
      refine parseExtensionData_main E fresh p self _ pad hpad ?_
      simp only [List.length_append, natBits_length, extentStartPointBits,
        extentSumBits_length] at hsize
      omega
    · obtain ⟨lp, padp, v, X, hpadp, hX, hv, heq⟩ :=
        composeExtentInfo_depend E K self w _ hw hi hd h
      have hE := List.append_cancel_left heq
      subst hE
      have hpm := programInfoBits_length_mod E K self true
      refine parseExtensionData_depend E K fresh p self _ lp v padp X pad hpadp hX hv hpad hr ?_
      simp only [List.length_append, natBits_length, extentStartPointBits,
        extentSumBits_length] at hsize ⊢
      omega

open BitStreamWriter CLPIStreamInfo

theorem str4_getD (str : List Nat) (hl : str.length = 4) (hc : ∀ c ∈ str, c < 256) :
    [str.getD 0 0 % 256, str.getD 1 0 % 256, str.getD 2 0 % 256, str.getD 3 0 % 256] = str := by
  match str, hl, hc with
  | [a, b, c, d], _, hc =>
    have ha := hc a (by simp)
    have hb := hc b (by simp)
    have hc' := hc c (by simp)
    have hd := hc d (by simp)
    simp [Nat.mod_eq_of_lt ha, Nat.mod_eq_of_lt hb, Nat.mod_eq_of_lt hc', Nat.mod_eq_of_lt hd]

/-- The body of `parse` on the output of `compose`: every block is read
without an error, and the fields of the clip information are those of the
state composed, reduced to the widths of their fields. -/
theorem parseBody_composeBits (E : StreamTypeCodes) (K : MuxConstants) (fresh : CLPIStreamInfo)
    (self p : CLPIParser) (out : BitStreamWriter) (h : composeBits E K self = .ok out)
    (hlen : out.length / 8 < 2 ^ 32)
    (hr : ∀ e ∈ self.m_streamInfo, e.2.stream_coding_type < 256) :
    ∃ q, parseBody E fresh p (bitsToBytes out) (out.length / 8) = .ok q ∧
      SameClipFields q
        (parsedSequenceInfo (parsedClipInfo
          { p with
            type_indicator := [0x48, 0x44, 0x4d, 0x56]
            version_number := [self.version_number.getD 0 0 % 256,
              self.version_number.getD 1 0 % 256, self.version_number.getD 2 0 % 256,
              self.version_number.getD 3 0 % 256] } self) self) := by
  obtain ⟨a3, a4, a5, vC, vE, XC, padC, XE, padE, hout, ha3, ha4, ha5, m3, m4, hl32, htot,
    _, ⟨P5, hP5, hext⟩, _, _⟩ := composeBits_layout E K self out h
  have hpm := programInfoBits_length_mod E K self false
  have hout8 : out.length % 8 = 0 := by omega
  -- the extension data block
  obtain ⟨vE', XE', hfr, hXE'⟩ := composeExtentInfo_frame E K self P5 _ (by omega) hext
  have hcancel := List.append_cancel_left hfr
  have hXE : XE.length % 8 = 0 := by
    have := congrArg List.length hcancel
    simp only [List.length_append, natBits_length] at this
    omega
  have hpadE : padE.length % 8 = 0 := by omega
  have hXCp : (XC.length + padC.length) % 8 = 0 := by omega
  -- the blocks at their addresses
  have d220 : (bitsToBytes out).drop 220 = bitsToBytes (sequenceInfoBits K self ++ (natBits 16 0 ++
      ((natBits 32 ((programInfoBits E K self false).length / 8) ++ programInfoBits E K self false) ++
      (natBits 16 0 ++ ((natBits 32 vC ++ XC) ++ (padC ++ (natBits 32 0 ++
      ((natBits 32 vE ++ XE) ++ padE)))))))) := by
    rw [hout, ← List.append_assoc, drop_bitsToBytes _ _ 220 (by
      simp only [List.length_append, headerBits_length, clipInfoBits_length])]
  have d248 : (bitsToBytes out).drop 248 = bitsToBytes
      (natBits 32 ((programInfoBits E K self false).length / 8) ++ (programInfoBits E K self false ++
      (natBits 16 0 ++ ((natBits 32 vC ++ XC) ++ (padC ++ (natBits 32 0 ++
      ((natBits 32 vE ++ XE) ++ padE))))))) := by
    have e : out = (headerBits self.version_number 220 248 a3 a4 a5 ++ (clipInfoBits self ++
        (sequenceInfoBits K self ++ natBits 16 0))) ++
        (natBits 32 ((programInfoBits E K self false).length / 8) ++
        (programInfoBits E K self false ++
        (natBits 16 0 ++ ((natBits 32 vC ++ XC) ++ (padC ++ (natBits 32 0 ++
        ((natBits 32 vE ++ XE) ++ padE))))))) := by
      rw [hout]; simp only [List.append_assoc]
    rw [e, drop_bitsToBytes _ _ 248 (by
      simp only [List.length_append, headerBits_length, clipInfoBits_length,
        sequenceInfoBits_length, natBits_length])]
  have da3 : (bitsToBytes out).drop a3 = bitsToBytes
      (natBits 32 vC ++ (XC ++ (padC ++ (natBits 32 0 ++ ((natBits 32 vE ++ XE) ++ padE))))) := by
    have e : out = (headerBits self.version_number 220 248 a3 a4 a5 ++ (clipInfoBits self ++
        (sequenceInfoBits K self ++ (natBits 16 0 ++
        ((natBits 32 ((programInfoBits E K self false).length / 8) ++
        programInfoBits E K self false) ++ natBits 16 0))))) ++
        (natBits 32 vC ++ (XC ++ (padC ++ (natBits 32 0 ++
        ((natBits 32 vE ++ XE) ++ padE))))) := by
      rw [hout]; simp only [List.append_assoc]
    rw [e, drop_bitsToBytes _ _ a3 (by
      simp only [List.length_append, headerBits_length, clipInfoBits_length,
        sequenceInfoBits_length, natBits_length]; omega)]
  have da4 : (bitsToBytes out).drop a4 = bitsToBytes
      (natBits 32 0 ++ ((natBits 32 vE ++ XE) ++ padE)) := by
    have e : out = (headerBits self.version_number 220 248 a3 a4 a5 ++ (clipInfoBits self ++
        (sequenceInfoBits K self ++ (natBits 16 0 ++
        ((natBits 32 ((programInfoBits E K self false).length / 8) ++
        programInfoBits E K self false) ++ (natBits 16 0 ++
        ((natBits 32 vC ++ XC) ++ padC))))))) ++
        (natBits 32 0 ++ ((natBits 32 vE ++ XE) ++ padE)) := by
      rw [hout]; simp only [List.append_assoc]
    rw [e, drop_bitsToBytes _ _ a4 (by
      simp only [List.length_append, headerBits_length, clipInfoBits_length,
        sequenceInfoBits_length, natBits_length]; omega)]
  have da5 : (bitsToBytes out).drop a5 = bitsToBytes ((natBits 32 vE ++ XE) ++ padE) := by
    have e : out = (headerBits self.version_number 220 248 a3 a4 a5 ++ (clipInfoBits self ++
        (sequenceInfoBits K self ++ (natBits 16 0 ++
        ((natBits 32 ((programInfoBits E K self false).length / 8) ++
        programInfoBits E K self false) ++ (natBits 16 0 ++
        ((natBits 32 vC ++ XC) ++ (padC ++ natBits 32 0)))))))) ++
        ((natBits 32 vE ++ XE) ++ padE) := by
      rw [hout]; simp only [List.append_assoc]
    rw [e, drop_bitsToBytes _ _ a5 (by
      simp only [List.length_append, headerBits_length, clipInfoBits_length,
        sequenceInfoBits_length, natBits_length]; omega)]
  have hsz : out.length / 8 - a5 = ((natBits 32 vE ++ XE) ++ padE).length / 8 := by
    simp only [List.length_append, natBits_length]
    omega
  have hrd : BitStreamReader.setBuffer ((bitsToBytes out).take (out.length / 8))
      = ⟨str4Bits [0x48, 0x44, 0x4d, 0x56] ++ (str4Bits self.version_number ++
          (natBits 32 220 ++ (natBits 32 248 ++ (natBits 32 a3 ++ (natBits 32 a4 ++
          (natBits 32 a5 ++ (zeroFields 3 32 ++ (clipInfoBits self ++
          (sequenceInfoBits K self ++ (natBits 16 0 ++
      ((natBits 32 ((programInfoBits E K self false).length / 8) ++ programInfoBits E K self false) ++
      (natBits 16 0 ++ ((natBits 32 vC ++ XC) ++ (padC ++ (natBits 32 0 ++
      ((natBits 32 vE ++ XE) ++ padE)))))))))))))))), 0⟩ := by
    rw [take_bitsToBytes_all _ hout8]
    unfold BitStreamReader.setBuffer
    rw [bytesToBits_bitsToBytes _ hout8, hout]
    simp only [headerBits, List.append_assoc]
  have h220 : 220 % 2 ^ 32 = 220 := by decide
  have h248 : 248 % 2 ^ 32 = 248 := by decide
  have h3 : a3 % 2 ^ 32 = a3 := Nat.mod_eq_of_lt (by omega)
  have h4 : a4 % 2 ^ 32 = a4 := Nat.mod_eq_of_lt (by omega)
  have h5 : a5 % 2 ^ 32 = a5 := Nat.mod_eq_of_lt (by omega)
  clear hout
  unfold parseBody
  rw [hrd, take_bitsToBytes_all _ hout8]
  simp only [readString_str4Bits, Except.ok_bind', BitStreamReader.getBits_natBits,
    BitStreamReader.skipBits_zeroFields, parseClipInfo_clipInfoBits, h220, h248, h3, h4, h5]
  rw [d220, parseSequenceInfo_sequenceInfoBits K _ self _ (by
    simp only [List.length_append, natBits_length]; omega)]
  simp only [Except.ok_bind']
  rw [d248]
  generalize hPM : parseProgramInfo E fresh _ _ _ = res
  obtain ⟨r, rfl⟩ : ∃ r, res = .ok r := by
    rw [← hPM]
    exact parseProgramInfo_ok E K fresh self false _ _ _ _
      (by simp only [List.length_append, natBits_length]; omega) hr
  clear hPM
  simp only [Except.ok_bind']
  rw [da3, parseCPI_ok vC _ (by simp only [List.length_append, natBits_length]; omega)
    (Or.inr (by simp only [List.length_append, natBits_length]; omega))]
  simp only [Except.ok_bind']
  rw [da4, parseClipMark_ok 0 _ (by simp only [List.length_append, natBits_length]; omega)]
  simp only [Except.ok_bind']
  rw [if_pos (by omega), da5, hsz]
  have key := fun P => parseExtensionData_composeExtentInfo E K fresh P
    self P5 (natBits 32 vE ++ XE) padE (by omega) hext hpadE
    (by simp only [List.length_append, natBits_length] at htot ⊢; omega) hr
  refine Exists.elim (key _) (fun q hq => ⟨q, hq.1, hq.2.trans_of ?_⟩)
  exact ⟨rfl, rfl, rfl, rfl, rfl, rfl, rfl⟩

open BitStreamWriter CLPIStreamInfo

theorem selectEPStreams_clipSample :
    selectEPStreams StreamTypeCodes.standard clipSample false = some ([sampleVideo], 1) := by
  decide

theorem composeEP_map_for_one_stream_PID_sample (w : BitStreamWriter) :
    (composeEP_map_for_one_stream_PID clipSample w sampleVideo).length ≤ w.length + 40 := by
  unfold composeEP_map_for_one_stream_PID
  have hc : buildCoarseInfo clipSample sampleVideo = [] := by decide
  have hm : sampleVideo.m_index = [] := rfl
  simp only [hc, hm, List.foldl_nil, List.isEmpty_nil, Bool.not_true, Bool.false_eq_true,
    if_false]
  split_ifs <;> simp only [store, putBits, getBitsCount, List.length_append, List.length_take,
    List.length_drop, natBits_length] <;> omega

theorem composeCPI_clipSample (w w' : BitStreamWriter)
    (h : composeCPI StreamTypeCodes.standard clipSample w false = .ok w') :
    w'.length ≤ w.length + 256 := by
  unfold composeCPI at h
  simp only [show clipSample.isDependStream = false from rfl, Bool.false_eq_true, false_and,
    not_false_eq_true, and_false, or_self, if_false] at h
  obtain ⟨w1, h1, h2⟩ := bind_eq_ok _ _ _ h
  have e2 := MPLSParser.pure_eq_ok _ _ h2
  have l1 : w1.length ≤ w.length + 224 := by
    clear h h2 e2
    unfold composeEP_map at h1
    simp only [selectEPStreams_clipSample] at h1
    have hc : buildCoarseInfo clipSample sampleVideo = [] := by decide
    have hm : sampleVideo.m_index = [] := rfl
    simp only [List.foldl, List.zip, List.zipWith, hc, hm, List.isEmpty_nil, Bool.not_true,
      Bool.false_eq_true, if_false] at h1
    injection h1 with h1
    rw [← h1]
    clear h1
    split_ifs <;>
      (first
        | (refine le_trans (composeEP_map_for_one_stream_PID_sample _) ?_
           simp only [store, putBits, getBitsCount, List.length_append, List.length_take,
             List.length_drop, natBits_length]
           omega)
        | (simp only [putBits, List.length_append, natBits_length]
           refine le_trans (Nat.add_le_add_right (composeEP_map_for_one_stream_PID_sample _) _) ?_
           simp only [store, putBits, getBitsCount, List.length_append, List.length_take,
             List.length_drop, natBits_length]
           omega))
  rw [← e2]
  simp only [store, putBits, getBitsCount, List.length_append, List.length_take,
    List.length_drop, natBits_length]
  omega

open BitStreamWriter CLPIStreamInfo

theorem selectEPStreams_of_hasEPStream (E : StreamTypeCodes) (self : CLPIParser) (b : Bool)
    (h : HasEPStream E self b) : selectEPStreams E self b ≠ none := by
  intro hn
  obtain ⟨hv, ha⟩ := (selectEPStreams_none E self b).1 hn
  obtain ⟨e, he, h1 | h2⟩ := h
  · rw [ha e he] at h1
    cases h1
  · have hm : e.2 ∈ epVideoStreams E self b := by
      unfold epVideoStreams
      refine List.mem_map_of_mem _ (List.mem_filter.2 ⟨he, ?_⟩)
      cases b
      · simp only [Bool.false_eq_true, if_false] at h2 ⊢
        simpa using h2
      · simp only [if_true] at h2 ⊢
        simpa using h2
    rw [hv] at hm
    cases hm

/-- `composeCPI` returns when the pass is not the one of the clip (the block
is empty then) or an EP map can be built. -/
theorem composeCPI_ok (E : StreamTypeCodes) (self : CLPIParser) (w : BitStreamWriter) (b : Bool)
    (hsel : self.isDependStream = b → selectEPStreams E self b ≠ none) :
    ∃ w', composeCPI E self w b = .ok w' := by
  unfold composeCPI
  by_cases hd : self.isDependStream = b
  · have hs := hsel hd
    have hne : ¬ ((self.isDependStream = true ∧ ¬ b = true) ∨
        (¬ self.isDependStream = true ∧ b = true)) := by
      rw [hd]; cases b <;> simp
    rw [if_neg hne]
    dsimp only
    cases hr : composeEP_map E self (putBits (putBits (putBits w 32 0) 12 0) 4 1) b with
    | error e => exact absurd ((composeEP_map_error E self _ b).1 ⟨e, hr⟩) hs
    | ok w1 => exact ⟨_, rfl⟩
  · have hp : (self.isDependStream = true ∧ ¬ b = true) ∨
        (¬ self.isDependStream = true ∧ b = true) := by
      revert hd; cases self.isDependStream <;> cases b <;> simp
    rw [if_pos hp]
    exact ⟨_, rfl⟩

/-- `composeExtentInfo` returns when the clip has no interleave information,
is not a dependent view, or an EP map of the 3D-extension pass can be
built. -/
theorem composeExtentInfo_total (E : StreamTypeCodes) (K : MuxConstants) (self : CLPIParser)
    (w : BitStreamWriter)
    (hsel : self.isDependStream = true → self.interleaveInfo ≠ [] →
      selectEPStreams E self true ≠ none) :
    ∃ w', composeExtentInfo E K self w = .ok w' := by
  by_cases hi : self.interleaveInfo = []
  · exact ⟨_, composeExtentInfo_empty E K self w hi⟩
  · have hie : self.interleaveInfo.isEmpty = false := by
      cases h : self.interleaveInfo with
      | nil => exact absurd h hi
      | cons a t => rfl
    unfold composeExtentInfo
    simp only [hie, Bool.false_eq_true, if_false]
    cases hd : self.isDependStream
    · simp only [Bool.false_eq_true, if_false]
      exact ⟨_, rfl⟩
    · simp only [if_true]
      generalize hc : composeCPI E self _ true = res
      obtain ⟨w1, rfl⟩ : ∃ w1, res = .ok w1 := by
        rw [← hc]
        exact composeCPI_ok E self _ true (fun h => hsel h hi)
      exact ⟨_, rfl⟩

/-- `compose` returns for a clip without the unsupported flags whose streams
allow the EP maps it writes. -/
theorem compose_total (E : StreamTypeCodes) (K : MuxConstants) (self : CLPIParser)
    (hA : self.is_ATC_delta = false) (h6 : self.application_type ≠ 6)
    (hmain : self.isDependStream = false → HasEPStream E self false)
    (hdep : self.isDependStream = true → self.interleaveInfo ≠ [] → HasEPStream E self true) :
    ∃ out, composeBits E K self = .ok out :=
  composeBits_total E K self hA h6
    (fun w _ => composeCPI_ok E self w false
      (fun h => selectEPStreams_of_hasEPStream E self false (hmain h)))
    (fun w _ => composeExtentInfo_total E K self w
      (fun h hi => selectEPStreams_of_hasEPStream E self true (hdep h hi)))

open BitStreamWriter CLPIStreamInfo

/-- `compose` ends with the exception of `composeCPI` when the latter throws
one. -/
theorem composeBits_cpi_error (E : StreamTypeCodes) (K : MuxConstants) (self : CLPIParser)
    (e : Exc) (hA : self.is_ATC_delta = false) (h6 : self.application_type ≠ 6)
    (hC : ∀ w : BitStreamWriter, composeCPI E self w false = .error e) :
    composeBits E K self = .error e := by
  rw [composeBits_unfold, composeClipInfo_eq self _ (by rw [headerBits_length]), hA,
    if_neg (by decide), if_neg h6]
  have P1 : BehindHeader (headerBits self.version_number 0 0 0 0 0 ++ clipInfoBits self) :=
    ⟨by simp only [List.length_append, headerBits_length, clipInfoBits_length],
     by simp only [List.length_append, headerBits_length, clipInfoBits_length]; omega⟩
  generalize headerBits self.version_number 0 0 0 0 0 ++ clipInfoBits self = w1 at P1 ⊢
  rw [Except.ok_bind', alignLoop_eq w1 P1.1, Except.ok_bind']
  have P2 := P1.behind_align.1
  generalize w1 ++ alignPad w1.length = w2 at P2 ⊢
  try dsimp only
  have P3 : BehindHeader (composeSequenceInfo K self (store w2 8 4
      (getBitsCount w2 / 8 % 2 ^ 32))) := by
    rw [composeSequenceInfo_eq K self _ (P2.behind_store 8 _ (by omega)).1]
    exact (P2.behind_store 8 _ (by omega)).behind_append _ (by rw [sequenceInfoBits_length])
  generalize composeSequenceInfo K self (store w2 8 4 (getBitsCount w2 / 8 % 2 ^ 32)) = w3
    at P3 ⊢
  rw [alignLoop_eq w3 P3.1, Except.ok_bind']
  have P4 := P3.behind_align.1
  generalize w3 ++ alignPad w3.length = w4 at P4 ⊢
  try dsimp only
  have P5 : BehindHeader (composeProgramInfo E K self (store w4 12 4
      (getBitsCount w4 / 8 % 2 ^ 32)) false) := by
    rw [composeProgramInfo_eq E K self _ false (P4.behind_store 12 _ (by omega)).1]
    refine (P4.behind_store 12 _ (by omega)).behind_append _ ?_
    have h1 := programInfoBits_length_mod E K self false
    have h2 := programInfoPad_length_mod E K self false
      (store w4 12 4 (getBitsCount w4 / 8 % 2 ^ 32)).length
    simp only [List.length_append, natBits_length]
    omega
  generalize composeProgramInfo E K self (store w4 12 4 (getBitsCount w4 / 8 % 2 ^ 32)) false
    = w5 at P5 ⊢
  rw [alignLoop_eq w5 P5.1, Except.ok_bind']
  try dsimp only
  rw [hC]
  rfl

theorem composeCPI_mvcOnly (w : BitStreamWriter) :
    composeCPI StreamTypeCodes.standard mvcOnly w false
      = .error (Exc.VodCoreException ErrMsg.cantCreateEPMap) := by
  unfold composeCPI composeEP_map
  have hs : selectEPStreams StreamTypeCodes.standard mvcOnly false = none := by decide
  simp only [hs]
  rfl

theorem programInfoBits_length_le (E : StreamTypeCodes) (K : MuxConstants) (self : CLPIParser)
    (b : Bool) : (programInfoBits E K self b).length ≤ 80 + 192 * self.m_streamInfo.length := by
  have h1 : ∀ l : List (Nat × CLPIStreamInfo),
      (l.flatMap (streamEntryBits E)).length ≤ 192 * l.length := by
    intro l
    induction l with
    | nil => simp
    | cons e t ih =>
      have he : (streamEntryBits E e).length ≤ 192 := by
        simp only [streamEntryBits, List.length_append, natBits_length, sciBody_length]
        split <;> omega
      simp only [List.flatMap_cons, List.length_append, List.length_cons]
      omega
  have h2 : (selectedStreams E b self.m_streamInfo).length ≤ self.m_streamInfo.length :=
    List.length_filter_le _ _
  have h3 := h1 (selectedStreams E b self.m_streamInfo)
  simp only [programInfoBits, List.length_append, natBits_length]
  omega

/-- The file `compose` writes for the sample clip is shorter than 2^32
bytes. -/
theorem compose_clipSample_length (out : BitStreamWriter)
    (h : composeBits StreamTypeCodes.standard MuxConstants.standard clipSample = .ok out) :
    out.length / 8 < 2 ^ 32 := by
  obtain ⟨a3, a4, a5, vC, vE, XC, padC, XE, padE, _, ha3, ha4, ha5, _, _, _, htot,
    ⟨P3, hP3, hcpi⟩, ⟨P5, hP5, hext⟩, hpC, hpE⟩ :=
    composeBits_layout StreamTypeCodes.standard MuxConstants.standard clipSample out h
  have h1 := composeCPI_clipSample P3 _ hcpi
  rw [composeExtentInfo_empty StreamTypeCodes.standard MuxConstants.standard clipSample P5 rfl]
    at hext
  injection hext with hext
  have h2 := congrArg List.length hext
  have h3 := programInfoBits_length_le StreamTypeCodes.standard MuxConstants.standard
    clipSample false
  have h4 : clipSample.m_streamInfo.length = 2 := rfl
  rw [h4] at h3
  simp only [List.length_append, natBits_length] at h1 h2
  omega

end CLPIParser

open BitStreamWriter

/-- The byte at the byte offset `p + k` of a writer that holds `8 * p` bits
followed by `8 * k` bits, the byte `v` and further bits. -/
theorem getD_byte_at (pre mid rest : List Bool) (p k v : Nat) (hp : pre.length = 8 * p)
    (hk : mid.length = 8 * k) :
    (bitsToBytes (pre ++ (mid ++ (natBits 8 v ++ rest)))).getD (p + k) 0 = v % 256 := by
  rw [← List.append_assoc]
  have h := getD_bitsToBytes_pre (pre ++ mid) (natBits 8 v ++ rest) (p + k) 0
    (by rw [List.length_append, hp, hk]; omega)
  rw [Nat.add_zero] at h
  rw [h, bitsToBytes_natBits8]
  rfl

/-- The two HDR bytes of the block that `composeStreamCodingInfo` appends for a
video stream at a byte boundary: bytes 4 and 5 of the block. -/
theorem CLPIStreamInfo.composeStreamCodingInfo_hdr_bytes (E : StreamTypeCodes)
    (si : CLPIStreamInfo) (w : BitStreamWriter) (hw : w.length % 8 = 0)
    (hv : isVideoStreamType E si.stream_coding_type = true) :
    (si.composeStreamCodingInfo E w).take w.length = w ∧
    (bitsToBytes (si.composeStreamCodingInfo E w)).getD (w.length / 8 + 4) 0
      = (if si.HDR &&& 18 ≠ 0 then 0x12 else if si.HDR = 4 then 0x22 else 0) ∧
    (bitsToBytes (si.composeStreamCodingInfo E w)).getD (w.length / 8 + 5) 0
      = (if si.HDR = 16 then 0x80 else 0) := by
  obtain ⟨m, hm⟩ : ∃ m, w.length = 8 * m := ⟨w.length / 8, by omega⟩
  have hdiv : w.length / 8 = m := by omega
  have hb : CLPIStreamInfo.sciBody E si = natBits 8 si.stream_coding_type ++
      (natBits 4 si.video_format ++ (natBits 4 si.frame_rate_index ++
      (natBits 4 si.aspect_ratio_index ++ (natBits 2 0 ++ (natBits 1 0 ++ (natBits 1 0 ++
      (natBits 8 (if si.HDR &&& 18 ≠ 0 then 0x12 else if si.HDR = 4 then 0x22 else 0) ++
      (natBits 8 (if si.HDR = 16 then 0x80 else 0) ++
      (CLPIStreamInfo.isrcBits ++ natBits 32 0))))))))) := by
    simp only [CLPIStreamInfo.sciBody, hv, if_true, List.append_assoc]
  rw [CLPIStreamInfo.composeStreamCodingInfo_eq E si w hw, hdiv]
  refine ⟨List.take_left _ _, ?_, ?_⟩
  · have h := getD_byte_at w (natBits 8 ((CLPIStreamInfo.sciBody E si).length / 8) ++
        natBits 8 si.stream_coding_type ++ natBits 4 si.video_format ++
        natBits 4 si.frame_rate_index ++ natBits 4 si.aspect_ratio_index ++
        natBits 2 0 ++ natBits 1 0 ++ natBits 1 0)
      (natBits 8 (if si.HDR = 16 then 0x80 else 0) ++ (CLPIStreamInfo.isrcBits ++ natBits 32 0))
      m 4 (if si.HDR &&& 18 ≠ 0 then 0x12 else if si.HDR = 4 then 0x22 else 0) hm
      (by simp only [List.length_append, natBits_length])
    generalize (CLPIStreamInfo.sciBody E si).length / 8 = L at h ⊢
    rw [hb]
    simp only [List.append_assoc] at h ⊢
    rw [h]
    split_ifs <;> rfl
  · have h := getD_byte_at w (natBits 8 ((CLPIStreamInfo.sciBody E si).length / 8) ++
        natBits 8 si.stream_coding_type ++ natBits 4 si.video_format ++
        natBits 4 si.frame_rate_index ++ natBits 4 si.aspect_ratio_index ++
        natBits 2 0 ++ natBits 1 0 ++ natBits 1 0 ++
        natBits 8 (if si.HDR &&& 18 ≠ 0 then 0x12 else if si.HDR = 4 then 0x22 else 0))
      (CLPIStreamInfo.isrcBits ++ natBits 32 0)
      m 5 (if si.HDR = 16 then 0x80 else 0) hm
      (by simp only [List.length_append, natBits_length])
    generalize (CLPIStreamInfo.sciBody E si).length / 8 = L at h ⊢
    rw [hb]
    simp only [List.append_assoc] at h ⊢
    rw [h]
    split_ifs <;> rfl

/-- The two HDR bytes of the block that `composeStreamAttributes` appends for a
video stream at a byte boundary: bytes 3 and 4 of the block. -/
theorem MPLSStreamInfo.composeStreamAttributes_hdr_bytes (E : StreamTypeCodes)
    (msi : MPLSStreamInfo) (w : BitStreamWriter) (hw : w.length % 8 = 0)
    (hvm : isVideoStreamType E msi.stream_coding_type = true) :
    ∃ w', msi.composeStreamAttributes E w = .ok w' ∧ w'.take w.length = w ∧
      (bitsToBytes w').getD (w.length / 8 + 3) 0
        = (if msi.HDR &&& 18 ≠ 0 then 0x12 else if msi.HDR = 4 then 0x22 else 0) ∧
      (bitsToBytes w').getD (w.length / 8 + 4) 0 = (if msi.HDR = 16 then 0x40 else 0) := by
  obtain ⟨m, hm⟩ : ∃ m, w.length = 8 * m := ⟨w.length / 8, by omega⟩
  have hdiv : w.length / 8 = m := by omega
  have hok := MPLSStreamInfo.composeStreamAttributes_eq E msi w hw
  rw [if_pos (Or.inl hvm)] at hok
  have hb : MPLSStreamInfo.attrBits E msi = natBits 8 5 ++ (natBits 8 msi.stream_coding_type ++
      (natBits 4 msi.video_format ++ (natBits 4 msi.frame_rate_index ++
      (natBits 8 (if msi.HDR &&& 18 ≠ 0 then 0x12 else if msi.HDR = 4 then 0x22 else 0) ++
      (natBits 8 (if msi.HDR = 16 then 0x40 else 0) ++ natBits 8 0))))) := by
    simp only [MPLSStreamInfo.attrBits, hvm, if_true]
    split_ifs <;> simp only [List.append_assoc]
  refine ⟨_, hok, List.take_left _ _, ?_, ?_⟩
  · rw [hdiv]
    have h := getD_byte_at w (natBits 8 5 ++ natBits 8 msi.stream_coding_type ++
        natBits 4 msi.video_format ++ natBits 4 msi.frame_rate_index)
      (natBits 8 (if msi.HDR = 16 then 0x40 else 0) ++ natBits 8 0)
      m 3 (if msi.HDR &&& 18 ≠ 0 then 0x12 else if msi.HDR = 4 then 0x22 else 0) hm
      (by simp only [List.length_append, natBits_length])
    rw [hb]
    simp only [List.append_assoc] at h ⊢
    rw [h]
    split_ifs <;> rfl
  · rw [hdiv]
    have h := getD_byte_at w (natBits 8 5 ++ natBits 8 msi.stream_coding_type ++
        natBits 4 msi.video_format ++ natBits 4 msi.frame_rate_index ++
        natBits 8 (if msi.HDR &&& 18 ≠ 0 then 0x12 else if msi.HDR = 4 then 0x22 else 0))
      (natBits 8 0)
      m 4 (if msi.HDR = 16 then 0x40 else 0) hm
      (by simp only [List.length_append, natBits_length])
    rw [hb]
    simp only [List.append_assoc] at h ⊢
    rw [h]
    split_ifs <;> rfl

namespace CLPIParser

open BitStreamWriter CLPIStreamInfo

/-- The only exception of `composeEP_map` is the fatal error "Can't create EP
map". -/
theorem composeEP_map_error_msg (E : StreamTypeCodes) (self : CLPIParser) (w : BitStreamWriter)
    (isSSExt : Bool) (e : Exc) (h : composeEP_map E self w isSSExt = .error e) :
    e = Exc.VodCoreException ErrMsg.cantCreateEPMap := by
  unfold composeEP_map at h
  cases hs : selectEPStreams E self isSSExt with
  | none =>
    rw [hs] at h
    injection h with h
    exact h.symm
  | some r =>
    rw [hs] at h
    cases h

/-- The only exception of `composeCPI` is the fatal error "Can't create EP
map". -/
theorem composeCPI_error_msg (E : StreamTypeCodes) (self : CLPIParser) (w : BitStreamWriter)
    (b : Bool) (e : Exc) (h : composeCPI E self w b = .error e) :
    e = Exc.VodCoreException ErrMsg.cantCreateEPMap := by
  unfold composeCPI at h
  dsimp only at h
  split_ifs at h with hp
  cases hr : composeEP_map E self (putBits (putBits (putBits w 32 0) 12 0) 4 1) b with
  | error e1 =>
    rw [hr] at h
    have h1 : e1 = e := by
      injection h
    rw [← h1]
    exact composeEP_map_error_msg E self _ b e1 hr
  | ok w1 =>
    rw [hr] at h
    cases h

/-- The only exception of `composeExtentInfo` is the fatal error "Can't
create EP map". -/
theorem composeExtentInfo_error_msg (E : StreamTypeCodes) (K : MuxConstants)
    (self : CLPIParser) (w : BitStreamWriter) (e : Exc)
    (h : composeExtentInfo E K self w = .error e) :
    e = Exc.VodCoreException ErrMsg.cantCreateEPMap := by
  by_cases hi : self.interleaveInfo = []
  · rw [composeExtentInfo_empty E K self w hi] at h
    cases h
  · have hie : self.interleaveInfo.isEmpty = false := by
      cases h : self.interleaveInfo with
      | nil => exact absurd h hi
      | cons a t => rfl
    unfold composeExtentInfo at h
    simp only [hie, Bool.false_eq_true, if_false] at h
    cases hd : self.isDependStream
    · rw [hd] at h
      simp only [Bool.false_eq_true, if_false] at h
      cases h
    · rw [hd] at h
      simp only [if_true] at h
      generalize hc : composeCPI E self _ true = res at h
      cases res with
      | error e1 =>
        have h1 : e1 = e := by
          injection h
        rw [← h1]
        exact composeCPI_error_msg E self _ true e1 hc
      | ok w1 => cases h

/-- With the supported clip info flags, the only exception of `compose` is
the fatal error "Can't create EP map". -/
theorem composeBits_error_msg (E : StreamTypeCodes) (K : MuxConstants) (self : CLPIParser)
    (hA : self.is_ATC_delta = false) (h6 : self.application_type ≠ 6) (e : Exc)
    (h : composeBits E K self = .error e) :
    e = Exc.VodCoreException ErrMsg.cantCreateEPMap := by
  revert h
  rw [composeBits_unfold, composeClipInfo_eq self _ (by rw [headerBits_length]), hA,
    if_neg (by decide), if_neg h6]
  have P1 : BehindHeader (headerBits self.version_number 0 0 0 0 0 ++ clipInfoBits self) :=
    ⟨by simp only [List.length_append, headerBits_length, clipInfoBits_length],
     by simp only [List.length_append, headerBits_length, clipInfoBits_length]; omega⟩
  generalize headerBits self.version_number 0 0 0 0 0 ++ clipInfoBits self = w1 at P1 ⊢
  rw [Except.ok_bind', alignLoop_eq w1 P1.1, Except.ok_bind']
  have P2 := P1.behind_align.1
  generalize w1 ++ alignPad w1.length = w2 at P2 ⊢
  try dsimp only
  have P3 : BehindHeader (composeSequenceInfo K self (store w2 8 4
      (getBitsCount w2 / 8 % 2 ^ 32))) := by
    rw [composeSequenceInfo_eq K self _ (P2.behind_store 8 _ (by omega)).1]
    exact (P2.behind_store 8 _ (by omega)).behind_append _ (by rw [sequenceInfoBits_length])
  generalize composeSequenceInfo K self (store w2 8 4 (getBitsCount w2 / 8 % 2 ^ 32)) = w3
    at P3 ⊢
  rw [alignLoop_eq w3 P3.1, Except.ok_bind']
  have P4 := P3.behind_align.1
  generalize w3 ++ alignPad w3.length = w4 at P4 ⊢
  try dsimp only
  have P5 : BehindHeader (composeProgramInfo E K self (store w4 12 4
      (getBitsCount w4 / 8 % 2 ^ 32)) false) := by
    rw [composeProgramInfo_eq E K self _ false (P4.behind_store 12 _ (by omega)).1]
    refine (P4.behind_store 12 _ (by omega)).behind_append _ ?_
    have h1 := programInfoBits_length_mod E K self false
    have h2 := programInfoPad_length_mod E K self false
      (store w4 12 4 (getBitsCount w4 / 8 % 2 ^ 32)).length
    simp only [List.length_append, natBits_length]
    omega
  generalize composeProgramInfo E K self (store w4 12 4 (getBitsCount w4 / 8 % 2 ^ 32)) false
    = w5 at P5 ⊢
  rw [alignLoop_eq w5 P5.1, Except.ok_bind']
  have P6 := P5.behind_align.1
  generalize w5 ++ alignPad w5.length = w6 at P6 ⊢
  try dsimp only
  cases h7 : composeCPI E self (store w6 16 4 (getBitsCount w6 / 8 % 2 ^ 32)) false with
  | error e1 =>
    intro h
    have h1 : e1 = e := by
      injection h
    rw [← h1]
    exact composeCPI_error_msg E self _ false e1 h7
  | ok w7 =>
    obtain ⟨vC, XC, e7, hXC, _⟩ := composeCPI_frame E self _ w7 false
      (P6.behind_store 16 _ (by omega)).1 h7
    have P7 : BehindHeader w7 := by
      rw [e7]
      exact (P6.behind_store 16 _ (by omega)).behind_append _
        (by simp only [List.length_append, natBits_length]; omega)
    rw [Except.ok_bind', alignLoop_eq w7 P7.1, Except.ok_bind']
    clear h7 e7
    have P8 := P7.behind_align.1
    generalize w7 ++ alignPad w7.length = w8 at P8 ⊢
    try dsimp only
    have P9 : BehindHeader (composeClipMark (store w8 20 4 (getBitsCount w8 / 8 % 2 ^ 32))) := by
      unfold composeClipMark
      exact (P8.behind_store 20 _ (by omega)).behind_append _ (by simp)
    generalize composeClipMark (store w8 20 4 (getBitsCount w8 / 8 % 2 ^ 32)) = w9 at P9 ⊢
    rw [alignLoop_eq w9 P9.1, Except.ok_bind']
    have P10 := P9.behind_align
    generalize w9 ++ alignPad w9.length = w10 at P10 ⊢
    try dsimp only
    have hl10 : (store w10 24 4 (getBitsCount w10 / 8 % 2 ^ 32)).length % 32 = 0 := by
      rw [store_length _ _ _ _ (by have := P10.1.2; omega)]
      exact P10.2
    cases h11 : composeExtentInfo E K self (store w10 24 4 (getBitsCount w10 / 8 % 2 ^ 32)) with
    | error e1 =>
      intro h
      have h1 : e1 = e := by
        injection h
      rw [← h1]
      exact composeExtentInfo_error_msg E K self _ e1 h11
    | ok w11 =>
      obtain ⟨vE, XE, e11, hXE⟩ := composeExtentInfo_frame E K self _ w11 hl10 h11
      have P11 : BehindHeader w11 := by
        rw [e11]
        exact (P10.1.behind_store 24 _ (by omega)).behind_append _
          (by simp only [List.length_append, natBits_length]; omega)
      rw [Except.ok_bind', alignLoop_eq w11 P11.1, Except.ok_bind']
      intro h
      cases h

/-- An exception of `compose` is the exception of its body. -/
theorem compose_error (E : StreamTypeCodes) (K : MuxConstants) (self : CLPIParser) (e : Exc) :
    compose E K self = .error e ↔ composeBits E K self = .error e := by
  unfold compose
  cases h : composeBits E K self with
  | error e1 =>
    constructor
    · intro h1
      injection h1 with h1
      rw [h1]
    · intro h1
      injection h1 with h1
      rw [h1]
      rfl
  | ok w =>
    constructor
    · intro h1
      cases h1
    · intro h1
      cases h1

/-- With one of the unsupported clip info flags `compose` ends with the
exception of `composeClipInfo`. -/
theorem composeBits_flags_error (E : StreamTypeCodes) (K : MuxConstants) (self : CLPIParser) :
    (self.is_ATC_delta = true →
      composeBits E K self = .error (Exc.VodCoreException ErrMsg.atcDeltaNotImplemented)) ∧
    (self.is_ATC_delta = false → self.application_type = 6 →
      composeBits E K self
        = .error (Exc.VodCoreException ErrMsg.applicationType6NotImplemented)) := by
  constructor
  · intro hA
    rw [composeBits_unfold, composeClipInfo_eq self _ (by rw [headerBits_length]), hA, if_pos rfl]
    rfl
  · intro hA h6
    rw [composeBits_unfold, composeClipInfo_eq self _ (by rw [headerBits_length]), hA,
      if_neg (by decide), if_pos h6]
    rfl

end CLPIParser

namespace TS_program_association_section

open BitStreamWriter

/-- The bytes `serialize` produces do not depend on `m_nitPID`: the function
writes the entries of `pmtPids` only. -/
theorem serialize_nitPID (crc : List Nat → Nat) (pat : TS_program_association_section)
    (nit : Int) :
    serialize crc { pat with m_nitPID := nit } = serialize crc pat := rfl

/-- The result of `deserialize` on the bytes of `serialize`, for a table whose
section length fits the 12-bit field. -/
theorem deserialize_serialize_ok (crc : List Nat → Nat)
    (pat self0 : TS_program_association_section)
    (hts : pat.transport_stream_id < 2 ^ 16)
    (hord : StdMap.Ordered pat.pmtPids)
    (hr : ∀ e ∈ pat.pmtPids, e.1 ≤ 0x1FFF ∧ 1 ≤ e.2 ∧ e.2 ≤ 0xFFFF)
    (hn : pat.pmtPids.length ≤ 1021) :
    self0.deserialize (serialize crc pat).1 (serialize crc pat).2
      = .ok (true, ⟨pat.transport_stream_id, -1, pat.pmtPids⟩) := by
  rw [deserialize_serialize_header]
  have h1 : (9 + pat.pmtPids.length * 4) % 2 ^ 32 % 2 ^ 12 = 9 + pat.pmtPids.length * 4 := by
    omega
  have h2 : (24 : Int) + (((9 + pat.pmtPids.length * 4 : Nat) : Int) - 4) * 8
      = ((64 : Nat) : Int) + 32 * (pat.pmtPids.length : Nat) := by
    push_cast; omega
  have hl := deserializeLoop_entries pat.pmtPids []
    (bytesToBits (be32 (crc (bitsToBytes (serializeBits pat)))))
    64 ((entriesBits pat.pmtPids ++
      bytesToBits (be32 (crc (bitsToBytes (serializeBits pat))))).length + 1)
    (pat.transport_stream_id % 2 ^ 16) (-1) (by simpa using hord)
    (fun e he => by have := hr e he; omega) (by simp; omega)
  dsimp only
  rw [h1, h2, hl, Nat.mod_eq_of_lt hts]
  simp [BitStreamReader.getBitsCount]

end TS_program_association_section

namespace TS_program_map_section

open BitStreamWriter

theorem descrBytes_cons (d : Nat × List Nat) (ds : List (Nat × List Nat)) :
    descrBytes (d :: ds) = d.1 :: d.2.length :: (d.2 ++ descrBytes ds) := by
  simp [descrBytes]

theorem descrBytes_lt (ds : List (Nat × List Nat)) (h : WellFormedDescriptors ds) :
    ∀ b ∈ descrBytes ds, b < 256 := by
  intro b hb
  simp only [descrBytes, List.mem_flatMap, List.mem_cons] at hb
  obtain ⟨d, hd, h1 | h1 | h1⟩ := hb
  · rw [h1]; exact (h d hd).1
  · rw [h1]; exact (h d hd).2.1
  · exact (h d hd).2.2 b h1

theorem dataBits_eq_bytesToBits (t pid : Nat) (data lang : List Nat) :
    dataBits ⟨t, pid, data, data.length, lang⟩ = bytesToBits data := by
  simp only [dataBits]
  induction data using List.reverseRecOn with
  | nil => rfl
  | append_singleton l a ih =>
      rw [List.length_append, List.length_singleton, List.range_succ, List.flatMap_append,
        bytesToBits_append]
      have h1 : (List.range l.length).flatMap (fun j => natBits 8 ((l ++ [a]).getD j 0))
          = (List.range l.length).flatMap (fun j => natBits 8 (l.getD j 0)) := by
        apply List.flatMap_congr
        intro j hj
        rw [List.mem_range] at hj
        rw [List.getD_append _ _ _ _ hj]
      rw [h1, ih]
      simp [bytesToBits, List.getD_append_right]

/-- The three stores `m_lang[i] = descrBuf[i]` on a four-byte language
buffer. -/
theorem setLang_eq (l : List Nat) (hl : 3 ≤ l.length) (f : Nat → Nat) :
    (List.range 3).foldl (fun l i => l.set i (f i)) l = [f 0, f 1, f 2] ++ l.drop 3 := by
  rcases l with _ | ⟨a, _ | ⟨b, _ | ⟨c, r⟩⟩⟩
  · simp at hl
  · simp at hl
  · simp at hl
  · rfl

theorem langAfter_length (T : TSDescriptorTagCodes) (ds : List (Nat × List Nat)) :
    ∀ lang : List Nat, 3 ≤ lang.length → (langAfter T ds lang).length = lang.length := by
  induction ds with
  | nil => intro lang _; rfl
  | cons d t ih =>
      intro lang hl
      simp only [langAfter, List.foldl_cons]
      by_cases h : d.1 = T.LANG
      · rw [if_pos h]
        have := ih ([d.2.getD 0 0, d.2.getD 1 0, d.2.getD 2 0] ++ lang.drop 3)
          (by simp)
        simp only [langAfter] at this
        rw [this]
        simp
        omega
      · rw [if_neg h]
        exact ih lang hl

theorem langAfter_filter (T : TSDescriptorTagCodes) (ds : List (Nat × List Nat)) :
    ∀ lang : List Nat,
      langAfter T (ds.filter (fun d => decide (d.1 = T.LANG))) lang = langAfter T ds lang := by
  induction ds with
  | nil => intro lang; rfl
  | cons d t ih =>
      intro lang
      by_cases h : d.1 = T.LANG
      · rw [List.filter_cons_of_pos (by simpa using h)]
        simp only [langAfter, List.foldl_cons, if_pos h]
        exact ih _
      · rw [List.filter_cons_of_neg (by simpa using h)]
        simp only [langAfter, List.foldl_cons, if_neg h]
        exact ih _

theorem langAfter_of_no_lang (T : TSDescriptorTagCodes) (ds : List (Nat × List Nat))
    (h : ∀ d ∈ ds, d.1 ≠ T.LANG) (lang : List Nat) : langAfter T ds lang = lang := by
  induction ds with
  | nil => rfl
  | cons d t ih =>
      simp only [langAfter, List.foldl_cons, if_neg (h d (List.mem_cons_self _ _))]
      exact ih (fun x hx => h x (List.mem_cons_of_mem _ hx))

/-- The loop of `extractDescriptors` over a descriptor area that holds the
well-formed descriptors `ds`: every descriptor is stepped over by its length,
only the language buffer changes, and only at descriptors with the language
tag. -/
theorem extractDescriptorsLoop_walk (T : TSDescriptorTagCodes) (mem : List Nat) :
    ∀ (ds : List (Nat × List Nat)) (q fuel : Nat) (info : PMTStreamInfo),
      WellFormedDescriptors ds →
      (∀ i < (descrBytes ds).length, mem.getD (q + i) 0 = (descrBytes ds).getD i 0) →
      ds.length ≤ fuel → 3 ≤ info.m_lang.length →
      ∃ lang, extractDescriptorsLoop T mem (q + (descrBytes ds).length) fuel q info
          = { info with m_lang := lang } ∧
        lang.length = info.m_lang.length ∧
        ((∀ d ∈ ds, d.1 ≠ T.LANG) → lang = info.m_lang) ∧
        ((∀ d ∈ ds, d.1 = T.LANG → 3 ≤ d.2.length) → lang = langAfter T ds info.m_lang) := by
  intro ds
  induction ds with
  | nil =>
      intro q fuel info _ _ _ _
      refine ⟨info.m_lang, ?_, rfl, fun _ => rfl, fun _ => rfl⟩
      cases fuel with
      | zero => rfl
      | succ f =>
          rw [extractDescriptorsLoop, if_neg (by simp [descrBytes])]
  | cons d t ih =>
      intro q fuel info hwf hmem hf hl
      obtain ⟨f, rfl⟩ : ∃ f, fuel = f + 1 := ⟨fuel - 1, by simp at hf; omega⟩
      have hlen : (descrBytes (d :: t)).length = 2 + d.2.length + (descrBytes t).length := by
        rw [descrBytes_cons]
        simp only [List.length_cons, List.length_append]
        omega
      have h0 := hmem 0 (by omega)
      have h1 := hmem 1 (by omega)
      rw [descrBytes_cons] at h0 h1
      simp only [Nat.add_zero, List.getD_cons_zero, List.getD_cons_succ] at h0 h1
      have hrest : ∀ i < (descrBytes t).length,
          mem.getD (q + 2 + d.2.length + i) 0 = (descrBytes t).getD i 0 := by
        intro i hi
        have := hmem (2 + d.2.length + i) (by omega)
        rw [descrBytes_cons] at this
        rw [show q + 2 + d.2.length + i = q + (2 + d.2.length + i) by omega, this,
          show 2 + d.2.length + i = (d.2.length + i) + 1 + 1 by omega]
        simp only [List.getD_cons_succ]
        rw [List.getD_append_right _ _ _ _ (by omega)]
        congr 1
        omega
      have hpay : ∀ i < d.2.length, mem.getD (q + 2 + i) 0 = d.2.getD i 0 := by
        intro i hi
        have := hmem (2 + i) (by omega)
        rw [descrBytes_cons] at this
        rw [show q + 2 + i = q + (2 + i) by omega, this, show 2 + i = i + 1 + 1 by omega]
        simp only [List.getD_cons_succ]
        rw [List.getD_append _ _ _ _ hi]
      have hwf' : WellFormedDescriptors t := fun x hx => hwf x (List.mem_cons_of_mem _ hx)
      rw [extractDescriptorsLoop, if_pos (by omega)]
      dsimp only
      rw [h0, h1, hlen, show q + (2 + d.2.length + (descrBytes t).length)
        = q + 2 + d.2.length + (descrBytes t).length by omega]
      by_cases hd : d.1 = T.LANG
      · rw [if_pos hd, setLang_eq _ hl]
        obtain ⟨lang, e1, e2, e3, e4⟩ := ih (q + 2 + d.2.length) f
          { info with m_lang := [mem.getD (q + 2 + 0) 0, mem.getD (q + 2 + 1) 0,
              mem.getD (q + 2 + 2) 0] ++ info.m_lang.drop 3 }
          hwf' hrest (by simp at hf; omega) (by simp)
        refine ⟨lang, e1, ?_, ?_, ?_⟩
        · rw [e2]; simp; omega
        · intro hno
          exact absurd hd (hno d (List.mem_cons_self _ _))
        · intro h3
          have hd3 := h3 d (List.mem_cons_self _ _) hd
          rw [e4 (fun x hx => h3 x (List.mem_cons_of_mem _ hx))]
          simp only [langAfter, List.foldl_cons, if_pos hd]
          rw [hpay 0 (by omega), hpay 1 (by omega), hpay 2 (by omega)]
      · rw [if_neg hd]
        obtain ⟨lang, e1, e2, e3, e4⟩ := ih (q + 2 + d.2.length) f info hwf' hrest
          (by simp at hf; omega) hl
        refine ⟨lang, e1, e2, ?_, ?_⟩
        · intro hno
          exact e3 (fun x hx => hno x (List.mem_cons_of_mem _ hx))
        · intro h3
          rw [e4 (fun x hx => h3 x (List.mem_cons_of_mem _ hx))]
          simp only [langAfter, List.foldl_cons, if_neg hd]

open BitStreamWriter

theorem descrBytes_length_ge (ds : List (Nat × List Nat)) :
    2 * ds.length ≤ (descrBytes ds).length := by
  induction ds with
  | nil => simp [descrBytes]
  | cons d t ih =>
      rw [descrBytes_cons]
      simp only [List.length_cons, List.length_append]
      omega

theorem streamBits_streamWith_length (T : TSDescriptorTagCodes) (t pid : Nat)
    (ds : List (Nat × List Nat)) :
    (streamBits T false (streamWith t pid ds)).length = 40 + 8 * (descrBytes ds).length := by
  rw [streamBits_length]
  simp [descBits, dataBits_length, langBits_length, streamWith]

/-- The bytes of a stream entry that carries raw descriptor bytes. -/
theorem streamBytes_raw (T : TSDescriptorTagCodes) (t pid : Nat) (ds : List (Nat × List Nat))
    (R : List Bool) (hpid : pid ≤ 0x1FFF) (ht : t < 256) (hwf : WellFormedDescriptors ds)
    (hlen : (descrBytes ds).length < 4096) :
    bitsToBytes (streamBits T false (streamWith t pid ds) ++ R)
      = t :: (0xE0 + pid / 256) :: (pid % 256) :: (0xF0 + (descrBytes ds).length / 256) ::
        ((descrBytes ds).length % 256) :: (descrBytes ds ++ bitsToBytes R) := by
  have h316 : natBits 3 7 ++ natBits 13 pid = natBits 16 (0xE000 + pid) := by
    rw [natBits_append_natBits]
    congr 1
    omega
  have hlang : langBits T false (streamWith t pid ds) = [] := by
    simp [langBits, streamWith]
  have hdata : dataBits (streamWith t pid ds) = bytesToBits (descrBytes ds) :=
    dataBits_eq_bytesToBits t pid (descrBytes ds) [0, 0, 0, 0]
  have hmap : (descrBytes ds).map (· % 256) = descrBytes ds := by
    have hb := descrBytes_lt ds hwf
    generalize descrBytes ds = l at hb
    induction l with
    | nil => rfl
    | cons x xs ih =>
        rw [List.map_cons, ih (fun b hb' => hb b (List.mem_cons_of_mem _ hb')),
          Nat.mod_eq_of_lt (hb x (List.mem_cons_self _ _))]
  have hty : (streamWith t pid ds).m_streamType = t := rfl
  have hpd : (streamWith t pid ds).m_pid = pid := rfl
  simp only [streamBits, descBits, hlang, hdata, List.append_nil, List.append_assoc,
    bytesToBits_length, hty, hpd]
  rw [← List.append_assoc (natBits 3 7), h316, Nat.mul_div_cancel_left _ (by norm_num : 0 < 8)]
  rw [bitsToBytes_natBits8, bitsToBytes_natBits16, bitsToBytes_natBits16,
    bitsToBytes_append _ _ (by rw [bytesToBits_length]; omega), bitsToBytes_bytesToBits, hmap,
    Nat.mod_eq_of_lt ht]
  congr 1
  congr 1
  · omega
  · congr 1
    · omega
    · congr 1
      · omega
      · congr 1
        omega

/-- One round of the stream loop of `deserialize` on an entry that carries
well-formed descriptors. -/
theorem deserializeLoop_step_raw (E : StreamTypeCodes) (T : TSDescriptorTagCodes)
    (pre R : List Bool) (p : Nat) (hp : pre.length = 8 * p)
    (e : Nat × Nat × List (Nat × List Nat))
    (hpid : e.1 ≤ 0x1FFF) (ht : e.2.1 < 256) (hwf : WellFormedDescriptors e.2.2)
    (hlen : (descrBytes e.2.2).length < 4096)
    (crcPos fuel : Nat) (self : TS_program_map_section)
    (hcrc : p + 5 + (descrBytes e.2.2).length ≤ crcPos)
    (hlast : ∀ x ∈ self.pidList, x.1 < e.1) :
    ∃ s' o, deserializeLoop E T
        (bitsToBytes (pre ++ (streamBits T false (streamWith e.2.1 e.1 e.2.2) ++ R))) crcPos
        (fuel + 1) p self
      = deserializeLoop E T
        (bitsToBytes (pre ++ (streamBits T false (streamWith e.2.1 e.1 e.2.2) ++ R))) crcPos
        fuel (p + 5 + (descrBytes e.2.2).length) s' ∧
      s'.pidList = self.pidList ++ [o] ∧ ReadAs T e o ∧
      s'.program_number = self.program_number ∧ s'.pcr_pid = self.pcr_pid := by
  obtain ⟨pid, t, ds⟩ := e
  simp only at hpid ht hwf hlen hcrc hlast ⊢
  have hbytes := streamBytes_raw T t pid ds R hpid ht hwf hlen
  have hrd : ∀ i, (bitsToBytes (pre ++ (streamBits T false (streamWith t pid ds) ++ R))).getD
      (p + i) 0
      = (t :: (0xE0 + pid / 256) :: (pid % 256) :: (0xF0 + (descrBytes ds).length / 256) ::
        ((descrBytes ds).length % 256) :: (descrBytes ds ++ bitsToBytes R)).getD i 0 := by
    intro i
    rw [getD_bitsToBytes_pre _ _ _ _ hp, hbytes]
  generalize bitsToBytes (pre ++ (streamBits T false (streamWith t pid ds) ++ R)) = mem
    at hrd ⊢
  have r0 := hrd 0
  have r1 := hrd 1
  have r2 := hrd 2
  have r3 := hrd 3
  have r4 := hrd 4
  simp only [List.getD_cons_zero, List.getD_cons_succ, Nat.add_zero] at r0 r1 r2 r3 r4
  have hpidv : ((0xE0 + pid / 256) <<< 8 ||| pid % 256) &&& 0x1fff = pid := by
    rw [or_shift8 _ _ (by omega), and_mask13]; omega
  have hlenv : ((0xF0 + (descrBytes ds).length / 256) <<< 8 ||| (descrBytes ds).length % 256)
      &&& 0xfff = (descrBytes ds).length := by
    rw [or_shift8 _ _ (by omega), and_mask12]; omega
  have hcond : p < crcPos := by omega
  rw [deserializeLoop, if_pos hcond]
  simp only [get16, r0, show p + 1 + 1 = p + 2 from rfl, r1, r2, hpidv,
    show p + 1 + 2 = p + 3 from rfl, show p + 3 + 1 = p + 4 from rfl, r3, r4, hlenv,
    show p + 3 + 2 = p + 5 from rfl]
  have hnot : ¬ (p + 5 + (descrBytes ds).length > crcPos) := by omega
  rw [if_neg hnot]
  have hmem : ∀ i < (descrBytes ds).length, mem.getD (p + 5 + i) 0 = (descrBytes ds).getD i 0 := by
    intro i hi
    rw [Nat.add_assoc, hrd (5 + i), show 5 + i = i + 1 + 1 + 1 + 1 + 1 by omega]
    simp only [List.getD_cons_succ]
    rw [List.getD_append _ _ _ _ hi]
  obtain ⟨lang, hex, hl4, hno, h3⟩ := extractDescriptorsLoop_walk T mem ds (p + 5)
    (descrBytes ds).length (PMTStreamInfo.create t pid) hwf hmem
    (by have := descrBytes_length_ge ds; omega) (by simp [PMTStreamInfo.create])
  refine ⟨_, (pid, { PMTStreamInfo.create t pid with m_lang := lang }), rfl, ?_, ?_, ?_, ?_⟩
  · simp only [extractDescriptors, hex, deserializeSwitch_pidList]
    exact StdMap.insert_last _ _ _ hlast
  · refine ⟨rfl, rfl, rfl, rfl, rfl, ?_, ?_, ?_⟩
    · simpa [PMTStreamInfo.create] using hl4
    · intro h
      simpa [PMTStreamInfo.create] using hno h
    · intro h
      rw [langAfter_filter]
      simpa [PMTStreamInfo.create] using h3 h
  · simp only [deserializeSwitch_program_number]
  · simp only [deserializeSwitch_pcr_pid]

open BitStreamWriter

theorem pidListOf_cons (e : Nat × Nat × List (Nat × List Nat))
    (t : List (Nat × Nat × List (Nat × List Nat))) :
    pidListOf (e :: t) = (e.1, streamWith e.2.1 e.1 e.2.2) :: pidListOf t := rfl

theorem pidListOf_keys (l : List (Nat × Nat × List (Nat × List Nat))) :
    (pidListOf l).map Prod.fst = l.map Prod.fst := by
  simp [pidListOf]

/-- The stream loop of `deserialize` over the entries of a section whose
streams carry well-formed descriptors. -/
theorem deserializeLoop_streams_raw (E : StreamTypeCodes) (T : TSDescriptorTagCodes)
    (l : List (Nat × Nat × List (Nat × List Nat))) :
    ∀ (pre R : List Bool) (p : Nat) (self : TS_program_map_section) (fuel : Nat),
      pre.length = 8 * p →
      (∀ e ∈ l, e.1 ≤ 0x1FFF ∧ e.2.1 < 256 ∧ WellFormedDescriptors e.2.2 ∧
        (descrBytes e.2.2).length < 4096) →
      (self.pidList.map Prod.fst ++ l.map Prod.fst).Pairwise (· < ·) → l.length ≤ fuel →
      ∃ s' outs, deserializeLoop E T
          (bitsToBytes (pre ++ ((pidListOf l).flatMap (fun e => streamBits T false e.2) ++ R)))
          (p + ((pidListOf l).flatMap (fun e => streamBits T false e.2)).length / 8) fuel p self
        = (true, p + ((pidListOf l).flatMap (fun e => streamBits T false e.2)).length / 8, s') ∧
        s'.pidList = self.pidList ++ outs ∧ List.Forall₂ (ReadAs T) l outs ∧
        s'.program_number = self.program_number ∧ s'.pcr_pid = self.pcr_pid := by
  induction l with
  | nil =>
      intro pre R p self fuel _ _ _ _
      refine ⟨self, [], ?_, by simp, List.Forall₂.nil, rfl, rfl⟩
      cases fuel <;> simp [deserializeLoop, pidListOf]
  | cons e t ih =>
      intro pre R p self fuel hp hv hord hf
      obtain ⟨f, rfl⟩ : ∃ f, fuel = f + 1 := ⟨fuel - 1, by simp at hf; omega⟩
      obtain ⟨h1, h2, h3, h4⟩ := hv e (List.mem_cons_self _ _)
      have hl := streamBits_streamWith_length T e.2.1 e.1 e.2.2
      have hm := streamsBits_length_mod T false (pidListOf t)
      have hsplit : p + ((pidListOf (e :: t)).flatMap (fun e => streamBits T false e.2)).length / 8
          = p + 5 + (descrBytes e.2.2).length
            + ((pidListOf t).flatMap (fun e => streamBits T false e.2)).length / 8 := by
        rw [pidListOf_cons]
        simp only [List.flatMap_cons, List.length_append, hl]
        omega
      have hlast : ∀ x ∈ self.pidList, x.1 < e.1 := by
        intro x hx
        rw [List.map_cons, List.pairwise_append] at hord
        exact hord.2.2 x.1 (List.mem_map_of_mem _ hx) e.1 (List.mem_cons_self _ _)
      obtain ⟨s1, o, hs1, hp1, hr1, hn1, hc1⟩ := deserializeLoop_step_raw E T pre
        ((pidListOf t).flatMap (fun e => streamBits T false e.2) ++ R) p hp e h1 h2 h3 h4
        (p + ((pidListOf (e :: t)).flatMap (fun e => streamBits T false e.2)).length / 8) f self
        (by rw [hsplit]; omega) hlast
      have hpre : (pre ++ streamBits T false (streamWith e.2.1 e.1 e.2.2)).length
          = 8 * (p + 5 + (descrBytes e.2.2).length) := by
        rw [List.length_append, hl, hp]; omega
      have hord' : (s1.pidList.map Prod.fst ++ t.map Prod.fst).Pairwise (· < ·) := by
        rw [hp1, List.map_append, List.map_singleton, hr1.1, List.append_assoc]
        simpa using hord
      obtain ⟨s2, outs, hs2, hp2, hr2, hn2, hc2⟩ := ih
        (pre ++ streamBits T false (streamWith e.2.1 e.1 e.2.2)) R
        (p + 5 + (descrBytes e.2.2).length) s1 f hpre
        (fun x hx => hv x (List.mem_cons_of_mem _ hx)) hord' (by simp at hf; omega)
      refine ⟨s2, o :: outs, ?_, by rw [hp2, hp1]; simp, List.Forall₂.cons hr1 hr2,
        by rw [hn2, hn1], by rw [hc2, hc1]⟩
      rw [pidListOf_cons] at hs1 hsplit ⊢
      simp only [List.flatMap_cons, List.append_assoc] at hs1 hs2 hsplit ⊢
      rw [hs1, hsplit, hs2]

open BitStreamWriter

/-- The result of `deserialize`, in a freshly constructed object, on the bytes
`serialize` writes for a table whose streams carry well-formed descriptors as
raw descriptor bytes. -/
theorem deserialize_serialize_raw (calculateCRC32 : List Nat → Nat) (E : StreamTypeCodes)
    (T : TSDescriptorTagCodes) (pmt : TS_program_map_section)
    (entries : List (Nat × Nat × List (Nat × List Nat))) (hdmvDescriptors : Bool)
    (hpn : pmt.program_number < 2 ^ 16) (hpcr : pmt.pcr_pid ≤ 0x1FFF)
    (hv : pmt.video_pid = 0) (ha : pmt.audio_pid = 0) (hs : pmt.sub_pid = 0)
    (hlist : pmt.pidList = pidListOf entries)
    (hord : (entries.map Prod.fst).Pairwise (· < ·))
    (hent : ∀ e ∈ entries, e.1 ≤ 0x1FFF ∧ e.2.1 < 256 ∧ WellFormedDescriptors e.2.2 ∧
      (descrBytes e.2.2).length < 4096)
    (hsz : (serialize calculateCRC32 E T pmt false hdmvDescriptors).2 - 4 < 2 ^ 12) :
    ∃ out, deserialize E T create (serialize calculateCRC32 E T pmt false hdmvDescriptors).1
        (serialize calculateCRC32 E T pmt false hdmvDescriptors).2 = (true, out) ∧
      List.Forall₂ (ReadAs T) entries out.pidList ∧
      out.program_number = pmt.program_number ∧ out.pcr_pid = pmt.pcr_pid := by
  obtain ⟨hbuf, hn⟩ := serialize_buffer_bits calculateCRC32 E T pmt false hdmvDescriptors
  have hW := pmt_serializeBits_eq E T pmt false hdmvDescriptors
  have hWl := serializeBits_length_mod E T pmt false hdmvDescriptors
  have hb8 := bodyBits_length_mod E T pmt false hdmvDescriptors
  have hpi := progInfoBits_length T pmt hdmvDescriptors
  have hst := streamsBits_length_mod T false pmt.pidList
  have hbody : bodyBits E T pmt false hdmvDescriptors = progInfoBits T pmt hdmvDescriptors ++
      pmt.pidList.flatMap (fun e => streamBits T false e.2) := by
    simp [bodyBits, shortcutBits, hv, ha, hs]
  rw [hn, hWl] at hsz
  rw [hbuf, hn]
  generalize calculateCRC32 (bitsToBytes (serializeBits E T pmt false hdmvDescriptors)) = c
  have hpi8 : (progInfoBits T pmt hdmvDescriptors).length % 8 = 0 := by
    rw [hpi]; split <;> split <;> rfl
  have hpil : (progInfoBits T pmt hdmvDescriptors).length / 8 ≤ 18 := by
    rw [hpi]; split <;> split <;> decide
  have hblen : (bodyBits E T pmt false hdmvDescriptors).length
      = (progInfoBits T pmt hdmvDescriptors).length +
        (pmt.pidList.flatMap (fun e => streamBits T false e.2)).length := by
    rw [hbody, List.length_append]
  have e1 : natBits 16 ((0xb000 + (9 + (bodyBits E T pmt false hdmvDescriptors).length / 8) + 4) % 2 ^ 16)
      = natBits 4 11 ++ natBits 12 (13 + (bodyBits E T pmt false hdmvDescriptors).length / 8) := by
    rw [← natBits16_split 11 _ (by norm_num) (by omega)]
    congr 2
    omega
  have e2 : natBits 16 ((0xf000 + (progInfoBits T pmt hdmvDescriptors).length / 8) % 2 ^ 16)
      = natBits 4 15 ++ natBits 12 ((progInfoBits T pmt hdmvDescriptors).length / 8) := by
    rw [← natBits16_split 15 _ (by norm_num) (by omega)]
  obtain ⟨pre, hsplit, hprelen⟩ : ∃ pre, serializeBits E T pmt false hdmvDescriptors
      = pre ++ pmt.pidList.flatMap (fun e => streamBits T false e.2) ∧
      pre.length = 96 + (progInfoBits T pmt hdmvDescriptors).length := by
    have hW2 := hW
    rw [hblen, hbody] at hW2
    refine ⟨natBits 8 2 ++ (natBits 16 ((0xb000 + (9 + ((progInfoBits T pmt hdmvDescriptors).length +
        (pmt.pidList.flatMap (fun e => streamBits T false e.2)).length) / 8) + 4) % 2 ^ 16) ++
        (natBits 16 pmt.program_number ++ (natBits 2 3 ++ (natBits 5 0 ++ (natBits 1 1 ++
        (natBits 16 0 ++ (natBits 3 7 ++ (natBits 13 pmt.pcr_pid ++
        (natBits 16 ((0xf000 + (progInfoBits T pmt hdmvDescriptors).length / 8) % 2 ^ 16) ++
          progInfoBits T pmt hdmvDescriptors))))))))), ?_, ?_⟩
    · rw [hW2]
      simp only [List.append_assoc]
    · simp only [List.length_append, natBits_length]; omega
  have hreader : BitStreamReader.setBuffer
      ((List.take ((serializeBits E T pmt false hdmvDescriptors).length / 8 + 5)
        (bitsToBytes (natBits 8 0 ++ (serializeBits E T pmt false hdmvDescriptors ++ natBits 32 c)))).drop
        (1 + 0))
      = ⟨serializeBits E T pmt false hdmvDescriptors ++ natBits 32 c, 0⟩ := by
    rw [List.take_of_length_le, bitsToBytes_natBits8]
    · simp only [Nat.add_zero, List.drop_succ_cons, List.drop_zero, BitStreamReader.setBuffer]
      rw [bytesToBits_bitsToBytes]
      simp only [List.length_append, natBits_length]; omega
    · rw [bitsToBytes_length]
      · simp only [List.length_append, natBits_length]; omega
      · simp only [List.length_append, natBits_length]; omega
  have hget0 : (bitsToBytes (natBits 8 0 ++ (serializeBits E T pmt false hdmvDescriptors ++
      natBits 32 c))).getD 0 0 = 0 := by
    rw [bitsToBytes_natBits8]; rfl
  have hmem : bitsToBytes (natBits 8 0 ++ (serializeBits E T pmt false hdmvDescriptors ++
      natBits 32 c)) = bitsToBytes ((natBits 8 0 ++ pre) ++
        (pmt.pidList.flatMap (fun e => streamBits T false e.2) ++ natBits 32 c)) := by
    rw [hsplit]; simp only [List.append_assoc]
  have hprelen' : (natBits 8 0 ++ pre).length
      = 8 * (13 + (progInfoBits T pmt hdmvDescriptors).length / 8) := by
    simp only [List.length_append, natBits_length, hprelen]; omega
  unfold deserialize
  rw [if_neg (by omega)]
  simp only [hget0, hreader]
  rw [hWl]
  generalize hmemdef : bitsToBytes (natBits 8 0 ++ (serializeBits E T pmt false hdmvDescriptors ++
      natBits 32 c)) = mem at hmem
  rw [hW, e1, e2]
  simp only [List.append_assoc, BitStreamReader.getBits_natBits, BitStreamReader.skipBits_natBits,
    BitStreamReader.skipBits_zero, BitStreamReader.getBits_natBits_lt,
    BitStreamReader.skipBits_natBits_lt, BitStreamReader.getBitsCount,
    Nat.reduceLeDiff, Nat.reduceSub, Nat.reduceAdd, Nat.reduceLT, Nat.reduceMod, Nat.reducePow,
    Nat.reduceDiv, le_refl, Nat.sub_self]
  have A1 : (13 + (bodyBits E T pmt false hdmvDescriptors).length / 8) % 4096
      = 13 + (bodyBits E T pmt false hdmvDescriptors).length / 8 := by omega
  have A2 : (progInfoBits T pmt hdmvDescriptors).length / 8 % 4096
      = (progInfoBits T pmt hdmvDescriptors).length / 8 := by omega
  have A3 : 4 + (13 + (bodyBits E T pmt false hdmvDescriptors).length / 8) - 4
      = 13 + (progInfoBits T pmt hdmvDescriptors).length / 8 +
        (pmt.pidList.flatMap (fun e => streamBits T false e.2)).length / 8 := by omega
  simp only [A1, A2, A3]
  obtain ⟨k1, k2, k3⟩ := extractPMTDescriptorsLoop_keeps T mem
    (13 + (progInfoBits T pmt hdmvDescriptors).length / 8)
    ((progInfoBits T pmt hdmvDescriptors).length / 8) 13
    { video_pid := pmt.pcr_pid % 8192, audio_pid := create.audio_pid,
      sub_pid := create.sub_pid, pcr_pid := pmt.pcr_pid % 8192, casPID := create.casPID,
      casID := create.casID, program_number := pmt.program_number % 65536,
      video_type := create.video_type, audio_type := create.audio_type,
      pidList := create.pidList }
  rw [hlist] at hmem hblen hst ⊢
  obtain ⟨s', outs, hloop, r1, rr, r2, r3⟩ := deserializeLoop_streams_raw E T entries
    (natBits 8 0 ++ pre) (natBits 32 c) (13 + (progInfoBits T pmt hdmvDescriptors).length / 8)
    (extractPMTDescriptors T
      { video_pid := pmt.pcr_pid % 8192, audio_pid := create.audio_pid,
        sub_pid := create.sub_pid, pcr_pid := pmt.pcr_pid % 8192, casPID := create.casPID,
        casID := create.casID, program_number := pmt.program_number % 65536,
        video_type := create.video_type, audio_type := create.audio_type,
        pidList := create.pidList } mem 13 ((progInfoBits T pmt hdmvDescriptors).length / 8))
    (13 + (progInfoBits T pmt hdmvDescriptors).length / 8 +
        ((pidListOf entries).flatMap (fun e => streamBits T false e.2)).length / 8
      - (13 + (progInfoBits T pmt hdmvDescriptors).length / 8))
    hprelen' hent (by rw [extractPMTDescriptors, k1]; simpa [create] using hord)
    (by
      have := streamsBits_length_ge T false (pidListOf entries)
      have hlen : (pidListOf entries).length = entries.length := by simp [pidListOf]
      rw [hlen] at this
      omega)
  rw [← hmem] at hloop
  rw [hloop]
  refine ⟨s', ?_, ?_, ?_, ?_⟩
  · rw [if_neg (by decide), if_neg (by decide)]
    split
    · exfalso; omega
    split
    · exfalso; omega
    simp
  · rw [r1, extractPMTDescriptors, k1]
    exact rr
  · rw [r2, extractPMTDescriptors, k2]; exact Nat.mod_eq_of_lt hpn
  · rw [r3, extractPMTDescriptors, k3]; exact Nat.mod_eq_of_lt (by omega)

end TS_program_map_section

namespace TS_program_map_section

open BitStreamWriter

/-- What `deserialize` records for a section entry whose language descriptors
have at least three payload bytes. -/
theorem ReadAs.eq_of_lang (T : TSDescriptorTagCodes) (e : Nat × Nat × List (Nat × List Nat))
    (o : Nat × PMTStreamInfo) (h : ReadAs T e o)
    (h3 : ∀ d ∈ e.2.2, d.1 = T.LANG → 3 ≤ d.2.length) :
    o = (e.1, ⟨e.2.1, e.1, [], 0,
      langAfter T (e.2.2.filter (fun d => decide (d.1 = T.LANG))) [0, 0, 0, 0]⟩) := by
  obtain ⟨k, t, pid, data, len, lang⟩ := o
  obtain ⟨h1, h2, h4, h5, h6, _, _, h8⟩ := h
  simp only at h1 h2 h4 h5 h6 h8
  rw [h1, h2, h4, h5, h6, h8 h3]

theorem forall2_readAs_eq (T : TSDescriptorTagCodes)
    (l : List (Nat × Nat × List (Nat × List Nat))) :
    ∀ (outs : List (Nat × PMTStreamInfo)), List.Forall₂ (ReadAs T) l outs →
      (∀ e ∈ l, ∀ d ∈ e.2.2, d.1 = T.LANG → 3 ≤ d.2.length) →
      outs = l.map (fun e => (e.1, ⟨e.2.1, e.1, [], 0,
        langAfter T (e.2.2.filter (fun d => decide (d.1 = T.LANG))) [0, 0, 0, 0]⟩)) := by
  induction l with
  | nil =>
      intro outs h _
      cases h
      rfl
  | cons e t ih =>
      intro outs h h3
      cases h with
      | cons h1 h2 =>
          rw [List.map_cons, ← ih _ h2 (fun x hx => h3 x (List.mem_cons_of_mem _ hx)),
            ← ReadAs.eq_of_lang T e _ h1 (h3 e (List.mem_cons_self _ _))]

end TS_program_map_section

namespace MPLSParser

open BitStreamWriter

/-- The first loop of `compose` changes `number_of_SubPaths` and `subPath_type`
only. -/
theorem countSubPaths_keeps (E : StreamTypeCodes) (self : MPLSParser) :
    (countSubPaths E self).m_streamInfo = self.m_streamInfo ∧
    (countSubPaths E self).m_streamInfoMVC = self.m_streamInfoMVC ∧
    (countSubPaths E self).isDependStreamExist = self.isDependStreamExist := by
  unfold countSubPaths
  exact foldl_inv (fun s : MPLSParser => s.m_streamInfo = self.m_streamInfo ∧
      s.m_streamInfoMVC = self.m_streamInfoMVC ∧
      s.isDependStreamExist = self.isDependStreamExist) _ _ _ ⟨rfl, rfl, rfl⟩
    (fun b a _ hb => by
      dsimp only
      split_ifs <;> exact hb)

theorem getMainStream_congr (E : StreamTypeCodes) (a b : MPLSParser)
    (h : a.m_streamInfo = b.m_streamInfo) : getMainStream E a = getMainStream E b := by
  unfold getMainStream
  rw [h]

/-- Without a main stream `composePlayList` ends with the fatal error of
`getMainStream`. -/
theorem composePlayList_mainStream_missing (E : StreamTypeCodes) (X : MPLSEnv)
    (self : MPLSParser) (w : BitStreamWriter) (e : Exc) (h : getMainStream E self = .error e) :
    composePlayList E X self w = .error (e, putBits (putBits w 32 0) 16 0) := by
  unfold composePlayList
  dsimp only
  rw [h]

/-- With an unsupported stream in the stream list and at least one play item
`composePlayList` ends with the fatal error of `composeSTN_table`. -/
theorem composePlayList_unsupported (E : StreamTypeCodes) (X : MPLSEnv)
    (self : MPLSParser) (w : BitStreamWriter) (main : MPLSStreamInfo)
    (hmain : getMainStream E self = .ok main) (hidx : main.m_index ≠ [])
    (h : ∃ i ∈ self.m_streamInfo, ¬ Supported E i) :
    ∃ w', composePlayList E X self w
      = .error (Exc.VodCoreException ErrMsg.emptyMessage, w') := by
  unfold composePlayList
  dsimp only
  rw [hmain]
  dsimp only
  obtain ⟨n, hn⟩ : ∃ n, main.m_index.length = n + 1 := by
    cases hm : main.m_index with
    | nil => exact absurd hm hidx
    | cons a t => exact ⟨t.length, rfl⟩
  rw [hn, List.range_succ_eq_map, composePlayItems]
  unfold composePlayItem
  dsimp only
  rw [composeSTN_table_error E self _ false (by simpa using h)]
  exact ⟨_, rfl⟩

/-- An exception of `composePlayList` leaves `compose`: `compose` has no
handler. -/
theorem compose_playList_error (E : StreamTypeCodes) (M : PIPMethods) (X : MPLSEnv)
    (self : MPLSParser) (dtIsBluray : Bool) (e : Exc)
    (h : ∀ w, ∃ w', composePlayList E X (countSubPaths E self) w = .error (e, w')) :
    ∃ w', compose E M X self dtIsBluray = some (.error (e, w')) := by
  unfold compose
  dsimp only
  generalize hc : composePlayList E X (countSubPaths E self) _ = res
  obtain ⟨w', rfl⟩ : ∃ w', res = .error (e, w') := by
    rw [← hc]
    exact h _
  exact ⟨w', rfl⟩

/-- Without an MVC stream `composeSTN_tableSS` returns 0. -/
theorem composeSTN_tableSS_mvc_missing (E : StreamTypeCodes) (self : MPLSParser) (e : Exc)
    (h : getMVCDependStream E self = .error e) :
    composeSTN_tableSS E self = (self, [], 0) := by
  unfold composeSTN_tableSS
  dsimp only
  rw [h]
  rfl

/-- Without an MVC stream `composeSubPathEntryExtension` returns 0. -/
theorem composeSubPathEntryExtension_mvc_missing (E : StreamTypeCodes) (X : MPLSEnv)
    (self : MPLSParser) (e : Exc) (h : getMVCDependStream E self = .error e) :
    (composeSubPathEntryExtension E X self).2 = 0 := by
  unfold composeSubPathEntryExtension SubPath_extension
  dsimp only
  rw [h]

/-- With an unsupported stream in the MVC stream list and at least one play
item `composeSTN_tableSS` returns 0. -/
theorem composeSTN_tableSS_unsupported (E : StreamTypeCodes) (self : MPLSParser)
    (s : MPLSStreamInfo) (hs : getMVCDependStream E self = .ok s) (hidx : s.m_index ≠ [])
    (h : ∃ i ∈ self.m_streamInfoMVC, ¬ Supported E i) :
    (composeSTN_tableSS E self).2.2 = 0 := by
  unfold composeSTN_tableSS
  dsimp only
  rw [hs]
  dsimp only
  obtain ⟨n, hn⟩ : ∃ n, s.m_index.length = n + 1 := by
    cases hm : s.m_index with
    | nil => exact absurd hm hidx
    | cons a t => exact ⟨t.length, rfl⟩
  rw [hn, composeSTN_tableSSLoop, composeSTN_table_error E self _ true (by simpa using h)]

/-- The extension data block of `compose` ends with an exception only when
the main stream is missing: what `composeSTN_tableSS` and
`composeSubPathEntryExtension` catch does not reach it. -/
theorem composeExtension_error (E : StreamTypeCodes) (M : PIPMethods) (X : MPLSEnv)
    (self : MPLSParser) (w : BitStreamWriter) (e : Exc × BitStreamWriter)
    (h : composeExtension E M X self w = some (.error e)) :
    getMainStream E self = .error e.1 := by
  unfold composeExtension at h
  cases hm : getMainStream E self with
  | error e1 =>
      rw [hm] at h
      simp only [Option.some.injEq, Except.error.injEq] at h
      rw [← h]
  | ok main =>
      rw [hm] at h
      dsimp only at h
      split at h
      · cases h
      · simp at h

end MPLSParser

namespace MPLSParser

open BitStreamWriter

theorem countSubPaths_foldl (E : StreamTypeCodes) (l : List MPLSStreamInfo) :
    ∀ self : MPLSParser,
      (l.foldl
        (fun (self : MPLSParser) si =>
          let stream_coding_type := si.stream_coding_type
          if isVideoStreamType E stream_coding_type then
            if si.isSecondary then
              { self with
                number_of_SubPaths := self.number_of_SubPaths + 1
                subPath_type := 7 }
            else if si.HDR &&& 4 ≠ 0 then
              { self with
                number_of_SubPaths := self.number_of_SubPaths + 1
                subPath_type := 10 }
            else self
          else self)
        self).number_of_SubPaths = self.number_of_SubPaths + subPathStreams E l := by
  induction l with
  | nil => intro self; rfl
  | cons x t ih =>
      intro self
      rw [List.foldl_cons, ih]
      unfold subPathStreams
      rw [List.countP_cons]
      dsimp only
      by_cases hv : isVideoStreamType E x.stream_coding_type = true
      · by_cases hs : x.isSecondary = true
        · simp only [hv, hs, if_true, Bool.true_or, Bool.and_self]
          omega
        · by_cases hh : x.HDR &&& 4 ≠ 0
          · simp only [hv, hs, hh, if_true, Bool.false_eq_true, if_false, ne_eq,
              not_false_eq_true, decide_True, Bool.or_true, Bool.and_self]
            omega
          · simp only [hv, hs, hh, if_true, Bool.false_eq_true, if_false, ne_eq,
              decide_False, Bool.or_self, Bool.and_false]
            omega
      · simp only [hv, Bool.false_eq_true, if_false, Bool.false_and]
        omega

/-- Every call of `compose` adds the number of sub path streams to
`number_of_SubPaths`: the first loop never starts from zero. -/
theorem countSubPaths_number (E : StreamTypeCodes) (self : MPLSParser) :
    (countSubPaths E self).number_of_SubPaths
      = self.number_of_SubPaths + subPathStreams E self.m_streamInfo :=
  countSubPaths_foldl E self.m_streamInfo self

end MPLSParser

namespace MPLSParser

open BitStreamWriter

theorem synthesizeMarks_stuck (m_chapterLen : Int) (OUT_time : Nat)
    (hOUT : 2 ^ 32 - 8 < OUT_time) :
    ∀ fuel i, i % 8 = 0 → i < 2 ^ 32 → synthesizeMarks m_chapterLen OUT_time fuel i = none := by
  intro fuel
  induction fuel with
  | zero => intro i _ _; rfl
  | succ n ih =>
    intro i h8 hi
    have hlt : i < OUT_time := by omega
    rw [synthesizeMarks, if_pos hlt, ih _ (by omega) (by omega)]
    rfl

end MPLSParser

theorem and_fffe0000 (x : Nat) (hx : x < 2 ^ 32) : x &&& 0xfffe0000 = x / 2 ^ 17 * 2 ^ 17 := by
  have h1 : x / 2 ^ 17 * 2 ^ 17 = (x >>> 17) <<< 17 := by
    rw [Nat.shiftLeft_eq, Nat.shiftRight_eq_div_pow]
  have h2 : (0xfffe0000 : Nat) = (2 ^ 15 - 1) <<< 17 := by decide
  rw [h1, h2]
  apply Nat.eq_of_testBit_eq
  intro i
  simp only [Nat.testBit_and, Nat.testBit_shiftLeft, Nat.testBit_shiftRight,
    Nat.testBit_two_pow_sub_one]
  by_cases h17 : 17 ≤ i
  · by_cases h32 : i < 32
    · have : i - 17 < 15 := by omega
      have e : 17 + (i - 17) = i := by omega
      simp [h17, this, e]
    · have hlt : x < 2 ^ i := lt_of_lt_of_le hx (Nat.pow_le_pow_right (by decide) (by omega))
      have e : 17 + (i - 17) = i := by omega
      simp [h17, e, Nat.testBit_lt_two_pow hlt]
  · simp [h17]

namespace CLPIParser

theorem coarseStep_last (st : List BluRayCoarseInfo × Nat × Nat × Nat) (e : Nat × PMTIndexData)
    (hinv : CoarseInv st) :
    ∃ c, (coarseStep st e).1.getLast? = some c ∧ c.m_coarsePts = (e.1 >>> 19) % 2 ^ 32 ∧
      c.m_pktCnt &&& 0xfffe0000 = e.2.m_pktCnt &&& 0xfffe0000 := by
  by_cases hc : st.1.isEmpty ∨ (e.1 >>> 19) % 2 ^ 32 ≠ st.2.2.2 ∨
      st.2.2.1 &&& 0xfffe0000 ≠ e.2.m_pktCnt &&& 0xfffe0000
  · refine ⟨⟨(e.1 >>> 19) % 2 ^ 32, st.2.1, e.2.m_pktCnt⟩, ?_, rfl, rfl⟩
    have e1 : (coarseStep st e).1
        = st.1 ++ [⟨(e.1 >>> 19) % 2 ^ 32, st.2.1, e.2.m_pktCnt⟩] := by
      simp only [coarseStep, if_pos hc]
    rw [e1]
    simp
  · have hne : st.1 ≠ [] := by
      intro h
      exact hc (Or.inl (by simp [h]))
    have h1 : (e.1 >>> 19) % 2 ^ 32 = st.2.2.2 := by
      by_contra h
      exact hc (Or.inr (Or.inl h))
    have h2 : st.2.2.1 &&& 0xfffe0000 = e.2.m_pktCnt &&& 0xfffe0000 := by
      by_contra h
      exact hc (Or.inr (Or.inr h))
    obtain ⟨c, hcl⟩ : ∃ c, st.1.getLast? = some c :=
      ⟨st.1.getLast hne, List.getLast?_eq_getLast _ hne⟩
    obtain ⟨i1, i2⟩ := hinv c hcl
    refine ⟨c, ?_, by rw [i1, h1], by rw [i2, h2]⟩
    simp only [coarseStep, if_neg hc, hcl]

theorem coarseStep_inv (st : List BluRayCoarseInfo × Nat × Nat × Nat) (e : Nat × PMTIndexData)
    (hinv : CoarseInv st) : CoarseInv (coarseStep st e) := by
  obtain ⟨c, h1, h2, h3⟩ := coarseStep_last st e hinv
  intro c2 hc2
  rw [h1] at hc2
  cases hc2
  exact ⟨h2, h3⟩

theorem foldl_coarseStep_inv (l : PMTIndex) (st : List BluRayCoarseInfo × Nat × Nat × Nat)
    (hinv : CoarseInv st) : CoarseInv (l.foldl coarseStep st) :=
  foldl_inv CoarseInv coarseStep l st hinv (fun b a _ hb => coarseStep_inv b a hb)

theorem foldl_coarseStep_cnt (l : PMTIndex) :
    ∀ st : List BluRayCoarseInfo × Nat × Nat × Nat, st.2.1 < 2 ^ 32 →
      (l.foldl coarseStep st).2.1 = (st.2.1 + l.length) % 2 ^ 32 := by
  induction l with
  | nil =>
    intro st h
    simp only [List.foldl_nil, List.length_nil, Nat.add_zero]
    exact (Nat.mod_eq_of_lt h).symm
  | cons e t ih =>
    intro st h
    rw [List.foldl_cons, ih _ (Nat.mod_lt _ (by decide))]
    have : (coarseStep st e).2.1 = (st.2.1 + 1) % 2 ^ 32 := rfl
    rw [this, List.length_cons]
    omega

theorem foldl_coarseStep_owner (l : PMTIndex) (h32 : l.length ≤ 2 ^ 32) (j : Nat)
    (hj : j < l.length) :
    ∃ c, ownerOf (l.foldl coarseStep ([], 0, 0, 0)).1 j = some c ∧
      c.m_coarsePts = (l[j].1 >>> 19) % 2 ^ 32 ∧
      c.m_pktCnt &&& 0xfffe0000 = l[j].2.m_pktCnt &&& 0xfffe0000 := by
  have hsplit : l = l.take j ++ l[j] :: l.drop (j + 1) := by
    rw [← List.drop_eq_getElem_cons hj, List.take_append_drop]
  have hinv0 : CoarseInv (([], 0, 0, 0) : List BluRayCoarseInfo × Nat × Nat × Nat) := by
    intro c hc
    simp at hc
  have hinv := foldl_coarseStep_inv (l.take j) _ hinv0
  obtain ⟨c, hlast, hp, hk⟩ := coarseStep_last _ l[j] hinv
  have htake : (l.take (j + 1)).foldl coarseStep ([], 0, 0, 0)
      = coarseStep ((l.take j).foldl coarseStep ([], 0, 0, 0)) l[j] := by
    rw [List.take_succ, List.foldl_append, List.getElem?_eq_getElem hj]
    rfl
  have hfold : l.foldl coarseStep ([], 0, 0, 0)
      = (l.drop (j + 1)).foldl coarseStep ((l.take (j + 1)).foldl coarseStep ([], 0, 0, 0)) := by
    rw [← List.foldl_append, List.take_append_drop]
  have hlenT : (l.take (j + 1)).length = j + 1 := by
    rw [List.length_take]; omega
  have hlenD : (l.drop (j + 1)).length = l.length - (j + 1) := List.length_drop _ _
  obtain ⟨extraA, hA1, hA2, _⟩ := foldl_coarseStep_refs (l.take (j + 1)) ([], 0, 0, 0)
    (by rw [hlenT]; simp only [Nat.zero_add]; omega)
  have hcnt := foldl_coarseStep_cnt (l.take (j + 1)) ([], 0, 0, 0) (by decide)
  rw [hlenT] at hcnt hA2
  simp only [Nat.zero_add] at hcnt hA2
  obtain ⟨extraB, hB1, hB2, _⟩ := foldl_coarseStep_refs (l.drop (j + 1))
    ((l.take (j + 1)).foldl coarseStep ([], 0, 0, 0))
    (by
      rw [hcnt, hlenD]
      have := Nat.mod_le (j + 1) (2 ^ 32)
      omega)
  rw [hcnt, hlenD] at hB2
  have hAle : ∀ x ∈ ((l.take (j + 1)).foldl coarseStep ([], 0, 0, 0)).1, x.m_fineRefID ≤ j := by
    intro x hx
    rw [hA1, List.nil_append] at hx
    have := hA2.subset (List.mem_map_of_mem (fun c => c.m_fineRefID) hx)
    simp only [List.map_id', List.mem_range] at this
    omega
  have hBgt : ∀ x ∈ extraB, ¬ x.m_fineRefID ≤ j := by
    intro x hx
    have := hB2.subset (List.mem_map_of_mem (fun c => c.m_fineRefID) hx)
    obtain ⟨i, hi, he⟩ := List.mem_map.mp this
    have hi2 := List.mem_range.mp hi
    have hlt : j + 1 < 2 ^ 32 := by omega
    rw [Nat.mod_eq_of_lt hlt] at he
    omega
  refine ⟨c, ?_, hp, hk⟩
  unfold ownerOf
  rw [hfold, hB1, List.filter_append]
  have e1 : List.filter (fun c => decide (c.m_fineRefID ≤ j))
      ((l.take (j + 1)).foldl coarseStep ([], 0, 0, 0)).1
      = ((l.take (j + 1)).foldl coarseStep ([], 0, 0, 0)).1 :=
    List.filter_eq_self.mpr (fun x hx => by simpa using hAle x hx)
  have e2 : List.filter (fun c => decide (c.m_fineRefID ≤ j)) extraB = [] :=
    List.filter_eq_nil_iff.mpr (fun x hx => by simpa using hBgt x hx)
  rw [e1, e2, List.append_nil, htake, hlast]

end CLPIParser

namespace BitStreamReader

theorem skipBits_exact (a rest : List Bool) (c n : Nat) (h : a.length = n) :
    skipBits ⟨a ++ rest, c⟩ n = .ok ⟨rest, c + n⟩ := by
  subst h
  rw [skipBits_ok _ _ (by simp)]
  simp

end BitStreamReader

namespace MPLSStreamInfo

open BitStreamWriter

theorem parseStreamAttributes_attrBits (E : StreamTypeCodes) (self0 si : MPLSStreamInfo)
    (rest : List Bool) (c : Nat)
    (hs : isVideoStreamType E si.stream_coding_type = true ∨
      isAudioStreamType E si.stream_coding_type = true ∨ si.stream_coding_type = E.SUB_PGS)
    (h8 : si.stream_coding_type < 256) :
    parseStreamAttributes E self0 ⟨attrBits E si ++ rest, c⟩
      = .ok (parsedAttributes E self0 si, ⟨rest, c + 48⟩) := by
  have hm : si.stream_coding_type % 2 ^ 8 = si.stream_coding_type := Nat.mod_eq_of_lt h8
  by_cases h1 : isVideoStreamType E si.stream_coding_type = true
  · simp only [parseStreamAttributes, attrBits, parsedAttributes, h1, if_true,
      List.append_assoc, BitStreamReader.skipBits_natBits, BitStreamReader.getBits_natBits,
      BitStreamReader.skipBits_zero, Except.ok_bind', hm, Nat.sub_self, Nat.le_refl,
      bind_pure_comp, Functor.map, Except.map, Nat.add_assoc]
    rw [← List.append_assoc, ← List.append_assoc,
      BitStreamReader.skipBits_exact _ _ _ _ (by split_ifs <;> rfl)]
    rfl
  have h1f : isVideoStreamType E si.stream_coding_type = false := by simpa using h1
  by_cases h2 : isAudioStreamType E si.stream_coding_type = true
  · simp only [parseStreamAttributes, attrBits, parsedAttributes, h1f, h2, if_true,
      Bool.false_eq_true, if_false,
      List.append_assoc, BitStreamReader.skipBits_natBits, BitStreamReader.getBits_natBits,
      BitStreamReader.skipBits_zero, Except.ok_bind', hm, Nat.sub_self, Nat.le_refl,
      CLPIStreamInfo.readString_str3Bits,
      bind_pure_comp, Functor.map, Except.map, Nat.add_assoc]
    rfl
  have h2f : isAudioStreamType E si.stream_coding_type = false := by simpa using h2
  have h3 : si.stream_coding_type = E.SUB_PGS := by
    rcases hs with h | h | h
    · exact absurd h h1
    · exact absurd h h2
    · exact h
  have h3' : (si.stream_coding_type = E.SUB_PGS ∨ si.stream_coding_type = E.SUB_IGS) :=
    Or.inl h3
  simp only [parseStreamAttributes, attrBits, parsedAttributes, h1f, h2f, h3', if_true,
    Bool.false_eq_true, if_false,
    List.append_assoc, BitStreamReader.skipBits_natBits, BitStreamReader.getBits_natBits,
    BitStreamReader.skipBits_zero, Except.ok_bind', hm, Nat.sub_self, Nat.le_refl,
    CLPIStreamInfo.readString_str3Bits,
    bind_pure_comp, Functor.map, Except.map, Nat.add_assoc]

theorem parseStreamEntry_entryBits (self0 : MPLSStreamInfo) (type streamPID subPathID : Nat)
    (rest : List Bool) (c : Nat) (ht : type = 1 ∨ type = 2 ∨ type = 3 ∨ type = 4) :
    parseStreamEntry self0 ⟨entryBits type streamPID subPathID ++ rest, c⟩
      = .ok (parsedEntry self0 type streamPID, ⟨rest, c + 80⟩) := by
  rcases ht with h | h | h | h <;> subst h <;>
    simp only [parseStreamEntry, entryBits, parsedEntry, if_true, if_false,
      List.append_assoc, BitStreamReader.skipBits_natBits, BitStreamReader.getBits_natBits,
      BitStreamReader.skipBits_zero, Except.ok_bind', Nat.sub_self, Nat.le_refl,
      Nat.reduceMod, Nat.reduceEqDiff, true_or, or_true, OfNat.ofNat_ne_one,
      bind_pure_comp, Functor.map, Except.map, Nat.add_assoc, Nat.reduceSub,
      Nat.reduceLeDiff] <;> rfl

theorem reparsed_eq (E : StreamTypeCodes) (self0 si : MPLSStreamInfo)
    (hs : isVideoStreamType E si.stream_coding_type = true ∨
      isAudioStreamType E si.stream_coding_type = true ∨ si.stream_coding_type = E.SUB_PGS)
    (h8 : si.stream_coding_type < 256) :
    reparsed E self0 si = some (parsedAttributes E self0 si) := by
  unfold reparsed
  rw [composeStreamAttributes_eq E si [] (by decide), if_pos hs]
  simp only [List.nil_append, bytes, BitStreamReader.setBuffer]
  rw [bytesToBits_bitsToBytes _ (by rw [attrBits_length])]
  have h := parseStreamAttributes_attrBits E self0 si [] 0 hs h8
  rw [List.append_nil] at h
  rw [h]

end MPLSStreamInfo

namespace MPLSParser

open BitStreamWriter MPLSStreamInfo

theorem stnStreamBits_length (E : StreamTypeCodes) (i : MPLSStreamInfo) (subPathID : Nat) :
    (streamBits E i subPathID).length = 128 := by
  simp only [streamBits, List.length_append, entryBits_length, attrBits_length]

theorem refListBits_length (n : Nat) (refs : List Bool) (h : refs.length = 8 * n) :
    (refListBits n refs).length = 16 + 8 * n + (if n % 2 = 1 then 8 else 0) := by
  simp only [refListBits, List.length_append, natBits_length, h]
  split_ifs <;> simp <;> omega

theorem parseStream_streamBits (E : StreamTypeCodes) (fresh : MPLSStreamInfo)
    (markSecondary : Bool) (self : MPLSParser) (i : MPLSStreamInfo) (subPathID : Nat)
    (rest : List Bool) (c : Nat)
    (ht : i.type = 1 ∨ i.type = 2 ∨ i.type = 3 ∨ i.type = 4)
    (hs : isVideoStreamType E i.stream_coding_type = true ∨
      isAudioStreamType E i.stream_coding_type = true ∨ i.stream_coding_type = E.SUB_PGS)
    (h8 : i.stream_coding_type < 256) :
    parseStream E fresh markSecondary 0 self ⟨streamBits E i subPathID ++ rest, c⟩
      = .ok ({ self with m_streamInfo := self.m_streamInfo ++ [readBack E fresh markSecondary i] },
          ⟨rest, c + 128⟩) := by
  simp only [parseStream, streamBits, readBack, List.append_assoc,
    parseStreamEntry_entryBits _ _ _ _ _ _ ht, Except.ok_bind',
    parseStreamAttributes_attrBits _ _ _ _ _ hs h8, if_true, Nat.add_assoc]
  rfl

theorem skipRefEntries_refListBits (n : Nat) (refs rest : List Bool) (c : Nat) (hn : n < 256)
    (h : refs.length = 8 * n) :
    skipRefEntries ⟨refListBits n refs ++ rest, c⟩
      = .ok ⟨rest, c + (refListBits n refs).length⟩ := by
  have hm : n % 2 ^ 8 = n := Nat.mod_eq_of_lt hn
  have hand : n &&& 1 = n % 2 := Nat.and_one_is_mod n
  rw [refListBits_length n refs h]
  simp only [skipRefEntries, refListBits, List.append_assoc, BitStreamReader.getBits_natBits,
    BitStreamReader.skipBits_natBits, Nat.le_refl, Nat.sub_self, BitStreamReader.skipBits_zero,
    Except.ok_bind', hm, hand]
  rw [BitStreamReader.skipBits_fold n 8 _ _
    (by simp only [List.length_append, h]; omega)]
  have hd : (refs ++ ((if n % 2 = 1 then natBits 8 0 else []) ++ rest)).drop (n * 8)
      = (if n % 2 = 1 then natBits 8 0 else []) ++ rest := by
    have : n * 8 = refs.length := by omega
    rw [this, List.drop_left]
  simp only [Except.ok_bind', hd]
  by_cases h1 : n % 2 = 1
  · simp only [h1, if_true, ne_eq, one_ne_zero, not_false_eq_true,
      BitStreamReader.skipBits_natBits, Nat.le_refl, Nat.sub_self,
      BitStreamReader.skipBits_zero]
    congr 2
    omega
  · have h0 : n % 2 = 0 := by omega
    simp only [h0, if_false, ne_eq, not_true_eq_false, List.nil_append, zero_ne_one]
    show Except.ok _ = _
    congr 2
    omega

theorem self_append_nil (self : MPLSParser) :
    { self with m_streamInfo := self.m_streamInfo ++ [] } = self := by
  cases self
  simp

theorem STN_tableLoop_items {α : Type}
    (body : MPLSParser → BitStreamReader → Except Exc (MPLSParser × BitStreamReader))
    (recBits : α → List Bool) (upd : α → MPLSStreamInfo) (items : List α)
    (hbody : ∀ a ∈ items, ∀ (self : MPLSParser) (rest : List Bool) (c : Nat),
      body self ⟨recBits a ++ rest, c⟩
        = .ok ({ self with m_streamInfo := self.m_streamInfo ++ [upd a] },
            ⟨rest, c + (recBits a).length⟩)) :
    ∀ (self : MPLSParser) (rest : List Bool) (c : Nat),
      STN_tableLoop body items.length self ⟨items.flatMap recBits ++ rest, c⟩
        = .ok ({ self with m_streamInfo := self.m_streamInfo ++ items.map upd },
            ⟨rest, c + (items.flatMap recBits).length⟩) := by
  induction items with
  | nil =>
    intro self rest c
    simp only [List.length_nil, List.flatMap_nil, List.nil_append, List.map_nil,
      STN_tableLoop, self_append_nil, Nat.add_zero]
    rfl
  | cons a t ih =>
    intro self rest c
    simp only [List.length_cons, List.flatMap_cons, List.append_assoc, STN_tableLoop,
      hbody a (List.mem_cons_self _ _), Except.ok_bind',
      ih (fun b hb => hbody b (List.mem_cons_of_mem _ hb)), List.map_cons,
      List.length_append, Nat.add_assoc, List.singleton_append]

theorem composeStreamEntry_type (i : MPLSStreamInfo) (w w' : BitStreamWriter) (subPathID : Nat)
    (hw : w.length % 8 = 0) (h : i.composeStreamEntry w subPathID = .ok w') :
    i.type = 1 ∨ i.type = 2 ∨ i.type = 3 ∨ i.type = 4 := by
  unfold MPLSStreamInfo.composeStreamEntry at h
  rw [composeStreamEntryOf_eq _ _ _ _ hw] at h
  by_contra hc
  rw [if_neg hc] at h
  cases h

theorem foldlM_emit (P : MPLSStreamInfo → Prop) [DecidablePred P]
    (body : BitStreamWriter → MPLSStreamInfo → Composed BitStreamWriter)
    (B : MPLSStreamInfo → List Bool) (Q : MPLSStreamInfo → Prop) (l : List MPLSStreamInfo) :
    (∀ i ∈ l, P i → ∀ w w', w.length % 8 = 0 → body w i = .ok w' →
      w' = w ++ B i ∧ (B i).length % 8 = 0 ∧ Q i) →
    ∀ w w', w.length % 8 = 0 →
      l.foldlM (fun w i => if P i then body w i else pure w) w = .ok w' →
      w' = w ++ (l.filter (fun i => decide (P i))).flatMap B ∧ ∀ i ∈ l, P i → Q i := by
  induction l with
  | nil =>
    intro _ w w' _ h
    rw [List.foldlM_nil] at h
    have := pure_eq_ok _ _ h
    subst this
    simp
  | cons x t ih =>
    intro hB w w' hw h
    rw [List.foldlM_cons] at h
    obtain ⟨w1, h1, h2⟩ := bind_eq_ok _ _ _ h
    by_cases hp : P x
    · rw [if_pos hp] at h1
      obtain ⟨e1, e2, e3⟩ := hB x (List.mem_cons_self _ _) hp w w1 hw h1
      subst e1
      obtain ⟨r1, r2⟩ := ih (fun i hi => hB i (List.mem_cons_of_mem _ hi)) _ w'
        (by rw [List.length_append]; omega) h2
      refine ⟨?_, ?_⟩
      · rw [r1, List.filter_cons_of_pos (by simpa using hp), List.flatMap_cons,
          List.append_assoc]
      · intro i hi hpi
        rcases List.mem_cons.mp hi with rfl | hi
        · exact e3
        · exact r2 i hi hpi
    · rw [if_neg hp] at h1
      have := pure_eq_ok _ _ h1
      subst this
      obtain ⟨r1, r2⟩ := ih (fun i hi => hB i (List.mem_cons_of_mem _ hi)) _ w' hw h2
      refine ⟨?_, ?_⟩
      · rw [r1, List.filter_cons_of_neg (by simpa using hp)]
      · intro i hi hpi
        rcases List.mem_cons.mp hi with rfl | hi
        · exact absurd hpi hp
        · exact r2 i hi hpi

theorem flatMap_streamBits_length (E : StreamTypeCodes) (l : List MPLSStreamInfo) :
    (l.flatMap (fun i => streamBits E i 0)).length = 128 * l.length := by
  induction l with
  | nil => rfl
  | cons x t ih =>
    rw [List.flatMap_cons, List.length_append, ih, stnStreamBits_length, List.length_cons]
    omega

theorem composeSTN_video_eq (E : StreamTypeCodes) (l : List MPLSStreamInfo)
    (w w' : BitStreamWriter) (hw : w.length % 8 = 0)
    (hMVC : ∀ i ∈ l, isVideoStreamType E i.stream_coding_type = true → ¬ i.isSecondary = true →
      i.stream_coding_type ≠ E.VIDEO_MVC)
    (h : composeSTN_video E l w = .ok w') :
    w' = w ++ (primaryVideoStreams E l).flatMap (fun i => streamBits E i 0) ∧
    ∀ i ∈ primaryVideoStreams E l, i.type = 1 ∨ i.type = 2 ∨ i.type = 3 ∨ i.type = 4 := by
  have key := foldlM_emit
    (fun i => isVideoStreamType E i.stream_coding_type = true ∧ ¬ i.isSecondary = true ∧
      i.HDR ≠ 4)
    (fun writer (i : MPLSStreamInfo) => do
      let writer ← i.composeStreamEntry writer 0
      let writer ← i.composeStreamAttributes E writer
      if i.stream_coding_type = E.VIDEO_MVC then
        let writer := putBits writer 10 0
        pure (putBits writer 6 ((max 1 i.number_of_offset_sequences) % 2 ^ 32).toNat)
      else pure writer)
    (fun i => streamBits E i 0)
    (fun i => i.type = 1 ∨ i.type = 2 ∨ i.type = 3 ∨ i.type = 4) l
    (by
      intro i hi hp s s' hs hb
      obtain ⟨w1, h1, _⟩ := bind_eq_ok _ _ _ hb
      have ht := composeStreamEntry_type i s w1 0 hs h1
      have h2 := entry_attr_bind E i 0 s _ s' hs hb
      rw [if_neg (hMVC i hi hp.1 hp.2.1)] at h2
      have := pure_eq_ok _ _ h2
      exact ⟨this.symm, by rw [stnStreamBits_length], ht⟩)
    w w' hw
  unfold composeSTN_video at h
  dsimp only at h
  replace key := key h
  refine ⟨key.1, ?_⟩
  intro i hi
  have hm := List.mem_filter.mp hi
  exact key.2 i hm.1 (by simpa using hm.2)

theorem composeSTN_primaryAudio_eq (E : StreamTypeCodes) (l : List MPLSStreamInfo)
    (w w' : BitStreamWriter) (hw : w.length % 8 = 0)
    (h : composeSTN_primaryAudio E l w = .ok w') :
    w' = w ++ (primaryAudioStreams E l).flatMap (fun i => streamBits E i 0) ∧
    ∀ i ∈ primaryAudioStreams E l, i.type = 1 ∨ i.type = 2 ∨ i.type = 3 ∨ i.type = 4 := by
  have key := foldlM_emit
    (fun i => isAudioStreamType E i.stream_coding_type = true ∧ ¬ i.isSecondary = true)
    (fun writer (i : MPLSStreamInfo) => do
      let writer ← i.composeStreamEntry writer 0
      i.composeStreamAttributes E writer)
    (fun i => streamBits E i 0)
    (fun i => i.type = 1 ∨ i.type = 2 ∨ i.type = 3 ∨ i.type = 4) l
    (by
      intro i _ _ s s' hs hb
      obtain ⟨w1, h1, _⟩ := bind_eq_ok _ _ _ hb
      have ht := composeStreamEntry_type i s w1 0 hs h1
      exact ⟨entry_attributes_ok E i 0 s s' hs hb, by rw [stnStreamBits_length], ht⟩)
    w w' hw h
  refine ⟨key.1, ?_⟩
  intro i hi
  have hm := List.mem_filter.mp hi
  exact key.2 i hm.1 (by simpa using hm.2)

theorem composeSTN_PG_eq (E : StreamTypeCodes) (l : List MPLSStreamInfo)
    (w w' : BitStreamWriter) (hw : w.length % 8 = 0)
    (h : composeSTN_PG E l w false = .ok w') :
    w' = w ++ (pgStreams E l).flatMap (fun i => streamBits E i 0) ∧
    ∀ i ∈ pgStreams E l, i.type = 1 ∨ i.type = 2 ∨ i.type = 3 ∨ i.type = 4 := by
  have key := foldlM_emit
    (fun i => i.stream_coding_type = E.SUB_PGS)
    (fun writer (i : MPLSStreamInfo) =>
      if false = true then i.composePGS_SS_StreamEntry writer
      else do
        let writer ← i.composeStreamEntry writer 0
        i.composeStreamAttributes E writer)
    (fun i => streamBits E i 0)
    (fun i => i.type = 1 ∨ i.type = 2 ∨ i.type = 3 ∨ i.type = 4) l
    (by
      intro i _ _ s s' hs hb
      simp only [Bool.false_eq_true, if_false] at hb
      obtain ⟨w1, h1, _⟩ := bind_eq_ok _ _ _ hb
      have ht := composeStreamEntry_type i s w1 0 hs h1
      exact ⟨entry_attributes_ok E i 0 s s' hs hb, by rw [stnStreamBits_length], ht⟩)
    w w' hw h
  refine ⟨key.1, ?_⟩
  intro i hi
  have hm := List.mem_filter.mp hi
  exact key.2 i hm.1 (by simpa using hm.2)

theorem audioRefs_fold (E : StreamTypeCodes) (l : List MPLSStreamInfo) :
    ∀ st : BitStreamWriter × Nat,
      (l.foldl
        (fun (st : BitStreamWriter × Nat) (j : MPLSStreamInfo) =>
          if isAudioStreamType E j.stream_coding_type ∧ ¬ j.isSecondary then
            (putBits st.1 8 st.2, (st.2 + 1) % 2 ^ 8)
          else st) st).1 = st.1 ++ audioRefs E l st.2 ∧
      (audioRefs E l st.2).length = 8 * (primaryAudioStreams E l).length := by
  induction l with
  | nil =>
    intro st
    simp [audioRefs, primaryAudioStreams]
  | cons x t ih =>
    intro st
    by_cases hc : isAudioStreamType E x.stream_coding_type = true ∧ ¬ x.isSecondary = true
    · have i1 := ih (putBits st.1 8 st.2, (st.2 + 1) % 2 ^ 8)
      have i2 := ih (putBits [] 8 st.2, (st.2 + 1) % 2 ^ 8)
      have ef : audioRefs E (x :: t) st.2
          = natBits 8 st.2 ++ audioRefs E t ((st.2 + 1) % 2 ^ 8) := by
        have := i2.1
        dsimp only at this
        rw [audioRefs, List.foldl_cons, if_pos hc, this]
        rfl
      refine ⟨?_, ?_⟩
      · rw [List.foldl_cons, if_pos hc, i1.1, ef]
        simp only [putBits, List.append_assoc]
      · rw [ef, List.length_append, natBits_length, i1.2]
        simp only [primaryAudioStreams, List.filter_cons, decide_eq_true hc, if_true,
          List.length_cons]
        omega
    · have i1 := ih st
      have ef : audioRefs E (x :: t) st.2 = audioRefs E t st.2 := by
        rw [audioRefs, List.foldl_cons, if_neg hc]
        rfl
      refine ⟨?_, ?_⟩
      · rw [List.foldl_cons, if_neg hc, i1.1, ef]
      · rw [ef, i1.2]
        simp only [primaryAudioStreams, List.filter_cons, decide_eq_false hc,
          Bool.false_eq_true, if_false]

theorem secondaryAudioRefs_length (E : StreamTypeCodes) (l : List MPLSStreamInfo) (pa sv : Nat) :
    (secondaryAudioRefs E l pa sv).length % 8 = 0 := by
  unfold secondaryAudioRefs refListBits
  have := (audioRefs_fold E l ([], 0)).2
  split_ifs <;> simp only [List.length_append, natBits_length, List.length_nil, this] <;> omega

theorem composeSTN_secondaryAudio_eq (E : StreamTypeCodes) (self : MPLSParser)
    (l : List MPLSStreamInfo) (w w' : BitStreamWriter) (hw : w.length % 8 = 0)
    (h : composeSTN_secondaryAudio E self l w = .ok w') :
    w' = w ++ (secondaryAudioStreams E l).flatMap
      (fun i => streamBits E i 0 ++
        secondaryAudioRefs E l self.number_of_primary_audio_stream_entries
          self.number_of_secondary_video_stream_entries) ∧
    ∀ i ∈ secondaryAudioStreams E l, i.type = 1 ∨ i.type = 2 ∨ i.type = 3 ∨ i.type = 4 := by
  have key := foldlM_emit
    (fun i => isAudioStreamType E i.stream_coding_type = true ∧ i.isSecondary = true)
    (fun writer (i : MPLSStreamInfo) => do
      let writer ← i.composeStreamEntry writer 0
      let writer ← i.composeStreamAttributes E writer
      if self.number_of_secondary_video_stream_entries = 0 then
        let writer := putBits writer 8 self.number_of_primary_audio_stream_entries
        let writer := putBits writer 8 0
        let st := l.foldl
          (fun (st : BitStreamWriter × Nat) (j : MPLSStreamInfo) =>
            if isAudioStreamType E j.stream_coding_type ∧ ¬ j.isSecondary then
              (putBits st.1 8 st.2, (st.2 + 1) % 2 ^ 8)
            else st)
          (writer, 0)
        let writer := st.1
        if self.number_of_primary_audio_stream_entries % 2 = 1 then
          pure (putBits writer 8 0)
        else pure writer
      else pure (putBits writer 16 0))
    (fun i => streamBits E i 0 ++
      secondaryAudioRefs E l self.number_of_primary_audio_stream_entries
        self.number_of_secondary_video_stream_entries)
    (fun i => i.type = 1 ∨ i.type = 2 ∨ i.type = 3 ∨ i.type = 4) l
    (by
      intro i _ _ s s' hs hb
      obtain ⟨w1, h1, _⟩ := bind_eq_ok _ _ _ hb
      have ht := composeStreamEntry_type i s w1 0 hs h1
      have h2 := entry_attr_bind E i 0 s _ s' hs hb
      refine ⟨?_, ?_, ht⟩
      · dsimp only at h2
        by_cases hsv : self.number_of_secondary_video_stream_entries = 0
        · rw [if_pos hsv] at h2
          rw [(audioRefs_fold E l _).1] at h2
          by_cases hodd : self.number_of_primary_audio_stream_entries % 2 = 1
          · rw [if_pos hodd] at h2
            rw [← pure_eq_ok _ _ h2]
            simp only [secondaryAudioRefs, refListBits, streamBits, putBits, if_pos hsv,
              if_pos hodd, List.append_assoc]
          · rw [if_neg hodd] at h2
            rw [← pure_eq_ok _ _ h2]
            simp only [secondaryAudioRefs, refListBits, streamBits, putBits, if_pos hsv,
              if_neg hodd, List.append_assoc, List.append_nil]
        · rw [if_neg hsv] at h2
          rw [← pure_eq_ok _ _ h2]
          simp only [secondaryAudioRefs, refListBits, streamBits, putBits, if_neg hsv,
            List.append_assoc, List.append_nil]
          rfl
      · rw [List.length_append, stnStreamBits_length]
        have := secondaryAudioRefs_length E l self.number_of_primary_audio_stream_entries
          self.number_of_secondary_video_stream_entries
        omega)
    w w' hw
  unfold composeSTN_secondaryAudio at h
  dsimp only at h
  replace key := key h
  refine ⟨key.1, ?_⟩
  intro i hi
  have hm := List.mem_filter.mp hi
  exact key.2 i hm.1 (by simpa using hm.2)

theorem secondaryVideoBits_length (E : StreamTypeCodes) (sa : Nat) (a : MPLSStreamInfo × Nat) :
    (secondaryVideoBits E sa a).length % 8 = 0 := by
  unfold secondaryVideoBits refListBits
  simp only [List.length_append, stnStreamBits_length, natBits_length]
  split_ifs <;> simp

theorem composeSTN_secondaryVideo_fold (E : StreamTypeCodes) (self : MPLSParser)
    (l : List MPLSStreamInfo) :
    ∀ (done : List MPLSStreamInfo) (w : BitStreamWriter) (n : Nat)
      (st : List MPLSStreamInfo × BitStreamWriter × Nat), w.length % 8 = 0 →
      l.foldlM
        (fun (st : List MPLSStreamInfo × BitStreamWriter × Nat) (i : MPLSStreamInfo) =>
          let (done, writer, secondaryVNum) := st
          let stream_coding_type := i.stream_coding_type
          if i.isSecondary ∧ isVideoStreamType E stream_coding_type then do
            let i := { i with type := 3 }
            let writer ← i.composeStreamEntry writer secondaryVNum
            let writer ← i.composeStreamAttributes E writer
            let useSecondaryAudio :=
              if self.number_of_secondary_audio_stream_entries > secondaryVNum then 1 else 0
            let writer := putBits writer 8 useSecondaryAudio
            let writer := putBits writer 8 0
            let writer :=
              if useSecondaryAudio ≠ 0 then
                let writer := putBits writer 8 secondaryVNum
                putBits writer 8 0
              else writer
            let writer := putBits writer 8 0
            let writer := putBits writer 8 0
            pure (done ++ [i], writer, secondaryVNum + 1)
          else pure (done ++ [i], writer, secondaryVNum))
        (done, w, n) = .ok st →
      st = (done ++ l.map (withSecondaryType E),
        w ++ (secondaryVideoItems E l n).flatMap
          (secondaryVideoBits E self.number_of_secondary_audio_stream_entries),
        n + (secondaryVideoItems E l n).length) := by
  induction l with
  | nil =>
    intro done w n st _ h
    rw [List.foldlM_nil] at h
    rw [← pure_eq_ok _ _ h]
    simp [secondaryVideoItems]
  | cons x t ih =>
    intro done w n st hw h
    rw [List.foldlM_cons] at h
    obtain ⟨s1, h1, h2⟩ := bind_eq_ok _ _ _ h
    dsimp only at h1
    by_cases hc : x.isSecondary = true ∧ isVideoStreamType E x.stream_coding_type = true
    · rw [if_pos hc] at h1
      have h3 := entry_attr_bind E { x with type := 3 } n w _ s1 hw h1
      have e1 := pure_eq_ok _ _ h3
      have hbits : ∀ W : BitStreamWriter,
          (putBits (putBits
            (if (if self.number_of_secondary_audio_stream_entries > n then 1 else 0) ≠ 0 then
              putBits (putBits (putBits (putBits W 8
                (if self.number_of_secondary_audio_stream_entries > n then 1 else 0)) 8 0) 8 n)
                8 0
            else putBits (putBits W 8
                (if self.number_of_secondary_audio_stream_entries > n then 1 else 0)) 8 0) 8 0)
            8 0)
          = W ++ (refListBits (if self.number_of_secondary_audio_stream_entries > n then 1 else 0)
              (if self.number_of_secondary_audio_stream_entries > n then natBits 8 n else []) ++
            refListBits 0 []) := by
        intro W
        by_cases hu : self.number_of_secondary_audio_stream_entries > n
        · simp only [hu, if_true, ne_eq, one_ne_zero, not_false_eq_true, putBits, refListBits,
            List.append_assoc, List.append_nil, Nat.one_mod, Nat.zero_mod, zero_ne_one,
            if_false]
        · simp only [hu, if_false, ne_eq, not_true_eq_false, putBits, refListBits,
            List.append_assoc, List.append_nil, Nat.zero_mod, zero_ne_one, List.nil_append]
      dsimp only at e1
      rw [hbits] at e1
      subst e1
      have := ih _ _ _ st (by
        have := secondaryVideoBits_length E self.number_of_secondary_audio_stream_entries (x, n)
        simp only [secondaryVideoBits, streamBits] at this
        simp only [List.length_append] at this ⊢
        omega) h2
      rw [this]
      simp only [secondaryVideoItems, if_pos hc, List.flatMap_cons, List.map_cons,
        withSecondaryType, List.append_assoc, List.singleton_append, List.length_cons,
        secondaryVideoBits, streamBits]
      congr 2
      omega
    · rw [if_neg hc] at h1
      have e1 := pure_eq_ok _ _ h1
      subst e1
      have := ih _ _ _ st hw h2
      rw [this]
      simp only [secondaryVideoItems, if_neg hc, List.map_cons, withSecondaryType,
        List.append_assoc, List.singleton_append]

theorem composeSTN_DV_fold (E : StreamTypeCodes) (l : List MPLSStreamInfo) :
    ∀ (done : List MPLSStreamInfo) (w : BitStreamWriter), (∀ i ∈ l, i.HDR ≠ 4) →
      l.foldlM
        (fun (st : List MPLSStreamInfo × BitStreamWriter) (i : MPLSStreamInfo) =>
          let (done, writer) := st
          let stream_coding_type := i.stream_coding_type
          if isVideoStreamType E stream_coding_type ∧ i.HDR = 4 then do
            let i := { i with type := 4 }
            let writer ← i.composeStreamEntry writer 0
            let writer ← i.composeStreamAttributes E writer
            pure (done ++ [i], writer)
          else pure (done ++ [i], writer))
        (done, w) = (.ok (done ++ l, w) : Composed (List MPLSStreamInfo × BitStreamWriter)) := by
  induction l with
  | nil =>
    intro done w _
    rw [List.foldlM_nil, List.append_nil]
    rfl
  | cons x t ih =>
    intro done w h
    have hx : ¬ (isVideoStreamType E x.stream_coding_type = true ∧ x.HDR = 4) :=
      fun hc => h x (List.mem_cons_self _ _) hc.2
    rw [List.foldlM_cons]
    dsimp only
    rw [if_neg hx]
    show (List.foldlM _ (done ++ [x], w) t) = _
    rw [ih _ _ (fun i hi => h i (List.mem_cons_of_mem _ hi))]
    simp

theorem flatMap_length_mod8 {α : Type} (f : α → List Bool) (l : List α)
    (h : ∀ a ∈ l, (f a).length % 8 = 0) : (l.flatMap f).length % 8 = 0 := by
  induction l with
  | nil => rfl
  | cons x t ih =>
    rw [List.flatMap_cons, List.length_append]
    have h1 := h x (List.mem_cons_self _ _)
    have h2 := ih (fun a ha => h a (List.mem_cons_of_mem _ ha))
    omega

theorem countBits_length (E : StreamTypeCodes) (l : List MPLSStreamInfo) :
    (countBits E l).length = 64 := by
  simp [countBits]

theorem stnEntriesBits_length (E : StreamTypeCodes) (l : List MPLSStreamInfo) :
    (stnEntriesBits E l).length % 8 = 0 := by
  unfold stnEntriesBits
  have h1 := flatMap_length_mod8 (fun i => streamBits E i 0) (primaryVideoStreams E l)
    (fun a _ => by rw [stnStreamBits_length])
  have h2 := flatMap_length_mod8 (fun i => streamBits E i 0) (primaryAudioStreams E l)
    (fun a _ => by rw [stnStreamBits_length])
  have h3 := flatMap_length_mod8 (fun i => streamBits E i 0) (pgStreams E l)
    (fun a _ => by rw [stnStreamBits_length])
  have h4 := flatMap_length_mod8
    (fun i => streamBits E i 0 ++
      secondaryAudioRefs E l (primaryAudioCount E l) (secondaryVideoCount E l))
    (secondaryAudioStreams E l)
    (fun a _ => by
      have := secondaryAudioRefs_length E l (primaryAudioCount E l) (secondaryVideoCount E l)
      rw [List.length_append, stnStreamBits_length]
      omega)
  have h5 := flatMap_length_mod8 (secondaryVideoBits E (secondaryAudioCount E l))
    (secondaryVideoItems E l 0) (fun a _ => secondaryVideoBits_length E _ a)
  simp only [List.length_append]
  omega

theorem withSecondaryType_HDR (E : StreamTypeCodes) (i : MPLSStreamInfo) :
    (withSecondaryType E i).HDR = i.HDR := by
  unfold withSecondaryType
  split_ifs <;> rfl

theorem composeSTN_table_eq (E : StreamTypeCodes) (self self' : MPLSParser)
    (w out : BitStreamWriter) (hw : w.length % 8 = 0)
    (hDV : ∀ i ∈ self.m_streamInfo, i.HDR ≠ 4)
    (hMVC : ∀ i ∈ self.m_streamInfo, isVideoStreamType E i.stream_coding_type = true →
      ¬ i.isSecondary = true → i.stream_coding_type ≠ E.VIDEO_MVC)
    (h : composeSTN_table E self w false = .ok (self', out)) :
    out = w ++ stnTableBits E self.m_streamInfo ∧
    (∀ i ∈ self.m_streamInfo, Supported E i) ∧
    (∀ i ∈ primaryVideoStreams E self.m_streamInfo ++ (primaryAudioStreams E self.m_streamInfo ++
        (pgStreams E self.m_streamInfo ++ secondaryAudioStreams E self.m_streamInfo)),
      i.type = 1 ∨ i.type = 2 ∨ i.type = 3 ∨ i.type = 4) := by
  unfold composeSTN_table at h
  dsimp only at h
  simp only [Bool.false_eq_true, if_false] at h
  split at h
  · cases h
  · rename_i s hs
    have hc := countStreams_counts E _ _ _ hs
    have hsup := countStreams_supported E _ _ _ hs
    split at h
    · cases h
    · rename_i si wr he
      simp only [Bool.not_false, if_true] at he
      rw [composeSTN_counts_eq E _ _ s _ hc ⟨rfl, rfl, rfl, rfl, rfl, rfl⟩] at he
      have hpre : (putBits (putBit (putBits w 16 0) 0) 15 0) = w ++ natBits 32 0 := by
        simp only [putBits, putBit, List.append_assoc]
        rfl
      rw [hpre] at he
      obtain ⟨c1, c2, c3, c4, c5, c6, c7⟩ := hc
      simp only [Nat.zero_add] at c1 c2 c3 c4 c5 c6 c7
      have hw0 : (w ++ natBits 32 0 ++ (countBits E self.m_streamInfo ++ natBits 32 0)).length % 8
          = 0 := by
        simp only [List.length_append, natBits_length, countBits_length]
        omega
      unfold composeSTN_entries at he
      obtain ⟨w1, h1, he⟩ := bind_eq_ok _ _ _ he
      obtain ⟨e1, t1⟩ := composeSTN_video_eq E _ _ _ hw0 hMVC h1
      have a1 : w1.length % 8 = 0 := by
        have := flatMap_length_mod8 (fun i => streamBits E i 0)
          (primaryVideoStreams E self.m_streamInfo) (fun a _ => by rw [stnStreamBits_length])
        rw [e1, List.length_append]
        omega
      obtain ⟨w2, h2, he⟩ := bind_eq_ok _ _ _ he
      obtain ⟨e2, t2⟩ := composeSTN_primaryAudio_eq E _ _ _ a1 h2
      have a2 : w2.length % 8 = 0 := by
        have := flatMap_length_mod8 (fun i => streamBits E i 0)
          (primaryAudioStreams E self.m_streamInfo) (fun a _ => by rw [stnStreamBits_length])
        rw [e2, List.length_append]
        omega
      obtain ⟨w3, h3, he⟩ := bind_eq_ok _ _ _ he
      rw [c7] at h3
      obtain ⟨e3, t3⟩ := composeSTN_PG_eq E _ _ _ a2 h3
      have a3 : w3.length % 8 = 0 := by
        have := flatMap_length_mod8 (fun i => streamBits E i 0)
          (pgStreams E self.m_streamInfo) (fun a _ => by rw [stnStreamBits_length])
        rw [e3, List.length_append]
        omega
      obtain ⟨w4, h4, he⟩ := bind_eq_ok _ _ _ he
      obtain ⟨e4, t4⟩ := composeSTN_secondaryAudio_eq E s _ _ _ a3 h4
      rw [c2, c5] at e4
      have a4 : w4.length % 8 = 0 := by
        have := flatMap_length_mod8
          (fun i => streamBits E i 0 ++
            secondaryAudioRefs E self.m_streamInfo (primaryAudioCount E self.m_streamInfo)
              (secondaryVideoCount E self.m_streamInfo))
          (secondaryAudioStreams E self.m_streamInfo)
          (fun a _ => by
            have := secondaryAudioRefs_length E self.m_streamInfo
              (primaryAudioCount E self.m_streamInfo) (secondaryVideoCount E self.m_streamInfo)
            rw [List.length_append, stnStreamBits_length]
            omega)
        rw [e4, List.length_append]
        omega
      obtain ⟨st5, h5, he⟩ := bind_eq_ok _ _ _ he
      unfold composeSTN_secondaryVideo at h5
      have e5 := composeSTN_secondaryVideo_fold E s _ _ _ _ st5 a4 h5
      rw [c4] at e5
      rw [e5] at he
      unfold composeSTN_DV at he
      rw [composeSTN_DV_fold E _ _ _ (by
        intro i hi
        simp only [List.nil_append] at hi
        obtain ⟨j, hj, rfl⟩ := List.mem_map.mp hi
        rw [withSecondaryType_HDR]
        exact hDV j hj)] at he
      have e6 := pure_eq_ok _ _ he
      injection e6 with e61 e62
      refine ⟨?_, hsup, ?_⟩
      · injection h with h
        injection h with _ h2
        simp only [false_and, if_false] at h2
        obtain ⟨m, hm⟩ : ∃ m, w.length = 8 * m := ⟨w.length / 8, by omega⟩
        have hdiv : getBitsCount w / 8 = m := by simp only [getBitsCount]; omega
        have h32 : natBits 32 0 = natBits 16 0 ++ natBits 16 0 := rfl
        have hwr : wr = w ++ (natBits 16 0 ++ (natBits 16 0 ++
            (countBits E self.m_streamInfo ++ (natBits 32 0 ++
              stnEntriesBits E self.m_streamInfo)))) := by
          rw [← e62, e4, e3, e2, e1, stnEntriesBits]
          simp only [List.append_assoc, h32]
        have hX := stnEntriesBits_length E self.m_streamInfo
        have hlen : (getBitsCount wr / 8 - getBitsCount (putBits w 16 0) / 8)
            = 14 + (stnEntriesBits E self.m_streamInfo).length / 8 := by
          rw [hwr]
          simp only [getBitsCount, putBits, List.length_append, natBits_length,
            countBits_length]
          omega
        rw [hlen, hdiv, hwr] at h2
        rw [CLPIParser.store_shift0 _ _ m _ _ hm, storeB_zero,
          drop_natBits_append _ _ _ _ (by omega)] at h2
        simp only [Nat.reduceMul, Nat.sub_self, List.drop_zero] at h2
        rw [← h2, stnTableBits, natBits_mod]
      · intro i hi
        rcases List.mem_append.mp hi with hi | hi
        · exact t1 i hi
        rcases List.mem_append.mp hi with hi | hi
        · exact t2 i hi
        rcases List.mem_append.mp hi with hi | hi
        · exact t3 i hi
        · exact t4 i hi

theorem primaryVideoCount_eq (E : StreamTypeCodes) (l : List MPLSStreamInfo) :
    primaryVideoCount E l = (primaryVideoStreams E l).length := by
  unfold primaryVideoCount primaryVideoStreams
  rw [List.countP_eq_length_filter]
  congr 1
  apply List.filter_congr
  intro i _
  by_cases h1 : isVideoStreamType E i.stream_coding_type = true <;>
    by_cases h2 : i.isSecondary = true <;> by_cases h3 : i.HDR = 4 <;> simp [h1, h2, h3]

theorem primaryAudioCount_eq (E : StreamTypeCodes) (l : List MPLSStreamInfo)
    (hE : DisjointClasses E l) : primaryAudioCount E l = (primaryAudioStreams E l).length := by
  unfold primaryAudioCount primaryAudioStreams
  rw [List.countP_eq_length_filter]
  congr 1
  apply List.filter_congr
  intro i hi
  have hd := (hE i hi).1
  by_cases h1 : isAudioStreamType E i.stream_coding_type = true
  · by_cases h2 : i.isSecondary = true <;> simp [h1, h2, hd h1]
  · simp [h1]

theorem pgCount_eq (E : StreamTypeCodes) (l : List MPLSStreamInfo)
    (hE : DisjointClasses E l) : pgCount E l = (pgStreams E l).length := by
  unfold pgCount pgStreams
  rw [List.countP_eq_length_filter]
  congr 1
  apply List.filter_congr
  intro i hi
  have hd := (hE i hi).2
  by_cases h1 : i.stream_coding_type = E.SUB_PGS
  · rw [(hd h1).1, (hd h1).2]
    simp [h1]
  · simp [h1]

theorem secondaryAudioCount_eq (E : StreamTypeCodes) (l : List MPLSStreamInfo)
    (hE : DisjointClasses E l) :
    secondaryAudioCount E l = (secondaryAudioStreams E l).length := by
  unfold secondaryAudioCount secondaryAudioStreams
  rw [List.countP_eq_length_filter]
  congr 1
  apply List.filter_congr
  intro i hi
  have hd := (hE i hi).1
  by_cases h1 : isAudioStreamType E i.stream_coding_type = true
  · by_cases h2 : i.isSecondary = true <;> simp [h1, h2, hd h1]
  · simp [h1]

theorem secondaryVideoItems_length (E : StreamTypeCodes) (l : List MPLSStreamInfo) :
    ∀ n, (secondaryVideoItems E l n).length = secondaryVideoCount E l := by
  induction l with
  | nil => intro n; rfl
  | cons x t ih =>
    intro n
    unfold secondaryVideoCount at ih ⊢
    by_cases hc : x.isSecondary = true ∧ isVideoStreamType E x.stream_coding_type = true
    · rw [secondaryVideoItems, if_pos hc, List.length_cons, ih, List.countP_cons_of_pos]
      simp [hc.1, hc.2]
    · rw [secondaryVideoItems, if_neg hc, ih, List.countP_cons_of_neg]
      intro h
      apply hc
      simp only [Bool.and_eq_true] at h
      exact ⟨h.2, h.1⟩

theorem dolbyVisionCount_zero (E : StreamTypeCodes) (l : List MPLSStreamInfo)
    (h : ∀ i ∈ l, i.HDR ≠ 4) : dolbyVisionCount E l = 0 := by
  unfold dolbyVisionCount
  rw [List.countP_eq_zero]
  intro i hi
  simp [h i hi]

theorem secondaryVideoItems_mem (E : StreamTypeCodes) (l : List MPLSStreamInfo) :
    ∀ n a, a ∈ secondaryVideoItems E l n →
      a.1 ∈ l ∧ isVideoStreamType E a.1.stream_coding_type = true ∧ n ≤ a.2 := by
  induction l with
  | nil => intro n a h; simp [secondaryVideoItems] at h
  | cons x t ih =>
    intro n a h
    by_cases hc : x.isSecondary = true ∧ isVideoStreamType E x.stream_coding_type = true
    · rw [secondaryVideoItems, if_pos hc] at h
      rcases List.mem_cons.mp h with rfl | h
      · exact ⟨List.mem_cons_self _ _, hc.2, Nat.le_refl _⟩
      · obtain ⟨h1, h2, h3⟩ := ih _ _ h
        exact ⟨List.mem_cons_of_mem _ h1, h2, by omega⟩
    · rw [secondaryVideoItems, if_neg hc] at h
      obtain ⟨h1, h2, h3⟩ := ih _ _ h
      exact ⟨List.mem_cons_of_mem _ h1, h2, h3⟩

theorem STN_table_stnTableBits (E : StreamTypeCodes) (fresh : MPLSStreamInfo)
    (self0 : MPLSParser) (l : List MPLSStreamInfo) (rest : List Bool) (c : Nat)
    (hE : DisjointClasses E l)
    (hDV : ∀ i ∈ l, i.HDR ≠ 4)
    (hsup : ∀ i ∈ l, Supported E i)
    (h8 : ∀ i ∈ l, i.stream_coding_type < 256)
    (ht : ∀ i ∈ primaryVideoStreams E l ++ (primaryAudioStreams E l ++
        (pgStreams E l ++ secondaryAudioStreams E l)),
      i.type = 1 ∨ i.type = 2 ∨ i.type = 3 ∨ i.type = 4)
    (h255 : primaryVideoCount E l ≤ 255 ∧ primaryAudioCount E l ≤ 255 ∧ pgCount E l ≤ 255 ∧
      secondaryAudioCount E l ≤ 255 ∧ secondaryVideoCount E l ≤ 255) :
    STN_table E fresh self0 ⟨stnTableBits E l ++ rest, c⟩ 0
      = .ok (parsedTable E fresh self0 l, ⟨rest, c + (stnTableBits E l).length⟩) := by
  obtain ⟨b1, b2, b3, b4, b5⟩ := h255
  have m1 : primaryVideoCount E l % 2 ^ 8 = primaryVideoCount E l := Nat.mod_eq_of_lt (by omega)
  have m2 : primaryAudioCount E l % 2 ^ 8 = primaryAudioCount E l := Nat.mod_eq_of_lt (by omega)
  have m3 : pgCount E l % 2 ^ 8 = pgCount E l := Nat.mod_eq_of_lt (by omega)
  have m4 : secondaryAudioCount E l % 2 ^ 8 = secondaryAudioCount E l :=
    Nat.mod_eq_of_lt (by omega)
  have m5 : secondaryVideoCount E l % 2 ^ 8 = secondaryVideoCount E l :=
    Nat.mod_eq_of_lt (by omega)
  have m6 : dolbyVisionCount E l = 0 := dolbyVisionCount_zero E l hDV
  have memf : ∀ (p : MPLSStreamInfo → Bool) (i : MPLSStreamInfo), i ∈ l.filter p → i ∈ l :=
    fun p i hi => (List.mem_filter.mp hi).1
  -- the loops
  have L1 := STN_tableLoop_items (parseStream E fresh false 0) (fun i => streamBits E i 0)
    (readBack E fresh false) (primaryVideoStreams E l)
    (fun a ha self rest c => by
      rw [parseStream_streamBits E fresh false self a 0 rest c
        (ht a (List.mem_append_left _ ha)) (hsup a (memf _ a ha)) (h8 a (memf _ a ha)),
        stnStreamBits_length])
  rw [← primaryVideoCount_eq] at L1
  have L2 := STN_tableLoop_items (parseStream E fresh false 0) (fun i => streamBits E i 0)
    (readBack E fresh false) (primaryAudioStreams E l)
    (fun a ha self rest c => by
      rw [parseStream_streamBits E fresh false self a 0 rest c
        (ht a (List.mem_append_right _ (List.mem_append_left _ ha)))
        (hsup a (memf _ a ha)) (h8 a (memf _ a ha)), stnStreamBits_length])
  rw [← primaryAudioCount_eq E l hE] at L2
  have L3 := STN_tableLoop_items (parseStream E fresh false 0) (fun i => streamBits E i 0)
    (readBack E fresh false) (pgStreams E l)
    (fun a ha self rest c => by
      rw [parseStream_streamBits E fresh false self a 0 rest c
        (ht a (List.mem_append_right _ (List.mem_append_right _ (List.mem_append_left _ ha))))
        (hsup a (memf _ a ha)) (h8 a (memf _ a ha)), stnStreamBits_length])
  rw [← pgCount_eq E l hE] at L3
  have hrefs : (audioRefs E l 0).length = 8 * primaryAudioCount E l := by
    rw [primaryAudioCount_eq E l hE]
    exact (audioRefs_fold E l ([], 0)).2
  have L4 := STN_tableLoop_items (parseSecondaryAudio E fresh 0)
    (fun i => streamBits E i 0 ++
      secondaryAudioRefs E l (primaryAudioCount E l) (secondaryVideoCount E l))
    (readBack E fresh true) (secondaryAudioStreams E l)
    (fun a ha self rest c => by
      simp only [List.append_assoc, parseSecondaryAudio]
      rw [parseStream_streamBits E fresh true self a 0 _ c
        (ht a (List.mem_append_right _ (List.mem_append_right _ (List.mem_append_right _ ha))))
        (hsup a (memf _ a ha)) (h8 a (memf _ a ha))]
      simp only [Except.ok_bind', secondaryAudioRefs]
      split_ifs
      · rw [skipRefEntries_refListBits _ _ _ _ (by omega) hrefs]
        simp only [Except.ok_bind', List.length_append, stnStreamBits_length, Nat.add_assoc]
        rfl
      · rw [skipRefEntries_refListBits 0 [] _ _ (by decide) rfl]
        simp only [Except.ok_bind', List.length_append, stnStreamBits_length, Nat.add_assoc]
        rfl)
  rw [← secondaryAudioCount_eq E l hE] at L4
  have L5 := STN_tableLoop_items (parseSecondaryVideo E fresh 0)
    (secondaryVideoBits E (secondaryAudioCount E l))
    (fun a => readBack E fresh true { a.1 with type := 3 }) (secondaryVideoItems E l 0)
    (fun a ha self rest c => by
      obtain ⟨hm1, hm2, _⟩ := secondaryVideoItems_mem E l 0 a ha
      simp only [secondaryVideoBits, List.append_assoc, parseSecondaryVideo]
      rw [parseStream_streamBits E fresh true self { a.1 with type := 3 } a.2 _ c
        (Or.inr (Or.inr (Or.inl rfl))) (Or.inl hm2) (h8 a.1 hm1)]
      simp only [Except.ok_bind']
      rw [skipRefEntries_refListBits _ _ _ _ (by split_ifs <;> decide)
        (by split_ifs <;> simp)]
      simp only [Except.ok_bind']
      rw [skipRefEntries_refListBits 0 [] _ _ (by decide) rfl]
      simp only [Except.ok_bind', List.length_append, stnStreamBits_length, Nat.add_assoc]
      rfl)
  rw [secondaryVideoItems_length] at L5
  simp only [STN_table, stnTableBits, countBits, stnEntriesBits, List.append_assoc, m6,
    BitStreamReader.skipBits_natBits, BitStreamReader.getBits_natBits, Nat.le_refl,
    Nat.sub_self, BitStreamReader.skipBits_zero, Except.ok_bind', m1, m2, m3, m4, m5,
    Nat.zero_mod, Nat.add_zero, Nat.reduceLeDiff, Nat.reduceSub, L1, L2, L3, L4, L5,
    STN_tableLoop, pure_bind]
  refine congrArg Except.ok (Prod.ext ?_ ?_)
  · simp only [parsedTable, parsedStreams, List.append_assoc]
  · show BitStreamReader.mk _ _ = BitStreamReader.mk _ _
    congr 1
    simp only [List.length_append, natBits_length]
    omega

theorem readBack_fields (E : StreamTypeCodes) (fresh : MPLSStreamInfo) (b : Bool)
    (i : MPLSStreamInfo) :
    (readBack E fresh b i).streamPID = i.streamPID % 2 ^ 16 ∧
    (readBack E fresh b i).stream_coding_type = i.stream_coding_type ∧
    (b = true → (readBack E fresh b i).isSecondary = true) := by
  unfold readBack parsedAttributes parsedEntry
  dsimp only
  refine ⟨?_, ?_, ?_⟩
  · split_ifs <;> rfl
  · split_ifs <;> rfl
  · intro hb
    subst hb
    simp only [if_true]
    split_ifs <;> rfl

end MPLSParser

namespace MPLSParser

open BitStreamWriter MPLSStreamInfo

theorem parsedStreams_keys (E : StreamTypeCodes) (fresh : MPLSStreamInfo)
    (l : List MPLSStreamInfo) (hrange : ∀ i ∈ l, i.streamPID < 2 ^ 16) :
    (parsedStreams E fresh l).map (fun p => (p.streamPID, p.stream_coding_type))
      = (emittedStreams E l).map (fun i => (i.streamPID, i.stream_coding_type)) := by
  have hf : ∀ (b : Bool) (p : MPLSStreamInfo → Bool),
      (List.map (readBack E fresh b) (l.filter p)).map
          (fun p => (p.streamPID, p.stream_coding_type))
        = (l.filter p).map (fun i => (i.streamPID, i.stream_coding_type)) := by
    intro b p
    rw [List.map_map]
    apply List.map_congr_left
    intro i hi
    obtain ⟨f1, f2, _⟩ := readBack_fields E fresh b i
    simp only [Function.comp, f1, f2,
      Nat.mod_eq_of_lt (hrange i (List.mem_filter.mp hi).1)]
  have hv : ((secondaryVideoItems E l 0).map
        (fun a => readBack E fresh true { a.1 with type := 3 })).map
          (fun p => (p.streamPID, p.stream_coding_type))
      = ((secondaryVideoItems E l 0).map (fun a => { a.1 with type := 3 })).map
          (fun i => (i.streamPID, i.stream_coding_type)) := by
    rw [List.map_map, List.map_map]
    apply List.map_congr_left
    intro a ha
    obtain ⟨f1, f2, _⟩ := readBack_fields E fresh true { a.1 with type := 3 }
    obtain ⟨hm, _, _⟩ := secondaryVideoItems_mem E l 0 a ha
    have hr : a.1.streamPID % 2 ^ 16 = a.1.streamPID := Nat.mod_eq_of_lt (hrange a.1 hm)
    simp only [Function.comp, f1, f2, hr]
  unfold parsedStreams emittedStreams
  simp only [List.map_append]
  rw [hv]
  simp only [primaryVideoStreams, primaryAudioStreams, pgStreams, secondaryAudioStreams, hf]

theorem parsedStreams_secondary (E : StreamTypeCodes) (fresh : MPLSStreamInfo)
    (l : List MPLSStreamInfo) (hE : DisjointClasses E l) :
    ∀ p ∈ (parsedStreams E fresh l).drop
        (primaryVideoCount E l + primaryAudioCount E l + pgCount E l),
      p.isSecondary = true := by
  have hlen : ((primaryVideoStreams E l).map (readBack E fresh false) ++
      (primaryAudioStreams E l).map (readBack E fresh false) ++
      (pgStreams E l).map (readBack E fresh false)).length
        = primaryVideoCount E l + primaryAudioCount E l + pgCount E l := by
    simp only [List.length_append, List.length_map, primaryVideoCount_eq,
      primaryAudioCount_eq E l hE, pgCount_eq E l hE]
  unfold parsedStreams
  rw [List.append_assoc, ← hlen, List.drop_left]
  intro p hp
  rcases List.mem_append.mp hp with hp | hp
  · obtain ⟨i, _, rfl⟩ := List.mem_map.mp hp
    exact (readBack_fields E fresh true i).2.2 rfl
  · obtain ⟨a, _, rfl⟩ := List.mem_map.mp hp
    exact (readBack_fields E fresh true _).2.2 rfl

theorem stnTableBits_length (E : StreamTypeCodes) (l : List MPLSStreamInfo) :
    (stnTableBits E l).length = 128 + (stnEntriesBits E l).length := by
  simp only [stnTableBits, List.length_append, natBits_length, countBits_length]
  omega

end MPLSParser

/-! ### `std::map` assignment -/

theorem StdMap.insert_keys {β : Type} (k : Nat) (v : β) (m : List (Nat × β)) :
    ∀ x ∈ (StdMap.insert k v m).map Prod.fst, x = k ∨ x ∈ m.map Prod.fst := by
  induction m with
  | nil => intro x hx; simp [StdMap.insert] at hx; exact Or.inl hx
  | cons e t ih =>
      obtain ⟨k', v'⟩ := e
      intro x hx
      simp only [StdMap.insert] at hx
      split_ifs at hx with h1 h2
      · simp only [List.map_cons, List.mem_cons] at hx ⊢
        tauto
      · simp only [List.map_cons, List.mem_cons] at hx ⊢
        tauto
      · simp only [List.map_cons, List.mem_cons] at hx ⊢
        rcases hx with hx | hx
        · exact Or.inr (Or.inl hx)
        · rcases ih x hx with h | h
          · exact Or.inl h
          · exact Or.inr (Or.inr h)

theorem StdMap.insert_ordered {β : Type} (k : Nat) (v : β) (m : List (Nat × β))
    (h : StdMap.Ordered m) : StdMap.Ordered (StdMap.insert k v m) := by
  induction m with
  | nil => simp [StdMap.insert, StdMap.Ordered]
  | cons e t ih =>
      obtain ⟨k', v'⟩ := e
      simp only [StdMap.Ordered, List.map_cons, List.pairwise_cons] at h
      simp only [StdMap.insert]
      split_ifs with h1 h2
      · simp only [StdMap.Ordered, List.map_cons, List.pairwise_cons, List.mem_cons]
        refine ⟨?_, h.1, h.2⟩
        intro a ha
        rcases ha with ha | ha
        · omega
        · have := h.1 a ha; omega
      · subst h2
        simp only [StdMap.Ordered, List.map_cons, List.pairwise_cons]
        exact h
      · simp only [StdMap.Ordered, List.map_cons, List.pairwise_cons]
        refine ⟨?_, ih h.2⟩
        intro a ha
        rcases StdMap.insert_keys k v t a ha with h3 | h3
        · omega
        · exact h.1 a h3

theorem StdMap.foldl_insert_ordered {β : Type} (l : List (Nat × β)) :
    ∀ m : List (Nat × β), StdMap.Ordered m →
      StdMap.Ordered (l.foldl (fun m e => StdMap.insert e.1 e.2 m) m) := by
  induction l with
  | nil => intro m h; exact h
  | cons e t ih => intro m h; exact ih _ (StdMap.insert_ordered _ _ _ h)

theorem StdMap.foldl_insert_keys {β : Type} (l : List (Nat × β)) :
    ∀ m : List (Nat × β), ∀ x ∈ (l.foldl (fun m e => StdMap.insert e.1 e.2 m) m).map Prod.fst,
      x ∈ l.map Prod.fst ∨ x ∈ m.map Prod.fst := by
  induction l with
  | nil => intro m x hx; exact Or.inr hx
  | cons e t ih =>
      intro m x hx
      rcases ih _ x hx with h | h
      · exact Or.inl (List.mem_cons_of_mem _ h)
      · rcases StdMap.insert_keys _ _ _ x h with h | h
        · exact Or.inl (by rw [h]; simp)
        · exact Or.inr h

/-- Assignments with keys above `k` leave an entry with key `k` at the front
in place. -/
theorem StdMap.foldl_insert_cons {β : Type} (k : Nat) (v : β) (l : List (Nat × β))
    (hl : ∀ e ∈ l, k < e.1) :
    ∀ m : List (Nat × β), l.foldl (fun m e => StdMap.insert e.1 e.2 m) ((k, v) :: m)
      = (k, v) :: l.foldl (fun m e => StdMap.insert e.1 e.2 m) m := by
  induction l with
  | nil => intro m; rfl
  | cons e t ih =>
      intro m
      have h1 : k < e.1 := hl e (List.mem_cons_self _ _)
      simp only [List.foldl_cons, StdMap.insert, if_neg (show ¬ e.1 < k by omega),
        if_neg (show ¬ e.1 = k by omega)]
      exact ih (fun x hx => hl x (List.mem_cons_of_mem _ hx)) _

/-- Assigning every entry of an ordered map `l` to a map whose keys are keys
of `l` gives `l`. -/
theorem StdMap.foldl_insert_eq {β : Type} (l : List (Nat × β)) (hl : StdMap.Ordered l) :
    ∀ m : List (Nat × β), StdMap.Ordered m → (∀ x ∈ m.map Prod.fst, x ∈ l.map Prod.fst) →
      l.foldl (fun m e => StdMap.insert e.1 e.2 m) m = l := by
  induction l with
  | nil =>
      intro m _ hm
      cases m with
      | nil => rfl
      | cons e t => exact absurd (hm e.1 (by simp)) (by simp)
  | cons e t ih =>
      obtain ⟨k, v⟩ := e
      simp only [StdMap.Ordered, List.map_cons, List.pairwise_cons] at hl
      intro m hm hsub
      have hgt : ∀ x ∈ t, k < x.1 := fun x hx => hl.1 x.1 (List.mem_map_of_mem _ hx)
      obtain ⟨q, hq, hqo, hqs⟩ : ∃ q, StdMap.insert k v m = (k, v) :: q ∧ StdMap.Ordered q ∧
          ∀ x ∈ q.map Prod.fst, x ∈ t.map Prod.fst := by
        cases m with
        | nil => exact ⟨[], rfl, by simp [StdMap.Ordered], by simp⟩
        | cons e' m' =>
            obtain ⟨k', v'⟩ := e'
            have hm' := hm
            simp only [StdMap.Ordered, List.map_cons, List.pairwise_cons] at hm'
            have hk' : k ≤ k' := by
              have := hsub k' (by simp)
              simp only [List.map_cons, List.mem_cons] at this
              rcases this with h | h
              · omega
              · have := hl.1 k' h; omega
            by_cases h1 : k < k'
            · refine ⟨(k', v') :: m', by simp [StdMap.insert, h1], hm, ?_⟩
              intro x hx
              have hx2 := hsub x hx
              simp only [List.map_cons, List.mem_cons] at hx2 hx
              rcases hx2 with h | h
              · exfalso
                rcases hx with hx | hx
                · omega
                · have := hm'.1 x hx; omega
              · exact h
            · have h2 : k = k' := by omega
              subst h2
              refine ⟨m', by simp [StdMap.insert], hm'.2, ?_⟩
              intro x hx
              have hx2 := hsub x (by simp only [List.map_cons, List.mem_cons]; exact Or.inr hx)
              simp only [List.map_cons, List.mem_cons] at hx2
              rcases hx2 with h | h
              · have := hm'.1 x hx; omega
              · exact h
      rw [List.foldl_cons, hq, StdMap.foldl_insert_cons k v t hgt, ih hl.2 q hqo hqs]

namespace TS_program_map_section

open BitStreamWriter

theorem descrBytes_append (a b : List (Nat × List Nat)) :
    descrBytes (a ++ b) = descrBytes a ++ descrBytes b := by
  simp [descrBytes]

/-- The loop of `extractDescriptors` over well-formed descriptors of which the
last has the language tag and at least three payload bytes: the language
buffer holds these three bytes afterwards. -/
theorem extractDescriptorsLoop_walk_last (T : TSDescriptorTagCodes) (mem : List Nat)
    (pay : List Nat) (hpay : 3 ≤ pay.length) :
    ∀ (ds : List (Nat × List Nat)) (q fuel : Nat) (info : PMTStreamInfo),
      WellFormedDescriptors (ds ++ [(T.LANG, pay)]) →
      (∀ i < (descrBytes (ds ++ [(T.LANG, pay)])).length,
        mem.getD (q + i) 0 = (descrBytes (ds ++ [(T.LANG, pay)])).getD i 0) →
      ds.length + 1 ≤ fuel → 3 ≤ info.m_lang.length →
      extractDescriptorsLoop T mem (q + (descrBytes (ds ++ [(T.LANG, pay)])).length) fuel q info
        = { info with m_lang := [pay.getD 0 0, pay.getD 1 0, pay.getD 2 0] ++
            info.m_lang.drop 3 } := by
  intro ds
  induction ds with
  | nil =>
      intro q fuel info hwf hmem hf hl
      obtain ⟨lang, e1, _, _, e4⟩ := extractDescriptorsLoop_walk T mem [(T.LANG, pay)] q fuel info
        hwf hmem (by simpa using hf) hl
      rw [List.nil_append, e1, e4 (by intro d hd _; simp at hd; rw [hd]; exact hpay)]
      simp [langAfter]
  | cons d t ih =>
      intro q fuel info hwf hmem hf hl
      obtain ⟨f, rfl⟩ : ∃ f, fuel = f + 1 := ⟨fuel - 1, by simp at hf; omega⟩
      rw [List.cons_append] at hwf hmem ⊢
      have hlen : (descrBytes (d :: (t ++ [(T.LANG, pay)]))).length
          = 2 + d.2.length + (descrBytes (t ++ [(T.LANG, pay)])).length := by
        rw [descrBytes_cons]
        simp only [List.length_cons, List.length_append]
        omega
      have h0 := hmem 0 (by omega)
      have h1 := hmem 1 (by omega)
      rw [descrBytes_cons] at h0 h1
      simp only [Nat.add_zero, List.getD_cons_zero, List.getD_cons_succ] at h0 h1
      have hrest : ∀ i < (descrBytes (t ++ [(T.LANG, pay)])).length,
          mem.getD (q + 2 + d.2.length + i) 0 = (descrBytes (t ++ [(T.LANG, pay)])).getD i 0 := by
        intro i hi
        have := hmem (2 + d.2.length + i) (by omega)
        rw [descrBytes_cons] at this
        rw [show q + 2 + d.2.length + i = q + (2 + d.2.length + i) by omega, this,
          show 2 + d.2.length + i = (d.2.length + i) + 1 + 1 by omega]
        simp only [List.getD_cons_succ]
        rw [List.getD_append_right _ _ _ _ (by omega)]
        congr 1
        omega
      have hwf' : WellFormedDescriptors (t ++ [(T.LANG, pay)]) :=
        fun x hx => hwf x (List.mem_cons_of_mem _ hx)
      rw [extractDescriptorsLoop, if_pos (by omega)]
      dsimp only
      rw [h0, h1, hlen, show q + (2 + d.2.length + (descrBytes (t ++ [(T.LANG, pay)])).length)
        = q + 2 + d.2.length + (descrBytes (t ++ [(T.LANG, pay)])).length by omega]
      by_cases hd : d.1 = T.LANG
      · rw [if_pos hd, setLang_eq _ hl]
        rw [ih (q + 2 + d.2.length) f _ hwf' hrest (by simp at hf; omega) (by simp)]
        simp
      · rw [if_neg hd]
        rw [ih (q + 2 + d.2.length) f info hwf' hrest (by simp at hf; omega) hl]

/-- The descriptors in the entry of a stream: its raw descriptors, then the
language descriptor when the stream has a language code. -/
theorem descBits_roundTrip (T : TSDescriptorTagCodes) (t pid : Nat) (ds : List (Nat × List Nat))
    (a b c : Nat) :
    descBits T false ⟨t, pid, descrBytes ds, (descrBytes ds).length, [a, b, c, 0]⟩
      = bytesToBits (descrBytes (ds ++ if a ≠ 0 then [(T.LANG, [a, b, c, 0])] else [])) := by
  rw [descBits, dataBits_eq_bytesToBits, descrBytes_append, bytesToBits_append]
  congr 1
  by_cases h : a = 0
  · simp [langBits, h, descrBytes, bytesToBits]
  · simp [langBits, h, descrBytes, bytesToBits]

theorem descBits_streamWith (T : TSDescriptorTagCodes) (t pid : Nat) (ds : List (Nat × List Nat)) :
    descBits T false (streamWith t pid ds) = bytesToBits (descrBytes ds) := by
  have hlang : langBits T false (streamWith t pid ds) = [] := by
    simp [langBits, streamWith]
  rw [descBits, hlang, List.append_nil]
  exact dataBits_eq_bytesToBits t pid (descrBytes ds) [0, 0, 0, 0]

theorem streamBits_roundTrip (T : TSDescriptorTagCodes) (t pid : Nat) (ds : List (Nat × List Nat))
    (a b c : Nat) :
    streamBits T false ⟨t, pid, descrBytes ds, (descrBytes ds).length, [a, b, c, 0]⟩
      = streamBits T false (streamWith t pid
          (ds ++ if a ≠ 0 then [(T.LANG, [a, b, c, 0])] else [])) := by
  simp only [streamBits, descBits_roundTrip, descBits_streamWith]
  rfl

/-- One round of the stream loop of `deserialize` on an entry that carries
well-formed descriptors, whatever the map holds already. -/
theorem deserializeLoop_step_insert (E : StreamTypeCodes) (T : TSDescriptorTagCodes)
    (pre R : List Bool) (p : Nat) (hp : pre.length = 8 * p)
    (e : Nat × Nat × List (Nat × List Nat))
    (hpid : e.1 ≤ 0x1FFF) (ht : e.2.1 < 256) (hwf : WellFormedDescriptors e.2.2)
    (hlen : (descrBytes e.2.2).length < 4096)
    (crcPos fuel : Nat) (self : TS_program_map_section)
    (hcrc : p + 5 + (descrBytes e.2.2).length ≤ crcPos) :
    ∃ s' lang, deserializeLoop E T
        (bitsToBytes (pre ++ (streamBits T false (streamWith e.2.1 e.1 e.2.2) ++ R))) crcPos
        (fuel + 1) p self
      = deserializeLoop E T
        (bitsToBytes (pre ++ (streamBits T false (streamWith e.2.1 e.1 e.2.2) ++ R))) crcPos
        fuel (p + 5 + (descrBytes e.2.2).length) s' ∧
      s'.pidList = StdMap.insert e.1 ⟨e.2.1, e.1, [], 0, lang⟩ self.pidList ∧
      ((∀ d ∈ e.2.2, d.1 ≠ T.LANG) → lang = [0, 0, 0, 0]) ∧
      (∀ ds0 pay, e.2.2 = ds0 ++ [(T.LANG, pay)] → 3 ≤ pay.length →
        lang = [pay.getD 0 0, pay.getD 1 0, pay.getD 2 0, 0]) ∧
      s'.program_number = self.program_number ∧ s'.pcr_pid = self.pcr_pid := by
  obtain ⟨pid, t, ds⟩ := e
  simp only at hpid ht hwf hlen hcrc ⊢
  have hbytes := streamBytes_raw T t pid ds R hpid ht hwf hlen
  have hrd : ∀ i, (bitsToBytes (pre ++ (streamBits T false (streamWith t pid ds) ++ R))).getD
      (p + i) 0
      = (t :: (0xE0 + pid / 256) :: (pid % 256) :: (0xF0 + (descrBytes ds).length / 256) ::
        ((descrBytes ds).length % 256) :: (descrBytes ds ++ bitsToBytes R)).getD i 0 := by
    intro i
    rw [getD_bitsToBytes_pre _ _ _ _ hp, hbytes]
  generalize bitsToBytes (pre ++ (streamBits T false (streamWith t pid ds) ++ R)) = mem
    at hrd ⊢
  have r0 := hrd 0
  have r1 := hrd 1
  have r2 := hrd 2
  have r3 := hrd 3
  have r4 := hrd 4
  simp only [List.getD_cons_zero, List.getD_cons_succ, Nat.add_zero] at r0 r1 r2 r3 r4
  have hpidv : ((0xE0 + pid / 256) <<< 8 ||| pid % 256) &&& 0x1fff = pid := by
    rw [or_shift8 _ _ (by omega), and_mask13]; omega
  have hlenv : ((0xF0 + (descrBytes ds).length / 256) <<< 8 ||| (descrBytes ds).length % 256)
      &&& 0xfff = (descrBytes ds).length := by
    rw [or_shift8 _ _ (by omega), and_mask12]; omega
  have hcond : p < crcPos := by omega
  rw [deserializeLoop, if_pos hcond]
  simp only [get16, r0, show p + 1 + 1 = p + 2 from rfl, r1, r2, hpidv,
    show p + 1 + 2 = p + 3 from rfl, show p + 3 + 1 = p + 4 from rfl, r3, r4, hlenv,
    show p + 3 + 2 = p + 5 from rfl]
  have hnot : ¬ (p + 5 + (descrBytes ds).length > crcPos) := by omega
  rw [if_neg hnot]
  have hmem : ∀ i < (descrBytes ds).length, mem.getD (p + 5 + i) 0 = (descrBytes ds).getD i 0 := by
    intro i hi
    rw [Nat.add_assoc, hrd (5 + i), show 5 + i = i + 1 + 1 + 1 + 1 + 1 by omega]
    simp only [List.getD_cons_succ]
    rw [List.getD_append _ _ _ _ hi]
  have hfuel : ds.length ≤ (descrBytes ds).length := by
    have := descrBytes_length_ge ds; omega
  obtain ⟨lang, hex, hl4, hno, h3⟩ := extractDescriptorsLoop_walk T mem ds (p + 5)
    (descrBytes ds).length (PMTStreamInfo.create t pid) hwf hmem hfuel
    (by simp [PMTStreamInfo.create])
  refine ⟨_, lang, rfl, ?_, ?_, ?_, ?_, ?_⟩
  · simp only [extractDescriptors, hex, deserializeSwitch_pidList]
    rfl
  · intro h
    simpa [PMTStreamInfo.create] using hno h
  · intro ds0 pay hds hpay
    subst hds
    have hfuel2 : ds0.length + 1 ≤ (descrBytes (ds0 ++ [(T.LANG, pay)])).length := by
      have := descrBytes_length_ge (ds0 ++ [(T.LANG, pay)])
      simp only [List.length_append, List.length_singleton] at this
      omega
    have := extractDescriptorsLoop_walk_last T mem pay hpay ds0 (p + 5)
      (descrBytes (ds0 ++ [(T.LANG, pay)])).length (PMTStreamInfo.create t pid) hwf hmem hfuel2
      (by simp [PMTStreamInfo.create])
    rw [hex] at this
    have h2 := congrArg PMTStreamInfo.m_lang this
    simpa [PMTStreamInfo.create] using h2
  · simp only [deserializeSwitch_program_number]
  · simp only [deserializeSwitch_pcr_pid]

/-- One round of the stream loop of `deserialize` on the entry of a stream of
the table. -/
theorem deserializeLoop_step_roundTrip (E : StreamTypeCodes) (T : TSDescriptorTagCodes)
    (hT : T.LANG < 256)
    (pre R : List Bool) (p : Nat) (hp : pre.length = 8 * p)
    (e : Nat × PMTStreamInfo) (hv : RoundTripStream T e.1 e.2)
    (hlen : (streamBits T false e.2).length / 8 < 4096)
    (crcPos fuel : Nat) (self : TS_program_map_section)
    (hcrc : p + (streamBits T false e.2).length / 8 ≤ crcPos) :
    ∃ s', deserializeLoop E T (bitsToBytes (pre ++ (streamBits T false e.2 ++ R))) crcPos
        (fuel + 1) p self
      = deserializeLoop E T (bitsToBytes (pre ++ (streamBits T false e.2 ++ R))) crcPos
        fuel (p + (streamBits T false e.2).length / 8) s' ∧
      s'.pidList = StdMap.insert e.1 (readBack e.2) self.pidList ∧
      s'.program_number = self.program_number ∧ s'.pcr_pid = self.pcr_pid := by
  obtain ⟨k, si⟩ := e
  obtain ⟨t, pid, data, len, lang⟩ := si
  obtain ⟨h1, h2, h3, h4, ⟨ds, hwf, hds, hnl⟩, a, b, c, h6, ha, hb, hc, h0⟩ := hv
  simp only at h1 h2 h3 h4 hds hnl h6 hcrc hlen ⊢
  subst h1 h4 h6 hds
  rw [streamBits_roundTrip] at hcrc hlen ⊢
  have hwf2 : WellFormedDescriptors (ds ++ if a ≠ 0 then [(T.LANG, [a, b, c, 0])] else []) := by
    intro d hd
    rw [List.mem_append] at hd
    rcases hd with hd | hd
    · exact hwf d hd
    · split at hd
      · simp only [List.mem_singleton] at hd
        subst hd
        refine ⟨hT, by simp, ?_⟩
        intro x hx
        simp only [List.mem_cons, List.mem_singleton, List.not_mem_nil, or_false] at hx
        rcases hx with hx | hx | hx | hx <;> omega
      · simp at hd
  have hl2 := streamBits_streamWith_length T t pid
    (ds ++ if a ≠ 0 then [(T.LANG, [a, b, c, 0])] else [])
  rw [hl2] at hcrc hlen ⊢
  have hdiv : (40 + 8 * (descrBytes (ds ++ if a ≠ 0 then [(T.LANG, [a, b, c, 0])] else [])).length) / 8
      = 5 + (descrBytes (ds ++ if a ≠ 0 then [(T.LANG, [a, b, c, 0])] else [])).length := by
    omega
  rw [hdiv] at hcrc hlen ⊢
  obtain ⟨s', lang, hs, hpl, hno, hlast, hn, hc'⟩ := deserializeLoop_step_insert E T pre R p hp
    (pid, t, ds ++ if a ≠ 0 then [(T.LANG, [a, b, c, 0])] else []) h2 h3 hwf2 (by simp only; omega)
    crcPos fuel self (by simp only; omega)
  simp only at hs hpl hno hlast
  refine ⟨s', by rw [hs, Nat.add_assoc], ?_, hn, hc'⟩
  rw [hpl]
  congr 1
  simp only [readBack]
  congr 1
  by_cases h : a = 0
  · obtain ⟨hb0, hc0⟩ := h0 h
    subst h hb0 hc0
    apply hno
    intro d hd
    simp only [ne_eq, not_true_eq_false, if_false, List.append_nil] at hd
    exact hnl (by simp) d hd
  · have := hlast ds [a, b, c, 0] (by simp [h]) (by simp)
    simpa using this

theorem streamBits_le_of_mem (T : TSDescriptorTagCodes) (l : List (Nat × PMTStreamInfo))
    (e : Nat × PMTStreamInfo) (he : e ∈ l) :
    (streamBits T false e.2).length ≤ (l.flatMap (fun e => streamBits T false e.2)).length := by
  induction l with
  | nil => simp at he
  | cons x t ih =>
      simp only [List.flatMap_cons, List.length_append]
      rcases List.mem_cons.mp he with h | h
      · subst h; omega
      · have := ih h; omega

/-- The stream loop of `deserialize` over the entries of streams of a table:
every entry is assigned to the map under its PID. -/
theorem deserializeLoop_streams_insert (E : StreamTypeCodes) (T : TSDescriptorTagCodes)
    (hT : T.LANG < 256) (l : List (Nat × PMTStreamInfo)) :
    ∀ (pre R : List Bool) (p : Nat) (self : TS_program_map_section) (fuel : Nat),
      pre.length = 8 * p → (∀ e ∈ l, RoundTripStream T e.1 e.2) →
      (l.flatMap (fun e => streamBits T false e.2)).length / 8 < 4096 → l.length ≤ fuel →
      ∃ s', deserializeLoop E T
          (bitsToBytes (pre ++ (l.flatMap (fun e => streamBits T false e.2) ++ R)))
          (p + (l.flatMap (fun e => streamBits T false e.2)).length / 8) fuel p self
        = (true, p + (l.flatMap (fun e => streamBits T false e.2)).length / 8, s') ∧
        s'.pidList = l.foldl (fun m e => StdMap.insert e.1 (readBack e.2) m) self.pidList ∧
        s'.program_number = self.program_number ∧ s'.pcr_pid = self.pcr_pid := by
  induction l with
  | nil =>
      intro pre R p self fuel _ _ _ _
      refine ⟨self, ?_, by simp, rfl, rfl⟩
      cases fuel <;> simp [deserializeLoop]
  | cons e t ih =>
      intro pre R p self fuel hp hv hsz hf
      obtain ⟨f, rfl⟩ : ∃ f, fuel = f + 1 := ⟨fuel - 1, by simp at hf; omega⟩
      have hl := streamBits_length T false e.2
      have hd := descBits_length_mod T false e.2
      have hm := streamsBits_length_mod T false t
      have hsplit : p + ((e :: t).flatMap (fun e => streamBits T false e.2)).length / 8
          = p + (streamBits T false e.2).length / 8
            + (t.flatMap (fun e => streamBits T false e.2)).length / 8 := by
        simp only [List.flatMap_cons, List.length_append]; omega
      have hsz1 : (streamBits T false e.2).length / 8 < 4096 := by
        simp only [List.flatMap_cons, List.length_append] at hsz; omega
      have hsz2 : (t.flatMap (fun e => streamBits T false e.2)).length / 8 < 4096 := by
        simp only [List.flatMap_cons, List.length_append] at hsz; omega
      obtain ⟨s1, h1, h1a, h1b, h1c⟩ := deserializeLoop_step_roundTrip E T hT pre
        (t.flatMap (fun e => streamBits T false e.2) ++ R) p hp e
        (hv e (List.mem_cons_self _ _)) hsz1
        (p + ((e :: t).flatMap (fun e => streamBits T false e.2)).length / 8) f self
        (by rw [hsplit]; omega)
      obtain ⟨s2, h2, h2a, h2b, h2c⟩ := ih (pre ++ streamBits T false e.2) R
        (p + (streamBits T false e.2).length / 8) s1 f
        (by simp only [List.length_append, hp]; omega)
        (fun x hx => hv x (List.mem_cons_of_mem _ hx)) hsz2 (by simp at hf; omega)
      refine ⟨s2, ?_, by rw [h2a, h1a]; rfl, by rw [h2b, h1b], by rw [h2c, h1c]⟩
      simp only [List.flatMap_cons, List.append_assoc] at h1 h2 hsplit ⊢
      rw [h1, hsplit, h2]

theorem shortcutEntry_eq (T : TSDescriptorTagCodes) (ty pid : Nat) :
    natBits 8 ty ++ (natBits 3 7 ++ (natBits 13 pid ++ (natBits 4 15 ++ natBits 12 0)))
      = streamBits T false (PMTStreamInfo.create (ty % 256) pid) := by
  have h1 : natBits 8 (ty % 256) = natBits 8 ty := natBits_congr 8 _ _ (Nat.mod_mod _ _)
  have h2 : natBits 16 ((0xf000 + 0) % 2 ^ 16) = natBits 4 15 ++ natBits 12 0 :=
    natBits16_split 15 0 (by norm_num) (by norm_num)
  simp only [streamBits, descBits, dataBits, langBits, PMTStreamInfo.create, List.range_zero,
    List.flatMap_nil, List.nil_append, List.getD_cons_zero, ne_eq, not_true_eq_false,
    false_and, if_false, List.length_nil, Nat.zero_div, List.append_nil, h1, h2]

theorem ite_singleton_flatMap {α β : Type} (c : Prop) [Decidable c] (x : α) (f : α → List β) :
    (if c then [x] else []).flatMap f = if c then f x else [] := by
  split <;> simp

theorem shortcutBits_eq_streams (E : StreamTypeCodes) (T : TSDescriptorTagCodes)
    (self : TS_program_map_section) :
    shortcutBits E self
      = (shortcutStreams E self).flatMap (fun e => streamBits T false e.2) := by
  have h1 := shortcutEntry_eq T (self.video_type % 2 ^ 32).toNat self.video_pid
  have h2 := shortcutEntry_eq T (self.audio_type % 2 ^ 32).toNat self.audio_pid
  have h3 := shortcutEntry_eq T (E.SUB_DVB % 256) self.sub_pid
  rw [Nat.mod_mod] at h3
  rw [shortcutBits, shortcutStreams, List.flatMap_append, List.flatMap_append,
    ite_singleton_flatMap, ite_singleton_flatMap, ite_singleton_flatMap, h1, h2, h3]

end TS_program_map_section

namespace TS_program_map_section

open BitStreamWriter

theorem shortcutStreams_roundTrip (E : StreamTypeCodes) (T : TSDescriptorTagCodes)
    (pmt : TS_program_map_section)
    (hv : pmt.video_pid = 0 ∨ ∃ e ∈ pmt.pidList, e.1 = pmt.video_pid)
    (ha : pmt.audio_pid = 0 ∨ ∃ e ∈ pmt.pidList, e.1 = pmt.audio_pid)
    (hs : pmt.sub_pid = 0 ∨ ∃ e ∈ pmt.pidList, e.1 = pmt.sub_pid)
    (hval : ∀ e ∈ pmt.pidList, RoundTripStream T e.1 e.2) :
    (∀ e ∈ shortcutStreams E pmt, RoundTripStream T e.1 e.2) ∧
    ∀ x ∈ (shortcutStreams E pmt).map Prod.fst, x ∈ pmt.pidList.map Prod.fst := by
  have key : ∀ ty pid : Nat, pid ≠ 0 → (pid = 0 ∨ ∃ e ∈ pmt.pidList, e.1 = pid) →
      RoundTripStream T pid (PMTStreamInfo.create (ty % 256) pid) ∧
        pid ∈ pmt.pidList.map Prod.fst := by
    intro ty pid h0 h
    rcases h with h | ⟨e, he, h⟩
    · exact absurd h h0
    · subst h
      refine ⟨⟨rfl, (hval e he).2.1, Nat.mod_lt _ (by norm_num), rfl,
        ⟨[], by simp [WellFormedDescriptors], rfl, by simp⟩,
        0, 0, 0, rfl, by norm_num, by norm_num, by norm_num, fun _ => ⟨rfl, rfl⟩⟩,
        List.mem_map_of_mem _ he⟩
  have k3 : ∀ pid : Nat, pid ≠ 0 → (pid = 0 ∨ ∃ e ∈ pmt.pidList, e.1 = pid) →
      RoundTripStream T pid (PMTStreamInfo.create (E.SUB_DVB % 256) pid) ∧
        pid ∈ pmt.pidList.map Prod.fst := by
    intro pid h0 h
    have := key (E.SUB_DVB % 256) pid h0 h
    rwa [Nat.mod_mod] at this
  constructor
  · intro e he
    simp only [shortcutStreams, List.mem_append] at he
    rcases he with he | he | he
    · split at he
      · rename_i h0
        simp only [List.mem_singleton] at he
        subst he
        exact (key _ _ h0 hv).1
      · simp at he
    · split at he
      · rename_i h0
        simp only [List.mem_singleton] at he
        subst he
        exact (key _ _ h0 ha).1
      · simp at he
    · split at he
      · rename_i h0
        simp only [List.mem_singleton] at he
        subst he
        exact (k3 _ h0 hs).1
      · simp at he
  · intro x hx
    simp only [shortcutStreams, List.map_append, List.mem_append] at hx
    rcases hx with he | he | he
    · split at he
      · rename_i h0
        simp only [List.map_cons, List.map_nil, List.mem_singleton] at he
        subst he
        exact (key 0 _ h0 hv).2
      · simp at he
    · split at he
      · rename_i h0
        simp only [List.map_cons, List.map_nil, List.mem_singleton] at he
        subst he
        exact (key 0 _ h0 ha).2
      · simp at he
    · split at he
      · rename_i h0
        simp only [List.map_cons, List.map_nil, List.mem_singleton] at he
        subst he
        exact (k3 _ h0 hs).2
      · simp at he

/-- The map after the stream loop of `deserialize` has assigned the entries
for `video_pid`, `audio_pid` and `sub_pid` and then the entries of the streams:
the later assignments replace the earlier ones. -/
theorem foldl_insert_shortcuts (S L : List (Nat × PMTStreamInfo)) (hord : StdMap.Ordered L)
    (hS : ∀ x ∈ S.map Prod.fst, x ∈ L.map Prod.fst) :
    (S ++ L).foldl (fun m e => StdMap.insert e.1 (readBack e.2) m) []
      = L.map (fun e => (e.1, readBack e.2)) := by
  have hmap : ∀ (l : List (Nat × PMTStreamInfo)) (m : List (Nat × PMTStreamInfo)),
      l.foldl (fun m e => StdMap.insert e.1 (readBack e.2) m) m
        = (l.map (fun e => (e.1, readBack e.2))).foldl (fun m e => StdMap.insert e.1 e.2 m) m := by
    intro l m
    rw [List.foldl_map]
  have hkeys : ∀ l : List (Nat × PMTStreamInfo),
      (l.map (fun e => (e.1, readBack e.2))).map Prod.fst = l.map Prod.fst := by
    intro l
    simp [List.map_map, Function.comp_def]
  rw [List.foldl_append, hmap L, hmap S]
  apply StdMap.foldl_insert_eq
  · rw [StdMap.Ordered, hkeys]; exact hord
  · exact StdMap.foldl_insert_ordered _ _ (by simp [StdMap.Ordered])
  · intro x hx
    rw [hkeys]
    rcases StdMap.foldl_insert_keys _ _ x hx with h | h
    · rw [hkeys] at h; exact hS x h
    · simp at h

end TS_program_map_section

namespace MPLSParser

open BitStreamWriter

theorem pipEntryBits_length (M : PIPMethods) (self : MPLSParser) (pmtIndexList : List PMTIndex)
    (mainHSize mainVSize : Nat) (i : Nat) (pipStream : MPLSStreamInfo) :
    (pipEntryBits M self pmtIndexList mainHSize mainVSize i pipStream).length = 80 := by
  simp [pipEntryBits]

/-- The first loop of `composePip_metadata`, from any state. -/
theorem pipStreams_fold_from (E : StreamTypeCodes) (l : List MPLSStreamInfo) :
    ∀ (acc : List MPLSStreamInfo) (v h : Nat),
    l.foldl
      (fun (st : List MPLSStreamInfo × Nat × Nat) si =>
        let (pipStreams, mainVSize, mainHSize) := st
        let stream_coding_type := si.stream_coding_type
        if isVideoStreamType E stream_coding_type then
          if si.isSecondary then (pipStreams ++ [si], mainVSize, mainHSize)
          else (pipStreams, si.height, si.width)
        else st)
      (acc, v, h)
    = (acc ++ l.filter (fun si : MPLSStreamInfo =>
          isVideoStreamType E si.stream_coding_type && si.isSecondary),
        (match (l.filter (fun si : MPLSStreamInfo =>
              isVideoStreamType E si.stream_coding_type && !si.isSecondary)).getLast? with
          | some si => (si.width, si.height)
          | none => (h, v)).2,
        (match (l.filter (fun si : MPLSStreamInfo =>
              isVideoStreamType E si.stream_coding_type && !si.isSecondary)).getLast? with
          | some si => (si.width, si.height)
          | none => (h, v)).1) := by
  induction l with
  | nil => intro acc v h; simp
  | cons x t ih =>
      intro acc v h
      rw [List.foldl_cons]
      by_cases hv : isVideoStreamType E x.stream_coding_type = true
      · by_cases hs : x.isSecondary = true
        · simp only [hv, hs, if_true, ih, List.filter_cons, Bool.and_self, Bool.not_true,
            Bool.and_false, Bool.false_eq_true, if_false, List.append_assoc, List.singleton_append]
        · simp only [Bool.not_eq_true] at hs
          simp only [hv, hs, if_true, ih, List.filter_cons, Bool.and_false, Bool.false_eq_true,
            if_false, Bool.not_false, Bool.and_self, List.getLast?_cons]
          cases (t.filter (fun si : MPLSStreamInfo =>
              isVideoStreamType E si.stream_coding_type && !si.isSecondary)).getLast? <;> rfl
      · simp only [Bool.not_eq_true] at hv
        simp only [hv, Bool.false_eq_true, if_false, ih, List.filter_cons, Bool.false_and]

/-- The first loop of `composePip_metadata`. -/
theorem pipStreams_fold (E : StreamTypeCodes) (self : MPLSParser) :
    self.m_streamInfo.foldl
      (fun (st : List MPLSStreamInfo × Nat × Nat) si =>
        let (pipStreams, mainVSize, mainHSize) := st
        let stream_coding_type := si.stream_coding_type
        if isVideoStreamType E stream_coding_type then
          if si.isSecondary then (pipStreams ++ [si], mainVSize, mainHSize)
          else (pipStreams, si.height, si.width)
        else st)
      (([] : List MPLSStreamInfo), 0, 0)
    = (pipStreamsOf E self, (mainSizeOf E self).2, (mainSizeOf E self).1) := by
  rw [pipStreams_fold_from]
  rfl

/-- One block header: 112 bits; the address recorded lies inside the header. -/
theorem pipHeader_inner (i : Nat) (L : List (Nat × MPLSStreamInfo)) :
    ∀ hd : BitStreamWriter × List Nat,
      (∀ a ∈ hd.2, 8 * a + 32 ≤ hd.1.length) → hd.1.length % 8 = 0 →
      ((L.foldl
        (fun (hd : BitStreamWriter × List Nat) (e : Nat × MPLSStreamInfo) =>
          let (writer, blockDataAddressPos) := hd
          let k := e.1
          let pipParams := e.2.pipParams
          let writer := putBits writer 16 i
          let writer := putBits writer 8 k
          let writer := putBits writer 8 0
          let writer := putBits writer 4 (if pipParams.lumma ≥ 0 then 1 else 0)
          let writer := putBit writer 1
          let writer := putBit writer 1
          let writer := putBits writer 10 0
          let writer := putBits writer 8 0
          let writer :=
            if pipParams.lumma ≥ 0 then
              putBits writer 8 pipParams.lumma.toNat
            else putBits writer 8 0
          let writer := putBits writer 16 0
          let blockDataAddressPos := blockDataAddressPos ++ [getBitsCount writer / 8]
          let writer := putBits writer 32 0
          (writer, blockDataAddressPos))
        hd).1.length = hd.1.length + 112 * L.length) ∧
      (∀ a ∈ (L.foldl
        (fun (hd : BitStreamWriter × List Nat) (e : Nat × MPLSStreamInfo) =>
          let (writer, blockDataAddressPos) := hd
          let k := e.1
          let pipParams := e.2.pipParams
          let writer := putBits writer 16 i
          let writer := putBits writer 8 k
          let writer := putBits writer 8 0
          let writer := putBits writer 4 (if pipParams.lumma ≥ 0 then 1 else 0)
          let writer := putBit writer 1
          let writer := putBit writer 1
          let writer := putBits writer 10 0
          let writer := putBits writer 8 0
          let writer :=
            if pipParams.lumma ≥ 0 then
              putBits writer 8 pipParams.lumma.toNat
            else putBits writer 8 0
          let writer := putBits writer 16 0
          let blockDataAddressPos := blockDataAddressPos ++ [getBitsCount writer / 8]
          let writer := putBits writer 32 0
          (writer, blockDataAddressPos))
        hd).2, 8 * a + 32 ≤ hd.1.length + 112 * L.length) := by
  induction L with
  | nil => intro hd h _; exact ⟨by simp, by simpa using h⟩
  | cons e t ih =>
      intro hd h h8
      obtain ⟨w, ad⟩ := hd
      simp only [List.foldl_cons]
      simp only at h h8
      obtain ⟨r1, r2⟩ := ih
        ((putBits (putBits (if e.2.pipParams.lumma ≥ 0 then
            putBits (putBits (putBits (putBit (putBit (putBits (putBits (putBits (putBits w 16 i)
              8 e.1) 8 0) 4 (if e.2.pipParams.lumma ≥ 0 then 1 else 0)) 1) 1) 10 0) 8 0) 8
              e.2.pipParams.lumma.toNat
          else putBits (putBits (putBits (putBit (putBit (putBits (putBits (putBits (putBits w 16 i)
              8 e.1) 8 0) 4 (if e.2.pipParams.lumma ≥ 0 then 1 else 0)) 1) 1) 10 0) 8 0) 8 0)
            16 0) 32 0),
          ad ++ [getBitsCount (putBits (if e.2.pipParams.lumma ≥ 0 then
            putBits (putBits (putBits (putBit (putBit (putBits (putBits (putBits (putBits w 16 i)
              8 e.1) 8 0) 4 (if e.2.pipParams.lumma ≥ 0 then 1 else 0)) 1) 1) 10 0) 8 0) 8
              e.2.pipParams.lumma.toNat
          else putBits (putBits (putBits (putBit (putBit (putBits (putBits (putBits (putBits w 16 i)
              8 e.1) 8 0) 4 (if e.2.pipParams.lumma ≥ 0 then 1 else 0)) 1) 1) 10 0) 8 0) 8 0)
            16 0) / 8])
        (by
          intro a ha
          simp only [List.mem_append, List.mem_singleton] at ha
          rcases ha with ha | ha
          · have := h a ha
            split <;> simp [putBits, putBit] <;> omega
          · subst ha
            split <;> simp [putBits, putBit, getBitsCount] <;> omega)
        (by
          split <;> simp only [putBits, putBit, List.length_append, natBits_length] <;> omega)
      have hl : (putBits (putBits (if e.2.pipParams.lumma ≥ 0 then
            putBits (putBits (putBits (putBit (putBit (putBits (putBits (putBits (putBits w 16 i)
              8 e.1) 8 0) 4 (if e.2.pipParams.lumma ≥ 0 then 1 else 0)) 1) 1) 10 0) 8 0) 8
              e.2.pipParams.lumma.toNat
          else putBits (putBits (putBits (putBit (putBit (putBits (putBits (putBits (putBits w 16 i)
              8 e.1) 8 0) 4 (if e.2.pipParams.lumma ≥ 0 then 1 else 0)) 1) 1) 10 0) 8 0) 8 0)
            16 0) 32 0).length = w.length + 112 := by
        split <;> simp only [putBits, putBit, List.length_append, natBits_length]
      simp only [hl] at r1 r2
      simp only [List.length_cons]
      refine ⟨by rw [r1]; omega, ?_⟩
      intro a ha
      have := r2 a ha
      omega

end MPLSParser

theorem drop_flatMap_const {α β : Type} (f : α → List β) (c : Nat) (l : List α) :
    ∀ j : Nat, (∀ x ∈ l, (f x).length = c) →
      (l.flatMap f).drop (c * j) = (l.drop j).flatMap f := by
  induction l with
  | nil => intro j _; simp
  | cons x t ih =>
      intro j h
      cases j with
      | zero => simp
      | succ j =>
          have hx := h x (List.mem_cons_self _ _)
          rw [List.flatMap_cons, List.drop_succ_cons, Nat.mul_succ,
            show c * j + c = (f x).length + c * j by omega, ← List.drop_drop,
            List.drop_left]
          exact ih j (fun y hy => h y (List.mem_cons_of_mem _ hy))

theorem length_flatMap_const {α β : Type} (f : α → List β) (c : Nat) (l : List α)
    (h : ∀ x ∈ l, (f x).length = c) : (l.flatMap f).length = c * l.length := by
  induction l with
  | nil => simp
  | cons x t ih =>
      rw [List.flatMap_cons, List.length_append, h x (List.mem_cons_self _ _),
        ih (fun y hy => h y (List.mem_cons_of_mem _ hy)), List.length_cons, Nat.mul_succ]
      omega

theorem flatMap_enumFrom_snd {α β : Type} (f : α → List β) (l : List α) :
    ∀ s : Nat, (l.enumFrom s).flatMap (fun e => f e.2) = l.flatMap f := by
  induction l with
  | nil => intro s; rfl
  | cons x t ih => intro s; simp [List.enumFrom, ih]

namespace BitStreamWriter

theorem store_append_left (P X : List Bool) (pos k v : Nat) (h : 8 * pos + 8 * k ≤ P.length) :
    store (P ++ X) pos k v = store P pos k v ++ X := by
  simp only [store, List.append_assoc]
  rw [List.take_append_of_le_length (by omega), List.drop_append_of_le_length (by omega)]

end BitStreamWriter

namespace MPLSParser

open BitStreamWriter

/-- The entries of one play item: they follow what is written, and only the
part of the writer that holds the addresses changes. -/
theorem pipEntries_inner (M : PIPMethods) (self : MPLSParser) (pmtIndexList : List PMTIndex)
    (mainHSize mainVSize : Nat) (i : Nat) (addr : Nat → Nat) (L : List (Nat × MPLSStreamInfo)) :
    ∀ P X : List Bool, (∀ k, 8 * addr k + 32 ≤ P.length) → P.length % 16 = 0 →
      X.length % 16 = 0 →
      ∃ P', P'.length = P.length ∧
        L.foldl (fun writer (e : Nat × MPLSStreamInfo) =>
            composePip_entry M self pmtIndexList mainHSize mainVSize writer i e.2 (addr e.1))
          (P ++ X)
        = P' ++ (X ++ L.flatMap
            (fun e => pipEntryBits M self pmtIndexList mainHSize mainVSize i e.2)) := by
  induction L with
  | nil => intro P X _ _ _; exact ⟨P, rfl, by simp⟩
  | cons e t ih =>
      intro P X ha hP hX
      have h1 := composePip_entry_eq M self pmtIndexList mainHSize mainVSize (P ++ X) i e.2
        (addr e.1) (by rw [List.length_append]; omega)
        (by rw [List.length_append]; have := ha e.1; omega)
      have hl := store_length P (addr e.1) 4 ((getBitsCount (P ++ X) / 8) % 2 ^ 32)
        (by have := ha e.1; omega)
      rw [store_append_left _ _ _ _ _ (by have := ha e.1; omega)] at h1
      obtain ⟨P', hP', h2⟩ := ih (store P (addr e.1) 4 ((getBitsCount (P ++ X) / 8) % 2 ^ 32))
        (X ++ pipEntryBits M self pmtIndexList mainHSize mainVSize i e.2)
        (by intro k; rw [hl]; exact ha k) (by rw [hl]; exact hP)
        (by rw [List.length_append, pipEntryBits_length]; omega)
      refine ⟨P', by rw [hP', hl], ?_⟩
      rw [List.foldl_cons, h1]
      have : store P (addr e.1) 4 ((getBitsCount (P ++ X) / 8) % 2 ^ 32) ++ X ++
          (natBits 16 1 ++ natBits 32 (pipEntryTime self pmtIndexList i)) ++
          (natBits 12 (pipPosition M mainHSize mainVSize e.2).1 ++
            natBits 12 (pipPosition M mainHSize mainVSize e.2).2 ++
            natBits 4 e.2.pipParams.scaleIndex ++ natBits 4 0)
          = store P (addr e.1) 4 ((getBitsCount (P ++ X) / 8) % 2 ^ 32) ++
            (X ++ pipEntryBits M self pmtIndexList mainHSize mainVSize i e.2) := by
        simp only [pipEntryBits, List.append_assoc]
      rw [this, h2]
      simp only [List.flatMap_cons, List.append_assoc]

/-- The second loop nest of `composePip_metadata`. -/
theorem pipEntries_outer (M : PIPMethods) (self : MPLSParser) (pmtIndexList : List PMTIndex)
    (mainHSize mainVSize : Nat) (pipStreams : List MPLSStreamInfo) (addr : Nat → Nat → Nat)
    (I : List Nat) :
    ∀ P X : List Bool, (∀ i k, 8 * addr i k + 32 ≤ P.length) → P.length % 16 = 0 →
      X.length % 16 = 0 →
      ∃ P', P'.length = P.length ∧
        I.foldl (fun writer i =>
            pipStreams.enum.foldl (fun writer (e : Nat × MPLSStreamInfo) =>
              composePip_entry M self pmtIndexList mainHSize mainVSize writer i e.2 (addr i e.1))
            writer)
          (P ++ X)
        = P' ++ (X ++ I.flatMap (fun i => pipStreams.flatMap
            (pipEntryBits M self pmtIndexList mainHSize mainVSize i))) := by
  induction I with
  | nil => intro P X _ _ _; exact ⟨P, rfl, by simp⟩
  | cons i t ih =>
      intro P X ha hP hX
      obtain ⟨P1, hP1, h1⟩ := pipEntries_inner M self pmtIndexList mainHSize mainVSize i (addr i)
        pipStreams.enum P X (ha i) hP hX
      rw [show pipStreams.enum = pipStreams.enumFrom 0 from rfl, flatMap_enumFrom_snd
        (pipEntryBits M self pmtIndexList mainHSize mainVSize i)] at h1
      have hlen : (pipStreams.flatMap
          (pipEntryBits M self pmtIndexList mainHSize mainVSize i)).length
            = 80 * pipStreams.length :=
        length_flatMap_const _ 80 _ (fun x _ => pipEntryBits_length _ _ _ _ _ _ x)
      obtain ⟨P2, hP2, h2⟩ := ih P1
        (X ++ pipStreams.flatMap (pipEntryBits M self pmtIndexList mainHSize mainVSize i))
        (by intro i k; rw [hP1]; exact ha i k) (by rw [hP1]; exact hP)
        (by rw [List.length_append, hlen]; omega)
      refine ⟨P2, by rw [hP2, hP1], ?_⟩
      rw [List.foldl_cons]
      change List.foldl _ (List.foldl _ (P ++ X) (List.enumFrom 0 pipStreams)) t = _
      rw [h1]
      exact h2.trans (by simp only [List.flatMap_cons, List.append_assoc])

/-- The first loop nest of `composePip_metadata`: 112 bits for every play
item and PIP stream, and every address recorded lies inside them. -/
theorem pipHeader_outer (L : List (Nat × MPLSStreamInfo)) (I : List Nat) :
    ∀ hd : BitStreamWriter × List Nat,
      (∀ a ∈ hd.2, 8 * a + 32 ≤ hd.1.length) → hd.1.length % 8 = 0 →
      ((I.foldl
        (fun (hd : BitStreamWriter × List Nat) i =>
          L.foldl
            (fun (hd : BitStreamWriter × List Nat) (e : Nat × MPLSStreamInfo) =>
              let (writer, blockDataAddressPos) := hd
              let k := e.1
              let pipParams := e.2.pipParams
              let writer := putBits writer 16 i
              let writer := putBits writer 8 k
              let writer := putBits writer 8 0
              let writer := putBits writer 4 (if pipParams.lumma ≥ 0 then 1 else 0)
              let writer := putBit writer 1
              let writer := putBit writer 1
              let writer := putBits writer 10 0
              let writer := putBits writer 8 0
              let writer :=
                if pipParams.lumma ≥ 0 then
                  putBits writer 8 pipParams.lumma.toNat
                else putBits writer 8 0
              let writer := putBits writer 16 0
              let blockDataAddressPos := blockDataAddressPos ++ [getBitsCount writer / 8]
              let writer := putBits writer 32 0
              (writer, blockDataAddressPos))
            hd)
        hd).1.length = hd.1.length + 112 * (I.length * L.length)) ∧
      (∀ a ∈ (I.foldl
        (fun (hd : BitStreamWriter × List Nat) i =>
          L.foldl
            (fun (hd : BitStreamWriter × List Nat) (e : Nat × MPLSStreamInfo) =>
              let (writer, blockDataAddressPos) := hd
              let k := e.1
              let pipParams := e.2.pipParams
              let writer := putBits writer 16 i
              let writer := putBits writer 8 k
              let writer := putBits writer 8 0
              let writer := putBits writer 4 (if pipParams.lumma ≥ 0 then 1 else 0)
              let writer := putBit writer 1
              let writer := putBit writer 1
              let writer := putBits writer 10 0
              let writer := putBits writer 8 0
              let writer :=
                if pipParams.lumma ≥ 0 then
                  putBits writer 8 pipParams.lumma.toNat
                else putBits writer 8 0
              let writer := putBits writer 16 0
              let blockDataAddressPos := blockDataAddressPos ++ [getBitsCount writer / 8]
              let writer := putBits writer 32 0
              (writer, blockDataAddressPos))
            hd)
        hd).2, 8 * a + 32 ≤ hd.1.length + 112 * (I.length * L.length)) := by
  induction I with
  | nil => intro hd h _; exact ⟨by simp, by simpa using h⟩
  | cons i t ih =>
      intro hd h h8
      obtain ⟨r1, r2⟩ := pipHeader_inner i L hd h h8
      rw [List.foldl_cons]
      obtain ⟨s1, s2⟩ := ih _ (by intro a ha; rw [r1]; exact r2 a ha) (by rw [r1]; omega)
      rw [r1] at s1 s2
      have : hd.1.length + 112 * L.length + 112 * (t.length * L.length)
          = hd.1.length + 112 * ((i :: t).length * L.length) := by
        rw [List.length_cons, Nat.add_mul, Nat.one_mul]
        omega
      rw [this] at s1 s2
      exact ⟨s1, s2⟩

open BitStreamWriter

theorem getD_bound (l : List Nat) (b : Nat) (h : ∀ a ∈ l, 8 * a + 32 ≤ b) (h0 : 32 ≤ b)
    (j : Nat) : 8 * l.getD j 0 + 32 ≤ b := by
  rw [List.getD_eq_getElem?_getD]
  cases hj : l[j]? with
  | none => simpa using h0
  | some a =>
      have : a ∈ l := List.mem_iff_getElem?.mpr ⟨j, hj⟩
      simpa using h a this

/-- The buffer `composePip_metadata` fills: the length, the count and the block
headers (112 bits for every play item and PIP stream), then the entries, for
each play item one for every PIP stream. -/
theorem composePip_metadata_bits (E : StreamTypeCodes) (M : PIPMethods) (self : MPLSParser)
    (pmtIndexList : List PMTIndex) (hn : pmtIndexList.length < 2 ^ 32)
    (hm : (pipStreamsOf E self).length < 2 ^ 32) :
    ∃ P : List Bool,
      P.length = 48 + 112 * (pmtIndexList.length * (pipStreamsOf E self).length) ∧
      (composePip_metadata E M self pmtIndexList).1
        = bitsToBytes (P ++ (List.range pmtIndexList.length).flatMap
            (fun i => (pipStreamsOf E self).flatMap
              (pipEntryBits M self pmtIndexList (mainSizeOf E self).1 (mainSizeOf E self).2 i))) := by
  unfold composePip_metadata
  rw [pipStreams_fold]
  obtain ⟨r1, r2⟩ := pipHeader_outer (pipStreamsOf E self).enum (List.range pmtIndexList.length)
    (putBits (putBits BitStreamWriter.setBuffer 32 0) 16
      (((pipStreamsOf E self).length * pmtIndexList.length) % 2 ^ 32), [])
    (by simp) (by simp [putBits, BitStreamWriter.setBuffer])
  simp only [Nat.mod_eq_of_lt hn, Nat.mod_eq_of_lt hm, List.take_length] at r1 r2 ⊢
  generalize List.foldl _ _ (List.range pmtIndexList.length) = hdr at r1 r2 ⊢
  simp only [putBits, BitStreamWriter.setBuffer, List.nil_append, List.length_append,
    natBits_length, List.length_range, List.enum_length] at r1 r2
  rw [padTo16_of_aligned _ (by rw [r1]; omega)]
  obtain ⟨P', hP', h⟩ := pipEntries_outer M self pmtIndexList (mainSizeOf E self).1
    (mainSizeOf E self).2 (pipStreamsOf E self)
    (fun i k => hdr.2.getD (i * (pipStreamsOf E self).length + k) 0)
    (List.range pmtIndexList.length) hdr.1 []
    (fun i k => getD_bound hdr.2 _ (by rw [r1]; exact r2) (by rw [r1]; omega) _)
    (by rw [r1]; omega) rfl
  simp only [List.append_nil, List.nil_append] at h
  rw [h]
  refine ⟨store P' 0 4 (((getBitsCount (flushBits (P' ++ (List.range pmtIndexList.length).flatMap
      (fun i => (pipStreamsOf E self).flatMap
        (pipEntryBits M self pmtIndexList (mainSizeOf E self).1 (mainSizeOf E self).2 i)))) / 8
      - 4) % 2 ^ 32)), ?_, ?_⟩
  · rw [store_length _ _ _ _ (by rw [hP', r1]; omega), hP', r1]
  · rw [flushBits, store_append_left _ _ _ _ _ (by rw [hP', r1]; omega)]
    rfl

open BitStreamWriter

/-- The position the code computes is the position of the format when that
lies in the range of the 12-bit fields and the scaled sizes that enter it are
computed as their integer parts. -/
theorem pipPosition_spec (M : PIPMethods) (mainHSize mainVSize : Nat) (pipStream : MPLSStreamInfo)
    (hw : M.isFullScreen pipStream.pipParams = false →
      (pipStream.pipParams.corner = PipCorner.TopRight ∨
        pipStream.pipParams.corner = PipCorner.BottomRight) →
      scaledSize pipStream.width (M.getScaleCoeff pipStream.pipParams)
        = ⌊(pipStream.width : ℚ) * M.getScaleCoeff pipStream.pipParams⌋)
    (hh : M.isFullScreen pipStream.pipParams = false →
      (pipStream.pipParams.corner = PipCorner.BottomRight ∨
        pipStream.pipParams.corner = PipCorner.BottomLeft) →
      scaledSize pipStream.height (M.getScaleCoeff pipStream.pipParams)
        = ⌊(pipStream.height : ℚ) * M.getScaleCoeff pipStream.pipParams⌋)
    (hX : 0 ≤ (specPipPosition M mainHSize mainVSize pipStream).1 ∧
      (specPipPosition M mainHSize mainVSize pipStream).1 < 4096)
    (hY : 0 ≤ (specPipPosition M mainHSize mainVSize pipStream).2 ∧
      (specPipPosition M mainHSize mainVSize pipStream).2 < 4096) :
    (((pipPosition M mainHSize mainVSize pipStream).1 : Nat) : Int)
        = (specPipPosition M mainHSize mainVSize pipStream).1 ∧
      (((pipPosition M mainHSize mainVSize pipStream).2 : Nat) : Int)
        = (specPipPosition M mainHSize mainVSize pipStream).2 ∧
      (pipPosition M mainHSize mainVSize pipStream).1 < 4096 ∧
      (pipPosition M mainHSize mainVSize pipStream).2 < 4096 := by
  unfold pipPosition specPipPosition at *
  dsimp only at *
  cases hfs : M.isFullScreen pipStream.pipParams
  · have hw' := hw hfs
    have hh' := hh hfs
    simp only [hfs, Bool.false_eq_true, if_false, Bool.not_false, if_true] at hX hY ⊢
    generalize ⌊(pipStream.width : ℚ) * M.getScaleCoeff pipStream.pipParams⌋ = sw at *
    generalize ⌊(pipStream.height : ℚ) * M.getScaleCoeff pipStream.pipParams⌋ = sh at *
    cases hc : pipStream.pipParams.corner
    · simp only [hc, reduceCtorEq, or_false, false_or, or_self, if_true, if_false, or_true,
        true_or] at hX hY ⊢
      omega
    · have := hw' (by simp [hc])
      simp only [hc, reduceCtorEq, or_false, false_or, or_self, if_true, if_false, or_true,
        true_or, this] at hX hY ⊢
      omega
    · have := hw' (by simp [hc])
      have := hh' (by simp [hc])
      simp only [hc, reduceCtorEq, or_false, false_or, or_self, if_true, if_false, or_true,
        true_or, *] at hX hY ⊢
      omega
    · have := hh' (by simp [hc])
      simp only [hc, reduceCtorEq, or_false, false_or, or_self, if_true, if_false, or_true,
        true_or, this] at hX hY ⊢
      omega
  · simp only [hfs, if_true, Bool.not_true, Bool.false_eq_true, if_false] at hX hY ⊢
    omega

/-- The entry for the play item `i` and the PIP stream `k` among the entries
`composePip_metadata` writes. -/
theorem pipEntries_drop (f : Nat → MPLSStreamInfo → List Bool)
    (hf : ∀ i x, (f i x).length = 80) (n : Nat) (pipStreams : List MPLSStreamInfo)
    (i k : Nat) (pip : MPLSStreamInfo) (hi : i < n) (hk : pipStreams[k]? = some pip) :
    ∃ R, ((List.range n).flatMap (fun i => pipStreams.flatMap (f i))).drop
        (80 * (i * pipStreams.length + k)) = f i pip ++ R := by
  have hG : ∀ x ∈ List.range n, (pipStreams.flatMap (f x)).length = 80 * pipStreams.length :=
    fun x _ => length_flatMap_const _ 80 _ (fun y _ => hf x y)
  have hklt : k < pipStreams.length := by
    rcases Nat.lt_or_ge k pipStreams.length with h | h
    · exact h
    · rw [List.getElem?_eq_none h] at hk; cases hk
  have hkk : pipStreams[k] = pip := by
    rw [List.getElem?_eq_getElem hklt] at hk
    exact Option.some.inj hk
  have e1 : 80 * (i * pipStreams.length + k) = 80 * pipStreams.length * i + 80 * k := by
    rw [Nat.mul_add, Nat.mul_assoc, Nat.mul_comm pipStreams.length i]
  have hr : (List.range n).drop i = i :: (List.range n).drop (i + 1) := by
    rw [List.drop_eq_getElem_cons (by simpa using hi), List.getElem_range]
  have hp : pipStreams.drop k = pip :: pipStreams.drop (k + 1) := by
    rw [List.drop_eq_getElem_cons hklt, hkk]
  rw [e1, ← List.drop_drop, drop_flatMap_const _ _ _ i hG, hr, List.flatMap_cons,
    List.drop_append_of_le_length (by rw [hG i (by simpa using hi)]; omega),
    drop_flatMap_const _ 80 _ k (fun y _ => hf i y), hp, List.flatMap_cons, List.append_assoc]
  exact ⟨_, rfl⟩

/-- The position fields of an entry, read from the bits that start with
it. -/
theorem pipEntryBits_fields (M : PIPMethods) (self : MPLSParser) (pmtIndexList : List PMTIndex)
    (mainHSize mainVSize : Nat) (i : Nat) (pipStream : MPLSStreamInfo) (R : List Bool) :
    bitsToNat (((pipEntryBits M self pmtIndexList mainHSize mainVSize i pipStream ++ R).drop
        48).take 12) = (pipPosition M mainHSize mainVSize pipStream).1 % 2 ^ 12 ∧
    bitsToNat (((pipEntryBits M self pmtIndexList mainHSize mainVSize i pipStream ++ R).drop
        60).take 12) = (pipPosition M mainHSize mainVSize pipStream).2 % 2 ^ 12 := by
  simp only [pipEntryBits, List.append_assoc]
  constructor
  · rw [drop_natBits_append _ _ _ _ (by omega), drop_natBits_append _ _ _ _ (by omega)]
    simp only [Nat.reduceSub, List.drop_zero]
    rw [List.take_left' (natBits_length 12 _), bitsToNat_natBits]
  · rw [drop_natBits_append _ _ _ _ (by omega), drop_natBits_append _ _ _ _ (by omega),
      drop_natBits_append _ _ _ _ (by omega)]
    simp only [Nat.reduceSub, List.drop_zero]
    rw [List.take_left' (natBits_length 12 _), bitsToNat_natBits]

/-- The position fields `composePip_metadata` writes for the play item `i` and
the PIP stream `k`. -/
theorem composePip_metadata_fields (E : StreamTypeCodes) (M : PIPMethods) (self : MPLSParser)
    (pmtIndexList : List PMTIndex) (i k : Nat) (pip : MPLSStreamInfo)
    (hn : pmtIndexList.length < 2 ^ 32) (hm : (pipStreamsOf E self).length < 2 ^ 32)
    (hi : i < pmtIndexList.length) (hk : (pipStreamsOf E self)[k]? = some pip) :
    pipEntryFields (composePip_metadata E M self pmtIndexList).1
        (pmtIndexList.length * (pipStreamsOf E self).length)
        (i * (pipStreamsOf E self).length + k)
      = ((pipPosition M (mainSizeOf E self).1 (mainSizeOf E self).2 pip).1 % 2 ^ 12,
         (pipPosition M (mainSizeOf E self).1 (mainSizeOf E self).2 pip).2 % 2 ^ 12) := by
  obtain ⟨P, hP, hout⟩ := composePip_metadata_bits E M self pmtIndexList hn hm
  have hX : ((List.range pmtIndexList.length).flatMap (fun i => (pipStreamsOf E self).flatMap
      (pipEntryBits M self pmtIndexList (mainSizeOf E self).1 (mainSizeOf E self).2 i))).length
      = 80 * (pipStreamsOf E self).length * pmtIndexList.length := by
    rw [length_flatMap_const _ (80 * (pipStreamsOf E self).length) _
      (fun x _ => length_flatMap_const _ 80 _ (fun y _ => pipEntryBits_length _ _ _ _ _ x y)),
      List.length_range]
  obtain ⟨R, hR⟩ := pipEntries_drop
    (pipEntryBits M self pmtIndexList (mainSizeOf E self).1 (mainSizeOf E self).2)
    (pipEntryBits_length M self pmtIndexList _ _) pmtIndexList.length (pipStreamsOf E self)
    i k pip hi hk
  obtain ⟨f1, f2⟩ := pipEntryBits_fields M self pmtIndexList (mainSizeOf E self).1
    (mainSizeOf E self).2 i pip R
  have hdrop : ∀ c, (P ++ (List.range pmtIndexList.length).flatMap
      (fun i => (pipStreamsOf E self).flatMap
        (pipEntryBits M self pmtIndexList (mainSizeOf E self).1 (mainSizeOf E self).2 i))).drop
      (48 + 112 * (pmtIndexList.length * (pipStreamsOf E self).length)
        + 80 * (i * (pipStreamsOf E self).length + k) + c)
      = (pipEntryBits M self pmtIndexList (mainSizeOf E self).1 (mainSizeOf E self).2 i pip
          ++ R).drop c := by
    intro c
    rw [← hP, Nat.add_assoc, List.drop_append, ← List.drop_drop, hR]
  unfold pipEntryFields
  rw [hout, bytesToBits_bitsToBytes _ (by
    rw [List.length_append, hP, hX]
    generalize pmtIndexList.length * (pipStreamsOf E self).length = a
    generalize (pipStreamsOf E self).length * pmtIndexList.length = b
    have : 80 * (pipStreamsOf E self).length * pmtIndexList.length
        = 80 * ((pipStreamsOf E self).length * pmtIndexList.length) := Nat.mul_assoc _ _ _
    omega), hdrop, hdrop, f1, f2]

end MPLSParser

namespace MPLSParser

open BitStreamWriter

theorem mainSizeOf_sample (w h : Nat) (l : List MPLSStreamInfo)
    (hl : ∀ x ∈ l, x.isSecondary = true) :
    mainSizeOf StreamTypeCodes.standard (withStreams (MPLSStreamInfo.sampleVideo w h :: l))
      = (w, h) := by
  have : (l.filter (fun si : MPLSStreamInfo =>
      isVideoStreamType StreamTypeCodes.standard si.stream_coding_type && !si.isSecondary)) = [] := by
    rw [List.filter_eq_nil_iff]
    intro x hx
    simp [hl x hx]
  simp only [mainSizeOf, withStreams, List.filter_cons, this]
  rfl

end MPLSParser

theorem bitLength_zero (fuel : Nat) : bitLength fuel 0 = 0 := by
  cases fuel <;> simp [bitLength]

theorem bitLength_bounds : ∀ (fuel n : Nat), 0 < n → n ≤ fuel →
    2 ^ (bitLength fuel n - 1) ≤ n ∧ n < 2 ^ bitLength fuel n ∧ 0 < bitLength fuel n := by
  intro fuel
  induction fuel with
  | zero => intro n h0 h; omega
  | succ f ih =>
      intro n h0 h
      rw [bitLength, if_neg (by omega)]
      by_cases h1 : n / 2 = 0
      · rw [h1, bitLength_zero]
        have : n = 1 := by omega
        subst this
        simp
      · obtain ⟨l1, l2, l3⟩ := ih (n / 2) (by omega) (by omega)
        generalize bitLength f (n / 2) = L at l1 l2 l3
        obtain ⟨k, rfl⟩ : ∃ k, L = k + 1 := ⟨L - 1, by omega⟩
        simp only [Nat.add_sub_cancel] at l1 ⊢
        rw [Nat.pow_succ] at l2 ⊢
        rw [Nat.pow_succ]
        refine ⟨by omega, by omega, by omega⟩

/-- The exponent `floatExponent` finds is not above `log2 (n / d)`. -/
theorem floatExponent_lower (n d : Nat) (hn : 0 < n) (hd : 0 < d) :
    (0 ≤ floatExponent n d → d * 2 ^ (floatExponent n d).toNat ≤ n) ∧
    (floatExponent n d < 0 → d ≤ n * 2 ^ (-floatExponent n d).toNat) := by
  obtain ⟨a1, a2, a3⟩ := bitLength_bounds n n hn (le_refl _)
  obtain ⟨b1, b2, b3⟩ := bitLength_bounds d d hd (le_refl _)
  unfold floatExponent
  generalize bitLength n n = a at a1 a2 a3
  generalize bitLength d d = b at b1 b2 b3
  simp only
  by_cases h0 : (0 : Int) ≤ (a : Int) - (b : Int)
  · rw [if_pos h0]
    have ht : ((a : Int) - (b : Int)).toNat = a - b := by omega
    rw [ht]
    by_cases h1 : d * 2 ^ (a - b) ≤ n
    · rw [if_pos h1]
      exact ⟨fun _ => by rw [ht]; exact h1, fun h => by omega⟩
    · rw [if_neg h1]
      constructor
      · intro h
        have ht2 : ((a : Int) - (b : Int) - 1).toNat = a - b - 1 := by omega
        rw [ht2]
        have e : 2 ^ b * 2 ^ (a - b - 1) = 2 ^ (a - 1) := by
          rw [← Nat.pow_add]; congr 1; omega
        calc d * 2 ^ (a - b - 1) ≤ 2 ^ b * 2 ^ (a - b - 1) :=
              Nat.mul_le_mul_right _ (Nat.le_of_lt b2)
          _ = 2 ^ (a - 1) := e
          _ ≤ n := a1
      · intro h
        have hab : a = b := by omega
        have ht2 : (-((a : Int) - (b : Int) - 1)).toNat = 1 := by omega
        rw [ht2]
        subst hab
        have : 2 ^ a = 2 ^ (a - 1) * 2 := by
          rw [← Nat.pow_succ]; congr 1; omega
        omega
  · rw [if_neg h0]
    have ht : (-((a : Int) - (b : Int))).toNat = b - a := by omega
    rw [ht]
    by_cases h1 : d ≤ n * 2 ^ (b - a)
    · rw [if_pos h1]
      exact ⟨fun h => by omega, fun _ => by rw [ht]; exact h1⟩
    · rw [if_neg h1]
      constructor
      · intro h; omega
      · intro _
        have ht2 : (-((a : Int) - (b : Int) - 1)).toNat = b - a + 1 := by omega
        rw [ht2]
        have e : 2 ^ (a - 1) * 2 ^ (b - a + 1) = 2 ^ b := by
          rw [← Nat.pow_add]; congr 1; omega
        calc d ≤ 2 ^ b := Nat.le_of_lt b2
          _ = 2 ^ (a - 1) * 2 ^ (b - a + 1) := e.symm
          _ ≤ n * 2 ^ (b - a + 1) := Nat.mul_le_mul_right _ a1

theorem roundHalfEven_mul (k d : Nat) (hd : 0 < d) : roundHalfEven (k * d) d = k := by
  unfold roundHalfEven
  rw [Nat.mul_mod_left, if_pos (by omega), Nat.mul_div_cancel _ hd]

/-- A ratio whose value `s / 2 ^ b` has a significand of 24 bits and an
exponent in the range of `float` is converted exactly. -/
theorem floatOfRatio_exact (n d s b : Nat) (hd : 0 < d) (hs : 0 < s) (hs24 : s < 2 ^ 24)
    (hb : b ≤ 149) (heq : n * 2 ^ b = s * d) :
    ∃ j : Nat, floatOfRatio n d = (s * 2 ^ j, -((b + j : Nat) : Int)) := by
  have hn : 0 < n := by
    rcases Nat.eq_zero_or_pos n with h | h
    · rw [h, Nat.zero_mul] at heq
      have := Nat.mul_pos hs hd
      omega
    · exact h
  obtain ⟨l1, l2⟩ := floatExponent_lower n d hn hd
  have hlt : n * 2 ^ b < d * 2 ^ 24 := by
    rw [heq, Nat.mul_comm s d]
    exact Nat.mul_lt_mul_of_pos_left hs24 hd
  have he : floatExponent n d ≤ 23 - (b : Int) := by
    by_contra hcon
    rw [not_le] at hcon
    by_cases h0 : 0 ≤ floatExponent n d
    · have h1 := l1 h0
      generalize hk : (floatExponent n d).toNat = k at h1
      have hkb : 24 ≤ k + b := by omega
      have : d * 2 ^ 24 ≤ n * 2 ^ b := by
        calc d * 2 ^ 24 ≤ d * 2 ^ (k + b) :=
              Nat.mul_le_mul_left _ (Nat.pow_le_pow_right (by norm_num) hkb)
          _ = d * 2 ^ k * 2 ^ b := by rw [Nat.pow_add, Nat.mul_assoc]
          _ ≤ n * 2 ^ b := Nat.mul_le_mul_right _ h1
      omega
    · have h1 := l2 (by omega)
      generalize hk : (-floatExponent n d).toNat = k at h1
      have hkb : k + 24 ≤ b := by omega
      have : d * 2 ^ 24 ≤ n * 2 ^ b := by
        calc d * 2 ^ 24 ≤ n * 2 ^ k * 2 ^ 24 := Nat.mul_le_mul_right _ h1
          _ = n * 2 ^ (k + 24) := by rw [Nat.pow_add, Nat.mul_assoc]
          _ ≤ n * 2 ^ b := Nat.mul_le_mul_left _ (Nat.pow_le_pow_right (by norm_num) hkb)
      omega
  unfold floatOfRatio
  simp only
  generalize floatExponent n d = e at he
  have hq : max e (-126) - 23 ≤ -(b : Int) := by
    rcases max_cases e (-126) with ⟨h, _⟩ | ⟨h, _⟩ <;> rw [h] <;> omega
  generalize max e (-126) - 23 = q at hq
  refine ⟨(-q - (b : Int)).toNat, ?_⟩
  have hqj : q = -((b + (-q - (b : Int)).toNat : Nat) : Int) := by omega
  generalize (-q - (b : Int)).toNat = j at hqj
  subst hqj
  congr 1
  by_cases h0 : (0 : Int) ≤ -((b + j : Nat) : Int)
  · rw [if_pos h0]
    have hb0 : b = 0 := by omega
    have hj0 : j = 0 := by omega
    subst hb0 hj0
    simp only [Nat.add_zero, Nat.cast_zero, neg_zero, Int.toNat_zero, Nat.pow_zero,
      Nat.mul_one] at heq ⊢
    rw [heq]
    exact roundHalfEven_mul s d hd
  · rw [if_neg h0]
    have ht : (-(-((b + j : Nat) : Int))).toNat = b + j := by omega
    rw [ht]
    have : n * 2 ^ (b + j) = s * 2 ^ j * d := by
      rw [Nat.pow_add, ← Nat.mul_assoc, heq, Nat.mul_assoc, Nat.mul_comm d, ← Nat.mul_assoc]
    rw [this]
    exact roundHalfEven_mul _ d hd

theorem floatOfRatio_zero (d : Nat) (hd : 0 < d) : (floatOfRatio 0 d).1 = 0 := by
  unfold floatOfRatio
  simp only
  split
  · unfold roundHalfEven
    have : 0 < d * 2 ^ (max (floatExponent 0 d) (-126) - 23).toNat :=
      Nat.mul_pos hd (Nat.pow_pos (by norm_num))
    simp [this]
  · unfold roundHalfEven
    simp [hd]

/-- The product of two `float` values whose exact product has a significand
of 24 bits is exact. -/
theorem floatMul_exact (s1 j1 s2 b j2 : Nat) (hs : 0 < s1 * s2) (hs24 : s1 * s2 < 2 ^ 24)
    (hb : b ≤ 149) :
    ∃ j : Nat, floatMul (s1 * 2 ^ j1, -((j1 : Nat) : Int)) (s2 * 2 ^ j2, -((b + j2 : Nat) : Int))
      = (s1 * s2 * 2 ^ j, -((b + j : Nat) : Int)) := by
  unfold floatMul
  simp only
  by_cases h0 : (0 : Int) ≤ -((j1 : Nat) : Int) + -((b + j2 : Nat) : Int)
  · rw [if_pos h0]
    have h1 : j1 = 0 := by omega
    have h2 : j2 = 0 := by omega
    have h3 : b = 0 := by omega
    subst h1 h2 h3
    simp only [Nat.add_zero, Nat.cast_zero, neg_zero, Int.toNat_zero, Nat.pow_zero,
      Nat.mul_one, add_zero]
    exact floatOfRatio_exact _ 1 (s1 * s2) 0 (by norm_num) hs hs24 (by norm_num) (by simp)
  · rw [if_neg h0]
    have ht : (-(-((j1 : Nat) : Int) + -((b + j2 : Nat) : Int))).toNat = j1 + j2 + b := by omega
    rw [ht]
    apply floatOfRatio_exact _ _ (s1 * s2) b (Nat.pow_pos (by norm_num)) hs hs24 hb
    simp only [Nat.pow_add]
    ring

theorem floatToNat_exact (s b j : Nat) :
    floatToNat (s * 2 ^ j, -((b + j : Nat) : Int)) = s / 2 ^ b := by
  unfold floatToNat
  simp only
  by_cases h0 : (0 : Int) ≤ -((b + j : Nat) : Int)
  · rw [if_pos h0]
    have hb0 : b = 0 := by omega
    have hj0 : j = 0 := by omega
    subst hb0 hj0
    simp
  · rw [if_neg h0]
    have ht : (-(-((b + j : Nat) : Int))).toNat = b + j := by omega
    rw [ht, Nat.pow_add, Nat.mul_comm (2 ^ b), ← Nat.div_div_eq_div_mul,
      Nat.mul_div_cancel _ (Nat.pow_pos (by norm_num))]

theorem floatToNat_zero (q : Int) : floatToNat (0, q) = 0 := by
  unfold floatToNat
  split <;> simp

theorem floatMul_zero (a b : Nat × Int) (h : a.1 * b.1 = 0) :
    floatToNat (floatMul a b) = 0 := by
  unfold floatMul
  rw [h, Nat.zero_mul]
  split
  · have := floatOfRatio_zero 1 (by norm_num)
    rw [show floatOfRatio 0 1 = ((floatOfRatio 0 1).1, (floatOfRatio 0 1).2) from rfl, this]
    exact floatToNat_zero _
  · rename_i h0
    have := floatOfRatio_zero (2 ^ (-(a.2 + b.2)).toNat) (Nat.pow_pos (by norm_num))
    rw [show floatOfRatio 0 (2 ^ (-(a.2 + b.2)).toNat)
      = ((floatOfRatio 0 (2 ^ (-(a.2 + b.2)).toNat)).1,
          (floatOfRatio 0 (2 ^ (-(a.2 + b.2)).toNat)).2) from rfl, this]
    exact floatToNat_zero _

/-- The `float` computation of a scaled size gives `floor (size * coeff)` for a
coefficient that is not negative and has a power of two as denominator, when
the product of `size` and the numerator has at most 24 bits: the conversions
and the product are exact then. -/
theorem scaledSize_eq_floor (size : Nat) (c : ℚ) (b : Nat) (hc : 0 ≤ c)
    (hden : c.den = 2 ^ b) (hb : b ≤ 149) (hprod : size * c.num.natAbs < 2 ^ 24) :
    scaledSize size c = ⌊(size : ℚ) * c⌋ := by
  obtain ⟨s2, hs2⟩ := Int.eq_ofNat_of_zero_le (Rat.num_nonneg.mpr hc)
  have habs : c.num.natAbs = s2 := by rw [hs2]; rfl
  rw [habs] at hprod
  have hval : (size : ℚ) * c = ((size * s2 : Nat) : ℚ) / ((2 ^ b : Nat) : ℚ) := by
    conv_lhs => rw [← Rat.num_div_den c, hden, hs2]
    push_cast
    ring
  have hfloor : ⌊(size : ℚ) * c⌋ = ((size * s2 / 2 ^ b : Nat) : Int) := by
    rw [hval, Rat.floor_natCast_div_natCast, Int.natCast_div]
  rw [hfloor]
  unfold scaledSize
  simp only
  rw [if_neg (not_lt.mpr hc), habs]
  congr 1
  rcases Nat.eq_zero_or_pos (size * s2) with h0 | hpos
  · rw [h0, Nat.zero_div]
    apply floatMul_zero
    rcases Nat.mul_eq_zero.mp h0 with h | h
    · rw [h, floatOfRatio_zero 1 (by norm_num), Nat.zero_mul]
    · rw [h, hden, floatOfRatio_zero _ (Nat.pow_pos (by norm_num)), Nat.mul_zero]
  · have h1 : 0 < size := Nat.pos_of_mul_pos_right hpos
    have h2 : 0 < s2 := Nat.pos_of_mul_pos_left hpos
    have h1' : size < 2 ^ 24 := lt_of_le_of_lt (Nat.le_mul_of_pos_right _ h2) hprod
    have h2' : s2 < 2 ^ 24 := lt_of_le_of_lt (Nat.le_mul_of_pos_left _ h1) hprod
    obtain ⟨j1, e1⟩ := floatOfRatio_exact size 1 size 0 (by norm_num) h1 h1' (by norm_num)
      (by simp)
    obtain ⟨j2, e2⟩ := floatOfRatio_exact s2 c.den s2 b c.den_pos h2 h2' hb (by rw [hden])
    rw [Nat.zero_add] at e1
    rw [e1, e2]
    obtain ⟨j, e3⟩ := floatMul_exact size j1 s2 b j2 hpos hprod hb
    rw [e3, floatToNat_exact]

/-! ## The claims -/

set_option maxRecDepth 100000

namespace TS_program_association_section

/-- C1, amended: for every table with `transport_stream_id < 2^16` whose `pmtPids` maps PIDs
`<= 0x1FFF` to program numbers in `1..0xFFFF` and holds at most 1021 programs (so that
`section_length = 9 + 4 n` fits its 12-bit field), `deserialize` applied to the bytes produced by
`serialize` returns true and yields the same `transport_stream_id` and the same PID to
program-number mapping. -/
theorem pat_deserialize_serialize (calculateCRC32 : List Nat → Nat)
    (pat self0 : TS_program_association_section)
    (hts : pat.transport_stream_id < 2 ^ 16)
    (hord : StdMap.Ordered pat.pmtPids)
    (hr : ∀ e ∈ pat.pmtPids, e.1 ≤ 0x1FFF ∧ 1 ≤ e.2 ∧ e.2 ≤ 0xFFFF)
    (hn : pat.pmtPids.length ≤ 1021) :
    self0.deserialize (serialize calculateCRC32 pat).1 (serialize calculateCRC32 pat).2
      = .ok (true, ⟨pat.transport_stream_id, -1, pat.pmtPids⟩) := by
  rw [deserialize_serialize_header]
  have h1 : (9 + pat.pmtPids.length * 4) % 2 ^ 32 % 2 ^ 12 = 9 + pat.pmtPids.length * 4 := by
    omega
  have h2 : (24 : Int) + (((9 + pat.pmtPids.length * 4 : Nat) : Int) - 4) * 8
      = ((64 : Nat) : Int) + 32 * (pat.pmtPids.length : Nat) := by
    push_cast; omega
  have hl := deserializeLoop_entries pat.pmtPids [] 
    (bytesToBits (be32 (calculateCRC32 (bitsToBytes (serializeBits pat)))))
    64 ((entriesBits pat.pmtPids ++
      bytesToBits (be32 (calculateCRC32 (bitsToBytes (serializeBits pat))))).length + 1)
    (pat.transport_stream_id % 2 ^ 16) (-1) (by simpa using hord)
    (fun e he => by have := hr e he; omega) (by simp; omega)
  dsimp only
  rw [h1, h2, hl, Nat.mod_eq_of_lt hts]
  simp [BitStreamReader.getBitsCount]

/-- Witness of C1 (amended): a table with two programs. -/
theorem pat_deserialize_serialize_witness :
    (⟨0, -1, []⟩ : TS_program_association_section).deserialize
      (serialize (fun _ => 0) ⟨0x1234, -1, [(0x100, 1), (0x1FFF, 0xFFFF)]⟩).1
      (serialize (fun _ => 0) ⟨0x1234, -1, [(0x100, 1), (0x1FFF, 0xFFFF)]⟩).2
      = .ok (true, ⟨0x1234, -1, [(0x100, 1), (0x1FFF, 0xFFFF)]⟩) :=
  pat_deserialize_serialize (fun _ => 0) ⟨0x1234, -1, [(0x100, 1), (0x1FFF, 0xFFFF)]⟩ ⟨0, -1, []⟩
    (by decide) (by simp [StdMap.Ordered]) (by simp) (by simp)

/-- Counterexample to C1 as stated: the table that maps each PID `0 .. 1021` to program number 1
meets the hypotheses of the claim, but its `section_length` is `9 + 4 * 1022 = 4097`, the 12-bit
field holds 1, and `deserialize` of the serialized bytes returns false. -/
theorem pat_roundtrip_counterexample :
    (manyPrograms 1022).transport_stream_id < 2 ^ 16 ∧
    StdMap.Ordered (manyPrograms 1022).pmtPids ∧
    (∀ e ∈ (manyPrograms 1022).pmtPids, e.1 ≤ 0x1FFF ∧ 1 ≤ e.2 ∧ e.2 ≤ 0xFFFF) ∧
    (manyPrograms 1022).deserialize (serialize (fun _ => 0) (manyPrograms 1022)).1
        (serialize (fun _ => 0) (manyPrograms 1022)).2
      = .ok (false, ⟨0, -1, []⟩) :=
  ⟨Nat.pos_of_ne_zero (by norm_num), manyPrograms_ordered 1022,
    fun e he => by have := manyPrograms_mem 1022 e he; omega,
    deserialize_manyPrograms _ _ 1022 rfl⟩

end TS_program_association_section

namespace TS_program_map_section

open BitStreamWriter

/-- C2, amended: for every table with `program_number < 2^16` and `pcr_pid <= 0x1FFF` whose
`video_pid`, `audio_pid` and `sub_pid` are each 0 or the PID of a stream of `pidList`, whose
`pidList` entries are stored under their own PID (`<= 0x1FFF`), have a one-byte stream type, raw
descriptor bytes that are a sequence of well-formed descriptors and a language buffer that is a
3-character code or empty (a stream without language has no language descriptor among its raw
descriptors), and whose section length fits its 12-bit field, `deserialize` into a fresh object
of the bytes produced by `serialize` (`blurayMode = false`) returns true and yields the same
`program_number`, the same `pcr_pid` and a `pidList` with exactly the same PIDs, each with the
same stream type, PID and language and without raw descriptor bytes (`T.LANG < 256`: the
language tag is one byte). -/
theorem pmt_deserialize_serialize (calculateCRC32 : List Nat → Nat) (E : StreamTypeCodes)
    (T : TSDescriptorTagCodes) (hT : T.LANG < 256) (pmt : TS_program_map_section)
    (hdmvDescriptors : Bool)
    (hpn : pmt.program_number < 2 ^ 16) (hpcr : pmt.pcr_pid ≤ 0x1FFF)
    (hv : pmt.video_pid = 0 ∨ ∃ e ∈ pmt.pidList, e.1 = pmt.video_pid)
    (ha : pmt.audio_pid = 0 ∨ ∃ e ∈ pmt.pidList, e.1 = pmt.audio_pid)
    (hs : pmt.sub_pid = 0 ∨ ∃ e ∈ pmt.pidList, e.1 = pmt.sub_pid)
    (hord : StdMap.Ordered pmt.pidList)
    (hval : ∀ e ∈ pmt.pidList, RoundTripStream T e.1 e.2)
    (hsz : (serialize calculateCRC32 E T pmt false hdmvDescriptors).2 - 4 < 2 ^ 12) :
    ∃ out, deserialize E T create (serialize calculateCRC32 E T pmt false hdmvDescriptors).1
        (serialize calculateCRC32 E T pmt false hdmvDescriptors).2 = (true, out) ∧
      out.program_number = pmt.program_number ∧ out.pcr_pid = pmt.pcr_pid ∧
      out.pidList = pmt.pidList.map (fun e => (e.1, readBack e.2)) := by
  obtain ⟨hbuf, hn⟩ := serialize_buffer_bits calculateCRC32 E T pmt false hdmvDescriptors
  have hW := pmt_serializeBits_eq E T pmt false hdmvDescriptors
  have hWl := serializeBits_length_mod E T pmt false hdmvDescriptors
  have hb8 := bodyBits_length_mod E T pmt false hdmvDescriptors
  have hpi := progInfoBits_length T pmt hdmvDescriptors
  obtain ⟨hSval, hSkeys⟩ := shortcutStreams_roundTrip E T pmt hv ha hs hval
  generalize hSL : shortcutStreams E pmt ++ pmt.pidList = SL
  have hst := streamsBits_length_mod T false SL
  have hSLval : ∀ e ∈ SL, RoundTripStream T e.1 e.2 := by
    intro e he
    rw [← hSL, List.mem_append] at he
    rcases he with he | he
    · exact hSval e he
    · exact hval e he
  have hbody : bodyBits E T pmt false hdmvDescriptors = progInfoBits T pmt hdmvDescriptors ++
      SL.flatMap (fun e => streamBits T false e.2) := by
    rw [bodyBits, shortcutBits_eq_streams E T, ← List.flatMap_append, hSL]
  rw [hn, hWl] at hsz
  rw [hbuf, hn]
  generalize calculateCRC32 (bitsToBytes (serializeBits E T pmt false hdmvDescriptors)) = c
  have hpi8 : (progInfoBits T pmt hdmvDescriptors).length % 8 = 0 := by
    rw [hpi]; split <;> split <;> rfl
  have hpil : (progInfoBits T pmt hdmvDescriptors).length / 8 ≤ 18 := by
    rw [hpi]; split <;> split <;> decide
  have hblen : (bodyBits E T pmt false hdmvDescriptors).length
      = (progInfoBits T pmt hdmvDescriptors).length +
        (SL.flatMap (fun e => streamBits T false e.2)).length := by
    rw [hbody, List.length_append]
  have e1 : natBits 16 ((0xb000 + (9 + (bodyBits E T pmt false hdmvDescriptors).length / 8) + 4) % 2 ^ 16)
      = natBits 4 11 ++ natBits 12 (13 + (bodyBits E T pmt false hdmvDescriptors).length / 8) := by
    rw [← natBits16_split 11 _ (by norm_num) (by omega)]
    congr 2
    omega
  have e2 : natBits 16 ((0xf000 + (progInfoBits T pmt hdmvDescriptors).length / 8) % 2 ^ 16)
      = natBits 4 15 ++ natBits 12 ((progInfoBits T pmt hdmvDescriptors).length / 8) := by
    rw [← natBits16_split 15 _ (by norm_num) (by omega)]
  obtain ⟨pre, hsplit, hprelen⟩ : ∃ pre, serializeBits E T pmt false hdmvDescriptors
      = pre ++ SL.flatMap (fun e => streamBits T false e.2) ∧
      pre.length = 96 + (progInfoBits T pmt hdmvDescriptors).length := by
    have hW2 := hW
    rw [hblen, hbody] at hW2
    refine ⟨natBits 8 2 ++ (natBits 16 ((0xb000 + (9 + ((progInfoBits T pmt hdmvDescriptors).length +
        (SL.flatMap (fun e => streamBits T false e.2)).length) / 8) + 4) % 2 ^ 16) ++
        (natBits 16 pmt.program_number ++ (natBits 2 3 ++ (natBits 5 0 ++ (natBits 1 1 ++
        (natBits 16 0 ++ (natBits 3 7 ++ (natBits 13 pmt.pcr_pid ++
        (natBits 16 ((0xf000 + (progInfoBits T pmt hdmvDescriptors).length / 8) % 2 ^ 16) ++
          progInfoBits T pmt hdmvDescriptors))))))))), ?_, ?_⟩
    · rw [hW2]
      simp only [List.append_assoc]
    · simp only [List.length_append, natBits_length]; omega
  have hreader : BitStreamReader.setBuffer
      ((List.take ((serializeBits E T pmt false hdmvDescriptors).length / 8 + 5)
        (bitsToBytes (natBits 8 0 ++ (serializeBits E T pmt false hdmvDescriptors ++ natBits 32 c)))).drop
        (1 + 0))
      = ⟨serializeBits E T pmt false hdmvDescriptors ++ natBits 32 c, 0⟩ := by
    rw [List.take_of_length_le, bitsToBytes_natBits8]
    · simp only [Nat.add_zero, List.drop_succ_cons, List.drop_zero, BitStreamReader.setBuffer]
      rw [bytesToBits_bitsToBytes]
      simp only [List.length_append, natBits_length]; omega
    · rw [bitsToBytes_length]
      · simp only [List.length_append, natBits_length]; omega
      · simp only [List.length_append, natBits_length]; omega
  have hget0 : (bitsToBytes (natBits 8 0 ++ (serializeBits E T pmt false hdmvDescriptors ++
      natBits 32 c))).getD 0 0 = 0 := by
    rw [bitsToBytes_natBits8]; rfl
  have hmem : bitsToBytes (natBits 8 0 ++ (serializeBits E T pmt false hdmvDescriptors ++
      natBits 32 c)) = bitsToBytes ((natBits 8 0 ++ pre) ++
        (SL.flatMap (fun e => streamBits T false e.2) ++ natBits 32 c)) := by
    rw [hsplit]; simp only [List.append_assoc]
  have hprelen' : (natBits 8 0 ++ pre).length
      = 8 * (13 + (progInfoBits T pmt hdmvDescriptors).length / 8) := by
    simp only [List.length_append, natBits_length, hprelen]; omega
  unfold deserialize
  rw [if_neg (by omega)]
  simp only [hget0, hreader]
  rw [hWl]
  generalize hmemdef : bitsToBytes (natBits 8 0 ++ (serializeBits E T pmt false hdmvDescriptors ++
      natBits 32 c)) = mem at hmem
  rw [hW, e1, e2]
  simp only [List.append_assoc, BitStreamReader.getBits_natBits, BitStreamReader.skipBits_natBits,
    BitStreamReader.skipBits_zero, BitStreamReader.getBits_natBits_lt,
    BitStreamReader.skipBits_natBits_lt, BitStreamReader.getBitsCount,
    Nat.reduceLeDiff, Nat.reduceSub, Nat.reduceAdd, Nat.reduceLT, Nat.reduceMod, Nat.reducePow,
    Nat.reduceDiv, le_refl, Nat.sub_self]
  have A1 : (13 + (bodyBits E T pmt false hdmvDescriptors).length / 8) % 4096
      = 13 + (bodyBits E T pmt false hdmvDescriptors).length / 8 := by omega
  have A2 : (progInfoBits T pmt hdmvDescriptors).length / 8 % 4096
      = (progInfoBits T pmt hdmvDescriptors).length / 8 := by omega
  have A3 : 4 + (13 + (bodyBits E T pmt false hdmvDescriptors).length / 8) - 4
      = 13 + (progInfoBits T pmt hdmvDescriptors).length / 8 +
        (SL.flatMap (fun e => streamBits T false e.2)).length / 8 := by omega
  simp only [A1, A2, A3]
  obtain ⟨k1, k2, k3⟩ := extractPMTDescriptorsLoop_keeps T mem
    (13 + (progInfoBits T pmt hdmvDescriptors).length / 8)
    ((progInfoBits T pmt hdmvDescriptors).length / 8) 13
    { video_pid := pmt.pcr_pid % 8192, audio_pid := create.audio_pid,
      sub_pid := create.sub_pid, pcr_pid := pmt.pcr_pid % 8192, casPID := create.casPID,
      casID := create.casID, program_number := pmt.program_number % 65536,
      video_type := create.video_type, audio_type := create.audio_type,
      pidList := create.pidList }
  obtain ⟨s', hloop, r1, r2, r3⟩ := deserializeLoop_streams_insert E T hT SL (natBits 8 0 ++ pre)
    (natBits 32 c) (13 + (progInfoBits T pmt hdmvDescriptors).length / 8)
    (extractPMTDescriptors T
      { video_pid := pmt.pcr_pid % 8192, audio_pid := create.audio_pid,
        sub_pid := create.sub_pid, pcr_pid := pmt.pcr_pid % 8192, casPID := create.casPID,
        casID := create.casID, program_number := pmt.program_number % 65536,
        video_type := create.video_type, audio_type := create.audio_type,
        pidList := create.pidList } mem 13 ((progInfoBits T pmt hdmvDescriptors).length / 8))
    (13 + (progInfoBits T pmt hdmvDescriptors).length / 8 +
        (SL.flatMap (fun e => streamBits T false e.2)).length / 8
      - (13 + (progInfoBits T pmt hdmvDescriptors).length / 8))
    hprelen' hSLval (by omega)
    (by
      have := streamsBits_length_ge T false SL
      omega)
  rw [← hmem] at hloop
  rw [hloop]
  refine ⟨s', ?_, ?_, ?_, ?_⟩
  · rw [if_neg (by decide), if_neg (by decide)]
    split
    · exfalso; omega
    split
    · exfalso; omega
    simp
  · rw [r2, extractPMTDescriptors, k2]; exact Nat.mod_eq_of_lt hpn
  · rw [r3, extractPMTDescriptors, k3]; exact Nat.mod_eq_of_lt (by omega)
  · rw [r1, extractPMTDescriptors, k1, ← hSL]
    exact foldl_insert_shortcuts _ _ hord hSkeys

/-- Witness of C2 (amended): `withStreamPids` has `video_pid` and `audio_pid` set to the PIDs of
its two streams, both with raw descriptor bytes; the parsed table has the same two PIDs with the
same stream types and languages. -/
theorem pmt_deserialize_serialize_witness :
    ∃ out, deserialize StreamTypeCodes.standard TSDescriptorTagCodes.standard create
        (serialize (fun _ => 0) StreamTypeCodes.standard TSDescriptorTagCodes.standard
          withStreamPids false true).1
        (serialize (fun _ => 0) StreamTypeCodes.standard TSDescriptorTagCodes.standard
          withStreamPids false true).2 = (true, out) ∧
      out.program_number = 1 ∧ out.pcr_pid = 0x1011 ∧
      out.pidList = [(0x1011, ⟨0x1b, 0x1011, [], 0, [0, 0, 0, 0]⟩),
        (0x1100, ⟨0x81, 0x1100, [], 0, [101, 110, 103, 0]⟩)] :=
  pmt_deserialize_serialize (fun _ => 0) StreamTypeCodes.standard TSDescriptorTagCodes.standard
    (by decide) withStreamPids true (by decide) (by decide)
    (Or.inr ⟨_, List.mem_cons_self _ _, rfl⟩)
    (Or.inr ⟨_, List.mem_cons_of_mem _ (List.mem_cons_self _ _), rfl⟩)
    (Or.inl rfl)
    (by simp [StdMap.Ordered, withStreamPids])
    (by
      intro e he
      simp only [withStreamPids, List.mem_cons, List.mem_singleton, List.not_mem_nil,
        or_false] at he
      rcases he with he | he
      · subst he
        exact ⟨rfl, by decide, by decide, rfl,
          ⟨[(0x28, [0x64, 0x00, 0x28, 0x3f])], by decide, rfl, by decide⟩,
          0, 0, 0, rfl, by decide, by decide, by decide, by decide⟩
      · subst he
        exact ⟨rfl, by decide, by decide, rfl,
          ⟨[(0x05, [0x41, 0x43, 0x2d, 0x33])], by decide, rfl, by decide⟩,
          101, 110, 103, rfl, by decide, by decide, by decide, by decide⟩)
    (by decide)

/-- Counterexample to C2 as stated. (1) `withVideoPid` has `program_number = 1`,
`pcr_pid = 0x1011` and one audio stream (PID `0x1100`, language "eng") in `pidList`, and also
`video_pid = 0x1011`, which is not the PID of a stream of `pidList`: `serialize` writes an entry
for `video_pid` in front of the `pidList` entries, so `deserialize` returns a `pidList` with two
PIDs. (2) `withTruncatedDescriptor` has one audio stream with language "eng" whose raw descriptor
bytes are not a sequence of well-formed descriptors: `deserialize` returns true and the stream
has lost its language. (3) `withRawLanguage` has one audio stream without language whose raw
descriptor bytes are a language descriptor: the parsed stream has the language "eng". -/
theorem pmt_roundtrip_counterexample :
    (withVideoPid.program_number < 2 ^ 16 ∧ withVideoPid.pcr_pid ≤ 0x1FFF ∧
    (∀ e ∈ withVideoPid.pidList, e.1 ≤ 0x1FFF ∧ e.2.m_pid = e.1 ∧
      e.2.m_lang = [101, 110, 103, 0]) ∧
    (deserialize StreamTypeCodes.standard TSDescriptorTagCodes.standard create
      (serialize (fun _ => 0) StreamTypeCodes.standard TSDescriptorTagCodes.standard
        withVideoPid false false).1
      (serialize (fun _ => 0) StreamTypeCodes.standard TSDescriptorTagCodes.standard
        withVideoPid false false).2).1 = true ∧
    (deserialize StreamTypeCodes.standard TSDescriptorTagCodes.standard create
      (serialize (fun _ => 0) StreamTypeCodes.standard TSDescriptorTagCodes.standard
        withVideoPid false false).1
      (serialize (fun _ => 0) StreamTypeCodes.standard TSDescriptorTagCodes.standard
        withVideoPid false false).2).2.pidList
      = [(0x1011, ⟨0x1b, 0x1011, [], 0, [0, 0, 0, 0]⟩),
         (0x1100, ⟨0x81, 0x1100, [], 0, [101, 110, 103, 0]⟩)] ∧
    withVideoPid.pidList = [(0x1100, ⟨0x81, 0x1100, [], 0, [101, 110, 103, 0]⟩)]) ∧
    (withTruncatedDescriptor.program_number < 2 ^ 16 ∧
    withTruncatedDescriptor.pcr_pid ≤ 0x1FFF ∧ withTruncatedDescriptor.video_pid = 0 ∧
    withTruncatedDescriptor.audio_pid = 0 ∧ withTruncatedDescriptor.sub_pid = 0 ∧
    withTruncatedDescriptor.pidList
      = [(0x1100, ⟨0x81, 0x1100, [0x05, 0xff], 2, [101, 110, 103, 0]⟩)] ∧
    deserialize StreamTypeCodes.standard TSDescriptorTagCodes.standard create
      (serialize (fun _ => 0) StreamTypeCodes.standard TSDescriptorTagCodes.standard
        withTruncatedDescriptor false false).1
      (serialize (fun _ => 0) StreamTypeCodes.standard TSDescriptorTagCodes.standard
        withTruncatedDescriptor false false).2
      = (true, { create with
          program_number := 1, pcr_pid := 0x1011, video_pid := 0x1011,
          audio_pid := 0x1100, audio_type := 0x81,
          pidList := [(0x1100, ⟨0x81, 0x1100, [], 0, [0, 0, 0, 0]⟩)] })) ∧
    (withRawLanguage.pidList
      = [(0x1100, ⟨0x81, 0x1100, [0x0a, 4, 101, 110, 103, 0], 6, [0, 0, 0, 0]⟩)] ∧
    (deserialize StreamTypeCodes.standard TSDescriptorTagCodes.standard create
      (serialize (fun _ => 0) StreamTypeCodes.standard TSDescriptorTagCodes.standard
        withRawLanguage false false).1
      (serialize (fun _ => 0) StreamTypeCodes.standard TSDescriptorTagCodes.standard
        withRawLanguage false false).2).2.pidList
      = [(0x1100, ⟨0x81, 0x1100, [], 0, [101, 110, 103, 0]⟩)]) := by
  refine ⟨⟨by decide, by decide, by decide, by decide, by decide, rfl⟩,
    ⟨by decide, by decide, rfl, rfl, rfl, rfl, by decide⟩, rfl, by decide⟩

end TS_program_map_section

/-- C3: for both PAT and PMT `serialize`, with `calculateCRC32` any function, the buffer is the
zero pointer field, then the CRC-covered bytes (starting with the table id), then the big-endian
CRC32 of exactly those bytes; the returned length is `1 + (number of covered bytes) + 4`. -/
theorem serialize_crc_trailer (calculateCRC32 : List Nat → Nat)
    (pat : TS_program_association_section) (E : StreamTypeCodes) (T : TSDescriptorTagCodes)
    (pmt : TS_program_map_section) (blurayMode hdmvDescriptors : Bool) :
    (∃ covered : List Nat,
      (TS_program_association_section.serialize calculateCRC32 pat).1
        = 0 :: (covered ++ be32 (calculateCRC32 covered)) ∧
      (TS_program_association_section.serialize calculateCRC32 pat).2 = 1 + covered.length + 4 ∧
      covered.head? = some 0x00) ∧
    (∃ covered : List Nat,
      (TS_program_map_section.serialize calculateCRC32 E T pmt blurayMode hdmvDescriptors).1
        = 0 :: (covered ++ be32 (calculateCRC32 covered)) ∧
      (TS_program_map_section.serialize calculateCRC32 E T pmt blurayMode hdmvDescriptors).2
        = 1 + covered.length + 4 ∧
      covered.head? = some 0x02) := by
  constructor
  · refine ⟨bitsToBytes (TS_program_association_section.serializeBits pat),
      TS_program_association_section.serialize_buffer _ _, ?_, ?_⟩
    · have hl := TS_program_association_section.serializeBits_length pat
      rw [TS_program_association_section.serialize_len, bitsToBytes_length _ (by omega), hl]
      omega
    · rw [TS_program_association_section.pat_serializeBits_eq, bitsToBytes_natBits8]
      rfl
  · have hWl := TS_program_map_section.serializeBits_length_mod E T pmt blurayMode hdmvDescriptors
    have hb8 := TS_program_map_section.bodyBits_length_mod E T pmt blurayMode hdmvDescriptors
    obtain ⟨hbuf, hn⟩ := TS_program_map_section.serialize_buffer_bits calculateCRC32 E T pmt
      blurayMode hdmvDescriptors
    refine ⟨bitsToBytes (TS_program_map_section.serializeBits E T pmt blurayMode hdmvDescriptors),
      ?_, ?_, ?_⟩
    · rw [hbuf, bitsToBytes_natBits8, bitsToBytes_append _ _ (by omega), ← be32_eq]
    · rw [hn, bitsToBytes_length _ (by omega)]
      omega
    · rw [TS_program_map_section.pmt_serializeBits_eq, bitsToBytes_natBits8]
      rfl

/-- C4, amended: provided the lengths fit their 12-bit fields (at most 1021 programs in the PAT;
at most 4095 bytes after the length field in the PMT section; fewer than 4090 raw descriptor
bytes per stream), the `section_length` field written by PAT and PMT `serialize` is the returned
byte count minus 4; for a PAT with `n` programs it is `9 + 4 n` and the call returns `13 + 4 n`.
The PMT section is the table id, the indicator and reserved bits, `section_length`, 7 fixed
bytes, `program_info_length` = the number of bytes of the program descriptors that follow, and
the stream entries, each with an `es_info_length` equal to the number of descriptor bytes that
follow it. -/
theorem section_length_fields (calculateCRC32 : List Nat → Nat)
    (pat : TS_program_association_section) (E : StreamTypeCodes) (T : TSDescriptorTagCodes)
    (pmt : TS_program_map_section) (blurayMode hdmvDescriptors : Bool)
    (hn : pat.pmtPids.length ≤ 1021)
    (hsz : (TS_program_map_section.serialize calculateCRC32 E T pmt blurayMode
      hdmvDescriptors).2 - 4 < 2 ^ 12)
    (hes : ∀ e ∈ pmt.pidList, e.2.m_esInfoLen + 6 < 2 ^ 12) :
    (sectionLengthField (TS_program_association_section.serialize calculateCRC32 pat).1
        = 9 + 4 * pat.pmtPids.length ∧
      (TS_program_association_section.serialize calculateCRC32 pat).2
        = 13 + 4 * pat.pmtPids.length ∧
      sectionLengthField (TS_program_association_section.serialize calculateCRC32 pat).1
        = (TS_program_association_section.serialize calculateCRC32 pat).2 - 4) ∧
    (sectionLengthField
        (TS_program_map_section.serialize calculateCRC32 E T pmt blurayMode hdmvDescriptors).1
        = (TS_program_map_section.serialize calculateCRC32 E T pmt blurayMode
          hdmvDescriptors).2 - 4 ∧
      ∃ fixed programInfo : List Bool,
        TS_program_map_section.serializeBits E T pmt blurayMode hdmvDescriptors
          = natBits 8 2 ++ (natBits 2 2 ++ (natBits 2 3 ++
            (natBits 12 ((TS_program_map_section.serialize calculateCRC32 E T pmt blurayMode
              hdmvDescriptors).2 - 4) ++
            (fixed ++ (natBits 4 15 ++ (natBits 12 (programInfo.length / 8) ++ (programInfo ++
              (TS_program_map_section.esEntries E T pmt blurayMode).flatMap esEntryBits))))))) ∧
        fixed.length = 56 ∧ programInfo.length % 8 = 0 ∧
        ∀ e ∈ TS_program_map_section.esEntries E T pmt blurayMode, e.2.2.length % 8 = 0) := by
  refine ⟨⟨?_, TS_program_association_section.serialize_len _ _, ?_⟩, ?_, ?_⟩
  · rw [TS_program_association_section.pat_sectionLengthField]; omega
  · rw [TS_program_association_section.pat_sectionLengthField,
      TS_program_association_section.serialize_len]; omega
  · rw [TS_program_map_section.pmt_sectionLengthField]; exact Nat.mod_eq_of_lt hsz
  · obtain ⟨-, hn2⟩ := TS_program_map_section.serialize_buffer_bits calculateCRC32 E T pmt
      blurayMode hdmvDescriptors
    have hWl := TS_program_map_section.serializeBits_length_mod E T pmt blurayMode hdmvDescriptors
    have hb8 := TS_program_map_section.bodyBits_length_mod E T pmt blurayMode hdmvDescriptors
    have hpi := TS_program_map_section.progInfoBits_length T pmt hdmvDescriptors
    have hpi8 : (TS_program_map_section.progInfoBits T pmt hdmvDescriptors).length % 8 = 0 := by
      rw [hpi]; split <;> split <;> rfl
    have hpil : (TS_program_map_section.progInfoBits T pmt hdmvDescriptors).length / 8 ≤ 18 := by
      rw [hpi]; split <;> split <;> decide
    rw [hn2, hWl] at hsz ⊢
    refine ⟨natBits 16 pmt.program_number ++ (natBits 2 3 ++ (natBits 5 0 ++ (natBits 1 1 ++
        (natBits 16 0 ++ (natBits 3 7 ++ natBits 13 pmt.pcr_pid))))),
      TS_program_map_section.progInfoBits T pmt hdmvDescriptors, ?_, by simp, hpi8, ?_⟩
    · have e1 := natBits16_split 11
        ((96 + (TS_program_map_section.bodyBits E T pmt blurayMode hdmvDescriptors).length) / 8
          + 5 - 4) (by norm_num) hsz
      have e2 := natBits16_split 15
        ((TS_program_map_section.progInfoBits T pmt hdmvDescriptors).length / 8) (by norm_num)
        (by omega)
      have e3 : (0xb000 + (9 + (TS_program_map_section.bodyBits E T pmt blurayMode
          hdmvDescriptors).length / 8) + 4) = 11 * 4096 + ((96 +
          (TS_program_map_section.bodyBits E T pmt blurayMode hdmvDescriptors).length) / 8
          + 5 - 4) := by omega
      rw [TS_program_map_section.pmt_serializeBits_eq, e3, e1,
        show (0xf000 : Nat) = 15 * 4096 from rfl, e2]
      have e4 : natBits 4 11 = natBits 2 2 ++ natBits 2 3 := by decide
      rw [e4]
      simp only [List.append_assoc]
      congr 10
      simp only [TS_program_map_section.bodyBits, TS_program_map_section.esEntries,
        List.flatMap_append, TS_program_map_section.shortcutBits_eq_entries,
        TS_program_map_section.streamsBits_eq_entries T blurayMode pmt.pidList hes,
        List.append_assoc]
    · intro e he
      simp only [TS_program_map_section.esEntries, List.mem_append, List.mem_map] at he
      rcases he with he | he | he | ⟨x, -, rfl⟩
      · split at he <;> simp at he; subst he; rfl
      · split at he <;> simp at he; subst he; rfl
      · split at he <;> simp at he; subst he; rfl
      · exact TS_program_map_section.descBits_length_mod T blurayMode x.2

/-- Witness of C4 (amended): a PAT with two programs and the PMT `withVideoPid`. -/
theorem section_length_fields_witness :
    sectionLengthField (TS_program_association_section.serialize (fun _ => 0)
        ⟨0x1234, -1, [(0x100, 1), (0x1FFF, 0xFFFF)]⟩).1 = 17 ∧
    sectionLengthField (TS_program_map_section.serialize (fun _ => 0) StreamTypeCodes.standard
        TSDescriptorTagCodes.standard TS_program_map_section.withVideoPid false true).1
      = (TS_program_map_section.serialize (fun _ => 0) StreamTypeCodes.standard
        TSDescriptorTagCodes.standard TS_program_map_section.withVideoPid false true).2 - 4 :=
  ⟨(section_length_fields (fun _ => 0) ⟨0x1234, -1, [(0x100, 1), (0x1FFF, 0xFFFF)]⟩
      StreamTypeCodes.standard TSDescriptorTagCodes.standard
      TS_program_map_section.withVideoPid false true (by decide) (by decide) (by decide)).1.1,
    (section_length_fields (fun _ => 0) ⟨0x1234, -1, [(0x100, 1), (0x1FFF, 0xFFFF)]⟩
      StreamTypeCodes.standard TSDescriptorTagCodes.standard
      TS_program_map_section.withVideoPid false true (by decide) (by decide) (by decide)).2.1⟩

/-- Counterexample to C4 as stated: for the PAT with 1022 programs `serialize` returns
`13 + 4 * 1022 = 4101`, but the 12-bit `section_length` field holds 1, not `9 + 4 * 1022 = 4097`
(the returned count minus 4). -/
theorem section_length_counterexample :
    sectionLengthField (TS_program_association_section.serialize (fun _ => 0)
      (TS_program_association_section.manyPrograms 1022)).1 = 1 ∧
    (TS_program_association_section.serialize (fun _ => 0)
      (TS_program_association_section.manyPrograms 1022)).2 - 4 = 4097 ∧
    9 + 4 * (TS_program_association_section.manyPrograms 1022).pmtPids.length = 4097 := by
  rw [TS_program_association_section.pat_sectionLengthField,
    TS_program_association_section.serialize_len,
    TS_program_association_section.manyPrograms_length]
  decide

namespace CLPIStreamInfo

open BitStreamWriter

/-- C5: for every `CLPIStreamInfo` with a one-byte stream type, 4-bit attribute values, a
one-byte character code and a 3-character language code, `parseStreamCodingInfo` applied to the
bits `composeStreamCodingInfo` wrote (at a byte boundary of the writer, followed by anything)
consumes exactly the bits written and recovers `stream_coding_type` and the type-conditional
fields: `video_format`, `frame_rate_index`, `aspect_ratio_index` for video types;
`audio_presentation_type`, `sampling_frequency_index`, `language_code` for audio types;
`language_code` for PGS/IGS; `character_code` and `language_code` for TGS. The layout is the
first that matches in the order video, audio, PGS/IGS, TGS, as in the source. -/
theorem streamCodingInfo_roundtrip (E : StreamTypeCodes) (si self0 : CLPIStreamInfo)
    (writer rest : List Bool) (count : Nat)
    (hw : writer.length % 8 = 0)
    (ht : si.stream_coding_type < 256)
    (hvf : si.video_format < 16) (hfr : si.frame_rate_index < 16)
    (har : si.aspect_ratio_index < 16) (hap : si.audio_presentation_type < 16)
    (hsf : si.sampling_frequency_index < 16) (hcc : si.character_code < 256)
    (hl : ∃ a b c, si.language_code = [a, b, c] ∧ a < 256 ∧ b < 256 ∧ c < 256) :
    ∃ out,
      parseStreamCodingInfo E self0
          ⟨(composeStreamCodingInfo E si writer).drop writer.length ++ rest, count⟩
        = .ok (out, ⟨rest,
            count + ((composeStreamCodingInfo E si writer).length - writer.length)⟩) ∧
      out.stream_coding_type = si.stream_coding_type ∧
      (isVideoStreamType E si.stream_coding_type = true →
        out.video_format = si.video_format ∧ out.frame_rate_index = si.frame_rate_index ∧
        out.aspect_ratio_index = si.aspect_ratio_index) ∧
      (isVideoStreamType E si.stream_coding_type = false →
        isAudioStreamType E si.stream_coding_type = true →
        out.audio_presentation_type = si.audio_presentation_type ∧
        out.sampling_frequency_index = si.sampling_frequency_index ∧
        out.language_code = si.language_code) ∧
      (isVideoStreamType E si.stream_coding_type = false →
        isAudioStreamType E si.stream_coding_type = false →
        si.stream_coding_type = E.SUB_PGS ∨ si.stream_coding_type = E.SUB_IGS →
        out.language_code = si.language_code) ∧
      (isVideoStreamType E si.stream_coding_type = false →
        isAudioStreamType E si.stream_coding_type = false →
        si.stream_coding_type ≠ E.SUB_PGS → si.stream_coding_type ≠ E.SUB_IGS →
        si.stream_coding_type = E.SUB_TGS →
        out.character_code = si.character_code ∧ out.language_code = si.language_code) := by
  obtain ⟨a, b, c, hlang, ha, hb, hc⟩ := hl
  have hlang' : [si.language_code.getD 0 0 % 256, si.language_code.getD 1 0 % 256,
      si.language_code.getD 2 0 % 256] = si.language_code := by
    rw [hlang]
    simp [Nat.mod_eq_of_lt ha, Nat.mod_eq_of_lt hb, Nat.mod_eq_of_lt hc]
  refine ⟨parsedInfo E self0 si, ?_, ?_, ?_, ?_, ?_, ?_⟩
  · rw [composeStreamCodingInfo_eq E si writer hw, List.drop_left, List.append_assoc,
      parseStreamCodingInfo_sciBody E self0 si _ rest count ht]
    simp only [List.length_append, natBits_length]
    congr 3
    omega
  · unfold parsedInfo; split_ifs <;> rfl
  · intro h1
    simp only [parsedInfo, h1, if_true, Nat.mod_eq_of_lt hvf, Nat.mod_eq_of_lt hfr,
      Nat.mod_eq_of_lt har, and_self]
  · intro h1 h2
    simp only [parsedInfo, h1, h2, if_true, if_false, Bool.false_eq_true, Nat.mod_eq_of_lt hap,
      Nat.mod_eq_of_lt hsf, hlang', and_self]
  · intro h1 h2 h3
    simp only [parsedInfo, h1, h2, h3, if_true, if_false, Bool.false_eq_true, hlang']
  · intro h1 h2 h3 h4 h5
    have h34 : ¬ (si.stream_coding_type = E.SUB_PGS ∨ si.stream_coding_type = E.SUB_IGS) := by
      rintro (h | h)
      · exact h3 h
      · exact h4 h
    simp only [parsedInfo, h1, h2, h34, if_true, if_false, Bool.false_eq_true, hlang',
      Nat.mod_eq_of_lt hcc, and_self]
    simp only [← h5, if_true, and_self]

/-- Witness of C5: the sample audio stream, written into an empty writer. -/
theorem streamCodingInfo_roundtrip_witness :
    ∃ out,
      parseStreamCodingInfo StreamTypeCodes.standard sampleAudio
          ⟨(composeStreamCodingInfo StreamTypeCodes.standard sampleAudio []).drop 0 ++ [], 0⟩
        = .ok (out, ⟨[], 0 + ((composeStreamCodingInfo StreamTypeCodes.standard sampleAudio
            []).length - 0)⟩) ∧
      out.stream_coding_type = 0x81 :=
  (streamCodingInfo_roundtrip StreamTypeCodes.standard sampleAudio sampleAudio [] [] 0 rfl
    (by decide) (by decide) (by decide) (by decide) (by decide) (by decide) (by decide)
    ⟨101, 110, 103, rfl, by decide, by decide, by decide⟩).imp
    fun _ h => ⟨h.1, h.2.1⟩

/-- C6: at a byte boundary of the writer, `composeStreamCodingInfo` writes a length byte and then
exactly that many bytes: 21 (22 bytes in total) for every video, audio, PGS, IGS and TGS stream
type and 1 (2 bytes in total) for any other stream type. -/
theorem composeStreamCodingInfo_length_byte (E : StreamTypeCodes) (si : CLPIStreamInfo)
    (writer : List Bool) (hw : writer.length % 8 = 0) :
    ∃ body : List Bool,
      composeStreamCodingInfo E si writer = writer ++ (natBits 8 (body.length / 8) ++ body) ∧
      body.length % 8 = 0 ∧
      body.length / 8 =
        (if isVideoStreamType E si.stream_coding_type = true ∨
            isAudioStreamType E si.stream_coding_type = true ∨
            si.stream_coding_type = E.SUB_PGS ∨ si.stream_coding_type = E.SUB_IGS ∨
            si.stream_coding_type = E.SUB_TGS then 21 else 1) ∧
      ((composeStreamCodingInfo E si writer).length - writer.length) / 8 = 1 + body.length / 8 := by
  have hl := sciBody_length E si
  refine ⟨sciBody E si, composeStreamCodingInfo_eq E si writer hw, ?_, ?_, ?_⟩
  · rw [hl]; split <;> rfl
  · rw [hl]; split <;> rfl
  · rw [composeStreamCodingInfo_eq E si writer hw]
    simp only [List.length_append, natBits_length, hl]
    split <;> omega

/-- Witness of C6: the sample audio stream, written into an empty writer. -/
theorem composeStreamCodingInfo_length_byte_witness :
    ∃ body : List Bool,
      composeStreamCodingInfo StreamTypeCodes.standard sampleAudio []
        = [] ++ (natBits 8 (body.length / 8) ++ body) ∧ body.length / 8 = 21 :=
  (composeStreamCodingInfo_length_byte StreamTypeCodes.standard sampleAudio [] rfl).imp
    fun _ h => ⟨h.1, h.2.2.1.trans (by decide)⟩

end CLPIStreamInfo

namespace CLPIParser

open BitStreamWriter CLPIStreamInfo

/-- C8 (amended): for every stream table `m_streamInfo` (ascending PIDs below `2 ^ 16`, field
values in range) of which `composeProgramInfo(isSsExt)` selects at most 255 streams, the
selected streams are exactly the `VIDEO_MVC` streams when `isSsExt` and exactly the other
streams otherwise; the block written at a byte boundary holds the number of selected streams
as its stream count and then one (PID, StreamCodingInfo) entry for each selected stream, in
the order of the table; and `parseProgramInfo` of the block (followed by anything) into empty
maps yields one program sequence with that count and a stream map with exactly the selected
PIDs, each with the coding type and type-conditional attributes that were composed. -/
theorem programInfo_roundtrip (E : StreamTypeCodes) (K : MuxConstants) (self : CLPIParser)
    (fresh : CLPIStreamInfo) (writer : BitStreamWriter) (isSsExt : Bool) (rest : List Nat)
    (hw : writer.length % 8 = 0) (hord : StdMap.Ordered self.m_streamInfo)
    (hr : ∀ e ∈ self.m_streamInfo, e.1 < 2 ^ 16 ∧ FieldsInRange e.2)
    (hn : (self.m_streamInfo.filter (fun e => streamOK E isSsExt e.2)).length ≤ 255) :
    (∀ e, e ∈ self.m_streamInfo.filter (fun e => streamOK E isSsExt e.2) ↔
      e ∈ self.m_streamInfo ∧ (e.2.stream_coding_type = E.VIDEO_MVC ↔ isSsExt = true)) ∧
    (∃ len pad, composeProgramInfo E K self writer isSsExt
      = writer ++ (natBits 32 len ++ (natBits 8 0 ++ (natBits 8 1 ++ (natBits 32 0 ++
          (natBits 16 K.DEFAULT_PMT_PID ++
          (natBits 8 (self.m_streamInfo.filter (fun e => streamOK E isSsExt e.2)).length ++
          (natBits 8 0 ++
          ((self.m_streamInfo.filter (fun e => streamOK E isSsExt e.2)).flatMap
            (fun e => natBits 16 e.1 ++ composeStreamCodingInfo E e.2 []) ++ pad))))))))) ∧
    ∃ streams,
      parseProgramInfo E fresh
          (bitsToBytes ((composeProgramInfo E K self writer isSsExt).drop writer.length) ++ rest)
          [] []
        = .ok ([⟨0, K.DEFAULT_PMT_PID % 2 ^ 16,
            (self.m_streamInfo.filter (fun e => streamOK E isSsExt e.2)).length⟩], streams) ∧
      List.Forall₂ (fun e o => o.1 = e.1 ∧ SameCoding E e.2 o.2)
        (self.m_streamInfo.filter (fun e => streamOK E isSsExt e.2)) streams := by
  refine ⟨?_, ?_, ?_⟩
  · intro e
    rw [List.mem_filter, streamOK_iff]
  · refine ⟨((programInfoBits E K self isSsExt).length
      + (programInfoPad E K self isSsExt writer.length).length) / 8,
      programInfoPad E K self isSsExt writer.length, ?_⟩
    rw [composeProgramInfo_eq E K self writer isSsExt hw]
    have hfm : (selectedStreams E isSsExt self.m_streamInfo).flatMap (streamEntryBits E)
        = (self.m_streamInfo.filter (fun e => streamOK E isSsExt e.2)).flatMap
            (fun e => natBits 16 e.1 ++ composeStreamCodingInfo E e.2 []) := by
      unfold selectedStreams
      congr 1
      funext e
      exact streamEntryBits_eq E e
    simp only [programInfoBits, List.append_assoc, hfm]
    rfl
  · refine ⟨_, parseProgramInfo_composeProgramInfo E K self fresh writer isSsExt rest hw hord
      (fun e he => ⟨(hr e he).1, (hr e he).2.1⟩) hn, ?_⟩
    have hsel : ∀ e ∈ selectedStreams E isSsExt self.m_streamInfo, FieldsInRange e.2 :=
      fun e he => (hr e (List.mem_of_mem_filter he)).2
    show List.Forall₂ _ (selectedStreams E isSsExt self.m_streamInfo) _
    generalize selectedStreams E isSsExt self.m_streamInfo = l at hsel
    induction l with
    | nil => exact List.Forall₂.nil
    | cons e t ih =>
        exact List.Forall₂.cons ⟨rfl, parsedInfo_sameCoding E fresh e.2
          (hsel e (List.mem_cons_self _ _))⟩ (ih (fun x hx => hsel x (List.mem_cons_of_mem _ hx)))

/-- Witness of C8 (amended): a clip with an H.264 video stream on PID `0x1011` and an AC3 audio
stream on PID `0x1100`; the main block holds both. -/
theorem programInfo_roundtrip_witness :
    ∃ streams,
      parseProgramInfo StreamTypeCodes.standard blank
          (bitsToBytes ((composeProgramInfo StreamTypeCodes.standard MuxConstants.standard
            (withStreams [(0x1011, sampleVideo), (0x1100, sampleAudio)]) [] false).drop 0) ++ [])
          [] []
        = .ok ([⟨0, 0x100, 2⟩], streams) ∧
      streams.map Prod.fst = [0x1011, 0x1100] :=
  (programInfo_roundtrip StreamTypeCodes.standard MuxConstants.standard
    (withStreams [(0x1011, sampleVideo), (0x1100, sampleAudio)]) blank [] false [] rfl
    (by simp [StdMap.Ordered, withStreams])
    (by
      intro e he
      simp only [withStreams, List.mem_cons, List.mem_singleton, List.not_mem_nil,
        or_false] at he
      rcases he with rfl | rfl
      · exact ⟨by decide, by decide⟩
      · exact ⟨by decide, by decide⟩)
    (by decide)).2.2.imp
    fun streams h => ⟨h.1, by
      have h2 := h.2
      have hsel : (withStreams [(0x1011, sampleVideo), (0x1100, sampleAudio)]).m_streamInfo.filter
          (fun e => streamOK StreamTypeCodes.standard false e.2)
          = [(0x1011, sampleVideo), (0x1100, sampleAudio)] := by decide
      rw [hsel] at h2
      cases h2 with
      | cons ha h3 =>
        cases h3 with
        | cons hb h4 =>
          cases h4
          simp [ha.1, hb.1]⟩

/-- Counterexample to C8 as stated: a stream table of 256 audio streams (none of them
`VIDEO_MVC`, PIDs `0 .. 255`, all field values in range). `composeProgramInfo(isSsExt = false)`
writes its stream count into an 8-bit field, which then holds 0, and `parseProgramInfo` of the
block yields a program sequence with 0 streams and an empty stream map instead of a map with
the 256 PIDs. -/
theorem programInfo_count_counterexample :
    StdMap.Ordered (manyStreams 256).m_streamInfo ∧
    (manyStreams 256).m_streamInfo.length = 256 ∧
    (∀ e ∈ (manyStreams 256).m_streamInfo, e.1 < 2 ^ 16 ∧ FieldsInRange e.2 ∧
      e.2.stream_coding_type ≠ StreamTypeCodes.standard.VIDEO_MVC) ∧
    parseProgramInfo StreamTypeCodes.standard blank
        (bitsToBytes ((composeProgramInfo StreamTypeCodes.standard MuxConstants.standard
          (manyStreams 256) [] false).drop 0) ++ []) [] []
      = .ok ([⟨0, 0x100, 0⟩], []) := by
  refine ⟨manyStreams_ordered 256, manyStreams_length 256, ?_,
    parseProgramInfo_manyStreams MuxConstants.standard blank 256 rfl⟩
  intro e he
  obtain ⟨h1, h2⟩ := manyStreams_mem 256 e he
  rw [h2]
  exact ⟨by omega, by decide, by decide⟩

end CLPIParser

namespace CLPIParser

/-- C10: for every EP index (the index `m_index[m_clpiNum]` of the stream, with N entries)
whose packet counts are non-decreasing, `buildCoarseInfo` returns at most N coarse entries, at
least one when N >= 1, and the packet counts of the coarse entries are non-decreasing (for
every pair of entries, so in particular for successive ones). The bounds on the number of
entries hold for every index. -/
theorem buildCoarseInfo_bounds (self : CLPIParser) (streamInfo : CLPIStreamInfo)
    (hmono : ((streamInfo.m_index.getD self.m_clpiNum []).map
      (fun e => e.2.m_pktCnt)).Pairwise (· ≤ ·)) :
    (buildCoarseInfo self streamInfo).length
      ≤ (streamInfo.m_index.getD self.m_clpiNum []).length ∧
    (1 ≤ (streamInfo.m_index.getD self.m_clpiNum []).length →
      1 ≤ (buildCoarseInfo self streamInfo).length) ∧
    ((buildCoarseInfo self streamInfo).map (fun c => c.m_pktCnt)).Pairwise (· ≤ ·) := by
  obtain ⟨extra, h1, h2, h3⟩ :=
    foldl_coarseStep (streamInfo.m_index.getD self.m_clpiNum []) ([], 0, 0, 0)
  rw [buildCoarseInfo_eq_foldl, h1, List.nil_append]
  refine ⟨?_, ?_, hmono.sublist h2⟩
  · simpa using h2.length_le
  · intro hN
    have hne : streamInfo.m_index.getD self.m_clpiNum [] ≠ [] := by
      intro h
      rw [h] at hN
      simp at hN
    exact List.length_pos.mpr (h3 hne rfl)

/-- Witness of C10: an index of three entries; the first two share a coarse entry. -/
theorem buildCoarseInfo_bounds_witness :
    (buildCoarseInfo (withStreams []) CLPIStreamInfo.indexedVideo).length ≤ 3 ∧
    (1 ≤ 3 → 1 ≤ (buildCoarseInfo (withStreams []) CLPIStreamInfo.indexedVideo).length) ∧
    ((buildCoarseInfo (withStreams []) CLPIStreamInfo.indexedVideo).map
      (fun c => c.m_pktCnt)).Pairwise (· ≤ ·) :=
  buildCoarseInfo_bounds (withStreams []) CLPIStreamInfo.indexedVideo (by decide)

end CLPIParser

namespace CLPIParser

/-- C11: for every EP index (the index `m_index[m_clpiNum]` of the stream) with N entries,
1 <= N <= 2^32 (the counter is 32 bits wide), the first-fine-index values `m_fineRefID` of the
coarse entries returned by `buildCoarseInfo` start at 0, are strictly increasing and are all
below N, so every fine entry index j < N lies in exactly one interval between the value of a
coarse entry and the value of the next one (the last interval being open-ended). -/
theorem buildCoarseInfo_fineRefs (self : CLPIParser) (streamInfo : CLPIStreamInfo)
    (hN : 1 ≤ (streamInfo.m_index.getD self.m_clpiNum []).length)
    (h32 : (streamInfo.m_index.getD self.m_clpiNum []).length ≤ 2 ^ 32) :
    ((buildCoarseInfo self streamInfo).map (fun c => c.m_fineRefID)).head? = some 0 ∧
    ((buildCoarseInfo self streamInfo).map (fun c => c.m_fineRefID)).Pairwise (· < ·) ∧
    (∀ r ∈ (buildCoarseInfo self streamInfo).map (fun c => c.m_fineRefID),
      r < (streamInfo.m_index.getD self.m_clpiNum []).length) ∧
    ∀ j, j < (streamInfo.m_index.getD self.m_clpiNum []).length →
      ∃! i, i < (buildCoarseInfo self streamInfo).length ∧
        ((buildCoarseInfo self streamInfo).map (fun c => c.m_fineRefID)).getD i 0 ≤ j ∧
        (i + 1 < (buildCoarseInfo self streamInfo).length →
          j < ((buildCoarseInfo self streamInfo).map (fun c => c.m_fineRefID)).getD (i + 1) 0) := by
  obtain ⟨extra, h1, h2, h3⟩ :=
    foldl_coarseStep_refs (streamInfo.m_index.getD self.m_clpiNum []) ([], 0, 0, 0)
      (by simpa using h32)
  have hne : streamInfo.m_index.getD self.m_clpiNum [] ≠ [] := by
    intro h
    rw [h] at hN
    simp at hN
  rw [buildCoarseInfo_eq_foldl, h1, List.nil_append]
  simp only [Nat.zero_add, List.map_id'] at h2
  have hhead := h3 hne rfl
  have hpw : (extra.map (fun c => c.m_fineRefID)).Pairwise (· < ·) :=
    (List.pairwise_lt_range _).sublist h2
  refine ⟨hhead, hpw, ?_, ?_⟩
  · intro r hr
    exact List.mem_range.mp (h2.subset hr)
  · intro j _
    have := interval_unique _ hhead hpw j
    simpa using this

/-- Witness of C11: an index of three entries. -/
theorem buildCoarseInfo_fineRefs_witness :
    ((buildCoarseInfo (withStreams []) CLPIStreamInfo.indexedVideo).map
      (fun c => c.m_fineRefID)).head? = some 0 ∧
    ((buildCoarseInfo (withStreams []) CLPIStreamInfo.indexedVideo).map
      (fun c => c.m_fineRefID)).Pairwise (· < ·) :=
  ⟨(buildCoarseInfo_fineRefs (withStreams []) CLPIStreamInfo.indexedVideo (by decide)
      (by decide)).1,
   (buildCoarseInfo_fineRefs (withStreams []) CLPIStreamInfo.indexedVideo (by decide)
      (by decide)).2.1⟩

/-- C12: the frame-length to `endCode` mapping used for the fine EP entries is monotonic for
fixed 4K-ness (for all frame lengths a <= b, the code of a is at most the code of b), every
code lies in 0..7, and the code is 0 exactly when the frame length is not positive. -/
theorem endCode_monotonic (is4K : Bool) (a b : Int) (h : a ≤ b) :
    endCode is4K a ≤ endCode is4K b ∧ endCode is4K a ≤ 7 ∧ endCode is4K b ≤ 7 ∧
    (endCode is4K a = 0 ↔ a ≤ 0) ∧ (endCode is4K b = 0 ↔ b ≤ 0) :=
  ⟨endCode_mono is4K a b h, endCode_le_seven is4K a, endCode_le_seven is4K b,
    endCode_eq_zero_iff is4K a, endCode_eq_zero_iff is4K b⟩

/-- Witness of C12: frame lengths 100000 and 200000 of a clip that is not 4K. -/
theorem endCode_monotonic_witness :
    endCode false 100000 ≤ endCode false 200000 ∧ endCode false 100000 ≤ 7 :=
  ⟨(endCode_monotonic false 100000 200000 (by decide)).1,
    (endCode_monotonic false 100000 200000 (by decide)).2.1⟩

end CLPIParser

namespace TS_program_map_section

/-- C20 (amended): for every PMT section whose stream list, as `deserialize` reads it, holds no
stream of a video type (one of the seven types of the `case` labels), `video_pid` equals
`pcr_pid` after `TS_program_map_section::deserialize` has returned true. -/
theorem pmt_video_pid_default (E : StreamTypeCodes) (T : TSDescriptorTagCodes)
    (self out : TS_program_map_section) (buffer : List Nat) (buf_size : Nat)
    (h : deserialize E T self buffer buf_size = (true, out))
    (hv : ∀ t ∈ sectionStreamTypes T self buffer buf_size, ¬ isVideoCase E t) :
    out.video_pid = out.pcr_pid := by
  obtain ⟨s, crcPos, curPos, hs, hvp, hl, ho⟩ := deserialize_true E T self out buffer buf_size h
  simp only [sectionStreamTypes, hs] at hv
  obtain ⟨h1, h2⟩ := deserializeLoop_video_pid E T buffer crcPos _ curPos s hl hv
  rw [ho, h1, h2, hvp]

/-- Witness of C20 (amended): the section of a table with one audio stream and PCR PID
`0x1011`. -/
theorem pmt_video_pid_default_witness :
    (deserialize StreamTypeCodes.standard TSDescriptorTagCodes.standard create
      (serialize (fun _ => 0) StreamTypeCodes.standard TSDescriptorTagCodes.standard
        { withVideoPid with video_pid := 0 } false false).1
      (serialize (fun _ => 0) StreamTypeCodes.standard TSDescriptorTagCodes.standard
        { withVideoPid with video_pid := 0 } false false).2).2.video_pid = 0x1011 :=
  (pmt_video_pid_default StreamTypeCodes.standard TSDescriptorTagCodes.standard create
    (deserialize StreamTypeCodes.standard TSDescriptorTagCodes.standard create
      (serialize (fun _ => 0) StreamTypeCodes.standard TSDescriptorTagCodes.standard
        { withVideoPid with video_pid := 0 } false false).1
      (serialize (fun _ => 0) StreamTypeCodes.standard TSDescriptorTagCodes.standard
        { withVideoPid with video_pid := 0 } false false).2).2
    (serialize (fun _ => 0) StreamTypeCodes.standard TSDescriptorTagCodes.standard
      { withVideoPid with video_pid := 0 } false false).1
    (serialize (fun _ => 0) StreamTypeCodes.standard TSDescriptorTagCodes.standard
      { withVideoPid with video_pid := 0 } false false).2
    (by decide) (by decide)).trans (by decide)

/-- Counterexample to C20 as stated: the section of `separatePcr` (video stream on PID
`0x1011`, audio stream on PID `0x1100`, PCR PID `0x1001`). `deserialize` returns true, no entry
of the stream list has the PID `pcr_pid`, and `video_pid` is `0x1011`, the PID of the video
stream, not `pcr_pid`. -/
theorem pmt_video_pid_counterexample :
    (deserialize StreamTypeCodes.standard TSDescriptorTagCodes.standard create
      (serialize (fun _ => 0) StreamTypeCodes.standard TSDescriptorTagCodes.standard
        separatePcr false false).1
      (serialize (fun _ => 0) StreamTypeCodes.standard TSDescriptorTagCodes.standard
        separatePcr false false).2).1 = true ∧
    (deserialize StreamTypeCodes.standard TSDescriptorTagCodes.standard create
      (serialize (fun _ => 0) StreamTypeCodes.standard TSDescriptorTagCodes.standard
        separatePcr false false).1
      (serialize (fun _ => 0) StreamTypeCodes.standard TSDescriptorTagCodes.standard
        separatePcr false false).2).2.video_pid = 0x1011 ∧
    (deserialize StreamTypeCodes.standard TSDescriptorTagCodes.standard create
      (serialize (fun _ => 0) StreamTypeCodes.standard TSDescriptorTagCodes.standard
        separatePcr false false).1
      (serialize (fun _ => 0) StreamTypeCodes.standard TSDescriptorTagCodes.standard
        separatePcr false false).2).2.pcr_pid = 0x1001 ∧
    (deserialize StreamTypeCodes.standard TSDescriptorTagCodes.standard create
      (serialize (fun _ => 0) StreamTypeCodes.standard TSDescriptorTagCodes.standard
        separatePcr false false).1
      (serialize (fun _ => 0) StreamTypeCodes.standard TSDescriptorTagCodes.standard
        separatePcr false false).2).2.pidList = separatePcr.pidList ∧
    (∀ e ∈ separatePcr.pidList, e.1 ≠ 0x1001) ∧
    sectionStreamTypes TSDescriptorTagCodes.standard create
      (serialize (fun _ => 0) StreamTypeCodes.standard TSDescriptorTagCodes.standard
        separatePcr false false).1
      (serialize (fun _ => 0) StreamTypeCodes.standard TSDescriptorTagCodes.standard
        separatePcr false false).2 = [0x1b, 0x81] := by
  refine ⟨by decide, by decide, by decide, by decide, by decide, by decide⟩

end TS_program_map_section

namespace MPLSParser

/-- C15 (amended). For every stream whose per-play-item index list is not
empty, `calcPlayItemID` returns a value in [0, number of play items - 1]; and
when every play item has a non-empty index, the starting timestamps are
nondecreasing in play item order and some play item starts at or before `pts`,
the value returned is the index of the last play item whose starting timestamp
does not exceed `pts`. -/
theorem calcPlayItemID_last (streamInfo : MPLSStreamInfo) (pts : Nat) :
    (streamInfo.m_index ≠ [] →
      0 ≤ calcPlayItemID streamInfo pts ∧
        calcPlayItemID streamInfo pts ≤ (streamInfo.m_index.length : Int) - 1) ∧
    ((∀ index ∈ streamInfo.m_index, index ≠ []) →
      (streamInfo.m_index.map (fun index => (startOf index).getD 0)).Pairwise (· ≤ ·) →
      (∃ index ∈ streamInfo.m_index, (startOf index).getD 0 ≤ pts) →
      ∃ r : Nat, calcPlayItemID streamInfo pts = (r : Int) ∧
        IsLastStarted streamInfo.m_index pts r) := by
  refine ⟨fun h => ?_, fun hne hsorted hsome => ?_⟩
  · exact calcPlayItemIDLoop_range pts _ _ 0 (by simp) (List.length_pos.2 h)
  · exact calcPlayItemIDLoop_last pts [] streamInfo.m_index hne hsorted (by simp) hsome

/-- The amended statement at three play items starting at 0, 100 and 200 and
`pts = 150`: the play item found is the second one. -/
theorem calcPlayItemID_last_witness :
    calcPlayItemID (streamWithIndex [[(0, ⟨0, 0⟩)], [(100, ⟨0, 0⟩)], [(200, ⟨0, 0⟩)]]) 150 = 1 ∧
    ∃ r : Nat,
      calcPlayItemID (streamWithIndex [[(0, ⟨0, 0⟩)], [(100, ⟨0, 0⟩)], [(200, ⟨0, 0⟩)]]) 150
          = (r : Int) ∧
        IsLastStarted [[(0, ⟨0, 0⟩)], [(100, ⟨0, 0⟩)], [(200, ⟨0, 0⟩)]] 150 r :=
  ⟨by decide,
    (calcPlayItemID_last
      (streamWithIndex [[(0, ⟨0, 0⟩)], [(100, ⟨0, 0⟩)], [(200, ⟨0, 0⟩)]]) 150).2
      (by decide) (by decide) ⟨[(0, ⟨0, 0⟩)], by decide, by decide⟩⟩

/-- C15 (as stated) fails: with the play items starting at 0, (empty index)
and 100, and `pts = 50`, the first play item starts at or before `pts` and is
the last one that does, but `calcPlayItemID` returns 1, the play item with the
empty index. -/
theorem calcPlayItemID_counterexample :
    (∃ index ∈ (streamWithIndex [[(0, ⟨0, 0⟩)], [], [(100, ⟨0, 0⟩)]]).m_index,
        ∃ s, startOf index = some s ∧ s ≤ 50) ∧
      IsLastStarted [[(0, ⟨0, 0⟩)], [], [(100, ⟨0, 0⟩)]] 50 0 ∧
      calcPlayItemID (streamWithIndex [[(0, ⟨0, 0⟩)], [], [(100, ⟨0, 0⟩)]]) 50 = 1 ∧
      ¬ IsLastStarted [[(0, ⟨0, 0⟩)], [], [(100, ⟨0, 0⟩)]] 50 1 := by
  refine ⟨⟨[(0, ⟨0, 0⟩)], by decide, 0, rfl, by decide⟩, ⟨⟨0, rfl, by decide⟩, ?_⟩, by decide, ?_⟩
  · intro j s hj h
    match j, hj with
    | 1, _ => cases h
    | 2, _ => cases h; decide
    | j + 3, _ => cases h
  · rintro ⟨⟨s, h, _⟩, _⟩
    cases h

end MPLSParser

namespace MPLSParser

open BitStreamWriter

/-- C14. With a main stream and the writer at a byte boundary,
`composePlayListMark` returns. When no explicit marks are set and the chapter
length is 0 it synthesizes the single mark at `IN_time`; when no explicit
marks are set, the chapter length is positive (a step of `chapterLen * 45000`
ticks) and no step from a mark before `OUT_time` overflows 32 bits, it
synthesizes exactly the marks `IN_time + k * step` for the `k ≥ 0` with that
value below `OUT_time`, in increasing order; with `IN_time = 0`,
`OUT_time = 4500000` and chapter length 10 these are the ten marks at
0, 450000, ..., 4050000; explicitly set marks are kept as they are. In every
case the block written holds exactly the resulting marks. -/
theorem composePlayListMark_marks (E : StreamTypeCodes) (self : MPLSParser) (w : BitStreamWriter)
    (streamInfo : MPLSStreamInfo) (hmain : getMainStream E self = .ok streamInfo)
    (hw : w.length % 8 = 0) :
    (self.m_marks = [] → self.m_chapterLen = 0 →
      composePlayListMark E self w
        = some (.ok ({ self with m_marks := [⟨-1, self.IN_time⟩] },
            w ++ playListMarkBits streamInfo [⟨-1, self.IN_time⟩]))) ∧
    (self.m_marks = [] → ∀ step : Nat, 0 < step → self.m_chapterLen * 45000 = (step : Int) →
      (∀ k, self.IN_time + k * step < self.OUT_time →
        self.IN_time + (k + 1) * step < 2 ^ 32) →
      ∃ n, (∀ k, k < n ↔ self.IN_time + k * step < self.OUT_time) ∧
        composePlayListMark E self w
          = some (.ok
              ({ self with
                  m_marks := (List.range n).map fun k => ⟨-1, self.IN_time + k * step⟩ },
                w ++ playListMarkBits streamInfo
                  ((List.range n).map fun k => ⟨-1, self.IN_time + k * step⟩)))) ∧
    (self.m_marks = [] → self.IN_time = 0 → self.OUT_time = 4500000 → self.m_chapterLen = 10 →
      composePlayListMark E self w
        = some (.ok ({ self with m_marks := tenMarks },
            w ++ playListMarkBits streamInfo tenMarks))) ∧
    (self.m_marks ≠ [] →
      composePlayListMark E self w
        = some (.ok (self, w ++ playListMarkBits streamInfo self.m_marks))) := by
  rw [composePlayListMark_eq E self w streamInfo hmain hw]
  refine ⟨fun hm hc => ?_, fun hm step hstep hc hov => ?_, fun hm hin hout hc => ?_, fun hm => ?_⟩
  · simp [marksToWrite, hm, hc]
  · refine ⟨_, chapter_count _ _ step hstep, ?_⟩
    rw [marksToWrite_chapters self step hm hstep hc hov]
    rfl
  · rw [marksToWrite_chapters self 450000 hm (by decide) (by rw [hc]; rfl)
      (by intro k hk; rw [hin, hout] at hk; rw [hin]; omega), hin, hout]
    rfl
  · have : self.m_marks.isEmpty = false := by
      cases h : self.m_marks with
      | nil => exact absurd h hm
      | cons a t => rfl
    simp [marksToWrite, this]

/-- C14 at the playlist of the example: one video stream, `IN_time = 0`,
`OUT_time = 4500000`, chapter length 10, no marks set, an empty writer. -/
theorem composePlayListMark_marks_witness :
    getMainStream StreamTypeCodes.standard (chapterSample 0 4500000 10)
        = .ok (MPLSStreamInfo.sampleVideo 1920 1080) ∧
      composePlayListMark StreamTypeCodes.standard (chapterSample 0 4500000 10) []
        = some (.ok ({ chapterSample 0 4500000 10 with m_marks := tenMarks },
            [] ++ playListMarkBits (MPLSStreamInfo.sampleVideo 1920 1080) tenMarks)) :=
  ⟨rfl,
    (composePlayListMark_marks StreamTypeCodes.standard (chapterSample 0 4500000 10) []
      (MPLSStreamInfo.sampleVideo 1920 1080) rfl (by decide)).2.2.1 rfl rfl rfl rfl⟩

end MPLSParser

namespace MPLSParser

open BitStreamWriter

/-- C16 (amended). For every stream list accepted by `composeSTN_table`
(`isSSEx = false`, writer at a byte boundary) that holds at most 255 streams
of each category, the eight count bytes written after the 4-byte
length/reserved prefix are, in order, the numbers of primary video, primary
audio and PG streams, 0, the numbers of secondary audio and secondary video
streams, 0 and the number of Dolby Vision video streams of the list, followed
by 4 zero bytes; the counter fields hold these numbers afterwards whatever
they held before, and the six numbers sum to the number of streams. -/
theorem composeSTN_table_counts (E : StreamTypeCodes) (self : MPLSParser)
    (w : BitStreamWriter) (r : MPLSParser × BitStreamWriter) (hw : w.length % 8 = 0)
    (h : composeSTN_table E self w false = .ok r)
    (h255 : primaryVideoCount E self.m_streamInfo ≤ 255 ∧
      primaryAudioCount E self.m_streamInfo ≤ 255 ∧ pgCount E self.m_streamInfo ≤ 255 ∧
      secondaryAudioCount E self.m_streamInfo ≤ 255 ∧
      secondaryVideoCount E self.m_streamInfo ≤ 255 ∧
      dolbyVisionCount E self.m_streamInfo ≤ 255) :
    ((bitsToBytes r.2).drop (w.length / 8 + 4)).take 12
      = [primaryVideoCount E self.m_streamInfo, primaryAudioCount E self.m_streamInfo,
          pgCount E self.m_streamInfo, 0, secondaryAudioCount E self.m_streamInfo,
          secondaryVideoCount E self.m_streamInfo, 0, dolbyVisionCount E self.m_streamInfo,
          0, 0, 0, 0] ∧
    (r.1.number_of_primary_video_stream_entries = primaryVideoCount E self.m_streamInfo ∧
      r.1.number_of_primary_audio_stream_entries = primaryAudioCount E self.m_streamInfo ∧
      r.1.number_of_PG_textST_stream_entries = pgCount E self.m_streamInfo ∧
      r.1.number_of_secondary_audio_stream_entries = secondaryAudioCount E self.m_streamInfo ∧
      r.1.number_of_secondary_video_stream_entries = secondaryVideoCount E self.m_streamInfo ∧
      r.1.number_of_DolbyVision_video_stream_entries
        = dolbyVisionCount E self.m_streamInfo) ∧
    primaryVideoCount E self.m_streamInfo + primaryAudioCount E self.m_streamInfo +
      pgCount E self.m_streamInfo + secondaryAudioCount E self.m_streamInfo +
      secondaryVideoCount E self.m_streamInfo + dolbyVisionCount E self.m_streamInfo
        = self.m_streamInfo.length := by
  obtain ⟨h1, h2, h3, h4, h5, h6⟩ := h255
  have hb := composeSTN_table_bytes E self w r hw h
  obtain ⟨self', out⟩ := r
  obtain ⟨hsup, hcnt, _⟩ := composeSTN_table_layout E self self' w out hw h
  refine ⟨?_, hcnt, counts_sum E _ hsup⟩
  rw [hb, Nat.mod_eq_of_lt (by omega), Nat.mod_eq_of_lt (by omega), Nat.mod_eq_of_lt (by omega),
    Nat.mod_eq_of_lt (by omega), Nat.mod_eq_of_lt (by omega), Nat.mod_eq_of_lt (by omega)]

/-- C16 at the stream list of the example, one primary video stream, two
primary audio streams and one PG stream: the list is accepted and the bytes
are 01 02 01 00 00 00 00 00 followed by 00 00 00 00. -/
theorem composeSTN_table_counts_witness :
    ∃ r, composeSTN_table StreamTypeCodes.standard stnSample [] false = .ok r ∧
      ((bitsToBytes r.2).drop 4).take 12 = [1, 2, 1, 0, 0, 0, 0, 0, 0, 0, 0, 0] := by
  obtain ⟨r, hr⟩ := composeSTN_table_accepts StreamTypeCodes.standard stnSample []
    (by decide) (by decide) (by decide)
  exact ⟨r, hr,
    (composeSTN_table_counts StreamTypeCodes.standard stnSample [] r (by decide) hr
      (by decide)).1⟩

/-- C16 (as stated) fails: a list of 256 primary audio streams is accepted,
and the primary audio count byte written is 0. -/
theorem composeSTN_table_counts_counterexample :
    ∃ r, composeSTN_table StreamTypeCodes.standard (manyAudio 256) [] false = .ok r ∧
      primaryAudioCount StreamTypeCodes.standard (manyAudio 256).m_streamInfo = 256 ∧
      ((bitsToBytes r.2).drop 4).take 12 = [0, 0, 0, 0, 0, 0, 0, 0, 0, 0, 0, 0] := by
  obtain ⟨r, hr⟩ := composeSTN_table_accepts StreamTypeCodes.standard (manyAudio 256) []
    (by decide) (manyAudio_supported 256) (manyAudio_entryType 256)
  refine ⟨r, hr, (manyAudio_counts 256).2.1, ?_⟩
  have hb := composeSTN_table_bytes StreamTypeCodes.standard (manyAudio 256) [] r (by decide) hr
  obtain ⟨c1, c2, c3, c4, c5, c6⟩ := manyAudio_counts 256
  rw [c1, c2, c3, c4, c5, c6] at hb
  exact hb

/-- C17 (amended). For every stream list that contains a stream whose coding
type is neither a video type, an audio type nor SUB_PGS, `composeSTN_table`
raises the fatal error before it writes a count byte or a stream entry: at
that moment the writer holds, behind its former contents, exactly the 4 zero
bytes of the length placeholder and of the flag word, and no length has been
backpatched. -/
theorem composeSTN_table_unsupported (E : StreamTypeCodes) (self : MPLSParser)
    (w : BitStreamWriter) (isSSEx : Bool)
    (h : ∃ i ∈ (if isSSEx then self.m_streamInfoMVC else self.m_streamInfo),
      ¬ (isVideoStreamType E i.stream_coding_type = true ∨
        isAudioStreamType E i.stream_coding_type = true ∨ i.stream_coding_type = E.SUB_PGS)) :
    composeSTN_table E self w isSSEx
      = .error (Exc.VodCoreException ErrMsg.emptyMessage, w ++ bytesToBits [0, 0, 0, 0]) :=
  composeSTN_table_error E self w isSSEx h

/-- C17 (amended) at a stream list that holds one IG stream only. -/
theorem composeSTN_table_unsupported_witness :
    (∃ i ∈ (if false then igOnly.m_streamInfoMVC else igOnly.m_streamInfo),
      ¬ (isVideoStreamType StreamTypeCodes.standard i.stream_coding_type = true ∨
        isAudioStreamType StreamTypeCodes.standard i.stream_coding_type = true ∨
        i.stream_coding_type = StreamTypeCodes.standard.SUB_PGS)) ∧
    composeSTN_table StreamTypeCodes.standard igOnly [] false
      = .error (Exc.VodCoreException ErrMsg.emptyMessage, [] ++ bytesToBits [0, 0, 0, 0]) :=
  ⟨by decide,
    composeSTN_table_unsupported StreamTypeCodes.standard igOnly [] false (by decide)⟩

/-- C17 (as stated) fails: for the stream list that holds one IG stream only,
`composeSTN_table` raises the fatal error with 4 bytes emitted to the writer,
which was empty. -/
theorem composeSTN_table_emitted_counterexample :
    ∃ writer, composeSTN_table StreamTypeCodes.standard igOnly [] false
        = .error (Exc.VodCoreException ErrMsg.emptyMessage, writer) ∧
      BitStreamWriter.bytes writer = [0, 0, 0, 0] ∧ getBitsCount writer / 8 = 4 :=
  ⟨bytesToBits [0, 0, 0, 0], rfl, by decide, by decide⟩

end MPLSParser

namespace MPLSParser

open BitStreamWriter

/-- C19. For every list of n extension blocks with 1 ≤ n ≤ 255, at a byte
boundary of the writer, `composeExtensionData` returns and writes the length
field, `data_block_start_address = 12 * (n + 1)`, three reserved bytes, the
count n, one entry (id1, id2, start, length) for each block in list order and
then the data of the blocks. The first block starts at
`data_block_start_address` and each block starts where the block before it
ends; the data of every block lies at its start address, counted in bytes
from the first byte of the length field; the length field holds the number of
bytes written minus 4. For an empty list only a zero 32-bit length is
written. -/
theorem composeExtensionData_layout (w : BitStreamWriter) (blocks : List ExtDataBlockInfo)
    (hw : w.length % 8 = 0) (h1 : 1 ≤ blocks.length) (h255 : blocks.length ≤ 255) :
    composeExtensionData w blocks
        = some (w ++
          (natBits 32 (8 + 12 * blocks.length + extDataSize blocks) ++
            natBits 32 (12 * (blocks.length + 1)) ++ natBits 24 0 ++ natBits 8 blocks.length ++
            extTableBits (12 * (blocks.length + 1)) blocks ++ extDataBits blocks)) ∧
      (natBits 32 (8 + 12 * blocks.length + extDataSize blocks) ++
          natBits 32 (12 * (blocks.length + 1)) ++ natBits 24 0 ++ natBits 8 blocks.length ++
          extTableBits (12 * (blocks.length + 1)) blocks ++ extDataBits blocks).length
        = 8 * (4 + (8 + 12 * blocks.length + extDataSize blocks)) ∧
      (∀ pre b post, blocks = pre ++ b :: post →
        (extStarts (12 * (blocks.length + 1)) blocks).getD pre.length 0
            = 12 * (blocks.length + 1) + extDataSize pre ∧
          ∃ H T : List Bool,
            natBits 32 (8 + 12 * blocks.length + extDataSize blocks) ++
                natBits 32 (12 * (blocks.length + 1)) ++ natBits 24 0 ++
                natBits 8 blocks.length ++
                extTableBits (12 * (blocks.length + 1)) blocks ++ extDataBits blocks
              = H ++ bytesToBits b.data ++ T ∧
            H.length = 8 * (12 * (blocks.length + 1) + extDataSize pre)) ∧
      composeExtensionData w [] = some (w ++ natBits 32 0) := by
  have hne : blocks ≠ [] := by
    intro h
    rw [h] at h1
    exact absurd h1 (by decide)
  have hemp : blocks.isEmpty = false := by
    cases blocks with
    | nil => exact absurd rfl hne
    | cons => rfl
  have hbits : extensionDataBits blocks
      = natBits 32 (8 + 12 * blocks.length + extDataSize blocks) ++
          natBits 32 (12 * (blocks.length + 1)) ++ natBits 24 0 ++ natBits 8 blocks.length ++
          extTableBits (12 * (blocks.length + 1)) blocks ++ extDataBits blocks := by
    simp only [extensionDataBits, hemp, Bool.false_eq_true, if_false]
  rw [← hbits]
  refine ⟨composeExtensionData_eq w blocks hw (by omega), extensionDataBits_length blocks hne,
    ?_, ?_⟩
  · intro pre b post hsplit
    subst hsplit
    exact ⟨extStarts_getD _ pre post b, extensionDataBits_data pre post b⟩
  · have := composeExtensionData_eq w [] hw (by decide)
    rw [this]
    rfl

set_option maxRecDepth 8000 in
/-- C19 at two blocks, (1, 1) with three data bytes and (2, 1) with two, on
an empty writer: `data_block_start_address` is 36, the blocks start at 36 and
39, the length field holds 37. -/
theorem composeExtensionData_layout_witness :
    composeExtensionData [] [⟨[1, 2, 3], 1, 1⟩, ⟨[4, 5], 2, 1⟩]
      = some (bytesToBits [0, 0, 0, 37, 0, 0, 0, 36, 0, 0, 0, 2,
          0, 1, 0, 1, 0, 0, 0, 36, 0, 0, 0, 3, 0, 2, 0, 1, 0, 0, 0, 39, 0, 0, 0, 2,
          1, 2, 3, 4, 5]) :=
  (composeExtensionData_layout [] [⟨[1, 2, 3], 1, 1⟩, ⟨[4, 5], 2, 1⟩] (by decide) (by decide)
    (by decide)).1.trans (by decide)

end MPLSParser

namespace CLPIParser

open BitStreamWriter

/-- C13. At a byte boundary of the writer, for a stream table in PID order:
when video streams qualify for the pass (the video streams other than
VIDEO_MVC in the normal pass, the VIDEO_MVC streams in the 3D-extension
pass), `composeEP_map` returns and lists exactly these, in PID order, with
`EP_stream_type` 1; when none qualifies it lists only the audio stream with
the least PID, with `EP_stream_type` 4 if that stream is flagged secondary
and 3 otherwise; and it raises the fatal error if and only if no video stream
qualifies and there is no audio stream. -/
theorem composeEP_map_selection (E : StreamTypeCodes) (self : CLPIParser)
    (w : BitStreamWriter) (isSSExt : Bool) (hw : w.length % 8 = 0)
    (hord : StdMap.Ordered self.m_streamInfo) :
    (epVideoStreams E self isSSExt ≠ [] →
      ∃ (addrs : List Nat) (rest : List Bool),
        addrs.length = (epVideoStreams E self isSSExt).length ∧
        composeEP_map E self w isSSExt
          = .ok (w ++ natBits 8 0 ++ natBits 8 (epVideoStreams E self isSSExt).length ++
              epListBits self 1 ((epVideoStreams E self isSSExt).zip addrs) ++ rest)) ∧
    (epVideoStreams E self isSSExt = [] →
      ∀ e ∈ self.m_streamInfo, isAudioStreamType E e.2.stream_coding_type = true →
        (∀ e' ∈ self.m_streamInfo, isAudioStreamType E e'.2.stream_coding_type = true →
          e.1 ≤ e'.1) →
        ∃ (addr : Nat) (rest : List Bool),
          composeEP_map E self w isSSExt
            = .ok (w ++ natBits 8 0 ++ natBits 8 1 ++
                epListBits self (if e.2.isSecondary then 4 else 3) [(e.2, addr)] ++ rest)) ∧
    (composeEP_map E self w isSSExt = .error (Exc.VodCoreException ErrMsg.cantCreateEPMap) ↔
      epVideoStreams E self isSSExt = [] ∧
        ∀ e ∈ self.m_streamInfo, isAudioStreamType E e.2.stream_coding_type = false) := by
  refine ⟨?_, ?_, ?_⟩
  · intro hv
    have hsel : selectEPStreams E self isSSExt = some (epVideoStreams E self isSSExt, 1) := by
      rw [selectEPStreams_eq, if_pos hv]
    obtain ⟨addrs, rest, hlen, heq⟩ :=
      composeEP_map_layout E self w isSSExt (epVideoStreams E self isSSExt) 1 hw hsel
    exact ⟨addrs, rest, hlen, heq⟩
  · intro hv e he ha hmin
    have hfind : self.m_streamInfo.find?
        (fun e => isAudioStreamType E e.2.stream_coding_type) = some e :=
      find?_least (fun e : Nat × CLPIStreamInfo => isAudioStreamType E e.2.stream_coding_type)
        self.m_streamInfo hord e he ha hmin
    have hsel : selectEPStreams E self isSSExt
        = some ([e.2], if e.2.isSecondary then 4 else 3) := by
      rw [selectEPStreams_eq, if_neg (by simpa using hv), hfind]
    obtain ⟨addrs, rest, hlen, heq⟩ :=
      composeEP_map_layout E self w isSSExt [e.2] (if e.2.isSecondary then 4 else 3) hw hsel
    cases addrs with
    | nil => cases hlen
    | cons addr t =>
      cases t with
      | nil => exact ⟨addr, rest, heq⟩
      | cons _ _ => simp at hlen
  · rw [← selectEPStreams_none, ← composeEP_map_error E self w isSSExt]
    constructor
    · intro h
      exact ⟨_, h⟩
    · rintro ⟨e, h⟩
      unfold composeEP_map at h ⊢
      cases hs : selectEPStreams E self isSSExt with
      | none => rfl
      | some r =>
        rw [hs] at h
        cases h

/-- C13 at a clip with a video stream on PID 0x1011 and an audio stream on
PID 0x1100, normal pass, on an empty writer: the video stream alone is
listed. -/
theorem composeEP_map_selection_witness :
    ∃ (addrs : List Nat) (rest : List Bool), addrs.length = 1 ∧
      composeEP_map StreamTypeCodes.standard
          (withStreams [(0x1011, CLPIStreamInfo.sampleVideo), (0x1100, CLPIStreamInfo.sampleAudio)])
          [] false
        = .ok ([] ++ natBits 8 0 ++ natBits 8 1 ++
            epListBits
              (withStreams
                [(0x1011, CLPIStreamInfo.sampleVideo), (0x1100, CLPIStreamInfo.sampleAudio)])
              1 ([CLPIStreamInfo.sampleVideo].zip addrs) ++ rest) :=
  (composeEP_map_selection StreamTypeCodes.standard
    (withStreams [(0x1011, CLPIStreamInfo.sampleVideo), (0x1100, CLPIStreamInfo.sampleAudio)])
    [] false (by decide) (by unfold StdMap.Ordered; decide)).1 (by decide)

end CLPIParser

namespace CLPIParser

open BitStreamWriter CLPIStreamInfo

/-- C9. For every successful `compose` the file written is a 40-byte header
with five start addresses, and at each of these addresses the 32-bit length
field of its block begins: SequenceInfo at byte 220, ProgramInfo at byte 248,
the block `composeCPI` writes at the third address, the zero length of
ClipMark at the fourth, and the block `composeExtentInfo` writes at the fifth.
The addresses are multiples of 4, strictly increasing in that order and
smaller than the returned length, so that the 32-bit header fields hold them
unreduced in every file shorter than 2^32 bytes; the returned length is the
size of the file and a multiple of 4, and ClipInfo, at byte 40, has the length
field 176. -/
theorem compose_start_addresses (E : StreamTypeCodes) (K : MuxConstants) (self : CLPIParser)
    (buffer : List Nat) (len : Nat) (h : compose E K self = .ok (buffer, len)) :
    ∃ (out : List Bool) (a3 a4 a5 vC vE : Nat) (XC XE : List Bool),
      buffer = bitsToBytes out ∧ out.length = 8 * len ∧ len % 4 = 0 ∧
      BlockAt out 0 (headerBits self.version_number 220 248 a3 a4 a5) ∧
      BlockAt out 40 (clipInfoBits self) ∧ BlockAt out 40 (natBits 32 176) ∧
      BlockAt out 220 (sequenceInfoBits K self) ∧
      BlockAt out 248 (natBits 32 ((programInfoBits E K self false).length / 8) ++
        programInfoBits E K self false) ∧
      BlockAt out a3 (natBits 32 vC ++ XC) ∧
      (∃ P3 : List Bool, P3.length = 8 * a3 ∧
        composeCPI E self P3 false = .ok (P3 ++ (natBits 32 vC ++ XC))) ∧
      BlockAt out a4 (natBits 32 0) ∧
      BlockAt out a5 (natBits 32 vE ++ XE) ∧
      (∃ P5 : List Bool, P5.length = 8 * a5 ∧
        composeExtentInfo E K self P5 = .ok (P5 ++ (natBits 32 vE ++ XE))) ∧
      (220 % 4 = 0 ∧ 248 % 4 = 0 ∧ a3 % 4 = 0 ∧ a4 % 4 = 0 ∧ a5 % 4 = 0) ∧
      (220 < 248 ∧ 248 < a3 ∧ a3 < a4 ∧ a4 < a5 ∧ a5 + 4 ≤ len) := by
  obtain ⟨out, hb, hr⟩ := compose_eq E K self _ h
  obtain ⟨a3, a4, a5, vC, vE, XC, padC, XE, padE, hout, ha3, ha4, ha5, m3, m4, hlen, htot,
    hcpi, hext, _, _⟩ := composeBits_layout E K self out hb
  have hge := programInfoBits_length_ge E K self
  have hpm := programInfoBits_length_mod E K self false
  injection hr with hbuf hl
  refine ⟨out, a3, a4, a5, vC, vE, XC, XE, hbuf, by omega, by omega, ?_, ?_, ?_, ?_, ?_, ?_,
    hcpi, ?_, ?_, hext, ⟨rfl, rfl, m3, m4, by omega⟩, ⟨by decide, by omega, by omega, by omega, by omega⟩⟩
  · exact ⟨[], _, hout, rfl⟩
  · exact ⟨headerBits self.version_number 220 248 a3 a4 a5, _, hout,
      by rw [headerBits_length]⟩
  · refine ⟨headerBits self.version_number 220 248 a3 a4 a5, ?_⟩
    apply Exists.intro
    constructor
    · rw [hout]
      simp only [clipInfoBits, List.append_assoc]
      rfl
    · rw [headerBits_length]
  · refine ⟨headerBits self.version_number 220 248 a3 a4 a5 ++ clipInfoBits self, ?_⟩
    apply Exists.intro
    constructor
    · rw [hout]; simp only [List.append_assoc]; rfl
    · simp only [List.length_append, headerBits_length, clipInfoBits_length]
  · refine ⟨headerBits self.version_number 220 248 a3 a4 a5 ++ (clipInfoBits self ++
      (sequenceInfoBits K self ++ natBits 16 0)), ?_⟩
    apply Exists.intro
    constructor
    · rw [hout]; simp only [List.append_assoc]; rfl
    · simp only [List.length_append, headerBits_length, clipInfoBits_length,
        sequenceInfoBits_length, natBits_length]
  · refine ⟨headerBits self.version_number 220 248 a3 a4 a5 ++ (clipInfoBits self ++
      (sequenceInfoBits K self ++ (natBits 16 0 ++
      ((natBits 32 ((programInfoBits E K self false).length / 8) ++
        programInfoBits E K self false) ++ natBits 16 0)))), ?_⟩
    apply Exists.intro
    constructor
    · rw [hout]; simp only [List.append_assoc]; rfl
    · simp only [List.length_append, headerBits_length, clipInfoBits_length,
        sequenceInfoBits_length, natBits_length]
      omega
  · refine ⟨headerBits self.version_number 220 248 a3 a4 a5 ++ (clipInfoBits self ++
      (sequenceInfoBits K self ++ (natBits 16 0 ++
      ((natBits 32 ((programInfoBits E K self false).length / 8) ++
        programInfoBits E K self false) ++ (natBits 16 0 ++
      ((natBits 32 vC ++ XC) ++ padC)))))), ?_⟩
    apply Exists.intro
    constructor
    · rw [hout]; simp only [List.append_assoc]; rfl
    · simp only [List.length_append, headerBits_length, clipInfoBits_length,
        sequenceInfoBits_length, natBits_length]
      omega
  · refine ⟨headerBits self.version_number 220 248 a3 a4 a5 ++ (clipInfoBits self ++
      (sequenceInfoBits K self ++ (natBits 16 0 ++
      ((natBits 32 ((programInfoBits E K self false).length / 8) ++
        programInfoBits E K self false) ++ (natBits 16 0 ++
      ((natBits 32 vC ++ XC) ++ (padC ++ natBits 32 0))))))), padE, ?_, ?_⟩
    · rw [hout]; simp only [List.append_assoc]
    · simp only [List.length_append, headerBits_length, clipInfoBits_length,
        sequenceInfoBits_length, natBits_length]
      omega

/-- C9 at a clip with a video stream and an audio stream: `compose` succeeds
and the start addresses have the stated properties. -/
theorem compose_start_addresses_witness :
    ∃ (buffer : List Nat) (len : Nat),
      compose StreamTypeCodes.standard MuxConstants.standard clipSample = .ok (buffer, len) ∧
      ∃ (out : List Bool) (a3 a4 a5 : Nat),
        buffer = bitsToBytes out ∧ out.length = 8 * len ∧ len % 4 = 0 ∧
        BlockAt out 0 (headerBits clipSample.version_number 220 248 a3 a4 a5) ∧
        BlockAt out 220 (sequenceInfoBits MuxConstants.standard clipSample) ∧
        (a3 % 4 = 0 ∧ a4 % 4 = 0 ∧ a5 % 4 = 0) ∧
        (248 < a3 ∧ a3 < a4 ∧ a4 < a5 ∧ a5 + 4 ≤ len) := by
  obtain ⟨out, hout⟩ := composeBits_clipSample
  have hc : compose StreamTypeCodes.standard MuxConstants.standard clipSample
      = .ok (bitsToBytes out, out.length / 8) := by
    unfold compose
    rw [hout]
    rfl
  obtain ⟨o, a3, a4, a5, _, _, _, _, h1, h2, h3, h4, _, _, h5, _, _, _, _, _, _, h6, h7⟩ :=
    compose_start_addresses StreamTypeCodes.standard MuxConstants.standard clipSample _ _ hc
  exact ⟨_, _, hc, o, a3, a4, a5, h1, h2, h3, h4, h5, ⟨h6.2.2.1, h6.2.2.2.1, h6.2.2.2.2⟩,
    ⟨h7.2.1, h7.2.2.1, h7.2.2.2.1, h7.2.2.2.2⟩⟩

end CLPIParser

namespace CLPIParser

open BitStreamWriter CLPIStreamInfo

/-- C7 (amended). For every `CLPIParser` state with `is_ATC_delta = 0`,
`application_type != 6` and a stream table from which `compose` can build the
EP maps it writes (a clip that is not a dependent view needs an audio stream
or a video stream other than VIDEO_MVC; a dependent view with interleave
information needs an audio stream or a VIDEO_MVC stream), with values in the
ranges of their C++ types and a composed file shorter than 2^32 bytes,
`compose` returns, and `parse` of the bytes it produced, into any object,
returns with the same `version_number`, `clip_stream_type`,
`application_type`, `TS_recording_rate`, `number_of_source_packets`,
`presentation_start_time` and `presentation_end_time`. -/
theorem parse_compose_clipInfo (E : StreamTypeCodes) (K : MuxConstants)
    (fresh : CLPIStreamInfo) (self p : CLPIParser)
    (hA : self.is_ATC_delta = false) (h6 : self.application_type ≠ 6)
    (hmain : self.isDependStream = false → HasEPStream E self false)
    (hdep : self.isDependStream = true → self.interleaveInfo ≠ [] → HasEPStream E self true)
    (hrange : ClipValuesInRange self)
    (hlen : ∀ buffer len, compose E K self = .ok (buffer, len) → len < 2 ^ 32) :
    ∃ buffer len q, compose E K self = .ok (buffer, len) ∧
      parse E fresh p buffer len = .ok q ∧
      q.version_number = self.version_number ∧
      q.clip_stream_type = self.clip_stream_type ∧
      q.application_type = self.application_type ∧
      q.TS_recording_rate = self.TS_recording_rate ∧
      q.number_of_source_packets = self.number_of_source_packets ∧
      q.presentation_start_time = self.presentation_start_time ∧
      q.presentation_end_time = self.presentation_end_time := by
  obtain ⟨out, hout⟩ := compose_total E K self hA h6 hmain hdep
  have hc : compose E K self = .ok (bitsToBytes out, out.length / 8) := by
    unfold compose
    rw [hout]
    rfl
  obtain ⟨⟨hvl, hvc⟩, h1, h2, h3, h4, h5, h7, hs⟩ := hrange
  obtain ⟨q, hq, hv, hf1, hf2, hf3, hf4, hf5, hf6⟩ :=
    parseBody_composeBits E K fresh self p out hout (hlen _ _ hc) hs
  refine ⟨_, _, q, hc, ?_, ?_, ?_, ?_, ?_, ?_, ?_, ?_⟩
  · unfold parse
    rw [hq]
  · rw [hv]
    exact str4_getD self.version_number hvl hvc
  · rw [hf1]; exact Nat.mod_eq_of_lt h1
  · rw [hf2]; exact Nat.mod_eq_of_lt h2
  · rw [hf3]; exact Nat.mod_eq_of_lt h3
  · rw [hf4]; exact Nat.mod_eq_of_lt h4
  · rw [hf5]; exact Nat.mod_eq_of_lt h5
  · rw [hf6]; exact Nat.mod_eq_of_lt h7

/-- The amended statement at a clip with an H.264 video stream and an AC-3
audio stream, parsed into a clip object without streams. -/
theorem parse_compose_clipInfo_witness :
    ∃ buffer len q,
      compose StreamTypeCodes.standard MuxConstants.standard clipSample = .ok (buffer, len) ∧
      parse StreamTypeCodes.standard CLPIStreamInfo.blank (withStreams []) buffer len = .ok q ∧
      q.version_number = clipSample.version_number ∧
      q.clip_stream_type = clipSample.clip_stream_type ∧
      q.application_type = clipSample.application_type ∧
      q.TS_recording_rate = clipSample.TS_recording_rate ∧
      q.number_of_source_packets = clipSample.number_of_source_packets ∧
      q.presentation_start_time = clipSample.presentation_start_time ∧
      q.presentation_end_time = clipSample.presentation_end_time :=
  parse_compose_clipInfo StreamTypeCodes.standard MuxConstants.standard CLPIStreamInfo.blank
    clipSample (withStreams []) rfl (by decide) (fun _ => by decide)
    (fun h => absurd h (by decide)) (by decide)
    (fun buffer len h => by
      obtain ⟨out, h1, h2⟩ := compose_eq _ _ _ _ h
      injection h2 with _ h3
      rw [h3]
      exact compose_clipSample_length out h1)

/-- C7 (as stated) fails: the clip `mvcOnly` has `is_ATC_delta = 0`,
`application_type != 6` and a video stream (a VIDEO_MVC stream), yet
`compose` ends with the exception "Can't create EP map. One audio or video
stream is needed." and produces no bytes that `parse` could read. -/
theorem compose_mvcOnly_counterexample :
    mvcOnly.is_ATC_delta = false ∧ mvcOnly.application_type ≠ 6 ∧
    (∃ e ∈ mvcOnly.m_streamInfo,
      isAudioStreamType StreamTypeCodes.standard e.2.stream_coding_type = true ∨
      isVideoStreamType StreamTypeCodes.standard e.2.stream_coding_type = true) ∧
    compose StreamTypeCodes.standard MuxConstants.standard mvcOnly
      = .error (Exc.VodCoreException ErrMsg.cantCreateEPMap) := by
  refine ⟨rfl, by decide, by decide, ?_⟩
  unfold compose
  rw [composeBits_cpi_error StreamTypeCodes.standard MuxConstants.standard mvcOnly _ rfl
    (by decide) composeCPI_mvcOnly]
  rfl

end CLPIParser

open BitStreamWriter

/-- C26. For every video stream, at a byte boundary of the writer,
`CLPIStreamInfo::composeStreamCodingInfo` writes its first HDR byte (byte 4 of
the block it appends) and `MPLSStreamInfo::composeStreamAttributes` writes its
first HDR byte (byte 3 of the block it appends) as 0x12 when `HDR & 18 != 0`,
as 0x22 when `HDR == 4`, and as 0 otherwise. -/
theorem hdr_first_byte (E : StreamTypeCodes) (si : CLPIStreamInfo) (msi : MPLSStreamInfo)
    (w : BitStreamWriter) (hw : w.length % 8 = 0)
    (hv : isVideoStreamType E si.stream_coding_type = true)
    (hvm : isVideoStreamType E msi.stream_coding_type = true) :
    ((si.composeStreamCodingInfo E w).take w.length = w ∧
      (bitsToBytes (si.composeStreamCodingInfo E w)).getD (w.length / 8 + 4) 0
        = if si.HDR &&& 18 ≠ 0 then 0x12 else if si.HDR = 4 then 0x22 else 0) ∧
    ∃ w', msi.composeStreamAttributes E w = .ok w' ∧ w'.take w.length = w ∧
      (bitsToBytes w').getD (w.length / 8 + 3) 0
        = if msi.HDR &&& 18 ≠ 0 then 0x12 else if msi.HDR = 4 then 0x22 else 0 := by
  obtain ⟨h1, h2, -⟩ := CLPIStreamInfo.composeStreamCodingInfo_hdr_bytes E si w hw hv
  obtain ⟨w', h3, h4, h5, -⟩ := MPLSStreamInfo.composeStreamAttributes_hdr_bytes E msi w hw hvm
  exact ⟨⟨h1, h2⟩, w', h3, h4, h5⟩

/-- Witness of C26: a Dolby Vision clip stream and an HDR10 playlist stream,
composed into an empty writer. -/
theorem hdr_first_byte_witness :
    (([] : BitStreamWriter).length % 8 = 0 ∧
     isVideoStreamType StreamTypeCodes.standard
       ({ CLPIStreamInfo.sampleVideo with HDR := 4 } : CLPIStreamInfo).stream_coding_type = true ∧
     isVideoStreamType StreamTypeCodes.standard
       ({ MPLSStreamInfo.sampleVideo 3840 2160 with HDR := 2 } : MPLSStreamInfo).stream_coding_type
         = true) ∧
    (bitsToBytes (({ CLPIStreamInfo.sampleVideo with HDR := 4 } : CLPIStreamInfo).composeStreamCodingInfo
        StreamTypeCodes.standard [])).getD 4 0 = 0x22 ∧
    ∃ w', ({ MPLSStreamInfo.sampleVideo 3840 2160 with HDR := 2 } : MPLSStreamInfo).composeStreamAttributes
        StreamTypeCodes.standard [] = .ok w' ∧ (bitsToBytes w').getD 3 0 = 0x12 :=
  have h := hdr_first_byte StreamTypeCodes.standard { CLPIStreamInfo.sampleVideo with HDR := 4 }
    { MPLSStreamInfo.sampleVideo 3840 2160 with HDR := 2 } [] rfl (by decide) (by decide)
  ⟨⟨rfl, by decide, by decide⟩, h.1.2, h.2.imp (fun _ hw => ⟨hw.1, hw.2.2⟩)⟩

/-- C27 (amended). For every video stream, at a byte boundary of the writer, the
second HDR byte is written as 0x80 by `composeStreamCodingInfo` (byte 5 of its
block) and as 0x40 by `composeStreamAttributes` (byte 4 of its block) exactly
when the HDR field equals 16; for every other HDR value, also one that has bit
16 set together with other bits, both write 0. -/
theorem hdr_second_byte (E : StreamTypeCodes) (si : CLPIStreamInfo) (msi : MPLSStreamInfo)
    (w : BitStreamWriter) (hw : w.length % 8 = 0)
    (hv : isVideoStreamType E si.stream_coding_type = true)
    (hvm : isVideoStreamType E msi.stream_coding_type = true) :
    ((si.composeStreamCodingInfo E w).take w.length = w ∧
      (bitsToBytes (si.composeStreamCodingInfo E w)).getD (w.length / 8 + 5) 0
        = if si.HDR = 16 then 0x80 else 0) ∧
    ∃ w', msi.composeStreamAttributes E w = .ok w' ∧ w'.take w.length = w ∧
      (bitsToBytes w').getD (w.length / 8 + 4) 0 = if msi.HDR = 16 then 0x40 else 0 := by
  obtain ⟨h1, -, h2⟩ := CLPIStreamInfo.composeStreamCodingInfo_hdr_bytes E si w hw hv
  obtain ⟨w', h3, h4, -, h5⟩ := MPLSStreamInfo.composeStreamAttributes_hdr_bytes E msi w hw hvm
  exact ⟨⟨h1, h2⟩, w', h3, h4, h5⟩

/-- Witness of C27 (amended): streams whose HDR field is 16. -/
theorem hdr_second_byte_witness :
    (([] : BitStreamWriter).length % 8 = 0 ∧
     isVideoStreamType StreamTypeCodes.standard
       ({ CLPIStreamInfo.sampleVideo with HDR := 16 } : CLPIStreamInfo).stream_coding_type = true ∧
     isVideoStreamType StreamTypeCodes.standard
       ({ MPLSStreamInfo.sampleVideo 3840 2160 with HDR := 16 } : MPLSStreamInfo).stream_coding_type
         = true) ∧
    (bitsToBytes (({ CLPIStreamInfo.sampleVideo with HDR := 16 } : CLPIStreamInfo).composeStreamCodingInfo
        StreamTypeCodes.standard [])).getD 5 0 = 0x80 ∧
    ∃ w', ({ MPLSStreamInfo.sampleVideo 3840 2160 with HDR := 16 } : MPLSStreamInfo).composeStreamAttributes
        StreamTypeCodes.standard [] = .ok w' ∧ (bitsToBytes w').getD 4 0 = 0x40 :=
  have h := hdr_second_byte StreamTypeCodes.standard { CLPIStreamInfo.sampleVideo with HDR := 16 }
    { MPLSStreamInfo.sampleVideo 3840 2160 with HDR := 16 } [] rfl (by decide) (by decide)
  ⟨⟨rfl, by decide, by decide⟩, h.1.2, h.2.imp (fun _ hw => ⟨hw.1, hw.2.2⟩)⟩

/-- Counterexample to C27 as stated: video streams whose HDR field is 18 (HDR10
together with HDR10+) have bit 16 set, and both functions write 0 as the second
HDR byte. -/
theorem hdr_second_byte_counterexample :
    (18 : Nat) &&& 16 ≠ 0 ∧
    isVideoStreamType StreamTypeCodes.standard
       ({ CLPIStreamInfo.sampleVideo with HDR := 18 } : CLPIStreamInfo).stream_coding_type = true ∧
    isVideoStreamType StreamTypeCodes.standard
       ({ MPLSStreamInfo.sampleVideo 3840 2160 with HDR := 18 } : MPLSStreamInfo).stream_coding_type
         = true ∧
    (bitsToBytes (({ CLPIStreamInfo.sampleVideo with HDR := 18 } : CLPIStreamInfo).composeStreamCodingInfo
        StreamTypeCodes.standard [])).getD 5 0 = 0 ∧
    ∃ w', ({ MPLSStreamInfo.sampleVideo 3840 2160 with HDR := 18 } : MPLSStreamInfo).composeStreamAttributes
        StreamTypeCodes.standard [] = .ok w' ∧ (bitsToBytes w').getD 4 0 = 0 :=
  have h1 := CLPIStreamInfo.composeStreamCodingInfo_hdr_bytes StreamTypeCodes.standard
    { CLPIStreamInfo.sampleVideo with HDR := 18 } [] rfl (by decide)
  have h2 := MPLSStreamInfo.composeStreamAttributes_hdr_bytes StreamTypeCodes.standard
    { MPLSStreamInfo.sampleVideo 3840 2160 with HDR := 18 } [] rfl (by decide)
  ⟨by decide, by decide, by decide, h1.2.2, h2.imp (fun _ hw => ⟨hw.1, hw.2.2.2⟩)⟩

namespace CLPIParser

open BitStreamWriter CLPIStreamInfo

/-- C25. `CLPIParser::compose` ends with one of the two fatal "not implemented"
errors of `composeClipInfo` if and only if `is_ATC_delta` is set or
`application_type` is 6. For every other value of the two fields
`composeClipInfo`, called at a byte boundary, completes: it appends its block
with the length field backpatched to 176, the number of bytes that follow the
field; and `compose` as a whole returns when the stream table holds a stream
that the EP map can be built from. -/
theorem compose_notImplemented_iff (E : StreamTypeCodes) (K : MuxConstants)
    (self : CLPIParser) :
    ((compose E K self = .error (Exc.VodCoreException ErrMsg.atcDeltaNotImplemented) ∨
      compose E K self = .error (Exc.VodCoreException ErrMsg.applicationType6NotImplemented))
      ↔ (self.is_ATC_delta = true ∨ self.application_type = 6)) ∧
    (∀ w : BitStreamWriter, w.length % 8 = 0 →
      self.is_ATC_delta = false → self.application_type ≠ 6 →
      ∃ body, composeClipInfo self w = .ok (w ++ (natBits 32 176 ++ body)) ∧
        body.length = 8 * 176) ∧
    (self.is_ATC_delta = false → self.application_type ≠ 6 →
      (self.isDependStream = false → HasEPStream E self false) →
      (self.isDependStream = true → self.interleaveInfo ≠ [] → HasEPStream E self true) →
      ∃ r, compose E K self = .ok r) := by
  refine ⟨⟨?_, ?_⟩, ?_, ?_⟩
  · intro h
    by_contra hn
    have hA : self.is_ATC_delta = false := by
      cases hd : self.is_ATC_delta
      · rfl
      · exact absurd (Or.inl hd) hn
    have h6 : self.application_type ≠ 6 := fun h6 => hn (Or.inr h6)
    rcases h with h | h
    · have := composeBits_error_msg E K self hA h6 _ ((compose_error E K self _).1 h)
      cases this
    · have := composeBits_error_msg E K self hA h6 _ ((compose_error E K self _).1 h)
      cases this
  · intro h
    cases hd : self.is_ATC_delta
    · rcases h with h | h
      · rw [hd] at h
        cases h
      · exact Or.inr ((compose_error E K self _).2 ((composeBits_flags_error E K self).2 hd h))
    · exact Or.inl ((compose_error E K self _).2 ((composeBits_flags_error E K self).1 hd))
  · intro w hw hA h6
    refine ⟨(natBits 16 0 ++ (natBits 8 self.clip_stream_type ++
      (natBits 8 self.application_type ++ (natBits 31 0 ++
      (natBits 1 (if self.is_ATC_delta then 1 else 0) ++ (natBits 32 self.TS_recording_rate ++
      (natBits 32 self.number_of_source_packets ++ (zeroFields 32 32 ++ tsTypeInfoBits)))))))),
      ?_, ?_⟩
    · rw [composeClipInfo_eq self w hw]
      simp only [hA, Bool.false_eq_true, if_false, if_neg h6, clipInfoBits]
    · have := clipInfoBits_length self
      simp only [clipInfoBits, List.length_append, natBits_length] at this ⊢
      omega
  · intro hA h6 hmain hdep
    obtain ⟨out, hout⟩ := compose_total E K self hA h6 hmain hdep
    refine ⟨(BitStreamWriter.bytes out, getBitsCount out / 8), ?_⟩
    unfold compose
    rw [hout]
    rfl

/-- Witness of C25: the sample clip with a video and an audio stream is
composed; its clip info block is appended to an empty writer. -/
theorem compose_notImplemented_iff_witness :
    (([] : BitStreamWriter).length % 8 = 0 ∧ clipSample.is_ATC_delta = false ∧
      clipSample.application_type ≠ 6) ∧
    (∃ body, composeClipInfo clipSample [] = .ok ([] ++ (natBits 32 176 ++ body)) ∧
      body.length = 8 * 176) ∧
    (∃ r, compose StreamTypeCodes.standard MuxConstants.standard clipSample = .ok r) ∧
    ¬ (compose StreamTypeCodes.standard MuxConstants.standard clipSample
        = .error (Exc.VodCoreException ErrMsg.atcDeltaNotImplemented) ∨
       compose StreamTypeCodes.standard MuxConstants.standard clipSample
        = .error (Exc.VodCoreException ErrMsg.applicationType6NotImplemented)) :=
  have h := compose_notImplemented_iff StreamTypeCodes.standard MuxConstants.standard clipSample
  ⟨⟨rfl, rfl, by decide⟩, h.2.1 [] rfl rfl (by decide),
    h.2.2 rfl (by decide) (fun _ => by decide) (fun h => by cases h),
    fun hc => absurd (h.1.1 hc) (by decide)⟩

end CLPIParser

namespace TS_program_association_section

open BitStreamWriter

/-- C22 (amended). The bytes produced by `serialize` do not depend on
`m_nitPID`, and for every table (transport stream id below 2^16, PIDs up to
0x1FFF mapped to program numbers in 1..0xFFFF, at most 1021 programs)
`deserialize` of these bytes returns true with `m_nitPID = -1`, whatever NIT
PID the table carried: the NIT PID is kept only when the table carries none. -/
theorem pat_nitPID_after_roundtrip (calculateCRC32 : List Nat → Nat)
    (pat self0 : TS_program_association_section)
    (hts : pat.transport_stream_id < 2 ^ 16)
    (hord : StdMap.Ordered pat.pmtPids)
    (hr : ∀ e ∈ pat.pmtPids, e.1 ≤ 0x1FFF ∧ 1 ≤ e.2 ∧ e.2 ≤ 0xFFFF)
    (hn : pat.pmtPids.length ≤ 1021) :
    (∀ nit : Int, serialize calculateCRC32 { pat with m_nitPID := nit }
      = serialize calculateCRC32 pat) ∧
    ∃ q, self0.deserialize (serialize calculateCRC32 pat).1 (serialize calculateCRC32 pat).2
        = .ok (true, q) ∧
      q.m_nitPID = -1 ∧ (q.m_nitPID = pat.m_nitPID ↔ pat.m_nitPID = -1) := by
  refine ⟨fun nit => serialize_nitPID calculateCRC32 pat nit, _,
    deserialize_serialize_ok calculateCRC32 pat self0 hts hord hr hn, rfl, ?_⟩
  exact ⟨fun h => h.symm, fun h => h.symm⟩

/-- Witness of C22 (amended): a table with one program and the NIT PID 0x10. -/
theorem pat_nitPID_after_roundtrip_witness :
    ((0x1234 : Nat) < 2 ^ 16 ∧ StdMap.Ordered [((0x100 : Nat), (1 : Nat))] ∧
      [((0x100 : Nat), (1 : Nat))].length ≤ 1021) ∧
    ∃ q, (⟨0, -1, []⟩ : TS_program_association_section).deserialize
        (serialize (fun _ => 0) ⟨0x1234, 0x10, [(0x100, 1)]⟩).1
        (serialize (fun _ => 0) ⟨0x1234, 0x10, [(0x100, 1)]⟩).2 = .ok (true, q) ∧
      q.m_nitPID = -1 :=
  have h := pat_nitPID_after_roundtrip (fun _ => 0) ⟨0x1234, 0x10, [(0x100, 1)]⟩ ⟨0, -1, []⟩
    (by decide) (by simp [StdMap.Ordered]) (by simp) (by simp)
  ⟨⟨by decide, by simp [StdMap.Ordered], by simp⟩,
    h.2.imp (fun _ hq => ⟨hq.1, hq.2.1⟩)⟩

/-- Counterexample to C22 as stated: the table with one program and the NIT PID
0x10 (in 0..0x1FFF) is serialized and deserialized into a table that carries no
NIT PID. -/
theorem pat_nitPID_counterexample :
    (0 ≤ (⟨0x1234, 0x10, [(0x100, 1)]⟩ : TS_program_association_section).m_nitPID ∧
      (⟨0x1234, 0x10, [(0x100, 1)]⟩ : TS_program_association_section).m_nitPID ≤ 0x1FFF) ∧
    ∃ q, (⟨0, -1, []⟩ : TS_program_association_section).deserialize
        (serialize (fun _ => 0) ⟨0x1234, 0x10, [(0x100, 1)]⟩).1
        (serialize (fun _ => 0) ⟨0x1234, 0x10, [(0x100, 1)]⟩).2 = .ok (true, q) ∧
      q.m_nitPID ≠ (⟨0x1234, 0x10, [(0x100, 1)]⟩ : TS_program_association_section).m_nitPID :=
  ⟨⟨by decide, by decide⟩, _,
    deserialize_serialize_ok (fun _ => 0) ⟨0x1234, 0x10, [(0x100, 1)]⟩ ⟨0, -1, []⟩
      (by decide) (by simp [StdMap.Ordered]) (by simp) (by simp), by decide⟩

/-- C23 (code evaluated at failing inputs). The four bytes pointer field,
table id 0, 0xB0, 0x0D (syntax indicator 2, section length 13), handed to
`deserialize` with `buf_size = 3`, are a valid PAT header cut off behind the
section length; the read of `transport_stream_id` runs past the end of the
buffer and the reader's exception leaves `deserialize`: the function does not
return false. The same happens when the section is cut off inside its first
program entry (`buf_size = 10`). -/
theorem pat_deserialize_truncated (self : TS_program_association_section) :
    self.deserialize [0x00, 0x00, 0xB0, 0x0D] 3 = .error Exc.BitStreamException ∧
    self.deserialize [0x00, 0x00, 0xB0, 0x0D, 0x12, 0x34, 0xC1, 0x00, 0x00, 0x00, 0x01] 10
      = .error Exc.BitStreamException :=
  ⟨rfl, rfl⟩

end TS_program_association_section

namespace TS_program_map_section

/-- C21 (code evaluated at failing inputs). A table with the CA system id
0x1234 and the CA PID 0x1FFF is serialized and read back, by a freshly
constructed object, as a table with the CA system id 0x1234 and the CA PID
0x0FFF; the CA PID 0x1000 is read back as 0: `extractPMTDescriptors` keeps the
low 12 bits of the 13-bit PID. The CA PID 0x0FFF is read back unchanged. -/
theorem pmt_casPID_roundtrip_eval :
    ((readSection create (withCas 0x1234 0x1FFF)).1 = true ∧
      (readSection create (withCas 0x1234 0x1FFF)).2.casID = 0x1234 ∧
      (readSection create (withCas 0x1234 0x1FFF)).2.casPID = 0x0FFF) ∧
    ((readSection create (withCas 0x1234 0x1000)).1 = true ∧
      (readSection create (withCas 0x1234 0x1000)).2.casID = 0x1234 ∧
      (readSection create (withCas 0x1234 0x1000)).2.casPID = 0) ∧
    ((readSection create (withCas 0x1234 0x0FFF)).1 = true ∧
      (readSection create (withCas 0x1234 0x0FFF)).2.casID = 0x1234 ∧
      (readSection create (withCas 0x1234 0x0FFF)).2.casPID = 0x0FFF) := by
  decide

/-- C30 (code evaluated at the failing input). An object that has parsed a
section with an audio and a subtitle stream and then parses a section that
lists one video stream returns true and holds three streams in `pidList`, the
audio PID and type and the subtitle PID of the first section; a freshly
constructed object that parses the second section holds the video stream only,
`audio_pid = 0`, `sub_pid = 0` and `audio_type = -1`. -/
theorem pmt_deserialize_keeps_prior_state :
    (readSection create audioAndSubtitle).1 = true ∧
    (readSection (readSection create audioAndSubtitle).2 videoOnly).1 = true ∧
    (readSection (readSection create audioAndSubtitle).2 videoOnly).2.pidList
      = [(0x1011, ⟨0x1b, 0x1011, [], 0, [0, 0, 0, 0]⟩),
         (0x1100, ⟨0x81, 0x1100, [], 0, [101, 110, 103, 0]⟩),
         (0x1200, ⟨0x06, 0x1200, [], 0, [0, 0, 0, 0]⟩)] ∧
    (readSection (readSection create audioAndSubtitle).2 videoOnly).2.audio_pid = 0x1100 ∧
    (readSection (readSection create audioAndSubtitle).2 videoOnly).2.audio_type = 0x81 ∧
    (readSection (readSection create audioAndSubtitle).2 videoOnly).2.sub_pid = 0x1200 ∧
    (readSection create videoOnly).1 = true ∧
    (readSection create videoOnly).2.pidList
      = [(0x1011, ⟨0x1b, 0x1011, [], 0, [0, 0, 0, 0]⟩)] ∧
    (readSection create videoOnly).2.audio_pid = 0 ∧
    (readSection create videoOnly).2.audio_type = -1 ∧
    (readSection create videoOnly).2.sub_pid = 0 ∧
    readSection (readSection create audioAndSubtitle).2 videoOnly
      ≠ readSection create videoOnly := by
  decide

end TS_program_map_section

namespace TS_program_map_section

open BitStreamWriter

/-- C24. For every table whose streams (PIDs up to 0x1FFF in ascending order,
one-byte stream types) carry sequences of well-formed (tag, length, payload)
descriptors with arbitrary tags as their descriptor areas, each area shorter
than 4096 bytes and the section length within its 12-bit field, `deserialize`
of the section `serialize` writes returns true. Every descriptor is stepped
over by its length: `pidList` holds exactly the streams of the section, each
under its PID with its stream type and PID (`ReadAs`); a stream without a
descriptor of the language tag keeps the empty language; and when the language
descriptors have at least three payload bytes the recorded streams are a
function of the language descriptors alone (the first three payload bytes of
the last one), so the result is the same as for the section without the
descriptors of other tags. -/
theorem pmt_unknown_descriptors_skipped (calculateCRC32 : List Nat → Nat)
    (E : StreamTypeCodes) (T : TSDescriptorTagCodes) (pmt : TS_program_map_section)
    (entries : List (Nat × Nat × List (Nat × List Nat))) (hdmvDescriptors : Bool)
    (hpn : pmt.program_number < 2 ^ 16) (hpcr : pmt.pcr_pid ≤ 0x1FFF)
    (hv : pmt.video_pid = 0) (ha : pmt.audio_pid = 0) (hs : pmt.sub_pid = 0)
    (hlist : pmt.pidList = pidListOf entries)
    (hord : (entries.map Prod.fst).Pairwise (· < ·))
    (hent : ∀ e ∈ entries, e.1 ≤ 0x1FFF ∧ e.2.1 < 256 ∧ WellFormedDescriptors e.2.2 ∧
      (descrBytes e.2.2).length < 4096)
    (hsz : (serialize calculateCRC32 E T pmt false hdmvDescriptors).2 - 4 < 2 ^ 12) :
    ∃ out, deserialize E T create (serialize calculateCRC32 E T pmt false hdmvDescriptors).1
        (serialize calculateCRC32 E T pmt false hdmvDescriptors).2 = (true, out) ∧
      List.Forall₂ (ReadAs T) entries out.pidList ∧
      ((∀ e ∈ entries, ∀ d ∈ e.2.2, d.1 = T.LANG → 3 ≤ d.2.length) →
        out.pidList = entries.map (fun e => (e.1, ⟨e.2.1, e.1, [], 0,
          langAfter T (e.2.2.filter (fun d => decide (d.1 = T.LANG))) [0, 0, 0, 0]⟩))) := by
  obtain ⟨out, h1, h2, _, _⟩ := deserialize_serialize_raw calculateCRC32 E T pmt entries
    hdmvDescriptors hpn hpcr hv ha hs hlist hord hent hsz
  exact ⟨out, h1, h2, forall2_readAs_eq T entries out.pidList h2⟩

/-- Witness of C24: the section of `describedTable`, whose streams carry
descriptors with the tags 0x28, 0x05, 0x0A and 0x81, is read back as the video
stream without language and the audio stream with the language "eng". -/
theorem pmt_unknown_descriptors_skipped_witness :
    ∃ out, deserialize StreamTypeCodes.standard TSDescriptorTagCodes.standard create
        (serialize (fun _ => 0) StreamTypeCodes.standard TSDescriptorTagCodes.standard
          describedTable false false).1
        (serialize (fun _ => 0) StreamTypeCodes.standard TSDescriptorTagCodes.standard
          describedTable false false).2 = (true, out) ∧
      out.pidList = [(0x1011, ⟨0x1b, 0x1011, [], 0, [0, 0, 0, 0]⟩),
                     (0x1100, ⟨0x81, 0x1100, [], 0, [101, 110, 103, 0]⟩)] := by
  obtain ⟨out, h1, _, h3⟩ := pmt_unknown_descriptors_skipped (fun _ => 0)
    StreamTypeCodes.standard TSDescriptorTagCodes.standard describedTable describedEntries false
    (by decide) (by decide) rfl rfl rfl rfl (by decide) (by decide) (by decide)
  exact ⟨out, h1, by rw [h3 (by decide)]; decide⟩

end TS_program_map_section

namespace MPLSParser

open BitStreamWriter

/-- C28 (amended). `MPLSParser::compose` has no handler: the fatal error of a
missing main stream, the fatal error of a stream of unsupported type in the
STN classification, and every other exception of `composePlayList` leave
`compose`. `composeSTN_tableSS` and `composeSubPathEntryExtension` catch every
exception of their body: with the MVC stream missing both return 0, with a
stream of unsupported type in the MVC stream list `composeSTN_tableSS` returns
0, and the extension data block of `compose` ends with an exception only when
the main stream is missing. -/
theorem compose_error_propagation (E : StreamTypeCodes) (M : PIPMethods) (X : MPLSEnv)
    (self : MPLSParser) (dtIsBluray : Bool) :
    (∀ e, getMainStream E self = .error e →
      ∃ w, compose E M X self dtIsBluray = some (.error (e, w))) ∧
    (∀ main, getMainStream E self = .ok main → main.m_index ≠ [] →
      (∃ i ∈ self.m_streamInfo, ¬ Supported E i) →
      ∃ w, compose E M X self dtIsBluray
        = some (.error (Exc.VodCoreException ErrMsg.emptyMessage, w))) ∧
    (∀ e, (∀ w, ∃ w', composePlayList E X (countSubPaths E self) w = .error (e, w')) →
      ∃ w, compose E M X self dtIsBluray = some (.error (e, w))) ∧
    (∀ e, getMVCDependStream E self = .error e →
      (composeSTN_tableSS E self).2.2 = 0 ∧ (composeSubPathEntryExtension E X self).2 = 0) ∧
    (∀ s, getMVCDependStream E self = .ok s → s.m_index ≠ [] →
      (∃ i ∈ self.m_streamInfoMVC, ¬ Supported E i) → (composeSTN_tableSS E self).2.2 = 0) ∧
    (∀ w e, composeExtension E M X self w = some (.error e) →
      getMainStream E self = .error e.1) := by
  have hk := countSubPaths_keeps E self
  refine ⟨?_, ?_, compose_playList_error E M X self dtIsBluray, ?_, ?_, ?_⟩
  · intro e he
    refine compose_playList_error E M X self dtIsBluray e (fun w => ?_)
    exact ⟨_, composePlayList_mainStream_missing E X _ w e
      ((getMainStream_congr E _ _ hk.1).trans he)⟩
  · intro main hmain hidx hun
    refine compose_playList_error E M X self dtIsBluray _ (fun w => ?_)
    exact composePlayList_unsupported E X _ w main
      ((getMainStream_congr E _ _ hk.1).trans hmain) hidx (by rw [hk.1]; exact hun)
  · intro e he
    exact ⟨by rw [composeSTN_tableSS_mvc_missing E self e he],
      composeSubPathEntryExtension_mvc_missing E X self e he⟩
  · intro s hs hidx hun
    exact composeSTN_tableSS_unsupported E self s hs hidx hun
  · intro w e he
    exact composeExtension_error E M X self w e he

/-- Witness of C28 (amended): a playlist without streams, whose missing main
stream ends `compose`, and a stereoscopic playlist without MVC stream, for
which `composeSTN_tableSS` and `composeSubPathEntryExtension` return 0. -/
theorem compose_error_propagation_witness :
    (getMainStream StreamTypeCodes.standard create
        = .error (Exc.VodCoreException ErrMsg.cantFindStreamIndex) ∧
      ∃ w, compose StreamTypeCodes.standard PIPMethods.unscaled MPLSEnv.standard create true
        = some (.error (Exc.VodCoreException ErrMsg.cantFindStreamIndex, w))) ∧
    (getMVCDependStream StreamTypeCodes.standard noMvcSample
        = .error (Exc.VodCoreException ErrMsg.cantFindStreamIndex) ∧
      (composeSTN_tableSS StreamTypeCodes.standard noMvcSample).2.2 = 0 ∧
      (composeSubPathEntryExtension StreamTypeCodes.standard MPLSEnv.standard noMvcSample).2
        = 0) :=
  ⟨⟨rfl, (compose_error_propagation StreamTypeCodes.standard PIPMethods.unscaled
      MPLSEnv.standard create true).1 _ rfl⟩,
    ⟨rfl, (compose_error_propagation StreamTypeCodes.standard PIPMethods.unscaled
      MPLSEnv.standard noMvcSample true).2.2.2.1 _ rfl⟩⟩

/-- Counterexample to C28 as stated: for the stereoscopic playlist without MVC
stream `getMVCDependStream` raises the fatal error, `composeSTN_tableSS` and
`composeSubPathEntryExtension` return 0, and `compose` returns 190 bytes of
output, with an extension data table of two entries of length 0. -/
theorem compose_catch_counterexample :
    getMVCDependStream StreamTypeCodes.standard noMvcSample
      = .error (Exc.VodCoreException ErrMsg.cantFindStreamIndex) ∧
    (composeSTN_tableSS StreamTypeCodes.standard noMvcSample).2.2 = 0 ∧
    (composeSubPathEntryExtension StreamTypeCodes.standard MPLSEnv.standard noMvcSample).2 = 0 ∧
    (composeOutput (compose StreamTypeCodes.standard PIPMethods.unscaled MPLSEnv.standard
      noMvcSample true)).map (fun o => (o.2, o.1.drop 162))
      = some (190, [0, 0, 0, 2, 0, 2, 0, 1, 0, 0, 0, 36, 0, 0, 0, 0,
                    0, 2, 0, 2, 0, 0, 0, 36, 0, 0, 0, 0]) :=
  ⟨rfl,
    by rw [composeSTN_tableSS_mvc_missing StreamTypeCodes.standard noMvcSample
      (Exc.VodCoreException ErrMsg.cantFindStreamIndex) rfl],
    composeSubPathEntryExtension_mvc_missing StreamTypeCodes.standard MPLSEnv.standard
      noMvcSample (Exc.VodCoreException ErrMsg.cantFindStreamIndex) rfl,
    by decide!⟩

/-- C29 (code evaluated at the failing input). Every call of `compose` adds
the number of sub path streams to `number_of_SubPaths`. For the playlist with
an HDR10 base stream and a Dolby Vision stream the first `compose` returns 214
bytes with `number_of_SubPaths = 1` in bytes 66 and 67 and leaves
`number_of_SubPaths = 1` in the object; the second `compose` on the same
object returns 254 bytes with `number_of_SubPaths = 2`. -/
theorem compose_twice_eval :
    (∀ (E : StreamTypeCodes) (self : MPLSParser),
      (countSubPaths E self).number_of_SubPaths
        = self.number_of_SubPaths + subPathStreams E self.m_streamInfo) ∧
    (composeOutput (compose StreamTypeCodes.standard PIPMethods.unscaled MPLSEnv.standard
      dolbyVisionSample true)).map (fun o => (o.2, o.1.getD 66 0, o.1.getD 67 0))
      = some (214, 0, 1) ∧
    (composeState (compose StreamTypeCodes.standard PIPMethods.unscaled MPLSEnv.standard
      dolbyVisionSample true)).map (fun s => s.number_of_SubPaths) = some 1 ∧
    (composeOutput (composeAgain StreamTypeCodes.standard PIPMethods.unscaled MPLSEnv.standard
      dolbyVisionSample true)).map (fun o => (o.2, o.1.getD 66 0, o.1.getD 67 0))
      = some (254, 0, 2) :=
  ⟨countSubPaths_number, by decide!, by decide!, by decide!⟩

end MPLSParser

namespace CLPIParser

open BitStreamWriter

/-- C31: for a positive frame length L, the endCode of a fine EP entry of 4K-class video is
min(7, floor(L / T) + 1) with T = 6 * 2^17 (the thresholds are k * 6 * 2^17, k = 1..6), and
the endCode of other video is 1 plus the number of the thresholds 1 * 2^17, 2 * 2^17,
3 * 2^17, 4.5 * 2^17, 7 * 2^17 and 10 * 2^17 that are at most L. -/
theorem endCode_ladder (L : Int) (hL : 0 < L) :
    endCode true L = min 7 (L.toNat / (6 * 2 ^ 17) + 1) ∧
    endCode false L
      = 1 + ([131072, 262144, 393216, 589824, 917504, 1310720].filter
          (fun T : Int => T ≤ L)).length := by
  have hpos : L > 0 := hL
  constructor
  · simp only [endCode, if_pos hpos, if_true]
    split_ifs <;> omega
  · simp only [endCode, if_pos hpos, Bool.false_eq_true, if_false]
    split_ifs <;>
      (first | (have a1 : (131072 : Int) ≤ L := by omega) | (have a1 : ¬ (131072 : Int) ≤ L := by omega)) <;>
      (first | (have a2 : (262144 : Int) ≤ L := by omega) | (have a2 : ¬ (262144 : Int) ≤ L := by omega)) <;>
      (first | (have a3 : (393216 : Int) ≤ L := by omega) | (have a3 : ¬ (393216 : Int) ≤ L := by omega)) <;>
      (first | (have a4 : (589824 : Int) ≤ L := by omega) | (have a4 : ¬ (589824 : Int) ≤ L := by omega)) <;>
      (first | (have a5 : (917504 : Int) ≤ L := by omega) | (have a5 : ¬ (917504 : Int) ≤ L := by omega)) <;>
      (first | (have a6 : (1310720 : Int) ≤ L := by omega) | (have a6 : ¬ (1310720 : Int) ≤ L := by omega)) <;>
      simp only [List.filter_cons, List.filter_nil, decide_eq_true_eq, a1, a2, a3, a4, a5, a6,
        if_true, if_false, not_true_eq_false, not_false_eq_true] <;>
      rfl

/-- Witness of C31: a frame of 600000 bytes. -/
theorem endCode_ladder_witness :
    endCode true 600000 = min 7 ((600000 : Int).toNat / (6 * 2 ^ 17) + 1) ∧
    endCode false 600000
      = 1 + ([131072, 262144, 393216, 589824, 917504, 1310720].filter
          (fun T : Int => T ≤ 600000)).length :=
  endCode_ladder 600000 (by decide)

/-- Counterexample of C31: for video that is not 4K a frame of 2^17 bytes gets the endCode 2,
not min(7, floor(L / (2 * 2^17)) + 1) = 1; a frame of 12 * 2^17 bytes gets 7 in both. -/
theorem endCode_ladder_counterexample :
    endCode false 131072 = 2 ∧ min 7 ((131072 : Int).toNat / (2 * 2 ^ 17) + 1) = 1 ∧
    ¬ ∀ L : Int, 0 < L → endCode false L = min 7 (L.toNat / (2 * 2 ^ 17) + 1) := by
  refine ⟨by decide, by decide, ?_⟩
  intro h
  have := h 131072 (by decide)
  revert this
  decide

end CLPIParser

namespace MPLSParser

open BitStreamWriter

/-- C39: for a stream of two play items whose second item starts at the time stamp 2^32,
`composePlayItem` writes 0x80000000 as OUT_time of item 0 and 0 as IN_time of item 1, and
`composeSubPlayItem` writes 0x80000000 as IN_time of sub play item 1 and 0 as its
sync_start_PTS_of_PlayItem: the two values of a pair are not the same. -/
theorem composePlayItem_times_differ :
    field32 (playItemBytes StreamTypeCodes.standard MPLSEnv.standard (twoItemSample (2 ^ 32)) 0
      (twoItems (2 ^ 32))) 18 = [0x80, 0, 0, 0] ∧
    field32 (playItemBytes StreamTypeCodes.standard MPLSEnv.standard (twoItemSample (2 ^ 32)) 1
      (twoItems (2 ^ 32))) 14 = [0, 0, 0, 0] ∧
    field32 (bytes (composeSubPlayItem MPLSEnv.standard (twoItemSample (2 ^ 32)) [] 1
      (twoItems (2 ^ 32)))) 16 = [0x80, 0, 0, 0] ∧
    field32 (bytes (composeSubPlayItem MPLSEnv.standard (twoItemSample (2 ^ 32)) [] 1
      (twoItems (2 ^ 32)))) 26 = [0, 0, 0, 0] := by
  refine ⟨?_, ?_, ?_, ?_⟩ <;> decide!

/-- C40: with IN_time = 0, OUT_time = 2^32 - 1 and a chapter length of one second the
chapter-synthesis loop of `composePlayListMark` does not end: no number of rounds ends it,
since the 32-bit counter stays a multiple of 8 and so stays below OUT_time; and
`composePlayListMark` does not return. -/
theorem synthesizeMarks_never_ends :
    (∀ fuel, synthesizeMarks 1 (2 ^ 32 - 1) fuel 0 = none) ∧
    ∀ writer : BitStreamWriter,
      composePlayListMark StreamTypeCodes.standard (chapterSample 0 (2 ^ 32 - 1) 1) writer
        = none := by
  have h := synthesizeMarks_stuck 1 (2 ^ 32 - 1) (by decide)
  have h0 := synthesizeMarks_stuck 1 4294967295 (by decide) 4294967297 0 (by decide) (by decide)
  refine ⟨fun fuel => h fuel 0 (by decide) (by decide), fun writer => ?_⟩
  have hm : getMainStream StreamTypeCodes.standard (chapterSample 0 (2 ^ 32 - 1) 1)
      = .ok (MPLSStreamInfo.sampleVideo 1920 1080) := rfl
  unfold composePlayListMark
  rw [hm]
  simp [chapterSample, create, h0]

end MPLSParser

namespace CLPIParser

/-- C32: for every EP index (the index `m_index[m_clpiNum]` of the stream, of at most 2^32
entries, with time stamps below 2^51 and 32-bit packet counts), every fine entry j belongs to
a coarse entry c returned by `buildCoarseInfo` (the last one with m_fineRefID <= j), and
timestamp_j >> 19 = c.m_coarsePts, pktCnt_j & 0xFFFE0000 = c.m_pktCnt & 0xFFFE0000, so that
pktCnt_j = (c.m_pktCnt & 0xFFFE0000) + pktCnt_j mod 2^17. -/
theorem buildCoarseInfo_groups (self : CLPIParser) (streamInfo : CLPIStreamInfo)
    (hts : ∀ e ∈ streamInfo.m_index.getD self.m_clpiNum [], e.1 < 2 ^ 51)
    (hpkt : ∀ e ∈ streamInfo.m_index.getD self.m_clpiNum [], e.2.m_pktCnt < 2 ^ 32)
    (h32 : (streamInfo.m_index.getD self.m_clpiNum []).length ≤ 2 ^ 32)
    (j : Nat) (hj : j < (streamInfo.m_index.getD self.m_clpiNum []).length) :
    ∃ c, ownerOf (buildCoarseInfo self streamInfo) j = some c ∧
      (streamInfo.m_index.getD self.m_clpiNum [])[j].1 >>> 19 = c.m_coarsePts ∧
      (streamInfo.m_index.getD self.m_clpiNum [])[j].2.m_pktCnt &&& 0xfffe0000
        = c.m_pktCnt &&& 0xfffe0000 ∧
      (streamInfo.m_index.getD self.m_clpiNum [])[j].2.m_pktCnt
        = (c.m_pktCnt &&& 0xfffe0000)
          + (streamInfo.m_index.getD self.m_clpiNum [])[j].2.m_pktCnt % 2 ^ 17 := by
  obtain ⟨c, h1, h2, h3⟩ :=
    foldl_coarseStep_owner (streamInfo.m_index.getD self.m_clpiNum []) h32 j hj
  have hmem := List.getElem_mem hj
  have ht := hts _ hmem
  have hp := hpkt _ hmem
  refine ⟨c, by rw [buildCoarseInfo_eq_foldl]; exact h1, ?_, h3.symm, ?_⟩
  · rw [h2, Nat.mod_eq_of_lt]
    rw [Nat.shiftRight_eq_div_pow]
    omega
  · rw [h3, and_fffe0000 _ hp]
    omega

/-- Witness of C32: the third entry of an index of three entries starts the second coarse
entry. -/
theorem buildCoarseInfo_groups_witness :
    ∃ c, ownerOf (buildCoarseInfo (withStreams []) CLPIStreamInfo.indexedVideo) 2 = some c ∧
      (1080000 : Nat) >>> 19 = c.m_coarsePts ∧
      (140000 : Nat) &&& 0xfffe0000 = c.m_pktCnt &&& 0xfffe0000 ∧
      (140000 : Nat) = (c.m_pktCnt &&& 0xfffe0000) + 140000 % 2 ^ 17 :=
  buildCoarseInfo_groups (withStreams []) CLPIStreamInfo.indexedVideo (by decide) (by decide)
    (by decide) 2 (by decide)

end CLPIParser

namespace TS_program_map_section

/-- C37: `deserialize` reads a byte at the offset buf_size. For the section `truncatedCas`
of 18 bytes and buf_size = 18 it returns true, and the casPID it stores has as its low byte
the byte that follows the buffer: two memories that agree on the 18 bytes of the buffer give
the casPID 0x6aa and 0x6bb. -/
theorem deserialize_reads_past_end :
    (truncatedCas ++ [0xaa]).take 18 = (truncatedCas ++ [0xbb]).take 18 ∧
    (deserialize StreamTypeCodes.standard TSDescriptorTagCodes.standard create
      (truncatedCas ++ [0xaa]) 18).1 = true ∧
    (deserialize StreamTypeCodes.standard TSDescriptorTagCodes.standard create
      (truncatedCas ++ [0xbb]) 18).1 = true ∧
    (deserialize StreamTypeCodes.standard TSDescriptorTagCodes.standard create
      (truncatedCas ++ [0xaa]) 18).2.casPID = 0x6aa ∧
    (deserialize StreamTypeCodes.standard TSDescriptorTagCodes.standard create
      (truncatedCas ++ [0xbb]) 18).2.casPID = 0x6bb := by
  refine ⟨?_, ?_, ?_, ?_, ?_⟩ <;> decide

end TS_program_map_section

/-- C38: both `parseExtensionData` functions dispatch an entry whose dataAddress + dataLength
exceeds the size of the extension buffer when the sum wraps around 2^32. For a buffer of 24
bytes holding one entry with dataAddress = 24 and dataLength = 0xFFFFFFFF (unbounded sum
2^32 + 23, 32-bit sum 23), `CLPIParser::parseExtensionData` calls `Extent_Start_Point` on the
bytes behind the buffer and stores the extent start found there, and
`MPLSParser::parseExtensionData` sets isDependStreamExist and calls `parseStnTableSS` on the
bytes behind the buffer, whatever the sub-parsers do. -/
theorem parseExtensionData_wraps :
    24 + 0xffffffff > (wrappingEntry 0x00020004).length ∧
    (wrappingEntry 0x00020004).length = 24 ∧
    CLPIParser.parseExtensionData StreamTypeCodes.standard CLPIStreamInfo.blank
        (CLPIParser.withStreams []) (wrappingEntry 0x00020004 ++ extentBytes) 24
      = .ok { CLPIParser.withStreams [] with SPN_extent_start := [7] } ∧
    ∀ (parseStnTableSS parseSubPathEntryExtension : MPLSParser → List Nat → MPLSParser)
      (self : MPLSParser),
      MPLSParser.parseExtensionData parseStnTableSS parseSubPathEntryExtension self
          (wrappingEntry 0x00020001 ++ extentBytes) 24
        = parseStnTableSS { self with isDependStreamExist := true } extentBytes := by
  refine ⟨by decide, by decide, by rfl, ?_⟩
  intro P1 P2 self
  rfl

namespace MPLSStreamInfo

open BitStreamWriter

/-- C35: for every `MPLSStreamInfo` of a video, audio or PGS type (coding type below 256) with
4-bit attribute values and a language of 3 characters, `composeStreamAttributes` writes 6
bytes with the length byte 5, and `parseStreamAttributes` applied to them recovers
stream_coding_type and, for video, video_format and frame_rate_index; for audio,
audio_presentation_type and language_code, while sampling_frequency_index is skipped and
keeps the value the parsing object had; for PGS, language_code. -/
theorem parseStreamAttributes_recovers (E : StreamTypeCodes) (self0 si : MPLSStreamInfo)
    (hs : isVideoStreamType E si.stream_coding_type = true ∨
      isAudioStreamType E si.stream_coding_type = true ∨ si.stream_coding_type = E.SUB_PGS)
    (h8 : si.stream_coding_type < 256)
    (hv : si.video_format < 16 ∧ si.frame_rate_index < 16)
    (ha : si.audio_presentation_type < 16 ∧ si.sampling_frequency_index < 16)
    (hl : si.language_code.length = 3 ∧ ∀ ch ∈ si.language_code, ch < 256) :
    (∃ w, composeStreamAttributes E si [] = .ok w ∧ (bytes w).length = 6 ∧
      (bytes w).head? = some 5) ∧
    ∃ out, reparsed E self0 si = some out ∧
      out.stream_coding_type = si.stream_coding_type ∧
      (isVideoStreamType E si.stream_coding_type = true →
        out.video_format = si.video_format ∧ out.frame_rate_index = si.frame_rate_index) ∧
      (isVideoStreamType E si.stream_coding_type = false →
        isAudioStreamType E si.stream_coding_type = true →
        out.audio_presentation_type = si.audio_presentation_type ∧
        out.language_code = si.language_code ∧
        out.sampling_frequency_index = self0.sampling_frequency_index) ∧
      (isVideoStreamType E si.stream_coding_type = false →
        isAudioStreamType E si.stream_coding_type = false →
        out.language_code = si.language_code) := by
  have hlang : [si.language_code.getD 0 0 % 256, si.language_code.getD 1 0 % 256,
      si.language_code.getD 2 0 % 256] = si.language_code := by
    obtain ⟨h3, hc⟩ := hl
    rcases hlc : si.language_code with _ | ⟨a, _ | ⟨b, _ | ⟨d, _ | ⟨e, r⟩⟩⟩⟩
    · rw [hlc] at h3; simp at h3
    · rw [hlc] at h3; simp at h3
    · rw [hlc] at h3; simp at h3
    · rw [hlc] at hc
      have h1 := hc a (by simp)
      have h2 := hc b (by simp)
      have h4 := hc d (by simp)
      simp only [List.getD_cons_zero, List.getD_cons_succ, Nat.mod_eq_of_lt h1,
        Nat.mod_eq_of_lt h2, Nat.mod_eq_of_lt h4]
    · rw [hlc] at h3; simp at h3
  refine ⟨⟨attrBits E si, ?_, ?_, ?_⟩, parsedAttributes E self0 si,
    reparsed_eq E self0 si hs h8, ?_, ?_, ?_, ?_⟩
  · rw [composeStreamAttributes_eq E si [] (by decide), if_pos hs, List.nil_append]
  · rw [bytes, bitsToBytes_length _ (by rw [attrBits_length]), attrBits_length]
  · simp only [bytes, attrBits, List.append_assoc, bitsToBytes_natBits8]
    rfl
  · unfold parsedAttributes
    dsimp only
    split_ifs <;> rfl
  · intro h
    simp only [parsedAttributes, h, if_true, Nat.mod_eq_of_lt hv.1, Nat.mod_eq_of_lt hv.2,
      and_self]
  · intro h1 h2
    simp only [parsedAttributes, h1, h2, if_true, Bool.false_eq_true, if_false,
      Nat.mod_eq_of_lt ha.1, hlang, and_self]
  · intro h1 h2
    simp only [parsedAttributes, h1, h2, Bool.false_eq_true, if_false, hlang]

/-- Witness of C35: an AC-3 audio stream with the language `eng`, parsed into a blank
object. -/
theorem parseStreamAttributes_recovers_witness :
    (∃ w, composeStreamAttributes StreamTypeCodes.standard (sample 0x81 0x1100) [] = .ok w ∧
      (bytes w).length = 6 ∧ (bytes w).head? = some 5) ∧
    ∃ out, reparsed StreamTypeCodes.standard blank (sample 0x81 0x1100) = some out ∧
      out.stream_coding_type = (sample 0x81 0x1100).stream_coding_type ∧
      (isVideoStreamType StreamTypeCodes.standard (sample 0x81 0x1100).stream_coding_type
          = true →
        out.video_format = (sample 0x81 0x1100).video_format ∧
        out.frame_rate_index = (sample 0x81 0x1100).frame_rate_index) ∧
      (isVideoStreamType StreamTypeCodes.standard (sample 0x81 0x1100).stream_coding_type
          = false →
        isAudioStreamType StreamTypeCodes.standard (sample 0x81 0x1100).stream_coding_type
          = true →
        out.audio_presentation_type = (sample 0x81 0x1100).audio_presentation_type ∧
        out.language_code = (sample 0x81 0x1100).language_code ∧
        out.sampling_frequency_index = blank.sampling_frequency_index) ∧
      (isVideoStreamType StreamTypeCodes.standard (sample 0x81 0x1100).stream_coding_type
          = false →
        isAudioStreamType StreamTypeCodes.standard (sample 0x81 0x1100).stream_coding_type
          = false →
        out.language_code = (sample 0x81 0x1100).language_code) :=
  parseStreamAttributes_recovers StreamTypeCodes.standard blank (sample 0x81 0x1100)
    (by decide) (by decide) (by decide) (by decide) (by decide)

/-- Counterexample of C35: an AC-3 audio stream with sampling_frequency_index = 1 is written
by `composeStreamAttributes` and read by `parseStreamAttributes` into an object whose
sampling_frequency_index is 0: the index read back is 0, not 1, while
audio_presentation_type and the language are recovered. -/
theorem parseStreamAttributes_sampling_counterexample :
    (sample 0x81 0x1100).sampling_frequency_index = 1 ∧
    (reparsed StreamTypeCodes.standard blank (sample 0x81 0x1100)).map
        (fun out => (out.stream_coding_type, out.audio_presentation_type,
          out.sampling_frequency_index, out.language_code))
      = some (0x81, 3, 0, [101, 110, 103]) := by
  constructor <;> decide

/-- C36: the stream-type classification is the same in `composeStreamAttributes` and
`parseStreamAttributes` for the video types, the audio types and SUB_PGS (coding type below
256): `composeStreamAttributes` succeeds, writes 48 bits behind the writer, and
`parseStreamAttributes` reads exactly these 48 bits, whatever follows them, and finds the
coding type; for every other coding type, SUB_IGS and SUB_TGS included,
`composeStreamAttributes` ends with the fatal error "Unsupported media type". -/
theorem streamAttributes_classification (E : StreamTypeCodes) (self0 si : MPLSStreamInfo)
    (w : BitStreamWriter) (rest : List Bool) (c : Nat) (hw : w.length % 8 = 0)
    (h8 : si.stream_coding_type < 256) :
    ((isVideoStreamType E si.stream_coding_type = true ∨
        isAudioStreamType E si.stream_coding_type = true ∨ si.stream_coding_type = E.SUB_PGS) →
      ∃ layout out, composeStreamAttributes E si w = .ok (w ++ layout) ∧ layout.length = 48 ∧
        parseStreamAttributes E self0 ⟨layout ++ rest, c⟩ = .ok (out, ⟨rest, c + 48⟩) ∧
        out.stream_coding_type = si.stream_coding_type) ∧
    (¬ (isVideoStreamType E si.stream_coding_type = true ∨
        isAudioStreamType E si.stream_coding_type = true ∨ si.stream_coding_type = E.SUB_PGS) →
      ∃ writer, composeStreamAttributes E si w
        = .error (Exc.VodCoreException ErrMsg.unsupportedMediaType, writer)) := by
  constructor
  · intro hs
    refine ⟨attrBits E si, parsedAttributes E self0 si, ?_, attrBits_length E si,
      parseStreamAttributes_attrBits E self0 si rest c hs h8, ?_⟩
    · rw [composeStreamAttributes_eq E si w hw, if_pos hs]
    · unfold parsedAttributes
      dsimp only
      split_ifs <;> rfl
  · intro hs
    rw [composeStreamAttributes_eq E si w hw, if_neg hs]
    exact ⟨_, rfl⟩

/-- Witness of C36: a PG stream, written into an empty writer. -/
theorem streamAttributes_classification_witness :
    ((isVideoStreamType StreamTypeCodes.standard (sample 0x90 0x1200).stream_coding_type = true ∨
        isAudioStreamType StreamTypeCodes.standard (sample 0x90 0x1200).stream_coding_type
          = true ∨
        (sample 0x90 0x1200).stream_coding_type = StreamTypeCodes.standard.SUB_PGS) →
      ∃ layout out, composeStreamAttributes StreamTypeCodes.standard (sample 0x90 0x1200) []
          = .ok ([] ++ layout) ∧ layout.length = 48 ∧
        parseStreamAttributes StreamTypeCodes.standard blank ⟨layout ++ [], 0⟩
          = .ok (out, ⟨[], 0 + 48⟩) ∧
        out.stream_coding_type = (sample 0x90 0x1200).stream_coding_type) ∧
    (¬ (isVideoStreamType StreamTypeCodes.standard (sample 0x90 0x1200).stream_coding_type
          = true ∨
        isAudioStreamType StreamTypeCodes.standard (sample 0x90 0x1200).stream_coding_type
          = true ∨
        (sample 0x90 0x1200).stream_coding_type = StreamTypeCodes.standard.SUB_PGS) →
      ∃ writer, composeStreamAttributes StreamTypeCodes.standard (sample 0x90 0x1200) []
        = .error (Exc.VodCoreException ErrMsg.unsupportedMediaType, writer)) :=
  streamAttributes_classification StreamTypeCodes.standard blank (sample 0x90 0x1200) [] [] 0
    (by decide) (by decide)

/-- Counterexample of C36: `parseStreamAttributes` gives the coding types SUB_IGS (0x91) and
SUB_TGS (0x92) a layout (it reads the language of an IG stream and the character code and
the language of a text subtitle stream), and `composeStreamAttributes` does not succeed for
them: it ends with the fatal error "Unsupported media type". -/
theorem streamAttributes_igs_counterexample :
    ((parseStreamAttributes StreamTypeCodes.standard blank
        ⟨bytesToBits [5, 0x91, 101, 110, 103, 0], 0⟩).toOption.map
          (fun r => (r.1.language_code, r.2.count))) = some ([101, 110, 103], 48) ∧
    ((parseStreamAttributes StreamTypeCodes.standard blank
        ⟨bytesToBits [5, 0x92, 1, 101, 110, 103], 0⟩).toOption.map
          (fun r => (r.1.character_code, r.1.language_code, r.2.count)))
      = some (1, [101, 110, 103], 48) ∧
    composeStreamAttributes StreamTypeCodes.standard (sample 0x91 0x1400) []
      = .error (Exc.VodCoreException ErrMsg.unsupportedMediaType, bytesToBits [0, 0x91]) ∧
    composeStreamAttributes StreamTypeCodes.standard (sample 0x92 0x1800) []
      = .error (Exc.VodCoreException ErrMsg.unsupportedMediaType, bytesToBits [0, 0x92]) := by
  refine ⟨by decide, by decide, by rfl, by rfl⟩

end MPLSStreamInfo

namespace MPLSParser

open BitStreamWriter

/-- C34: for the accepted list of a primary video stream and a secondary video stream with
HDR = 4, `composeSTN_table` writes the counts 1 primary video, 1 secondary video and 0 Dolby
Vision video in the header, and emits three stream entries: the primary video stream, the
secondary stream in the secondary video section (entry type 3) and the same stream once more
in the Dolby Vision section (entry type 4). `STN_table` reads two streams from these 68
bytes and stops after 52 of them. -/
theorem composeSTN_table_emits_twice :
    secondaryVideoCount StreamTypeCodes.standard secondaryDolbyVision.m_streamInfo = 1 ∧
    dolbyVisionCount StreamTypeCodes.standard secondaryDolbyVision.m_streamInfo = 0 ∧
    stnBytes StreamTypeCodes.standard secondaryDolbyVision
      = some [0, 66, 0, 0,
          1, 0, 0, 0, 0, 1, 0, 0, 0, 0, 0, 0,
          9, 1, 0x10, 0x11, 0, 0, 0, 0, 0, 0, 5, 0x1b, 0x61, 0, 0, 0,
          9, 3, 0, 0x10, 0x15, 0, 0, 0, 0, 0, 5, 0x24, 0x61, 0x22, 0, 0, 0, 0, 0, 0,
          9, 4, 0, 0x10, 0x15, 0, 0, 0, 0, 0, 5, 0x24, 0x61, 0x22, 0, 0] ∧
    (stnBytes StreamTypeCodes.standard secondaryDolbyVision).bind
        (stnParsed StreamTypeCodes.standard MPLSStreamInfo.blank)
      = some ([(0x1011, 0x1b), (0x1015, 0x24)], 52) := by
  refine ⟨by decide, by decide, by decide!, by decide!⟩

end MPLSParser

namespace MPLSParser

open BitStreamWriter MPLSStreamInfo

/-- C33: for every stream list accepted by `composeSTN_table` (isSSEx = false, writer at a
byte boundary) that contains no Dolby-Vision video (no stream with HDR == 4) and no primary
video stream of the type VIDEO_MVC, with at most 255 streams per category, PIDs below 2^16,
coding types below 256 that are of one class each, and fewer than 65536 bytes behind the
length field: the backpatched 16-bit length equals the number of bytes written after the
length field; `STN_table` parsing the bytes written consumes exactly these length + 2 bytes,
reads back the same category counts, and for play item 0 appends streams with the same (PID,
coding type) sequence as was emitted (primary video, primary audio, PG, secondary audio,
secondary video), those of the secondary audio and secondary video sections marked
isSecondary. -/
theorem STN_table_roundtrip (E : StreamTypeCodes) (fresh : MPLSStreamInfo)
    (self self' self0 : MPLSParser) (w out : BitStreamWriter) (rest : List Bool) (c : Nat)
    (hw : w.length % 8 = 0)
    (h : composeSTN_table E self w false = .ok (self', out))
    (hE : DisjointClasses E self.m_streamInfo)
    (hDV : ∀ i ∈ self.m_streamInfo, i.HDR ≠ 4)
    (hMVC : ∀ i ∈ self.m_streamInfo, isVideoStreamType E i.stream_coding_type = true →
      ¬ i.isSecondary = true → i.stream_coding_type ≠ E.VIDEO_MVC)
    (h255 : primaryVideoCount E self.m_streamInfo ≤ 255 ∧
      primaryAudioCount E self.m_streamInfo ≤ 255 ∧ pgCount E self.m_streamInfo ≤ 255 ∧
      secondaryAudioCount E self.m_streamInfo ≤ 255 ∧
      secondaryVideoCount E self.m_streamInfo ≤ 255)
    (hrange : ∀ i ∈ self.m_streamInfo, i.streamPID < 2 ^ 16 ∧ i.stream_coding_type < 256)
    (hsize : out.length / 8 - w.length / 8 - 2 < 2 ^ 16) :
    ∃ T : List Bool, out = w ++ T ∧ T.length % 8 = 0 ∧
      bitsToNat (T.take 16) = T.length / 8 - 2 ∧
      ∃ s, STN_table E fresh self0 ⟨T ++ rest, c⟩ 0 = .ok (s, ⟨rest, c + T.length⟩) ∧
        (s.number_of_primary_video_stream_entries = primaryVideoCount E self.m_streamInfo ∧
          s.number_of_primary_audio_stream_entries = primaryAudioCount E self.m_streamInfo ∧
          s.number_of_PG_textST_stream_entries = pgCount E self.m_streamInfo ∧
          s.number_of_IG_stream_entries = 0 ∧
          s.number_of_secondary_audio_stream_entries
            = secondaryAudioCount E self.m_streamInfo ∧
          s.number_of_secondary_video_stream_entries
            = secondaryVideoCount E self.m_streamInfo ∧
          s.number_of_PiP_PG_textST_stream_entries_plus = 0 ∧
          s.number_of_DolbyVision_video_stream_entries = 0) ∧
        ∃ ps, s.m_streamInfo = self0.m_streamInfo ++ ps ∧
          ps.map (fun p => (p.streamPID, p.stream_coding_type))
            = (emittedStreams E self.m_streamInfo).map
                (fun i => (i.streamPID, i.stream_coding_type)) ∧
          ∀ p ∈ ps.drop (primaryVideoCount E self.m_streamInfo +
              primaryAudioCount E self.m_streamInfo + pgCount E self.m_streamInfo),
            p.isSecondary = true := by
  obtain ⟨hout, hsup, ht⟩ := composeSTN_table_eq E self self' w out hw hDV hMVC h
  have hX := stnEntriesBits_length E self.m_streamInfo
  have hT := stnTableBits_length E self.m_streamInfo
  have hparse := STN_table_stnTableBits E fresh self0 self.m_streamInfo rest c hE hDV hsup
    (fun i hi => (hrange i hi).2) ht h255
  refine ⟨stnTableBits E self.m_streamInfo, hout, by omega, ?_,
    parsedTable E fresh self0 self.m_streamInfo, hparse,
    ⟨rfl, rfl, rfl, rfl, rfl, rfl, rfl, rfl⟩,
    parsedStreams E fresh self.m_streamInfo, rfl,
    parsedStreams_keys E fresh _ (fun i hi => (hrange i hi).1),
    parsedStreams_secondary E fresh _ hE⟩
  have hlen : out.length = w.length + (stnTableBits E self.m_streamInfo).length := by
    rw [hout, List.length_append]
  have htake : (stnTableBits E self.m_streamInfo).take 16
      = natBits 16 (14 + (stnEntriesBits E self.m_streamInfo).length / 8) := by
    unfold stnTableBits
    rw [List.take_left' (natBits_length _ _)]
  rw [htake, bitsToNat_natBits, hT, Nat.mod_eq_of_lt (by omega)]
  omega

/-- Witness of C33: a list with a stream of every category (one primary video stream, two
primary audio streams, a PG stream, a secondary audio stream and a secondary video stream),
written into an empty writer and read into a new playlist object. -/
theorem STN_table_roundtrip_witness :
    ∃ T : List Bool, (stnResult StreamTypeCodes.standard allCategories).2 = [] ++ T ∧
      T.length % 8 = 0 ∧
      bitsToNat (T.take 16) = T.length / 8 - 2 ∧
      ∃ s, STN_table StreamTypeCodes.standard MPLSStreamInfo.blank create ⟨T ++ [], 0⟩ 0
          = .ok (s, ⟨[], 0 + T.length⟩) ∧
        (s.number_of_primary_video_stream_entries
            = primaryVideoCount StreamTypeCodes.standard allCategories.m_streamInfo ∧
          s.number_of_primary_audio_stream_entries
            = primaryAudioCount StreamTypeCodes.standard allCategories.m_streamInfo ∧
          s.number_of_PG_textST_stream_entries
            = pgCount StreamTypeCodes.standard allCategories.m_streamInfo ∧
          s.number_of_IG_stream_entries = 0 ∧
          s.number_of_secondary_audio_stream_entries
            = secondaryAudioCount StreamTypeCodes.standard allCategories.m_streamInfo ∧
          s.number_of_secondary_video_stream_entries
            = secondaryVideoCount StreamTypeCodes.standard allCategories.m_streamInfo ∧
          s.number_of_PiP_PG_textST_stream_entries_plus = 0 ∧
          s.number_of_DolbyVision_video_stream_entries = 0) ∧
        ∃ ps, s.m_streamInfo = create.m_streamInfo ++ ps ∧
          ps.map (fun p => (p.streamPID, p.stream_coding_type))
            = (emittedStreams StreamTypeCodes.standard allCategories.m_streamInfo).map
                (fun i => (i.streamPID, i.stream_coding_type)) ∧
          ∀ p ∈ ps.drop (primaryVideoCount StreamTypeCodes.standard allCategories.m_streamInfo +
              primaryAudioCount StreamTypeCodes.standard allCategories.m_streamInfo +
              pgCount StreamTypeCodes.standard allCategories.m_streamInfo),
            p.isSecondary = true :=
  STN_table_roundtrip StreamTypeCodes.standard MPLSStreamInfo.blank allCategories
    (stnResult StreamTypeCodes.standard allCategories).1 create []
    (stnResult StreamTypeCodes.standard allCategories).2 [] 0 (by decide) (by rfl)
    (by decide) (by decide) (by decide) (by decide) (by decide) (by decide!)

/-- Counterexample of C33: the list with one primary video stream of the type VIDEO_MVC holds
no Dolby-Vision video and is accepted; `composeSTN_table` writes 34 bytes for it (length
field 32), 2 of them behind the attributes of the stream, and `STN_table` reads the stream
and stops after 32 bytes, not after length + 2 = 34. And a list of 256 primary audio streams
is accepted with the primary audio count byte 0. -/
theorem STN_table_roundtrip_counterexample :
    stnBytes StreamTypeCodes.standard primaryMvc
      = some [0, 32, 0, 0, 1, 0, 0, 0, 0, 0, 0, 0, 0, 0, 0, 0,
          9, 1, 0x10, 0x12, 0, 0, 0, 0, 0, 0, 5, 0x20, 0x61, 0, 0, 0, 0, 1] ∧
    (stnBytes StreamTypeCodes.standard primaryMvc).bind
        (stnParsed StreamTypeCodes.standard MPLSStreamInfo.blank)
      = some ([(0x1012, 0x20)], 32) ∧
    ∃ r, composeSTN_table StreamTypeCodes.standard (manyAudio 256) [] false = .ok r ∧
      primaryAudioCount StreamTypeCodes.standard (manyAudio 256).m_streamInfo = 256 ∧
      ((bitsToBytes r.2).drop 4).take 12 = [0, 0, 0, 0, 0, 0, 0, 0, 0, 0, 0, 0] := by
  refine ⟨by decide!, by decide!, ?_⟩
  obtain ⟨r, hr⟩ := composeSTN_table_accepts StreamTypeCodes.standard (manyAudio 256) []
    (by decide) (manyAudio_supported 256) (manyAudio_entryType 256)
  refine ⟨r, hr, (manyAudio_counts 256).2.1, ?_⟩
  have hb := composeSTN_table_bytes StreamTypeCodes.standard (manyAudio 256) [] r (by decide) hr
  obtain ⟨c1, c2, c3, c4, c5, c6⟩ := manyAudio_counts 256
  rw [c1, c2, c3, c4, c5, c6] at hb
  exact hb

end MPLSParser

namespace MPLSParser

open BitStreamWriter

/-- C18, amended: in the buffer `composePip_metadata` fills, the entry for the play item `i` and
the `k`-th PIP stream (the secondary video streams of `m_streamInfo`, in order) holds, in its two
12-bit position fields, the position of the format: (0, 0) for a full-screen PIP; otherwise, with
(W, H) the size of the last video stream of `m_streamInfo` that is not secondary and the scaled
size (w, h) = (floor(width * scale), floor(height * scale)), horizontally `hOffset` for the left
corners and `W - w - hOffset` for the right corners, vertically `vOffset` for the top corners and
`H - h - vOffset` for the bottom corners. This holds whenever that position lies in the range
0..4095 of the fields and, where a scaled size enters the position, the `float` computation of
the source (`scaledSize`) gives `floor(size * scale)`, as it does when the product is exact
(`scaledSize_eq_floor`); the numbers of play items and of PIP streams fit 32 bits. -/
theorem composePip_position (E : StreamTypeCodes) (M : PIPMethods) (self : MPLSParser)
    (pmtIndexList : List PMTIndex) (i k : Nat) (pip : MPLSStreamInfo)
    (hn : pmtIndexList.length < 2 ^ 32) (hm : (pipStreamsOf E self).length < 2 ^ 32)
    (hi : i < pmtIndexList.length) (hk : (pipStreamsOf E self)[k]? = some pip)
    (hw : M.isFullScreen pip.pipParams = false →
      (pip.pipParams.corner = PipCorner.TopRight ∨ pip.pipParams.corner = PipCorner.BottomRight) →
      scaledSize pip.width (M.getScaleCoeff pip.pipParams)
        = ⌊(pip.width : ℚ) * M.getScaleCoeff pip.pipParams⌋)
    (hh : M.isFullScreen pip.pipParams = false →
      (pip.pipParams.corner = PipCorner.BottomRight ∨ pip.pipParams.corner = PipCorner.BottomLeft) →
      scaledSize pip.height (M.getScaleCoeff pip.pipParams)
        = ⌊(pip.height : ℚ) * M.getScaleCoeff pip.pipParams⌋)
    (hX : 0 ≤ (specPipPosition M (mainSizeOf E self).1 (mainSizeOf E self).2 pip).1 ∧
      (specPipPosition M (mainSizeOf E self).1 (mainSizeOf E self).2 pip).1 < 4096)
    (hY : 0 ≤ (specPipPosition M (mainSizeOf E self).1 (mainSizeOf E self).2 pip).2 ∧
      (specPipPosition M (mainSizeOf E self).1 (mainSizeOf E self).2 pip).2 < 4096) :
    (((pipEntryFields (composePip_metadata E M self pmtIndexList).1
        (pmtIndexList.length * (pipStreamsOf E self).length)
        (i * (pipStreamsOf E self).length + k)).1 : Nat) : Int)
      = (specPipPosition M (mainSizeOf E self).1 (mainSizeOf E self).2 pip).1 ∧
    (((pipEntryFields (composePip_metadata E M self pmtIndexList).1
        (pmtIndexList.length * (pipStreamsOf E self).length)
        (i * (pipStreamsOf E self).length + k)).2 : Nat) : Int)
      = (specPipPosition M (mainSizeOf E self).1 (mainSizeOf E self).2 pip).2 := by
  obtain ⟨p1, p2, r1, r2⟩ := pipPosition_spec M (mainSizeOf E self).1 (mainSizeOf E self).2 pip
    hw hh hX hY
  rw [composePip_metadata_fields E M self pmtIndexList i k pip hn hm hi hk]
  simp only
  rw [Nat.mod_eq_of_lt (by omega), Nat.mod_eq_of_lt (by omega)]
  exact ⟨p1, p2⟩

/-- C18 at the example: primary video 1920x1080, one PIP stream of 640x360, scale 1, bottom right
corner, offsets (10, 10), one play item; the fields of the entry hold 1270 and 710. -/
theorem composePip_position_witness :
    (((pipEntryFields (composePip_metadata StreamTypeCodes.standard PIPMethods.unscaled
        (withStreams [MPLSStreamInfo.sampleVideo 1920 1080,
          pipSample 640 360 PipCorner.BottomRight 10 10]) [[]]).1 1 0).1 : Nat) : Int) = 1270 ∧
    (((pipEntryFields (composePip_metadata StreamTypeCodes.standard PIPMethods.unscaled
        (withStreams [MPLSStreamInfo.sampleVideo 1920 1080,
          pipSample 640 360 PipCorner.BottomRight 10 10]) [[]]).1 1 0).2 : Nat) : Int) = 710 := by
  have hs := mainSizeOf_sample 1920 1080 [pipSample 640 360 PipCorner.BottomRight 10 10]
    (by simp [pipSample])
  have hp : specPipPosition PIPMethods.unscaled 1920 1080
      (pipSample 640 360 PipCorner.BottomRight 10 10) = (1270, 710) := by
    simp [specPipPosition, PIPMethods.unscaled, pipSample]
  have h := composePip_position StreamTypeCodes.standard PIPMethods.unscaled
    (withStreams [MPLSStreamInfo.sampleVideo 1920 1080,
      pipSample 640 360 PipCorner.BottomRight 10 10]) [[]] 0 0
    (pipSample 640 360 PipCorner.BottomRight 10 10) (by decide) (by decide) (by decide) rfl
    (fun _ _ => by
      have : ⌊((pipSample 640 360 PipCorner.BottomRight 10 10).width : ℚ) *
          PIPMethods.unscaled.getScaleCoeff
            (pipSample 640 360 PipCorner.BottomRight 10 10).pipParams⌋ = 640 := by
        simp [PIPMethods.unscaled, pipSample]
      rw [this]; decide)
    (fun _ _ => by
      have : ⌊((pipSample 640 360 PipCorner.BottomRight 10 10).height : ℚ) *
          PIPMethods.unscaled.getScaleCoeff
            (pipSample 640 360 PipCorner.BottomRight 10 10).pipParams⌋ = 360 := by
        simp [PIPMethods.unscaled, pipSample]
      rw [this]; decide)
    (by rw [hs, hp]; decide) (by rw [hs, hp]; decide)
  rw [hs, hp] at h
  exact h

/-- C18 (as stated) fails. (1) For a PIP of 1920x1080 on a primary video of 1920x1080, scale 1,
bottom right corner, offsets (10, 10), the position `(W - w - hOffset, H - h - vOffset)` is
(-10, -10), and the fields written hold 4086 and 4086. (2) For a PIP 1920 wide at the top right
corner of a primary video of 1920x1080 with the scale 11744051 / 2^24 (the `float` 0.7f),
`floor(width * scale)` is 1343 and the position `W - w - hOffset` is 577; the `float` product is
rounded to 1344 and the field written holds 576. (3) With two video streams that are not
secondary, 3840x2160 and then 1920x1080, and a PIP of 640x360 at the bottom right corner with
offsets (10, 10), the fields hold (1270, 710), the position on the second of them; on the first
it is (3190, 1790). -/
theorem composePip_position_counterexample :
    (specPipPosition PIPMethods.unscaled 1920 1080
        (pipSample 1920 1080 PipCorner.BottomRight 10 10) = (-10, -10) ∧
      pipEntryFields (composePip_metadata StreamTypeCodes.standard PIPMethods.unscaled
        (withStreams [MPLSStreamInfo.sampleVideo 1920 1080,
          pipSample 1920 1080 PipCorner.BottomRight 10 10]) [[]]).1 1 0 = (4086, 4086)) ∧
    (specPipPosition (PIPMethods.scaledBy (11744051 / 2 ^ 24)) 1920 1080
        (pipSample 1920 1080 PipCorner.TopRight 0 0) = (577, 0) ∧
      pipEntryFields (composePip_metadata StreamTypeCodes.standard
        (PIPMethods.scaledBy (11744051 / 2 ^ 24))
        (withStreams [MPLSStreamInfo.sampleVideo 1920 1080,
          pipSample 1920 1080 PipCorner.TopRight 0 0]) [[]]).1 1 0 = (576, 0)) ∧
    (specPipPosition PIPMethods.unscaled 3840 2160
        (pipSample 640 360 PipCorner.BottomRight 10 10) = (3190, 1790) ∧
      pipEntryFields (composePip_metadata StreamTypeCodes.standard PIPMethods.unscaled
        (withStreams [MPLSStreamInfo.sampleVideo 3840 2160, MPLSStreamInfo.sampleVideo 1920 1080,
          pipSample 640 360 PipCorner.BottomRight 10 10]) [[]]).1 1 0 = (1270, 710)) := by
  refine ⟨⟨?_, by decide!⟩, ⟨?_, by decide!⟩, ?_, by decide!⟩
  · simp [specPipPosition, PIPMethods.unscaled, pipSample]
  · simp only [specPipPosition, PIPMethods.scaledBy, pipSample]
    norm_num
    decide!
  · simp [specPipPosition, PIPMethods.unscaled, pipSample]

end MPLSParser

end TsMuxer
